import Mathlib

/-!
# FatFs core of the Miosix kernel (`miosix/filesystem/fatfs/ff.cpp`)

A shallow embedding of the FAT engine: the share table, the sector window,
the FAT access functions, the cluster allocator, the LFN slot coding, the
directory cursor and the file read/write pipeline, followed by theorems about
them.

Conventions of the embedding

* `BYTE`, `WORD`, `DWORD`, `UINT` values are natural numbers; every place where
  the C code truncates (a store into a narrower field, a wrapping sum) carries
  an explicit `% 2^w`.
* Byte buffers (`win[]`, `buf[]`, a sector of the device) are functions
  `Nat → Nat`; a load reads `b i % 256`, a store writes with
  `Function.update`.
* C functions that mutate the objects they get by pointer return the new
  objects next to their result.
* A loop is a structurally recursive function on a fuel argument; the caller
  passes a bound that the loop cannot exceed and `none` is returned if the fuel
  runs out.
* The configuration is the one of `ffconf.h`: `_MAX_SS = 512` (so `SS(fs)` is
  the constant 512), `_USE_LFN = 1`, `_MAX_LFN = 255`, `_FS_EXFAT = 1`,
  `_FS_RPATH = 0`, `_FS_TINY = 0`, `_FS_READONLY = 0`, `_USE_FASTSEEK = 0`,
  `_USE_TRIM = 0`, `_FS_REENTRANT = 0`, `_FS_LOCK` defined.
-/

namespace FatFs

/-! ## Result codes and constants -/

/-- File function return code (`FRESULT` of `ff.h`). -/
inductive FRESULT where
  | FR_OK | FR_DISK_ERR | FR_INT_ERR | FR_NOT_READY | FR_NO_FILE | FR_NO_PATH
  | FR_INVALID_NAME | FR_DENIED | FR_EXIST | FR_INVALID_OBJECT
  | FR_WRITE_PROTECTED | FR_INVALID_DRIVE | FR_NOT_ENABLED | FR_NO_FILESYSTEM
  | FR_MKFS_ABORTED | FR_TIMEOUT | FR_LOCKED | FR_NOT_ENOUGH_CORE
  | FR_TOO_MANY_OPEN_FILES | FR_INVALID_PARAMETER
  deriving DecidableEq, Repr

open FRESULT

/-- Sector size: `SS(fs)` with `_MAX_SS == 512`. -/
def SS : Nat := 512
/-- Size of a directory entry. -/
def SZ_DIR : Nat := 32
/-- Max size of a FAT directory. -/
def MAX_DIR : Nat := 0x200000
/-- Max size of an exFAT directory. -/
def MAX_DIR_EX : Nat := 0x10000000
/-- Maximum LFN length. -/
def MAX_LFN : Nat := 255

def FS_FAT12 : Nat := 1
def FS_FAT16 : Nat := 2
def FS_FAT32 : Nat := 3
def FS_EXFAT : Nat := 4

def FA_READ : Nat := 0x01
def FA_WRITE : Nat := 0x02
def FA_MODIFIED : Nat := 0x40
def FA_DIRTY : Nat := 0x80

def AM_RDO : Nat := 0x01
def AM_VOL : Nat := 0x08
def AM_LFN : Nat := 0x0F
def AM_DIR : Nat := 0x10
def AM_ARC : Nat := 0x20
def AM_MASK : Nat := 0x3F

def NS : Nat := 11
def NS_LOSS : Nat := 0x01
def NS_LFN : Nat := 0x02
def NS_LAST : Nat := 0x04
def NS_BODY : Nat := 0x08
def NS_EXT : Nat := 0x10
def NS_DOT : Nat := 0x20
def NS_NOLFN : Nat := 0x40
def NS_NONAME : Nat := 0x80

def DIR_Name : Nat := 0
def DIR_Attr : Nat := 11
def DIR_NTres : Nat := 12
def DIR_FstClusHI : Nat := 20
def DIR_FstClusLO : Nat := 26
def DIR_FileSize : Nat := 28
def LDIR_Ord : Nat := 0
def LDIR_Attr : Nat := 11
def LDIR_Type : Nat := 12
def LDIR_Chksum : Nat := 13
def LDIR_FstClusLO : Nat := 26
def LLE : Nat := 0x40
def DDE : Nat := 0xE5
def NDDE : Nat := 0x05

/-- Two to the 32: the modulus of `DWORD`, `UINT` and `LBA_t` arithmetic. -/
def W32 : Nat := 4294967296
/-- Two to the 16: the modulus of `WORD` and `WCHAR` arithmetic. -/
def W16 : Nat := 65536

/-! ## Data model -/

/-- Open-object lock semaphore (`FILESEM` of `ff.h`): `fs` is the volume
pointer (0 is the blank entry), `clu` the directory start cluster, `idx` a
16-bit field, `ctr` the 16-bit open counter. -/
structure FILESEM where
  fs : Nat := 0
  clu : Nat := 0
  idx : Nat := 0
  ctr : Nat := 0
  deriving DecidableEq, Repr

/-- Modelled from the spec: the block device behind `disk_read` and
`disk_write` (the `diskio` layer is not part of `ff.cpp`). A device holds its
sectors and, for every sector, whether a read and whether a write of that
sector completes; a transfer that does not complete leaves the data as it is.
`syncOk` tells whether the `CTRL_SYNC` request of `disk_ioctl` completes. -/
structure Drive where
  data : Nat → Nat → Nat := fun _ _ => 0
  rdOk : Nat → Bool := fun _ => true
  wrOk : Nat → Bool := fun _ => true
  syncOk : Bool := true

/-- Object identifier (`FFOBJID`). The member `fs` is the value of the pointer
to the hosting volume (0 is the null pointer); the volume it points to is the
one the functions receive next to the object. -/
structure FFOBJID where
  fs : Nat := 1
  id : Nat := 0
  attr : Nat := 0
  stat : Nat := 0
  sclust : Nat := 0
  objsize : Nat := 0
  n_cont : Nat := 0
  n_frag : Nat := 0
  c_scl : Nat := 0
  c_size : Nat := 0
  c_ofs : Nat := 0
  lockid : Nat := 0

/-- Filesystem object (`FATFS`). `addr` is the address of the object (what a
`FATFS*` compares equal to), `lfnbuf` is the file-static `LfnBuf[]` that
`fs->lfnbuf` points to after a mount and `LfnBuf` is the member array of the
same name. -/
structure FATFS where
  addr : Nat := 1
  fs_type : Nat := 0
  n_fats : Nat := 1
  wflag : Nat := 0
  fsi_flag : Nat := 0
  id : Nat := 0
  n_rootdir : Nat := 0
  csize : Nat := 1
  last_clust : Nat := 0
  free_clust : Nat := 0
  n_fatent : Nat := 0
  fsize : Nat := 0
  volbase : Nat := 0
  fatbase : Nat := 0
  dirbase : Nat := 0
  database : Nat := 0
  winsect : Nat := 0
  win : Nat → Nat := fun _ => 0
  bitbase : Nat := 0
  lfnbuf : Nat → Nat := fun _ => 0
  LfnBuf : Nat → Nat := fun _ => 0
  Files : List FILESEM := []
  drv : Drive := {}

/-- What a `WCHAR*` name pointer of a directory object refers to. -/
inductive LfnPtr where
  | null | member | static
  deriving DecidableEq, Repr

/-- Directory object (`DIR_`). `dir` is the offset of the current entry in
`win[]` (`none` is the null pointer). Both `obj.sclust` and the separate
member `sclust` exist in the structure. -/
structure DIR_ where
  obj : FFOBJID := {}
  dptr : Nat := 0
  index : Nat := 0
  sclust : Nat := 0
  clust : Nat := 0
  sect : Nat := 0
  dir : Option Nat := none
  fn : Nat → Nat := fun _ => 0
  blk_ofs : Nat := 0
  lockid : Nat := 0
  lfn : LfnPtr := LfnPtr.null
  lfn_idx : Nat := 0

/-- File object (`FIL`). -/
structure FIL where
  id : Nat := 0
  flag : Nat := 0
  err : Nat := 0
  fptr : Nat := 0
  fsize : Nat := 0
  clust : Nat := 0
  dsect : Nat := 0
  obj : FFOBJID := {}
  sect : Nat := 0
  dir_sect : Nat := 0
  dir_ptr : Option Nat := none
  lockid : Nat := 0
  buf : Nat → Nat := fun _ => 0

/-! ## Load/store of little-endian words -/

/-- Read of one `BYTE` of a buffer. -/
def ldb (b : Nat → Nat) (i : Nat) : Nat := b i % 256

/-- Store of one `BYTE` into a buffer. -/
def stb (b : Nat → Nat) (i v : Nat) : Nat → Nat := Function.update b i (v % 256)

/-- Load a 2-byte little-endian word (`ld_word`, `LD_WORD`). -/
def ld_word (b : Nat → Nat) (p : Nat) : Nat :=
  ((ldb b (p + 1) <<< 8) % W16) ||| ldb b p

/-- Load a 4-byte little-endian word (`ld_dword`, `LD_DWORD`). -/
def ld_dword (b : Nat → Nat) (p : Nat) : Nat :=
  let rv := ldb b (p + 3)
  let rv := ((rv <<< 8) % W32) ||| ldb b (p + 2)
  let rv := ((rv <<< 8) % W32) ||| ldb b (p + 1)
  ((rv <<< 8) % W32) ||| ldb b p

/-- Store a 2-byte word in little-endian (`st_word`, `ST_WORD`). -/
def st_word (b : Nat → Nat) (p v : Nat) : Nat → Nat :=
  let v := v % W16
  stb (stb b p v) (p + 1) (v >>> 8)

/-- Store a 4-byte word in little-endian (`st_dword`). -/
def st_dword (b : Nat → Nat) (p v : Nat) : Nat → Nat :=
  let v := v % W32
  stb (stb (stb (stb b p v) (p + 1) (v >>> 8)) (p + 2) (v >>> 16)) (p + 3) (v >>> 24)

/-! ## File lock control functions -/

/-- The search loop of `chk_share`; returns the final `i` and `be`. -/
def chk_share_scan (fsp sclust dptr : Nat) : List FILESEM → Nat → Nat → Nat × Nat
  | [], i, be => (i, be)
  | e :: es, i, be =>
    if e.fs ≠ 0 then
      if e.fs = fsp ∧ e.clu = sclust ∧ e.idx = dptr then (i, be)
      else chk_share_scan fsp sclust dptr es (i + 1) be
    else chk_share_scan fsp sclust dptr es (i + 1) 1

/-- Check if the file can be accessed (`chk_share`); `acc` is 0 for a read
mode open, 1 for a write mode open, 2 for delete or rename. The table has
`FATFS_MAX_OPEN_FILES` entries, here the length of `fs.Files`. -/
def chk_share (fs : FATFS) (dp : DIR_) (acc : Nat) : FRESULT :=
  let r := chk_share_scan fs.addr dp.obj.sclust dp.dptr fs.Files 0 0
  if r.1 = fs.Files.length then
    if r.2 = 0 ∧ acc ≠ 2 then FR_TOO_MANY_OPEN_FILES else FR_OK
  else
    if acc ≠ 0 ∨ (fs.Files.getD r.1 {}).ctr = 0x100 then FR_LOCKED else FR_OK

/-- The first loop of `inc_share`: index of the entry of the object, or the
table length. -/
def inc_share_find (fsp sclust dptr : Nat) : List FILESEM → Nat → Nat
  | [], i => i
  | e :: es, i =>
    if e.fs = fsp ∧ e.clu = sclust ∧ e.idx = dptr then i
    else inc_share_find fsp sclust dptr es (i + 1)

/-- The second loop of `inc_share` (and the loop of `enq_share`): index of the
first blank entry, or the table length. -/
def inc_share_blank : List FILESEM → Nat → Nat
  | [], i => i
  | e :: es, i => if e.fs ≠ 0 then inc_share_blank es (i + 1) else i

/-- Check if an entry is available for a new object (`enq_share`). -/
def enq_share (fs : FATFS) : Nat :=
  if inc_share_blank fs.Files 0 = fs.Files.length then 0 else 1

/-- Increment the object open counter (`inc_share`); returns the index from 1
(0 is an internal error) and the volume with the updated table. The stores
into the 16-bit fields `idx` and `ctr` truncate. -/
def inc_share (fs : FATFS) (dp : DIR_) (acc : Nat) : Nat × FATFS :=
  let i := inc_share_find fs.addr dp.obj.sclust dp.dptr fs.Files 0
  let reg : Option (Nat × List FILESEM) :=
    if i = fs.Files.length then
      let j := inc_share_blank fs.Files 0
      if j = fs.Files.length then none
      else some (j, fs.Files.set j
        { fs := fs.addr, clu := dp.obj.sclust, idx := dp.dptr % W16, ctr := 0 })
    else some (i, fs.Files)
  match reg with
  | none => (0, fs)
  | some (i, files) =>
    let e := files.getD i {}
    if acc ≥ 1 ∧ e.ctr ≠ 0 then (0, { fs with Files := files })
    else
      let ctr := if acc ≠ 0 then 0x100 else (e.ctr + 1) % W16
      (i + 1, { fs with Files := files.set i { e with ctr := ctr } })

/-- Decrement the object open counter (`dec_share`); `i` is the index from 1. -/
def dec_share (fs : FATFS) (i : Nat) : FRESULT × FATFS :=
  let i := (i + W32 - 1) % W32
  if i < fs.Files.length then
    let e := fs.Files.getD i {}
    let n := e.ctr
    let n := if n = 0x100 then 0 else n
    let n := if n > 0 then n - 1 else n
    let e := { e with ctr := n }
    let e := if n = 0 then { e with fs := 0 } else e
    (FR_OK, { fs with Files := fs.Files.set i e })
  else (FR_INT_ERR, fs)

/-- Clear all lock entries of the volume (`clear_share`). -/
def clear_share (fs : FATFS) : FATFS :=
  { fs with Files := fs.Files.map fun e => if e.fs = fs.addr then { e with fs := 0 } else e }

/-! ## Device access and the sector window -/

/-- Modelled from the spec: `disk_read(drv, buff, sector, 1)` of the block
device contract; `none` is a result other than `RES_OK`. -/
def disk_read (drv : Drive) (sect : Nat) : Option (Nat → Nat) :=
  if drv.rdOk sect then some (drv.data sect) else none

/-- Modelled from the spec: `disk_write(drv, buff, sector, 1)` of the block
device contract; the flag tells whether the result is `RES_OK`. -/
def disk_write (drv : Drive) (buff : Nat → Nat) (sect : Nat) : Bool × Drive :=
  if drv.wrOk sect then (true, { drv with data := Function.update drv.data sect buff })
  else (false, drv)

/-- Flush the disk access window (`sync_window`). -/
def sync_window (fs : FATFS) : FRESULT × FATFS :=
  if fs.wflag ≠ 0 then
    let w := disk_write fs.drv fs.win fs.winsect
    if w.1 then
      let fs := { fs with drv := w.2, wflag := 0 }
      if (fs.winsect + W32 - fs.fatbase) % W32 < fs.fsize then
        if fs.n_fats = 2 then
          (FR_OK, { fs with drv := (disk_write fs.drv fs.win ((fs.winsect + fs.fsize) % W32)).2 })
        else (FR_OK, fs)
      else (FR_OK, fs)
    else (FR_DISK_ERR, fs)
  else (FR_OK, fs)

/-- Move the disk access window to sector `sect` (`move_window`). -/
def move_window (fs : FATFS) (sect : Nat) : FRESULT × FATFS :=
  if sect ≠ fs.winsect then
    let r := sync_window fs
    if r.1 = FR_OK then
      match disk_read r.2.drv sect with
      | some b => (FR_OK, { r.2 with win := b, winsect := sect })
      | none => (FR_DISK_ERR, { r.2 with winsect := W32 - 1 })
    else (r.1, r.2)
  else (FR_OK, fs)

/-- Get the sector number from a cluster number (`clust2sect`); 0 is a failure. -/
def clust2sect (fs : FATFS) (clst : Nat) : Nat :=
  let clst := (clst + W32 - 2) % W32
  if clst ≥ (fs.n_fatent + W32 - 2) % W32 then 0
  else (clst * fs.csize + fs.database) % W32

/-! ## FAT access -/

/-- Read the value of a FAT entry (`get_fat`): `0xFFFFFFFF` is a disk error,
1 an internal error. In the `FS_EXFAT` case every `break` leaves the `switch`
and reaches the final `return 0xFFFFFFFF`. -/
def get_fat (fs : FATFS) (obj : FFOBJID) (clst : Nat) : Nat × FATFS :=
  if clst < 2 ∨ clst ≥ fs.n_fatent then (1, fs)
  else if fs.fs_type = FS_FAT12 then
    let bc := (clst + clst / 2) % W32
    let r := move_window fs ((fs.fatbase + bc / SS) % W32)
    if r.1 ≠ FR_OK then (0xFFFFFFFF, r.2) else
    let wc := ldb r.2.win (bc % SS)
    let bc := (bc + 1) % W32
    let r := move_window r.2 ((r.2.fatbase + bc / SS) % W32)
    if r.1 ≠ FR_OK then (0xFFFFFFFF, r.2) else
    let wc := wc ||| (ldb r.2.win (bc % SS) <<< 8)
    (if clst &&& 1 ≠ 0 then wc >>> 4 else wc &&& 0xFFF, r.2)
  else if fs.fs_type = FS_FAT16 then
    let r := move_window fs ((fs.fatbase + clst / (SS / 2)) % W32)
    if r.1 ≠ FR_OK then (0xFFFFFFFF, r.2) else
    (ld_word r.2.win (clst * 2 % W32 % SS), r.2)
  else if fs.fs_type = FS_FAT32 then
    let r := move_window fs ((fs.fatbase + clst / (SS / 4)) % W32)
    if r.1 ≠ FR_OK then (0xFFFFFFFF, r.2) else
    (ld_dword r.2.win (clst * 4 % W32 % SS) &&& 0x0FFFFFFF, r.2)
  else if fs.fs_type = FS_EXFAT then
    if (obj.objsize ≠ 0 ∧ obj.sclust ≠ 0) ∨ obj.stat = 0 then
      let cofs := (clst + W32 - obj.sclust) % W32
      let clen := ((obj.objsize + W32 - 1) % W32 / SS) / fs.csize
      if obj.stat = 2 ∧ cofs ≤ clen then (0xFFFFFFFF, fs)
      else if obj.stat = 3 ∧ cofs < obj.n_cont then (0xFFFFFFFF, fs)
      else if obj.stat ≠ 2 then
        if obj.n_frag ≠ 0 then (0xFFFFFFFF, fs)
        else (0xFFFFFFFF, (move_window fs ((fs.fatbase + clst / (SS / 4)) % W32)).2)
      else (1, fs)
    else (1, fs)
  else (0xFFFFFFFF, fs)

/-- Store of one byte into the window: `fs->win[p] = b; fs->wflag = 1;`. -/
def poke (fs : FATFS) (p b : Nat) : FATFS :=
  { fs with win := stb fs.win p b, wflag := 1 }

/-- Store of a word into the window: `st_word(fs->win + p, v); fs->wflag = 1;`. -/
def poke_word (fs : FATFS) (p v : Nat) : FATFS :=
  { fs with win := st_word fs.win p v, wflag := 1 }

/-- Store of a double word into the window: `st_dword(fs->win + p, v); fs->wflag = 1;`. -/
def poke_dword (fs : FATFS) (p v : Nat) : FATFS :=
  { fs with win := st_dword fs.win p v, wflag := 1 }

/-- The assignment `fs->wflag = 1`. -/
def set_dirty (fs : FATFS) : FATFS :=
  { fs with wflag := 1 }

/-- The `switch` of `put_fat`. -/
def put_fat_switch (fs : FATFS) (clst val : Nat) : FRESULT × FATFS :=
  if fs.fs_type = FS_FAT12 then
    let bc := (clst + clst / 2) % W32
    let r := move_window fs ((fs.fatbase + bc / SS) % W32)
    if r.1 ≠ FR_OK then r else
    let p := bc % SS
    let bc := (bc + 1) % W32
    let b := if clst &&& 1 ≠ 0 then (ldb r.2.win p &&& 0x0F) ||| ((val % 256) <<< 4) else val % 256
    let r := move_window (poke r.2 p b) (((poke r.2 p b).fatbase + bc / SS) % W32)
    if r.1 ≠ FR_OK then r else
    let p := bc % SS
    let b := if clst &&& 1 ≠ 0 then (val >>> 4) % 256
             else (ldb r.2.win p &&& 0xF0) ||| (((val >>> 8) % 256) &&& 0x0F)
    (FR_OK, poke r.2 p b)
  else if fs.fs_type = FS_FAT16 then
    let r := move_window fs ((fs.fatbase + clst / (SS / 2)) % W32)
    if r.1 ≠ FR_OK then r else
    (FR_OK, poke_word r.2 (clst * 2 % W32 % SS) (val % W16))
  else if fs.fs_type = FS_FAT32 ∨ fs.fs_type = FS_EXFAT then
    let r := move_window fs ((fs.fatbase + clst / (SS / 4)) % W32)
    if r.1 ≠ FR_OK then r else
    let p := clst * 4 % W32 % SS
    let val := if r.2.fs_type ≠ FS_EXFAT then (val &&& 0x0FFFFFFF) ||| (ld_dword r.2.win p &&& 0xF0000000)
               else val
    (FR_OK, poke_dword r.2 p val)
  else (FR_INT_ERR, fs)

/-- Change the value of a FAT entry (`put_fat`). -/
def put_fat (fs : FATFS) (clst val : Nat) : FRESULT × FATFS :=
  if clst < 2 ∨ clst ≥ fs.n_fatent then (FR_INT_ERR, fs)
  else
    let r := put_fat_switch fs clst val
    (r.1, set_dirty r.2)

/-! ## exFAT: allocation bitmap -/

/-- The nested loops of `find_bitmap`, one bit per step; the window shows the
bitmap sector of `val`. -/
def find_bitmap_loop (clst ncl : Nat) : Nat → FATFS → Nat → Nat → Nat → Nat → Nat → Option (Nat × FATFS)
  | 0, _, _, _, _, _, _ => none
  | fuel + 1, fs, val, i, bm, scl, ctr =>
    let bv := ldb fs.win i &&& bm
    let bm := (bm <<< 1) % 256
    let val := (val + 1) % W32
    let wrap : Bool := val ≥ (fs.n_fatent + W32 - 2) % W32
    let val := if wrap then 0 else val
    let bm := if wrap then 0 else bm
    let i := if wrap then SS else i
    let ctr1 := (ctr + 1) % W32
    if bv = 0 ∧ ctr1 = ncl then some ((scl + 2) % W32, fs)
    else
      let scl := if bv = 0 then scl else val
      let ctr := if bv = 0 then ctr1 else 0
      if val = clst then some (0, fs)
      else if bm ≠ 0 then find_bitmap_loop clst ncl fuel fs val i bm scl ctr
      else if i + 1 < SS then find_bitmap_loop clst ncl fuel fs val (i + 1) 1 scl ctr
      else
        let r := move_window fs ((fs.bitbase + val / 8 / SS) % W32)
        if r.1 ≠ FR_OK then some (0xFFFFFFFF, r.2)
        else find_bitmap_loop clst ncl fuel r.2 val (val / 8 % SS) ((1 <<< (val % 8)) % 256) scl ctr

/-- Find a contiguous free cluster block (`find_bitmap`). -/
def find_bitmap (fs : FATFS) (clst ncl : Nat) : Option (Nat × FATFS) :=
  let clst := (clst + W32 - 2) % W32
  let clst := if clst ≥ (fs.n_fatent + W32 - 2) % W32 then 0 else clst
  let r := move_window fs ((fs.bitbase + clst / 8 / SS) % W32)
  if r.1 ≠ FR_OK then some (0xFFFFFFFF, r.2)
  else find_bitmap_loop clst ncl (fs.n_fatent + 1) r.2 clst (clst / 8 % SS) ((1 <<< (clst % 8)) % 256) clst 0

/-- The nested loops of `change_bitmap`, one bit per step. -/
def change_bitmap_loop (bv : Nat) : Nat → FATFS → Nat → Nat → Nat → Nat → Option (FRESULT × FATFS)
  | 0, _, _, _, _, _ => none
  | fuel + 1, fs, sect, i, bm, ncl =>
    if bv = (if ldb fs.win i &&& bm ≠ 0 then 1 else 0) then some (FR_INT_ERR, fs)
    else
      let fs := { fs with win := stb fs.win i (ldb fs.win i ^^^ bm), wflag := 1 }
      let ncl := (ncl + W32 - 1) % W32
      if ncl = 0 then some (FR_OK, fs)
      else
        let bm := (bm <<< 1) % 256
        if bm ≠ 0 then change_bitmap_loop bv fuel fs sect i bm ncl
        else if i + 1 < SS then change_bitmap_loop bv fuel fs sect (i + 1) 1 ncl
        else
          let r := move_window fs sect
          if r.1 ≠ FR_OK then some (FR_DISK_ERR, r.2)
          else change_bitmap_loop bv fuel r.2 ((sect + 1) % W32) 0 1 ncl

/-- Set or clear a block of the allocation bitmap (`change_bitmap`). -/
def change_bitmap (fs : FATFS) (clst ncl bv : Nat) : Option (FRESULT × FATFS) :=
  let clst := (clst + W32 - 2) % W32
  let sect := (fs.bitbase + clst / 8 / SS) % W32
  let r := move_window fs sect
  if r.1 ≠ FR_OK then some (FR_DISK_ERR, r.2)
  else change_bitmap_loop bv (if ncl = 0 then W32 else ncl) r.2 ((sect + 1) % W32)
    (clst / 8 % SS) ((1 <<< (clst % 8)) % 256) ncl

/-- The loop of `fill_first_frag`. -/
def fill_first_frag_loop : Nat → FATFS → Nat → Nat → Option (FRESULT × FATFS)
  | 0, _, _, _ => none
  | fuel + 1, fs, cl, n =>
    if n = 0 then some (FR_OK, fs)
    else
      let r := put_fat fs cl ((cl + 1) % W32)
      if r.1 ≠ FR_OK then some r
      else fill_first_frag_loop fuel r.2 ((cl + 1) % W32) (n - 1)

/-- Fill the first fragment of the FAT chain (`fill_first_frag`). -/
def fill_first_frag (fs : FATFS) (obj : FFOBJID) : Option (FRESULT × FATFS × FFOBJID) :=
  if obj.stat = 3 then
    match fill_first_frag_loop (obj.n_cont + 1) fs obj.sclust obj.n_cont with
    | none => none
    | some r => if r.1 ≠ FR_OK then some (r.1, r.2, obj) else some (FR_OK, r.2, { obj with stat := 0 })
  else some (FR_OK, fs, obj)

/-- Fill the last fragment of the FAT chain (`fill_last_frag`). -/
def fill_last_frag : Nat → FATFS → FFOBJID → Nat → Nat → Option (FRESULT × FATFS × FFOBJID)
  | 0, _, _, _, _ => none
  | fuel + 1, fs, obj, lcl, term =>
    if obj.n_frag > 0 then
      let r := put_fat fs ((lcl + W32 - obj.n_frag + 1) % W32)
        (if obj.n_frag > 1 then (lcl + W32 - obj.n_frag + 2) % W32 else term)
      if r.1 ≠ FR_OK then some (r.1, r.2, obj)
      else fill_last_frag fuel r.2 { obj with n_frag := obj.n_frag - 1 } lcl term
    else some (FR_OK, fs, obj)

/-! ## Cluster chains -/

/-- The update of the FSINFO values in the loop of `remove_chain`:
`if (fs->free_clust < fs->n_fatent - 2) { fs->free_clust++; fs->fsi_flag |= 1; }`. -/
def note_free (fs : FATFS) : FATFS :=
  if fs.free_clust < (fs.n_fatent + W32 - 2) % W32 then
    { fs with free_clust := (fs.free_clust + 1) % W32, fsi_flag := fs.fsi_flag ||| 1 }
  else fs

/-- One pass of the body of the `do ... while (clst < fs->n_fatent)` loop of
`remove_chain`; `scl` and `ecl` delimit the contiguous block being collected.
The result is the status the loop is left with (`FR_OK` for the `break` and
for the end of the loop), or the values of `clst`, `scl` and `ecl` for the
next pass. -/
def remove_chain_step (obj : FFOBJID) (fs : FATFS) (clst scl ecl : Nat) :
    Option ((FRESULT × FATFS) ⊕ (FATFS × Nat × Nat × Nat)) :=
  let g := get_fat fs obj clst
  if g.1 = 0 then some (Sum.inl (FR_OK, g.2))
  else if g.1 = 1 then some (Sum.inl (FR_INT_ERR, g.2))
  else if g.1 = 0xFFFFFFFF then some (Sum.inl (FR_DISK_ERR, g.2))
  else
    let p := if g.2.fs_type ≠ FS_EXFAT then put_fat g.2 clst 0 else (FR_OK, g.2)
    if p.1 ≠ FR_OK then some (Sum.inl p)
    else if (ecl + 1) % W32 = g.1 then
      if g.1 < (note_free p.2).n_fatent then some (Sum.inr (note_free p.2, g.1, scl, g.1))
      else some (Sum.inl (FR_OK, note_free p.2))
    else
      match (if (note_free p.2).fs_type = FS_EXFAT
             then change_bitmap (note_free p.2) scl ((ecl + W32 - scl + 1) % W32) 0
             else some (FR_OK, note_free p.2)) with
      | none => none
      | some c =>
        if c.1 ≠ FR_OK then some (Sum.inl c)
        else if g.1 < c.2.n_fatent then some (Sum.inr (c.2, g.1, g.1, g.1))
        else some (Sum.inl (FR_OK, c.2))

/-- The `do ... while (clst < fs->n_fatent)` loop of `remove_chain`. -/
def remove_chain_loop (obj : FFOBJID) : Nat → FATFS → Nat → Nat → Nat → Option (FRESULT × FATFS)
  | 0, _, _, _, _ => none
  | fuel + 1, fs, clst, scl, ecl =>
    match remove_chain_step obj fs clst scl ecl with
    | none => none
    | some (Sum.inl r) => some r
    | some (Sum.inr (fs, clst, scl, ecl)) => remove_chain_loop obj fuel fs clst scl ecl

/-- The loop of the exFAT post process of `remove_chain` that follows the
chain from the start cluster to `pclst`; returns a result to return at once,
or the cluster it stopped at. -/
def remove_chain_follow (obj : FFOBJID) (pclst : Nat) : Nat → FATFS → Nat → Option ((FRESULT ⊕ Nat) × FATFS)
  | 0, _, _ => none
  | fuel + 1, fs, clst =>
    if clst ≠ pclst then
      let g := get_fat fs obj clst
      if g.1 < 2 then some (Sum.inl FR_INT_ERR, g.2)
      else if g.1 = 0xFFFFFFFF then some (Sum.inl FR_DISK_ERR, g.2)
      else if g.1 ≠ (clst + 1) % W32 then some (Sum.inr clst, g.2)
      else remove_chain_follow obj pclst fuel g.2 ((clst + 1) % W32)
    else some (Sum.inr clst, fs)

/-- Remove a cluster chain (`remove_chain`): `clst` is the cluster to remove
the chain from, `pclst` the previous cluster (0 if the entire chain). -/
def remove_chain (fs : FATFS) (obj : FFOBJID) (clst pclst : Nat) : Option (FRESULT × FATFS × FFOBJID) :=
  if clst < 2 ∨ clst ≥ fs.n_fatent then some (FR_INT_ERR, fs, obj)
  else
    let p := if pclst ≠ 0 ∧ (fs.fs_type ≠ FS_EXFAT ∨ obj.stat ≠ 2) then put_fat fs pclst 0xFFFFFFFF
             else (FR_OK, fs)
    if p.1 ≠ FR_OK then some (p.1, p.2, obj)
    else
      match remove_chain_loop obj (fs.n_fatent + 1) p.2 clst clst clst with
      | none => none
      | some r =>
        if r.1 ≠ FR_OK then some (r.1, r.2, obj)
        else if r.2.fs_type = FS_EXFAT then
          if pclst = 0 then some (FR_OK, r.2, { obj with stat := 0 })
          else if obj.stat = 0 then
            match remove_chain_follow obj pclst W32 r.2 obj.sclust with
            | none => none
            | some (Sum.inl e, fs) => some (e, fs, obj)
            | some (Sum.inr c, fs) =>
              if c = pclst then some (FR_OK, fs, { obj with stat := 2 }) else some (FR_OK, fs, obj)
          else if obj.stat = 3 ∧ pclst ≥ obj.sclust ∧ pclst ≤ (obj.sclust + obj.n_cont) % W32 then
            some (FR_OK, r.2, { obj with stat := 2 })
          else some (FR_OK, r.2, obj)
        else some (FR_OK, r.2, obj)

/-- The `for (;;)` search loop of `create_chain` on a FAT volume: a result to
return at once, or the free cluster found. -/
def create_chain_search (obj : FFOBJID) (scl : Nat) : Nat → FATFS → Nat → Option ((Nat ⊕ Nat) × FATFS)
  | 0, _, _ => none
  | fuel + 1, fs, ncl =>
    let ncl := (ncl + 1) % W32
    let wrap : Bool := ncl ≥ fs.n_fatent
    if wrap ∧ 2 > scl then some (Sum.inl 0, fs)
    else
      let ncl := if wrap then 2 else ncl
      let g := get_fat fs obj ncl
      if g.1 = 0 then some (Sum.inr ncl, g.2)
      else if g.1 = 1 ∨ g.1 = 0xFFFFFFFF then some (Sum.inl g.1, g.2)
      else if ncl = scl then some (Sum.inl 0, g.2)
      else create_chain_search obj scl fuel g.2 ncl

/-- The update of the FSINFO values at the end of a successful `create_chain`:
`fs->last_clust = ncl; if (fs->free_clust <= fs->n_fatent - 2) fs->free_clust--;
fs->fsi_flag |= 1;`. -/
def note_alloc (fs : FATFS) (ncl : Nat) : FATFS :=
  { fs with
    last_clust := ncl
    free_clust := if fs.free_clust ≤ (fs.n_fatent + W32 - 2) % W32
                  then (fs.free_clust + W32 - 1) % W32 else fs.free_clust
    fsi_flag := fs.fsi_flag ||| 1 }

/-- The end of `create_chain`: update of the FSINFO values on success, the
error status otherwise. -/
def create_chain_finish (res : FRESULT) (fs : FATFS) (ncl : Nat) : Nat × FATFS :=
  if res = FR_OK then (ncl, note_alloc fs ncl)
  else (if res = FR_DISK_ERR then 0xFFFFFFFF else 1, fs)

/-- The end of the exFAT branch of `create_chain`, after the bit of the new
cluster `ncl` has been set in the bitmap with status `res`: update of the
chain status of the object, of the fragment counters and of the FAT. -/
def create_chain_exfat_link (fs : FATFS) (obj : FFOBJID) (clst scl ncl : Nat) (res : FRESULT) :
    Option (Nat × FATFS × FFOBJID) :=
  let obj := if clst = 0 then { obj with stat := 2 }
    else if obj.stat = 2 ∧ ncl ≠ (scl + 1) % W32 then
      { obj with n_cont := (scl + W32 - obj.sclust) % W32, stat := 3 }
    else obj
  let k : Option (FRESULT × FATFS × FFOBJID) :=
    if obj.stat ≠ 2 then
      if ncl = (clst + 1) % W32 then
        some (res, fs, { obj with n_frag := if obj.n_frag ≠ 0 then (obj.n_frag + 1) % W32 else 2 })
      else
        let obj := if obj.n_frag = 0 then { obj with n_frag := 1 } else obj
        match fill_last_frag (obj.n_frag + 1) fs obj clst ncl with
        | none => none
        | some l => if l.1 = FR_OK then some (l.1, l.2.1, { l.2.2 with n_frag := 1 }) else some l
    else some (res, fs, obj)
  match k with
  | none => none
  | some k =>
    let e := create_chain_finish k.1 k.2.1 ncl
    some (e.1, e.2, k.2.2)

/-- The part of the exFAT branch of `create_chain` after the bit of the free
cluster `ncl` has been set in the bitmap with the result `c`. -/
def create_chain_exfat_set (c : FRESULT × FATFS) (obj : FFOBJID) (clst scl ncl : Nat) :
    Option (Nat × FATFS × FFOBJID) :=
  if c.1 = FR_INT_ERR then some (1, c.2, obj)
  else if c.1 = FR_DISK_ERR then some (0xFFFFFFFF, c.2, obj)
  else create_chain_exfat_link c.2 obj clst scl ncl c.1

/-- The part of the exFAT branch of `create_chain` after the search of the
bitmap with the result `f`. -/
def create_chain_exfat_found (f : Nat × FATFS) (obj : FFOBJID) (clst scl : Nat) :
    Option (Nat × FATFS × FFOBJID) :=
  if f.1 = 0 ∨ f.1 = 0xFFFFFFFF then some (f.1, f.2, obj)
  else (change_bitmap f.2 f.1 1 1).bind fun c => create_chain_exfat_set c obj clst scl f.1

/-- The exFAT branch of `create_chain`. -/
def create_chain_exfat (fs : FATFS) (obj : FFOBJID) (clst scl : Nat) : Option (Nat × FATFS × FFOBJID) :=
  (find_bitmap fs scl 1).bind fun f => create_chain_exfat_found f obj clst scl

/-- The start of `create_chain`: the status to return at once, or the cluster
to start the search from. -/
def create_chain_start (fs : FATFS) (obj : FFOBJID) (clst : Nat) : (Nat ⊕ Nat) × FATFS :=
  if clst = 0 then
    (Sum.inr (if fs.last_clust = 0 ∨ fs.last_clust ≥ fs.n_fatent then 1 else fs.last_clust), fs)
  else
    let g := get_fat fs obj clst
    if g.1 < 2 then (Sum.inl 1, g.2)
    else if g.1 = 0xFFFFFFFF then (Sum.inl g.1, g.2)
    else if g.1 < g.2.n_fatent then (Sum.inl g.1, g.2)
    else (Sum.inr clst, g.2)

/-- The test of the cluster next to the stretched one in `create_chain` on a
FAT volume: the status to return at once, or the pair of `ncl` (0 when a
search is needed) and `scl`. -/
def create_chain_near (fs : FATFS) (obj : FFOBJID) (clst scl : Nat) : (Nat ⊕ (Nat × Nat)) × FATFS :=
  if scl = clst then
    let ncl := if (scl + 1) % W32 ≥ fs.n_fatent then 2 else (scl + 1) % W32
    let g := get_fat fs obj ncl
    if g.1 = 1 ∨ g.1 = 0xFFFFFFFF then (Sum.inl g.1, g.2)
    else if g.1 ≠ 0 then
      (Sum.inr (0, if g.2.last_clust ≥ 2 ∧ g.2.last_clust < g.2.n_fatent then g.2.last_clust else scl), g.2)
    else (Sum.inr (ncl, scl), g.2)
  else (Sum.inr (0, scl), fs)

/-- The two `put_fat` calls of `create_chain` on a FAT volume (the new cluster
becomes end of chain, the previous one links to it) and the end of the
function. -/
def create_chain_mark (fs : FATFS) (clst ncl : Nat) : Nat × FATFS :=
  let p := put_fat fs ncl 0xFFFFFFFF
  let p := if p.1 = FR_OK ∧ clst ≠ 0 then put_fat p.2 clst ncl else p
  create_chain_finish p.1 p.2 ncl

/-- The FAT12/FAT16/FAT32 branch of `create_chain`. -/
def create_chain_fat (fs : FATFS) (obj : FFOBJID) (clst scl : Nat) : Option (Nat × FATFS × FFOBJID) :=
  match create_chain_near fs obj clst scl with
  | (Sum.inl v, fs) => some (v, fs, obj)
  | (Sum.inr (ncl, scl), fs) =>
    match (if ncl = 0 then create_chain_search obj scl (fs.n_fatent + 1) fs scl
           else some (Sum.inr ncl, fs)) with
    | none => none
    | some (Sum.inl v, fs) => some (v, fs, obj)
    | some (Sum.inr ncl, fs) => some ((create_chain_mark fs clst ncl).1, (create_chain_mark fs clst ncl).2, obj)

/-- Stretch or create a cluster chain (`create_chain`): returns 0 for no free
cluster, 1 for an internal error, `0xFFFFFFFF` for a disk error, else the new
cluster number. -/
def create_chain (fs : FATFS) (obj : FFOBJID) (clst : Nat) : Option (Nat × FATFS × FFOBJID) :=
  match create_chain_start fs obj clst with
  | (Sum.inl v, fs) => some (v, fs, obj)
  | (Sum.inr scl, fs) =>
    if fs.free_clust = 0 then some (0, fs, obj)
    else if fs.fs_type = FS_EXFAT then create_chain_exfat fs obj clst scl
    else create_chain_fat fs obj clst scl

/-! ## Long file name slots -/

/-- A `WCHAR` read from a name buffer. -/
def ldw (b : Nat → Nat) (i : Nat) : Nat := b i % W16

/-- Calculate the checksum of the SFN entry at offset `o` (`sum_sfn`). -/
def sum_sfn (b : Nat → Nat) (o : Nat) : Nat :=
  (List.range 11).foldl (fun sum k => ((sum >>> 1) + (sum <<< 7) + ldb b (o + k)) % 256) 0

/-- Offset of the LFN characters in the directory entry (`LfnOfs[]`). -/
def LfnOfs : List Nat := [1, 3, 5, 7, 9, 14, 16, 18, 20, 22, 24, 28, 30]

/-- The offset `((dir[LDIR_Ord] & 0x3F) - 1) * 13` in the LFN buffer, a `UINT`. -/
def lfn_offset (ord : Nat) : Nat :=
  ((ord &&& 0x3F) + W32 - 1) % W32 * 13 % W32

/-- The `for` loop of `cmp_lfn` over the 13 characters of the entry: `none`
when the function returns 0 in the loop, else the final `i` and `wc`. -/
def cmp_lfn_loop (upper : Nat → Nat) (lfnbuf dir : Nat → Nat) (o : Nat) :
    List Nat → Nat → Nat → Option (Nat × Nat)
  | [], i, wc => some (i, wc)
  | ofs :: rest, i, wc =>
    let uc := ld_word dir (o + ofs)
    if wc ≠ 0 then
      if i ≥ MAX_LFN + 1 ∨ upper uc ≠ upper (ldw lfnbuf i) then none
      else cmp_lfn_loop upper lfnbuf dir o rest ((i + 1) % W32) uc
    else if uc ≠ 0xFFFF then none
    else cmp_lfn_loop upper lfnbuf dir o rest i wc

/-- Test an LFN segment of the directory entry at offset `o` of `dir` against
the name in `lfnbuf` (`cmp_lfn`): 1 matched, 0 not matched. `upper` is
`ff_wtoupper`. -/
def cmp_lfn (upper : Nat → Nat) (lfnbuf dir : Nat → Nat) (o : Nat) : Nat :=
  if ld_word dir (o + LDIR_FstClusLO) ≠ 0 then 0
  else
    match cmp_lfn_loop upper lfnbuf dir o LfnOfs (lfn_offset (ldb dir (o + LDIR_Ord))) 1 with
    | none => 0
    | some (i, wc) =>
      if ldb dir (o + LDIR_Ord) &&& LLE ≠ 0 ∧ wc ≠ 0 ∧ ldw lfnbuf i ≠ 0 then 0 else 1

/-- The `do ... while (++s < 13)` loop of `pick_lfn`: `Sum.inl` is the buffer
when the function returns 0 in the loop, else the final `i` and the buffer. -/
def pick_lfn_loop (dir : Nat → Nat) (o : Nat) :
    List Nat → Nat → Nat → (Nat → Nat) → (Nat → Nat) ⊕ (Nat × (Nat → Nat))
  | [], i, _, lfnbuf => Sum.inr (i, lfnbuf)
  | ofs :: rest, i, wc, lfnbuf =>
    let uc := ld_word dir (o + ofs)
    if wc ≠ 0 then
      if i ≥ MAX_LFN then Sum.inl lfnbuf
      else pick_lfn_loop dir o rest ((i + 1) % W32) uc (Function.update lfnbuf i uc)
    else if uc ≠ 0xFFFF then Sum.inl lfnbuf
    else pick_lfn_loop dir o rest i wc lfnbuf

/-- Pick a part of the file name from the LFN entry at offset `o` of `dir`
into `lfnbuf` (`pick_lfn`): 1 succeeded, 0 buffer overflow. -/
def pick_lfn (lfnbuf dir : Nat → Nat) (o : Nat) : Nat × (Nat → Nat) :=
  match pick_lfn_loop dir o LfnOfs (lfn_offset (ldb dir (o + LDIR_Ord))) 1 lfnbuf with
  | Sum.inl b => (0, b)
  | Sum.inr (i, b) =>
    if ldb dir (o + LDIR_Ord) &&& LLE ≠ 0 then
      if i ≥ MAX_LFN then (0, b) else (1, Function.update b i 0)
    else (1, b)

/-- The `do ... while (++s < 13)` loop of `put_lfn`: the final `i`, `wc` and
entry. -/
def put_lfn_loop (lfn : Nat → Nat) (o : Nat) :
    List Nat → Nat → Nat → (Nat → Nat) → Nat × Nat × (Nat → Nat)
  | [], i, wc, dir => (i, wc, dir)
  | ofs :: rest, i, wc, dir =>
    let wc1 := if wc ≠ 0xFFFF then ldw lfn i else wc
    let i1 := if wc ≠ 0xFFFF then (i + 1) % W32 else i
    put_lfn_loop lfn o rest i1 (if wc1 = 0 then 0xFFFF else wc1) (st_word dir (o + ofs) wc1)

/-- Create the LFN entry of order `ord` at offset `o` of `dir` from the name
`lfn` (`put_lfn`); `sum` is the checksum of the corresponding SFN. -/
def put_lfn (lfn dir : Nat → Nat) (o ord sum : Nat) : Nat → Nat :=
  let dir := stb dir (o + LDIR_Chksum) sum
  let dir := stb dir (o + LDIR_Attr) AM_LFN
  let dir := stb dir (o + LDIR_Type) 0
  let dir := st_word dir (o + LDIR_FstClusLO) 0
  let r := put_lfn_loop lfn o LfnOfs (((ord % 256) + W32 - 1) % W32 * 13 % W32) 0 dir
  let ord := if r.2.1 = 0xFFFF ∨ ldw lfn r.1 = 0 then ord ||| LLE else ord
  stb r.2.2 (o + LDIR_Ord) ord

/-! ## Directory handling -/

/-- The `while (idx >= csz)` loop of `dir_sdi` that follows the cluster chain:
the status to return, or the cluster and the remaining offset. -/
def dir_sdi_follow (obj : FFOBJID) (csz : Nat) :
    Nat → FATFS → Nat → Nat → Option ((FRESULT ⊕ (Nat × Nat)) × FATFS)
  | 0, _, _, _ => none
  | fuel + 1, fs, clst, idx =>
    if idx ≥ csz then
      let g := get_fat fs obj clst
      if g.1 = 0xFFFFFFFF then some (Sum.inl FR_DISK_ERR, g.2)
      else if g.1 < 2 ∨ g.1 ≥ g.2.n_fatent then some (Sum.inl FR_INT_ERR, g.2)
      else dir_sdi_follow obj csz fuel g.2 g.1 (idx - csz)
    else some (Sum.inr (clst, idx), fs)

/-- The end of `dir_sdi`, from `dp->clust = clst` on. -/
def dir_sdi_end (dp : DIR_) (clst idx : Nat) : FRESULT × DIR_ :=
  if dp.sect = 0 then (FR_INT_ERR, { dp with clust := clst })
  else (FR_OK, { dp with clust := clst, sect := (dp.sect + idx / SS) % W32, dir := some (idx % SS) })

/-- Set the directory index (`dir_sdi`): `idx` is the byte offset in the
directory table, which starts at cluster `dp->obj.sclust` (0 is the root). -/
def dir_sdi (fs : FATFS) (dp : DIR_) (idx : Nat) : Option (FRESULT × FATFS × DIR_) :=
  if idx ≥ (if fs.fs_type = FS_EXFAT then MAX_DIR_EX else MAX_DIR) ∨ idx % SZ_DIR ≠ 0 then
    some (FR_INT_ERR, fs, dp)
  else
    let dp := { dp with dptr := idx }
    let clst := if dp.obj.sclust = 0 ∧ fs.fs_type ≥ FS_FAT32 then fs.dirbase else dp.obj.sclust
    let dp := if dp.obj.sclust = 0 ∧ fs.fs_type ≥ FS_FAT32
              then { dp with obj := { dp.obj with stat := 0 } } else dp
    if clst = 0 then
      if idx / SZ_DIR ≥ fs.n_rootdir then some (FR_INT_ERR, fs, dp)
      else
        let e := dir_sdi_end { dp with sect := fs.dirbase } clst idx
        some (e.1, fs, e.2)
    else
      match dir_sdi_follow dp.obj (fs.csize * SS % W32) (idx / SS + 1) fs clst idx with
      | none => none
      | some (Sum.inl r, fs) => some (r, fs, dp)
      | some (Sum.inr (clst, idx), fs) =>
        let e := dir_sdi_end { dp with sect := clust2sect fs clst } clst idx
        some (e.1, fs, e.2)

/-- The `for` loop of `dir_clear` that writes the window to the `csize`
sectors of the cluster: the final `n` and the device. -/
def dir_clear_loop (win : Nat → Nat) (sect : Nat) : Nat → Nat → Drive → Nat × Drive
  | 0, n, drv => (n, drv)
  | k + 1, n, drv =>
    if (disk_write drv win ((sect + n) % W32)).1
    then dir_clear_loop win sect k (n + 1) (disk_write drv win ((sect + n) % W32)).2
    else (n, (disk_write drv win ((sect + n) % W32)).2)

/-- The window set on the first sector of a cluster and cleared:
`fs->winsect = sect; memset(fs->win, 0, sizeof fs->win);`. -/
def clear_window (fs : FATFS) (sect : Nat) : FATFS :=
  { fs with winsect := sect, win := fun _ => 0 }

/-- The assignment of the device after transfers. -/
def set_drv (fs : FATFS) (drv : Drive) : FATFS :=
  { fs with drv := drv }

/-- Fill a cluster with zeros (`dir_clear`). -/
def dir_clear (fs : FATFS) (clst : Nat) : FRESULT × FATFS :=
  if (sync_window fs).1 ≠ FR_OK then (FR_DISK_ERR, (sync_window fs).2)
  else
    let fs := clear_window (sync_window fs).2 (clust2sect (sync_window fs).2 clst)
    let l := dir_clear_loop fs.win fs.winsect fs.csize 0 fs.drv
    (if l.1 = fs.csize then FR_OK else FR_DISK_ERR, set_drv fs l.2)

/-- The part of `dir_next` that enters the next cluster of a dynamic table,
stretching the table when `stretch` is set. -/
def dir_next_cluster (fs : FATFS) (dp : DIR_) (stretch : Bool) :
    Option ((FRESULT ⊕ Unit) × FATFS × DIR_) :=
  let g := get_fat fs dp.obj dp.clust
  if g.1 ≤ 1 then some (Sum.inl FR_INT_ERR, g.2, dp)
  else if g.1 = 0xFFFFFFFF then some (Sum.inl FR_DISK_ERR, g.2, dp)
  else if g.1 ≥ g.2.n_fatent then
    if ¬ stretch then some (Sum.inl FR_NO_FILE, g.2, { dp with sect := 0 })
    else
      match create_chain g.2 dp.obj dp.clust with
      | none => none
      | some (clst, fs, obj) =>
        let dp := { dp with obj := obj }
        if clst = 0 then some (Sum.inl FR_DENIED, fs, dp)
        else if clst = 1 then some (Sum.inl FR_INT_ERR, fs, dp)
        else if clst = 0xFFFFFFFF then some (Sum.inl FR_DISK_ERR, fs, dp)
        else if (dir_clear fs clst).1 ≠ FR_OK then some (Sum.inl FR_DISK_ERR, (dir_clear fs clst).2, dp)
        else
          some (Sum.inr (), (dir_clear fs clst).2,
            { dp with obj := { dp.obj with stat := dp.obj.stat ||| 4 }, clust := clst,
                      sect := clust2sect (dir_clear fs clst).2 clst })
  else some (Sum.inr (), g.2, { dp with clust := g.1, sect := clust2sect g.2 g.1 })

/-- Move the directory index to the next entry (`dir_next`): `FR_NO_FILE` is
the end of the table, `FR_DENIED` a table that could not be stretched. -/
def dir_next (fs : FATFS) (dp : DIR_) (stretch : Bool) : Option (FRESULT × FATFS × DIR_) :=
  let ofs := (dp.dptr + SZ_DIR) % W32
  let dp := if ofs ≥ (if fs.fs_type = FS_EXFAT then MAX_DIR_EX else MAX_DIR)
            then { dp with sect := 0 } else dp
  if dp.sect = 0 then some (FR_NO_FILE, fs, dp)
  else
    let r : Option ((FRESULT ⊕ Unit) × FATFS × DIR_) :=
      if ofs % SS = 0 then
        let dp := { dp with sect := (dp.sect + 1) % W32 }
        if dp.clust = 0 then
          if ofs / SZ_DIR ≥ fs.n_rootdir then some (Sum.inl FR_NO_FILE, fs, { dp with sect := 0 })
          else some (Sum.inr (), fs, dp)
        else if (ofs / SS) &&& ((fs.csize + W32 - 1) % W32) = 0 then dir_next_cluster fs dp stretch
        else some (Sum.inr (), fs, dp)
      else some (Sum.inr (), fs, dp)
    match r with
    | none => none
    | some (Sum.inl e, fs, dp) => some (e, fs, dp)
    | some (Sum.inr _, fs, dp) => some (FR_OK, fs, { dp with dptr := ofs, dir := some (ofs % SS) })

/-- A byte of the directory entry that `dp->dir` points to in the window; a
null `dp->dir` reads as offset 0. -/
def dirb (fs : FATFS) (dp : DIR_) (k : Nat) : Nat :=
  ldb fs.win (dp.dir.getD 0 + k)

/-- The `do ... while (res == FR_OK)` loop of `dir_alloc`; `n` counts the
contiguous free entries found. -/
def dir_alloc_loop (n_ent : Nat) : Nat → FATFS → DIR_ → Nat → Option (FRESULT × FATFS × DIR_)
  | 0, _, _, _ => none
  | fuel + 1, fs, dp, n =>
    let m := move_window fs dp.sect
    if m.1 ≠ FR_OK then some (m.1, m.2, dp)
    else
      let free : Bool := if m.2.fs_type = FS_EXFAT then dirb m.2 dp 0 &&& 0x80 = 0
                         else dirb m.2 dp DIR_Name = DDE ∨ dirb m.2 dp DIR_Name = 0
      if free ∧ (n + 1) % W32 = n_ent then some (FR_OK, m.2, dp)
      else
        match dir_next m.2 dp true with
        | none => none
        | some (r, fs, dp) =>
          if r = FR_OK then dir_alloc_loop n_ent fuel fs dp (if free then (n + 1) % W32 else 0)
          else some (r, fs, dp)

/-- Reserve a block of `n_ent` contiguous directory entries (`dir_alloc`). -/
def dir_alloc (fs : FATFS) (dp : DIR_) (n_ent : Nat) : Option (FRESULT × FATFS × DIR_) :=
  match dir_sdi fs dp 0 with
  | none => none
  | some (r, fs, dp) =>
    if r ≠ FR_OK then some (if r = FR_NO_FILE then FR_DENIED else r, fs, dp)
    else
      match dir_alloc_loop n_ent (MAX_DIR_EX / SZ_DIR + 1) fs dp 0 with
      | none => none
      | some (r, fs, dp) => some (if r = FR_NO_FILE then FR_DENIED else r, fs, dp)

/-- Load the start cluster number of the SFN entry at offset `o` of `dir`
(`ld_clust`). -/
def ld_clust (fs : FATFS) (dir : Nat → Nat) (o : Nat) : Nat :=
  if fs.fs_type = FS_FAT32
  then ld_word dir (o + DIR_FstClusLO) ||| (ld_word dir (o + DIR_FstClusHI) <<< 16)
  else ld_word dir (o + DIR_FstClusLO)

/-- Store the start cluster number in the SFN entry at offset `o` of `dir`
(`st_clust`). -/
def st_clust (fs : FATFS) (dir : Nat → Nat) (o cl : Nat) : Nat → Nat :=
  if fs.fs_type = FS_FAT32
  then st_word (st_word dir (o + DIR_FstClusLO) (cl % W16)) (o + DIR_FstClusHI) ((cl >>> 16) % W16)
  else st_word dir (o + DIR_FstClusLO) (cl % W16)

/-- Modelled from the spec: the character conversions `ff_convert(w, 0)`
(Unicode to OEM code, `oem`) and `ff_wtoupper` (`upper`) of the code page
module, which is not part of the four source files. -/
structure CodePage where
  oem : Nat → Nat
  upper : Nat → Nat

/-- Upper-case conversion table for extended characters (`ExCvt[]`,
`_EXCVT` of code page 1252). -/
def ExCvt : List Nat :=
  [0x80,0x81,0x82,0x83,0x84,0x85,0x86,0x87,0x88,0x89,0x8A,0x8B,0x8C,0x8D,0x8E,0x8F,
   0x90,0x91,0x92,0x93,0x94,0x95,0x96,0x97,0x98,0x99,0xAD,0x9B,0x8C,0x9D,0xAE,0x9F,
   0xA0,0x21,0xA2,0xA3,0xA4,0xA5,0xA6,0xA7,0xA8,0xA9,0xAA,0xAB,0xAC,0xAD,0xAE,0xAF,
   0xB0,0xB1,0xB2,0xB3,0xB4,0xB5,0xB6,0xB7,0xB8,0xB9,0xBA,0xBB,0xBC,0xBD,0xBE,0xBF,
   0xC0,0xC1,0xC2,0xC3,0xC4,0xC5,0xC6,0xC7,0xC8,0xC9,0xCA,0xCB,0xCC,0xCD,0xCE,0xCF,
   0xD0,0xD1,0xD2,0xD3,0xD4,0xD5,0xD6,0xD7,0xD8,0xD9,0xDA,0xDB,0xDC,0xDD,0xDE,0xDF,
   0xC0,0xC1,0xC2,0xC3,0xC4,0xC5,0xC6,0xC7,0xC8,0xC9,0xCA,0xCB,0xCC,0xCD,0xCE,0xCF,
   0xD0,0xD1,0xD2,0xD3,0xD4,0xD5,0xD6,0xF7,0xD8,0xD9,0xDA,0xDB,0xDC,0xDD,0xDE,0x9F]

/-- The hash loop of `gen_numname`:
`do seq = (seq >> 1) + (seq << 15) + (WORD)*lfn++; while (*lfn);`. -/
def gen_numname_hash (lfn : Nat → Nat) : Nat → Nat → Nat → Option Nat
  | 0, _, _ => none
  | fuel + 1, p, seq =>
    if ldw lfn (p + 1) ≠ 0
    then gen_numname_hash lfn fuel (p + 1) (((seq >>> 1) + (seq <<< 15) + ldw lfn p) % W16)
    else some (((seq >>> 1) + (seq <<< 15) + ldw lfn p) % W16)

/-- The loop of `gen_numname` that makes the hexadecimal digits of the suffix
in `ns[]`, from index `i` down: the final `i` and `ns`. -/
def gen_numname_digits : Nat → Nat → Nat → (Nat → Nat) → Nat × (Nat → Nat)
  | 0, i, _, ns => (i, ns)
  | fuel + 1, i, seq, ns =>
    let c := (seq % 16 + 0x30) % 256
    let c := if c > 0x39 then (c + 7) % 256 else c
    if i - 1 ≠ 0 ∧ seq / 16 ≠ 0
    then gen_numname_digits fuel (i - 1) (seq / 16) (Function.update ns i c)
    else (i - 1, Function.update ns i c)

/-- The loop of `gen_numname` that finds the offset `j` to append the suffix at. -/
def gen_numname_find (dst : Nat → Nat) (i : Nat) : Nat → Nat → Nat
  | 0, j => j
  | fuel + 1, j => if j < i ∧ ldb dst j ≠ 0x20 then gen_numname_find dst i fuel (j + 1) else j

/-- The loop of `gen_numname` that appends the suffix:
`do { dst[j++] = (i < 8) ? ns[i++] : ' '; } while (j < 8);`. -/
def gen_numname_append (ns : Nat → Nat) : Nat → Nat → Nat → (Nat → Nat) → Nat → Nat
  | 0, _, _, dst => dst
  | fuel + 1, i, j, dst =>
    let dst := stb dst j (if i < 8 then ns i else 0x20)
    if j + 1 < 8 then gen_numname_append ns fuel (if i < 8 then i + 1 else i) (j + 1) dst else dst

/-- Create a numbered name (`gen_numname`): the SFN `src` with the suffix
`~seq`, written over the first 11 bytes of `dst`. -/
def gen_numname (dst src lfn : Nat → Nat) (seq : Nat) : Option (Nat → Nat) :=
  let dst : Nat → Nat := fun k => if k < 11 then ldb src k else dst k
  match (if seq > 5 then gen_numname_hash lfn (MAX_LFN + 1) 0 seq else some seq) with
  | none => none
  | some seq =>
    let d := gen_numname_digits 8 7 seq (fun _ => 0)
    let ns := Function.update d.2 d.1 0x7E
    some (gen_numname_append ns 8 d.1 (gen_numname_find dst d.1 8 0) dst)

/-- Whether the first 11 bytes of the entry `dp->dir` equal the SFN `dp->fn`
(`!memcmp(dp->dir, dp->fn, 11)`). -/
def sfn_match (fs : FATFS) (dp : DIR_) : Bool :=
  (List.range 11).all fun k => dirb fs dp k = ldb dp.fn k

/-- The `while (dp->sect)` loop of `dir_read` on a FAT volume; `ord` and `sum`
track the LFN sequence, `res` is the status so far. -/
def dir_read_loop (vol : Bool) :
    Nat → FATFS → DIR_ → Nat → Nat → FRESULT → Option (FRESULT × FATFS × DIR_)
  | 0, _, _, _, _, _ => none
  | fuel + 1, fs, dp, ord, sum, res =>
    if dp.sect = 0 then some (res, fs, dp)
    else
      let m := move_window fs dp.sect
      if m.1 ≠ FR_OK then some (m.1, m.2, dp)
      else
        let fs := m.2
        let b := dirb fs dp DIR_Name
        if b = 0 then some (FR_NO_FILE, fs, dp)
        else if fs.fs_type = FS_EXFAT then none
        else
          let attr := dirb fs dp DIR_Attr &&& AM_MASK
          let dp := { dp with obj := { dp.obj with attr := attr } }
          let isvol : Bool := attr &&& 0xDF = AM_VOL
          if b = DDE ∨ b = 0x2E ∨ isvol ≠ vol then
            match dir_next fs dp false with
            | none => none
            | some (r, fs, dp) =>
              if r ≠ FR_OK then some (r, fs, dp) else dir_read_loop vol fuel fs dp 0xFF sum r
          else if attr = AM_LFN then
            let start : Bool := b &&& LLE ≠ 0
            let sum := if start then dirb fs dp LDIR_Chksum else sum
            let b := if start then b &&& 0xBF else b
            let ord := if start then b else ord
            let dp := if start then { dp with blk_ofs := dp.dptr } else dp
            let pk := pick_lfn fs.lfnbuf fs.win (dp.dir.getD 0)
            let ok : Bool := b = ord ∧ sum = dirb fs dp LDIR_Chksum
            let fs := if ok then { fs with lfnbuf := pk.2 } else fs
            let ord := if ok ∧ pk.1 ≠ 0 then (ord + 255) % 256 else 0xFF
            match dir_next fs dp false with
            | none => none
            | some (r, fs, dp) =>
              if r ≠ FR_OK then some (r, fs, dp) else dir_read_loop vol fuel fs dp ord sum r
          else
            some (FR_OK, fs,
              if ord ≠ 0 ∨ sum ≠ sum_sfn fs.win (dp.dir.getD 0)
              then { dp with blk_ofs := 0xFFFFFFFF } else dp)

/-- Read the next object of the directory (`dir_read`); `vol` selects a volume
label instead of a file or directory. The exFAT branch is outside the model. -/
def dir_read (fs : FATFS) (dp : DIR_) (vol : Bool) : Option (FRESULT × FATFS × DIR_) :=
  match dir_read_loop vol (MAX_DIR_EX / SZ_DIR + 1) fs dp 0xFF 0xFF FR_NO_FILE with
  | none => none
  | some (r, fs, dp) => some (r, fs, if r ≠ FR_OK then { dp with sect := 0 } else dp)

/-- The `do ... while (res == FR_OK)` loop of `dir_find` on a FAT volume;
`ord` and `sum` track the LFN sequence. -/
def dir_find_loop (cp : CodePage) :
    Nat → FATFS → DIR_ → Nat → Nat → Option (FRESULT × FATFS × DIR_)
  | 0, _, _, _, _ => none
  | fuel + 1, fs, dp, ord, sum =>
    let m := move_window fs dp.sect
    if m.1 ≠ FR_OK then some (m.1, m.2, dp)
    else
      let fs := m.2
      let c := dirb fs dp DIR_Name
      if c = 0 then some (FR_NO_FILE, fs, dp)
      else
        let a := dirb fs dp DIR_Attr &&& AM_MASK
        let dp := { dp with obj := { dp.obj with attr := a } }
        let step : Option (Nat × Nat × DIR_) :=
          if c = DDE ∨ (a &&& AM_VOL ≠ 0 ∧ a ≠ AM_LFN) then
            some (0xFF, sum, { dp with blk_ofs := 0xFFFFFFFF })
          else if a = AM_LFN then
            if ldb dp.fn NS &&& NS_NOLFN = 0 then
              let start : Bool := c &&& LLE ≠ 0
              let sum := if start then dirb fs dp LDIR_Chksum else sum
              let c := if start then c &&& 0xBF else c
              let ord := if start then c else ord
              let dp := if start then { dp with blk_ofs := dp.dptr } else dp
              if c = ord ∧ sum = dirb fs dp LDIR_Chksum ∧
                  cmp_lfn cp.upper fs.lfnbuf fs.win (dp.dir.getD 0) ≠ 0
              then some ((ord + 255) % 256, sum, dp) else some (0xFF, sum, dp)
            else some (ord, sum, dp)
          else if ord = 0 ∧ sum = sum_sfn fs.win (dp.dir.getD 0) then none
          else if ldb dp.fn NS &&& NS_LOSS = 0 ∧ sfn_match fs dp then none
          else some (0xFF, sum, { dp with blk_ofs := 0xFFFFFFFF })
        match step with
        | none => some (FR_OK, fs, dp)
        | some (ord, sum, dp) =>
          match dir_next fs dp false with
          | none => none
          | some (r, fs, dp) =>
            if r = FR_OK then dir_find_loop cp fuel fs dp ord sum else some (r, fs, dp)

/-- Find the object named by `dp->fn` and the LFN buffer in the directory
(`dir_find`). The exFAT branch is outside the model. -/
def dir_find (cp : CodePage) (fs : FATFS) (dp : DIR_) : Option (FRESULT × FATFS × DIR_) :=
  match dir_sdi fs dp 0 with
  | none => none
  | some (r, fs, dp) =>
    if r ≠ FR_OK then some (r, fs, dp)
    else if fs.fs_type = FS_EXFAT then none
    else dir_find_loop cp (MAX_DIR_EX / SZ_DIR + 1) fs { dp with blk_ofs := 0xFFFFFFFF } 0xFF 0xFF

/-- The loop `for (n = 1; n < 100; n++)` of `dir_register` that looks for a
numbered name that collides with no SFN of the directory: the final `n` with
the status of the last `dir_find`. -/
def dir_register_number (cp : CodePage) (sn : Nat → Nat) :
    Nat → Nat → FATFS → DIR_ → Option (Nat × FRESULT × FATFS × DIR_)
  | 0, _, _, _ => none
  | fuel + 1, n, fs, dp =>
    match gen_numname dp.fn sn fs.lfnbuf n with
    | none => none
    | some fn =>
      match dir_find cp fs { dp with fn := fn } with
      | none => none
      | some (r, fs, dp) =>
        if r ≠ FR_OK then some (n, r, fs, dp)
        else if n + 1 < 100 then dir_register_number cp sn fuel (n + 1) fs dp
        else some (n + 1, r, fs, dp)

/-- The loop of `dir_register` that stores the LFN entries, bottom first. -/
def dir_register_lfn (sum : Nat) : Nat → FATFS → DIR_ → Nat → Option (FRESULT × FATFS × DIR_)
  | 0, _, _, _ => none
  | fuel + 1, fs, dp, n_ent =>
    let m := move_window fs dp.sect
    if m.1 ≠ FR_OK then some (m.1, m.2, dp)
    else
      let fs := set_dirty
        { m.2 with win := put_lfn m.2.lfnbuf m.2.win (dp.dir.getD 0) (n_ent % 256) sum }
      match dir_next fs dp false with
      | none => none
      | some (r, fs, dp) =>
        if r = FR_OK ∧ (n_ent + W16 - 1) % W16 ≠ 0
        then dir_register_lfn sum fuel fs dp ((n_ent + W16 - 1) % W16)
        else some (r, fs, dp)

/-- The SFN entry written by `dir_register` at offset `o` of the window:
`memset(dp->dir, 0, SZ_DIR); memcpy(dp->dir + DIR_Name, dp->fn, 11);
dp->dir[DIR_NTres] = dp->fn[NS] & (NS_BODY | NS_EXT);`. -/
def put_sfn (win fn : Nat → Nat) : Nat → Nat → Nat
  | 0 => fun k =>
    if k < SZ_DIR then
      if k < 11 then ldb fn k
      else if k = DIR_NTres then ldb fn NS &&& (NS_BODY ||| NS_EXT)
      else 0
    else win k
  | o + 1 => fun k =>
    if o + 1 ≤ k ∧ k < o + 1 + SZ_DIR then
      if k < o + 1 + 11 then ldb fn (k - (o + 1))
      else if k = o + 1 + DIR_NTres then ldb fn NS &&& (NS_BODY ||| NS_EXT)
      else 0
    else win k

/-- The length of the name in the LFN buffer:
`for (len = 0; fs->lfnbuf[len]; len++) ;` with a `WORD` counter. -/
def lfn_len (lfnbuf : Nat → Nat) : Nat → Nat → Option Nat
  | 0, _ => none
  | fuel + 1, len => if ldw lfnbuf len ≠ 0 then lfn_len lfnbuf fuel ((len + 1) % W16) else some len

/-- Register the object named by `dp->fn` and the LFN buffer to the directory
(`dir_register`). The exFAT branch is outside the model. -/
def dir_register (cp : CodePage) (fs : FATFS) (dp : DIR_) : Option (FRESULT × FATFS × DIR_) :=
  if ldb dp.fn NS &&& (NS_DOT ||| NS_NONAME) ≠ 0 then some (FR_INVALID_NAME, fs, dp)
  else
    match lfn_len fs.lfnbuf (MAX_LFN + 1) 0 with
    | none => none
    | some len =>
      if fs.fs_type = FS_EXFAT then none
      else
        let sn : Nat → Nat := fun k => if k < 12 then ldb dp.fn k else 0
        let numbered : Option (FRESULT × FATFS × DIR_) :=
          if ldb sn NS &&& NS_LOSS ≠ 0 then
            match dir_register_number cp sn 100 1 fs { dp with fn := stb dp.fn NS NS_NOLFN } with
            | none => none
            | some (n, r, fs, dp) =>
              if n = 100 then some (FR_DENIED, fs, dp)
              else if r ≠ FR_NO_FILE then some (r, fs, dp)
              else some (FR_OK, fs, { dp with fn := stb dp.fn NS (ldb sn NS) })
          else some (FR_OK, fs, dp)
        match numbered with
        | none => none
        | some (r, fs, dp) =>
          if r ≠ FR_OK then some (r, fs, dp)
          else
            let n_ent := if ldb sn NS &&& NS_LFN ≠ 0 then ((len + 12) / 13 + 1) % W16 else 1
            match dir_alloc fs dp n_ent with
            | none => none
            | some (r, fs, dp) =>
              let n_ent := (n_ent + W16 - 1) % W16
              let lfns : Option (FRESULT × FATFS × DIR_) :=
                if r = FR_OK ∧ n_ent ≠ 0 then
                  match dir_sdi fs dp ((dp.dptr + W32 - n_ent * SZ_DIR % W32) % W32) with
                  | none => none
                  | some (r, fs, dp) =>
                    if r = FR_OK then dir_register_lfn (sum_sfn dp.fn 0) (n_ent + 1) fs dp n_ent
                    else some (r, fs, dp)
                else some (r, fs, dp)
              match lfns with
              | none => none
              | some (r, fs, dp) =>
                if r = FR_OK then
                  let m := move_window fs dp.sect
                  if m.1 = FR_OK then
                    some (FR_OK, set_dirty { m.2 with win := put_sfn m.2.win dp.fn (dp.dir.getD 0) }, dp)
                  else some (m.1, m.2, dp)
                else some (r, fs, dp)

/-! ## Path names -/

/-- The name buffer that the pointer `dp->lfn` refers to. -/
def lfn_load (fs : FATFS) : LfnPtr → Option (Nat → Nat)
  | LfnPtr.null => none
  | LfnPtr.member => some fs.LfnBuf
  | LfnPtr.static => some fs.lfnbuf

/-- A store of the name buffer through the pointer `dp->lfn`. -/
def lfn_store (fs : FATFS) (buf : Nat → Nat) : LfnPtr → FATFS
  | LfnPtr.null => fs
  | LfnPtr.member => { fs with LfnBuf := buf }
  | LfnPtr.static => { fs with lfnbuf := buf }

/-- Whether `w` is one of the characters of `"\"*:<>?|\x7F"`, rejected in a
long name (`chk_chr`). -/
def lfn_illegal (w : Nat) : Bool :=
  w = 0x22 ∨ w = 0x2A ∨ w = 0x3A ∨ w = 0x3C ∨ w = 0x3E ∨ w = 0x3F ∨ w = 0x7C ∨ w = 0x7F

/-- Whether `w` is one of the characters of `"+,;=[]"`, replaced in a short
name. -/
def sfn_illegal (w : Nat) : Bool :=
  w = 0x2B ∨ w = 0x2C ∨ w = 0x3B ∨ w = 0x3D ∨ w = 0x5B ∨ w = 0x5D

/-- The first loop of `create_name`, which copies the characters of the
segment to the name buffer. Modelled from the spec: the path is the list of
the values that `miosix::Unicode::nextUtf8` returns for it (a value above
`0xFFFF` stands for an invalid sequence, the end of the list for the
terminator). The result is the status to return, or the character the loop
stopped at, the length and the rest of the path. -/
def create_name_scan : List Nat → Nat → (Nat → Nat) →
    (FRESULT ⊕ (Nat × Nat × List Nat)) × (Nat → Nat)
  | [], di, lfn => (Sum.inr (0, di, []), lfn)
  | w :: p, di, lfn =>
    if w > 0xFFFF then (Sum.inl FR_INVALID_NAME, lfn)
    else if w < 0x20 ∨ w = 0x2F ∨ w = 0x5C then (Sum.inr (w, di, p), lfn)
    else if di ≥ MAX_LFN then (Sum.inl FR_INVALID_NAME, lfn)
    else if w < 0x80 ∧ lfn_illegal w then (Sum.inl FR_INVALID_NAME, lfn)
    else create_name_scan p (di + 1) (Function.update lfn di w)

/-- The loop of `create_name` that snips off trailing spaces and dots. -/
def create_name_snip (lfn : Nat → Nat) : Nat → Nat
  | 0 => 0
  | di + 1 => if ldw lfn di ≠ 0x20 ∧ ldw lfn di ≠ 0x2E then di + 1 else create_name_snip lfn di

/-- The loop `for (si = 0; lfn[si] == ' '; si++) ;` of `create_name`. -/
def create_name_lead (lfn : Nat → Nat) : Nat → Nat → Option Nat
  | 0, _ => none
  | fuel + 1, si => if ldw lfn si = 0x20 then create_name_lead lfn fuel (si + 1) else some si

/-- The loop `while (di > 0 && lfn[di - 1] != '.') di--;` of `create_name`. -/
def create_name_dot (lfn : Nat → Nat) : Nat → Nat
  | 0 => 0
  | di + 1 => if ldw lfn di ≠ 0x2E then create_name_dot lfn di else di + 1

/-- The state of the loop of `create_name` that makes the SFN. -/
structure SfnState where
  i : Nat
  ni : Nat
  si : Nat
  b : Nat
  cf : Nat
  fn : Nat → Nat

/-- The loop of `create_name` that makes the SFN in directory form from the
name in `lfn`; `di` is the offset of the extension. -/
def create_name_sfn (cp : CodePage) (lfn : Nat → Nat) (di : Nat) : Nat → SfnState → Option SfnState
  | 0, _ => none
  | fuel + 1, st =>
    let w := ldw lfn st.si
    let si := st.si + 1
    if w = 0 then some { st with si := si }
    else if w = 0x20 ∨ (w = 0x2E ∧ si ≠ di) then
      create_name_sfn cp lfn di fuel { st with si := si, cf := st.cf ||| NS_LOSS ||| NS_LFN }
    else if st.i ≥ st.ni ∨ si = di then
      if st.ni = 11 then some { st with si := si, cf := st.cf ||| NS_LOSS ||| NS_LFN }
      else
        let cf := if si ≠ di then st.cf ||| NS_LOSS ||| NS_LFN else st.cf
        if si > di then some { st with si := si, cf := cf }
        else create_name_sfn cp lfn di fuel
          { st with si := di, i := 8, ni := 11, b := (st.b <<< 2) % 256, cf := cf }
    else
      let ext : Bool := w ≥ 0x80
      let w1 := if ext then
          (if cp.oem w &&& 0x80 ≠ 0 then ExCvt.getD (cp.oem w &&& 0x7F) 0 else cp.oem w)
        else w
      let cf := if ext then st.cf ||| NS_LFN else st.cf
      if w1 ≥ 0x100 then
        if st.i ≥ st.ni - 1 then
          create_name_sfn cp lfn di fuel
            { st with si := si, i := st.ni, cf := cf ||| NS_LOSS ||| NS_LFN }
        else
          create_name_sfn cp lfn di fuel
            { st with si := si, i := st.i + 2, cf := cf,
                      fn := stb (stb st.fn st.i (w1 >>> 8)) (st.i + 1) w1 }
      else if w1 = 0 ∨ sfn_illegal w1 then
        create_name_sfn cp lfn di fuel
          { st with si := si, i := st.i + 1, cf := cf ||| NS_LOSS ||| NS_LFN,
                    fn := stb st.fn st.i 0x5F }
      else
        let b := if 0x41 ≤ w1 ∧ w1 ≤ 0x5A then st.b ||| 2 else st.b
        let lower : Bool := 0x61 ≤ w1 ∧ w1 ≤ 0x7A
        create_name_sfn cp lfn di fuel
          { st with si := si, i := st.i + 1, cf := cf,
                    b := if lower then b ||| 1 else b,
                    fn := stb st.fn st.i (if lower then w1 - 0x20 else w1) }

/-- The end of `create_name`: the first byte, the capital flags and the name
status byte `fn[NS]`. -/
def create_name_end (st : SfnState) : Nat → Nat :=
  let fn := if ldb st.fn 0 = DDE then stb st.fn 0 NDDE else st.fn
  let b := if st.ni = 8 then (st.b <<< 2) % 256 else st.b
  let cf := if b &&& 0x0C = 0x0C ∨ b &&& 0x03 = 0x03 then st.cf ||| NS_LFN else st.cf
  let cf := if cf &&& NS_LFN = 0 then
      (let cf1 := if b &&& 0x01 ≠ 0 then cf ||| NS_EXT else cf
       if b &&& 0x04 ≠ 0 then cf1 ||| NS_BODY else cf1)
    else cf
  stb fn NS cf

/-- Pick a segment of the path and create the object name in directory form
(`create_name`): the LFN goes to the buffer `dp->lfn` points to, the SFN with
the status byte to `dp->fn`. The result carries the rest of the path. -/
def create_name (cp : CodePage) (fs : FATFS) (dp : DIR_) (path : List Nat) :
    Option (FRESULT × FATFS × DIR_ × List Nat) :=
  match lfn_load fs dp.lfn with
  | none => none
  | some lfn =>
    match create_name_scan (path.dropWhile fun c => c = 0x2F ∨ c = 0x5C) 0 lfn with
    | (Sum.inl r, lfn) => some (r, lfn_store fs lfn dp.lfn, dp, path)
    | (Sum.inr (w, di, rest), lfn) =>
      let cf := if w < 0x20 then NS_LAST else 0
      let di := create_name_snip lfn di
      let lfn := Function.update lfn di 0
      let fs := lfn_store fs lfn dp.lfn
      if di = 0 then some (FR_INVALID_NAME, fs, dp, rest)
      else
        match create_name_lead lfn (MAX_LFN + 1) 0 with
        | none => none
        | some si =>
          let cf := if si > 0 ∨ ldw lfn si = 0x2E then cf ||| NS_LOSS ||| NS_LFN else cf
          let di := create_name_dot lfn di
          let fn0 : Nat → Nat := fun k => if k < 11 then 0x20 else dp.fn k
          match create_name_sfn cp lfn di (2 * MAX_LFN + 4)
              { i := 0, ni := 8, si := si, b := 0, cf := cf, fn := fn0 } with
          | none => none
          | some st => some (FR_OK, fs, { dp with fn := create_name_end st }, rest)

/-- The loop of `follow_path` over the segments of the path. After a segment
that is not the last one has been found, the start cluster of the entry is
stored to the member `dp->sclust`. The exFAT branch is outside the model. -/
def follow_path_loop (cp : CodePage) :
    Nat → FATFS → DIR_ → List Nat → Option (FRESULT × FATFS × DIR_)
  | 0, _, _, _ => none
  | fuel + 1, fs, dp, path =>
    match create_name cp fs dp path with
    | none => none
    | some (r, fs, dp, path) =>
      if r ≠ FR_OK then some (r, fs, dp)
      else
        match dir_find cp fs dp with
        | none => none
        | some (r, fs, dp) =>
          let ns := ldb dp.fn NS
          if r ≠ FR_OK then
            some (if r = FR_NO_FILE ∧ ns &&& NS_LAST = 0 then FR_NO_PATH else r, fs, dp)
          else if ns &&& NS_LAST ≠ 0 then some (FR_OK, fs, dp)
          else if dp.obj.attr &&& AM_DIR = 0 then some (FR_NO_PATH, fs, dp)
          else if fs.fs_type = FS_EXFAT then none
          else if dirb fs dp (DIR_Attr &&& AM_DIR) = 0 then some (FR_NO_PATH, fs, dp)
          else
            follow_path_loop cp fuel fs
              { dp with sclust := ld_clust fs fs.win (dp.dir.getD 0) } path

/-- Follow a file path (`follow_path`): on `FR_OK` the directory object is on
the entry of the object, or has a null `dp->dir` and `NS_NONAME` for the
origin directory itself. -/
def follow_path (cp : CodePage) (fs : FATFS) (dp : DIR_) (path : List Nat) :
    Option (FRESULT × FATFS × DIR_) :=
  let path := path.dropWhile fun c => c = 0x2F ∨ c = 0x5C
  let dp := { dp with obj := { dp.obj with sclust := 0, n_frag := 0 } }
  if path.headD 0 < 0x20 then
    match dir_sdi fs { dp with fn := stb dp.fn NS NS_NONAME } 0 with
    | none => none
    | some (r, fs, dp) => some (r, fs, { dp with dir := none })
  else follow_path_loop cp (path.length + 1) fs dp path

/-! ## Notions used to state the properties of the FAT layer -/

/-- What the volume holds for sector `s`: the window when it shows `s`, the
device otherwise. -/
def secView (fs : FATFS) (s : Nat) : Nat → Nat :=
  if s = fs.winsect then fs.win else fs.drv.data s

/-- Invariant of the sector window: the sector tag is an `LBA_t`, and a clean
window on a valid sector holds what the device holds for it. -/
def WinInv (fs : FATFS) : Prop :=
  fs.winsect < W32 ∧ (fs.wflag = 0 → fs.winsect ≠ W32 - 1 → fs.win = fs.drv.data fs.winsect)

/-- Sector `t` lies in the second FAT copy, where `sync_window` reflects the
sectors of the first. -/
def inMirror (fs : FATFS) (t : Nat) : Prop :=
  fs.n_fats = 2 ∧ fs.fatbase + fs.fsize ≤ t ∧ t < fs.fatbase + 2 * fs.fsize

/-- The two volumes differ at most in the window (buffer, tag, dirty flag) and
in the data of the device. -/
def SameVol (fs fs' : FATFS) : Prop :=
  fs' = { fs with win := fs'.win, winsect := fs'.winsect, wflag := fs'.wflag,
                  drv := { fs.drv with data := fs'.drv.data } }

/-- The FAT layout that a mounted FAT12/FAT16/FAT32 volume has
(`mount_volume`): one or two FATs that lie below the 32-bit sector limit, a
cluster count within the limit of the sub-type, and a FAT copy large enough
for `n_fatent` entries. -/
def VolOk (fs : FATFS) : Prop :=
  (fs.n_fats = 1 ∨ fs.n_fats = 2) ∧
  fs.fatbase + fs.n_fats * fs.fsize < W32 - 1 ∧
  3 ≤ fs.n_fatent ∧
  ((fs.fs_type = FS_FAT12 ∧ fs.n_fatent ≤ 0xFF7 ∧
      (fs.n_fatent * 3 / 2 + fs.n_fatent % 2 + 511) / 512 ≤ fs.fsize) ∨
   (fs.fs_type = FS_FAT16 ∧ fs.n_fatent ≤ 0xFFF7 ∧ (fs.n_fatent * 2 + 511) / 512 ≤ fs.fsize) ∨
   (fs.fs_type = FS_FAT32 ∧ fs.n_fatent ≤ 0x0FFFFFF7 ∧ (fs.n_fatent * 4 + 511) / 512 ≤ fs.fsize))

/-- Every transfer of the device completes. -/
def DeviceOk (drv : Drive) : Prop :=
  (∀ s, drv.rdOk s = true) ∧ (∀ s, drv.wrOk s = true)

/-- Byte `k` of the first FAT copy as the volume holds it. -/
def fatByte (fs : FATFS) (k : Nat) : Nat :=
  ldb (secView fs (fs.fatbase + k / 512)) (k % 512)

/-- The FAT entry of cluster `c` decoded from the bytes the volume holds: the
value `get_fat` returns when no transfer fails. -/
def fatEntry (fs : FATFS) (c : Nat) : Nat :=
  if c < 2 ∨ c ≥ fs.n_fatent then 1
  else if fs.fs_type = FS_FAT12 then
    let wc := fatByte fs (c + c / 2) + 256 * fatByte fs (c + c / 2 + 1)
    if c % 2 = 1 then wc / 16 else wc % 4096
  else if fs.fs_type = FS_FAT16 then
    fatByte fs (2 * c) + 256 * fatByte fs (2 * c + 1)
  else
    (fatByte fs (4 * c) + 256 * fatByte fs (4 * c + 1) + 65536 * fatByte fs (4 * c + 2)
      + 16777216 * fatByte fs (4 * c + 3)) % 268435456

/-- The value kept of a 32-bit `val` written to a FAT entry: 12, 16 or 28 bits. -/
def fatMask (fs : FATFS) (val : Nat) : Nat :=
  if fs.fs_type = FS_FAT12 then val % 4096
  else if fs.fs_type = FS_FAT16 then val % 65536
  else val % 268435456

/-- The volumes hold the same contents for every sector outside the second FAT
copy. -/
def SameView (a b : FATFS) : Prop :=
  ∀ t, ¬ inMirror a t → t ≠ W32 - 1 → secView b t = secView a t

/-- Volume `b` is volume `a` after window traffic: the same volume up to the
window and the device data, with the window invariant, holding the same
contents for every sector outside the second FAT copy. -/
def Keeps (a b : FATFS) : Prop :=
  SameVol a b ∧ WinInv b ∧ SameView a b

/-- Sector `t` lies outside the first FAT copy. -/
def notFat1 (fs : FATFS) (t : Nat) : Prop :=
  ¬ (fs.fatbase ≤ t ∧ t < fs.fatbase + fs.fsize)

/-- The two volumes differ at most in the window, in the data of the device
and in the FSINFO values (`last_clust`, `free_clust`, `fsi_flag`). -/
def SameGeom (fs fs' : FATFS) : Prop :=
  fs' = { fs with win := fs'.win, winsect := fs'.winsect, wflag := fs'.wflag,
                  drv := { fs.drv with data := fs'.drv.data },
                  last_clust := fs'.last_clust, free_clust := fs'.free_clust,
                  fsi_flag := fs'.fsi_flag }

/-- The list `l` is the cluster chain that starts at `c`: every link is a
cluster of the volume (`2 <= c < n_fatent`), the FAT entry of a link is the
next one, and the entry of the last link is an end-of-chain value
(`>= n_fatent`). -/
def chainFrom (fs : FATFS) : Nat → List Nat → Prop
  | c, [] => fs.n_fatent ≤ c
  | c, x :: l => x = c ∧ 2 ≤ c ∧ c < fs.n_fatent ∧ chainFrom fs (fatEntry fs c) l

/-- The number of free clusters in the FAT: the entries that hold 0. -/
def freeCount (fs : FATFS) : Nat :=
  (List.range fs.n_fatent).countP fun d => decide (fatEntry fs d = 0)

/-- The step of the free cluster count in `remove_chain`, for a volume of `n`
FAT entries. -/
def countUp (n f : Nat) : Nat :=
  if f < (n + W32 - 2) % W32 then (f + 1) % W32 else f

/-- Volume `fs'` is volume `fs` after the clusters of `l` have been freed: the
FAT entries of `l` hold 0 and the others are as before, the free cluster count
has been stepped once per cluster, and the sectors outside the FATs are as
before. -/
def Freed (fs fs' : FATFS) (l : List Nat) : Prop :=
  SameGeom fs fs' ∧ WinInv fs' ∧
  (∀ d, fatEntry fs' d = if d ∈ l then 0 else fatEntry fs d) ∧
  fs'.free_clust = (countUp fs.n_fatent)^[l.length] fs.free_clust ∧
  fs'.last_clust = fs.last_clust ∧
  (∀ t, ¬ inMirror fs t → t ≠ W32 - 1 → notFat1 fs t → secView fs' t = secView fs t)

/-- Whether `l` is the chain that starts at `c` can be computed. -/
instance chainFrom.dec (fs : FATFS) : ∀ (c : Nat) (l : List Nat), Decidable (chainFrom fs c l)
  | c, [] => inferInstanceAs (Decidable (fs.n_fatent ≤ c))
  | c, x :: l =>
    have := chainFrom.dec fs (fatEntry fs c) l
    inferInstanceAs (Decidable (x = c ∧ 2 ≤ c ∧ c < fs.n_fatent ∧ chainFrom fs (fatEntry fs c) l))

/-- The 32-bit little-endian FAT entry of cluster `c` as the volume holds it
on a FAT32 volume, with the four reserved bits. -/
def fatRaw32 (fs : FATFS) (c : Nat) : Nat :=
  fatByte fs (4 * c) + 256 * fatByte fs (4 * c + 1) + 65536 * fatByte fs (4 * c + 2)
    + 16777216 * fatByte fs (4 * c + 3)

/-! ## Concrete volumes and objects used as examples -/

/-- A share table of two blank entries. -/
def exShareVol : FATFS :=
  { Files := [{}, {}] }

/-- Directory object of the root directory on the entry at byte offset
`0x10000` (entry number 2048). -/
def exWideDir : DIR_ :=
  { dptr := 0x10000 }

/-- A FAT12 volume with 398 clusters, two FATs of two sectors from sector 1,
an all-zero device and an invalid window. -/
def exFat12 : FATFS :=
  { fs_type := FS_FAT12
    n_fats := 2
    csize := 1
    n_fatent := 400
    fsize := 2
    fatbase := 1
    dirbase := 5
    database := 7
    n_rootdir := 32
    winsect := 0xFFFFFFFF
    free_clust := 398
    last_clust := 0 }

/-- The volume `exFat12` on a device that cannot write its sector 2 (the
second sector of the first FAT). -/
def exFat12NoWrite : FATFS :=
  { exFat12 with drv := { wrOk := fun s => s != 2 } }

/-- The volume `exFat12` with clusters 341 and 342 in use, each the end of a
chain (entries `0xFFF`; the entry of 341 lies across the two FAT sectors), and
cluster 9 as the last allocated one. -/
def exFat12Chain : FATFS :=
  { exFat12 with
    last_clust := 9
    free_clust := 396
    drv := { data := fun s =>
      if s = 1 then fun i => if i = 511 then 0xF0 else 0
      else if s = 2 then fun i => if i = 0 then 0xFF else if i = 1 then 0xFF
                                  else if i = 2 then 0x0F else 0
      else fun _ => 0 } }

/-- The volume `exFat12Chain` on a device that cannot write its sector 2. -/
def exFat12ChainNoWrite : FATFS :=
  { exFat12Chain with drv := { exFat12Chain.drv with wrOk := fun s => s != 2 } }

/-- The volume `exFat12` with one chain of three clusters, 2 -> 3 -> 5, in
use (bytes 3 to 8 of the FAT are `03 50 00 00 F0 FF`). -/
def exFat12File : FATFS :=
  { exFat12 with
    last_clust := 5
    free_clust := 395
    drv := { data := fun s =>
      if s = 1 then fun i => if i = 3 then 0x03 else if i = 4 then 0x50
                             else if i = 7 then 0xF0 else if i = 8 then 0xFF else 0
      else fun _ => 0 } }

/-- The volume `exFat12Chain` on a device that cannot read its sector 2. -/
def exFat12ChainNoRead : FATFS :=
  { exFat12Chain with drv := { exFat12Chain.drv with rdOk := fun s => s != 2 } }

/-- A code page for the examples: no OEM code for characters above `0x7F`,
upper case for the letters `a` to `z` only. -/
def asciiPage : CodePage :=
  { oem := fun w => if w < 0x80 then w else 0
    upper := fun w => if 0x61 ≤ w ∧ w ≤ 0x7A then w - 0x20 else w }

/-- Byte `k` of an SFN directory entry with the given name (padded with
spaces), attribute and start cluster. -/
def sfnEntry (name : List Nat) (attr clust : Nat) (k : Nat) : Nat :=
  if k < 11 then name.getD k 0x20
  else if k = DIR_Attr then attr
  else if k = DIR_FstClusLO then clust % 256
  else if k = DIR_FstClusLO + 1 then clust / 256 % 256
  else 0

/-- The volume `exFat12` with a root directory (sector 5) that holds the
sub-directory `SUB` (start cluster 3) and the file `G`, and with the table of
`SUB` (cluster 3, sector 8) that holds the dot entries and the file `F`. -/
def exTree : FATFS :=
  { exFat12 with
    free_clust := 397
    drv := { data := fun s =>
      if s = 1 then fun i => if i = 4 then 0xF0 else if i = 5 then 0xFF else 0
      else if s = 5 then fun i =>
        if i < 32 then sfnEntry [0x53, 0x55, 0x42] AM_DIR 3 i
        else if i < 64 then sfnEntry [0x47] AM_ARC 0 (i - 32)
        else 0
      else if s = 8 then fun i =>
        if i < 32 then sfnEntry [0x2E] AM_DIR 3 i
        else if i < 64 then sfnEntry [0x2E, 0x2E] AM_DIR 0 (i - 32)
        else if i < 96 then sfnEntry [0x46] AM_ARC 0 (i - 64)
        else 0
      else fun _ => 0 } }

/-- A directory object as `INIT_BUF` leaves it: `lfn` points to the member
`LfnBuf` of the volume. -/
def exDj : DIR_ :=
  { lfn := LfnPtr.member }

/-- A directory object whose `lfn` points to the static buffer that
`fs->lfnbuf` refers to. -/
def exDjStatic : DIR_ :=
  { lfn := LfnPtr.static }

/-- The name of `n` letters `A`, as the content of a name buffer. -/
def nameA (n : Nat) : Nat → Nat :=
  fun i => if i < n then 0x41 else 0

/-- The status and the directory object of `dir_read` at the start of the
directory after `dir_register` of the name that `create_name` makes of `path`. -/
def register_then_read (cp : CodePage) (fs : FATFS) (dp : DIR_) (path : List Nat) :
    Option (FRESULT × FRESULT × FRESULT × DIR_) :=
  (create_name cp fs dp path).bind fun c =>
    (dir_register cp c.2.1 c.2.2.1).bind fun r =>
      (dir_sdi r.2.1 r.2.2 0).bind fun s =>
        (dir_read s.2.1 s.2.2 false).map fun q => (c.1, r.1, q.1, q.2.2)

/-- The status of `create_name` of `path`, the status and the directory object
of the `dir_register` that follows, and those of the `dir_find` run right
after it on the same object. -/
def register_then_find (cp : CodePage) (fs : FATFS) (dp : DIR_) (path : List Nat) :
    Option (FRESULT × (FRESULT × DIR_) × (FRESULT × DIR_)) :=
  (create_name cp fs dp path).bind fun c =>
    (dir_register cp c.2.1 c.2.2.1).bind fun r =>
      (dir_find cp r.2.1 r.2.2).map fun q => (c.1, (r.1, r.2.2), (q.1, q.2.2))

/-- A FAT32 volume with 198 clusters, one FAT of two sectors from sector 32,
whose entry of cluster 5 holds `0xA0000000` (reserved bits set), and an
invalid window. -/
def exFat32 : FATFS :=
  { fs_type := FS_FAT32
    n_fats := 1
    csize := 1
    n_fatent := 200
    fsize := 2
    fatbase := 32
    dirbase := 2
    database := 34
    winsect := 0xFFFFFFFF
    free_clust := 197
    drv := { data := fun s => if s = 32 then fun i => if i = 23 then 0xA0 else 0 else fun _ => 0 } }

/-- A FAT12 volume of four clusters (2 to 5), one FAT of one sector at sector
1, in which every cluster is in use as the end of a chain (entries `0xFFF`);
the free count is unknown (`0xFFFFFFFF`) and the window is invalid. -/
def exFull : FATFS :=
  { fs_type := FS_FAT12
    n_fats := 1
    csize := 1
    n_fatent := 6
    fsize := 1
    fatbase := 1
    dirbase := 2
    database := 4
    n_rootdir := 32
    winsect := 0xFFFFFFFF
    free_clust := 0xFFFFFFFF
    last_clust := 0
    drv := { data := fun s => if s = 1 then fun i => if 3 ≤ i ∧ i < 9 then 0xFF else 0
                              else fun _ => 0 } }

/-- The volume `exFull` on a device that cannot read its sector 1 (the FAT). -/
def exFullNoRead : FATFS :=
  { exFull with drv := { exFull.drv with rdOk := fun s => s != 1 } }

/-- The volume `exFat12` (all 398 clusters free) with a free count of 0, as a
stale FSINFO sector gives it. -/
def exFat12Hint0 : FATFS :=
  { exFat12 with free_clust := 0 }

/-- The entry of the share table that the key of `dp` (volume, directory start
cluster, offset of the entry) has: the first occupied slot whose three fields
equal the key. -/
def share_entry (fs : FATFS) (dp : DIR_) : Option FILESEM :=
  fs.Files.find? fun e =>
    decide (e.fs ≠ 0 ∧ e.fs = fs.addr ∧ e.clu = dp.obj.sclust ∧ e.idx = dp.dptr)

/-- The decision table of `chk_share` in the words of the specification:
without an entry of the key, `FR_TOO_MANY_OPEN_FILES` when every slot is
occupied and the mode is read (0) or write (1), else `FR_OK`; with an entry,
`FR_LOCKED` when the mode is not read or the counter of the entry is `0x100`,
else `FR_OK`. -/
def chk_share_table (fs : FATFS) (dp : DIR_) (acc : Nat) : FRESULT :=
  match share_entry fs dp with
  | none =>
    if (fs.Files.all fun e => decide (e.fs ≠ 0)) = true ∧ acc ≠ 2 then FR_TOO_MANY_OPEN_FILES
    else FR_OK
  | some e => if acc ≠ 0 ∨ e.ctr = 0x100 then FR_LOCKED else FR_OK

/-- A share table with a write lock on the entry at offset 0 of the root
directory and a blank slot. -/
def exOneLock : FATFS :=
  { Files := [{ fs := 1, clu := 0, idx := 0, ctr := 0x100 }, {}] }

/-- The invariant of the free cluster count: at most `n_fatent - 2`, or the
value `0xFFFFFFFF` for "unknown". -/
def FreeInv (fs : FATFS) : Prop :=
  fs.free_clust ≤ fs.n_fatent - 2 ∨ fs.free_clust = 0xFFFFFFFF

/-- Volume `b` is volume `a` up to the window, the data of the device and the
FSINFO values and, when `a` is a volume of at least two FAT entries (a 32-bit
count), it has the invariant of the free cluster count if `a` has it. -/
def Hint (a b : FATFS) : Prop :=
  SameGeom a b ∧ (2 ≤ a.n_fatent → a.n_fatent < W32 → FreeInv a → FreeInv b)

/-! ## File objects: read, write, seek, truncate, sync, close -/

def DIR_LstAccDate : Nat := 18
def DIR_ModTime : Nat := 22
def BS_55AA : Nat := 510
def FSI_LeadSig : Nat := 0
def FSI_StrucSig : Nat := 484
def FSI_Free_Count : Nat := 488
def FSI_Nxt_Free : Nat := 492

/-- The numeric value of a result code (the `enum` of `ff.h`). -/
def code : FRESULT → Nat
  | FR_OK => 0 | FR_DISK_ERR => 1 | FR_INT_ERR => 2 | FR_NOT_READY => 3
  | FR_NO_FILE => 4 | FR_NO_PATH => 5 | FR_INVALID_NAME => 6 | FR_DENIED => 7
  | FR_EXIST => 8 | FR_INVALID_OBJECT => 9 | FR_WRITE_PROTECTED => 10
  | FR_INVALID_DRIVE => 11 | FR_NOT_ENABLED => 12 | FR_NO_FILESYSTEM => 13
  | FR_MKFS_ABORTED => 14 | FR_TIMEOUT => 15 | FR_LOCKED => 16
  | FR_NOT_ENOUGH_CORE => 17 | FR_TOO_MANY_OPEN_FILES => 18 | FR_INVALID_PARAMETER => 19

/-- The cast `(FRESULT)fp->err`. The only writer of `err` is `ABORT`, which
stores a result code; a byte above 19 is no value of the `enum` and is read
here as the last code. -/
def result_of : Nat → FRESULT
  | 0 => FR_OK | 1 => FR_DISK_ERR | 2 => FR_INT_ERR | 3 => FR_NOT_READY
  | 4 => FR_NO_FILE | 5 => FR_NO_PATH | 6 => FR_INVALID_NAME | 7 => FR_DENIED
  | 8 => FR_EXIST | 9 => FR_INVALID_OBJECT | 10 => FR_WRITE_PROTECTED
  | 11 => FR_INVALID_DRIVE | 12 => FR_NOT_ENABLED | 13 => FR_NO_FILESYSTEM
  | 14 => FR_MKFS_ABORTED | 15 => FR_TIMEOUT | 16 => FR_LOCKED
  | 17 => FR_NOT_ENOUGH_CORE | 18 => FR_TOO_MANY_OPEN_FILES | _ => FR_INVALID_PARAMETER

/-- The store of the macro `ABORT(fs, res)`: `fp->err = (BYTE)(res)`; the
macro then returns `res`. -/
def ABORT (fp : FIL) (res : FRESULT) : FIL :=
  { fp with err := code res }

/-- Check if the file/directory object is valid (`validate`); `obj` is `none`
for a null pointer and `fs` is the volume that `obj->fs` points to when that
pointer is not null. -/
def validate (fs : FATFS) (obj : Option FFOBJID) : FRESULT :=
  match obj with
  | none => FR_INVALID_OBJECT
  | some o =>
    if o.fs ≠ 0 ∧ fs.fs_type ≠ 0 ∧ o.id = fs.id then FR_OK else FR_INVALID_OBJECT

/-- Modelled from the spec: `disk_read(drv, buff, sector, count)` of the block
device contract for a run of `cc` sectors. The transfer completes when the
read of every sector of the run does; the result is the run as one buffer. -/
def disk_read_n (drv : Drive) (sect cc : Nat) : Option (Nat → Nat) :=
  if (List.range cc).all (fun k => drv.rdOk (sect + k)) then
    some fun i => drv.data (sect + i / SS) (i % SS)
  else none

/-- Modelled from the spec: `disk_write(drv, buff, sector, count)` of the
block device contract for a run of `cc` sectors. The transfer completes when
the write of every sector of the run does; otherwise no sector is changed. -/
def disk_write_n (drv : Drive) (buff : Nat → Nat) (sect cc : Nat) : Bool × Drive :=
  if (List.range cc).all (fun k => drv.wrOk (sect + k)) then
    (true, { drv with data := fun s =>
      if sect ≤ s ∧ s < sect + cc then fun i => buff ((s - sect) * SS + i) else drv.data s })
  else (false, drv)

/-- Modelled from the spec: `disk_ioctl(drv, CTRL_SYNC, 0)`; the flag tells
whether the result is `RES_OK`. -/
def disk_sync (drv : Drive) : Bool := drv.syncOk

/-- The copy `memcpy(dst + d, src + s, n)`. -/
def blit (dst : Nat → Nat) (d : Nat) (src : Nat → Nat) (s n : Nat) : Nat → Nat :=
  fun k => if d ≤ k ∧ k < d + n then src (s + (k - d)) else dst k

/-- The write-back of the dirty sector cache of a file object:
`if (fp->flag & FA_DIRTY) { if (disk_write(fs->drv, fp->buf, fp->sect, 1) != RES_OK) ...;
fp->flag &= (BYTE)~FA_DIRTY; }`. The flag of the result is false when the
write failed. -/
def file_flush (fs : FATFS) (fp : FIL) : Bool × FATFS × FIL :=
  if fp.flag &&& FA_DIRTY ≠ 0 then
    let w := disk_write fs.drv fp.buf fp.sect
    if w.1 then (true, set_drv fs w.2, { fp with flag := fp.flag &&& 0x7F })
    else (false, fs, fp)
  else (true, fs, fp)

/-- Synchronize the file system and the storage device (`sync_fs`). -/
def sync_fs (fs : FATFS) : FRESULT × FATFS :=
  let r := sync_window fs
  if r.1 = FR_OK then
    let fs := r.2
    let fs :=
      if fs.fs_type = FS_FAT32 ∧ fs.fsi_flag = 1 then
        let win : Nat → Nat := fun _ => 0
        let win := st_word win BS_55AA 0xAA55
        let win := st_dword win FSI_LeadSig 0x41615252
        let win := st_dword win FSI_StrucSig 0x61417272
        let win := st_dword win FSI_Free_Count fs.free_clust
        let win := st_dword win FSI_Nxt_Free fs.last_clust
        let ws := (fs.volbase + 1) % W32
        { fs with win := win, winsect := ws, drv := (disk_write fs.drv win ws).2, fsi_flag := 0 }
      else fs
    (if disk_sync fs.drv then FR_OK else FR_DISK_ERR, fs)
  else (r.1, r.2)

/-! ### f_read -/

/-- The end of the loop body of `f_read`: the copy of a part of the sector
cache to the buffer. The result is the count `rcnt` with the objects. -/
def f_read_copy (fs : FATFS) (fp : FIL) (rbuff : Nat → Nat) (br btr : Nat) :
    (FRESULT × FATFS × FIL) ⊕ (FATFS × FIL × (Nat → Nat) × Nat) :=
  let rcnt := SS - fp.fptr % SS
  let rcnt := if rcnt > btr then btr else rcnt
  Sum.inr (fs, fp, blit rbuff br fp.buf (fp.fptr % SS) rcnt, rcnt)

/-- The part of the loop body of `f_read` on a sector boundary, after the
current cluster has been set: the direct read of whole sectors, or the fill of
the sector cache. -/
def f_read_sector (fs : FATFS) (fp : FIL) (rbuff : Nat → Nat) (br btr csect : Nat) :
    (FRESULT × FATFS × FIL) ⊕ (FATFS × FIL × (Nat → Nat) × Nat) :=
  if clust2sect fs fp.clust = 0 then Sum.inl (FR_INT_ERR, fs, ABORT fp FR_INT_ERR)
  else
    let sect := (clust2sect fs fp.clust + csect) % W32
    if btr / SS > 0 then
      let cc := if (csect + btr / SS) % W32 > fs.csize then (fs.csize + W32 - csect) % W32
                else btr / SS
      match disk_read_n fs.drv sect cc with
      | none => Sum.inl (FR_DISK_ERR, fs, ABORT fp FR_DISK_ERR)
      | some d =>
        let rbuff := blit rbuff br d 0 (SS * cc)
        let rbuff :=
          if fp.flag &&& FA_DIRTY ≠ 0 ∧ (fp.sect + W32 - sect) % W32 < cc
          then blit rbuff (br + (fp.sect + W32 - sect) % W32 * SS) fp.buf 0 SS
          else rbuff
        Sum.inr (fs, fp, rbuff, SS * cc % W32)
    else if fp.sect ≠ sect then
      let w := file_flush fs fp
      if w.1 = false then Sum.inl (FR_DISK_ERR, w.2.1, ABORT w.2.2 FR_DISK_ERR)
      else
        match disk_read w.2.1.drv sect with
        | none => Sum.inl (FR_DISK_ERR, w.2.1, ABORT w.2.2 FR_DISK_ERR)
        | some b => f_read_copy w.2.1 { w.2.2 with buf := b, sect := sect } rbuff br btr
    else f_read_copy fs { fp with sect := sect } rbuff br btr

/-- The part of the loop body of `f_read` on a cluster boundary: the cluster
to read from, or the status to abort with. -/
def f_read_cluster (fs : FATFS) (fp : FIL) : (FRESULT ⊕ Nat) × FATFS :=
  let g := if fp.fptr = 0 then (fp.obj.sclust, fs) else get_fat fs fp.obj fp.clust
  if g.1 < 2 then (Sum.inl FR_INT_ERR, g.2)
  else if g.1 = 0xFFFFFFFF then (Sum.inl FR_DISK_ERR, g.2)
  else (Sum.inr g.1, g.2)

/-- One pass of the body of the `for` loop of `f_read`: the status of an
`ABORT` with the objects, or the objects, the buffer and the count `rcnt` of
the pass. -/
def f_read_step (fs : FATFS) (fp : FIL) (rbuff : Nat → Nat) (br btr : Nat) :
    (FRESULT × FATFS × FIL) ⊕ (FATFS × FIL × (Nat → Nat) × Nat) :=
  if fp.fptr % SS = 0 then
    let csect := (fp.fptr / SS) &&& ((fs.csize + W32 - 1) % W32)
    if csect = 0 then
      match f_read_cluster fs fp with
      | (Sum.inl e, fs) => Sum.inl (e, fs, ABORT fp e)
      | (Sum.inr clst, fs) => f_read_sector fs { fp with clust := clst } rbuff br btr csect
    else f_read_sector fs fp rbuff br btr csect
  else f_read_copy fs fp rbuff br btr

/-- The `for` loop of `f_read`: the status, the objects, the buffer and the
byte counter `*br`. -/
def f_read_loop : Nat → FATFS → FIL → (Nat → Nat) → Nat → Nat →
    Option (FRESULT × FATFS × FIL × (Nat → Nat) × Nat)
  | 0, _, _, _, _, _ => none
  | fuel + 1, fs, fp, rbuff, br, btr =>
    if btr > 0 then
      match f_read_step fs fp rbuff br btr with
      | Sum.inl (e, fs, fp) => some (e, fs, fp, rbuff, br)
      | Sum.inr (fs, fp, rbuff, rcnt) =>
        f_read_loop fuel fs { fp with fptr := (fp.fptr + rcnt) % W32 } rbuff
          ((br + rcnt) % W32) ((btr + W32 - rcnt) % W32)
    else some (FR_OK, fs, fp, rbuff, br)

/-- Read file (`f_read`): the status, the volume, the file object, the buffer
and the number of bytes read `*br`. -/
def f_read (fs : FATFS) (fp : FIL) (rbuff : Nat → Nat) (btr : Nat) :
    Option (FRESULT × FATFS × FIL × (Nat → Nat) × Nat) :=
  if validate fs (some fp.obj) ≠ FR_OK then some (validate fs (some fp.obj), fs, fp, rbuff, 0)
  else if result_of fp.err ≠ FR_OK then some (result_of fp.err, fs, fp, rbuff, 0)
  else if fp.flag &&& FA_READ = 0 then some (FR_DENIED, fs, fp, rbuff, 0)
  else
    let remain := (fp.obj.objsize + W32 - fp.fptr) % W32
    let btr := if btr > remain then remain else btr
    f_read_loop (btr + 1) fs fp rbuff 0 btr

/-! ### f_write -/

/-- How one pass of the body of the `for` loop of `f_write` ends: with an
`ABORT`, with the `break` of a full disk, or with the count `wcnt`. -/
inductive WritePass where
  | abort (res : FRESULT) (fs : FATFS) (fp : FIL)
  | full (fs : FATFS) (fp : FIL)
  | next (fs : FATFS) (fp : FIL) (wcnt : Nat)

/-- The end of the loop body of `f_write`: the copy of a part of the data to
the sector cache. -/
def f_write_copy (fs : FATFS) (fp : FIL) (wbuff : Nat → Nat) (bw btw : Nat) : WritePass :=
  let wcnt := SS - fp.fptr % SS
  let wcnt := if wcnt > btw then btw else wcnt
  WritePass.next fs
    { fp with buf := blit fp.buf (fp.fptr % SS) wbuff bw wcnt, flag := fp.flag ||| FA_DIRTY } wcnt

/-- The direct write of whole sectors in the loop body of `f_write`, for the
sector `sect` of the file pointer: `cc` sectors go from the user buffer to the
device, and the sector cache is refilled when it holds one of them. -/
def f_write_direct (fs : FATFS) (fp : FIL) (wbuff : Nat → Nat) (bw btw csect sect : Nat) :
    WritePass :=
  let cc := if (csect + btw / SS) % W32 > fs.csize then (fs.csize + W32 - csect) % W32
            else btw / SS
  let d := disk_write_n fs.drv (fun i => wbuff (bw + i)) sect cc
  if d.1 = false then WritePass.abort FR_DISK_ERR fs (ABORT fp FR_DISK_ERR)
  else
    let fp :=
      if (fp.sect + W32 - sect) % W32 < cc then
        { fp with buf := blit fp.buf 0 wbuff (bw + (fp.sect + W32 - sect) % W32 * SS) SS,
                  flag := fp.flag &&& 0x7F }
      else fp
    WritePass.next (set_drv fs d.2) fp (SS * cc % W32)

/-- The fill of the sector cache with the sector `sect` of the file pointer
in the loop body of `f_write`, followed by the copy of the data. -/
def f_write_fill (fs : FATFS) (fp : FIL) (wbuff : Nat → Nat) (bw btw sect : Nat) : WritePass :=
  if fp.sect ≠ sect ∧ fp.fptr < fp.obj.objsize then
    match disk_read fs.drv sect with
    | none => WritePass.abort FR_DISK_ERR fs (ABORT fp FR_DISK_ERR)
    | some b => f_write_copy fs { fp with buf := b, sect := sect } wbuff bw btw
  else f_write_copy fs { fp with sect := sect } wbuff bw btw

/-- The part of the loop body of `f_write` on a sector boundary, after the
current cluster has been set: the write-back of the sector cache, then the
direct write of whole sectors or the fill of the sector cache. -/
def f_write_sector (fs : FATFS) (fp : FIL) (wbuff : Nat → Nat) (bw btw csect : Nat) : WritePass :=
  let w := file_flush fs fp
  if w.1 = false then WritePass.abort FR_DISK_ERR w.2.1 (ABORT w.2.2 FR_DISK_ERR)
  else if clust2sect w.2.1 w.2.2.clust = 0 then
    WritePass.abort FR_INT_ERR w.2.1 (ABORT w.2.2 FR_INT_ERR)
  else if btw / SS > 0 then
    f_write_direct w.2.1 w.2.2 wbuff bw btw csect ((clust2sect w.2.1 w.2.2.clust + csect) % W32)
  else f_write_fill w.2.1 w.2.2 wbuff bw btw ((clust2sect w.2.1 w.2.2.clust + csect) % W32)

/-- The part of the loop body of `f_write` on a cluster boundary: the cluster
to write to (0 when the disk is full, 1 and `0xFFFFFFFF` for errors). -/
def f_write_cluster (fs : FATFS) (fp : FIL) : Option (Nat × FATFS × FFOBJID) :=
  if fp.fptr = 0 then
    if fp.obj.sclust = 0 then create_chain fs fp.obj 0 else some (fp.obj.sclust, fs, fp.obj)
  else create_chain fs fp.obj fp.clust

/-- One pass of the body of the `for` loop of `f_write`. -/
def f_write_step (fs : FATFS) (fp : FIL) (wbuff : Nat → Nat) (bw btw : Nat) : Option WritePass :=
  if fp.fptr % SS = 0 then
    let csect := (fp.fptr / SS) &&& ((fs.csize + W32 - 1) % W32)
    if csect = 0 then
      match f_write_cluster fs fp with
      | none => none
      | some (clst, fs, obj) =>
        if clst = 0 then some (WritePass.full fs { fp with obj := obj })
        else if clst = 1 then
          some (WritePass.abort FR_INT_ERR fs (ABORT { fp with obj := obj } FR_INT_ERR))
        else if clst = 0xFFFFFFFF then
          some (WritePass.abort FR_DISK_ERR fs (ABORT { fp with obj := obj } FR_DISK_ERR))
        else
          some (f_write_sector fs
            { fp with clust := clst
                      obj := if obj.sclust = 0 then { obj with sclust := clst } else obj }
            wbuff bw btw csect)
    else some (f_write_sector fs fp wbuff bw btw csect)
  else some (f_write_copy fs fp wbuff bw btw)

/-- The increment of the `for` loop of `f_write` on the file object:
`fp->fptr += wcnt, fp->obj.objsize = (fp->fptr > fp->obj.objsize) ? fp->fptr : fp->obj.objsize`. -/
def f_write_advance (fp : FIL) (wcnt : Nat) : FIL :=
  { fp with fptr := (fp.fptr + wcnt) % W32
            obj := { fp.obj with objsize := if (fp.fptr + wcnt) % W32 > fp.obj.objsize
                                            then (fp.fptr + wcnt) % W32 else fp.obj.objsize } }

/-- The assignment `fp->flag |= FA_MODIFIED`. -/
def set_modified (fp : FIL) : FIL :=
  { fp with flag := fp.flag ||| FA_MODIFIED }

/-- The `for` loop of `f_write` with the statement that follows it: the
status, the objects and the byte counter `*bw`. -/
def f_write_loop (wbuff : Nat → Nat) : Nat → FATFS → FIL → Nat → Nat →
    Option (FRESULT × FATFS × FIL × Nat)
  | 0, _, _, _, _ => none
  | fuel + 1, fs, fp, bw, btw =>
    if btw > 0 then
      match f_write_step fs fp wbuff bw btw with
      | none => none
      | some (WritePass.abort e fs fp) => some (e, fs, fp, bw)
      | some (WritePass.full fs fp) => some (FR_OK, fs, set_modified fp, bw)
      | some (WritePass.next fs fp wcnt) =>
        f_write_loop wbuff fuel fs (f_write_advance fp wcnt) ((bw + wcnt) % W32)
          ((btw + W32 - wcnt) % W32)
    else some (FR_OK, fs, set_modified fp, bw)

/-- Write file (`f_write`): the status, the volume, the file object and the
number of bytes written `*bw`. -/
def f_write (fs : FATFS) (fp : FIL) (wbuff : Nat → Nat) (btw : Nat) :
    Option (FRESULT × FATFS × FIL × Nat) :=
  if validate fs (some fp.obj) ≠ FR_OK then some (validate fs (some fp.obj), fs, fp, 0)
  else if result_of fp.err ≠ FR_OK then some (result_of fp.err, fs, fp, 0)
  else if fp.flag &&& FA_WRITE = 0 then some (FR_DENIED, fs, fp, 0)
  else
    let btw := if fs.fs_type ≠ FS_EXFAT ∧ (fp.fptr + btw) % W32 < fp.fptr
               then 0xFFFFFFFF - fp.fptr else btw
    f_write_loop wbuff (btw + 1) fs fp 0 btw

/-! ### f_lseek -/

/-- How one pass of the cluster following loop of `f_lseek` ends: with an
`ABORT`, with the `break` of a full disk, or with the next cluster. -/
inductive SeekPass where
  | abort (res : FRESULT) (fs : FATFS) (fp : FIL)
  | full (fs : FATFS) (fp : FIL)
  | next (fs : FATFS) (fp : FIL) (clst : Nat)

/-- One pass of the body of the loop `while (ofs > bcs)` of `f_lseek`, after
`ofs -= bcs; fp->fptr += bcs;`. In write mode the chain is followed with
forced stretch (`create_chain`), else with `get_fat`. The test
`_FS_EXFAT && fp->fptr > fp->obj.objsize` is made for every volume type, as
`_FS_EXFAT` is the configuration constant 1. -/
def f_lseek_step (fs : FATFS) (fp : FIL) (clst : Nat) : Option SeekPass :=
  let n : Option (Nat × FATFS × FIL) :=
    if fp.flag &&& FA_WRITE ≠ 0 then
      let fp := if fp.fptr > fp.obj.objsize
                then set_modified { fp with obj := { fp.obj with objsize := fp.fptr } } else fp
      match create_chain fs fp.obj clst with
      | none => none
      | some (c, fs, obj) => some (c, fs, { fp with obj := obj })
    else some ((get_fat fs fp.obj clst).1, (get_fat fs fp.obj clst).2, fp)
  match n with
  | none => none
  | some (c, fs, fp) =>
    if fp.flag &&& FA_WRITE ≠ 0 ∧ c = 0 then some (SeekPass.full fs fp)
    else if c = 0xFFFFFFFF then some (SeekPass.abort FR_DISK_ERR fs (ABORT fp FR_DISK_ERR))
    else if c ≤ 1 ∨ c ≥ fs.n_fatent then some (SeekPass.abort FR_INT_ERR fs (ABORT fp FR_INT_ERR))
    else some (SeekPass.next fs { fp with clust := c } c)

/-- The cluster following loop `while (ofs > bcs)` of `f_lseek`: the status
of an `ABORT`, or the final `clst` and `ofs`, with the objects. -/
def f_lseek_follow (bcs : Nat) : Nat → FATFS → FIL → Nat → Nat →
    Option ((FRESULT ⊕ (Nat × Nat)) × FATFS × FIL)
  | 0, _, _, _, _ => none
  | fuel + 1, fs, fp, clst, ofs =>
    if ofs > bcs then
      match f_lseek_step fs { fp with fptr := (fp.fptr + bcs) % W32 } clst with
      | none => none
      | some (SeekPass.abort e fs fp) => some (Sum.inl e, fs, fp)
      | some (SeekPass.full fs fp) => some (Sum.inr (0, 0), fs, fp)
      | some (SeekPass.next fs fp clst) => f_lseek_follow bcs fuel fs fp clst (ofs - bcs)
    else some (Sum.inr (clst, ofs), fs, fp)

/-- The choice of the cluster to start the seek from in `f_lseek`, for
`ofs > 0`: the status of an `ABORT`, or the cluster and the remaining
offset, with the objects. `ifptr` is the file pointer before the call. -/
def f_lseek_origin (fs : FATFS) (fp : FIL) (ofs ifptr bcs : Nat) :
    Option ((FRESULT ⊕ (Nat × Nat)) × FATFS × FIL) :=
  if ifptr > 0 ∧ (ofs - 1) / bcs ≥ (ifptr - 1) / bcs then
    let fptr := (ifptr - 1) &&& (W32 - 1 - (bcs + W32 - 1) % W32)
    some (Sum.inr (fp.clust, (ofs + W32 - fptr) % W32), fs, { fp with fptr := fptr })
  else if fp.obj.sclust = 0 then
    match create_chain fs fp.obj 0 with
    | none => none
    | some (c, fs, obj) =>
      if c = 1 then some (Sum.inl FR_INT_ERR, fs, ABORT { fp with obj := obj } FR_INT_ERR)
      else if c = 0xFFFFFFFF then
        some (Sum.inl FR_DISK_ERR, fs, ABORT { fp with obj := obj } FR_DISK_ERR)
      else some (Sum.inr (c, ofs), fs, { fp with obj := { obj with sclust := c }, clust := c })
  else some (Sum.inr (fp.obj.sclust, ofs), fs, { fp with clust := fp.obj.sclust })

/-- The part of `f_lseek` after the choice of the start cluster,
`if (clst != 0) { ... }`: the cluster following loop, the add of the rest of
the offset to the file pointer and the sector of the new position. The result
is the status of an `ABORT`, or the sector `nsect`, with the objects. -/
def f_lseek_walk (fs : FATFS) (fp : FIL) (clst ofs bcs : Nat) :
    Option ((FRESULT ⊕ Nat) × FATFS × FIL) :=
  if clst ≠ 0 then
    match f_lseek_follow bcs (ofs / bcs + 1) fs fp clst ofs with
    | none => none
    | some (Sum.inl e, fs, fp) => some (Sum.inl e, fs, fp)
    | some (Sum.inr (clst, ofs), fs, fp) =>
      let fp := { fp with fptr := (fp.fptr + ofs) % W32 }
      if ofs % SS ≠ 0 then
        if clust2sect fs clst = 0 then some (Sum.inl FR_INT_ERR, fs, ABORT fp FR_INT_ERR)
        else some (Sum.inr ((clust2sect fs clst + ofs / SS) % W32), fs, fp)
      else some (Sum.inr 0, fs, fp)
  else some (Sum.inr 0, fs, fp)

/-- The part of `f_lseek` for `ofs > 0`: the status of an `ABORT`, or the
sector `nsect`, with the objects. -/
def f_lseek_move (fs : FATFS) (fp : FIL) (ofs ifptr : Nat) :
    Option ((FRESULT ⊕ Nat) × FATFS × FIL) :=
  let bcs := fs.csize * SS % W32
  match f_lseek_origin fs fp ofs ifptr bcs with
  | none => none
  | some (Sum.inl e, fs, fp) => some (Sum.inl e, fs, fp)
  | some (Sum.inr (clst, ofs), fs, fp) => f_lseek_walk fs fp clst ofs bcs

/-- The end of `f_lseek`: the update of the size when the file has been
extended and the fill of the sector cache. -/
def f_lseek_end (fs : FATFS) (fp : FIL) (nsect : Nat) : FRESULT × FATFS × FIL :=
  let fp := if fp.fptr > fp.obj.objsize
            then set_modified { fp with obj := { fp.obj with objsize := fp.fptr } } else fp
  if fp.fptr % SS ≠ 0 ∧ nsect ≠ fp.sect then
    let w := file_flush fs fp
    if w.1 = false then (FR_DISK_ERR, w.2.1, ABORT w.2.2 FR_DISK_ERR)
    else
      match disk_read w.2.1.drv nsect with
      | none => (FR_DISK_ERR, w.2.1, ABORT w.2.2 FR_DISK_ERR)
      | some b => (FR_OK, w.2.1, { w.2.2 with buf := b, sect := nsect })
  else (FR_OK, fs, fp)

/-- Seek file read/write pointer (`f_lseek`), normal seek (`_USE_FASTSEEK` is
0). The offset `ofs` is a `DWORD`, so the test `ofs >= 0x100000000` of the
source never holds. -/
def f_lseek (fs : FATFS) (fp : FIL) (ofs : Nat) : Option (FRESULT × FATFS × FIL) :=
  let res := validate fs (some fp.obj)
  let res := if res = FR_OK then result_of fp.err else res
  let pre : Option (FRESULT × FATFS × FIL) :=
    if res = FR_OK ∧ fs.fs_type = FS_EXFAT then
      match fill_last_frag (fp.obj.n_frag + 1) fs fp.obj fp.clust 0xFFFFFFFF with
      | none => none
      | some (r, fs, obj) => some (r, fs, { fp with obj := obj })
    else some (res, fs, fp)
  match pre with
  | none => none
  | some (res, fs, fp) =>
    if res ≠ FR_OK then some (res, fs, fp)
    else
      let ofs := if ofs > fp.obj.objsize ∧ fp.flag &&& FA_WRITE = 0 then fp.obj.objsize else ofs
      let ifptr := fp.fptr
      let fp := { fp with fptr := 0 }
      if ofs > 0 then
        match f_lseek_move fs fp ofs ifptr with
        | none => none
        | some (Sum.inl e, fs, fp) => some (e, fs, fp)
        | some (Sum.inr nsect, fs, fp) => some (f_lseek_end fs fp nsect)
      else some (f_lseek_end fs fp 0)

/-! ### f_truncate -/

/-- The removal of the clusters behind the file pointer in `f_truncate`: the
status `res` with the objects. -/
def f_truncate_chain (fs : FATFS) (fp : FIL) : Option (FRESULT × FATFS × FIL) :=
  if fp.fptr = 0 then
    match remove_chain fs fp.obj fp.obj.sclust 0 with
    | none => none
    | some (r, fs, obj) => some (r, fs, { fp with obj := { obj with sclust := 0 } })
  else
    let g := get_fat fs fp.obj fp.clust
    let res := if g.1 = 1 then FR_INT_ERR else if g.1 = 0xFFFFFFFF then FR_DISK_ERR else FR_OK
    if res = FR_OK ∧ g.1 < g.2.n_fatent then
      match remove_chain g.2 fp.obj g.1 fp.clust with
      | none => none
      | some (r, fs, obj) => some (r, fs, { fp with obj := obj })
    else some (res, g.2, fp)

/-- Truncate file (`f_truncate`). -/
def f_truncate (fs : FATFS) (fp : FIL) : Option (FRESULT × FATFS × FIL) :=
  if validate fs (some fp.obj) ≠ FR_OK then some (validate fs (some fp.obj), fs, fp)
  else if result_of fp.err ≠ FR_OK then some (result_of fp.err, fs, fp)
  else if fp.flag &&& FA_WRITE = 0 then some (FR_DENIED, fs, fp)
  else if fp.fptr < fp.obj.objsize then
    match f_truncate_chain fs fp with
    | none => none
    | some (res, fs, fp) =>
      let fp := set_modified { fp with obj := { fp.obj with objsize := fp.fptr } }
      let w : FRESULT × FATFS × FIL :=
        if res = FR_OK ∧ fp.flag &&& FA_DIRTY ≠ 0 then
          if (file_flush fs fp).1 = false then (FR_DISK_ERR, fs, fp)
          else (FR_OK, (file_flush fs fp).2.1, (file_flush fs fp).2.2)
        else (res, fs, fp)
      if w.1 ≠ FR_OK then some (w.1, w.2.1, ABORT w.2.2 w.1) else some w
  else some (FR_OK, fs, fp)

/-! ### f_sync and f_close -/

/-- The update of the directory entry of the file in the window in `f_sync`,
with the time stamp `tm`. -/
def f_sync_entry (fs : FATFS) (fp : FIL) (tm : Nat) : FATFS :=
  let o := fp.dir_ptr.getD 0
  let win := stb fs.win (o + DIR_Attr) (ldb fs.win (o + DIR_Attr) ||| AM_ARC)
  let win := st_clust fs win o fp.obj.sclust
  let win := st_dword win (o + DIR_FileSize) fp.obj.objsize
  let win := st_dword win (o + DIR_ModTime) tm
  let win := st_word win (o + DIR_LstAccDate) 0
  { fs with win := win, wflag := 1 }

/-- Synchronize the file (`f_sync`). Modelled from the spec: `tm` is the value
that `get_fattime()` returns. The exFAT branch is outside the model. -/
def f_sync (fs : FATFS) (fp : FIL) (tm : Nat) : Option (FRESULT × FATFS × FIL) :=
  if validate fs (some fp.obj) ≠ FR_OK then some (validate fs (some fp.obj), fs, fp)
  else if fp.flag &&& FA_MODIFIED ≠ 0 then
    let w := file_flush fs fp
    if w.1 = false then some (FR_DISK_ERR, w.2.1, w.2.2)
    else if w.2.1.fs_type = FS_EXFAT then none
    else
      let m := move_window w.2.1 w.2.2.dir_sect
      if m.1 = FR_OK then
        let s := sync_fs (f_sync_entry m.2 w.2.2 tm)
        some (s.1, s.2, { w.2.2 with flag := w.2.2.flag &&& 0xBF })
      else some (m.1, m.2, w.2.2)
  else some (FR_OK, fs, fp)

/-- Close file (`f_close`). -/
def f_close (fs : FATFS) (fp : FIL) (tm : Nat) : Option (FRESULT × FATFS × FIL) :=
  match f_sync fs fp tm with
  | none => none
  | some (res, fs, fp) =>
    if res = FR_OK then
      if validate fs (some fp.obj) = FR_OK then
        let d := dec_share fs fp.obj.lockid
        if d.1 = FR_OK then some (FR_OK, d.2, { fp with obj := { fp.obj with fs := 0 } })
        else some (d.1, d.2, fp)
      else some (validate fs (some fp.obj), fs, fp)
    else some (res, fs, fp)

/-- A file object open for reading and writing on the volume at address 1,
with the mount id 0 and the lock index 1. -/
def exFile : FIL :=
  { flag := FA_READ ||| FA_WRITE, obj := { lockid := 1 } }

/-- The file object `exFile` with the error code of `FR_DISK_ERR` latched in
`err`. -/
def exErrFile : FIL :=
  { exFile with err := 1 }

/-- The file object `exFile` with a modified file and a dirty sector cache
that belongs to sector 2. -/
def exDirtyFile : FIL :=
  { exFile with flag := FA_READ ||| FA_WRITE ||| FA_MODIFIED ||| FA_DIRTY, sect := 2 }

/-- The volume `exFat12NoWrite` (sector 2 cannot be written) with a share
table of one entry, the write lock of the file at offset 0 of the root
directory. -/
def exLockedNoWrite : FATFS :=
  { exFat12NoWrite with Files := [{ fs := 1, clu := 0, idx := 0, ctr := 0x100 }] }

/-- The volume `exFat12` with the same share table. -/
def exLocked : FATFS :=
  { exFat12 with Files := [{ fs := 1, clu := 0, idx := 0, ctr := 0x100 }] }

/-- The file object `exDirtyFile` with the error code of `FR_DISK_ERR` latched
in `err`. -/
def exErrDirtyFile : FIL :=
  { exDirtyFile with err := 1 }

/-- An unmounted filesystem object on a device with a partition table in
sector 0 whose fourth entry starts at sector 1 (the other entries are empty),
and in sector 1 the boot sector of a FAT volume of 100 sectors with the
signature `55 AA`: 512 bytes per sector, one sector per cluster, one reserved
sector, one FAT of one sector, 16 root directory entries. -/
def exSmallPart : FATFS :=
  { drv := { data := fun s =>
      if s = 0 then fun i => if i = 502 then 1 else if i = 510 then 0x55
                             else if i = 511 then 0xAA else 0
      else if s = 1 then fun i =>
        if i = 0 then 0xEB else if i = 1 then 0x3C else if i = 2 then 0x90
        else if i = 12 then 0x02 else if i = 13 then 1 else if i = 14 then 1
        else if i = 16 then 1 else if i = 17 then 16 else if i = 19 then 100
        else if i = 22 then 1 else if i = 510 then 0x55 else if i = 511 then 0xAA else 0
      else fun _ => 0 } }

/-! ## Mounting a volume -/

def MAX_FAT12 : Nat := 0xFF5
def MAX_FAT16 : Nat := 0xFFF5
def MAX_FAT32 : Nat := 0x0FFFFFF5

def BS_jmpBoot : Nat := 0
def BPB_BytsPerSec : Nat := 11
def BPB_SecPerClus : Nat := 13
def BPB_RsvdSecCnt : Nat := 14
def BPB_NumFATs : Nat := 16
def BPB_RootEntCnt : Nat := 17
def BPB_TotSec16 : Nat := 19
def BPB_FATSz16 : Nat := 22
def BPB_TotSec32 : Nat := 32
def BPB_FATSz32 : Nat := 36
def BPB_FSVer32 : Nat := 42
def BPB_RootClus32 : Nat := 44
def BPB_FSInfo32 : Nat := 48
def BS_FilSysType32 : Nat := 82
def MBR_Table : Nat := 446
def SZ_PTE : Nat := 16
def PTE_StLba : Nat := 8

/-- Whether the bytes of `win` from offset `o` equal the list `s`
(`!memcmp(win + o, s, n)`). -/
def bytes_eq (win : Nat → Nat) (o : Nat) (s : List Nat) : Bool :=
  (List.range s.length).all fun k => ldb win (o + k) = s.getD k 0

/-- The test of the BPB fields in `check_fs` for a volume formatted without
the signature and the file system type string. -/
def check_fs_bpb (win : Nat → Nat) : Bool :=
  let w := ld_word win BPB_BytsPerSec
  let b := ldb win BPB_SecPerClus
  decide (w &&& ((w + W32 - 1) % W32) = 0 ∧ w ≥ 512 ∧ w ≤ 512
    ∧ b ≠ 0 ∧ b &&& (b - 1) = 0
    ∧ ld_word win BPB_RsvdSecCnt ≠ 0
    ∧ (ldb win BPB_NumFATs + W32 - 1) % W32 ≤ 1
    ∧ ld_word win BPB_RootEntCnt ≠ 0
    ∧ (ld_word win BPB_TotSec16 ≥ 128 ∨ ld_dword win BPB_TotSec32 ≥ 0x10000)
    ∧ ld_word win BPB_FATSz16 ≠ 0)

/-- Load a sector and check if it is an FAT VBR (`check_fs`): 0 FAT VBR,
1 exFAT VBR, 2 not FAT and valid boot sector, 3 not FAT and invalid boot
sector, 4 disk error. -/
def check_fs (fs : FATFS) (sect : Nat) : Nat × FATFS :=
  let m := move_window { fs with wflag := 0, winsect := 0xFFFFFFFF } sect
  if m.1 ≠ FR_OK then (4, m.2)
  else
    let win := m.2.win
    let sign := ld_word win BS_55AA
    if sign = 0xAA55 ∧
        bytes_eq win BS_jmpBoot [0xEB, 0x76, 0x90, 0x45, 0x58, 0x46, 0x41, 0x54, 0x20, 0x20, 0x20]
    then (1, m.2)
    else if (ldb win BS_jmpBoot = 0xEB ∨ ldb win BS_jmpBoot = 0xE9 ∨ ldb win BS_jmpBoot = 0xE8) ∧
        ((sign = 0xAA55 ∧
            bytes_eq win BS_FilSysType32 [0x46, 0x41, 0x54, 0x33, 0x32, 0x20, 0x20, 0x20]) ∨
          check_fs_bpb win = true)
    then (0, m.2)
    else (if sign = 0xAA55 then 2 else 3, m.2)

/-- The loop of `find_volume` over the four entries of the partition table:
`do { bsect = mbr_pt[i]; fmt = bsect ? check_fs(fs, bsect) : 3; }
while (part == 0 && fmt >= 2 && ++i < 4);` with `part` equal to 0. The result
is the final `fmt` and `bsect`. -/
def find_volume_scan (mbr_pt : List Nat) : Nat → FATFS → Nat → Nat × Nat × FATFS
  | 0, fs, _ => (3, 0, fs)
  | fuel + 1, fs, i =>
    let bsect := mbr_pt.getD i 0
    let c := if bsect ≠ 0 then check_fs fs bsect else (3, fs)
    if c.1 ≥ 2 ∧ i + 1 < 4 then find_volume_scan mbr_pt fuel c.2 (i + 1)
    else (c.1, bsect, c.2)

/-- The FAT sub-type for `nclst` clusters, as `find_volume` and `mount_volume`
choose it: `fmt = 0; if (nclst <= MAX_FAT32) fmt = FS_FAT32;
if (nclst <= MAX_FAT16) fmt = FS_FAT16; if (nclst <= MAX_FAT12) fmt = FS_FAT12;`. -/
def fat_subtype (nclst : Nat) : Nat :=
  let fmt := if nclst ≤ MAX_FAT32 then FS_FAT32 else 0
  let fmt := if nclst ≤ MAX_FAT16 then FS_FAT16 else fmt
  if nclst ≤ MAX_FAT12 then FS_FAT12 else fmt

/-- The first part of the analysis of the BPB in the window (the block that
`find_volume` and `mount_volume` both contain): the sector size, the FAT
size, the number of FATs, the cluster size, the root directory size, the
volume size and the reserved sectors. The result is `none` for the return of
`FR_NO_FILESYSTEM`, or `fasize` (the size of the FAT area), `tsect` and
`nrsv`, with the volume as the stores made so far leave it. -/
def mount_fat_bpb (fs : FATFS) : Option (Nat × Nat × Nat) × FATFS :=
  if ld_word fs.win BPB_BytsPerSec ≠ SS then (none, fs)
  else
    let fasize := if ld_word fs.win BPB_FATSz16 = 0 then ld_dword fs.win BPB_FATSz32
                  else ld_word fs.win BPB_FATSz16
    let fs := { fs with fsize := fasize, n_fats := ldb fs.win BPB_NumFATs }
    if fs.n_fats ≠ 1 ∧ fs.n_fats ≠ 2 then (none, fs)
    else
      let fasize := fasize * fs.n_fats % W32
      let fs := { fs with csize := ldb fs.win BPB_SecPerClus }
      if fs.csize = 0 ∨ fs.csize &&& (fs.csize - 1) ≠ 0 then (none, fs)
      else
        let fs := { fs with n_rootdir := ld_word fs.win BPB_RootEntCnt }
        if fs.n_rootdir % (SS / SZ_DIR) ≠ 0 then (none, fs)
        else
          let tsect := if ld_word fs.win BPB_TotSec16 = 0 then ld_dword fs.win BPB_TotSec32
                       else ld_word fs.win BPB_TotSec16
          let nrsv := ld_word fs.win BPB_RsvdSecCnt
          if nrsv = 0 then (none, fs) else (some (fasize, tsect, nrsv), fs)

/-- The second part of the analysis of the BPB: the number of clusters, the
FAT sub-type, the boundaries of the volume and the check of the FAT size. The
result is `none` for the return of `FR_NO_FILESYSTEM`, or the sub-type. -/
def mount_fat_layout (fs : FATFS) (bsect fasize tsect nrsv : Nat) : Option Nat × FATFS :=
  let sysect := (nrsv + fasize + fs.n_rootdir / (SS / SZ_DIR)) % W32
  if tsect < sysect then (none, fs)
  else
    let nclst := (tsect - sysect) / fs.csize
    if nclst = 0 then (none, fs)
    else
      let fmt := fat_subtype nclst
      if fmt = 0 then (none, fs)
      else
        let fs := { fs with n_fatent := (nclst + 2) % W32, volbase := bsect,
                            fatbase := (bsect + nrsv) % W32, database := (bsect + sysect) % W32 }
        if fmt = FS_FAT32 then
          if ld_word fs.win BPB_FSVer32 ≠ 0 then (none, fs)
          else if fs.n_rootdir ≠ 0 then (none, fs)
          else
            let fs := { fs with dirbase := ld_dword fs.win BPB_RootClus32 }
            if fs.fsize < (fs.n_fatent * 4 % W32 + (SS - 1)) % W32 / SS then (none, fs)
            else (some fmt, fs)
        else
          if fs.n_rootdir = 0 then (none, fs)
          else
            let fs := { fs with dirbase := (fs.fatbase + fasize) % W32 }
            let szbfat := if fmt = FS_FAT16 then fs.n_fatent * 2 % W32
                          else (fs.n_fatent * 3 % W32 / 2 + (fs.n_fatent &&& 1)) % W32
            if fs.fsize < (szbfat + (SS - 1)) % W32 / SS then (none, fs)
            else (some fmt, fs)

/-- The last part of the analysis of the BPB: the cluster allocation
information, loaded from the FSInfo sector of a FAT32 volume when available. -/
def mount_fat_fsinfo (fs : FATFS) (bsect fmt : Nat) : FATFS :=
  let fs := { fs with last_clust := 0xFFFFFFFF, free_clust := 0xFFFFFFFF, fsi_flag := 0x80 }
  if fmt = FS_FAT32 ∧ ld_word fs.win BPB_FSInfo32 = 1 then
    let m := move_window fs ((bsect + 1) % W32)
    if m.1 = FR_OK then
      let fs := { m.2 with fsi_flag := 0 }
      if ld_word fs.win BS_55AA = 0xAA55 ∧ ld_dword fs.win FSI_LeadSig = 0x41615252
          ∧ ld_dword fs.win FSI_StrucSig = 0x61417272 then
        { fs with free_clust := ld_dword fs.win FSI_Free_Count,
                  last_clust := ld_dword fs.win FSI_Nxt_Free }
      else fs
    else m.2
  else fs

/-- The analysis of the BPB of a FAT12/FAT16/FAT32 volume in the window, for
the volume start sector `bsect`: `none` for the return of `FR_NO_FILESYSTEM`,
or the FAT sub-type, with the volume as the stores leave it. -/
def mount_fat (fs : FATFS) (bsect : Nat) : Option Nat × FATFS :=
  match mount_fat_bpb fs with
  | (none, fs) => (none, fs)
  | (some (fasize, tsect, nrsv), fs) =>
    match mount_fat_layout fs bsect fasize tsect nrsv with
    | (none, fs) => (none, fs)
    | (some fmt, fs) => (some fmt, mount_fat_fsinfo fs bsect fmt)

/-- Clear lock entries of the volume (`clear_lock`). -/
def clear_lock (fs : FATFS) : FATFS :=
  { fs with Files := fs.Files.map fun e => if e.fs = fs.addr then { e with fs := 0 } else e }

/-- The result of `find_volume`: the status, `fmt`, whether the mount ID
counter has been advanced, and the volume. -/
structure FindReturn where
  res : FRESULT
  fmt : Nat
  stepped : Bool
  fs : FATFS

/-- The search of `find_volume` for a boot sector: the check of sector 0, the
load of the partition table from the window and the loop over its entries.
The result is `fmt`, `bsect` and the volume. -/
def find_volume_boot (fs : FATFS) : Nat × Nat × FATFS :=
  let c := check_fs fs 0
  let mbr_pt := (List.range 4).map fun i => ld_dword c.2.win (MBR_Table + i * SZ_PTE + PTE_StLba)
  find_volume_scan mbr_pt 4 c.2 0

/-- Find the volume (`find_volume`), for the fixed partition number 0 and
32-bit LBA. Modelled from the spec: `fsid` is the value that
`atomicAddExchange(&Fsid, 1)` returns. The exFAT branch is outside the
model, and the store `fs->lfnbuf = LfnBuf` points to the buffer that the field
`lfnbuf` holds. -/
def find_volume (fs : FATFS) (fsid : Nat) : Option FindReturn :=
  if fs.fs_type ≠ 0 ∧ (fs.fs_type = FS_FAT12 ∨ fs.fs_type = FS_FAT16 ∨ fs.fs_type = FS_FAT32) then
    some { res := FR_OK, fmt := 0, stepped := false, fs := fs }
  else if fs.fs_type ≠ 0 ∧ fs.fs_type = FS_EXFAT then
    some { res := FR_OK, fmt := 1, stepped := false, fs := fs }
  else
    let s := find_volume_boot fs
    if s.1 = 3 then some { res := FR_NO_FILESYSTEM, fmt := 3, stepped := false, fs := s.2.2 }
    else if s.1 = 1 then none
    else
      match mount_fat s.2.2 s.2.1 with
      | (none, fs) => some { res := FR_NO_FILESYSTEM, fmt := s.1, stepped := false, fs := fs }
      | (some setFmt, fs) =>
        let fs := clear_share (clear_lock fs)
        if s.1 = 4 then some { res := FR_DISK_ERR, fmt := s.1, stepped := false, fs := fs }
        else if s.1 > 2 then some { res := FR_NO_FILESYSTEM, fmt := s.1, stepped := false, fs := fs }
        else if s.1 ≠ 2 then
          some { res := FR_OK, fmt := s.1, stepped := true
                 fs := { fs with fs_type := setFmt, id := fsid % W16 } }
        else some { res := FR_OK, fmt := s.1, stepped := false, fs := fs }

/-- Mount the volume if needed (`mount_volume`), for a filesystem object that
is not null; the disk status is the constant `RES_OK` of the source. -/
def mount_volume (fs : FATFS) (fsid : Nat) : Option (FRESULT × FATFS) :=
  if fs.fs_type ≠ 0 then some (FR_OK, fs)
  else
    match find_volume { fs with fs_type := 0 } fsid with
    | none => none
    | some f =>
      if f.fmt = 1 then none
      else
        match mount_fat f.fs f.fs.winsect with
        | (none, fs) => some (FR_NO_FILESYSTEM, fs)
        | (some fmt, fs) =>
          some (FR_OK, clear_share (clear_lock
            { fs with fs_type := fmt % 256
                      id := (if f.stepped then fsid + 1 else fsid) % W16 }))

/-- Mount or unmount a logical drive (`f_mount`). -/
def f_mount (fs : FATFS) (opt : Nat) (umount : Bool) (fsid : Nat) : Option (FRESULT × FATFS) :=
  let fs := if umount then { clear_share fs with fs_type := 0 } else fs
  let fs := if ¬ umount then { fs with fs_type := 0, Files := fs.Files.map fun _ => {} } else fs
  if umount ∨ opt ≠ 1 then some (FR_OK, fs)
  else
    match find_volume fs fsid with
    | none => none
    | some f => if f.res ≠ FR_OK then mount_volume f.fs fsid else some (f.res, f.fs)

/-! ## The cluster count of a BPB, from the words of the specification -/

/-- The total number of sectors of the BPB in `win`: the 16-bit field, or the
32-bit field when the 16-bit field is 0. -/
def bpb_total_sectors (win : Nat → Nat) : Nat :=
  if ld_word win BPB_TotSec16 = 0 then ld_dword win BPB_TotSec32 else ld_word win BPB_TotSec16

/-- The number of sectors of one FAT of the BPB in `win`: the 16-bit field, or
the 32-bit field when the 16-bit field is 0. -/
def bpb_fat_size (win : Nat → Nat) : Nat :=
  if ld_word win BPB_FATSz16 = 0 then ld_dword win BPB_FATSz32 else ld_word win BPB_FATSz16

/-- The number of sectors before the data area, from the words of the
specification: `reserved + n_fats * fat_size + root_entries / 16`, in exact
arithmetic. -/
def bpb_system_sectors (win : Nat → Nat) : Nat :=
  ld_word win BPB_RsvdSecCnt + ldb win BPB_NumFATs * bpb_fat_size win
    + ld_word win BPB_RootEntCnt / 16

/-- The cluster count of the specification:
`(total_sectors - (reserved + n_fats * fat_size + root_entries / 16)) /
sectors_per_cluster`, in exact arithmetic (0 when the difference is
negative). -/
def bpb_nclst (win : Nat → Nat) : Nat :=
  (bpb_total_sectors win - bpb_system_sectors win) / ldb win BPB_SecPerClus

/-- The FAT sub-type of the specification for a cluster count: FAT12 for
1..4085, FAT16 for 4086..65525, FAT32 for 65526..0x0FFFFFF5, none for 0 and
for a larger count. -/
def bpb_subtype (nclst : Nat) : Option Nat :=
  if 1 ≤ nclst ∧ nclst ≤ 4085 then some FS_FAT12
  else if 4086 ≤ nclst ∧ nclst ≤ 65525 then some FS_FAT16
  else if 65526 ≤ nclst ∧ nclst ≤ 0x0FFFFFF5 then some FS_FAT32
  else none

/-- An unmounted filesystem object on a device with a partition table in
sector 0 whose first entry starts at sector 1, and in sector 1 a FAT32 boot
sector with two FATs of `0x80000000` sectors each, one reserved sector and
`0x10000` sectors in total. -/
def exWrapPart : FATFS :=
  { drv := { data := fun s =>
      if s = 0 then fun i => if i = 454 then 1 else if i = 510 then 0x55
                             else if i = 511 then 0xAA else 0
      else if s = 1 then fun i =>
        if i = 0 then 0xEB else if i = 1 then 0x58 else if i = 2 then 0x90
        else if i = 12 then 0x02 else if i = 13 then 1 else if i = 14 then 1
        else if i = 16 then 2 else if i = 34 then 1 else if i = 39 then 0x80
        else if i = 44 then 2
        else if i = 82 then 0x46 else if i = 83 then 0x41 else if i = 84 then 0x54
        else if i = 85 then 0x33 else if i = 86 then 0x32 else if i = 87 then 0x20
        else if i = 88 then 0x20 else if i = 89 then 0x20
        else if i = 510 then 0x55 else if i = 511 then 0xAA else 0
      else fun _ => 0 } }

/-- A filesystem object with the boot sector of `exSmallPart` in the window. -/
def exSmallWin : FATFS :=
  { win := exSmallPart.drv.data 1, winsect := 1 }

/-! ## Notions used to state the properties of the file layer -/

/-- The cluster number `i` of the chain that starts at `c`: `i` steps along
the FAT entries. -/
def clusterAt (fs : FATFS) (c i : Nat) : Nat :=
  (fatEntry fs)^[i] c

/-- The layout of the data area of a mounted volume: the cluster size is a
power of two of at most 128 sectors, the data area starts after sector 0 and
ends below the 32-bit sector limit. -/
def DataOk (fs : FATFS) : Prop :=
  (∃ k, k ≤ 7 ∧ fs.csize = 2 ^ k) ∧ 0 < fs.database ∧
  fs.database + (fs.n_fatent - 2) * fs.csize < W32

/-- The chain of the object covers `n` bytes: every cluster that holds one of
the first `n` bytes of the file is a cluster of the volume. -/
def Covers (fs : FATFS) (obj : FFOBJID) (n : Nat) : Prop :=
  ∀ i, i * (fs.csize * SS) < n →
    2 ≤ clusterAt fs obj.sclust i ∧ clusterAt fs obj.sclust i < fs.n_fatent

/-- The file pointer and the current cluster of the file object agree: the
pointer does not pass the size, and when it is not 0 the current cluster is
the one that holds the byte before it. -/
def AtCluster (fs : FATFS) (fp : FIL) : Prop :=
  fp.fptr ≤ fp.obj.objsize ∧
  (0 < fp.fptr → fp.clust = clusterAt fs fp.obj.sclust ((fp.fptr - 1) / (fs.csize * SS)))

/-- A valid file object open without write access: no latched error, no
write mode, a clean sector cache, a 32-bit size covered by the chain, and a
file pointer that agrees with the current cluster. -/
def ReadHandle (fs : FATFS) (fp : FIL) : Prop :=
  validate fs (some fp.obj) = FR_OK ∧ fp.err = 0 ∧ fp.flag &&& FA_WRITE = 0 ∧
  fp.flag &&& FA_DIRTY = 0 ∧ fp.obj.objsize < W32 ∧ Covers fs fp.obj fp.obj.objsize ∧
  AtCluster fs fp

/-- A file of 1300 bytes on `exFat12File` open for reading, with the chain
2 -> 3 -> 5 and the file pointer at 0. -/
def exReadFile : FIL :=
  { flag := FA_READ, obj := { sclust := 2, objsize := 1300 } }

/-- An exFAT volume of 398 clusters of one sector on an all-zero device. -/
def exExfat : FATFS :=
  { fs_type := FS_EXFAT
    csize := 1
    n_fatent := 400
    fsize := 4
    fatbase := 1
    database := 7
    winsect := 0xFFFFFFFF }

/-- A file of 1300 bytes open for reading, in the three contiguous clusters
2, 3 and 4 (`stat` is 2: the chain is not in the FAT), with the file pointer
at 0. -/
def exContigFile : FIL :=
  { flag := FA_READ, obj := { sclust := 2, objsize := 1300, stat := 2 } }

/-- What one pass of the loop of `f_write` from the volume `fs` and the file
object `fp` with `btw` bytes to go keeps: an `ABORT` carries an error status,
and otherwise the file pointer and the size of the file object are still those
of `fp`; the volume of a pass that goes on is `fs` up to the window, the
device data and the FSINFO values, and its count is at most `btw`. -/
def PassOk (fs : FATFS) (fp : FIL) (btw : Nat) : WritePass → Prop
  | WritePass.abort e _ _ => e ≠ FR_OK
  | WritePass.full _ fp' => fp'.fptr = fp.fptr ∧ fp'.obj.objsize = fp.obj.objsize
  | WritePass.next fs' fp' wcnt =>
    SameGeom fs fs' ∧ fp'.fptr = fp.fptr ∧ fp'.obj.objsize = fp.obj.objsize ∧ wcnt ≤ btw

/-- The volume after `n` read-mode registrations `inc_share(dp, 0)` of one
object with no release in between, each of which returned an index; `none`
when one of them returned 0. -/
def share_reads (dp : DIR_) : Nat → FATFS → Option FATFS
  | 0, fs => some fs
  | n + 1, fs =>
    if (inc_share fs dp 0).1 = 0 then none else share_reads dp n (inc_share fs dp 0).2

/-- The volume `exFat12` with cluster 340 in use as the end of a chain (entry
`0xFFF` in bytes 510 and 511 of the FAT, the last bytes of its first sector);
the entry of cluster 341 lies across the two FAT sectors. -/
def exFat12Edge : FATFS :=
  { exFat12 with
    free_clust := 397
    drv := { data := fun s =>
      if s = 1 then fun i => if i = 510 then 0xFF else if i = 511 then 0x0F else 0
      else fun _ => 0 } }

/-- The volume `exFat12Edge` on a device that cannot write its sector 1 (the
first sector of the first FAT). -/
def exFat12EdgeNoWrite : FATFS :=
  { exFat12Edge with drv := { exFat12Edge.drv with wrOk := fun s => s != 1 } }

/-! ## The SFN checksum, from the words of the specification -/

/-- Rotation of an 8-bit value right by one bit: bit 0 moves to bit 7. -/
def ror8 (s : Nat) : Nat :=
  s / 2 + (s % 2) * 128

/-- The checksum of the specification over the 11 bytes at offset `o`: start
from 0 and, for each byte in order, rotate the sum right and add the byte
modulo 256. -/
def sfn_checksum (b : Nat → Nat) (o : Nat) : Nat :=
  (List.range 11).foldl (fun sum k => (ror8 sum + ldb b (o + k)) % 256) 0

/-! ## exFAT: checksum of a directory entry block -/

def XDIR_NumSec : Nat := 1
def XDIR_SetSum : Nat := 2

/-- The `for` loop of `xdir_sum`: at the offset of the sum field the index is
stepped once more, at every other offset the byte is added to the rotated
16-bit sum. -/
def xdir_sum_loop (dir : Nat → Nat) (szblk : Nat) : Nat → Nat → Nat → Nat
  | 0, _, sum => sum
  | fuel + 1, i, sum =>
    if i < szblk then
      if i = XDIR_SetSum then xdir_sum_loop dir szblk fuel (i + 1 + 1) sum
      else xdir_sum_loop dir szblk fuel (i + 1)
        (((if sum &&& 1 ≠ 0 then 0x8000 else 0) + (sum >>> 1) + ldb dir i) % W16)
    else sum

/-- Get the checksum of the directory entry block (`xdir_sum`). -/
def xdir_sum (dir : Nat → Nat) : Nat :=
  xdir_sum_loop dir ((ldb dir XDIR_NumSec + 1) * SZ_DIR) ((ldb dir XDIR_NumSec + 1) * SZ_DIR) 0 0

/-- The first statement of `store_xdir` on the entry block:
`st_word(dirb + XDIR_SetSum, xdir_sum(dirb))`. -/
def store_xdir_sum (dirb : Nat → Nat) : Nat → Nat :=
  st_word dirb XDIR_SetSum (xdir_sum dirb)

/-- The sanity check of `load_xdir` on the loaded entry block:
`xdir_sum(dirb) != ld_word(dirb + XDIR_SetSum)` gives `FR_INT_ERR`. -/
def load_xdir_check (dirb : Nat → Nat) : FRESULT :=
  if xdir_sum dirb ≠ ld_word dirb XDIR_SetSum then FR_INT_ERR else FR_OK

/-- Rotation of a 16-bit value right by one bit: bit 0 moves to bit 15. -/
def ror16 (s : Nat) : Nat :=
  s / 2 + (s % 2) * 32768

/-- The set checksum of the specification: the 16-bit rotate-right-and-add
over the bytes `0 .. (NumSec + 1) * 32 - 1` of the block, skipping the offsets
2 and 3. -/
def set_checksum (dir : Nat → Nat) : Nat :=
  ((List.range ((ldb dir 1 + 1) * 32)).filter fun i => decide (i ≠ 2 ∧ i ≠ 3)).foldl
    (fun sum i => (ror16 sum + ldb dir i) % 65536) 0

/-! ### f_mkdir -/

/-- The dot entries that `f_mkdir` builds at the start of the window, which
shows the first sector of the cleared cluster `dcl`: the entry `.` with the
time `tm` and the cluster `dcl`, its copy made into `..`, and the cluster
`pcl` of the parent directory in the copy. -/
def f_mkdir_dots (fs : FATFS) (dcl pcl tm : Nat) : FATFS :=
  let win : Nat → Nat := fun k => if k < 11 then 0x20 else fs.win k
  let win := stb win DIR_Name 0x2E
  let win := stb win DIR_Attr AM_DIR
  let win := st_dword win DIR_ModTime tm
  let dot := st_clust fs win 0 dcl
  let win : Nat → Nat := fun k => if SZ_DIR ≤ k ∧ k < SZ_DIR + SZ_DIR then dot (k - SZ_DIR) else dot k
  let win := stb win (SZ_DIR + 1) 0x2E
  let win := st_clust fs win SZ_DIR pcl
  { fs with win := win, wflag := 1 }

/-- The block of `f_mkdir` that follows a successful `create_chain`:
`res = dir_clear(fs, dcl)`, then the dot entries (FAT only) and the first
`res = dir_register(&dj)`. -/
def f_mkdir_table (cp : CodePage) (fs : FATFS) (dj : DIR_) (dcl tm : Nat) :
    Option (FRESULT × FATFS × DIR_) :=
  let c := dir_clear fs dcl
  if c.1 = FR_OK then
    dir_register cp
      (if c.2.fs_type ≠ FS_EXFAT then f_mkdir_dots c.2 dcl dj.obj.sclust tm else c.2) dj
  else some (c.1, c.2, dj)

/-- The block of `f_mkdir` that fills the registered entry: the time, the
start cluster and the attribute are stored through `dj.dir`, the window is
marked dirty and `res = sync_fs(fs)`. The exFAT branch is outside the model. -/
def f_mkdir_entry (fs : FATFS) (dj : DIR_) (dcl tm : Nat) : Option (FRESULT × FATFS) :=
  if fs.fs_type = FS_EXFAT then none
  else
    let o := dj.dir.getD 0
    let win := st_dword fs.win (o + DIR_ModTime) tm
    let win := st_clust fs win o dcl
    let win := stb win (o + DIR_Attr) AM_DIR
    some (sync_fs { fs with win := win, wflag := 1 })

/-- The statements
`if (res == FR_OK) res = dir_register(&dj);
if (res != FR_OK) { remove_chain(&dj.obj, dcl, 0); }`
of `f_mkdir` that follow `sync_fs`. The status of `remove_chain` is not used. -/
def f_mkdir_again (cp : CodePage) (r : FRESULT × FATFS × DIR_) (dcl : Nat) :
    Option (FRESULT × FATFS × DIR_) :=
  (if r.1 = FR_OK then dir_register cp r.2.1 r.2.2 else some r).bind fun q =>
    if q.1 ≠ FR_OK then
      (remove_chain q.2.1 q.2.2.obj dcl 0).map fun x => (q.1, x.2.1, { q.2.2 with obj := x.2.2 })
    else some q

/-- The last statements of `f_mkdir`:
`if (res == FR_OK) res = dir_register(&dj);
if (res != FR_OK) { remove_chain(&dj.obj, dcl, 0); }
else { remove_chain(&sobj, dcl, 0); }`.
The result is the status that `f_mkdir` returns, with the volume. -/
def f_mkdir_last (cp : CodePage) (r : FRESULT × FATFS × DIR_) (sobj : FFOBJID) (dcl : Nat) :
    Option (FRESULT × FATFS) :=
  (if r.1 = FR_OK then dir_register cp r.2.1 r.2.2 else some r).bind fun q =>
    if q.1 ≠ FR_OK then (remove_chain q.2.1 q.2.2.obj dcl 0).map fun x => (q.1, x.2.1)
    else (remove_chain q.2.1 sobj dcl 0).map fun x => (q.1, x.2.1)

/-- The status that `f_mkdir` takes from the cluster number that
`create_chain` returned. -/
def f_mkdir_status (dcl : Nat) : FRESULT :=
  if dcl = 0xFFFFFFFF then FR_DISK_ERR
  else if dcl = 1 then FR_INT_ERR
  else if dcl = 0 then FR_DENIED
  else FR_OK

/-- The branch `if (res == FR_NO_FILE)` of `f_mkdir`, on the directory object
`dj` that `follow_path` left: a cluster is allocated with the new object
`sobj`, the table is made, the entry is registered and filled, and the
statements at the end follow. `tm` is the value of `get_fattime()`. The
results are the allocated cluster and what `f_mkdir` returns. -/
def f_mkdir_new (cp : CodePage) (fs : FATFS) (dj : DIR_) (sobj : FFOBJID) (tm : Nat) :
    Option (Nat × FRESULT × FATFS) :=
  (create_chain fs sobj 0).bind fun a =>
    (if f_mkdir_status a.1 = FR_OK then f_mkdir_table cp a.2.1 dj a.1 tm
     else some (f_mkdir_status a.1, a.2.1, dj)).bind fun t =>
    (if t.1 = FR_OK then (f_mkdir_entry t.2.1 t.2.2 a.1 tm).map fun e => (e.1, e.2, t.2.2)
     else some t).bind fun e =>
    (f_mkdir_again cp e a.1).bind fun g =>
    (f_mkdir_last cp g a.2.2 a.1).map fun l => (a.1, l)

/-- Create a directory (`f_mkdir`). `dj` and `sobj` are the automatic objects
of the function before its first store to them, `tm` is the value that
`get_fattime()` returns and `fsid` the one that `find_volume` takes. The
result holds the cluster that `create_chain` returned when that call was
reached. -/
def f_mkdir (cp : CodePage) (fs : FATFS) (path : List Nat) (dj : DIR_) (sobj : FFOBJID)
    (tm fsid : Nat) : Option (Option Nat × FRESULT × FATFS) :=
  (find_volume fs fsid).bind fun f =>
    if f.res = FR_OK then
      let fs := f.fs
      let dj := { dj with obj := { dj.obj with fs := fs.addr }, lfn := LfnPtr.member }
      (follow_path cp fs dj path).bind fun p =>
        let res := if p.1 = FR_OK then FR_EXIST else p.1
        if res = FR_NO_FILE then
          (f_mkdir_new cp p.2.1 p.2.2 { sobj with fs := p.2.1.addr } tm).map fun n =>
            (some n.1, n.2)
        else some (none, res, p.2.1)
    else some (none, f.res, f.fs)

/-- An exFAT volume of 16 clusters of one sector (`n_fatent` is 18) whose
allocation bitmap, in sector 5, starts with the bytes `b0`, `b1` and `b2`;
the window is invalid. -/
def exBitmap (b0 b1 b2 : Nat) : FATFS :=
  { fs_type := FS_EXFAT
    csize := 1
    n_fatent := 18
    fsize := 1
    fatbase := 1
    database := 4
    bitbase := 5
    winsect := 0xFFFFFFFF
    drv := { data := fun s =>
      if s = 5 then fun i => if i = 0 then b0 else if i = 1 then b1 else if i = 2 then b2 else 0
      else fun _ => 0 } }

/-- An exFAT volume of 4998 clusters with an all-zero allocation bitmap in
the sectors 5 and 6, on a device that cannot write its sector 5. -/
def exBitmapNoWrite : FATFS :=
  { fs_type := FS_EXFAT
    csize := 1
    n_fatent := 5000
    fsize := 1
    fatbase := 1
    database := 4
    bitbase := 5
    winsect := 0xFFFFFFFF
    drv := { wrOk := fun s => s != 5 } }

/-- The layout assumed of an exFAT volume with an allocation bitmap: one or
two FATs below the 32-bit sector limit, at least one cluster and at most
`0x7FFFFFFD`, and the sectors of the bitmap (one bit per cluster, from sector
`bitbase`) after the FAT area and below the sector limit. -/
def BitmapOk (fs : FATFS) : Prop :=
  fs.fs_type = FS_EXFAT ∧ (fs.n_fats = 1 ∨ fs.n_fats = 2) ∧
  fs.fatbase + fs.n_fats * fs.fsize < W32 - 1 ∧
  fs.fatbase + fs.n_fats * fs.fsize ≤ fs.bitbase ∧
  3 ≤ fs.n_fatent ∧ fs.n_fatent ≤ 0x7FFFFFFF ∧
  fs.bitbase + (fs.n_fatent - 2 + 4095) / 4096 < W32 - 1

/-- Bit `k` of byte `x` of sector `t` as the volume holds it. -/
def secBit (fs : FATFS) (t x k : Nat) : Bool :=
  (ldb (secView fs t) x).testBit k

/-- The bit of the allocation bitmap for cluster `v + 2`, as the volume holds
it: bit `v % 8` of byte `v / 8` of the bitmap. -/
def bitmapBit (fs : FATFS) (v : Nat) : Bool :=
  secBit fs (fs.bitbase + v / 8 / SS) (v / 8 % SS) (v % 8)

/-- Bit `k` of byte `x` of sector `t` is the bit of the allocation bitmap for
cluster `j + 2`. -/
def atBit (fs : FATFS) (j t x k : Nat) : Prop :=
  t = fs.bitbase + j / 8 / SS ∧ x = j / 8 % SS ∧ k = j % 8

/-- Volume `fs'` is volume `fs` with the `n` bits of the allocation bitmap
from the one of cluster `v + 2` inverted: the same volume up to the window
and the device data, with the window invariant; the bits of the run are
inverted and every other bit of the sectors outside the second FAT copy is
kept. -/
def Flipped (fs fs' : FATFS) (v n : Nat) : Prop :=
  SameVol fs fs' ∧ WinInv fs' ∧
  (∀ j, v ≤ j → j < v + n → bitmapBit fs' j = !bitmapBit fs j) ∧
  (∀ t x k, ¬ inMirror fs t → t ≠ W32 - 1 →
    (∀ j, v ≤ j → j < v + n → ¬ atBit fs j t x k) → secBit fs' t x k = secBit fs t x k)

/-! ## exFAT: creation of a directory entry block -/

def ET_FILEDIR : Nat := 0x85
def ET_STREAM : Nat := 0xC0
def ET_FILENAME : Nat := 0xC1
def XDIR_Type : Nat := 0
def XDIR_NumName : Nat := 35
def XDIR_NameHash : Nat := 36

/-- The `while` loop of `xname_sum` from index `k` of the name: every code
unit is converted to upper case and its two bytes are added to the rotated
16-bit sum; `none` when no NUL is met within the fuel. -/
def xname_sum_loop (cp : CodePage) (name : Nat → Nat) : Nat → Nat → Nat → Option Nat
  | 0, _, _ => none
  | fuel + 1, k, sum =>
    if ldw name k ≠ 0 then
      let chr := cp.upper (ldw name k) % W16
      let sum := ((if sum &&& 1 ≠ 0 then 0x8000 else 0) + (sum >>> 1) + (chr &&& 0xFF)) % W16
      let sum := ((if sum &&& 1 ≠ 0 then 0x8000 else 0) + (sum >>> 1) + (chr >>> 8)) % W16
      xname_sum_loop cp name fuel (k + 1) sum
    else some sum

/-- Get the checksum (used as hash) of the file name (`xname_sum`), for a
name in a buffer of `_MAX_LFN + 1` code units. -/
def xname_sum (cp : CodePage) (name : Nat → Nat) : Option Nat :=
  xname_sum_loop cp name 256 0 0

/-- The inner `do ... while (i % SZ_DIR != 0)` loop of `create_xdir` that
fills the name field of an entry: the final `i`, `nlen`, `wc` and block. -/
def create_xdir_fill (lfn : Nat → Nat) :
    Nat → Nat → Nat → Nat → (Nat → Nat) → Option (Nat × Nat × Nat × (Nat → Nat))
  | 0, _, _, _, _ => none
  | fuel + 1, i, nlen, wc, dirb =>
    let wc1 := if wc ≠ 0 then ldw lfn nlen else wc
    let nlen1 := if wc ≠ 0 ∧ wc1 ≠ 0 then (nlen + 1) % 256 else nlen
    if (i + 2) % W32 % SZ_DIR ≠ 0 then
      create_xdir_fill lfn fuel ((i + 2) % W32) nlen1 wc1 (st_word dirb i wc1)
    else some ((i + 2) % W32, nlen1, wc1, st_word dirb i wc1)

/-- The outer `do ... while (lfn[nlen])` loop of `create_xdir` that creates
the file-name entries: the final `nlen`, `nc1` and block. -/
def create_xdir_names (lfn : Nat → Nat) :
    Nat → Nat → Nat → Nat → Nat → (Nat → Nat) → Option (Nat × Nat × (Nat → Nat))
  | 0, _, _, _, _, _ => none
  | fuel + 1, i, nlen, nc1, wc, dirb =>
    (create_xdir_fill lfn 16 ((i + 1 + 1) % W32) nlen wc
        (stb (stb dirb i ET_FILENAME) ((i + 1) % W32) 0)).bind fun f =>
      if ldw lfn f.2.1 ≠ 0 then
        create_xdir_names lfn fuel f.1 f.2.1 ((nc1 + 1) % 256) f.2.2.1 f.2.2.2
      else some (f.2.1, (nc1 + 1) % 256, f.2.2.2)

/-- Create a new directory entry block in `dirb` for the object name `lfn`
(`create_xdir`). The name lies in a buffer of `_MAX_LFN + 1` code units. -/
def create_xdir (cp : CodePage) (dirb lfn : Nat → Nat) : Option (Nat → Nat) :=
  let dirb : Nat → Nat := fun k => if k < 2 * SZ_DIR then 0 else dirb k
  let dirb := stb dirb (0 * SZ_DIR + XDIR_Type) ET_FILEDIR
  let dirb := stb dirb (1 * SZ_DIR + XDIR_Type) ET_STREAM
  (create_xdir_names lfn 256 (SZ_DIR * 2) 0 0 1 dirb).bind fun r =>
    (xname_sum cp lfn).map fun h =>
      st_word (stb (stb r.2.2 XDIR_NumName r.1) XDIR_NumSec (1 + r.2.1)) XDIR_NameHash h

/-- The number of entries that `dir_register` allocates on an exFAT volume for
a name of `len` code units: `n_ent = (len + 14) / 15 + 2`, a `WORD`. -/
def xdir_n_ent (len : Nat) : Nat :=
  ((len + 14) / 15 + 2) % W16

/-- Byte `k` (from 64) of the file-name entries for the name `lfn` of `len`
code units: in every entry of 32 bytes the type `0xC1`, a zero byte and 15
code units in little-endian, the units of the name in order and zeros after the
last one. -/
def nameEntryByte (lfn : Nat → Nat) (len k : Nat) : Nat :=
  if (k - 64) % 32 = 0 then 0xC1
  else if (k - 64) % 32 = 1 then 0
  else
    let j := 15 * ((k - 64) / 32) + ((k - 64) % 32 - 2) / 2
    let w := if j < len then ldw lfn j else 0
    if k % 2 = 0 then w % 256 else w / 256

/-- The name `my file.txt` as the content of a name buffer. -/
def nameLossy : Nat → Nat :=
  fun i => [0x6D, 0x79, 0x20, 0x66, 0x69, 0x6C, 0x65, 0x2E, 0x74, 0x78, 0x74].getD i 0

/-- The volume `exFat12` after `create_name` of `my file.txt` through a
directory object set up by `INIT_BUF`: the member `LfnBuf` holds the name, the
static buffer that `fs->lfnbuf` points to is empty. -/
def exLossyVol : FATFS :=
  { exFat12 with LfnBuf := nameLossy }

/-- The directory object after that call: `lfn` points to the member `LfnBuf`,
`fn` holds the SFN `MYFILE  TXT` with the status byte
`NS_LOSS | NS_LFN | NS_LAST`. -/
def exLossyDj : DIR_ :=
  { lfn := LfnPtr.member
    fn := fun k => [0x4D, 0x59, 0x46, 0x49, 0x4C, 0x45, 0x20, 0x20, 0x54, 0x58, 0x54, 0x07].getD k 0 }

/-- The numbered SFN `MYFILE~1TXT` with the status byte
`NS_LOSS | NS_LFN | NS_LAST`. -/
def fnNumbered : Nat → Nat :=
  fun k => [0x4D, 0x59, 0x46, 0x49, 0x4C, 0x45, 0x7E, 0x31, 0x54, 0x58, 0x54, 0x07].getD k 0

/-- The volume `exLossyVol` after `dir_register` of that object: the window
shows sector 5, the first sector of the root directory, is dirty and holds
the single entry `MYFILE~1TXT`. -/
def exRegVol : FATFS :=
  { exLossyVol with
    winsect := 5
    wflag := 1
    win := fun k => if k < 32 then sfnEntry [0x4D, 0x59, 0x46, 0x49, 0x4C, 0x45, 0x7E, 0x31,
      0x54, 0x58, 0x54] 0 0 k else 0 }

/-- The directory object after that `dir_register`: on the entry at offset 0
of sector 5, with the numbered SFN in `fn`. -/
def exRegDj : DIR_ :=
  { lfn := LfnPtr.member, fn := fnNumbered, dptr := 0, sect := 5, dir := some 0,
    blk_ofs := 0xFFFFFFFF }

/-- A file of 1300 bytes on `exFat12File` open for reading and writing, with
the chain 2 -> 3 -> 5, the file pointer at 512 and cluster 2, which holds byte
511, as the current cluster. -/
def exTruncFile : FIL :=
  { flag := FA_READ ||| FA_WRITE, obj := { sclust := 2, objsize := 1300 }, fptr := 512,
    clust := 2 }

/-! ## Notions used to state the properties of the directory layer -/

/-- The layout of the directory area of a mounted FAT12/FAT16/FAT32 volume:
the data area starts after the FATs, the root directory entry is a 32-bit
value, and the fixed root directory of a FAT12/FAT16 volume lies between the
FATs and the data area. -/
def DirOk (fs : FATFS) : Prop :=
  fs.fatbase + fs.n_fats * fs.fsize ≤ fs.database ∧ fs.dirbase < W32 ∧
  (fs.fs_type = FS_FAT32 ∨
    (fs.fatbase + fs.n_fats * fs.fsize ≤ fs.dirbase ∧
      fs.dirbase + fs.n_rootdir / (SS / SZ_DIR) ≤ fs.database))

/-- No cluster of the volume is its own successor in the FAT. -/
def NoSelfLink (fs : FATFS) : Prop :=
  ∀ c, 2 ≤ c → c < fs.n_fatent → fatEntry fs c ≠ c

/-- The first cluster of the directory table of an object with start cluster
`sclust`: the root directory of a FAT32 volume starts at cluster `dirbase`,
and 0 stands for the fixed root directory of a FAT12/FAT16 volume. -/
def dirStart (fs : FATFS) (sclust : Nat) : Nat :=
  if sclust = 0 ∧ fs.fs_type ≥ FS_FAT32 then fs.dirbase else sclust

/-- The sector that holds byte `idx` of the directory table with start cluster
`sclust`: a sector of the fixed root directory, or a sector of the cluster
reached after `idx / (csize * SS)` steps along the FAT. -/
def dirSect (fs : FATFS) (sclust idx : Nat) : Nat :=
  if dirStart fs sclust = 0 then fs.dirbase + idx / SS
  else clust2sect fs (clusterAt fs (dirStart fs sclust) (idx / (fs.csize * SS)))
        + idx / SS % fs.csize

/-- Byte `k` of the directory entry at offset `idx` of the directory table
with start cluster `sclust`, as the volume holds it. -/
def dirEntryByte (fs : FATFS) (sclust idx k : Nat) : Nat :=
  ldb (secView fs (dirSect fs sclust idx)) (idx % SS + k)

/-- The directory object is on the entry at offset `dptr` of its table: the
offset is a multiple of the entry size below the size limit, `dir` is the
offset of the entry in its sector, `sect` is the sector of the entry and
`clust` the cluster of the entry (0 in the fixed root directory of a
FAT12/FAT16 volume, whose sector count bounds the offset). -/
def DirAt (fs : FATFS) (dp : DIR_) : Prop :=
  dp.dptr % SZ_DIR = 0 ∧ dp.dptr < MAX_DIR ∧ dp.dir = some (dp.dptr % SS) ∧
  dp.sect = dirSect fs dp.obj.sclust dp.dptr ∧
  (if dirStart fs dp.obj.sclust = 0
   then dp.clust = 0 ∧ fs.fs_type ≠ FS_FAT32 ∧ dp.dptr / SS ≤ fs.n_rootdir / (SS / SZ_DIR)
   else dp.clust = clusterAt fs (dirStart fs dp.obj.sclust) (dp.dptr / (fs.csize * SS)) ∧
     2 ≤ dp.clust ∧ dp.clust < fs.n_fatent)

/-- Sector `t` lies after the FATs and below the last 32-bit sector number. -/
def afterFats (fs : FATFS) (t : Nat) : Prop :=
  fs.fatbase + fs.n_fats * fs.fsize ≤ t ∧ t < W32 - 1

/-- Volume `b` is volume `a` after directory traffic: the same volume up to
the window and the device data, with the window invariant and the same FAT
entries. -/
def SameFat (a b : FATFS) : Prop :=
  SameVol a b ∧ WinInv b ∧ ∀ c, fatEntry b c = fatEntry a c

/-- The invariants of a mounted FAT12/FAT16/FAT32 volume that the directory
functions rely on. -/
def DirVol (fs : FATFS) : Prop :=
  VolOk fs ∧ DataOk fs ∧ DirOk fs ∧ WinInv fs ∧ NoSelfLink fs

/-- The entries of the directory table from offset `s` up to offset `e` are
LFN slots with the checksum `sum`: each lies in a sector after the FATs, has
the attribute `AM_LFN` and holds `sum` in its checksum field. -/
def SlotsOk (fs : FATFS) (sclust sum s e : Nat) : Prop :=
  ∀ idx, s ≤ idx → idx < e → idx % SZ_DIR = 0 →
    afterFats fs (dirSect fs sclust idx) ∧
    dirEntryByte fs sclust idx LDIR_Attr = AM_LFN ∧
    dirEntryByte fs sclust idx LDIR_Chksum = sum

/-- The volume `exFat12` with the name `ab` in the LFN buffer. -/
def exLongVol : FATFS :=
  { exFat12 with lfnbuf := fun k => [0x61, 0x62].getD k 0 }

/-- A directory object on the root directory with the SFN `AB` and the status
byte `NS_LFN`: the name of the LFN buffer needs an LFN entry. -/
def exLongDj : DIR_ :=
  { fn := fun k => [0x41, 0x42, 0x20, 0x20, 0x20, 0x20, 0x20, 0x20, 0x20, 0x20, 0x20, 0x02].getD k 0 }

/-! ## The SFN of an ASCII name, from the words of the specification -/

/-- ASCII upper-case conversion of a character. -/
def ascii_upper (w : Nat) : Nat :=
  if 0x61 ≤ w ∧ w ≤ 0x7A then w - 0x20 else w

/-- A field of the SFN without its padding: the `n` bytes at offset `o` with
the trailing spaces removed. -/
def sfn_field (fn : Nat → Nat) (o n : Nat) : List Nat :=
  ((List.range n).map fun k => ldb fn (o + k)).rdropWhile fun c => c = 0x20

/-- The name rebuilt from the SFN: the body without padding, followed by a dot
and the extension without padding when the extension is not blank. -/
def sfn_rebuild (fn : Nat → Nat) : List Nat :=
  if sfn_field fn 8 3 = [] then sfn_field fn 0 8
  else sfn_field fn 0 8 ++ 0x2E :: sfn_field fn 8 3

/-- The SFN is space-padded: in the body (8 bytes at offset 0) and in the
extension (3 bytes at offset 8) a space is followed by spaces only. -/
def SfnPadded (fn : Nat → Nat) : Prop :=
  (∀ k, k + 1 < 8 → ldb fn k = 0x20 → ldb fn (k + 1) = 0x20) ∧
  (∀ k, k + 1 < 3 → ldb fn (8 + k) = 0x20 → ldb fn (8 + k + 1) = 0x20)

/-- The long name `name` is what the name buffer holds up to its NUL. -/
def HoldsName (buf : Nat → Nat) (name : List Nat) : Prop :=
  (∀ k, k < name.length → ldw buf k = name.getD k 0) ∧ ldw buf name.length = 0 ∧
  ∀ x ∈ name, x ≠ 0

/-- The conversion of the long name to the SFN loses something: the name
starts with a space or a dot, a character is dropped (a space, or a dot that
is not the last one), a character is replaced by an underscore (one of
`+,;=[]`), or a field overflows (more than 8 characters before the dot, or
more than 3 characters after it). -/
def SfnLossy (name : List Nat) : Prop :=
  name.head? = some 0x20 ∨ name.head? = some 0x2E ∨ 0x20 ∈ name ∨ 2 ≤ name.count 0x2E ∨
  (∃ x ∈ name, sfn_illegal x = true) ∨
  8 < (name.takeWhile fun c => c ≠ 0x2E).length ∨
  (0x2E ∈ name ∧ 3 < (name.reverse.takeWhile fun c => c ≠ 0x2E).length)

/-- A character that goes to the SFN as it is, or upper-cased. -/
def sfn_good (w : Nat) : Prop :=
  w ≠ 0x20 ∧ w ≠ 0x2E ∧ sfn_illegal w = false ∧ 0 < w ∧ w < 0x80

/-- The fields of an SFN under construction: `lb` bytes of the body and `le`
bytes of the extension are set, the others are spaces. -/
def SfnShape (fn : Nat → Nat) (lb le : Nat) : Prop :=
  lb ≤ 8 ∧ le ≤ 3 ∧
  (∀ k, k < 11 → fn k < 0x80 ∧ ¬ (0x61 ≤ fn k ∧ fn k ≤ 0x7A) ∧ sfn_illegal (fn k) = false) ∧
  (∀ k, k < lb → fn k ≠ 0x20) ∧ (∀ k, lb ≤ k → k < 8 → fn k = 0x20) ∧
  (∀ k, k < le → fn (8 + k) ≠ 0x20) ∧ (∀ k, le ≤ k → k < 3 → fn (8 + k) = 0x20)

/-- The fields of the state of the SFN loop. -/
def SfnFields (fn : Nat → Nat) (ni i : Nat) : Prop :=
  (ni = 8 ∧ SfnShape fn i 0) ∨ (ni = 11 ∧ 8 ≤ i ∧ ∃ lb, SfnShape fn lb (i - 8))

/-- The state of the SFN loop while nothing is lost: the characters read so
far are in the SFN, upper-cased, the body before the extension. -/
def SfnExact (lfn : Nat → Nat) (dd : Nat) (fn : Nat → Nat) (ni i si : Nat) : Prop :=
  (ni = 8 → dd ≠ 1 ∧ i = si ∧ si ≤ 8 ∧ (dd = 0 ∨ si < dd) ∧
    (∀ k, k < si → sfn_good (ldw lfn k) ∧ fn k = ascii_upper (ldw lfn k)) ∧
    (∀ k, si ≤ k → k < 11 → fn k = 0x20)) ∧
  (ni = 11 → 2 ≤ dd ∧ dd ≤ 9 ∧ dd ≤ si ∧ i + dd = 8 + si ∧ i ≤ 11 ∧
    (∀ k, k + 1 < dd → sfn_good (ldw lfn k) ∧ fn k = ascii_upper (ldw lfn k)) ∧
    (∀ k, dd ≤ k + 1 → k < 8 → fn k = 0x20) ∧
    (∀ k, dd ≤ k → k < si → sfn_good (ldw lfn k) ∧ fn (8 + (k - dd)) = ascii_upper (ldw lfn k)) ∧
    (∀ k, i ≤ k → k < 11 → fn k = 0x20))

/-- The invariant of the SFN loop on the name of `len` ASCII characters in
`lfn`, with the extension at offset `dd`. -/
def SfnInv (lfn : Nat → Nat) (len dd : Nat) (st : SfnState) : Prop :=
  st.si ≤ len ∧ st.cf < 32 ∧ (st.ni = 8 ∨ st.ni = 11) ∧ SfnFields st.fn st.ni st.i ∧
  (st.cf &&& NS_LOSS = 0 → SfnExact lfn dd st.fn st.ni st.i st.si)

/-- What holds of the state the SFN loop ends with. -/
def SfnDone (lfn : Nat → Nat) (len dd : Nat) (st : SfnState) : Prop :=
  st.cf < 32 ∧ (st.ni = 8 ∨ st.ni = 11) ∧ SfnFields st.fn st.ni st.i ∧
  (st.cf &&& NS_LOSS = 0 → SfnExact lfn dd st.fn st.ni st.i len)

/-- A byte that the SFN loop stores for a character. -/
def SfnByte (c : Nat) : Prop :=
  c < 0x80 ∧ ¬ (0x61 ≤ c ∧ c ≤ 0x7A) ∧ sfn_illegal c = false ∧ c ≠ 0x20

/-! ## Bytes and words -/

theorem ldb_lt (b : Nat → Nat) (i : Nat) : ldb b i < 256 := by
  unfold ldb; omega

theorem ldb_stb_same (b : Nat → Nat) (i v : Nat) : ldb (stb b i v) i = v % 256 := by
  simp [ldb, stb]

theorem ldb_stb_ne (b : Nat → Nat) (i j v : Nat) (h : j ≠ i) : ldb (stb b i v) j = ldb b j := by
  simp [ldb, stb, Function.update_noteq h]

theorem ldb_stb (b : Nat → Nat) (i j v : Nat) :
    ldb (stb b i v) j = if j = i then v % 256 else ldb b j := by
  by_cases h : j = i
  · subst h; simp [ldb_stb_same]
  · simp [h, ldb_stb_ne]

theorem shl_or_eq_add (x y k : Nat) (h : y < 2 ^ k) : (x <<< k) ||| y = x * 2 ^ k + y := by
  rw [Nat.shiftLeft_eq, Nat.mul_comm x, ← Nat.mul_add_lt_is_or h]

theorem or_shl_eq_add (x y k : Nat) (h : y < 2 ^ k) : y ||| (x <<< k) = y + x * 2 ^ k := by
  rw [Nat.or_comm, shl_or_eq_add x y k h, Nat.add_comm]

theorem shl8_or (x y : Nat) (hx : x < 16777216) (hy : y < 256) :
    ((x <<< 8) % 4294967296) ||| y = x * 256 + y := by
  rw [Nat.shiftLeft_eq, Nat.mod_eq_of_lt (by omega), ← Nat.shiftLeft_eq,
    shl_or_eq_add _ _ 8 (by omega)]
  omega

theorem ld_word_eq (b : Nat → Nat) (p : Nat) :
    ld_word b p = ldb b p + 256 * ldb b (p + 1) := by
  have h0 := ldb_lt b p
  have h1 := ldb_lt b (p + 1)
  unfold ld_word W16
  rw [Nat.shiftLeft_eq, Nat.mod_eq_of_lt (by omega), ← Nat.shiftLeft_eq,
    shl_or_eq_add _ _ 8 (by omega)]
  omega

theorem ld_dword_eq (b : Nat → Nat) (p : Nat) :
    ld_dword b p = ldb b p + 256 * ldb b (p + 1) + 65536 * ldb b (p + 2)
      + 16777216 * ldb b (p + 3) := by
  have h0 := ldb_lt b p
  have h1 := ldb_lt b (p + 1)
  have h2 := ldb_lt b (p + 2)
  have h3 := ldb_lt b (p + 3)
  unfold ld_dword W32
  simp only []
  rw [shl8_or (ldb b (p + 3)) _ (by omega) h2,
    shl8_or (ldb b (p + 3) * 256 + ldb b (p + 2)) _ (by omega) h1,
    shl8_or ((ldb b (p + 3) * 256 + ldb b (p + 2)) * 256 + ldb b (p + 1)) _ (by omega) h0]
  omega

theorem ldb_st_word (b : Nat → Nat) (p v j : Nat) :
    ldb (st_word b p v) j =
      if j = p + 1 then v % 65536 / 256 else if j = p then v % 256 else ldb b j := by
  unfold st_word W16
  simp only [ldb_stb, Nat.shiftRight_eq_div_pow]
  split_ifs <;> omega

theorem ldb_st_dword (b : Nat → Nat) (p v j : Nat) :
    ldb (st_dword b p v) j =
      if j = p + 3 then v % 4294967296 / 16777216
      else if j = p + 2 then v / 65536 % 256
      else if j = p + 1 then v / 256 % 256
      else if j = p then v % 256 else ldb b j := by
  unfold st_dword W32
  simp only [ldb_stb, Nat.shiftRight_eq_div_pow]
  split_ifs <;> omega

theorem ld_word_st_word (b : Nat → Nat) (p v : Nat) :
    ld_word (st_word b p v) p = v % 65536 := by
  rw [ld_word_eq, ldb_st_word, ldb_st_word]
  simp
  omega

theorem ld_dword_st_dword (b : Nat → Nat) (p v : Nat) :
    ld_dword (st_dword b p v) p = v % 4294967296 := by
  rw [ld_dword_eq]
  simp only [ldb_st_dword]
  simp
  omega

/-! ## The sector window -/

theorem SameVol.refl (fs : FATFS) : SameVol fs fs := by
  unfold SameVol; rfl

theorem SameVol.trans {a b c : FATFS} (h1 : SameVol a b) (h2 : SameVol b c) : SameVol a c := by
  unfold SameVol at *
  rw [h2, h1]

theorem secView_win (fs : FATFS) : secView fs fs.winsect = fs.win := by
  simp [secView]

theorem sync_window_inv (fs : FATFS)
    (hg : fs.fatbase + fs.n_fats * fs.fsize < W32 - 1) (hw : fs.winsect < W32) :
    SameVol fs (sync_window fs).2 ∧ (sync_window fs).2.win = fs.win ∧
    (sync_window fs).2.winsect = fs.winsect ∧
    ((sync_window fs).1 ≠ FR_OK → (sync_window fs).2 = fs) ∧
    ((sync_window fs).1 = FR_OK → (sync_window fs).2.wflag = 0 ∧
      (fs.wflag = 0 → (sync_window fs).2.drv.data = fs.drv.data) ∧
      (fs.wflag ≠ 0 → (sync_window fs).2.drv.data fs.winsect = fs.win ∧
        ∀ t, t ≠ fs.winsect → ¬ inMirror fs t → (sync_window fs).2.drv.data t = fs.drv.data t)) := by
  unfold sync_window
  by_cases hd : fs.wflag = 0
  · rw [if_neg (by simpa using hd)]
    exact ⟨SameVol.refl _, rfl, rfl, fun _ => rfl, fun _ => ⟨hd, fun _ => rfl, fun h => absurd hd h⟩⟩
  · rw [if_pos hd]
    simp only [disk_write]
    by_cases hwr : fs.drv.wrOk fs.winsect = true
    · rw [if_pos hwr]
      simp only []
      by_cases hm : (fs.winsect + W32 - fs.fatbase) % W32 < fs.fsize
      · rw [if_pos hm]
        by_cases hn : fs.n_fats = 2
        · rw [if_pos hn]
          have hmir : inMirror fs ((fs.winsect + fs.fsize) % W32) := by
            unfold inMirror
            rw [hn] at hg
            unfold W32 at *
            refine ⟨hn, ?_, ?_⟩ <;> omega
          have hne : (fs.winsect + fs.fsize) % W32 ≠ fs.winsect := by
            rw [hn] at hg
            unfold W32 at *
            omega
          by_cases hwm : fs.drv.wrOk ((fs.winsect + fs.fsize) % W32) = true
          · rw [if_pos hwm]
            refine ⟨by unfold SameVol; rfl, rfl, rfl, fun h => absurd rfl h,
              fun _ => ⟨rfl, fun h => absurd h hd, fun _ => ⟨?_, ?_⟩⟩⟩
            · simp [Function.update_noteq hne.symm]
            · intro t ht htm
              have : t ≠ (fs.winsect + fs.fsize) % W32 := fun e => htm (e ▸ hmir)
              simp [Function.update_noteq this, Function.update_noteq ht]
          · rw [if_neg hwm]
            refine ⟨by unfold SameVol; rfl, rfl, rfl, fun h => absurd rfl h,
              fun _ => ⟨rfl, fun h => absurd h hd, fun _ => ⟨?_, ?_⟩⟩⟩
            · simp
            · intro t ht _
              simp [Function.update_noteq ht]
        · rw [if_neg hn]
          refine ⟨by unfold SameVol; rfl, rfl, rfl, fun h => absurd rfl h,
            fun _ => ⟨rfl, fun h => absurd h hd, fun _ => ⟨?_, ?_⟩⟩⟩
          · simp
          · intro t ht _
            simp [Function.update_noteq ht]
      · rw [if_neg hm]
        refine ⟨by unfold SameVol; rfl, rfl, rfl, fun h => absurd rfl h,
          fun _ => ⟨rfl, fun h => absurd h hd, fun _ => ⟨?_, ?_⟩⟩⟩
        · simp
        · intro t ht _
          simp [Function.update_noteq ht]
    · rw [if_neg hwr]
      simp only []
      exact ⟨SameVol.refl _, rfl, rfl, fun _ => rfl, fun h => by simp at h⟩

theorem move_window_inv (fs : FATFS) (s : Nat)
    (hg : fs.fatbase + fs.n_fats * fs.fsize < W32 - 1) (hw : WinInv fs) (hs : s < W32) :
    SameVol fs (move_window fs s).2 ∧ WinInv (move_window fs s).2 ∧
    (∀ t, ¬ inMirror fs t → t ≠ W32 - 1 →
      secView (move_window fs s).2 t = secView fs t) ∧
    ((move_window fs s).1 = FR_OK → (move_window fs s).2.winsect = s) := by
  obtain ⟨hw1, hw2⟩ := hw
  unfold move_window
  by_cases hsw : s = fs.winsect
  · rw [if_neg (by simpa using hsw)]
    exact ⟨SameVol.refl _, ⟨hw1, hw2⟩, fun _ _ _ => rfl, fun _ => hsw.symm⟩
  · rw [if_pos hsw]
    simp only []
    obtain ⟨hsv, hwin, hsect, hfail, hok⟩ := sync_window_inv fs hg hw1
    by_cases hr1 : (sync_window fs).1 = FR_OK
    · obtain ⟨hf0, hclean, hdirty⟩ := hok hr1
      rw [if_pos hr1]
      have hview : ∀ t, ¬ inMirror fs t → t ≠ W32 - 1 →
          (sync_window fs).2.drv.data t = secView fs t := by
        intro t htm ht
        unfold secView
        by_cases htw : t = fs.winsect
        · subst htw
          simp only [if_true]
          by_cases hd : fs.wflag = 0
          · rw [hclean hd]; exact (hw2 hd ht).symm
          · exact (hdirty hd).1
        · rw [if_neg htw]
          by_cases hd : fs.wflag = 0
          · rw [hclean hd]
          · exact (hdirty hd).2 t htw htm
      unfold disk_read
      by_cases hr : (sync_window fs).2.drv.rdOk s = true
      · rw [if_pos hr]
        simp only []
        refine ⟨SameVol.trans hsv (by unfold SameVol; rfl), ⟨hs, fun _ _ => rfl⟩, ?_, fun _ => trivial⟩
        intro t htm ht
        rw [← hview t htm ht]
        unfold secView
        by_cases hts : t = s
        · subst hts; simp
        · simp [hts]
      · rw [if_neg hr]
        simp only []
        refine ⟨SameVol.trans hsv (by unfold SameVol; rfl),
          ⟨by unfold W32; simp, fun _ h => absurd rfl h⟩, ?_, fun h => by simp at h⟩
        intro t htm ht
        rw [← hview t htm ht]
        unfold secView
        simp [ht]
    · rw [if_neg hr1]
      simp only []
      rw [hfail hr1]
      exact ⟨SameVol.refl _, ⟨hw1, hw2⟩, fun _ _ _ => rfl, fun h => absurd h hr1⟩

theorem move_window_device_ok (fs : FATFS) (s : Nat) (hd : DeviceOk fs.drv) :
    (move_window fs s).1 = FR_OK := by
  unfold move_window
  by_cases hsw : s = fs.winsect
  · rw [if_neg (by simpa using hsw)]
  · rw [if_pos hsw]
    simp only []
    have h1 : (sync_window fs).1 = FR_OK := by
      unfold sync_window disk_write
      by_cases hf : fs.wflag = 0
      · simp [hf]
      · simp only [hd.2 fs.winsect, if_true]
        split_ifs <;> rfl
    have h2 : (sync_window fs).2.drv.rdOk s = true := by
      unfold sync_window disk_write
      by_cases hf : fs.wflag = 0
      · simp [hf, hd.1 s]
      · simp only [hd.2 fs.winsect, if_true]
        split_ifs <;> simp [hd.1 s]
    rw [if_pos h1]
    unfold disk_read
    simp [h2]

/-! ## Volumes that differ in the window only -/

theorem SameVol.fs_type {a b : FATFS} (h : SameVol a b) : b.fs_type = a.fs_type := by
  unfold SameVol at h; rw [h]
theorem SameVol.n_fats {a b : FATFS} (h : SameVol a b) : b.n_fats = a.n_fats := by
  unfold SameVol at h; rw [h]
theorem SameVol.n_fatent {a b : FATFS} (h : SameVol a b) : b.n_fatent = a.n_fatent := by
  unfold SameVol at h; rw [h]
theorem SameVol.fsize {a b : FATFS} (h : SameVol a b) : b.fsize = a.fsize := by
  unfold SameVol at h; rw [h]
theorem SameVol.fatbase {a b : FATFS} (h : SameVol a b) : b.fatbase = a.fatbase := by
  unfold SameVol at h; rw [h]
theorem SameVol.free_clust {a b : FATFS} (h : SameVol a b) : b.free_clust = a.free_clust := by
  unfold SameVol at h; rw [h]
theorem SameVol.last_clust {a b : FATFS} (h : SameVol a b) : b.last_clust = a.last_clust := by
  unfold SameVol at h; rw [h]
theorem SameVol.fsi_flag {a b : FATFS} (h : SameVol a b) : b.fsi_flag = a.fsi_flag := by
  unfold SameVol at h; rw [h]
theorem SameVol.csize {a b : FATFS} (h : SameVol a b) : b.csize = a.csize := by
  unfold SameVol at h; rw [h]
theorem SameVol.database {a b : FATFS} (h : SameVol a b) : b.database = a.database := by
  unfold SameVol at h; rw [h]
theorem SameVol.rdOk {a b : FATFS} (h : SameVol a b) : b.drv.rdOk = a.drv.rdOk := by
  unfold SameVol at h; rw [h]
theorem SameVol.wrOk {a b : FATFS} (h : SameVol a b) : b.drv.wrOk = a.drv.wrOk := by
  unfold SameVol at h; rw [h]

theorem SameVol.volOk {a b : FATFS} (h : SameVol a b) (hv : VolOk a) : VolOk b := by
  unfold VolOk at *
  rw [h.n_fats, h.fatbase, h.fsize, h.n_fatent, h.fs_type]
  exact hv

theorem SameVol.deviceOk {a b : FATFS} (h : SameVol a b) (hd : DeviceOk a.drv) : DeviceOk b.drv := by
  unfold DeviceOk at *
  rw [h.rdOk, h.wrOk]
  exact hd

theorem SameVol.inMirror {a b : FATFS} (h : SameVol a b) (t : Nat) : inMirror b t ↔ inMirror a t := by
  unfold FatFs.inMirror
  rw [h.n_fats, h.fatbase, h.fsize]

theorem fatByte_congr {a b : FATFS} (h : SameVol a b) (hv : SameView a b) (hg : VolOk a)
    (k : Nat) (hk : k / 512 < a.fsize) : fatByte b k = fatByte a k := by
  unfold fatByte
  rw [h.fatbase]
  rw [hv (a.fatbase + k / 512)]
  · unfold FatFs.inMirror
    omega
  · obtain ⟨hn, hgeo, _⟩ := hg
    unfold W32 at *
    rcases hn with hn | hn <;> rw [hn] at hgeo <;> omega

theorem fatEntry_congr {a b : FATFS} (h : SameVol a b) (hv : SameView a b) (hg : VolOk a)
    (c : Nat) : fatEntry b c = fatEntry a c := by
  unfold fatEntry
  rw [h.n_fatent, h.fs_type]
  by_cases hc : c < 2 ∨ c ≥ a.n_fatent
  · simp [hc]
  · rw [if_neg hc, if_neg hc]
    have hg' := hg
    obtain ⟨_, _, _, ht⟩ := hg
    unfold FS_FAT12 FS_FAT16 FS_FAT32 at *
    rcases ht with ⟨ht, hn, hf⟩ | ⟨ht, hn, hf⟩ | ⟨ht, hn, hf⟩
    · simp only [ht, if_true]
      rw [fatByte_congr h hv hg', fatByte_congr h hv hg'] <;> omega
    · simp only [ht]
      simp only [show ¬ (2 = 1) by decide, if_false, if_true]
      rw [fatByte_congr h hv hg', fatByte_congr h hv hg'] <;> omega
    · simp only [ht]
      simp only [show ¬ (3 = 1) by decide, show ¬ (3 = 2) by decide, if_false]
      rw [fatByte_congr h hv hg', fatByte_congr h hv hg',
        fatByte_congr h hv hg', fatByte_congr h hv hg'] <;> omega

theorem Keeps.self (a : FATFS) (hw : WinInv a) : Keeps a a :=
  ⟨SameVol.refl a, hw, fun _ _ _ => rfl⟩

theorem Keeps.comp {a b c : FATFS} (h1 : Keeps a b) (h2 : Keeps b c) : Keeps a c := by
  refine ⟨SameVol.trans h1.1 h2.1, h2.2.1, ?_⟩
  intro t htm ht
  rw [h2.2.2 t (fun h => htm ((h1.1.inMirror t).1 h)) ht, h1.2.2 t htm ht]

theorem VolOk.geom {fs : FATFS} (hv : VolOk fs) : fs.fatbase + fs.n_fats * fs.fsize < W32 - 1 :=
  hv.2.1

theorem move_window_keeps (fs : FATFS) (s : Nat) (hv : VolOk fs) (hw : WinInv fs) (hs : s < W32) :
    Keeps fs (move_window fs s).2 ∧
    ((move_window fs s).1 = FR_OK → (move_window fs s).2.winsect = s) := by
  obtain ⟨h1, h2, h3, h4⟩ := move_window_inv fs s hv.geom hw hs
  exact ⟨⟨h1, h2, h3⟩, h4⟩

/-- After a successful move to a sector of the first FAT the window holds the
contents the volume had for that sector. -/
theorem move_window_fat (fs : FATFS) (k : Nat) (hv : VolOk fs) (hw : WinInv fs)
    (hk : k / 512 < fs.fsize) (h : (move_window fs (fs.fatbase + k / 512)).1 = FR_OK) :
    ldb (move_window fs (fs.fatbase + k / 512)).2.win (k % 512) = fatByte fs k := by
  have hlt : fs.fatbase + k / 512 < W32 - 1 := by
    obtain ⟨hn, hgeo, _⟩ := hv
    unfold W32 at *
    rcases hn with hn | hn <;> rw [hn] at hgeo <;> omega
  obtain ⟨⟨_, _, h3⟩, h4⟩ := move_window_keeps fs (fs.fatbase + k / 512) hv hw (by omega)
  have := h3 (fs.fatbase + k / 512) (by unfold inMirror; omega) (by omega)
  unfold fatByte
  rw [← this]
  unfold secView
  rw [if_pos (h4 h).symm]

theorem fat12_sect {fs : FATFS} (hv : VolOk fs) (ht : fs.fs_type = FS_FAT12) {c : Nat}
    (hc : c < fs.n_fatent) : (c + c / 2 + 1) / 512 < fs.fsize ∧ fs.n_fatent ≤ 4087 := by
  obtain ⟨_, _, _, h⟩ := hv
  unfold FS_FAT12 FS_FAT16 FS_FAT32 at *
  rcases h with ⟨_, hn, hf⟩ | ⟨h2, _, _⟩ | ⟨h3, _, _⟩ <;> omega

theorem fat16_sect {fs : FATFS} (hv : VolOk fs) (ht : fs.fs_type = FS_FAT16) {c : Nat}
    (hc : c < fs.n_fatent) : (2 * c + 1) / 512 < fs.fsize ∧ fs.n_fatent ≤ 65527 := by
  obtain ⟨_, _, _, h⟩ := hv
  unfold FS_FAT12 FS_FAT16 FS_FAT32 at *
  rcases h with ⟨h1, _, _⟩ | ⟨_, hn, hf⟩ | ⟨h3, _, _⟩ <;> omega

theorem fat32_sect {fs : FATFS} (hv : VolOk fs) (ht : fs.fs_type = FS_FAT32) {c : Nat}
    (hc : c < fs.n_fatent) : (4 * c + 3) / 512 < fs.fsize ∧ fs.n_fatent ≤ 268435447 := by
  obtain ⟨_, _, _, h⟩ := hv
  unfold FS_FAT12 FS_FAT16 FS_FAT32 at *
  rcases h with ⟨h1, _, _⟩ | ⟨h2, _, _⟩ | ⟨_, hn, hf⟩ <;> omega

theorem VolOk.fat_type {fs : FATFS} (hv : VolOk fs) :
    fs.fs_type = FS_FAT12 ∨ fs.fs_type = FS_FAT16 ∨ fs.fs_type = FS_FAT32 := by
  obtain ⟨_, _, _, h⟩ := hv
  rcases h with ⟨h, _⟩ | ⟨h, _⟩ | ⟨h, _⟩ <;> simp [h]

theorem fatbase_sect_lt {fs : FATFS} (hv : VolOk fs) {k : Nat} (hk : k / 512 < fs.fsize) :
    fs.fatbase + k / 512 < W32 := by
  obtain ⟨hn, hgeo, _⟩ := hv
  unfold W32 at *
  rcases hn with hn | hn <;> rw [hn] at hgeo <;> omega

theorem get_fat_inv (fs : FATFS) (obj : FFOBJID) (c : Nat) (hv : VolOk fs) (hw : WinInv fs) :
    Keeps fs (get_fat fs obj c).2 ∧
    ((get_fat fs obj c).1 ≠ 0xFFFFFFFF → (get_fat fs obj c).1 = fatEntry fs c) := by
  unfold get_fat fatEntry
  by_cases hc : c < 2 ∨ c ≥ fs.n_fatent
  · rw [if_pos hc, if_pos hc]
    exact ⟨Keeps.self fs hw, fun _ => rfl⟩
  · rw [if_neg hc, if_neg hc]
    have hc' : c < fs.n_fatent := by omega
    rcases hv.fat_type with ht | ht | ht
    · -- FAT12
      obtain ⟨hs, hn⟩ := fat12_sect hv ht hc'
      rw [if_pos ht, if_pos ht]
      have hbc : (c + c / 2) % W32 = c + c / 2 := by unfold W32; omega
      have hbc1 : (c + c / 2 + 1) % W32 = c + c / 2 + 1 := by unfold W32; omega
      have hA : (fs.fatbase + (c + c / 2) / SS) % W32 = fs.fatbase + (c + c / 2) / 512 := by
        have := fatbase_sect_lt hv (k := c + c / 2) (by omega)
        unfold SS; exact Nat.mod_eq_of_lt this
      simp only [hbc, hbc1, hA]
      obtain ⟨hk1, hw1⟩ := move_window_keeps fs (fs.fatbase + (c + c / 2) / 512) hv hw
        (fatbase_sect_lt hv (by omega))
      by_cases hr1 : (move_window fs (fs.fatbase + (c + c / 2) / 512)).1 = FR_OK
      · have hb0 := move_window_fat fs (c + c / 2) hv hw (by omega) hr1
        rw [if_neg (by simpa using hr1)]
        generalize move_window fs (fs.fatbase + (c + c / 2) / 512) = r1 at *
        have hv1 := hk1.1.volOk hv
        have hB : (r1.2.fatbase + (c + c / 2 + 1) / SS) % W32
            = r1.2.fatbase + (c + c / 2 + 1) / 512 := by
          have := fatbase_sect_lt hv1 (k := c + c / 2 + 1) (by rw [hk1.1.fsize]; omega)
          unfold SS; exact Nat.mod_eq_of_lt this
        simp only [hB]
        obtain ⟨hk2, hw2⟩ := move_window_keeps r1.2 (r1.2.fatbase + (c + c / 2 + 1) / 512) hv1
          hk1.2.1 (fatbase_sect_lt hv1 (by rw [hk1.1.fsize]; omega))
        by_cases hr2 : (move_window r1.2 (r1.2.fatbase + (c + c / 2 + 1) / 512)).1 = FR_OK
        · have hb1 := move_window_fat r1.2 (c + c / 2 + 1) hv1 hk1.2.1
            (by rw [hk1.1.fsize]; omega) hr2
          rw [if_neg (by simpa using hr2)]
          refine ⟨hk1.comp hk2, fun _ => ?_⟩
          have hb1' : fatByte r1.2 (c + c / 2 + 1) = fatByte fs (c + c / 2 + 1) :=
            fatByte_congr hk1.1 hk1.2.2 hv _ (by omega)
          unfold SS
          rw [hb0, hb1, hb1']
          have h0 : fatByte fs (c + c / 2) < 256 := ldb_lt _ _
          have h1 : fatByte fs (c + c / 2 + 1) < 256 := ldb_lt _ _
          rw [or_shl_eq_add _ _ 8 (by omega), Nat.and_one_is_mod, Nat.shiftRight_eq_div_pow,
            show (4095 : Nat) = 2 ^ 12 - 1 by norm_num, Nat.and_pow_two_sub_one_eq_mod]
          split_ifs <;> omega
        · rw [if_pos (by simpa using hr2)]
          exact ⟨hk1.comp hk2, fun h => absurd rfl h⟩
      · rw [if_pos (by simpa using hr1)]
        exact ⟨hk1, fun h => absurd rfl h⟩
    · -- FAT16
      obtain ⟨hs, hn⟩ := fat16_sect hv ht hc'
      have ht1 : ¬ fs.fs_type = FS_FAT12 := by rw [ht]; decide
      rw [if_neg ht1, if_pos ht, if_neg ht1, if_pos ht]
      have hA : (fs.fatbase + c / (SS / 2)) % W32 = fs.fatbase + (2 * c) / 512 := by
        have := fatbase_sect_lt hv (k := 2 * c) (by omega)
        unfold SS
        rw [show c / (512 / 2) = 2 * c / 512 by omega]
        exact Nat.mod_eq_of_lt this
      have hp : c * 2 % W32 % SS = (2 * c) % 512 := by unfold W32 SS; omega
      simp only [hA, hp]
      obtain ⟨hk1, hw1⟩ := move_window_keeps fs (fs.fatbase + (2 * c) / 512) hv hw
        (fatbase_sect_lt hv (by omega))
      by_cases hr1 : (move_window fs (fs.fatbase + (2 * c) / 512)).1 = FR_OK
      · have hb0 := move_window_fat fs (2 * c) hv hw (by omega) hr1
        have hb1 := move_window_fat fs (2 * c + 1) hv hw (by omega)
          (by rw [show (2 * c + 1) / 512 = 2 * c / 512 by omega]; exact hr1)
        rw [show (2 * c + 1) / 512 = 2 * c / 512 by omega,
          show (2 * c + 1) % 512 = 2 * c % 512 + 1 by omega] at hb1
        rw [if_neg (by simpa using hr1)]
        refine ⟨hk1, fun _ => ?_⟩
        rw [ld_word_eq, hb0, hb1]
      · rw [if_pos (by simpa using hr1)]
        exact ⟨hk1, fun h => absurd rfl h⟩
    · -- FAT32
      obtain ⟨hs, hn⟩ := fat32_sect hv ht hc'
      have ht1 : ¬ fs.fs_type = FS_FAT12 := by rw [ht]; decide
      have ht2 : ¬ fs.fs_type = FS_FAT16 := by rw [ht]; decide
      rw [if_neg ht1, if_neg ht2, if_pos ht, if_neg ht1, if_neg ht2]
      have hA : (fs.fatbase + c / (SS / 4)) % W32 = fs.fatbase + (4 * c) / 512 := by
        have := fatbase_sect_lt hv (k := 4 * c) (by omega)
        unfold SS
        rw [show c / (512 / 4) = 4 * c / 512 by omega]
        exact Nat.mod_eq_of_lt this
      have hp : c * 4 % W32 % SS = (4 * c) % 512 := by unfold W32 SS; omega
      simp only [hA, hp]
      obtain ⟨hk1, hw1⟩ := move_window_keeps fs (fs.fatbase + (4 * c) / 512) hv hw
        (fatbase_sect_lt hv (by omega))
      by_cases hr1 : (move_window fs (fs.fatbase + (4 * c) / 512)).1 = FR_OK
      · have hb0 := move_window_fat fs (4 * c) hv hw (by omega) hr1
        have hb1 := move_window_fat fs (4 * c + 1) hv hw (by omega)
          (by rw [show (4 * c + 1) / 512 = 4 * c / 512 by omega]; exact hr1)
        have hb2 := move_window_fat fs (4 * c + 2) hv hw (by omega)
          (by rw [show (4 * c + 2) / 512 = 4 * c / 512 by omega]; exact hr1)
        have hb3 := move_window_fat fs (4 * c + 3) hv hw (by omega)
          (by rw [show (4 * c + 3) / 512 = 4 * c / 512 by omega]; exact hr1)
        rw [show (4 * c + 1) / 512 = 4 * c / 512 by omega,
          show (4 * c + 1) % 512 = 4 * c % 512 + 1 by omega] at hb1
        rw [show (4 * c + 2) / 512 = 4 * c / 512 by omega,
          show (4 * c + 2) % 512 = 4 * c % 512 + 2 by omega] at hb2
        rw [show (4 * c + 3) / 512 = 4 * c / 512 by omega,
          show (4 * c + 3) % 512 = 4 * c % 512 + 3 by omega] at hb3
        rw [if_neg (by simpa using hr1)]
        refine ⟨hk1, fun _ => ?_⟩
        rw [ld_dword_eq, hb0, hb1, hb2, hb3,
          show (268435455 : Nat) = 2 ^ 28 - 1 by norm_num, Nat.and_pow_two_sub_one_eq_mod]
      · rw [if_pos (by simpa using hr1)]
        exact ⟨hk1, fun h => absurd rfl h⟩

theorem poke_sameVol (fs : FATFS) (p b : Nat) : SameVol fs (poke fs p b) := by
  unfold SameVol poke; rfl

theorem poke_winInv (fs : FATFS) (p b : Nat) (hw : WinInv fs) : WinInv (poke fs p b) :=
  ⟨hw.1, fun h => by simp [poke] at h⟩

theorem poke_view (fs : FATFS) (p b t : Nat) (ht : t ≠ fs.winsect) :
    secView (poke fs p b) t = secView fs t := by
  unfold secView poke
  simp [ht]

theorem poke_fatByte (fs : FATFS) (k0 b k : Nat) (hw : fs.winsect = fs.fatbase + k0 / 512) :
    fatByte (poke fs (k0 % 512) b) k = if k = k0 then b % 256 else fatByte fs k := by
  unfold fatByte
  by_cases hs : fs.fatbase + k / 512 = fs.winsect
  · have e1 : secView (poke fs (k0 % 512) b) ((poke fs (k0 % 512) b).fatbase + k / 512)
        = stb fs.win (k0 % 512) b := by
      unfold secView poke; simp [hs]
    have e2 : secView fs (fs.fatbase + k / 512) = fs.win := by
      unfold secView; simp [hs]
    rw [e1, e2, ldb_stb]
    by_cases hk : k = k0
    · subst hk; simp
    · have : k % 512 ≠ k0 % 512 := by omega
      simp [this, hk]
  · have hk : k ≠ k0 := by
      intro h; subst h; exact hs hw.symm
    rw [if_neg hk]
    have : (poke fs (k0 % 512) b).fatbase = fs.fatbase := rfl
    rw [this, poke_view fs _ _ _ hs]

theorem nib_lo (a v : Nat) : ((a &&& 0x0F) ||| ((v % 256) <<< 4)) % 256 = a % 16 + 16 * (v % 16) := by
  rw [show (0x0F : Nat) = 2 ^ 4 - 1 by norm_num, Nat.and_pow_two_sub_one_eq_mod,
    or_shl_eq_add _ _ 4 (Nat.mod_lt _ (by norm_num))]
  omega

set_option maxRecDepth 100000 in
theorem and_f0 : ∀ a < 256, a &&& 0xF0 = a / 16 * 16 := by decide

theorem nib_hi (a v : Nat) (ha : a < 256) :
    ((a &&& 0xF0) ||| (((v >>> 8) % 256) &&& 0x0F)) % 256 = a / 16 * 16 + v / 256 % 16 := by
  rw [and_f0 a ha, show (0x0F : Nat) = 2 ^ 4 - 1 by norm_num, Nat.and_pow_two_sub_one_eq_mod,
    Nat.shiftRight_eq_div_pow, Nat.mul_comm (a / 16) 16,
    show (16 : Nat) = 2 ^ 4 by norm_num, ← Nat.mul_add_lt_is_or (Nat.mod_lt _ (by norm_num))]
  omega

theorem set_dirty_poke (fs : FATFS) (p b : Nat) : set_dirty (poke fs p b) = poke fs p b := rfl

theorem and_one_ne_zero (c : Nat) : (c &&& 1 ≠ 0) ↔ c % 2 = 1 := by
  rw [Nat.and_one_is_mod]; omega

theorem put_fat12_bytes (fs fs' : FATFS) (c v : Nat) (hv : VolOk fs) (hw : WinInv fs)
    (ht : fs.fs_type = FS_FAT12) (h : put_fat fs c v = (FR_OK, fs')) :
    2 ≤ c ∧ c < fs.n_fatent ∧ SameVol fs fs' ∧ WinInv fs' ∧
    (∀ t, ¬ inMirror fs t → t ≠ W32 - 1 → notFat1 fs t → secView fs' t = secView fs t) ∧
    (∀ k, k / 512 < fs.fsize → fatByte fs' k =
      if k = c + c / 2 + 1 then
        (if c % 2 = 1 then v / 16 % 256 else fatByte fs (c + c / 2 + 1) / 16 * 16 + v / 256 % 16)
      else if k = c + c / 2 then
        (if c % 2 = 1 then fatByte fs (c + c / 2) % 16 + 16 * (v % 16) else v % 256)
      else fatByte fs k) := by
  unfold put_fat at h
  by_cases hc : c < 2 ∨ c ≥ fs.n_fatent
  · rw [if_pos hc] at h; simp at h
  rw [if_neg hc] at h
  have hc' : c < fs.n_fatent := by omega
  obtain ⟨hs, hn⟩ := fat12_sect hv ht hc'
  unfold put_fat_switch at h
  rw [if_pos ht] at h
  have hbc : (c + c / 2) % W32 = c + c / 2 := by unfold W32; omega
  have hbc1 : (c + c / 2 + 1) % W32 = c + c / 2 + 1 := by unfold W32; omega
  have hA : (fs.fatbase + (c + c / 2) / SS) % W32 = fs.fatbase + (c + c / 2) / 512 := by
    have := fatbase_sect_lt hv (k := c + c / 2) (by omega)
    unfold SS; exact Nat.mod_eq_of_lt this
  simp only [hbc, hbc1, hA] at h
  obtain ⟨hk1, hw1⟩ := move_window_keeps fs (fs.fatbase + (c + c / 2) / 512) hv hw
    (fatbase_sect_lt hv (by omega))
  by_cases hr1 : (move_window fs (fs.fatbase + (c + c / 2) / 512)).1 = FR_OK
  swap
  · rw [if_pos (by simpa using hr1)] at h
    simp only [Prod.mk.injEq] at h
    exact absurd h.1 hr1
  have hb0 := move_window_fat fs (c + c / 2) hv hw (by omega) hr1
  rw [if_neg (by simpa using hr1)] at h
  have hws1 := hw1 hr1
  generalize move_window fs (fs.fatbase + (c + c / 2) / 512) = r1 at *
  unfold SS at h
  rw [hb0] at h
  generalize hX : (if c &&& 1 ≠ 0 then (fatByte fs (c + c / 2) &&& 0x0F) ||| ((v % 256) <<< 4)
    else v % 256) = X at h
  have hv1 := hk1.1.volOk hv
  have hv2 : VolOk (poke r1.2 ((c + c / 2) % 512) X) := (poke_sameVol _ _ _).volOk hv1
  have hw2 : WinInv (poke r1.2 ((c + c / 2) % 512) X) := poke_winInv _ _ _ hk1.2.1
  have hfb : (poke r1.2 ((c + c / 2) % 512) X).fatbase = fs.fatbase := by
    rw [(poke_sameVol _ _ _).fatbase, hk1.1.fatbase]
  have hfs : (poke r1.2 ((c + c / 2) % 512) X).fsize = fs.fsize := by
    rw [(poke_sameVol _ _ _).fsize, hk1.1.fsize]
  have hB : ((poke r1.2 ((c + c / 2) % 512) X).fatbase + (c + c / 2 + 1) / 512) % W32
      = (poke r1.2 ((c + c / 2) % 512) X).fatbase + (c + c / 2 + 1) / 512 := by
    have := fatbase_sect_lt hv2 (k := c + c / 2 + 1) (by rw [hfs]; omega)
    exact Nat.mod_eq_of_lt this
  simp only [hB] at h
  obtain ⟨hk2, hws2⟩ := move_window_keeps (poke r1.2 ((c + c / 2) % 512) X)
    ((poke r1.2 ((c + c / 2) % 512) X).fatbase + (c + c / 2 + 1) / 512) hv2 hw2
    (fatbase_sect_lt hv2 (by rw [hfs]; omega))
  by_cases hr2 : (move_window (poke r1.2 ((c + c / 2) % 512) X)
      ((poke r1.2 ((c + c / 2) % 512) X).fatbase + (c + c / 2 + 1) / 512)).1 = FR_OK
  swap
  · rw [if_pos (by simpa using hr2)] at h
    simp only [Prod.mk.injEq] at h
    exact absurd h.1 hr2
  have hb1 := move_window_fat (poke r1.2 ((c + c / 2) % 512) X) (c + c / 2 + 1) hv2 hw2
    (by rw [hfs]; omega) hr2
  rw [if_neg (by simpa using hr2)] at h
  have hws2' := hws2 hr2
  generalize move_window (poke r1.2 ((c + c / 2) % 512) X)
    ((poke r1.2 ((c + c / 2) % 512) X).fatbase + (c + c / 2 + 1) / 512) = r2 at *
  rw [hb1] at h
  simp only [Prod.mk.injEq, true_and] at h
  rw [set_dirty_poke] at h
  subst h
  have hws1' : r1.2.winsect = r1.2.fatbase + (c + c / 2) / 512 := by rw [hk1.1.fatbase]; exact hws1
  have hold1 : fatByte (poke r1.2 ((c + c / 2) % 512) X) (c + c / 2 + 1)
      = fatByte fs (c + c / 2 + 1) := by
    rw [poke_fatByte r1.2 (c + c / 2) X _ hws1', if_neg (by omega),
      fatByte_congr hk1.1 hk1.2.2 hv _ (by omega)]
  rw [hold1]
  refine ⟨by omega, hc', ?_, poke_winInv _ _ _ hk2.2.1, ?_, ?_⟩
  · exact ((hk1.1.trans (poke_sameVol _ _ _)).trans hk2.1).trans (poke_sameVol _ _ _)
  · intro t htm ht htf
    unfold notFat1 at htf
    rw [poke_view _ _ _ _ (by rw [hws2', hfb]; omega),
      hk2.2.2 t (fun hm => htm ((hk1.1.inMirror t).1 (((poke_sameVol _ _ _).inMirror t).1 hm))) ht,
      poke_view _ _ _ _ (by rw [hws1]; omega), hk1.2.2 t htm ht]
  · intro k hk
    rw [poke_fatByte r2.2 (c + c / 2 + 1) _ k (by rw [hws2', hk2.1.fatbase]),
      fatByte_congr hk2.1 hk2.2.2 hv2 k (by rw [hfs]; exact hk),
      poke_fatByte r1.2 (c + c / 2) X k hws1', fatByte_congr hk1.1 hk1.2.2 hv k hk]
    have hb := ldb_lt (secView fs (fs.fatbase + (c + c / 2 + 1) / 512)) ((c + c / 2 + 1) % 512)
    change fatByte fs (c + c / 2 + 1) < 256 at hb
    by_cases hodd : c % 2 = 1
    · have hcond : c &&& 1 ≠ 0 := (and_one_ne_zero c).2 hodd
      rw [if_pos hcond] at hX
      rw [if_pos hcond, if_pos hodd, if_pos hodd, ← hX, nib_lo, Nat.shiftRight_eq_div_pow]
      split_ifs <;> omega
    · have hcond : ¬ (c &&& 1 ≠ 0) := fun h => hodd ((and_one_ne_zero c).1 h)
      rw [if_neg hcond] at hX
      rw [if_neg hcond, if_neg hodd, if_neg hodd, ← hX, nib_hi _ _ hb]
      split_ifs <;> omega

theorem and_hi28 (x : Nat) (hx : x < 4294967296) : x &&& 0xF0000000 = x / 268435456 * 268435456 := by
  have e : x &&& 0xF0000000 = (x >>> 28) <<< 28 := by
    apply Nat.eq_of_testBit_eq
    intro i
    rw [show (0xF0000000 : Nat) = (2 ^ 4 - 1) <<< 28 by decide, Nat.testBit_and,
      Nat.testBit_shiftLeft, Nat.testBit_shiftLeft, Nat.testBit_two_pow_sub_one,
      Nat.testBit_shiftRight]
    by_cases hi : i ≥ 28
    · have e1 : 28 + (i - 28) = i := by omega
      rw [e1]
      by_cases hi2 : i < 32
      · have : i - 28 < 4 := by omega
        simp [hi, this]
      · have hlt : x < 2 ^ i := by
          calc x < 2 ^ 32 := by norm_num; exact hx
            _ ≤ 2 ^ i := Nat.pow_le_pow_right (by norm_num) (by omega)
        simp [Nat.testBit_lt_two_pow hlt]
    · simp [hi]
  rw [e, Nat.shiftRight_eq_div_pow, Nat.shiftLeft_eq]

theorem fat32_val (v old : Nat) (ho : old < 4294967296) :
    (v &&& 0x0FFFFFFF) ||| (old &&& 0xF0000000) = v % 268435456 + old / 268435456 * 268435456 := by
  rw [and_hi28 old ho, show (0x0FFFFFFF : Nat) = 2 ^ 28 - 1 by norm_num,
    Nat.and_pow_two_sub_one_eq_mod, Nat.or_comm, Nat.mul_comm (old / 268435456),
    show (268435456 : Nat) = 2 ^ 28 by norm_num,
    ← Nat.mul_add_lt_is_or (Nat.mod_lt _ (by norm_num))]
  omega

theorem poke_word_eq (fs : FATFS) (p v : Nat) :
    poke_word fs p v = poke (poke fs p (v % W16)) (p + 1) ((v % W16) >>> 8) := rfl

theorem poke_dword_eq (fs : FATFS) (p v : Nat) :
    poke_dword fs p v = poke (poke (poke (poke fs p (v % W32)) (p + 1) ((v % W32) >>> 8))
      (p + 2) ((v % W32) >>> 16)) (p + 3) ((v % W32) >>> 24) := rfl

theorem set_dirty_poke_word (fs : FATFS) (p v : Nat) :
    set_dirty (poke_word fs p v) = poke_word fs p v := rfl

theorem set_dirty_poke_dword (fs : FATFS) (p v : Nat) :
    set_dirty (poke_dword fs p v) = poke_dword fs p v := rfl

theorem poke_winsect (fs : FATFS) (p b : Nat) : (poke fs p b).winsect = fs.winsect := rfl
theorem poke_fatbase (fs : FATFS) (p b : Nat) : (poke fs p b).fatbase = fs.fatbase := rfl

theorem put_fat16_bytes (fs fs' : FATFS) (c v : Nat) (hv : VolOk fs) (hw : WinInv fs)
    (ht : fs.fs_type = FS_FAT16) (h : put_fat fs c v = (FR_OK, fs')) :
    2 ≤ c ∧ c < fs.n_fatent ∧ SameVol fs fs' ∧ WinInv fs' ∧
    (∀ t, ¬ inMirror fs t → t ≠ W32 - 1 → notFat1 fs t → secView fs' t = secView fs t) ∧
    (∀ k, k / 512 < fs.fsize → fatByte fs' k =
      if k = 2 * c + 1 then v % 65536 / 256
      else if k = 2 * c then v % 256
      else fatByte fs k) := by
  unfold put_fat at h
  by_cases hc : c < 2 ∨ c ≥ fs.n_fatent
  · rw [if_pos hc] at h; simp at h
  rw [if_neg hc] at h
  have hc' : c < fs.n_fatent := by omega
  obtain ⟨hs, hn⟩ := fat16_sect hv ht hc'
  unfold put_fat_switch at h
  have ht1 : ¬ fs.fs_type = FS_FAT12 := by rw [ht]; decide
  rw [if_neg ht1, if_pos ht] at h
  have hA : (fs.fatbase + c / (SS / 2)) % W32 = fs.fatbase + (2 * c) / 512 := by
    have := fatbase_sect_lt hv (k := 2 * c) (by omega)
    unfold SS
    rw [show c / (512 / 2) = 2 * c / 512 by omega]
    exact Nat.mod_eq_of_lt this
  have hp : c * 2 % W32 % SS = (2 * c) % 512 := by unfold W32 SS; omega
  simp only [hA, hp] at h
  obtain ⟨hk1, hw1⟩ := move_window_keeps fs (fs.fatbase + (2 * c) / 512) hv hw
    (fatbase_sect_lt hv (by omega))
  by_cases hr1 : (move_window fs (fs.fatbase + (2 * c) / 512)).1 = FR_OK
  swap
  · rw [if_pos (by simpa using hr1)] at h
    simp only [Prod.mk.injEq] at h
    exact absurd h.1 hr1
  rw [if_neg (by simpa using hr1)] at h
  have hws1 := hw1 hr1
  generalize move_window fs (fs.fatbase + (2 * c) / 512) = r1 at *
  simp only [Prod.mk.injEq, true_and, poke_word_eq, set_dirty_poke] at h
  subst h
  have hws1' : r1.2.winsect = r1.2.fatbase + (2 * c) / 512 := by rw [hk1.1.fatbase]; exact hws1
  refine ⟨by omega, hc', ?_, poke_winInv _ _ _ (poke_winInv _ _ _ hk1.2.1), ?_, ?_⟩
  · exact (hk1.1.trans (poke_sameVol _ _ _)).trans (poke_sameVol _ _ _)
  · intro t htm ht htf
    unfold notFat1 at htf
    rw [poke_view _ _ _ _ (by rw [poke_winsect, hws1]; omega),
      poke_view _ _ _ _ (by rw [hws1]; omega), hk1.2.2 t htm ht]
  · intro k hk
    have e1 : (2 * c) % 512 + 1 = (2 * c + 1) % 512 := by omega
    rw [e1, poke_fatByte _ (2 * c + 1) _ k
        (by rw [poke_winsect, poke_fatbase, hws1']; omega),
      poke_fatByte r1.2 (2 * c) _ k hws1', fatByte_congr hk1.1 hk1.2.2 hv k hk,
      Nat.shiftRight_eq_div_pow]
    unfold W16
    split_ifs <;> omega

theorem put_fat32_bytes (fs fs' : FATFS) (c v : Nat) (hv : VolOk fs) (hw : WinInv fs)
    (ht : fs.fs_type = FS_FAT32) (h : put_fat fs c v = (FR_OK, fs')) :
    2 ≤ c ∧ c < fs.n_fatent ∧ SameVol fs fs' ∧ WinInv fs' ∧
    (∀ t, ¬ inMirror fs t → t ≠ W32 - 1 → notFat1 fs t → secView fs' t = secView fs t) ∧
    (∀ k, k / 512 < fs.fsize → fatByte fs' k =
      if k = 4 * c + 3 then v % 268435456 / 16777216 + fatByte fs (4 * c + 3) / 16 * 16
      else if k = 4 * c + 2 then v / 65536 % 256
      else if k = 4 * c + 1 then v / 256 % 256
      else if k = 4 * c then v % 256
      else fatByte fs k) := by
  unfold put_fat at h
  by_cases hc : c < 2 ∨ c ≥ fs.n_fatent
  · rw [if_pos hc] at h; simp at h
  rw [if_neg hc] at h
  have hc' : c < fs.n_fatent := by omega
  obtain ⟨hs, hn⟩ := fat32_sect hv ht hc'
  unfold put_fat_switch at h
  have ht1 : ¬ fs.fs_type = FS_FAT12 := by rw [ht]; decide
  have ht2 : ¬ fs.fs_type = FS_FAT16 := by rw [ht]; decide
  rw [if_neg ht1, if_neg ht2, if_pos (Or.inl ht)] at h
  have hA : (fs.fatbase + c / (SS / 4)) % W32 = fs.fatbase + (4 * c) / 512 := by
    have := fatbase_sect_lt hv (k := 4 * c) (by omega)
    unfold SS
    rw [show c / (512 / 4) = 4 * c / 512 by omega]
    exact Nat.mod_eq_of_lt this
  have hp : c * 4 % W32 % SS = (4 * c) % 512 := by unfold W32 SS; omega
  simp only [hA, hp] at h
  obtain ⟨hk1, hw1⟩ := move_window_keeps fs (fs.fatbase + (4 * c) / 512) hv hw
    (fatbase_sect_lt hv (by omega))
  by_cases hr1 : (move_window fs (fs.fatbase + (4 * c) / 512)).1 = FR_OK
  swap
  · rw [if_pos (by simpa using hr1)] at h
    simp only [Prod.mk.injEq] at h
    exact absurd h.1 hr1
  rw [if_neg (by simpa using hr1)] at h
  have hb0 := move_window_fat fs (4 * c) hv hw (by omega) hr1
  have hb1 := move_window_fat fs (4 * c + 1) hv hw (by omega)
    (by rw [show (4 * c + 1) / 512 = 4 * c / 512 by omega]; exact hr1)
  have hb2 := move_window_fat fs (4 * c + 2) hv hw (by omega)
    (by rw [show (4 * c + 2) / 512 = 4 * c / 512 by omega]; exact hr1)
  have hb3 := move_window_fat fs (4 * c + 3) hv hw (by omega)
    (by rw [show (4 * c + 3) / 512 = 4 * c / 512 by omega]; exact hr1)
  rw [show (4 * c + 1) / 512 = 4 * c / 512 by omega,
    show (4 * c + 1) % 512 = 4 * c % 512 + 1 by omega] at hb1
  rw [show (4 * c + 2) / 512 = 4 * c / 512 by omega,
    show (4 * c + 2) % 512 = 4 * c % 512 + 2 by omega] at hb2
  rw [show (4 * c + 3) / 512 = 4 * c / 512 by omega,
    show (4 * c + 3) % 512 = 4 * c % 512 + 3 by omega] at hb3
  have hws1 := hw1 hr1
  generalize move_window fs (fs.fatbase + (4 * c) / 512) = r1 at *
  have ht3 : r1.2.fs_type ≠ FS_EXFAT := by rw [hk1.1.fs_type, ht]; decide
  rw [if_pos ht3] at h
  have hold : ld_dword r1.2.win (4 * c % 512) < 4294967296 := by
    rw [ld_dword_eq]
    have := ldb_lt r1.2.win (4 * c % 512)
    have := ldb_lt r1.2.win (4 * c % 512 + 1)
    have := ldb_lt r1.2.win (4 * c % 512 + 2)
    have := ldb_lt r1.2.win (4 * c % 512 + 3)
    omega
  rw [fat32_val v _ hold, ld_dword_eq, hb0, hb1, hb2, hb3] at h
  simp only [Prod.mk.injEq, true_and, poke_dword_eq, set_dirty_poke] at h
  subst h
  have hws1' : r1.2.winsect = r1.2.fatbase + (4 * c) / 512 := by rw [hk1.1.fatbase]; exact hws1
  refine ⟨by omega, hc', ?_, poke_winInv _ _ _ (poke_winInv _ _ _ (poke_winInv _ _ _
    (poke_winInv _ _ _ hk1.2.1))), ?_, ?_⟩
  · exact (((hk1.1.trans (poke_sameVol _ _ _)).trans (poke_sameVol _ _ _)).trans
      (poke_sameVol _ _ _)).trans (poke_sameVol _ _ _)
  · intro t htm ht htf
    unfold notFat1 at htf
    rw [poke_view _ _ _ _ (by simp only [poke_winsect]; rw [hws1]; omega),
      poke_view _ _ _ _ (by simp only [poke_winsect]; rw [hws1]; omega),
      poke_view _ _ _ _ (by simp only [poke_winsect]; rw [hws1]; omega),
      poke_view _ _ _ _ (by rw [hws1]; omega), hk1.2.2 t htm ht]
  · intro k hk
    have e1 : (4 * c) % 512 + 1 = (4 * c + 1) % 512 := by omega
    have e2 : (4 * c) % 512 + 2 = (4 * c + 2) % 512 := by omega
    have e3 : (4 * c) % 512 + 3 = (4 * c + 3) % 512 := by omega
    rw [e1, e2, e3, poke_fatByte _ (4 * c + 3) _ k
        (by simp only [poke_winsect, poke_fatbase]; rw [hws1']; omega),
      poke_fatByte _ (4 * c + 2) _ k
        (by simp only [poke_winsect, poke_fatbase]; rw [hws1']; omega),
      poke_fatByte _ (4 * c + 1) _ k
        (by simp only [poke_winsect, poke_fatbase]; rw [hws1']; omega),
      poke_fatByte r1.2 (4 * c) _ k hws1', fatByte_congr hk1.1 hk1.2.2 hv k hk]
    simp only [Nat.shiftRight_eq_div_pow]
    have hb0' := ldb_lt (secView fs (fs.fatbase + 4 * c / 512)) (4 * c % 512)
    have hb1' := ldb_lt (secView fs (fs.fatbase + (4 * c + 1) / 512)) ((4 * c + 1) % 512)
    have hb2' := ldb_lt (secView fs (fs.fatbase + (4 * c + 2) / 512)) ((4 * c + 2) % 512)
    have hb3' := ldb_lt (secView fs (fs.fatbase + (4 * c + 3) / 512)) ((4 * c + 3) % 512)
    change fatByte fs (4 * c) < 256 at hb0'
    change fatByte fs (4 * c + 1) < 256 at hb1'
    change fatByte fs (4 * c + 2) < 256 at hb2'
    change fatByte fs (4 * c + 3) < 256 at hb3'
    unfold W32
    split_ifs <;> omega

theorem fatByte_lt (fs : FATFS) (k : Nat) : fatByte fs k < 256 := ldb_lt _ _

/-- Effect of a successful `put_fat` on the FAT entries. -/
theorem put_fat_entry (fs fs' : FATFS) (c v : Nat) (hv : VolOk fs) (hw : WinInv fs)
    (h : put_fat fs c v = (FR_OK, fs')) :
    2 ≤ c ∧ c < fs.n_fatent ∧ SameVol fs fs' ∧ WinInv fs' ∧
    (∀ t, ¬ inMirror fs t → t ≠ W32 - 1 → notFat1 fs t → secView fs' t = secView fs t) ∧
    (∀ d, fatEntry fs' d = if d = c then fatMask fs v else fatEntry fs d) := by
  rcases hv.fat_type with ht | ht | ht
  · obtain ⟨h1, h2, h3, h4, h5, hB⟩ := put_fat12_bytes fs fs' c v hv hw ht h
    refine ⟨h1, h2, h3, h4, h5, ?_⟩
    intro d
    unfold fatEntry fatMask
    rw [h3.n_fatent, h3.fs_type, if_pos ht, if_pos ht, if_pos ht]
    by_cases hd : d < 2 ∨ d ≥ fs.n_fatent
    · rw [if_pos hd, if_pos hd]
      have : d ≠ c := by omega
      rw [if_neg this]
    · rw [if_neg hd, if_neg hd]
      have hd' : d < fs.n_fatent := by omega
      obtain ⟨hs, hn⟩ := fat12_sect hv ht hd'
      simp only []
      rw [hB _ (by omega), hB _ (by omega)]
      have b0 := fatByte_lt fs (c + c / 2)
      have b1 := fatByte_lt fs (c + c / 2 + 1)
      have b2 := fatByte_lt fs (d + d / 2)
      have b3 := fatByte_lt fs (d + d / 2 + 1)
      by_cases hdc : d = c
      · subst hdc
        rw [if_pos rfl]
        split_ifs <;> omega
      · rw [if_neg hdc]
        by_cases hk1 : d + d / 2 = c + c / 2 + 1
        · rw [hk1]
          rw [hk1] at b2 b3
          split_ifs <;> omega
        · by_cases hk2 : c + c / 2 = d + d / 2 + 1
          · rw [hk2]
            rw [hk2] at b0 b1
            split_ifs <;> omega
          · split_ifs <;> omega
  · obtain ⟨h1, h2, h3, h4, h5, hB⟩ := put_fat16_bytes fs fs' c v hv hw ht h
    refine ⟨h1, h2, h3, h4, h5, ?_⟩
    intro d
    have ht1 : ¬ fs.fs_type = FS_FAT12 := by rw [ht]; decide
    unfold fatEntry fatMask
    rw [h3.n_fatent, h3.fs_type, if_neg ht1, if_neg ht1, if_neg ht1, if_pos ht, if_pos ht, if_pos ht]
    by_cases hd : d < 2 ∨ d ≥ fs.n_fatent
    · rw [if_pos hd, if_pos hd]
      have : d ≠ c := by omega
      rw [if_neg this]
    · rw [if_neg hd, if_neg hd]
      have hd' : d < fs.n_fatent := by omega
      obtain ⟨hs, hn⟩ := fat16_sect hv ht hd'
      rw [hB _ (by omega), hB _ (by omega)]
      split_ifs <;> omega
  · obtain ⟨h1, h2, h3, h4, h5, hB⟩ := put_fat32_bytes fs fs' c v hv hw ht h
    refine ⟨h1, h2, h3, h4, h5, ?_⟩
    intro d
    have ht1 : ¬ fs.fs_type = FS_FAT12 := by rw [ht]; decide
    have ht2 : ¬ fs.fs_type = FS_FAT16 := by rw [ht]; decide
    unfold fatEntry fatMask
    rw [h3.n_fatent, h3.fs_type, if_neg ht1, if_neg ht1, if_neg ht1, if_neg ht2, if_neg ht2,
      if_neg ht2]
    by_cases hd : d < 2 ∨ d ≥ fs.n_fatent
    · rw [if_pos hd, if_pos hd]
      have : d ≠ c := by omega
      rw [if_neg this]
    · rw [if_neg hd, if_neg hd]
      have hd' : d < fs.n_fatent := by omega
      obtain ⟨hs, hn⟩ := fat32_sect hv ht hd'
      have b3 := fatByte_lt fs (4 * c + 3)
      have b0' := fatByte_lt fs (4 * d)
      have b1' := fatByte_lt fs (4 * d + 1)
      have b2' := fatByte_lt fs (4 * d + 2)
      have b3' := fatByte_lt fs (4 * d + 3)
      by_cases hdc : d = c
      · subst hdc
        rw [hB _ (by omega), hB _ (by omega), hB _ (by omega), hB _ (by omega), if_pos rfl,
          if_neg (by omega), if_neg (by omega), if_neg (by omega), if_pos rfl,
          if_neg (by omega), if_neg (by omega), if_pos rfl, if_neg (by omega), if_pos rfl,
          if_pos rfl]
        omega
      · have e0 : fatByte fs' (4 * d) = fatByte fs (4 * d) := by
          rw [hB _ (by omega), if_neg (by omega), if_neg (by omega), if_neg (by omega),
            if_neg (by omega)]
        have e1 : fatByte fs' (4 * d + 1) = fatByte fs (4 * d + 1) := by
          rw [hB _ (by omega), if_neg (by omega), if_neg (by omega), if_neg (by omega),
            if_neg (by omega)]
        have e2 : fatByte fs' (4 * d + 2) = fatByte fs (4 * d + 2) := by
          rw [hB _ (by omega), if_neg (by omega), if_neg (by omega), if_neg (by omega),
            if_neg (by omega)]
        have e3 : fatByte fs' (4 * d + 3) = fatByte fs (4 * d + 3) := by
          rw [hB _ (by omega), if_neg (by omega), if_neg (by omega), if_neg (by omega),
            if_neg (by omega)]
        rw [e0, e1, e2, e3, if_neg hdc]

theorem fatEntry_lt (fs : FATFS) (c : Nat) : fatEntry fs c < 268435456 := by
  unfold fatEntry
  have := fatByte_lt fs (c + c / 2)
  have := fatByte_lt fs (c + c / 2 + 1)
  have := fatByte_lt fs (2 * c)
  have := fatByte_lt fs (2 * c + 1)
  simp only []
  split_ifs <;> omega

theorem fatEntry_lt12 (fs : FATFS) (c : Nat) (ht : fs.fs_type = FS_FAT12) : fatEntry fs c < 4096 := by
  unfold fatEntry
  rw [if_pos ht]
  have := fatByte_lt fs (c + c / 2)
  have := fatByte_lt fs (c + c / 2 + 1)
  simp only []
  split_ifs <;> omega

theorem fatEntry_lt16 (fs : FATFS) (c : Nat) (ht : fs.fs_type = FS_FAT16) : fatEntry fs c < 65536 := by
  unfold fatEntry
  have ht1 : ¬ fs.fs_type = FS_FAT12 := by rw [ht]; decide
  rw [if_neg ht1, if_pos ht]
  have := fatByte_lt fs (2 * c)
  have := fatByte_lt fs (2 * c + 1)
  split_ifs <;> omega

theorem get_fat_device (fs : FATFS) (obj : FFOBJID) (c : Nat) (hv : VolOk fs) (hw : WinInv fs)
    (hd : DeviceOk fs.drv) : (get_fat fs obj c).1 = fatEntry fs c := by
  apply (get_fat_inv fs obj c hv hw).2
  unfold get_fat
  by_cases hc : c < 2 ∨ c ≥ fs.n_fatent
  · rw [if_pos hc]; simp
  · rw [if_neg hc]
    have hc' : c < fs.n_fatent := by omega
    rcases hv.fat_type with ht | ht | ht
    · obtain ⟨hs, hn⟩ := fat12_sect hv ht hc'
      rw [if_pos ht]
      simp only []
      have hr1 := move_window_device_ok fs ((fs.fatbase + (c + c / 2) % W32 / SS) % W32) hd
      have hk1 := (move_window_keeps fs ((fs.fatbase + (c + c / 2) % W32 / SS) % W32) hv hw
        (Nat.mod_lt _ (by unfold W32; norm_num))).1
      rw [if_neg (by simpa using hr1)]
      generalize move_window fs ((fs.fatbase + (c + c / 2) % W32 / SS) % W32) = r1 at *
      have hr2 := move_window_device_ok r1.2
        ((r1.2.fatbase + ((c + c / 2) % W32 + 1) % W32 / SS) % W32) (hk1.1.deviceOk hd)
      rw [if_neg (by simpa using hr2)]
      generalize move_window r1.2 ((r1.2.fatbase + ((c + c / 2) % W32 + 1) % W32 / SS) % W32)
        = r2 at *
      have h0 := ldb_lt r1.2.win ((c + c / 2) % W32 % SS)
      have h1 := ldb_lt r2.2.win (((c + c / 2) % W32 + 1) % W32 % SS)
      rw [or_shl_eq_add _ _ 8 (by omega), Nat.shiftRight_eq_div_pow,
        show (4095 : Nat) = 2 ^ 12 - 1 by norm_num, Nat.and_pow_two_sub_one_eq_mod]
      split_ifs <;> omega
    · have ht1 : ¬ fs.fs_type = FS_FAT12 := by rw [ht]; decide
      rw [if_neg ht1, if_pos ht]
      simp only []
      have hr1 := move_window_device_ok fs ((fs.fatbase + c / (SS / 2)) % W32) hd
      rw [if_neg (by simpa using hr1), ld_word_eq]
      generalize move_window fs ((fs.fatbase + c / (SS / 2)) % W32) = r1 at *
      have h0 := ldb_lt r1.2.win (c * 2 % W32 % SS)
      have h1 := ldb_lt r1.2.win (c * 2 % W32 % SS + 1)
      omega
    · have ht1 : ¬ fs.fs_type = FS_FAT12 := by rw [ht]; decide
      have ht2 : ¬ fs.fs_type = FS_FAT16 := by rw [ht]; decide
      rw [if_neg ht1, if_neg ht2, if_pos ht]
      simp only []
      have hr1 := move_window_device_ok fs ((fs.fatbase + c / (SS / 4)) % W32) hd
      rw [if_neg (by simpa using hr1), show (268435455 : Nat) = 2 ^ 28 - 1 by norm_num,
        Nat.and_pow_two_sub_one_eq_mod]
      omega

theorem put_fat_device (fs : FATFS) (c v : Nat) (hv : VolOk fs) (hw : WinInv fs)
    (hd : DeviceOk fs.drv) (hc : 2 ≤ c ∧ c < fs.n_fatent) : (put_fat fs c v).1 = FR_OK := by
  unfold put_fat
  rw [if_neg (by omega)]
  simp only []
  unfold put_fat_switch
  rcases hv.fat_type with ht | ht | ht
  · rw [if_pos ht]
    simp only []
    have hr1 := move_window_device_ok fs ((fs.fatbase + (c + c / 2) % W32 / SS) % W32) hd
    have hk1 := (move_window_keeps fs ((fs.fatbase + (c + c / 2) % W32 / SS) % W32) hv hw
      (Nat.mod_lt _ (by unfold W32; norm_num))).1
    rw [if_neg (by simpa using hr1)]
    generalize move_window fs ((fs.fatbase + (c + c / 2) % W32 / SS) % W32) = r1 at *
    generalize hX : (if c &&& 1 ≠ 0 then
      ldb r1.2.win ((c + c / 2) % W32 % SS) &&& 15 ||| (v % 256) <<< 4 else v % 256) = X
    have hd2 : DeviceOk (poke r1.2 ((c + c / 2) % W32 % SS) X).drv :=
      (poke_sameVol _ _ _).deviceOk (hk1.1.deviceOk hd)
    have hr2 := move_window_device_ok (poke r1.2 ((c + c / 2) % W32 % SS) X)
      (((poke r1.2 ((c + c / 2) % W32 % SS) X).fatbase + ((c + c / 2) % W32 + 1) % W32 / SS) % W32)
      hd2
    rw [if_neg (by simpa using hr2)]
  · have ht1 : ¬ fs.fs_type = FS_FAT12 := by rw [ht]; decide
    rw [if_neg ht1, if_pos ht]
    simp only []
    have hr1 := move_window_device_ok fs ((fs.fatbase + c / (SS / 2)) % W32) hd
    rw [if_neg (by simpa using hr1)]
  · have ht1 : ¬ fs.fs_type = FS_FAT12 := by rw [ht]; decide
    have ht2 : ¬ fs.fs_type = FS_FAT16 := by rw [ht]; decide
    rw [if_neg ht1, if_neg ht2, if_pos (Or.inl ht)]
    simp only []
    have hr1 := move_window_device_ok fs ((fs.fatbase + c / (SS / 4)) % W32) hd
    rw [if_neg (by simpa using hr1)]

/-! ## C1: share table and wide directory offsets -/

/-- C1 (evaluation of the code at the failing input). On a table with two
blank entries the object at directory offset `0x10000` is registered by
`inc_share` in write mode: the call returns index 1 and leaves counter
`0x100`, but the 16-bit field `idx` holds `0x10000 % 65536 = 0`. The following
`chk_share` for the same key compares `idx` with the 32-bit `dptr`, finds no
entry and returns `FR_OK` for read, write and delete access instead of
`FR_LOCKED`, and a second write-mode `inc_share` of the same key is
registered in the second entry. -/
theorem C1_write_lock_lost_at_wide_offset :
    (inc_share exShareVol exWideDir 1).1 = 1 ∧
    (inc_share exShareVol exWideDir 1).2.Files =
      [{ fs := 1, clu := 0, idx := 0, ctr := 0x100 }, {}] ∧
    chk_share (inc_share exShareVol exWideDir 1).2 exWideDir 0 = FR_OK ∧
    chk_share (inc_share exShareVol exWideDir 1).2 exWideDir 1 = FR_OK ∧
    chk_share (inc_share exShareVol exWideDir 1).2 exWideDir 2 = FR_OK ∧
    (inc_share (inc_share exShareVol exWideDir 1).2 exWideDir 1).1 = 2 := by
  decide

/-! ## C2: FAT round trip -/

theorem fatMask_eq (fs : FATFS) (v : Nat) :
    fatMask fs v = if fs.fs_type = FS_FAT12 then v &&& 0xFFF
      else if fs.fs_type = FS_FAT16 then v &&& 0xFFFF else v &&& 0x0FFFFFFF := by
  unfold fatMask
  rw [show (0xFFF : Nat) = 2 ^ 12 - 1 by norm_num, show (0xFFFF : Nat) = 2 ^ 16 - 1 by norm_num,
    show (0x0FFFFFFF : Nat) = 2 ^ 28 - 1 by norm_num, Nat.and_pow_two_sub_one_eq_mod,
    Nat.and_pow_two_sub_one_eq_mod, Nat.and_pow_two_sub_one_eq_mod]

/-- C2 (counterexample). On the FAT12 volume `exFat12NoWrite` the entry of
cluster 341 lies in bytes 511 and 512 of the FAT, in two sectors. `put_fat(341,
0xABC)` returns `FR_OK` and leaves the window dirty on the second sector;
`get_fat(341)` has to move the window back, the write-back fails, and it
returns `0xFFFFFFFF` instead of `0xABC`. -/
theorem C2_counterexample :
    (put_fat exFat12NoWrite 341 0xABC).1 = FR_OK ∧
    (get_fat (put_fat exFat12NoWrite 341 0xABC).2 {} 341).1 = 0xFFFFFFFF ∧
    (get_fat (put_fat exFat12NoWrite 341 0xABC).2 {} 341).1 ≠ 0xABC &&& 0xFFF := by
  decide

/-- C2 (amended). On a FAT12, FAT16 or FAT32 volume whose window is coherent,
if `put_fat(c, v)` returns `FR_OK` then the next `get_fat(c)` returns `v`
masked to the sub-type width (`v & 0xFFF`, `v & 0xFFFF`, `v & 0x0FFFFFFF`) or
the disk-error value `0xFFFFFFFF`; and it returns the masked value whenever
every transfer of the device completes. This covers the FAT12 entries whose
two bytes lie in different sectors. -/
theorem C2_fat_round_trip (fs fs' : FATFS) (obj : FFOBJID) (c v : Nat)
    (hv : VolOk fs) (hw : WinInv fs) (hput : put_fat fs c v = (FR_OK, fs')) :
    ((get_fat fs' obj c).1 =
        (if fs.fs_type = FS_FAT12 then v &&& 0xFFF
         else if fs.fs_type = FS_FAT16 then v &&& 0xFFFF else v &&& 0x0FFFFFFF) ∨
      (get_fat fs' obj c).1 = 0xFFFFFFFF) ∧
    (DeviceOk fs.drv → (get_fat fs' obj c).1 =
        (if fs.fs_type = FS_FAT12 then v &&& 0xFFF
         else if fs.fs_type = FS_FAT16 then v &&& 0xFFFF else v &&& 0x0FFFFFFF)) := by
  obtain ⟨_, _, hs, hw', _, he⟩ := put_fat_entry fs fs' c v hv hw hput
  have hv' := hs.volOk hv
  have hval : fatEntry fs' c = fatMask fs v := by rw [he c, if_pos rfl]
  rw [← fatMask_eq, ← hval]
  constructor
  · by_cases h : (get_fat fs' obj c).1 = 0xFFFFFFFF
    · exact Or.inr h
    · exact Or.inl ((get_fat_inv fs' obj c hv' hw').2 h)
  · intro hd
    exact get_fat_device fs' obj c hv' hw' (hs.deviceOk hd)

theorem exFat12_volOk : VolOk exFat12 := by
  unfold VolOk; decide

theorem exFat12_winInv : WinInv exFat12 :=
  ⟨by decide, fun _ h => absurd rfl h⟩

theorem exFat12_deviceOk : DeviceOk exFat12.drv :=
  ⟨fun _ => rfl, fun _ => rfl⟩

/-- C2 (witness): the round trip of the entry of cluster 341 of `exFat12`,
whose two bytes lie in different sectors. -/
theorem C2_fat_round_trip_witness :
    VolOk exFat12 ∧ WinInv exFat12 ∧ (put_fat exFat12 341 0xABC).1 = FR_OK ∧
    (get_fat (put_fat exFat12 341 0xABC).2 {} 341).1 = 0xABC :=
  ⟨exFat12_volOk, exFat12_winInv, by decide,
    (C2_fat_round_trip exFat12 (put_fat exFat12 341 0xABC).2 {} 341 0xABC exFat12_volOk
      exFat12_winInv (Prod.ext (by decide) rfl)).2 exFat12_deviceOk⟩

/-! ### Allocation of a cluster (`create_chain`) -/

/-- A free entry lies within the table. -/
theorem fatEntry_zero_range {fs : FATFS} {c : Nat} (h : fatEntry fs c = 0) :
    2 ≤ c ∧ c < fs.n_fatent := by
  unfold fatEntry at h
  by_cases hc : c < 2 ∨ c ≥ fs.n_fatent
  · rw [if_pos hc] at h; omega
  · omega

theorem fatEntry_note_alloc (fs : FATFS) (n c : Nat) :
    fatEntry (note_alloc fs n) c = fatEntry fs c := rfl

theorem fatMask_of_lt {fs : FATFS} (hv : VolOk fs) {v : Nat} (h : v < fs.n_fatent) :
    fatMask fs v = v := by
  obtain ⟨_, _, _, ht⟩ := hv
  unfold fatMask FS_FAT12 FS_FAT16 FS_FAT32 at *
  rcases ht with ⟨ht, hn, _⟩ | ⟨ht, hn, _⟩ | ⟨ht, hn, _⟩ <;> rw [ht] <;> simp <;> omega

theorem fatMask_eoc {fs : FATFS} (hv : VolOk fs) : fs.n_fatent ≤ fatMask fs 0xFFFFFFFF := by
  obtain ⟨_, _, _, ht⟩ := hv
  unfold fatMask FS_FAT12 FS_FAT16 FS_FAT32 at *
  rcases ht with ⟨ht, hn, _⟩ | ⟨ht, hn, _⟩ | ⟨ht, hn, _⟩ <;> rw [ht] <;> simp <;> omega

theorem create_chain_start_scl (fs fs1 : FATFS) (obj : FFOBJID) (clst scl : Nat)
    (hv : VolOk fs) (hw : WinInv fs)
    (h : create_chain_start fs obj clst = (Sum.inr scl, fs1)) :
    Keeps fs fs1 ∧ (clst ≠ 0 → scl = clst ∧ fs.n_fatent ≤ fatEntry fs clst) ∧
    (clst = 0 → scl ≠ 0) := by
  unfold create_chain_start at h
  by_cases hc : clst = 0
  · rw [if_pos hc] at h
    injection h with h1 h2
    injection h1 with h1
    subst h2
    refine ⟨Keeps.self fs hw, fun h => absurd hc h, fun _ => ?_⟩
    rw [← h1]
    split_ifs with h3
    · decide
    · intro h0; exact h3 (Or.inl h0)
  · rw [if_neg hc] at h
    obtain ⟨hk, hval⟩ := get_fat_inv fs obj clst hv hw
    generalize get_fat fs obj clst = g at h hk hval
    simp only [] at h
    split_ifs at h with h1 h2 h3
    all_goals try (simp at h; done)
    injection h with h4 h5
    injection h4 with h4
    subst h5
    refine ⟨hk, fun _ => ⟨h4.symm, ?_⟩, fun h => absurd h hc⟩
    rw [← hval h2, ← hk.1.n_fatent]
    omega

theorem create_chain_search_found (obj : FFOBJID) (scl : Nat) :
    ∀ (fuel : Nat) (fs : FATFS) (ncl k : Nat) (fs1 : FATFS), VolOk fs → WinInv fs →
      create_chain_search obj scl fuel fs ncl = some (Sum.inr k, fs1) →
      Keeps fs fs1 ∧ fatEntry fs k = 0 := by
  intro fuel
  induction fuel with
  | zero => intro fs ncl k fs1 _ _ h; simp [create_chain_search] at h
  | succ fuel ih =>
    intro fs ncl k fs1 hv hw h
    unfold create_chain_search at h
    simp only [] at h
    by_cases h1 : decide ((ncl + 1) % W32 ≥ fs.n_fatent) = true ∧ 2 > scl
    · rw [if_pos h1] at h; simp at h
    · rw [if_neg h1] at h
      generalize (if decide ((ncl + 1) % W32 ≥ fs.n_fatent) = true then 2 else (ncl + 1) % W32) = m at h
      obtain ⟨hk, hval⟩ := get_fat_inv fs obj m hv hw
      generalize get_fat fs obj m = g at h hk hval
      split_ifs at h with h2 h3 h4
      all_goals try (simp at h; done)
      · injection h with h
        injection h with h5 h6
        injection h5 with h5
        rw [h6] at hk
        refine ⟨hk, ?_⟩
        rw [← h5, ← hval (by rw [h2]; decide)]
        exact h2
      · obtain ⟨hk2, hz⟩ := ih _ _ k fs1 (hk.1.volOk hv) hk.2.1 h
        exact ⟨hk.comp hk2, by rw [← fatEntry_congr hk.1 hk.2.2 hv]; exact hz⟩

theorem create_chain_near_ok (fs fs1 : FATFS) (obj : FFOBJID) (clst scl ncl scl' : Nat)
    (hv : VolOk fs) (hw : WinInv fs)
    (h : create_chain_near fs obj clst scl = (Sum.inr (ncl, scl'), fs1)) :
    Keeps fs fs1 ∧ (ncl ≠ 0 → fatEntry fs ncl = 0) := by
  unfold create_chain_near at h
  by_cases hc : scl = clst
  · rw [if_pos hc] at h
    simp only [] at h
    generalize (if (scl + 1) % W32 ≥ fs.n_fatent then 2 else (scl + 1) % W32) = m at h
    obtain ⟨hk, hval⟩ := get_fat_inv fs obj m hv hw
    generalize get_fat fs obj m = g at h hk hval
    split_ifs at h with h2 h3 h4
    all_goals try (simp at h; done)
    · simp only [Prod.mk.injEq, Sum.inr.injEq] at h
      obtain ⟨⟨h5, -⟩, h6⟩ := h
      rw [h6] at hk
      exact ⟨hk, fun h0 => absurd h5.symm h0⟩
    · simp only [Prod.mk.injEq, Sum.inr.injEq] at h
      obtain ⟨⟨h5, -⟩, h6⟩ := h
      rw [h6] at hk
      exact ⟨hk, fun h0 => absurd h5.symm h0⟩
    · simp only [Prod.mk.injEq, Sum.inr.injEq] at h
      obtain ⟨⟨h5, -⟩, h6⟩ := h
      rw [h6] at hk
      refine ⟨hk, fun _ => ?_⟩
      rw [← h5, ← hval (by omega)]
      simpa using h3
  · rw [if_neg hc] at h
    simp only [Prod.mk.injEq, Sum.inr.injEq] at h
    obtain ⟨⟨h5, -⟩, h6⟩ := h
    rw [← h6]
    exact ⟨Keeps.self fs hw, fun h0 => absurd h5.symm h0⟩

theorem create_chain_mark_ok (fs fs' : FATFS) (clst ncl n : Nat)
    (hv : VolOk fs) (hw : WinInv fs)
    (h : create_chain_mark fs clst ncl = (n, fs')) (hn : 2 ≤ n) (hne : n ≠ 0xFFFFFFFF) :
    n = ncl ∧ ∃ fs3, fs' = note_alloc fs3 ncl ∧ SameVol fs fs3 ∧ WinInv fs3 ∧
      (∀ d, fatEntry fs3 d = if clst ≠ 0 ∧ d = clst then fatMask fs ncl
          else if d = ncl then fatMask fs 0xFFFFFFFF else fatEntry fs d) ∧
      (∀ t, ¬ inMirror fs t → t ≠ W32 - 1 → notFat1 fs t → secView fs3 t = secView fs t) := by
  unfold create_chain_mark create_chain_finish at h
  rcases hp : put_fat fs ncl 0xFFFFFFFF with ⟨r1, fs2⟩
  rw [hp] at h
  simp only [] at h
  by_cases hr1 : r1 = FR_OK
  · subst hr1
    obtain ⟨-, -, hs2, hw2, hview2, hent2⟩ := put_fat_entry fs fs2 ncl _ hv hw hp
    by_cases hc : clst = 0
    · have e : (if FR_OK = FR_OK ∧ clst ≠ 0 then put_fat fs2 clst ncl else (FR_OK, fs2))
          = (FR_OK, fs2) := if_neg (by simp [hc])
      rw [e] at h
      simp only [if_true, Prod.mk.injEq] at h
      refine ⟨h.1.symm, fs2, h.2.symm, hs2, hw2, fun d => ?_, hview2⟩
      rw [hent2 d, if_neg (show ¬ (clst ≠ 0 ∧ d = clst) from fun h => h.1 hc)]
    · have e : (if FR_OK = FR_OK ∧ clst ≠ 0 then put_fat fs2 clst ncl else (FR_OK, fs2))
          = put_fat fs2 clst ncl := if_pos ⟨rfl, hc⟩
      rw [e] at h
      rcases hp2 : put_fat fs2 clst ncl with ⟨r2, fs3⟩
      rw [hp2] at h
      simp only [] at h
      by_cases hr2 : r2 = FR_OK
      · subst hr2
        obtain ⟨-, -, hs3, hw3, hview3, hent3⟩ := put_fat_entry fs2 fs3 clst _ (hs2.volOk hv) hw2 hp2
        simp only [if_true, Prod.mk.injEq] at h
        refine ⟨h.1.symm, fs3, h.2.symm, hs2.trans hs3, hw3, fun d => ?_, fun t h1 h2 h3 => ?_⟩
        · rw [hent3 d, hent2 d]
          by_cases hd : d = clst
          · rw [if_pos hd, if_pos ⟨hc, hd⟩]
            unfold fatMask; rw [hs2.fs_type]
          · rw [if_neg hd, if_neg (show ¬ (clst ≠ 0 ∧ d = clst) from fun h => hd h.2)]
        · rw [hview3 t (fun h => h1 ((hs2.inMirror t).1 h)) h2
            (by unfold notFat1 at *; rw [hs2.fatbase, hs2.fsize]; exact h3), hview2 t h1 h2 h3]
      · rw [if_neg hr2] at h
        simp only [Prod.mk.injEq] at h
        split_ifs at h <;> omega
  · have e : (if r1 = FR_OK ∧ clst ≠ 0 then put_fat fs2 clst ncl else (r1, fs2))
        = (r1, fs2) := if_neg (fun h => hr1 h.1)
    rw [e] at h
    simp only [] at h
    rw [if_neg hr1] at h
    simp only [Prod.mk.injEq] at h
    split_ifs at h <;> omega

theorem create_chain_start_now (fs fs1 : FATFS) (obj : FFOBJID) (clst v : Nat)
    (h : create_chain_start fs obj clst = (Sum.inl v, fs1)) :
    v = 1 ∨ v = 0xFFFFFFFF ∨ (clst ≠ 0 ∧ v = (get_fat fs obj clst).1 ∧
      v < (get_fat fs obj clst).2.n_fatent) := by
  unfold create_chain_start at h
  by_cases hc : clst = 0
  · rw [if_pos hc] at h; simp at h
  · rw [if_neg hc] at h
    simp only [] at h
    split_ifs at h with h1 h2 h3
    all_goals simp only [Prod.mk.injEq, Sum.inl.injEq] at h
    · exact Or.inl h.1.symm
    · exact Or.inr (Or.inl (by rw [← h.1]; exact h2))
    · exact Or.inr (Or.inr ⟨hc, h.1.symm, by rw [← h.1]; exact h3⟩)
    · exact absurd h.1 (by simp)

theorem create_chain_near_now (fs fs1 : FATFS) (obj : FFOBJID) (clst scl v : Nat)
    (h : create_chain_near fs obj clst scl = (Sum.inl v, fs1)) : v = 1 ∨ v = 0xFFFFFFFF := by
  unfold create_chain_near at h
  by_cases hc : scl = clst
  · rw [if_pos hc] at h
    simp only [] at h
    generalize (if (scl + 1) % W32 ≥ fs.n_fatent then 2 else (scl + 1) % W32) = m at h
    generalize get_fat fs obj m = g at h
    split_ifs at h with h2 h3
    all_goals try (simp at h; done)
    simp only [Prod.mk.injEq, Sum.inl.injEq] at h
    rw [← h.1]; exact h2
  · rw [if_neg hc] at h; simp at h

theorem create_chain_search_now (obj : FFOBJID) (scl : Nat) :
    ∀ (fuel : Nat) (fs : FATFS) (ncl v : Nat) (fs1 : FATFS),
      create_chain_search obj scl fuel fs ncl = some (Sum.inl v, fs1) →
      v = 0 ∨ v = 1 ∨ v = 0xFFFFFFFF := by
  intro fuel
  induction fuel with
  | zero => intro fs ncl v fs1 h; simp [create_chain_search] at h
  | succ fuel ih =>
    intro fs ncl v fs1 h
    unfold create_chain_search at h
    simp only [] at h
    by_cases h1 : decide ((ncl + 1) % W32 ≥ fs.n_fatent) = true ∧ 2 > scl
    · rw [if_pos h1] at h
      simp only [Option.some.injEq, Prod.mk.injEq, Sum.inl.injEq] at h
      exact Or.inl h.1.symm
    · rw [if_neg h1] at h
      generalize (if decide ((ncl + 1) % W32 ≥ fs.n_fatent) = true then 2 else (ncl + 1) % W32) = m at h
      generalize get_fat fs obj m = g at h
      split_ifs at h with h2 h3 h4
      · simp at h
      · simp only [Option.some.injEq, Prod.mk.injEq, Sum.inl.injEq] at h
        rw [← h.1]; exact Or.inr h3
      · simp only [Option.some.injEq, Prod.mk.injEq, Sum.inl.injEq] at h
        exact Or.inl h.1.symm
      · exact ih _ _ v fs1 h

/-- What a successful allocation by `create_chain` does to the volume. -/
theorem create_chain_alloc (fs fs' : FATFS) (obj obj' : FFOBJID) (clst n : Nat)
    (hv : VolOk fs) (hw : WinInv fs)
    (halloc : clst = 0 ∨ fs.n_fatent ≤ (get_fat fs obj clst).1)
    (h : create_chain fs obj clst = some (n, fs', obj')) (hn : 2 ≤ n) (hne : n ≠ 0xFFFFFFFF) :
    fatEntry fs n = 0 ∧ (clst ≠ 0 → fs.n_fatent ≤ fatEntry fs clst) ∧ obj' = obj ∧
    fs.free_clust ≠ 0 ∧
    ∃ fs3, fs' = note_alloc fs3 n ∧ SameVol fs fs3 ∧ WinInv fs3 ∧
      (∀ d, fatEntry fs3 d = if clst ≠ 0 ∧ d = clst then n
          else if d = n then fatMask fs 0xFFFFFFFF else fatEntry fs d) ∧
      (∀ t, ¬ inMirror fs t → t ≠ W32 - 1 → notFat1 fs t → secView fs3 t = secView fs t) := by
  unfold create_chain at h
  rcases hs : create_chain_start fs obj clst with ⟨(v | scl), fs1⟩
  · rw [hs] at h
    simp only [Option.some.injEq, Prod.mk.injEq] at h
    rcases create_chain_start_now fs fs1 obj clst v hs with h1 | h1 | ⟨h1, h2, h3⟩
    · omega
    · omega
    · rcases halloc with h4 | h4
      · exact absurd h4 h1
      · rw [(get_fat_inv fs obj clst hv hw).1.1.n_fatent] at h3
        omega
  · rw [hs] at h
    simp only [] at h
    obtain ⟨hk1, hst, -⟩ := create_chain_start_scl fs fs1 obj clst scl hv hw hs
    have hv1 := hk1.1.volOk hv
    by_cases hf : fs1.free_clust = 0
    · rw [if_pos hf] at h
      simp only [Option.some.injEq, Prod.mk.injEq] at h
      omega
    · rw [if_neg hf] at h
      have hx : ¬ fs1.fs_type = FS_EXFAT := by
        rcases hv1.fat_type with ht | ht | ht <;> rw [ht] <;> decide
      rw [if_neg hx] at h
      unfold create_chain_fat at h
      rcases ha : create_chain_near fs1 obj clst scl with ⟨(v | ⟨ncl, scl'⟩), fs2⟩
      · rw [ha] at h
        simp only [Option.some.injEq, Prod.mk.injEq] at h
        have := create_chain_near_now fs1 fs2 obj clst scl v ha
        omega
      · rw [ha] at h
        simp only [] at h
        obtain ⟨hk2, hnear⟩ := create_chain_near_ok fs1 fs2 obj clst scl ncl scl' hv1 hk1.2.1 ha
        have hk12 := hk1.comp hk2
        have hv2 := hk12.1.volOk hv
        have key : ∀ (m : Nat) (fs4 : FATFS), Keeps fs fs4 → fatEntry fs m = 0 →
            (create_chain_mark fs4 clst m).1 = n → (create_chain_mark fs4 clst m).2 = fs' →
            fatEntry fs n = 0 ∧
            ∃ fs3, fs' = note_alloc fs3 n ∧ SameVol fs fs3 ∧ WinInv fs3 ∧
              (∀ d, fatEntry fs3 d = if clst ≠ 0 ∧ d = clst then n
                  else if d = n then fatMask fs 0xFFFFFFFF else fatEntry fs d) ∧
              (∀ t, ¬ inMirror fs t → t ≠ W32 - 1 → notFat1 fs t →
                secView fs3 t = secView fs t) := by
          intro m fs4 hk4 hm e1 e2
          have hv4 := hk4.1.volOk hv
          obtain ⟨hnm, fs3, q1, q2, q3, q4, q5⟩ := create_chain_mark_ok fs4 fs' clst m n hv4 hk4.2.1
            (Prod.ext e1 e2) hn hne
          subst hnm
          refine ⟨hm, fs3, q1, hk4.1.trans q2, q3, fun d => ?_, fun t h1 h2 h3 => ?_⟩
          · rw [q4 d]
            have hmr := fatEntry_zero_range hm
            have e3 : fatMask fs4 n = n := fatMask_of_lt hv4 (by rw [hk4.1.n_fatent]; exact hmr.2)
            have e4 : fatMask fs4 0xFFFFFFFF = fatMask fs 0xFFFFFFFF := by
              unfold fatMask; rw [hk4.1.fs_type]
            rw [e3, e4, fatEntry_congr hk4.1 hk4.2.2 hv]
          · rw [q5 t (fun h => h1 ((hk4.1.inMirror t).1 h)) h2
              (by unfold notFat1 at *; rw [hk4.1.fatbase, hk4.1.fsize]; exact h3),
              hk4.2.2 t h1 h2]
        have hfree : fs.free_clust ≠ 0 := by rw [← hk1.1.free_clust]; exact hf
        by_cases hz : ncl = 0
        · rw [if_pos hz] at h
          rcases hsr : create_chain_search obj scl' (fs2.n_fatent + 1) fs2 scl' with _ | ⟨(v | m), fs4⟩
          · rw [hsr] at h; simp at h
          · rw [hsr] at h
            simp only [Option.some.injEq, Prod.mk.injEq] at h
            have := create_chain_search_now obj scl' _ fs2 scl' v fs4 hsr
            omega
          · rw [hsr] at h
            simp only [Option.some.injEq, Prod.mk.injEq] at h
            obtain ⟨hk4, hm⟩ := create_chain_search_found obj scl' _ fs2 scl' m fs4 hv2 hk12.2.1 hsr
            have hm0 : fatEntry fs m = 0 := by rw [← fatEntry_congr hk12.1 hk12.2.2 hv]; exact hm
            obtain ⟨r1, r2⟩ := key m fs4 (hk12.comp hk4) hm0 h.1 h.2.1
            exact ⟨r1, fun hc => (hst hc).2, h.2.2.symm, hfree, r2⟩
        · rw [if_neg hz] at h
          simp only [Option.some.injEq, Prod.mk.injEq] at h
          have hm0 : fatEntry fs ncl = 0 := by
            rw [← fatEntry_congr hk1.1 hk1.2.2 hv]; exact hnear hz
          obtain ⟨r1, r2⟩ := key ncl fs2 hk12 hm0 h.1 h.2.1
          exact ⟨r1, fun hc => (hst hc).2, h.2.2.symm, hfree, r2⟩

theorem note_alloc_sameVol (fs : FATFS) (n : Nat) :
    (note_alloc fs n).fs_type = fs.fs_type ∧ (note_alloc fs n).n_fatent = fs.n_fatent ∧
    (VolOk (note_alloc fs n) ↔ VolOk fs) ∧ (WinInv (note_alloc fs n) ↔ WinInv fs) ∧
    (note_alloc fs n).drv = fs.drv :=
  ⟨rfl, rfl, Iff.rfl, Iff.rfl, rfl⟩

theorem exFat12Chain_volOk : VolOk exFat12Chain := by
  unfold VolOk; decide

theorem exFat12Chain_winInv : WinInv exFat12Chain :=
  ⟨by decide, fun _ h => absurd rfl h⟩

theorem exFat12Chain_deviceOk : DeviceOk exFat12Chain.drv :=
  ⟨fun _ => rfl, fun _ => rfl⟩

/-- C3 (counterexample). On the FAT12 volume `exFat12ChainNoWrite`, whose
device cannot write the second FAT sector, cluster 341 is the end of a chain
(`get_fat` returns `0xFFF`) and `create_chain(obj, 341)` allocates: it returns
cluster 10 with `free_clust` decreased from 396 to 395. Yet `get_fat(341)`
after the call is `0xFFFFFFFF`, not 10: the high byte of the entry is in the
dirty window on sector 2, and the low byte needs a move of the window to
sector 1, whose write-back fails. -/
theorem C3_counterexample :
    (get_fat exFat12ChainNoWrite {} 341).1 = 0xFFF ∧
    (create_chain exFat12ChainNoWrite {} 341).map (fun r => (r.1, r.2.1.free_clust)) = some (10, 395) ∧
    (create_chain exFat12ChainNoWrite {} 341).map (fun r => (get_fat r.2.1 {} 341).1)
      = some 0xFFFFFFFF := by
  decide

/-- C3 (amended). Allocator safety on FAT12/16/32: whenever `create_chain(obj,
clst)` allocates (`clst = 0`, or `get_fat(clst)` was an end-of-chain value) and
returns a cluster `n >= 2` (not the disk-error status `0xFFFFFFFF`), then
`2 <= n < n_fatent`; the FAT entry of `n` the volume held before the call was
0; after the call the entry of `n` is an end-of-chain value (`>= n_fatent`),
the entry of `clst` is `n` when `clst != 0`, and no other entry has changed;
`free_clust`, when it held a valid count (1 .. `n_fatent - 2`), has decreased
by exactly 1. `get_fat` returns these entries whenever it does not return the
disk-error status `0xFFFFFFFF`, which it never does on a device whose
transfers complete. -/
theorem C3_create_chain_allocates (fs fs' : FATFS) (obj obj' : FFOBJID) (clst n : Nat)
    (hv : VolOk fs) (hw : WinInv fs)
    (halloc : clst = 0 ∨ fs.n_fatent ≤ (get_fat fs obj clst).1)
    (h : create_chain fs obj clst = some (n, fs', obj')) (hn : 2 ≤ n) (hne : n ≠ 0xFFFFFFFF) :
    (2 ≤ n ∧ n < fs.n_fatent ∧ fs'.n_fatent = fs.n_fatent) ∧
    (fatEntry fs n = 0 ∧ fs.n_fatent ≤ fatEntry fs' n ∧ (clst ≠ 0 → fatEntry fs' clst = n) ∧
      ∀ d, d ≠ n → d ≠ clst → fatEntry fs' d = fatEntry fs d) ∧
    (1 ≤ fs.free_clust → fs.free_clust ≤ fs.n_fatent - 2 →
      fs'.free_clust = fs.free_clust - 1) ∧
    (∀ o d, (get_fat fs o d).1 ≠ 0xFFFFFFFF → (get_fat fs o d).1 = fatEntry fs d) ∧
    (∀ o d, (get_fat fs' o d).1 ≠ 0xFFFFFFFF → (get_fat fs' o d).1 = fatEntry fs' d) ∧
    (DeviceOk fs.drv → (get_fat fs obj n).1 = 0 ∧ fs.n_fatent ≤ (get_fat fs' obj n).1 ∧
      (clst ≠ 0 → (get_fat fs' obj clst).1 = n)) := by
  obtain ⟨h0, hcl, -, hfree, fs3, e, hs, hw3, hent, -⟩ :=
    create_chain_alloc fs fs' obj obj' clst n hv hw halloc h hn hne
  have hr := fatEntry_zero_range h0
  have hv3 := hs.volOk hv
  have hvv : VolOk fs' := by rw [e]; exact hv3
  have hww : WinInv fs' := by rw [e]; exact hw3
  have hent' : ∀ d, fatEntry fs' d = if clst ≠ 0 ∧ d = clst then n
      else if d = n then fatMask fs 0xFFFFFFFF else fatEntry fs d := by
    intro d; rw [e, fatEntry_note_alloc]; exact hent d
  have hnc : clst ≠ 0 → n ≠ clst := by
    intro hc hnc
    have := hcl hc
    rw [← hnc, h0] at this
    omega
  have e1 : fs.n_fatent ≤ fatEntry fs' n := by
    rw [hent' n, if_neg (fun h => hnc h.1 h.2), if_pos rfl]
    exact fatMask_eoc hv
  have e2 : clst ≠ 0 → fatEntry fs' clst = n := by
    intro hc
    rw [hent' clst, if_pos ⟨hc, rfl⟩]
  refine ⟨⟨hr.1, hr.2, by rw [e]; exact hs.n_fatent⟩, ⟨h0, e1, e2, fun d h1 h2 => ?_⟩, ?_,
    fun o d => (get_fat_inv fs o d hv hw).2, fun o d => (get_fat_inv fs' o d hvv hww).2, ?_⟩
  · rw [hent' d, if_neg (fun h => h2 h.2), if_neg h1]
  · intro f1 f2
    have hn3 := hv.2.2.1
    have hnle : fs.n_fatent ≤ 0x0FFFFFF7 := by
      rcases hv.2.2.2 with ⟨_, hh, _⟩ | ⟨_, hh, _⟩ | ⟨_, hh, _⟩ <;> omega
    rw [e]
    show (if fs3.free_clust ≤ (fs3.n_fatent + W32 - 2) % W32
          then (fs3.free_clust + W32 - 1) % W32 else fs3.free_clust) = fs.free_clust - 1
    rw [hs.free_clust, hs.n_fatent]
    unfold W32
    split_ifs <;> omega
  · intro hd
    have hd' : DeviceOk fs'.drv := by rw [e]; exact hs.deviceOk hd
    refine ⟨?_, ?_, fun hc => ?_⟩
    · rw [get_fat_device fs obj n hv hw hd]; exact h0
    · rw [get_fat_device fs' obj n hvv hww hd']; exact e1
    · rw [get_fat_device fs' obj clst hvv hww hd']; exact e2 hc

theorem exFat12Chain_stretch : (create_chain exFat12Chain {} 341).isSome = true := by
  decide

/-- C3 (witness): stretching the chain that ends at cluster 341 of
`exFat12Chain`, whose next cluster 342 is in use, allocates cluster 10. -/
theorem C3_create_chain_allocates_witness :
    VolOk exFat12Chain ∧ WinInv exFat12Chain ∧
    exFat12Chain.n_fatent ≤ (get_fat exFat12Chain {} 341).1 ∧
    ∃ fs' obj', create_chain exFat12Chain {} 341 = some (10, fs', obj') ∧
      (get_fat exFat12Chain {} 10).1 = 0 ∧
      exFat12Chain.n_fatent ≤ (get_fat fs' {} 10).1 ∧ (get_fat fs' {} 341).1 = 10 ∧
      fs'.free_clust = 395 :=
  have e : create_chain exFat12Chain {} 341 = some (10,
      ((create_chain exFat12Chain {} 341).get exFat12Chain_stretch).2.1,
      ((create_chain exFat12Chain {} 341).get exFat12Chain_stretch).2.2) :=
    (Option.some_get exFat12Chain_stretch).symm.trans
      (congrArg some (Prod.ext (by decide) rfl))
  have r := C3_create_chain_allocates exFat12Chain _ {} _ 341 10
    exFat12Chain_volOk exFat12Chain_winInv (Or.inr (by decide)) e (by decide) (by decide)
  have d := r.2.2.2.2.2 exFat12Chain_deviceOk
  ⟨exFat12Chain_volOk, exFat12Chain_winInv, by decide, _, _, e, d.1, d.2.1, d.2.2 (by decide),
    r.2.2.1 (by decide) (by decide)⟩

/-! ### Removal of a cluster chain (`remove_chain`) -/

theorem SameVol.sameGeom {a b : FATFS} (h : SameVol a b) : SameGeom a b := by
  unfold SameVol at h; unfold SameGeom; rw [h]

theorem SameGeom.rfl' (a : FATFS) : SameGeom a a := by
  unfold SameGeom; rfl

theorem SameGeom.comp' {a b c : FATFS} (h1 : SameGeom a b) (h2 : SameGeom b c) : SameGeom a c := by
  unfold SameGeom at *
  rw [h2, h1]

theorem SameGeom.fs_type' {a b : FATFS} (h : SameGeom a b) : b.fs_type = a.fs_type := by
  unfold SameGeom at h; rw [h]
theorem SameGeom.n_fats' {a b : FATFS} (h : SameGeom a b) : b.n_fats = a.n_fats := by
  unfold SameGeom at h; rw [h]
theorem SameGeom.n_fatent' {a b : FATFS} (h : SameGeom a b) : b.n_fatent = a.n_fatent := by
  unfold SameGeom at h; rw [h]
theorem SameGeom.fsize' {a b : FATFS} (h : SameGeom a b) : b.fsize = a.fsize := by
  unfold SameGeom at h; rw [h]
theorem SameGeom.fatbase' {a b : FATFS} (h : SameGeom a b) : b.fatbase = a.fatbase := by
  unfold SameGeom at h; rw [h]
theorem SameGeom.csize' {a b : FATFS} (h : SameGeom a b) : b.csize = a.csize := by
  unfold SameGeom at h; rw [h]
theorem SameGeom.database' {a b : FATFS} (h : SameGeom a b) : b.database = a.database := by
  unfold SameGeom at h; rw [h]
theorem SameGeom.rdOk' {a b : FATFS} (h : SameGeom a b) : b.drv.rdOk = a.drv.rdOk := by
  unfold SameGeom at h; rw [h]
theorem SameGeom.wrOk' {a b : FATFS} (h : SameGeom a b) : b.drv.wrOk = a.drv.wrOk := by
  unfold SameGeom at h; rw [h]

theorem SameGeom.volOk' {a b : FATFS} (h : SameGeom a b) (hv : VolOk a) : VolOk b := by
  unfold VolOk at *
  rw [h.n_fats', h.fatbase', h.fsize', h.n_fatent', h.fs_type']
  exact hv

theorem SameGeom.deviceOk' {a b : FATFS} (h : SameGeom a b) (hd : DeviceOk a.drv) :
    DeviceOk b.drv := by
  unfold DeviceOk at *
  rw [h.rdOk', h.wrOk']
  exact hd

theorem SameGeom.inMirror' {a b : FATFS} (h : SameGeom a b) (t : Nat) :
    inMirror b t ↔ inMirror a t := by
  unfold FatFs.inMirror
  rw [h.n_fats', h.fatbase', h.fsize']

theorem SameGeom.notFat1' {a b : FATFS} (h : SameGeom a b) (t : Nat) :
    notFat1 b t ↔ notFat1 a t := by
  unfold FatFs.notFat1
  rw [h.fatbase', h.fsize']

theorem note_free_geom (fs : FATFS) :
    SameGeom fs (note_free fs) ∧ (note_free fs).win = fs.win ∧
    (note_free fs).winsect = fs.winsect ∧ (note_free fs).wflag = fs.wflag ∧
    (note_free fs).drv = fs.drv ∧
    (note_free fs).free_clust = countUp fs.n_fatent fs.free_clust := by
  unfold note_free countUp SameGeom
  split_ifs <;> exact ⟨rfl, rfl, rfl, rfl, rfl, rfl⟩

theorem note_free_winInv (fs : FATFS) (hw : WinInv fs) : WinInv (note_free fs) := by
  obtain ⟨-, h1, h2, h3, h4, -⟩ := note_free_geom fs
  unfold WinInv at *
  rw [h1, h2, h3, h4]; exact hw

theorem note_free_secView (fs : FATFS) (t : Nat) : secView (note_free fs) t = secView fs t := by
  obtain ⟨-, h1, h2, h3, h4, -⟩ := note_free_geom fs
  unfold secView
  rw [h1, h2, h4]

theorem fatEntry_note_free (fs : FATFS) (c : Nat) : fatEntry (note_free fs) c = fatEntry fs c := by
  have hg := (note_free_geom fs).1
  unfold fatEntry fatByte
  simp only [note_free_secView, hg.n_fatent', hg.fs_type', hg.fatbase']

theorem chainFrom_unique (fs : FATFS) : ∀ (l1 l2 : List Nat) (c : Nat),
    chainFrom fs c l1 → chainFrom fs c l2 → l1 = l2 := by
  intro l1
  induction l1 with
  | nil =>
    intro l2 c h1 h2
    cases l2 with
    | nil => rfl
    | cons y l2 =>
      unfold chainFrom at h1 h2
      omega
  | cons x l1 ih =>
    intro l2 c h1 h2
    cases l2 with
    | nil =>
      unfold chainFrom at h1 h2
      omega
    | cons y l2 =>
      unfold chainFrom at h1 h2
      rw [h1.1, h2.1, ih l2 _ h1.2.2.2 h2.2.2.2]

theorem chainFrom_suffix (fs : FATFS) : ∀ (l : List Nat) (c x : Nat),
    chainFrom fs c l → x ∈ l → ∃ l2, chainFrom fs x l2 ∧ l2.length ≤ l.length := by
  intro l
  induction l with
  | nil => intro c x _ hx; simp at hx
  | cons y l ih =>
    intro c x h hx
    rcases List.mem_cons.1 hx with hxy | hxl
    · have h' := h
      unfold chainFrom at h'
      refine ⟨y :: l, ?_, le_refl _⟩
      rw [hxy, h'.1]
      rw [h'.1] at h
      exact h
    · unfold chainFrom at h
      obtain ⟨l2, h2, h3⟩ := ih _ x h.2.2.2 hxl
      exact ⟨l2, h2, by simp; omega⟩

theorem chainFrom_head_not_mem (fs : FATFS) (c : Nat) (l : List Nat)
    (h : chainFrom fs c (c :: l)) : c ∉ l := by
  intro hc
  have h' := h
  unfold chainFrom at h'
  obtain ⟨l2, h2, h3⟩ := chainFrom_suffix fs l _ c h'.2.2.2 hc
  have := chainFrom_unique fs _ _ c h2 h
  rw [this] at h3
  simp at h3

theorem chainFrom_nodup (fs : FATFS) : ∀ (l : List Nat) (c : Nat), chainFrom fs c l → l.Nodup := by
  intro l
  induction l with
  | nil => intro c _; exact List.nodup_nil
  | cons y l ih =>
    intro c h
    have h' := h
    unfold chainFrom at h'
    rw [h'.1] at h
    refine List.nodup_cons.2 ⟨?_, ih _ h'.2.2.2⟩
    rw [h'.1]
    exact chainFrom_head_not_mem fs c l h

theorem chainFrom_next (fs : FATFS) (hv : VolOk fs) (c : Nat) (l : List Nat)
    (h : chainFrom fs c l) : 2 ≤ c := by
  have := hv.2.2.1
  cases l with
  | nil => unfold chainFrom at h; omega
  | cons y l => unfold chainFrom at h; omega

theorem chainFrom_mem (fs : FATFS) (hv : VolOk fs) : ∀ (l : List Nat) (c x : Nat),
    chainFrom fs c l → x ∈ l → 2 ≤ x ∧ x < fs.n_fatent ∧ 2 ≤ fatEntry fs x := by
  intro l
  induction l with
  | nil => intro c x _ hx; simp at hx
  | cons y l ih =>
    intro c x h hx
    unfold chainFrom at h
    rcases List.mem_cons.1 hx with hxy | hxl
    · rw [hxy, h.1]
      exact ⟨h.2.1, h.2.2.1, chainFrom_next fs hv _ l h.2.2.2⟩
    · exact ih _ x h.2.2.2 hxl

theorem chainFrom_congr (fs fs' : FATFS) (hn : fs'.n_fatent = fs.n_fatent) :
    ∀ (l : List Nat) (c : Nat), (∀ d ∈ l, fatEntry fs' d = fatEntry fs d) →
      chainFrom fs c l → chainFrom fs' c l := by
  intro l
  induction l with
  | nil => intro c _ h; unfold chainFrom at h ⊢; rw [hn]; exact h
  | cons y l ih =>
    intro c he h
    unfold chainFrom at h ⊢
    refine ⟨h.1, h.2.1, by rw [hn]; exact h.2.2.1, ?_⟩
    rw [← h.1, he y (List.mem_cons_self _ _), h.1]
    exact ih _ (fun d hd => he d (List.mem_cons_of_mem _ hd)) h.2.2.2

theorem fatMask_zero (fs : FATFS) : fatMask fs 0 = 0 := by
  unfold fatMask; split_ifs <;> rfl

theorem VolOk.not_exfat {fs : FATFS} (hv : VolOk fs) : ¬ fs.fs_type = FS_EXFAT := by
  rcases hv.fat_type with ht | ht | ht <;> rw [ht] <;> decide

theorem iterate_singleton_length {α : Type} (f : α → α) (a : α) (x : Nat) :
    f^[[x].length] a = f a := by
  rw [List.length_singleton, Function.iterate_one]

theorem iterate_cons_length {α : Type} (f : α → α) (a : α) (x : Nat) (l : List Nat) :
    f^[l.length] (f^[[x].length] a) = f^[(x :: l).length] a := by
  rw [iterate_singleton_length, List.length_cons, Function.iterate_succ_apply]

theorem Freed.cons {fs fs1 fs' : FATFS} {x : Nat} {l : List Nat}
    (h1 : Freed fs fs1 [x]) (h2 : Freed fs1 fs' l) : Freed fs fs' (x :: l) := by
  obtain ⟨a1, a2, a3, a4, a5, a6⟩ := h1
  obtain ⟨b1, b2, b3, b4, b5, b6⟩ := h2
  refine ⟨a1.comp' b1, b2, fun d => ?_, ?_, by rw [b5, a5], fun t t1 t2 t3 => ?_⟩
  · rw [b3 d, a3 d]
    by_cases hd : d = x
    · subst hd
      simp only [List.mem_cons, List.mem_singleton, true_or, if_true, ite_self,
        List.not_mem_nil, or_false]
    · by_cases hdl : d ∈ l
      · rw [if_pos hdl, if_pos (List.mem_cons_of_mem _ hdl)]
      · rw [if_neg hdl, if_neg (by simp only [List.mem_singleton]; exact hd),
          if_neg (by simp only [List.mem_cons, not_or]; exact ⟨hd, hdl⟩)]
  · rw [b4, a4, a1.n_fatent']
    exact iterate_cons_length _ _ x l
  · rw [b6 t (fun h => t1 ((a1.inMirror' t).1 h)) t2 ((a1.notFat1' t).2 t3), a6 t t1 t2 t3]

/-- One pass of the loop of `remove_chain` on a FAT12/16/32 volume at a
cluster `x` whose entry is a link or an end of chain: unless it fails, it
frees `x` and goes on to the entry of `x` when that is a cluster. -/
theorem remove_chain_step_ok (obj : FFOBJID) (fs : FATFS) (x scl ecl : Nat)
    (hv : VolOk fs) (hw : WinInv fs) (he : 2 ≤ fatEntry fs x) :
    (∀ r fs', remove_chain_step obj fs x scl ecl = some (Sum.inl (r, fs')) → r = FR_OK →
      Freed fs fs' [x] ∧ ¬ fatEntry fs x < fs.n_fatent) ∧
    (∀ fs' c s e, remove_chain_step obj fs x scl ecl = some (Sum.inr (fs', c, s, e)) →
      Freed fs fs' [x] ∧ c = fatEntry fs x ∧ fatEntry fs x < fs.n_fatent) := by
  unfold remove_chain_step
  simp only []
  obtain ⟨hk, hval⟩ := get_fat_inv fs obj x hv hw
  generalize get_fat fs obj x = g at hk hval
  have hv1 := hk.1.volOk hv
  by_cases h0 : g.1 = 0
  · exact absurd (hval (by omega)) (by omega)
  rw [if_neg h0]
  by_cases h1 : g.1 = 1
  · rw [if_pos h1]
    refine ⟨fun r fs' h hr => ?_, fun fs' c s e h => ?_⟩
    · simp only [Option.some.injEq, Sum.inl.injEq, Prod.mk.injEq] at h
      rw [← h.1] at hr; exact absurd hr (by decide)
    · simp at h
  rw [if_neg h1]
  by_cases hF : g.1 = 0xFFFFFFFF
  · rw [if_pos hF]
    refine ⟨fun r fs' h hr => ?_, fun fs' c s e h => ?_⟩
    · simp only [Option.some.injEq, Sum.inl.injEq, Prod.mk.injEq] at h
      rw [← h.1] at hr; exact absurd hr (by decide)
    · simp at h
  rw [if_neg hF]
  have hg := hval hF
  have e1 : (if g.2.fs_type ≠ FS_EXFAT then put_fat g.2 x 0 else (FR_OK, g.2))
      = put_fat g.2 x 0 := if_pos hv1.not_exfat
  rw [e1]
  rcases hp : put_fat g.2 x 0 with ⟨r0, fs2⟩
  simp only []
  by_cases hr : r0 = FR_OK
  swap
  · rw [if_pos hr]
    refine ⟨fun r fs' h hr' => ?_, fun fs' c s e h => ?_⟩
    · simp only [Option.some.injEq, Sum.inl.injEq, Prod.mk.injEq] at h
      rw [← h.1] at hr'; exact absurd hr' hr
    · simp at h
  subst hr
  rw [if_neg (not_not.2 rfl)]
  obtain ⟨-, -, hs2, hw2, hview2, hent2⟩ := put_fat_entry g.2 fs2 x 0 hv1 hk.2.1 hp
  have hs02 := hk.1.trans hs2
  have hv2 := hs02.volOk hv
  obtain ⟨hg3, -, -, -, -, hf3⟩ := note_free_geom fs2
  have hv3 := hg3.volOk' hv2
  have hg03 : SameGeom fs (note_free fs2) := hs02.sameGeom.comp' hg3
  have hfreed : Freed fs (note_free fs2) [x] := by
    refine ⟨hg03, note_free_winInv fs2 hw2, fun d => ?_, ?_, ?_, fun t t1 t2 t3 => ?_⟩
    · rw [fatEntry_note_free, hent2 d, fatMask_zero, fatEntry_congr hk.1 hk.2.2 hv]
      simp only [List.mem_singleton]
    · rw [hf3, hs02.n_fatent, hs02.free_clust]
      exact (iterate_singleton_length _ _ x).symm
    · unfold note_free
      split_ifs <;> exact hs02.last_clust
    · rw [note_free_secView, hview2 t (fun h => t1 ((hk.1.inMirror t).1 h)) t2
        (by unfold notFat1 at *; rw [hk.1.fatbase, hk.1.fsize]; exact t3), hk.2.2 t t1 t2]
  have e2 : (if (note_free fs2).fs_type = FS_EXFAT
      then change_bitmap (note_free fs2) scl ((ecl + W32 - scl + 1) % W32) 0
      else some (FR_OK, note_free fs2)) = some (FR_OK, note_free fs2) :=
    if_neg hv3.not_exfat
  rw [e2]
  dsimp only
  rw [hg03.n_fatent', hg, if_neg (not_not.2 rfl)]
  by_cases hlt : fatEntry fs x < fs.n_fatent
  · rw [if_pos hlt]
    refine ⟨fun r fs' h _ => ?_, fun fs' c s e h => ?_⟩
    · split_ifs at h <;> simp at h
    · split_ifs at h
      all_goals simp only [Option.some.injEq, Sum.inr.injEq, Prod.mk.injEq] at h
      all_goals exact ⟨h.1 ▸ hfreed, h.2.1.symm, hlt⟩
  · rw [if_neg hlt]
    refine ⟨fun r fs' h _ => ?_, fun fs' c s e h => ?_⟩
    · split_ifs at h
      all_goals simp only [Option.some.injEq, Sum.inl.injEq, Prod.mk.injEq] at h
      all_goals exact ⟨h.2 ▸ hfreed, hlt⟩
    · split_ifs at h <;> simp at h

/-- The loop of `remove_chain` on a FAT12/16/32 volume, when it ends with
`FR_OK` on a well-formed chain: the chain has been freed. -/
theorem remove_chain_loop_ok (obj : FFOBJID) :
    ∀ (l : List Nat) (fuel : Nat) (fs : FATFS) (clst scl ecl : Nat) (fs' : FATFS),
      VolOk fs → WinInv fs → chainFrom fs clst l → l ≠ [] →
      remove_chain_loop obj fuel fs clst scl ecl = some (FR_OK, fs') → Freed fs fs' l := by
  intro l
  induction l with
  | nil => intro _ _ _ _ _ _ _ _ _ h; exact absurd rfl h
  | cons x l ih =>
    intro fuel fs clst scl ecl fs' hv hw hch _ h
    cases fuel with
    | zero => rw [remove_chain_loop] at h; exact absurd h (by simp)
    | succ fuel =>
      have hch' := hch
      unfold chainFrom at hch'
      obtain ⟨hx, hc2, hcn, hrest⟩ := hch'
      subst hx
      have hnot := chainFrom_head_not_mem fs x l hch
      have hnx := chainFrom_next fs hv _ l hrest
      obtain ⟨st1, st2⟩ := remove_chain_step_ok obj fs x scl ecl hv hw hnx
      rw [remove_chain_loop] at h
      rcases hst : remove_chain_step obj fs x scl ecl with _ | ⟨⟨r, fs1⟩ | ⟨fs1, c, s, e⟩⟩
      · rw [hst] at h; simp at h
      · rw [hst] at h
        simp only [Option.some.injEq, Prod.mk.injEq] at h
        obtain ⟨q1, q2⟩ := st1 r fs1 hst h.1
        have hl : l = [] := by
          cases l with
          | nil => rfl
          | cons y l => unfold chainFrom at hrest; omega
        subst hl
        rw [← h.2]; exact q1
      · rw [hst] at h
        simp only [] at h
        obtain ⟨q1, q2, q3⟩ := st2 fs1 c s e hst
        have hl : l ≠ [] := by
          intro hl; rw [hl] at hrest; unfold chainFrom at hrest; omega
        have hch3 : chainFrom fs1 c l := by
          rw [q2]
          apply chainFrom_congr fs _ q1.1.n_fatent' l _ _ hrest
          intro d hd
          rw [q1.2.2.1 d, if_neg (by simp only [List.mem_singleton]; exact fun h => hnot (h ▸ hd))]
        exact q1.cons (ih fuel fs1 c s e fs' (q1.1.volOk' hv) q1.2.1 hch3 hl h)

theorem countUp_iterate (n : Nat) (hn : n ≤ 0x0FFFFFF7) :
    ∀ (k f : Nat), f + k + 2 ≤ n → (countUp n)^[k] f = f + k := by
  intro k
  induction k with
  | zero => intro f _; rfl
  | succ k ih =>
    intro f hf
    rw [Function.iterate_succ_apply]
    have e : countUp n f = f + 1 := by
      unfold countUp W32
      rw [if_pos (by omega)]
      omega
    rw [e, ih (f + 1) (by omega)]
    omega

/-- The clusters of a chain are in use, so the free clusters and the chain
fit together in the cluster range. -/
theorem chainFrom_count (fs : FATFS) (hv : VolOk fs) (c : Nat) (l : List Nat)
    (h : chainFrom fs c l) : freeCount fs + l.length + 2 ≤ fs.n_fatent := by
  have hn3 := hv.2.2.1
  unfold freeCount
  have hsplit := List.length_eq_countP_add_countP (fun d => decide (fatEntry fs d = 0))
    (List.range fs.n_fatent)
  rw [List.length_range] at hsplit
  have hnd : (0 :: 1 :: l).Nodup := by
    refine List.nodup_cons.2 ⟨?_, List.nodup_cons.2 ⟨?_, chainFrom_nodup fs l c h⟩⟩
    · intro h0
      rcases List.mem_cons.1 h0 with h1 | h1
      · omega
      · have := (chainFrom_mem fs hv l c 0 h h1).1; omega
    · intro h1
      have := (chainFrom_mem fs hv l c 1 h h1).1; omega
  have hsub : (0 :: 1 :: l) ⊆
      (List.range fs.n_fatent).filter (fun d => ! decide (fatEntry fs d = 0)) := by
    intro d hd
    rw [List.mem_filter, List.mem_range]
    rcases List.mem_cons.1 hd with h0 | hd
    · subst h0
      exact ⟨by omega, by simp [fatEntry]⟩
    rcases List.mem_cons.1 hd with h1 | hd
    · subst h1
      exact ⟨by omega, by simp [fatEntry]⟩
    · obtain ⟨m1, m2, m3⟩ := chainFrom_mem fs hv l c d h hd
      refine ⟨m2, ?_⟩
      simp only [Bool.not_eq_true', decide_eq_false_iff_not]
      omega
  have hle := (List.subperm_of_subset hnd hsub).length_le
  rw [← List.countP_eq_length_filter] at hle
  simp only [List.length_cons] at hle
  have e : List.countP (fun a => decide ¬decide (fatEntry fs a = 0) = true)
        (List.range fs.n_fatent)
      = List.countP (fun d => ! decide (fatEntry fs d = 0)) (List.range fs.n_fatent) := by
    congr 1
    funext a
    simp
  rw [e] at hsplit
  omega

/-- One pass of the loop of `remove_chain` on a device whose transfers
complete: it does not fail. -/
theorem remove_chain_step_device (obj : FFOBJID) (fs : FATFS) (x scl ecl : Nat)
    (hv : VolOk fs) (hw : WinInv fs) (hd : DeviceOk fs.drv)
    (hx : 2 ≤ x ∧ x < fs.n_fatent) (he : 2 ≤ fatEntry fs x) :
    (∃ fs', remove_chain_step obj fs x scl ecl = some (Sum.inl (FR_OK, fs'))) ∨
    (∃ fs' c s e, remove_chain_step obj fs x scl ecl = some (Sum.inr (fs', c, s, e))) := by
  unfold remove_chain_step
  dsimp only
  obtain ⟨hk, -⟩ := get_fat_inv fs obj x hv hw
  have hg := get_fat_device fs obj x hv hw hd
  have hlt := fatEntry_lt fs x
  generalize get_fat fs obj x = g at hk hg
  have hv1 := hk.1.volOk hv
  rw [if_neg (by omega), if_neg (by omega), if_neg (by omega)]
  have e1 : (if g.2.fs_type ≠ FS_EXFAT then put_fat g.2 x 0 else (FR_OK, g.2))
      = put_fat g.2 x 0 := if_pos hv1.not_exfat
  rw [e1]
  have hp := put_fat_device g.2 x 0 hv1 hk.2.1 (hk.1.deviceOk hd)
    (by rw [hk.1.n_fatent]; exact hx)
  rw [if_neg (not_not.2 hp)]
  have hv3 : VolOk (note_free (put_fat g.2 x 0).2) := by
    apply (note_free_geom _).1.volOk'
    rcases hq : put_fat g.2 x 0 with ⟨r, fs2⟩
    rw [hq] at hp
    dsimp only at hp
    subst hp
    exact (put_fat_entry g.2 fs2 x 0 hv1 hk.2.1 hq).2.2.1.volOk hv1
  have e2 : (if (note_free (put_fat g.2 x 0).2).fs_type = FS_EXFAT
      then change_bitmap (note_free (put_fat g.2 x 0).2) scl ((ecl + W32 - scl + 1) % W32) 0
      else some (FR_OK, note_free (put_fat g.2 x 0).2))
      = some (FR_OK, note_free (put_fat g.2 x 0).2) :=
    if_neg hv3.not_exfat
  rw [e2]
  dsimp only
  rw [if_neg (not_not.2 rfl)]
  split_ifs
  · exact Or.inr ⟨_, _, _, _, rfl⟩
  · exact Or.inl ⟨_, rfl⟩
  · exact Or.inr ⟨_, _, _, _, rfl⟩
  · exact Or.inl ⟨_, rfl⟩

/-- The loop of `remove_chain` on a well-formed chain and a device whose
transfers complete ends with `FR_OK`, given fuel for every link. -/
theorem remove_chain_loop_device (obj : FFOBJID) :
    ∀ (l : List Nat) (fuel : Nat) (fs : FATFS) (clst scl ecl : Nat),
      VolOk fs → WinInv fs → DeviceOk fs.drv → chainFrom fs clst l → l ≠ [] →
      l.length ≤ fuel → ∃ fs', remove_chain_loop obj fuel fs clst scl ecl = some (FR_OK, fs') := by
  intro l
  induction l with
  | nil => intro _ _ _ _ _ _ _ _ _ h; exact absurd rfl h
  | cons x l ih =>
    intro fuel fs clst scl ecl hv hw hd hch _ hfuel
    cases fuel with
    | zero => simp at hfuel
    | succ fuel =>
      have hch' := hch
      unfold chainFrom at hch'
      obtain ⟨hx, hc2, hcn, hrest⟩ := hch'
      subst hx
      have hnot := chainFrom_head_not_mem fs x l hch
      have hnx := chainFrom_next fs hv _ l hrest
      obtain ⟨-, st2⟩ := remove_chain_step_ok obj fs x scl ecl hv hw hnx
      rw [remove_chain_loop]
      rcases remove_chain_step_device obj fs x scl ecl hv hw hd ⟨hc2, hcn⟩ hnx with
        ⟨fs1, hst⟩ | ⟨fs1, c, s, e, hst⟩
      · rw [hst]; exact ⟨fs1, rfl⟩
      · rw [hst]
        dsimp only
        obtain ⟨q1, q2, q3⟩ := st2 fs1 c s e hst
        have hl : l ≠ [] := by
          intro hl; rw [hl] at hrest; unfold chainFrom at hrest; omega
        have hch3 : chainFrom fs1 c l := by
          rw [q2]
          apply chainFrom_congr fs _ q1.1.n_fatent' l _ _ hrest
          intro d hd
          rw [q1.2.2.1 d, if_neg (by simp only [List.mem_singleton]; exact fun h => hnot (h ▸ hd))]
        exact ih fuel fs1 c s e (q1.1.volOk' hv) q1.2.1 (q1.1.deviceOk' hd) hch3 hl
          (by simp at hfuel; omega)

/-- A successful `remove_chain(obj, clst, 0)` on a well-formed chain frees it. -/
theorem remove_chain_whole (fs fs' : FATFS) (obj obj' : FFOBJID) (c : Nat) (l : List Nat)
    (hv : VolOk fs) (hw : WinInv fs) (hch : chainFrom fs c l) (hl : l ≠ [])
    (h : remove_chain fs obj c 0 = some (FR_OK, fs', obj')) : Freed fs fs' l ∧ obj' = obj := by
  have hc : ¬ (c < 2 ∨ c ≥ fs.n_fatent) := by
    cases l with
    | nil => exact absurd rfl hl
    | cons x l => unfold chainFrom at hch; omega
  unfold remove_chain at h
  rw [if_neg hc] at h
  have ep : (if 0 ≠ 0 ∧ (fs.fs_type ≠ FS_EXFAT ∨ obj.stat ≠ 2) then put_fat fs 0 0xFFFFFFFF
      else (FR_OK, fs)) = (FR_OK, fs) := if_neg (fun h => h.1 rfl)
  rw [ep] at h
  dsimp only at h
  rw [if_neg (not_not.2 rfl)] at h
  rcases hlp : remove_chain_loop obj (fs.n_fatent + 1) fs c c c with _ | ⟨r, fs1⟩
  · rw [hlp] at h; simp at h
  · rw [hlp] at h
    dsimp only at h
    by_cases hr : r = FR_OK
    · subst hr
      have hf := remove_chain_loop_ok obj l _ fs c c c fs1 hv hw hch hl hlp
      rw [if_neg (not_not.2 rfl), if_neg (hf.1.volOk' hv).not_exfat] at h
      simp only [Option.some.injEq, Prod.mk.injEq, true_and] at h
      rw [← h.1, ← h.2]
      exact ⟨hf, rfl⟩
    · rw [if_pos hr] at h
      simp only [Option.some.injEq, Prod.mk.injEq] at h
      exact absurd h.1 hr

/-- On a device whose transfers complete `remove_chain(obj, clst, 0)` returns
`FR_OK` for a well-formed chain. -/
theorem remove_chain_device (fs : FATFS) (obj : FFOBJID) (c : Nat) (l : List Nat)
    (hv : VolOk fs) (hw : WinInv fs) (hd : DeviceOk fs.drv) (hch : chainFrom fs c l)
    (hl : l ≠ []) : ∃ fs', remove_chain fs obj c 0 = some (FR_OK, fs', obj) := by
  have hcnt := chainFrom_count fs hv c l hch
  obtain ⟨fs1, hlp⟩ := remove_chain_loop_device obj l (fs.n_fatent + 1) fs c c c hv hw hd hch hl
    (by omega)
  have hf := remove_chain_loop_ok obj l _ fs c c c fs1 hv hw hch hl hlp
  have hc : ¬ (c < 2 ∨ c ≥ fs.n_fatent) := by
    cases l with
    | nil => exact absurd rfl hl
    | cons x l => unfold chainFrom at hch; omega
  unfold remove_chain
  have ep : (if 0 ≠ 0 ∧ (fs.fs_type ≠ FS_EXFAT ∨ obj.stat ≠ 2) then put_fat fs 0 0xFFFFFFFF
      else (FR_OK, fs)) = (FR_OK, fs) := if_neg (fun h => h.1 rfl)
  rw [if_neg hc, ep]
  dsimp only
  rw [if_neg (not_not.2 rfl), hlp]
  dsimp only
  rw [if_neg (not_not.2 rfl), if_neg (hf.1.volOk' hv).not_exfat]
  exact ⟨fs1, rfl⟩

theorem exFat12File_volOk : VolOk exFat12File := by
  unfold VolOk; decide

theorem exFat12File_winInv : WinInv exFat12File :=
  ⟨by decide, fun _ h => absurd rfl h⟩

theorem exFat12File_deviceOk : DeviceOk exFat12File.drv :=
  ⟨fun _ => rfl, fun _ => rfl⟩

theorem exFat12File_chain : chainFrom exFat12File 2 [2, 3, 5] := by
  decide

set_option maxRecDepth 100000 in
theorem exFat12File_freeCount : exFat12File.free_clust = freeCount exFat12File := by
  decide

/-- C4 (counterexample). On the FAT12 volume `exFat12Chain` cluster 341 is a
well-formed chain of one link (its entry is `0xFFF`). On a device that cannot
read the second FAT sector `remove_chain(obj, 341, 0)` returns `FR_DISK_ERR`,
not `FR_OK`. On a device that cannot write that sector it returns `FR_OK`, but
`get_fat(341)` afterwards is `0xFFFFFFFF`, not 0: the cleared high byte of the
entry is in the dirty window, whose write-back fails. -/
theorem C4_counterexample :
    chainFrom exFat12ChainNoRead 341 [341] ∧
    (remove_chain exFat12ChainNoRead {} 341 0).map (fun r => r.1) = some FR_DISK_ERR ∧
    chainFrom exFat12ChainNoWrite 341 [341] ∧
    (remove_chain exFat12ChainNoWrite {} 341 0).map (fun r => (r.1, (get_fat r.2.1 {} 341).1))
      = some (FR_OK, 0xFFFFFFFF) := by
  decide

/-- C4 (amended). `remove_chain` frees the whole chain: on a FAT12/16/32
volume and a device whose transfers complete, for every well-formed chain `l`
starting at cluster `c` (each link in `[2, n_fatent)`, ending in an
end-of-chain value), `remove_chain(obj, c, 0)` returns `FR_OK`; afterwards
`get_fat` is 0 for every cluster that was on the chain and unchanged for every
other cluster, and `free_clust` has increased by exactly the chain length when
`free_clust` beforehand equalled the number of free clusters in the FAT. -/
theorem C4_remove_chain_frees (fs : FATFS) (obj : FFOBJID) (c : Nat) (l : List Nat)
    (hv : VolOk fs) (hw : WinInv fs) (hd : DeviceOk fs.drv)
    (hch : chainFrom fs c l) (hl : l ≠ []) :
    ∃ fs', remove_chain fs obj c 0 = some (FR_OK, fs', obj) ∧
      (∀ o d, (get_fat fs' o d).1 = if d ∈ l then 0 else (get_fat fs o d).1) ∧
      (fs.free_clust = freeCount fs → fs'.free_clust = fs.free_clust + l.length) := by
  obtain ⟨fs', h⟩ := remove_chain_device fs obj c l hv hw hd hch hl
  obtain ⟨⟨g1, g2, g3, g4, -, -⟩, -⟩ := remove_chain_whole fs fs' obj obj c l hv hw hch hl h
  refine ⟨fs', h, fun o d => ?_, fun hf => ?_⟩
  · rw [get_fat_device fs' o d (g1.volOk' hv) g2 (g1.deviceOk' hd),
      get_fat_device fs o d hv hw hd, g3 d]
  · have hcnt := chainFrom_count fs hv c l hch
    have hnle : fs.n_fatent ≤ 0x0FFFFFF7 := by
      rcases hv.2.2.2 with ⟨_, hh, _⟩ | ⟨_, hh, _⟩ | ⟨_, hh, _⟩ <;> omega
    rw [g4, countUp_iterate fs.n_fatent hnle l.length fs.free_clust (by omega)]

/-- C4 (witness): removal of the chain 2 -> 3 -> 5 of `exFat12File`. -/
theorem C4_remove_chain_frees_witness :
    VolOk exFat12File ∧ WinInv exFat12File ∧ DeviceOk exFat12File.drv ∧
    chainFrom exFat12File 2 [2, 3, 5] ∧
    ∃ fs', remove_chain exFat12File {} 2 0 = some (FR_OK, fs', {}) ∧
      (∀ o d, (get_fat fs' o d).1 = if d ∈ [2, 3, 5] then 0 else (get_fat exFat12File o d).1) ∧
      fs'.free_clust = 395 + 3 :=
  ⟨exFat12File_volOk, exFat12File_winInv, exFat12File_deviceOk, exFat12File_chain,
    (C4_remove_chain_frees exFat12File {} 2 [2, 3, 5] exFat12File_volOk exFat12File_winInv
      exFat12File_deviceOk exFat12File_chain (by simp)).elim
      fun fs' h => ⟨fs', h.1, h.2.1, h.2.2 exFat12File_freeCount⟩⟩

/-- C5 (evaluation of the code at the failing input). On the FAT12 volume
`exTree` the root directory holds the sub-directory `SUB` (start cluster 3)
and the file `G`; the table of `SUB` (cluster 3, sector 8) holds the file `F`.
`follow_path` resolves the segment `SUB` to an entry with the directory
attribute and start cluster 3, and a `dir_find` whose object starts at cluster
3 finds `F` in sector 8. Yet `follow_path` of `SUB/F` returns `FR_NO_FILE` and
`follow_path` of `SUB/G` returns `FR_OK` on the entry of `G` in the root
directory (sector 5, static table): the start cluster went to the member
`dp->sclust` (3), while `dir_sdi` reads `dp->obj.sclust` (still 0), so the
lookup of the second segment searched the table that contains `SUB`. -/
theorem C5_second_segment_searches_parent :
    (follow_path asciiPage exTree exDj [0x53, 0x55, 0x42]).map
        (fun r => (r.1, r.2.2.obj.attr &&& AM_DIR, ld_clust r.2.1 r.2.1.win (r.2.2.dir.getD 0)))
      = some (FR_OK, AM_DIR, 3) ∧
    (dir_find asciiPage exTree { exDj with obj := { sclust := 3 }, fn := sfnEntry [0x46] 0 0 }).map
        (fun r => (r.1, r.2.2.clust, r.2.2.sect, r.2.2.dptr))
      = some (FR_OK, 3, 8, 64) ∧
    (follow_path asciiPage exTree exDj [0x53, 0x55, 0x42, 0x2F, 0x46]).map
        (fun r => (r.1, r.2.2.clust, r.2.2.sect, r.2.2.obj.sclust, r.2.2.sclust))
      = some (FR_NO_FILE, 0, 5, 0, 3) ∧
    (follow_path asciiPage exTree exDj [0x53, 0x55, 0x42, 0x2F, 0x47]).map
        (fun r => (r.1, r.2.2.clust, r.2.2.sect, r.2.2.dptr, r.2.2.obj.sclust, r.2.2.sclust))
      = some (FR_OK, 0, 5, 32, 0, 3) := by
  decide

/-- C11 (evaluation of the code at the failing input). On the volume `exTree`
(root: directory `SUB`, file `G`; table of `SUB`: file `F`) `follow_path`
returns `FR_NO_FILE` for `X`, `FR_NO_PATH` for `X/Y` and for `G/Y` (`G` is
not a directory), `FR_INVALID_NAME` for `a*b`, and `FR_OK` with `NS_NONAME`
and the cursor at offset 0 of the root for the empty path and for `/`. But
for `SUB/G`, whose final segment alone is not found in its directory `SUB`,
it returns `FR_OK` (on the entry `G` of the root directory) instead of
`FR_NO_FILE`, and for `SUB/F`, which names the file of `SUB`, it returns
`FR_NO_FILE`: the second segment is looked up in the root directory. -/
theorem C11_status_of_nested_path :
    (follow_path asciiPage exTree exDj [0x58]).map (fun r => r.1) = some FR_NO_FILE ∧
    (follow_path asciiPage exTree exDj [0x58, 0x2F, 0x59]).map (fun r => r.1) = some FR_NO_PATH ∧
    (follow_path asciiPage exTree exDj [0x47, 0x2F, 0x59]).map (fun r => r.1) = some FR_NO_PATH ∧
    (follow_path asciiPage exTree exDj [0x61, 0x2A, 0x62]).map (fun r => r.1)
      = some FR_INVALID_NAME ∧
    (follow_path asciiPage exTree exDj []).map
        (fun r => (r.1, ldb r.2.2.fn NS, r.2.2.dptr, r.2.2.sect)) = some (FR_OK, NS_NONAME, 0, 5) ∧
    (follow_path asciiPage exTree exDj [0x2F]).map
        (fun r => (r.1, ldb r.2.2.fn NS, r.2.2.dptr, r.2.2.sect)) = some (FR_OK, NS_NONAME, 0, 5) ∧
    (dir_find asciiPage exTree { exDj with obj := { sclust := 3 }, fn := sfnEntry [0x47] 0 0 }).map
        (fun r => r.1) = some FR_NO_FILE ∧
    (follow_path asciiPage exTree exDj [0x53, 0x55, 0x42, 0x2F, 0x47]).map
        (fun r => (r.1, r.2.2.sect, r.2.2.dptr)) = some (FR_OK, 5, 32) ∧
    (follow_path asciiPage exTree exDj [0x53, 0x55, 0x42, 0x2F, 0x46]).map (fun r => r.1)
      = some FR_NO_FILE := by
  decide

/-- C17. Out-of-range clusters are rejected: for every volume type and every
cluster number `c` with `c < 2` or `c >= n_fatent`, `get_fat(obj, c)` returns
the internal-error value 1 and leaves the volume object, and with it the
device, as it is, and `put_fat(fs, c, v)` returns `FR_INT_ERR` and leaves the
volume object (the FAT, the window contents, the window sector tag and the
dirty flag) as it is. -/
theorem C17_out_of_range_cluster (fs : FATFS) (obj : FFOBJID) (c v : Nat)
    (hc : c < 2 ∨ c ≥ fs.n_fatent) :
    get_fat fs obj c = (1, fs) ∧ put_fat fs c v = (FR_INT_ERR, fs) := by
  unfold get_fat put_fat
  rw [if_pos hc, if_pos hc]
  exact ⟨rfl, rfl⟩

/-- C17 (witness): cluster 400 of the 400-entry volume `exFat12`. -/
theorem C17_out_of_range_cluster_witness :
    (400 < 2 ∨ 400 ≥ exFat12.n_fatent) ∧
    get_fat exFat12 {} 400 = (1, exFat12) ∧ put_fat exFat12 400 0xFFF = (FR_INT_ERR, exFat12) :=
  ⟨Or.inr (by decide), C17_out_of_range_cluster exFat12 {} 400 0xFFF (Or.inr (by decide))⟩

theorem fatRaw32_lt (fs : FATFS) (c : Nat) : fatRaw32 fs c < 4294967296 := by
  unfold fatRaw32
  have := fatByte_lt fs (4 * c)
  have := fatByte_lt fs (4 * c + 1)
  have := fatByte_lt fs (4 * c + 2)
  have := fatByte_lt fs (4 * c + 3)
  omega

theorem exFat32_volOk : VolOk exFat32 := by
  unfold VolOk; decide

theorem exFat32_winInv : WinInv exFat32 :=
  ⟨by decide, fun _ h => absurd rfl h⟩

/-- C18. FAT32 reserved bits are preserved: on a FAT32 volume, for every
cluster `c` and every value `v`, after a successful `put_fat(c, v)` the stored
little-endian 32-bit entry equals `(old_entry & 0xF0000000) | (v & 0x0FFFFFFF)`,
and `c` is a valid cluster. -/
theorem C18_fat32_reserved_bits (fs fs' : FATFS) (c v : Nat) (hv : VolOk fs) (hw : WinInv fs)
    (ht : fs.fs_type = FS_FAT32) (h : put_fat fs c v = (FR_OK, fs')) :
    (2 ≤ c ∧ c < fs.n_fatent) ∧
    fatRaw32 fs' c = (fatRaw32 fs c &&& 0xF0000000) ||| (v &&& 0x0FFFFFFF) := by
  obtain ⟨h1, h2, -, -, -, hB⟩ := put_fat32_bytes fs fs' c v hv hw ht h
  refine ⟨⟨h1, h2⟩, ?_⟩
  have hsz : (fs.n_fatent * 4 + 511) / 512 ≤ fs.fsize := by
    rcases hv.2.2.2 with ⟨t, _⟩ | ⟨t, _⟩ | ⟨_, _, hh⟩
    · rw [ht] at t; exact absurd t (by decide)
    · rw [ht] at t; exact absurd t (by decide)
    · exact hh
  have hold := fatRaw32_lt fs c
  rw [Nat.lor_comm, fat32_val v (fatRaw32 fs c) hold]
  have b0 := hB (4 * c) (by omega)
  have b1 := hB (4 * c + 1) (by omega)
  have b2 := hB (4 * c + 2) (by omega)
  have b3 := hB (4 * c + 3) (by omega)
  rw [if_neg (by omega), if_neg (by omega), if_neg (by omega), if_pos rfl] at b0
  rw [if_neg (by omega), if_neg (by omega), if_pos rfl] at b1
  rw [if_neg (by omega), if_pos rfl] at b2
  rw [if_pos rfl] at b3
  unfold fatRaw32
  rw [b0, b1, b2, b3]
  have := fatByte_lt fs (4 * c)
  have := fatByte_lt fs (4 * c + 1)
  have := fatByte_lt fs (4 * c + 2)
  have := fatByte_lt fs (4 * c + 3)
  omega

/-- C18 (witness): the entry of cluster 5 of `exFat32` holds `0xA0000000`;
after `put_fat(5, 0x1BCDEF12)` it holds `0xABCDEF12`. -/
theorem C18_fat32_reserved_bits_witness :
    VolOk exFat32 ∧ WinInv exFat32 ∧ exFat32.fs_type = FS_FAT32 ∧
    (put_fat exFat32 5 0x1BCDEF12).1 = FR_OK ∧ fatRaw32 exFat32 5 = 0xA0000000 ∧
    fatRaw32 (put_fat exFat32 5 0x1BCDEF12).2 5
      = (fatRaw32 exFat32 5 &&& 0xF0000000) ||| (0x1BCDEF12 &&& 0x0FFFFFFF) :=
  ⟨exFat32_volOk, exFat32_winInv, rfl, by decide, by decide,
    (C18_fat32_reserved_bits exFat32 (put_fat exFat32 5 0x1BCDEF12).2 5 0x1BCDEF12 exFat32_volOk
      exFat32_winInv rfl (Prod.ext (by decide) rfl)).2⟩

/-! ### The search loop of `create_chain` on a device whose transfers complete -/

theorem get_fat_keeps_device (fs0 fs : FATFS) (obj : FFOBJID) (c : Nat)
    (hv : VolOk fs0) (hk : Keeps fs0 fs) (hd : DeviceOk fs0.drv) :
    Keeps fs0 (get_fat fs obj c).2 ∧ (get_fat fs obj c).1 = fatEntry fs0 c := by
  have hv1 := hk.1.volOk hv
  obtain ⟨k1, -⟩ := get_fat_inv fs obj c hv1 hk.2.1
  refine ⟨hk.comp k1, ?_⟩
  rw [get_fat_device fs obj c hv1 hk.2.1 (hk.1.deviceOk hd), fatEntry_congr hk.1 hk.2.2 hv]

/-- The search after the wrap-around: from `ncl < scl` it visits the clusters
`ncl + 1 .. scl`. -/
theorem create_chain_search_wrapped (obj : FFOBJID) (fs0 : FATFS) (scl : Nat)
    (hv : VolOk fs0) (hd : DeviceOk fs0.drv)
    (h1 : ∀ d, 2 ≤ d → d < fs0.n_fatent → fatEntry fs0 d ≠ 1) (hs : scl < fs0.n_fatent) :
    ∀ (fuel : Nat) (fs : FATFS) (ncl : Nat), Keeps fs0 fs → 1 ≤ ncl → ncl < scl →
      scl - ncl ≤ fuel →
      ∃ fs', Keeps fs0 fs' ∧
        ((create_chain_search obj scl fuel fs ncl = some (Sum.inl 0, fs') ∧
            ∀ d, ncl < d → d ≤ scl → fatEntry fs0 d ≠ 0) ∨
         ∃ k, create_chain_search obj scl fuel fs ncl = some (Sum.inr k, fs') ∧
            fatEntry fs0 k = 0) := by
  have hn : fs0.n_fatent ≤ 0x0FFFFFF7 := by
    rcases hv.2.2.2 with ⟨_, hh, _⟩ | ⟨_, hh, _⟩ | ⟨_, hh, _⟩ <;> omega
  intro fuel
  induction fuel with
  | zero => intro fs ncl _ _ h2 h3; omega
  | succ fuel ih =>
    intro fs ncl hk hn1 hlt hfuel
    rw [create_chain_search]
    dsimp only
    have e1 : (ncl + 1) % W32 = ncl + 1 := by unfold W32; omega
    have hnw : ¬ (ncl + 1 ≥ fs.n_fatent) := by rw [hk.1.n_fatent]; omega
    rw [e1]
    have e2 : decide (ncl + 1 ≥ fs.n_fatent) = false := by simpa using hnw
    rw [e2]
    rw [if_neg (show ¬ (false = true ∧ 2 > scl) from fun h => Bool.false_ne_true h.1),
      if_neg (show ¬ (false = true) from Bool.false_ne_true)]
    obtain ⟨k1, e3⟩ := get_fat_keeps_device fs0 fs obj (ncl + 1) hv hk hd
    have hlt28 := fatEntry_lt fs0 (ncl + 1)
    have hne1 := h1 (ncl + 1) (by omega) (by omega)
    rw [e3]
    by_cases hz : fatEntry fs0 (ncl + 1) = 0
    · rw [if_pos hz]
      exact ⟨_, k1, Or.inr ⟨ncl + 1, rfl, hz⟩⟩
    · rw [if_neg hz, if_neg (by omega)]
      by_cases he : ncl + 1 = scl
      · rw [if_pos he]
        refine ⟨_, k1, Or.inl ⟨rfl, fun d d1 d2 => ?_⟩⟩
        have : d = ncl + 1 := by omega
        rw [this]; exact hz
      · rw [if_neg he]
        obtain ⟨fs', k2, hres⟩ := ih _ (ncl + 1) k1 (by omega) (by omega) (by omega)
        refine ⟨fs', k2, ?_⟩
        rcases hres with ⟨r1, r2⟩ | r
        · refine Or.inl ⟨r1, fun d d1 d2 => ?_⟩
          by_cases hd1 : d = ncl + 1
          · rw [hd1]; exact hz
          · exact r2 d (by omega) d2
        · exact Or.inr r

/-- The search before the wrap-around: from `scl <= ncl` it visits the
clusters `ncl + 1 .. n_fatent - 1` and then `2 .. scl`. -/
theorem create_chain_search_all (obj : FFOBJID) (fs0 : FATFS) (scl : Nat)
    (hv : VolOk fs0) (hd : DeviceOk fs0.drv)
    (h1 : ∀ d, 2 ≤ d → d < fs0.n_fatent → fatEntry fs0 d ≠ 1)
    (hs1 : 1 ≤ scl) (hs : scl < fs0.n_fatent) :
    ∀ (fuel : Nat) (fs : FATFS) (ncl : Nat), Keeps fs0 fs → scl ≤ ncl → ncl < fs0.n_fatent →
      fs0.n_fatent - ncl + scl ≤ fuel →
      ∃ fs', Keeps fs0 fs' ∧
        ((create_chain_search obj scl fuel fs ncl = some (Sum.inl 0, fs') ∧
            ∀ d, 2 ≤ d → d < fs0.n_fatent → (ncl < d ∨ d ≤ scl) → fatEntry fs0 d ≠ 0) ∨
         ∃ k, create_chain_search obj scl fuel fs ncl = some (Sum.inr k, fs') ∧
            fatEntry fs0 k = 0) := by
  have hn : fs0.n_fatent ≤ 0x0FFFFFF7 := by
    rcases hv.2.2.2 with ⟨_, hh, _⟩ | ⟨_, hh, _⟩ | ⟨_, hh, _⟩ <;> omega
  have hn3 := hv.2.2.1
  intro fuel
  induction fuel with
  | zero => intro fs ncl _ _ h2 h3; omega
  | succ fuel ih =>
    intro fs ncl hk hle hlt hfuel
    rw [create_chain_search]
    dsimp only
    have e1 : (ncl + 1) % W32 = ncl + 1 := by unfold W32; omega
    rw [e1, hk.1.n_fatent]
    by_cases hw : ncl + 1 ≥ fs0.n_fatent
    · have e2 : decide (ncl + 1 ≥ fs0.n_fatent) = true := by simpa using hw
      rw [e2]
      by_cases h2 : 2 > scl
      · rw [if_pos (show true = true ∧ 2 > scl from ⟨rfl, h2⟩)]
        exact ⟨fs, hk, Or.inl ⟨rfl, fun d d1 d2 d3 => by omega⟩⟩
      · rw [if_neg (show ¬ (true = true ∧ 2 > scl) from fun h => h2 h.2),
          if_pos (show true = true from rfl)]
        obtain ⟨k1, e3⟩ := get_fat_keeps_device fs0 fs obj 2 hv hk hd
        have hlt28 := fatEntry_lt fs0 2
        have hne1 := h1 2 (by omega) (by omega)
        rw [e3]
        by_cases hz : fatEntry fs0 2 = 0
        · rw [if_pos hz]
          exact ⟨_, k1, Or.inr ⟨2, rfl, hz⟩⟩
        · rw [if_neg hz, if_neg (by omega)]
          by_cases he : 2 = scl
          · rw [if_pos he]
            refine ⟨_, k1, Or.inl ⟨rfl, fun d d1 d2 d3 => ?_⟩⟩
            have : d = 2 := by omega
            rw [this]; exact hz
          · rw [if_neg he]
            obtain ⟨fs', k2, hres⟩ := create_chain_search_wrapped obj fs0 scl hv hd h1 hs
              fuel _ 2 k1 (by omega) (by omega) (by omega)
            refine ⟨fs', k2, ?_⟩
            rcases hres with ⟨r1, r2⟩ | r
            · refine Or.inl ⟨r1, fun d d1 d2 d3 => ?_⟩
              by_cases hd2 : d = 2
              · rw [hd2]; exact hz
              · exact r2 d (by omega) (by omega)
            · exact Or.inr r
    · have e2 : decide (ncl + 1 ≥ fs0.n_fatent) = false := by simpa using hw
      rw [e2]
      rw [if_neg (show ¬ (false = true ∧ 2 > scl) from fun h => Bool.false_ne_true h.1),
      if_neg (show ¬ (false = true) from Bool.false_ne_true)]
      obtain ⟨k1, e3⟩ := get_fat_keeps_device fs0 fs obj (ncl + 1) hv hk hd
      have hlt28 := fatEntry_lt fs0 (ncl + 1)
      have hne1 := h1 (ncl + 1) (by omega) (by omega)
      rw [e3]
      by_cases hz : fatEntry fs0 (ncl + 1) = 0
      · rw [if_pos hz]
        exact ⟨_, k1, Or.inr ⟨ncl + 1, rfl, hz⟩⟩
      · rw [if_neg hz, if_neg (by omega), if_neg (by omega)]
        obtain ⟨fs', k2, hres⟩ := ih _ (ncl + 1) k1 (by omega) (by omega) (by omega)
        refine ⟨fs', k2, ?_⟩
        rcases hres with ⟨r1, r2⟩ | r
        · refine Or.inl ⟨r1, fun d d1 d2 d3 => ?_⟩
          by_cases hd1 : d = ncl + 1
          · rw [hd1]; exact hz
          · exact r2 d d1 d2 (by omega)
        · exact Or.inr r

theorem create_chain_fat_search (fs : FATFS) (obj : FFOBJID) (clst scl : Nat) (hne : scl ≠ clst) :
    create_chain_fat fs obj clst scl =
      match create_chain_search obj scl (fs.n_fatent + 1) fs scl with
      | none => none
      | some (Sum.inl v, fs) => some (v, fs, obj)
      | some (Sum.inr ncl, fs) =>
        some ((create_chain_mark fs clst ncl).1, (create_chain_mark fs clst ncl).2, obj) := by
  unfold create_chain_fat create_chain_near
  rw [if_neg hne]
  rfl

theorem create_chain_new_unfold (fs : FATFS) (obj : FFOBJID) (hv : VolOk fs)
    (hf : fs.free_clust ≠ 0) :
    create_chain fs obj 0 = create_chain_fat fs obj 0
      (if fs.last_clust = 0 ∨ fs.last_clust ≥ fs.n_fatent then 1 else fs.last_clust) := by
  unfold create_chain create_chain_start
  rw [if_pos rfl]
  dsimp only
  rw [if_neg hf, if_neg hv.not_exfat]

theorem create_chain_mark_new_device (fs : FATFS) (k : Nat) (hv : VolOk fs) (hw : WinInv fs)
    (hd : DeviceOk fs.drv) (hk : 2 ≤ k ∧ k < fs.n_fatent) :
    (create_chain_mark fs 0 k).1 = k := by
  unfold create_chain_mark create_chain_finish
  have hp := put_fat_device fs k 0xFFFFFFFF hv hw hd hk
  dsimp only
  have e : (if (put_fat fs k 0xFFFFFFFF).1 = FR_OK ∧ 0 ≠ 0 then
      put_fat (put_fat fs k 0xFFFFFFFF).2 0 k else put_fat fs k 0xFFFFFFFF)
      = put_fat fs k 0xFFFFFFFF := if_neg (fun h => h.2 rfl)
  rw [e, if_pos hp]

/-- On a device whose transfers complete and a FAT without the reserved value
1, `create_chain(obj, 0)` on a volume whose free count is not 0 returns 0 when
no cluster is free, and a free cluster otherwise. -/
theorem create_chain_new_device (fs : FATFS) (obj : FFOBJID) (hv : VolOk fs) (hw : WinInv fs)
    (hd : DeviceOk fs.drv) (h1 : ∀ d, 2 ≤ d → d < fs.n_fatent → fatEntry fs d ≠ 1)
    (hf : fs.free_clust ≠ 0) :
    (∃ fs', Keeps fs fs' ∧ create_chain fs obj 0 = some (0, fs', obj) ∧
        ∀ d, 2 ≤ d → d < fs.n_fatent → fatEntry fs d ≠ 0) ∨
    (∃ k fs', create_chain fs obj 0 = some (k, fs', obj) ∧ fatEntry fs k = 0) := by
  rw [create_chain_new_unfold fs obj hv hf]
  have hn3 := hv.2.2.1
  generalize hscl : (if fs.last_clust = 0 ∨ fs.last_clust ≥ fs.n_fatent then 1
    else fs.last_clust) = scl
  have hs : 1 ≤ scl ∧ scl < fs.n_fatent := by
    rw [← hscl]; split_ifs <;> omega
  rw [create_chain_fat_search fs obj 0 scl (by omega)]
  obtain ⟨fs', k2, hres⟩ := create_chain_search_all obj fs scl hv hd h1 hs.1 hs.2
    (fs.n_fatent + 1) fs scl (Keeps.self fs hw) (le_refl _) hs.2 (by omega)
  rcases hres with ⟨r1, r2⟩ | ⟨k, r1, r2⟩
  · rw [r1]
    exact Or.inl ⟨fs', k2, rfl, fun d d1 d2 => r2 d d1 d2 (by omega)⟩
  · rw [r1]
    dsimp only
    have hkr := fatEntry_zero_range r2
    rw [create_chain_mark_new_device fs' k (k2.1.volOk hv) k2.2.1 (k2.1.deviceOk hd)
      (by rw [k2.1.n_fatent]; exact hkr)]
    exact Or.inr ⟨k, _, rfl, r2⟩

/-- On a device whose transfers complete `create_chain(obj, clst)` at the end
of a chain returns 0 when no cluster is free. -/
theorem create_chain_stretch_full (fs : FATFS) (obj : FFOBJID) (clst : Nat)
    (hv : VolOk fs) (hw : WinInv fs) (hd : DeviceOk fs.drv)
    (h1 : ∀ d, 2 ≤ d → d < fs.n_fatent → fatEntry fs d ≠ 1)
    (h0 : ∀ d, 2 ≤ d → d < fs.n_fatent → fatEntry fs d ≠ 0)
    (hc : 2 ≤ clst ∧ clst < fs.n_fatent) (he : fs.n_fatent ≤ fatEntry fs clst) :
    ∃ fs', Keeps fs fs' ∧ create_chain fs obj clst = some (0, fs', obj) := by
  have hn3 := hv.2.2.1
  have hn : fs.n_fatent ≤ 0x0FFFFFF7 := by
    rcases hv.2.2.2 with ⟨_, hh, _⟩ | ⟨_, hh, _⟩ | ⟨_, hh, _⟩ <;> omega
  obtain ⟨k1, e1⟩ := get_fat_keeps_device fs fs obj clst hv (Keeps.self fs hw) hd
  have hlt := fatEntry_lt fs clst
  unfold create_chain create_chain_start
  rw [if_neg (by omega)]
  dsimp only
  rw [e1, if_neg (by omega), if_neg (by omega), k1.1.n_fatent, if_neg (by omega)]
  dsimp only
  by_cases hf : (get_fat fs obj clst).2.free_clust = 0
  · rw [if_pos hf]
    exact ⟨_, k1, rfl⟩
  rw [if_neg hf, if_neg (k1.1.volOk hv).not_exfat]
  generalize get_fat fs obj clst = g at k1 hf
  unfold create_chain_fat create_chain_near
  rw [if_pos rfl]
  dsimp only
  rw [k1.1.n_fatent]
  generalize hm : (if (clst + 1) % W32 ≥ fs.n_fatent then 2 else (clst + 1) % W32) = m
  have hmr : 2 ≤ m ∧ m < fs.n_fatent := by
    rw [← hm]
    have : (clst + 1) % W32 = clst + 1 := by unfold W32; omega
    rw [this]
    split_ifs <;> omega
  obtain ⟨k2, e2⟩ := get_fat_keeps_device fs g.2 obj m hv k1 hd
  have hlt2 := fatEntry_lt fs m
  have a1 := h1 m hmr.1 hmr.2
  have a0 := h0 m hmr.1 hmr.2
  rw [e2, if_neg (by omega), if_pos a0]
  dsimp only
  rw [if_pos rfl]
  generalize get_fat g.2 obj m = g2 at k2
  rw [k2.1.n_fatent, k2.1.last_clust]
  generalize hscl : (if fs.last_clust ≥ 2 ∧ fs.last_clust < fs.n_fatent then fs.last_clust
    else clst) = scl
  have hs : 2 ≤ scl ∧ scl < fs.n_fatent := by
    rw [← hscl]; split_ifs <;> omega
  obtain ⟨fs', k3, hres⟩ := create_chain_search_all obj fs scl hv hd h1 (by omega) hs.2
    (fs.n_fatent + 1) g2.2 scl k2 (le_refl _) hs.2 (by omega)
  rcases hres with ⟨r1, -⟩ | ⟨k, -, r2⟩
  · rw [r1]
    exact ⟨fs', k3, rfl⟩
  · have hkr := fatEntry_zero_range r2
    exact absurd r2 (h0 k hkr.1 hkr.2)

theorem create_name_scan_ctrl (c : Nat) (t : List Nat) (hc : c < 0x20) :
    ∀ (s : List Nat) (di : Nat) (lfn : Nat → Nat),
      (∀ x ∈ s, 0x20 ≤ x ∧ x ≠ 0x2F ∧ x ≠ 0x5C) →
      (∃ r l, create_name_scan s di lfn = (Sum.inl r, l) ∧
        create_name_scan (s ++ c :: t) di lfn = (Sum.inl r, l)) ∨
      (∃ d l, create_name_scan s di lfn = (Sum.inr (0, d, []), l) ∧
        create_name_scan (s ++ c :: t) di lfn = (Sum.inr (c, d, t), l)) := by
  intro s
  induction s with
  | nil =>
    intro di lfn _
    refine Or.inr ⟨di, lfn, rfl, ?_⟩
    rw [List.nil_append, create_name_scan]
    rw [if_neg (show ¬ c > 0xFFFF by omega), if_pos (Or.inl hc)]
  | cons x s ih =>
    intro di lfn hs
    have hx := hs x (List.mem_cons_self _ _)
    have hx2 : ¬ (x < 0x20 ∨ x = 0x2F ∨ x = 0x5C) := by omega
    rw [List.cons_append, create_name_scan, create_name_scan]
    by_cases h1 : x > 0xFFFF
    · rw [if_pos h1, if_pos h1]
      exact Or.inl ⟨_, _, rfl, rfl⟩
    rw [if_neg h1, if_neg h1, if_neg hx2, if_neg hx2]
    by_cases h2 : di ≥ MAX_LFN
    · rw [if_pos h2, if_pos h2]
      exact Or.inl ⟨_, _, rfl, rfl⟩
    rw [if_neg h2, if_neg h2]
    by_cases h3 : x < 0x80 ∧ lfn_illegal x = true
    · rw [if_pos h3, if_pos h3]
      exact Or.inl ⟨_, _, rfl, rfl⟩
    rw [if_neg h3, if_neg h3]
    exact ih _ _ (fun y hy => hs y (List.mem_cons_of_mem _ hy))

theorem dropWhile_sep_of_seg (s t : List Nat)
    (hs : ∀ x ∈ s, 0x20 ≤ x ∧ x ≠ 0x2F ∧ x ≠ 0x5C) (ht : ∀ x ∈ t.head?, x ≠ 0x2F ∧ x ≠ 0x5C) :
    (s ++ t).dropWhile (fun c => decide (c = 0x2F ∨ c = 0x5C)) = s ++ t := by
  cases s with
  | nil =>
    cases t with
    | nil => rfl
    | cons y t =>
      have := ht y (by simp)
      rw [List.nil_append, List.dropWhile_cons_of_neg]
      simp [this.1, this.2]
  | cons x s =>
    have := hs x (List.mem_cons_self _ _)
    rw [List.cons_append, List.dropWhile_cons_of_neg]
    simp [this.2.1, this.2.2]

/-- C12 (counterexample). The segment `a`, `0x01`, `b` contains a control
character before the end of the string, and `create_name` returns `FR_OK`:
the character ends the segment, the long name is `a` and the SFN is `A` with
the last-segment flag `NS_LAST`. -/
theorem C12_counterexample :
    (create_name asciiPage exFat12 exDj [0x61, 0x01, 0x62]).map
        (fun r => (r.1, (List.range 3).map r.2.1.LfnBuf, (List.range 12).map (ldb r.2.2.1.fn),
          r.2.2.2))
      = some (FR_OK, [0x61, 0, 0],
          [0x41, 0x20, 0x20, 0x20, 0x20, 0x20, 0x20, 0x20, 0x20, 0x20, 0x20, NS_LAST ||| NS_BODY],
          [0x62]) := by
  decide

/-- C12 (amended). A character with code `0x01..0x1F` (as the terminator 0)
ends the segment and the path: for every run `s` of characters from `0x20` up
without separators, `create_name` returns for `s` followed by such a character
and anything else the same status, the same name buffer and the same SFN and
flags (with the last-segment flag) as for `s` at the end of the string; it is
`FR_INVALID_NAME` only for the reasons that reject `s` itself (among them an
empty `s`). -/
theorem C12_control_char_ends_path (cp : CodePage) (fs : FATFS) (dp : DIR_)
    (s t : List Nat) (c : Nat) (hc : c < 0x20)
    (hs : ∀ x ∈ s, 0x20 ≤ x ∧ x ≠ 0x2F ∧ x ≠ 0x5C) :
    (create_name cp fs dp (s ++ c :: t)).map (fun r => (r.1, r.2.1, r.2.2.1)) =
    (create_name cp fs dp s).map (fun r => (r.1, r.2.1, r.2.2.1)) := by
  unfold create_name
  have e1 := dropWhile_sep_of_seg s (c :: t) hs (by
    intro x hx
    simp only [List.head?_cons, Option.mem_def, Option.some.injEq] at hx
    omega)
  have e2 := dropWhile_sep_of_seg s [] hs (by intro x hx; simp at hx)
  rw [List.append_nil] at e2
  rw [e1, e2]
  cases lfn_load fs dp.lfn with
  | none => rfl
  | some lfn =>
    dsimp only
    rcases create_name_scan_ctrl c t hc s 0 lfn hs with ⟨r, l, e1, e2⟩ | ⟨d, l, e1, e2⟩
    · rw [e1, e2]
      rfl
    · rw [e1, e2]
      dsimp only
      simp only [if_pos hc, if_pos (show (0 : Nat) < 0x20 by decide)]
      split_ifs
      · rfl
      · split
        · rfl
        · split <;> rfl

/-- C12 (witness): the segment `ab` followed by the character `0x1F` and by
`c`. -/
theorem C12_control_char_ends_path_witness :
    (0x1F < 0x20) ∧ (∀ x ∈ [0x61, 0x62], 0x20 ≤ x ∧ x ≠ 0x2F ∧ x ≠ 0x5C) ∧
    (create_name asciiPage exFat12 exDj ([0x61, 0x62] ++ 0x1F :: [0x63])).map
        (fun r => (r.1, r.2.1, r.2.2.1)) =
    (create_name asciiPage exFat12 exDj [0x61, 0x62]).map (fun r => (r.1, r.2.1, r.2.2.1)) :=
  ⟨by decide, by decide,
   C12_control_char_ends_path asciiPage exFat12 exDj [0x61, 0x62] [0x63] 0x1F (by decide)
     (by decide)⟩

/-- C16 (counterexample). For the long name `Hello, World.txt`, `create_name`
followed by the first `gen_numname` call of `dir_register` (sequence number 1)
does not give the 11-byte SFN `HELLO~1 TXT`. -/
theorem C16_counterexample :
    (create_name asciiPage exFat12 exDjStatic
        [0x48, 0x65, 0x6C, 0x6C, 0x6F, 0x2C, 0x20, 0x57, 0x6F, 0x72, 0x6C, 0x64, 0x2E, 0x74, 0x78,
         0x74]).bind
      (fun c => (gen_numname (stb c.2.2.1.fn NS NS_NOLFN) c.2.2.1.fn c.2.1.lfnbuf 1).map
        (fun fn => (List.range 11).map (ldb fn)))
      ≠ some [0x48, 0x45, 0x4C, 0x4C, 0x4F, 0x7E, 0x31, 0x20, 0x54, 0x58, 0x54] := by
  decide

/-- C16 (amended). For the long name `Hello, World.txt`, `create_name` returns
`FR_OK` with the SFN `HELLO_WOTXT` (the comma is replaced by `_`, the space is
dropped, the body is cut after 8 characters) and the lossy flag, and the first
`gen_numname` call of `dir_register` (sequence number 1) makes of it the
11-byte SFN `HELLO_~1TXT`, the short name `HELLO_~1.TXT`. -/
theorem C16_numeric_tail :
    (create_name asciiPage exFat12 exDjStatic
        [0x48, 0x65, 0x6C, 0x6C, 0x6F, 0x2C, 0x20, 0x57, 0x6F, 0x72, 0x6C, 0x64, 0x2E, 0x74, 0x78,
         0x74]).bind
      (fun c => (gen_numname (stb c.2.2.1.fn NS NS_NOLFN) c.2.2.1.fn c.2.1.lfnbuf 1).map
        (fun fn => (c.1, (List.range 11).map (ldb c.2.2.1.fn), ldb c.2.2.1.fn NS &&& NS_LOSS,
          (List.range 11).map (ldb fn))))
      = some (FR_OK, [0x48, 0x45, 0x4C, 0x4C, 0x4F, 0x5F, 0x57, 0x4F, 0x54, 0x58, 0x54], NS_LOSS,
          [0x48, 0x45, 0x4C, 0x4C, 0x4F, 0x5F, 0x7E, 0x31, 0x54, 0x58, 0x54]) := by
  decide

theorem exFull_volOk : VolOk exFull := by
  unfold VolOk; decide

theorem exFull_winInv : WinInv exFull :=
  ⟨by decide, fun _ h => absurd rfl h⟩

theorem exFull_deviceOk : DeviceOk exFull.drv :=
  ⟨fun _ => rfl, fun _ => rfl⟩

theorem exFull_entries (d : Nat) (h2 : 2 ≤ d) (h6 : d < exFull.n_fatent) :
    fatEntry exFull d = 0xFFF := by
  have h6' : d < 6 := h6
  interval_cases d <;> decide

/-- C19 (counterexample). On the volume `exFullNoRead` no cluster has FAT entry
0 (every entry of `exFull`, which has the same sectors, is `0xFFF`), and
`create_chain(obj, 0)` does not return 0: the FAT sector cannot be read and the
result is `0xFFFFFFFF`; so is the result of `create_chain(obj, 2)`. -/
theorem C19_counterexample :
    (∀ d, 2 ≤ d → d < exFullNoRead.n_fatent → fatEntry exFullNoRead d = 0xFFF) ∧
    (create_chain exFullNoRead {} 0).map (fun r => r.1) = some 0xFFFFFFFF ∧
    (create_chain exFullNoRead {} 2).map (fun r => r.1) = some 0xFFFFFFFF :=
  ⟨fun d h2 h6 => exFull_entries d h2 h6, by decide, by decide⟩

/-- C19 (amended). On a FAT12/16/32 volume whose device completes every
transfer, in which no cluster in `[2, n_fatent)` has FAT entry 0 and none the
reserved value 1, `create_chain(obj, 0)`, and `create_chain(obj, clst)` for a
cluster `clst` whose entry is end-of-chain, terminate and return 0, leaving
every FAT entry, `free_clust`, `last_clust`, the FSInfo-dirty flag and the
object unchanged. -/
theorem C19_out_of_space_returns_zero (fs : FATFS) (obj : FFOBJID) (clst : Nat)
    (hv : VolOk fs) (hw : WinInv fs) (hd : DeviceOk fs.drv)
    (h1 : ∀ d, 2 ≤ d → d < fs.n_fatent → fatEntry fs d ≠ 1)
    (h0 : ∀ d, 2 ≤ d → d < fs.n_fatent → fatEntry fs d ≠ 0)
    (hc : clst = 0 ∨ (2 ≤ clst ∧ clst < fs.n_fatent ∧ fs.n_fatent ≤ fatEntry fs clst)) :
    ∃ fs', create_chain fs obj clst = some (0, fs', obj) ∧
      (∀ d, fatEntry fs' d = fatEntry fs d) ∧ fs'.free_clust = fs.free_clust ∧
      fs'.last_clust = fs.last_clust ∧ fs'.fsi_flag = fs.fsi_flag := by
  have key : ∃ fs', Keeps fs fs' ∧ create_chain fs obj clst = some (0, fs', obj) := by
    rcases hc with rfl | ⟨c2, cn, ce⟩
    · by_cases hf : fs.free_clust = 0
      · refine ⟨fs, Keeps.self fs hw, ?_⟩
        unfold create_chain create_chain_start
        rw [if_pos rfl]
        dsimp only
        rw [if_pos hf]
      · rcases create_chain_new_device fs obj hv hw hd h1 hf with ⟨fs', k, e, -⟩ | ⟨k, fs', -, e⟩
        · exact ⟨fs', k, e⟩
        · have hr := fatEntry_zero_range e
          exact absurd e (h0 k hr.1 hr.2)
    · exact create_chain_stretch_full fs obj clst hv hw hd h1 h0 ⟨c2, cn⟩ ce
  obtain ⟨fs', k, e⟩ := key
  exact ⟨fs', e, fatEntry_congr k.1 k.2.2 hv, k.1.free_clust, k.1.last_clust, k.1.fsi_flag⟩

/-- C19 (witness): the full volume `exFull`, stretching the chain that ends at
cluster 3. -/
theorem C19_out_of_space_returns_zero_witness :
    VolOk exFull ∧ WinInv exFull ∧ DeviceOk exFull.drv ∧
    (∀ d, 2 ≤ d → d < exFull.n_fatent → fatEntry exFull d ≠ 1) ∧
    (∀ d, 2 ≤ d → d < exFull.n_fatent → fatEntry exFull d ≠ 0) ∧
    (2 ≤ 3 ∧ 3 < exFull.n_fatent ∧ exFull.n_fatent ≤ fatEntry exFull 3) ∧
    ∃ fs', create_chain exFull {} 3 = some (0, fs', {}) ∧
      (∀ d, fatEntry fs' d = fatEntry exFull d) ∧ fs'.free_clust = exFull.free_clust ∧
      fs'.last_clust = exFull.last_clust ∧ fs'.fsi_flag = exFull.fsi_flag :=
  ⟨exFull_volOk, exFull_winInv, exFull_deviceOk,
   fun d h2 h6 => by rw [exFull_entries d h2 h6]; decide,
   fun d h2 h6 => by rw [exFull_entries d h2 h6]; decide,
   by decide,
   C19_out_of_space_returns_zero exFull {} 3 exFull_volOk exFull_winInv exFull_deviceOk
     (fun d h2 h6 => by rw [exFull_entries d h2 h6]; decide)
     (fun d h2 h6 => by rw [exFull_entries d h2 h6]; decide)
     (Or.inr (by decide))⟩

theorem exFat12_fatByte (k : Nat) : fatByte exFat12 k = 0 := by
  unfold fatByte secView ldb
  split_ifs <;> rfl

theorem exFat12_entry (d : Nat) (h2 : 2 ≤ d) (hn : d < exFat12.n_fatent) :
    fatEntry exFat12 d = 0 := by
  unfold fatEntry
  have hn' : d < 400 := hn
  rw [if_neg (show ¬ (d < 2 ∨ d ≥ exFat12.n_fatent) from fun h => by
    rcases h with h | h
    · omega
    · exact absurd hn' (Nat.not_lt.2 h))]
  rw [if_pos (show exFat12.fs_type = FS_FAT12 from rfl)]
  simp only [exFat12_fatByte]
  split_ifs <;> rfl

/-- C20 (counterexample). On the volume `exFat12Hint0` every cluster is free
(the FAT entry of cluster 2 is 0) and the device works, but the free count hint
is 0 and `create_chain(obj, 0)` returns the out-of-space value 0 without a
look at the FAT: the volume is returned as it was. -/
theorem C20_counterexample :
    fatEntry exFat12Hint0 2 = 0 ∧ DeviceOk exFat12Hint0.drv ∧
    (create_chain exFat12Hint0 {} 0).map (fun r => r.1) = some 0 ∧
    (create_chain exFat12Hint0 {} 0).map (fun r => r.2.1.winsect) = some 0xFFFFFFFF :=
  ⟨by decide, ⟨fun _ => rfl, fun _ => rfl⟩, by decide, by decide⟩

/-- C20 (amended). On a FAT12/16/32 volume where at least one cluster in
`[2, n_fatent)` has FAT entry 0 and none the reserved value 1, with a device
whose transfers complete, `create_chain(obj, 0)` returns a cluster that was
free (so a cluster in `[2, n_fatent)`, not the out-of-space value 0) whatever
value other than 0 the `free_clust` hint holds; a hint of 0 makes it return 0. -/
theorem C20_free_count_hint (fs : FATFS) (obj : FFOBJID)
    (hv : VolOk fs) (hw : WinInv fs) (hd : DeviceOk fs.drv)
    (h1 : ∀ d, 2 ≤ d → d < fs.n_fatent → fatEntry fs d ≠ 1)
    (h0 : ∃ d, 2 ≤ d ∧ d < fs.n_fatent ∧ fatEntry fs d = 0) :
    (fs.free_clust ≠ 0 → ∃ k fs', create_chain fs obj 0 = some (k, fs', obj) ∧
      fatEntry fs k = 0 ∧ 2 ≤ k ∧ k < fs.n_fatent) ∧
    (fs.free_clust = 0 → create_chain fs obj 0 = some (0, fs, obj)) := by
  constructor
  · intro hf
    rcases create_chain_new_device fs obj hv hw hd h1 hf with ⟨fs', -, -, e⟩ | ⟨k, fs', e1, e2⟩
    · obtain ⟨d, d2, dn, d0⟩ := h0
      exact absurd d0 (e d d2 dn)
    · exact ⟨k, fs', e1, e2, fatEntry_zero_range e2⟩
  · intro hf
    unfold create_chain create_chain_start
    rw [if_pos rfl]
    dsimp only
    rw [if_pos hf]

/-- C20 (witness): the volume `exFat12`, whose clusters are all free and whose
hint is 398. -/
theorem C20_free_count_hint_witness :
    VolOk exFat12 ∧ WinInv exFat12 ∧ DeviceOk exFat12.drv ∧
    (∀ d, 2 ≤ d → d < exFat12.n_fatent → fatEntry exFat12 d ≠ 1) ∧
    (∃ d, 2 ≤ d ∧ d < exFat12.n_fatent ∧ fatEntry exFat12 d = 0) ∧
    exFat12.free_clust ≠ 0 ∧
    ∃ k fs', create_chain exFat12 {} 0 = some (k, fs', {}) ∧
      fatEntry exFat12 k = 0 ∧ 2 ≤ k ∧ k < exFat12.n_fatent :=
  ⟨exFat12_volOk, exFat12_winInv, exFat12_deviceOk,
   fun d h2 hn => by rw [exFat12_entry d h2 hn]; decide,
   ⟨2, by decide, by decide, by decide⟩, by decide,
   (C20_free_count_hint exFat12 {} exFat12_volOk exFat12_winInv exFat12_deviceOk
     (fun d h2 hn => by rw [exFat12_entry d h2 hn]; decide)
     ⟨2, by decide, by decide, by decide⟩).1 (by decide)⟩

theorem chk_share_scan_none (fsp sc dptr : Nat) : ∀ (l : List FILESEM) (i be : Nat),
    l.find? (fun e => decide (e.fs ≠ 0 ∧ e.fs = fsp ∧ e.clu = sc ∧ e.idx = dptr)) = none →
    chk_share_scan fsp sc dptr l i be =
      (i + l.length, if (l.all fun e => decide (e.fs ≠ 0)) = true then be else 1) := by
  intro l
  induction l with
  | nil => intro i be _; simp [chk_share_scan]
  | cons a l ih =>
    intro i be hf
    rw [List.find?_cons] at hf
    by_cases hp : decide (a.fs ≠ 0 ∧ a.fs = fsp ∧ a.clu = sc ∧ a.idx = dptr) = true
    · rw [hp] at hf
      exact absurd hf (by simp)
    · rw [Bool.not_eq_true] at hp
      rw [hp] at hf
      have hp' : ¬ (a.fs ≠ 0 ∧ a.fs = fsp ∧ a.clu = sc ∧ a.idx = dptr) := of_decide_eq_false hp
      have e1 : i + 1 + l.length = i + (a :: l).length := by
        rw [List.length_cons]; omega
      rw [chk_share_scan]
      by_cases h0 : a.fs ≠ 0
      · rw [if_pos h0, if_neg (fun h => hp' ⟨h0, h⟩), ih (i + 1) be hf, e1]
        simp only [List.all_cons, decide_eq_true h0, Bool.true_and]
      · rw [if_neg h0, ih (i + 1) 1 hf, e1]
        simp only [List.all_cons, decide_eq_false h0, Bool.false_and]
        simp

theorem chk_share_scan_some (fsp sc dptr : Nat) : ∀ (l : List FILESEM) (i be : Nat) (e : FILESEM),
    l.find? (fun e => decide (e.fs ≠ 0 ∧ e.fs = fsp ∧ e.clu = sc ∧ e.idx = dptr)) = some e →
    ∃ k, k < l.length ∧ l.getD k {} = e ∧ (chk_share_scan fsp sc dptr l i be).1 = i + k := by
  intro l
  induction l with
  | nil => intro i be e hf; simp at hf
  | cons a l ih =>
    intro i be e hf
    rw [List.find?_cons] at hf
    by_cases hp : decide (a.fs ≠ 0 ∧ a.fs = fsp ∧ a.clu = sc ∧ a.idx = dptr) = true
    · rw [hp] at hf
      have hp' := of_decide_eq_true hp
      refine ⟨0, Nat.succ_pos _, ?_, ?_⟩
      · simpa using hf
      · rw [chk_share_scan, if_pos hp'.1, if_pos hp'.2]
        rfl
    · rw [Bool.not_eq_true] at hp
      rw [hp] at hf
      have hp' : ¬ (a.fs ≠ 0 ∧ a.fs = fsp ∧ a.clu = sc ∧ a.idx = dptr) := of_decide_eq_false hp
      rw [chk_share_scan]
      by_cases h0 : a.fs ≠ 0
      · rw [if_pos h0, if_neg (fun h => hp' ⟨h0, h⟩)]
        obtain ⟨k, k1, k2, k3⟩ := ih (i + 1) be e hf
        exact ⟨k + 1, Nat.succ_lt_succ k1, k2, by rw [k3]; omega⟩
      · rw [if_neg h0]
        obtain ⟨k, k1, k2, k3⟩ := ih (i + 1) 1 e hf
        exact ⟨k + 1, Nat.succ_lt_succ k1, k2, by rw [k3]; omega⟩

/-- The status of `chk_share` is the one of the table `chk_share_table`. -/
theorem chk_share_eq_table (fs : FATFS) (dp : DIR_) (acc : Nat) :
    chk_share fs dp acc = chk_share_table fs dp acc := by
  unfold chk_share chk_share_table share_entry
  cases hf : fs.Files.find? (fun e =>
      decide (e.fs ≠ 0 ∧ e.fs = fs.addr ∧ e.clu = dp.obj.sclust ∧ e.idx = dp.dptr)) with
  | none =>
    rw [chk_share_scan_none fs.addr dp.obj.sclust dp.dptr fs.Files 0 0 hf]
    dsimp only
    rw [if_pos (Nat.zero_add _)]
    by_cases ha : (fs.Files.all fun e => decide (e.fs ≠ 0)) = true
    · rw [if_pos ha]
      simp only [ha, true_and]
    · rw [if_neg ha]
      simp only [ha, false_and]
      simp
  | some e =>
    obtain ⟨k, k1, k2, k3⟩ := chk_share_scan_some fs.addr dp.obj.sclust dp.dptr fs.Files 0 0 e hf
    dsimp only
    rw [k3, Nat.zero_add, if_neg (Nat.ne_of_lt k1), k2]

/-- C22. For every table state, key and access mode, `chk_share` (a function
of the table that returns only a status) decides as the table of the
specification, `chk_share_table`: without an entry of the key it returns
`FR_TOO_MANY_OPEN_FILES` when every slot is occupied and the mode is read or
write, and `FR_OK` otherwise (delete mode on a full table included); with an
entry it returns `FR_LOCKED` when the mode is write or delete or the counter
of the entry is `0x100`, and `FR_OK` for the read mode on a read count. -/
theorem C22_chk_share_decision_table (fs : FATFS) (dp : DIR_) (acc : Nat) :
    chk_share fs dp acc = chk_share_table fs dp acc :=
  chk_share_eq_table fs dp acc

theorem dec_share_index (i : Nat) (h1 : 1 ≤ i) (hi : i < W32) : (i + W32 - 1) % W32 = i - 1 := by
  unfold W32 at *; omega

/-- With a blank slot at index `j` and no other slot on the key of `dp`,
`chk_share` returns `FR_OK`. -/
theorem chk_share_after_release (fs : FATFS) (dp : DIR_) (acc j : Nat) (l : List FILESEM)
    (e : FILESEM) (hj : j < l.length) (he : e.fs = 0)
    (hu : ∀ k, k < l.length → k ≠ j →
      ¬ ((l.getD k {}).fs ≠ 0 ∧ (l.getD k {}).fs = fs.addr ∧
          (l.getD k {}).clu = dp.obj.sclust ∧ (l.getD k {}).idx = dp.dptr)) :
    chk_share { fs with Files := l.set j e } dp acc = FR_OK := by
  rw [chk_share_eq_table]
  unfold chk_share_table share_entry
  dsimp only
  have hnone : (l.set j e).find? (fun x =>
      decide (x.fs ≠ 0 ∧ x.fs = fs.addr ∧ x.clu = dp.obj.sclust ∧ x.idx = dp.dptr)) = none := by
    rw [List.find?_eq_none]
    intro x hx
    rw [List.mem_iff_getElem] at hx
    obtain ⟨k, hk, rfl⟩ := hx
    rw [List.length_set] at hk
    rw [List.getElem_set]
    by_cases hkj : j = k
    · rw [if_pos hkj]
      simp [he]
    · rw [if_neg hkj]
      have := hu k hk (fun h => hkj h.symm)
      rw [List.getD_eq_getElem _ _ hk] at this
      simpa using this
  rw [hnone]
  dsimp only
  have hall : ¬ ((l.set j e).all fun x => decide (x.fs ≠ 0)) = true := by
    rw [List.all_eq_true]
    intro h
    have := h e (List.mem_iff_getElem.2 ⟨j, by rw [List.length_set]; exact hj, by
      rw [List.getElem_set]; simp⟩)
    simp [he] at this
  rw [if_neg (fun h => hall h.1)]

/-- C23. For every index `i` in `1..FATFS_MAX_OPEN_FILES` (the length of the
table), `dec_share(fs, i)` returns `FR_OK` and changes only slot `i - 1`: a
counter of `0x100` or 1 becomes 0 and the slot is freed, so that a following
`chk_share` returns `FR_OK`, in every access mode, for the key of the released
slot and for every other key that no other slot of the table holds (the table
registers a key in one slot); a counter `n` in `2..0xFF` becomes `n - 1` with
the slot still owned. For every other index `dec_share` returns `FR_INT_ERR`
and leaves the table unchanged. -/
theorem C23_dec_share_release (fs : FATFS) (i : Nat) (hi : i < W32)
    (hl : fs.Files.length < W32) :
    (1 ≤ i ∧ i ≤ fs.Files.length →
      ∃ e, dec_share fs i = (FR_OK, { fs with Files := fs.Files.set (i - 1) e }) ∧
        ((fs.Files.getD (i - 1) {}).ctr = 0x100 ∨ (fs.Files.getD (i - 1) {}).ctr = 1 →
          e = { fs.Files.getD (i - 1) {} with ctr := 0, fs := 0 } ∧
          ∀ (dp : DIR_) (acc : Nat),
            (∀ k, k < fs.Files.length → k ≠ i - 1 →
              ¬ ((fs.Files.getD k {}).fs ≠ 0 ∧ (fs.Files.getD k {}).fs = fs.addr ∧
                  (fs.Files.getD k {}).clu = dp.obj.sclust ∧
                  (fs.Files.getD k {}).idx = dp.dptr)) →
            chk_share (dec_share fs i).2 dp acc = FR_OK) ∧
        (2 ≤ (fs.Files.getD (i - 1) {}).ctr ∧ (fs.Files.getD (i - 1) {}).ctr ≤ 0xFF →
          e = { fs.Files.getD (i - 1) {} with ctr := (fs.Files.getD (i - 1) {}).ctr - 1 })) ∧
    (¬ (1 ≤ i ∧ i ≤ fs.Files.length) → dec_share fs i = (FR_INT_ERR, fs)) := by
  constructor
  · rintro ⟨h1, h2⟩
    have hlt : i - 1 < fs.Files.length := by omega
    unfold dec_share
    dsimp only
    rw [dec_share_index i h1 hi, if_pos hlt]
    refine ⟨_, rfl, ?_, ?_⟩
    · intro hc
      have e1 : (if (if (fs.Files.getD (i - 1) {}).ctr = 0x100 then 0
            else (fs.Files.getD (i - 1) {}).ctr) > 0
          then (if (fs.Files.getD (i - 1) {}).ctr = 0x100 then 0
            else (fs.Files.getD (i - 1) {}).ctr) - 1
          else (if (fs.Files.getD (i - 1) {}).ctr = 0x100 then 0
            else (fs.Files.getD (i - 1) {}).ctr)) = 0 := by
        rcases hc with hc | hc <;> rw [hc] <;> rfl
      rw [e1, if_pos rfl]
      refine ⟨rfl, fun dp acc hu => ?_⟩
      exact chk_share_after_release fs dp acc (i - 1) fs.Files _ hlt rfl hu
    · intro hc
      have e1 : (if (if (fs.Files.getD (i - 1) {}).ctr = 0x100 then 0
            else (fs.Files.getD (i - 1) {}).ctr) > 0
          then (if (fs.Files.getD (i - 1) {}).ctr = 0x100 then 0
            else (fs.Files.getD (i - 1) {}).ctr) - 1
          else (if (fs.Files.getD (i - 1) {}).ctr = 0x100 then 0
            else (fs.Files.getD (i - 1) {}).ctr)) = (fs.Files.getD (i - 1) {}).ctr - 1 := by
        have hne : ¬ (fs.Files.getD (i - 1) {}).ctr = 0x100 := by omega
        simp only [if_neg hne]
        rw [if_pos (show (fs.Files.getD (i - 1) {}).ctr > 0 by omega)]
      rw [e1, if_neg (show ¬ (fs.Files.getD (i - 1) {}).ctr - 1 = 0 by omega)]
  · intro h
    unfold dec_share
    dsimp only
    rw [if_neg]
    by_cases h0 : i = 0
    · subst h0
      unfold W32 at *
      omega
    · rw [dec_share_index i (by omega) hi]
      omega

/-- C23 (witness): the release of the write lock in slot 0 of `exOneLock`,
followed by a write-mode check of the same key. -/
theorem C23_dec_share_release_witness :
    1 < W32 ∧ exOneLock.Files.length < W32 ∧ (1 ≤ 1 ∧ 1 ≤ exOneLock.Files.length) ∧
    ∃ e, dec_share exOneLock 1 = (FR_OK, { exOneLock with Files := exOneLock.Files.set (1 - 1) e }) ∧
      e = { fs := 0, clu := 0, idx := 0, ctr := 0 } ∧
      chk_share (dec_share exOneLock 1).2 {} 1 = FR_OK := by
  obtain ⟨e, h1, h2, -⟩ :=
    (C23_dec_share_release exOneLock 1 (by decide) (by decide)).1 (by decide)
  obtain ⟨h3, h4⟩ := h2 (Or.inl rfl)
  exact ⟨by decide, by decide, by decide, e, h1, h3, h4 {} 1 (by decide)⟩

/-- C29 (evaluation of the code at the failing input). On the volume
`exFat12ChainNoRead`, whose FAT sector 2 cannot be read, `put_fat` of cluster
341 (an entry that lies across sectors 1 and 2) fails with `FR_DISK_ERR` at
the read of sector 2 and leaves the window invalid (`winsect = 0xFFFFFFFF`)
but dirty (`wflag = 1`), while `get_fat` of the same cluster leaves it invalid
and clean. The next `move_window(fs, 5)` after the failed `put_fat` therefore
issues a device write: the stale window (the image of FAT sector 1, byte 511
of which is `0x30`) is written to sector `0xFFFFFFFF` before sector 5 is
read. -/
theorem C29_put_fat_leaves_invalid_window_dirty :
    (get_fat exFat12ChainNoRead {} 341).1 = 0xFFFFFFFF ∧
    (get_fat exFat12ChainNoRead {} 341).2.winsect = 0xFFFFFFFF ∧
    (get_fat exFat12ChainNoRead {} 341).2.wflag = 0 ∧
    (put_fat exFat12ChainNoRead 341 0x123).1 = FR_DISK_ERR ∧
    (put_fat exFat12ChainNoRead 341 0x123).2.winsect = 0xFFFFFFFF ∧
    (put_fat exFat12ChainNoRead 341 0x123).2.wflag = 1 ∧
    (put_fat exFat12ChainNoRead 341 0x123).2.drv.data 0xFFFFFFFF 511 = 0 ∧
    (move_window (put_fat exFat12ChainNoRead 341 0x123).2 5).1 = FR_OK ∧
    (move_window (put_fat exFat12ChainNoRead 341 0x123).2 5).2.winsect = 5 ∧
    (move_window (put_fat exFat12ChainNoRead 341 0x123).2 5).2.drv.data 0xFFFFFFFF 511 = 0x30 := by
  decide

/-! ### Frame of the window traffic, without assumptions on the volume -/

theorem sync_window_sameVol (fs : FATFS) : SameVol fs (sync_window fs).2 := by
  unfold sync_window disk_write
  dsimp only
  split_ifs <;> (unfold SameVol; rfl)

theorem move_window_sameVol (fs : FATFS) (s : Nat) : SameVol fs (move_window fs s).2 := by
  unfold move_window
  by_cases h : s ≠ fs.winsect
  · rw [if_pos h]
    have h1 := sync_window_sameVol fs
    dsimp only
    by_cases h2 : (sync_window fs).1 = FR_OK
    · rw [if_pos h2]
      refine h1.trans ?_
      unfold disk_read
      split_ifs <;> (unfold SameVol; rfl)
    · rw [if_neg h2]
      exact h1
  · rw [if_neg h]
    exact SameVol.refl fs

theorem get_fat_sameVol (fs : FATFS) (obj : FFOBJID) (c : Nat) : SameVol fs (get_fat fs obj c).2 := by
  unfold get_fat
  by_cases hc : c < 2 ∨ c ≥ fs.n_fatent
  · rw [if_pos hc]
    exact SameVol.refl fs
  rw [if_neg hc]
  by_cases h12 : fs.fs_type = FS_FAT12
  · rw [if_pos h12]
    dsimp only
    have m1 := move_window_sameVol fs ((fs.fatbase + (c + c / 2) % W32 / SS) % W32)
    generalize move_window fs ((fs.fatbase + (c + c / 2) % W32 / SS) % W32) = r1 at m1 ⊢
    by_cases h1 : r1.1 ≠ FR_OK
    · rw [if_pos h1]; exact m1
    rw [if_neg h1]
    have m2 := move_window_sameVol r1.2 ((r1.2.fatbase + ((c + c / 2) % W32 + 1) % W32 / SS) % W32)
    generalize move_window r1.2 ((r1.2.fatbase + ((c + c / 2) % W32 + 1) % W32 / SS) % W32) = r2
      at m2 ⊢
    by_cases h2 : r2.1 ≠ FR_OK
    · rw [if_pos h2]; exact m1.trans m2
    rw [if_neg h2]
    exact m1.trans m2
  rw [if_neg h12]
  by_cases h16 : fs.fs_type = FS_FAT16
  · rw [if_pos h16]
    dsimp only
    have m1 := move_window_sameVol fs ((fs.fatbase + c / (SS / 2)) % W32)
    generalize move_window fs ((fs.fatbase + c / (SS / 2)) % W32) = r1 at m1 ⊢
    by_cases h1 : r1.1 ≠ FR_OK
    · rw [if_pos h1]; exact m1
    · rw [if_neg h1]; exact m1
  rw [if_neg h16]
  by_cases h32 : fs.fs_type = FS_FAT32
  · rw [if_pos h32]
    dsimp only
    have m1 := move_window_sameVol fs ((fs.fatbase + c / (SS / 4)) % W32)
    generalize move_window fs ((fs.fatbase + c / (SS / 4)) % W32) = r1 at m1 ⊢
    by_cases h1 : r1.1 ≠ FR_OK
    · rw [if_pos h1]; exact m1
    · rw [if_neg h1]; exact m1
  rw [if_neg h32]
  by_cases hex : fs.fs_type = FS_EXFAT
  · rw [if_pos hex]
    have m1 := move_window_sameVol fs ((fs.fatbase + c / (SS / 4)) % W32)
    dsimp only
    split_ifs
    all_goals first
      | exact SameVol.refl fs
      | exact m1
  · rw [if_neg hex]
    exact SameVol.refl fs

theorem poke_word_sameVol (fs : FATFS) (p v : Nat) : SameVol fs (poke_word fs p v) := by
  unfold SameVol poke_word; rfl

theorem poke_dword_sameVol (fs : FATFS) (p v : Nat) : SameVol fs (poke_dword fs p v) := by
  unfold SameVol poke_dword; rfl

theorem set_dirty_sameVol (fs : FATFS) : SameVol fs (set_dirty fs) := by
  unfold SameVol set_dirty; rfl

theorem put_fat_switch_sameVol (fs : FATFS) (c v : Nat) : SameVol fs (put_fat_switch fs c v).2 := by
  unfold put_fat_switch
  have m := move_window_sameVol
  dsimp only
  split_ifs
  all_goals first
    | with_reducible exact SameVol.refl fs
    | with_reducible exact m _ _
    | with_reducible exact (m _ _).trans (poke_word_sameVol _ _ _)
    | with_reducible exact (m _ _).trans (poke_dword_sameVol _ _ _)
    | with_reducible exact ((m _ _).trans (poke_sameVol _ _ _)).trans (m _ _)
    | with_reducible exact
        (((m _ _).trans (poke_sameVol _ _ _)).trans (m _ _)).trans (poke_sameVol _ _ _)

theorem put_fat_sameVol (fs : FATFS) (c v : Nat) : SameVol fs (put_fat fs c v).2 := by
  unfold put_fat
  dsimp only
  split_ifs
  · exact SameVol.refl fs
  · exact (put_fat_switch_sameVol fs c v).trans (set_dirty_sameVol _)

theorem Hint.same (a : FATFS) : Hint a a := ⟨SameGeom.rfl' a, fun _ _ h => h⟩

theorem Hint.step {a b c : FATFS} (h1 : Hint a b) (h2 : Hint b c) : Hint a c :=
  ⟨h1.1.comp' h2.1, fun x y z =>
    h2.2 (h1.1.n_fatent' ▸ x) (h1.1.n_fatent' ▸ y) (h1.2 x y z)⟩

theorem SameVol.hint {a b : FATFS} (h : SameVol a b) : Hint a b := by
  refine ⟨h.sameGeom, fun _ _ hf => ?_⟩
  unfold FreeInv at *
  rw [h.n_fatent, h.free_clust]
  exact hf

theorem note_free_hint (fs : FATFS) : Hint fs (note_free fs) := by
  refine ⟨(note_free_geom fs).1, ?_⟩
  unfold note_free
  by_cases h : fs.free_clust < (fs.n_fatent + W32 - 2) % W32
  · rw [if_pos h]
    refine fun h2 hn _ => Or.inl ?_
    show (fs.free_clust + 1) % W32 ≤ fs.n_fatent - 2
    unfold W32 at *
    omega
  · rw [if_neg h]
    exact fun _ _ hf => hf

theorem note_alloc_geom (fs : FATFS) (n : Nat) : SameGeom fs (note_alloc fs n) := by
  unfold note_alloc SameGeom
  rfl

theorem note_alloc_hint (fs : FATFS) (n : Nat) : Hint fs (note_alloc fs n) := by
  refine ⟨note_alloc_geom fs n, fun h2 hn hf => ?_⟩
  unfold FreeInv note_alloc at *
  dsimp only
  unfold W32 at *
  split_ifs <;> omega

theorem find_bitmap_loop_sameVol (clst ncl : Nat) :
    ∀ (fuel : Nat) (fs : FATFS) (val i bm scl ctr : Nat) (x : Nat) (f : FATFS),
      find_bitmap_loop clst ncl fuel fs val i bm scl ctr = some (x, f) → SameVol fs f := by
  intro fuel
  induction fuel with
  | zero => intro fs val i bm scl ctr x f h; simp [find_bitmap_loop] at h
  | succ n ih =>
    intro fs val i bm scl ctr x f h
    rw [find_bitmap_loop] at h
    dsimp only at h
    have m := move_window_sameVol
    split_ifs at h
    all_goals first
      | (simp only [Option.some.injEq, Prod.mk.injEq] at h
         obtain ⟨-, rfl⟩ := h
         first
           | with_reducible exact SameVol.refl _
           | with_reducible exact m _ _)
      | with_reducible exact ih _ _ _ _ _ _ _ _ h
      | with_reducible exact (m _ _).trans (ih _ _ _ _ _ _ _ _ h)

theorem find_bitmap_sameVol (fs : FATFS) (clst ncl : Nat) (x : Nat) (f : FATFS)
    (h : find_bitmap fs clst ncl = some (x, f)) : SameVol fs f := by
  unfold find_bitmap at h
  dsimp only at h
  have m := move_window_sameVol
  split_ifs at h
  all_goals first
    | (simp only [Option.some.injEq, Prod.mk.injEq] at h
       obtain ⟨-, rfl⟩ := h
       with_reducible exact m _ _)
    | with_reducible exact (m _ _).trans (find_bitmap_loop_sameVol _ _ _ _ _ _ _ _ _ _ _ h)

theorem flip_sameVol (fs : FATFS) (w : Nat → Nat) : SameVol fs { fs with win := w, wflag := 1 } := by
  unfold SameVol; rfl

theorem change_bitmap_loop_sameVol (bv : Nat) :
    ∀ (fuel : Nat) (fs : FATFS) (sect i bm ncl : Nat) (x : FRESULT) (f : FATFS),
      change_bitmap_loop bv fuel fs sect i bm ncl = some (x, f) → SameVol fs f := by
  intro fuel
  induction fuel with
  | zero => intro fs sect i bm ncl x f h; simp [change_bitmap_loop] at h
  | succ n ih =>
    intro fs sect i bm ncl x f h
    rw [change_bitmap_loop] at h
    dsimp only at h
    have m := move_window_sameVol
    have fl := flip_sameVol
    split_ifs at h
    all_goals first
      | (simp only [Option.some.injEq, Prod.mk.injEq] at h
         obtain ⟨-, rfl⟩ := h
         first
           | with_reducible exact SameVol.refl _
           | with_reducible exact fl _ _
           | with_reducible exact (fl _ _).trans (m _ _))
      | with_reducible exact (fl _ _).trans (ih _ _ _ _ _ _ _ h)
      | with_reducible exact ((fl _ _).trans (m _ _)).trans (ih _ _ _ _ _ _ _ h)

theorem change_bitmap_sameVol (fs : FATFS) (clst ncl bv : Nat) (x : FRESULT) (f : FATFS)
    (h : change_bitmap fs clst ncl bv = some (x, f)) : SameVol fs f := by
  unfold change_bitmap at h
  dsimp only at h
  have m := move_window_sameVol
  split_ifs at h
  all_goals first
    | (simp only [Option.some.injEq, Prod.mk.injEq] at h
       obtain ⟨-, rfl⟩ := h
       with_reducible exact m _ _)
    | with_reducible exact (m _ _).trans (change_bitmap_loop_sameVol _ _ _ _ _ _ _ _ _ h)

theorem fill_last_frag_sameVol :
    ∀ (fuel : Nat) (fs : FATFS) (obj : FFOBJID) (lcl term : Nat) (x : FRESULT) (f : FATFS)
      (o : FFOBJID), fill_last_frag fuel fs obj lcl term = some (x, f, o) → SameVol fs f := by
  intro fuel
  induction fuel with
  | zero => intro fs obj lcl term x f o h; simp [fill_last_frag] at h
  | succ n ih =>
    intro fs obj lcl term x f o h
    rw [fill_last_frag] at h
    dsimp only at h
    have p := put_fat_sameVol
    split_ifs at h
    all_goals first
      | (simp only [Option.some.injEq, Prod.mk.injEq] at h
         obtain ⟨-, rfl, -⟩ := h
         first
           | with_reducible exact SameVol.refl _
           | with_reducible exact p _ _ _)
      | with_reducible exact (p _ _ _).trans (ih _ _ _ _ _ _ _ h)

theorem create_chain_search_sameVol (obj : FFOBJID) (scl : Nat) :
    ∀ (fuel : Nat) (fs : FATFS) (ncl : Nat) (x : Nat ⊕ Nat) (f : FATFS),
      create_chain_search obj scl fuel fs ncl = some (x, f) → SameVol fs f := by
  intro fuel
  induction fuel with
  | zero => intro fs ncl x f h; simp [create_chain_search] at h
  | succ n ih =>
    intro fs ncl x f h
    rw [create_chain_search] at h
    dsimp only at h
    have g := get_fat_sameVol
    split_ifs at h
    all_goals first
      | (simp only [Option.some.injEq, Prod.mk.injEq] at h
         obtain ⟨-, rfl⟩ := h
         first
           | with_reducible exact SameVol.refl _
           | with_reducible exact g _ _ _)
      | with_reducible exact (g _ _ _).trans (ih _ _ _ _ h)

theorem create_chain_start_sameVol (fs : FATFS) (obj : FFOBJID) (clst : Nat) :
    SameVol fs (create_chain_start fs obj clst).2 := by
  unfold create_chain_start
  dsimp only
  have g := get_fat_sameVol
  split_ifs
  all_goals first
    | with_reducible exact SameVol.refl fs
    | with_reducible exact g _ _ _

theorem create_chain_near_sameVol (fs : FATFS) (obj : FFOBJID) (clst scl : Nat) :
    SameVol fs (create_chain_near fs obj clst scl).2 := by
  unfold create_chain_near
  dsimp only
  have g := get_fat_sameVol
  split_ifs
  all_goals first
    | with_reducible exact SameVol.refl fs
    | with_reducible exact g _ _ _

theorem create_chain_finish_hint (res : FRESULT) (fs : FATFS) (ncl : Nat) :
    Hint fs (create_chain_finish res fs ncl).2 := by
  unfold create_chain_finish
  by_cases h : res = FR_OK
  · rw [if_pos h]
    exact note_alloc_hint fs ncl
  · rw [if_neg h]
    exact Hint.same fs

theorem create_chain_mark_hint (fs : FATFS) (clst ncl : Nat) :
    Hint fs (create_chain_mark fs clst ncl).2 := by
  unfold create_chain_mark
  dsimp only
  refine Hint.step ?_ (create_chain_finish_hint _ _ _)
  by_cases h : (put_fat fs ncl 0xFFFFFFFF).1 = FR_OK ∧ clst ≠ 0
  · rw [if_pos h]
    exact ((put_fat_sameVol _ _ _).trans (put_fat_sameVol _ _ _)).hint
  · rw [if_neg h]
    exact (put_fat_sameVol _ _ _).hint

theorem create_chain_fat_hint (fs : FATFS) (obj : FFOBJID) (clst scl : Nat) (x : Nat) (f : FATFS)
    (o : FFOBJID) (h : create_chain_fat fs obj clst scl = some (x, f, o)) : Hint fs f := by
  unfold create_chain_fat at h
  have hn := create_chain_near_sameVol fs obj clst scl
  generalize create_chain_near fs obj clst scl = nr at h hn
  rcases nr with ⟨v | ⟨ncl, scl2⟩, fs1⟩
  · dsimp only at h hn
    injection h with h
    injection h with h1 h2
    injection h2 with h2 h3
    subst h2
    exact hn.hint
  · dsimp only at h hn
    by_cases h0 : ncl = 0
    · rw [if_pos h0] at h
      generalize hs : create_chain_search obj scl2 (fs1.n_fatent + 1) fs1 scl2 = sr at h
      rcases sr with _ | ⟨v | k, fs2⟩
      · exact absurd h (by simp)
      · dsimp only at h
        injection h with h
        injection h with h1 h2
        injection h2 with h2 h3
        subst h2
        exact (hn.trans (create_chain_search_sameVol _ _ _ _ _ _ _ hs)).hint
      · dsimp only at h
        injection h with h
        injection h with h1 h2
        injection h2 with h2 h3
        subst h2
        exact (hn.trans (create_chain_search_sameVol _ _ _ _ _ _ _ hs)).hint.step
          (create_chain_mark_hint _ _ _)
    · rw [if_neg h0] at h
      dsimp only at h
      injection h with h
      injection h with h1 h2
      injection h2 with h2 h3
      subst h2
      exact hn.hint.step (create_chain_mark_hint _ _ _)

theorem remove_chain_step_hint (obj : FFOBJID) (fs : FATFS) (clst scl ecl : Nat) :
    (∀ x f, remove_chain_step obj fs clst scl ecl = some (Sum.inl (x, f)) → Hint fs f) ∧
    (∀ f a b c, remove_chain_step obj fs clst scl ecl = some (Sum.inr (f, a, b, c)) → Hint fs f) := by
  unfold remove_chain_step
  dsimp only
  have sg := get_fat_sameVol fs obj clst
  generalize get_fat fs obj clst = g at sg
  by_cases h0 : g.1 = 0
  · rw [if_pos h0]
    refine ⟨fun x f h => ?_, fun f a b c h => ?_⟩
    · simp only [Option.some.injEq, Sum.inl.injEq, Prod.mk.injEq] at h
      obtain ⟨-, rfl⟩ := h
      exact sg.hint
    · simp at h
  rw [if_neg h0]
  by_cases h1 : g.1 = 1
  · rw [if_pos h1]
    refine ⟨fun x f h => ?_, fun f a b c h => ?_⟩
    · simp only [Option.some.injEq, Sum.inl.injEq, Prod.mk.injEq] at h
      obtain ⟨-, rfl⟩ := h
      exact sg.hint
    · simp at h
  rw [if_neg h1]
  by_cases h2 : g.1 = 0xFFFFFFFF
  · rw [if_pos h2]
    refine ⟨fun x f h => ?_, fun f a b c h => ?_⟩
    · simp only [Option.some.injEq, Sum.inl.injEq, Prod.mk.injEq] at h
      obtain ⟨-, rfl⟩ := h
      exact sg.hint
    · simp at h
  rw [if_neg h2]
  have sp : SameVol fs (if g.2.fs_type ≠ FS_EXFAT then put_fat g.2 clst 0 else (FR_OK, g.2)).2 := by
    by_cases he : g.2.fs_type ≠ FS_EXFAT
    · rw [if_pos he]; exact sg.trans (put_fat_sameVol _ _ _)
    · rw [if_neg he]; exact sg
  generalize (if g.2.fs_type ≠ FS_EXFAT then put_fat g.2 clst 0 else (FR_OK, g.2)) = p at sp
  by_cases h3 : p.1 ≠ FR_OK
  · rw [if_pos h3]
    refine ⟨fun x f h => ?_, fun f a b c h => ?_⟩
    · simp only [Option.some.injEq, Sum.inl.injEq] at h
      subst h
      exact sp.hint
    · simp at h
  rw [if_neg h3]
  have sn : Hint fs (note_free p.2) := sp.hint.step (note_free_hint _)
  generalize note_free p.2 = q at sn
  by_cases h4 : (ecl + 1) % W32 = g.1
  · rw [if_pos h4]
    by_cases h5 : g.1 < q.n_fatent
    · rw [if_pos h5]
      refine ⟨fun x f h => ?_, fun f a b c h => ?_⟩
      · simp at h
      · simp only [Option.some.injEq, Sum.inr.injEq, Prod.mk.injEq] at h
        obtain ⟨rfl, -⟩ := h
        exact sn
    · rw [if_neg h5]
      refine ⟨fun x f h => ?_, fun f a b c h => ?_⟩
      · simp only [Option.some.injEq, Sum.inl.injEq, Prod.mk.injEq] at h
        obtain ⟨-, rfl⟩ := h
        exact sn
      · simp at h
  rw [if_neg h4]
  have sc : ∀ c, (if q.fs_type = FS_EXFAT then change_bitmap q scl ((ecl + W32 - scl + 1) % W32) 0
      else some (FR_OK, q)) = some c → Hint fs c.2 := by
    intro c hc
    by_cases he : q.fs_type = FS_EXFAT
    · rw [if_pos he] at hc
      exact sn.step (change_bitmap_sameVol _ _ _ _ c.1 c.2 hc).hint
    · rw [if_neg he] at hc
      simp only [Option.some.injEq] at hc
      rw [← hc]
      exact sn
  generalize (if q.fs_type = FS_EXFAT then change_bitmap q scl ((ecl + W32 - scl + 1) % W32) 0
      else some (FR_OK, q)) = oc at sc
  cases oc with
  | none => exact ⟨fun x f h => by simp at h, fun f a b c h => by simp at h⟩
  | some c =>
    have scc := sc c rfl
    dsimp only
    by_cases h6 : c.1 ≠ FR_OK
    · rw [if_pos h6]
      refine ⟨fun x f h => ?_, fun f a b c h => ?_⟩
      · simp only [Option.some.injEq, Sum.inl.injEq] at h
        subst h
        exact scc
      · simp at h
    rw [if_neg h6]
    by_cases h7 : g.1 < c.2.n_fatent
    · rw [if_pos h7]
      refine ⟨fun x f h => ?_, fun f a b c h => ?_⟩
      · simp at h
      · simp only [Option.some.injEq, Sum.inr.injEq, Prod.mk.injEq] at h
        obtain ⟨rfl, -⟩ := h
        exact scc
    · rw [if_neg h7]
      refine ⟨fun x f h => ?_, fun f a b c h => ?_⟩
      · simp only [Option.some.injEq, Sum.inl.injEq, Prod.mk.injEq] at h
        obtain ⟨-, rfl⟩ := h
        exact scc
      · simp at h

theorem remove_chain_loop_hint (obj : FFOBJID) :
    ∀ (fuel : Nat) (fs : FATFS) (clst scl ecl : Nat) (x : FRESULT) (f : FATFS),
      remove_chain_loop obj fuel fs clst scl ecl = some (x, f) → Hint fs f := by
  intro fuel
  induction fuel with
  | zero => intro fs clst scl ecl x f h; simp [remove_chain_loop] at h
  | succ n ih =>
    intro fs clst scl ecl x f h
    rw [remove_chain_loop] at h
    have hs := remove_chain_step_hint obj fs clst scl ecl
    cases hr : remove_chain_step obj fs clst scl ecl with
    | none => rw [hr] at h; simp at h
    | some r =>
      rw [hr] at h hs
      rcases r with ⟨x1, f1⟩ | ⟨f1, a, b, c⟩
      · simp only [Option.some.injEq, Prod.mk.injEq] at h
        obtain ⟨-, rfl⟩ := h
        exact hs.1 x1 f1 rfl
      · exact (hs.2 f1 a b c rfl).step (ih _ _ _ _ _ _ h)

theorem remove_chain_follow_sameVol (obj : FFOBJID) (pclst : Nat) :
    ∀ (fuel : Nat) (fs : FATFS) (clst : Nat) (x : FRESULT ⊕ Nat) (f : FATFS),
      remove_chain_follow obj pclst fuel fs clst = some (x, f) → SameVol fs f := by
  intro fuel
  induction fuel with
  | zero => intro fs clst x f h; simp [remove_chain_follow] at h
  | succ n ih =>
    intro fs clst x f h
    rw [remove_chain_follow] at h
    dsimp only at h
    have g := get_fat_sameVol
    split_ifs at h
    all_goals first
      | (simp only [Option.some.injEq, Prod.mk.injEq] at h
         obtain ⟨-, rfl⟩ := h
         first
           | with_reducible exact SameVol.refl _
           | with_reducible exact g _ _ _)
      | with_reducible exact (g _ _ _).trans (ih _ _ _ _ h)

theorem remove_chain_hint (fs : FATFS) (obj : FFOBJID) (clst pclst : Nat) (x : FRESULT)
    (f : FATFS) (o : FFOBJID) (h : remove_chain fs obj clst pclst = some (x, f, o)) :
    Hint fs f := by
  unfold remove_chain at h
  by_cases hc : clst < 2 ∨ clst ≥ fs.n_fatent
  · rw [if_pos hc] at h
    injection h with h
    injection h with h1 h2
    injection h2 with h2 h3
    subst h2
    exact Hint.same fs
  rw [if_neg hc] at h
  dsimp only at h
  have sp : SameVol fs (if pclst ≠ 0 ∧ (fs.fs_type ≠ FS_EXFAT ∨ obj.stat ≠ 2)
      then put_fat fs pclst 0xFFFFFFFF else (FR_OK, fs)).2 := by
    by_cases hp : pclst ≠ 0 ∧ (fs.fs_type ≠ FS_EXFAT ∨ obj.stat ≠ 2)
    · rw [if_pos hp]; exact put_fat_sameVol _ _ _
    · rw [if_neg hp]; exact SameVol.refl fs
  generalize (if pclst ≠ 0 ∧ (fs.fs_type ≠ FS_EXFAT ∨ obj.stat ≠ 2)
      then put_fat fs pclst 0xFFFFFFFF else (FR_OK, fs)) = p at h sp
  by_cases hp1 : p.1 ≠ FR_OK
  · rw [if_pos hp1] at h
    injection h with h
    injection h with h1 h2
    injection h2 with h2 h3
    subst h2
    exact sp.hint
  rw [if_neg hp1] at h
  generalize hl : remove_chain_loop obj (fs.n_fatent + 1) p.2 clst clst clst = lr at h
  rcases lr with _ | ⟨lx, lf⟩
  · exact absurd h (fun h => Option.noConfusion h)
  have sl := sp.hint.step (remove_chain_loop_hint obj _ _ _ _ _ lx lf hl)
  dsimp only at h
  by_cases h1 : lx ≠ FR_OK
  · rw [if_pos h1] at h
    injection h with h
    injection h with h1 h2
    injection h2 with h2 h3
    subst h2
    exact sl
  rw [if_neg h1] at h
  by_cases he : lf.fs_type = FS_EXFAT
  · rw [if_pos he] at h
    by_cases h0 : pclst = 0
    · rw [if_pos h0] at h
      injection h with h
      injection h with h1 h2
      injection h2 with h2 h3
      subst h2
      exact sl
    rw [if_neg h0] at h
    by_cases hs : obj.stat = 0
    · rw [if_pos hs] at h
      generalize hfo : remove_chain_follow obj pclst W32 lf obj.sclust = fr at h
      rcases fr with _ | ⟨e | c, ff⟩
      · exact absurd h (fun h => Option.noConfusion h)
      · dsimp only at h
        injection h with h
        injection h with h1 h2
        injection h2 with h2 h3
        subst h2
        exact sl.step (remove_chain_follow_sameVol _ _ _ _ _ _ _ hfo).hint
      · dsimp only at h
        have sf := sl.step (remove_chain_follow_sameVol _ _ _ _ _ _ _ hfo).hint
        by_cases hcp : c = pclst
        · rw [if_pos hcp] at h
          injection h with h
          injection h with h1 h2
          injection h2 with h2 h3
          subst h2
          exact sf
        · rw [if_neg hcp] at h
          injection h with h
          injection h with h1 h2
          injection h2 with h2 h3
          subst h2
          exact sf
    rw [if_neg hs] at h
    by_cases h3 : obj.stat = 3 ∧ pclst ≥ obj.sclust ∧ pclst ≤ (obj.sclust + obj.n_cont) % W32
    · rw [if_pos h3] at h
      injection h with h
      injection h with h1 h2
      injection h2 with h2 h3
      subst h2
      exact sl
    · rw [if_neg h3] at h
      injection h with h
      injection h with h1 h2
      injection h2 with h2 h3
      subst h2
      exact sl
  · rw [if_neg he] at h
    injection h with h
    injection h with h1 h2
    injection h2 with h2 h3
    subst h2
    exact sl

theorem SameGeom.files' {a b : FATFS} (h : SameGeom a b) : b.Files = a.Files := by
  unfold SameGeom at h; rw [h]
theorem SameGeom.id' {a b : FATFS} (h : SameGeom a b) : b.id = a.id := by
  unfold SameGeom at h; rw [h]
theorem SameGeom.addr' {a b : FATFS} (h : SameGeom a b) : b.addr = a.addr := by
  unfold SameGeom at h; rw [h]

theorem file_flush_frame (fs : FATFS) (fp : FIL) :
    SameVol fs (file_flush fs fp).2.1 ∧ (file_flush fs fp).2.2.obj = fp.obj ∧
    (file_flush fs fp).2.2.fptr = fp.fptr ∧ (file_flush fs fp).2.2.err = fp.err ∧
    (file_flush fs fp).2.2.clust = fp.clust ∧ (file_flush fs fp).2.2.sect = fp.sect ∧
    ((file_flush fs fp).1 = false → (file_flush fs fp).2 = (fs, fp)) := by
  unfold file_flush disk_write set_drv
  dsimp only
  split_ifs
  all_goals first
    | exact ⟨SameVol.refl fs, rfl, rfl, rfl, rfl, rfl, fun _ => rfl⟩
    | exact ⟨by unfold SameVol; rfl, rfl, rfl, rfl, rfl, rfl, fun h => absurd h (by decide)⟩

theorem sync_fs_geom (fs : FATFS) : SameGeom fs (sync_fs fs).2 := by
  unfold sync_fs
  dsimp only
  have s := (sync_window_sameVol fs).sameGeom
  generalize sync_window fs = r at s
  by_cases h : r.1 = FR_OK
  · rw [if_pos h]
    dsimp only
    refine s.comp' ?_
    by_cases h2 : r.2.fs_type = FS_FAT32 ∧ r.2.fsi_flag = 1
    · rw [if_pos h2]
      unfold disk_write SameGeom
      split_ifs <;> rfl
    · rw [if_neg h2]
      exact SameGeom.rfl' _
  · rw [if_neg h]
    exact s

theorem f_sync_entry_sameVol (fs : FATFS) (fp : FIL) (tm : Nat) :
    SameVol fs (f_sync_entry fs fp tm) := by
  unfold f_sync_entry SameVol; rfl

/-- What `f_sync` leaves of the volume and of the object identifier. -/
theorem f_sync_frame (fs : FATFS) (fp : FIL) (tm : Nat) (r : FRESULT) (fs' : FATFS) (fp' : FIL)
    (h : f_sync fs fp tm = some (r, fs', fp')) :
    SameGeom fs fs' ∧ fp'.obj = fp.obj ∧ (r ≠ FR_OK → fp'.err = fp.err) := by
  unfold f_sync at h
  by_cases hv : validate fs (some fp.obj) ≠ FR_OK
  · rw [if_pos hv] at h
    injection h with h
    injection h with h1 h2
    injection h2 with h2 h3
    subst h2 h3
    exact ⟨SameGeom.rfl' _, rfl, fun _ => rfl⟩
  rw [if_neg hv] at h
  by_cases hm : fp.flag &&& FA_MODIFIED ≠ 0
  · rw [if_pos hm] at h
    dsimp only at h
    obtain ⟨f1, f2, f3, f4, f5, f6, f7⟩ := file_flush_frame fs fp
    generalize file_flush fs fp = w at h f1 f2 f3 f4 f5 f6 f7
    by_cases hw : w.1 = false
    · rw [if_pos hw] at h
      injection h with h
      injection h with h1 h2
      injection h2 with h2 h3
      subst h2 h3
      exact ⟨f1.sameGeom, f2, fun _ => f4⟩
    rw [if_neg hw] at h
    by_cases he : w.2.1.fs_type = FS_EXFAT
    · rw [if_pos he] at h
      exact absurd h (fun h => Option.noConfusion h)
    rw [if_neg he] at h
    have m1 := move_window_sameVol w.2.1 w.2.2.dir_sect
    generalize move_window w.2.1 w.2.2.dir_sect = m at h m1
    by_cases hmo : m.1 = FR_OK
    · rw [if_pos hmo] at h
      injection h with h
      injection h with h1 h2
      injection h2 with h2 h3
      subst h2 h3
      exact ⟨(f1.trans (m1.trans (f_sync_entry_sameVol _ _ _))).sameGeom.comp' (sync_fs_geom _),
        f2, fun _ => f4⟩
    · rw [if_neg hmo] at h
      injection h with h
      injection h with h1 h2
      injection h2 with h2 h3
      subst h2 h3
      exact ⟨(f1.trans m1).sameGeom, f2, fun _ => f4⟩
  · rw [if_neg hm] at h
    injection h with h
    injection h with h1 h2
    injection h2 with h2 h3
    subst h2 h3
    exact ⟨SameGeom.rfl' _, rfl, fun _ => rfl⟩

theorem validate_geom {a b : FATFS} (h : SameGeom a b) (o : Option FFOBJID) :
    validate b o = validate a o := by
  unfold validate
  rw [h.fs_type', h.id']

theorem dec_share_files (a b : FATFS) (i : Nat) (h : b.Files = a.Files) :
    (dec_share b i).1 = (dec_share a i).1 ∧ (dec_share b i).2.Files = (dec_share a i).2.Files := by
  unfold dec_share
  dsimp only
  rw [h]
  split_ifs <;> first | exact ⟨rfl, rfl⟩ | exact ⟨rfl, h⟩

theorem create_chain_exfat_link_hint (fs : FATFS) (obj : FFOBJID) (clst scl ncl : Nat)
    (res : FRESULT) (x : Nat) (f : FATFS) (o : FFOBJID)
    (h : create_chain_exfat_link fs obj clst scl ncl res = some (x, f, o)) : Hint fs f := by
  unfold create_chain_exfat_link at h
  dsimp only at h
  generalize (if clst = 0 then { obj with stat := 2 }
        else if obj.stat = 2 ∧ ncl ≠ (scl + 1) % W32 then
          { obj with n_cont := (scl + W32 - obj.sclust) % W32, stat := 3 }
        else obj) = obj1 at h
  by_cases h2 : obj1.stat ≠ 2
  · rw [if_pos h2] at h
    by_cases h3 : ncl = (clst + 1) % W32
    · rw [if_pos h3] at h
      dsimp only at h
      injection h with h
      injection h with h1 h2
      injection h2 with h2 h3
      subst h2
      exact create_chain_finish_hint _ _ _
    · rw [if_neg h3] at h
      generalize (if obj1.n_frag = 0 then { obj1 with n_frag := 1 } else obj1) = obj2 at h
      generalize hl : fill_last_frag (obj2.n_frag + 1) fs obj2 clst ncl = lr at h
      rcases lr with _ | ⟨lr, fs3, o3⟩
      · exact absurd h (fun h => Option.noConfusion h)
      have s3 := fill_last_frag_sameVol _ _ _ _ _ _ _ _ hl
      dsimp only at h
      by_cases hok : lr = FR_OK
      · rw [if_pos hok] at h
        dsimp only at h
        injection h with h
        injection h with h1 h2
        injection h2 with h2 h3
        subst h2
        exact s3.hint.step (create_chain_finish_hint _ _ _)
      · rw [if_neg hok] at h
        dsimp only at h
        injection h with h
        injection h with h1 h2
        injection h2 with h2 h3
        subst h2
        exact s3.hint.step (create_chain_finish_hint _ _ _)
  · rw [if_neg h2] at h
    dsimp only at h
    injection h with h
    injection h with h1 h2
    injection h2 with h2 h3
    subst h2
    exact create_chain_finish_hint _ _ _

theorem create_chain_exfat_set_hint (c : FRESULT × FATFS) (obj : FFOBJID) (clst scl ncl : Nat)
    (x : Nat) (f : FATFS) (o : FFOBJID)
    (h : create_chain_exfat_set c obj clst scl ncl = some (x, f, o)) : Hint c.2 f := by
  unfold create_chain_exfat_set at h
  by_cases hi : c.1 = FR_INT_ERR
  · rw [if_pos hi] at h
    injection h with h
    injection h with h1 h2
    injection h2 with h2 h3
    subst h2
    exact Hint.same _
  rw [if_neg hi] at h
  by_cases hd : c.1 = FR_DISK_ERR
  · rw [if_pos hd] at h
    injection h with h
    injection h with h1 h2
    injection h2 with h2 h3
    subst h2
    exact Hint.same _
  rw [if_neg hd] at h
  exact create_chain_exfat_link_hint _ _ _ _ _ _ _ _ _ h

theorem create_chain_exfat_found_hint (r : Nat × FATFS) (obj : FFOBJID) (clst scl : Nat)
    (x : Nat) (f : FATFS) (o : FFOBJID)
    (h : create_chain_exfat_found r obj clst scl = some (x, f, o)) : Hint r.2 f := by
  unfold create_chain_exfat_found at h
  by_cases hz : r.1 = 0 ∨ r.1 = 0xFFFFFFFF
  · rw [if_pos hz] at h
    injection h with h
    injection h with h1 h2
    injection h2 with h2 h3
    subst h2
    exact Hint.same _
  rw [if_neg hz, Option.bind_eq_some] at h
  obtain ⟨c, hc, h⟩ := h
  exact (change_bitmap_sameVol r.2 r.1 1 1 c.1 c.2 hc).hint.step
    (create_chain_exfat_set_hint _ _ _ _ _ _ _ _ h)

theorem create_chain_exfat_hint (fs : FATFS) (obj : FFOBJID) (clst scl : Nat) (x : Nat) (f : FATFS)
    (o : FFOBJID) (h : create_chain_exfat fs obj clst scl = some (x, f, o)) : Hint fs f := by
  unfold create_chain_exfat at h
  rw [Option.bind_eq_some] at h
  obtain ⟨r, hr, h⟩ := h
  exact (find_bitmap_sameVol fs scl 1 r.1 r.2 hr).hint.step
    (create_chain_exfat_found_hint _ _ _ _ _ _ _ h)

theorem create_chain_hint (fs : FATFS) (obj : FFOBJID) (clst : Nat) (x : Nat) (f : FATFS)
    (o : FFOBJID) (h : create_chain fs obj clst = some (x, f, o)) : Hint fs f := by
  unfold create_chain at h
  have hs := create_chain_start_sameVol fs obj clst
  generalize create_chain_start fs obj clst = sr at h hs
  rcases sr with ⟨v | scl, fs1⟩
  · dsimp only at h hs
    injection h with h
    injection h with h1 h2
    injection h2 with h2 h3
    subst h2
    exact hs.hint
  · dsimp only at h hs
    by_cases h0 : fs1.free_clust = 0
    · rw [if_pos h0] at h
      injection h with h
      injection h with h1 h2
      injection h2 with h2 h3
      subst h2
      exact hs.hint
    rw [if_neg h0] at h
    by_cases he : fs1.fs_type = FS_EXFAT
    · rw [if_pos he] at h
      exact hs.hint.step (create_chain_exfat_hint _ _ _ _ _ _ _ h)
    · rw [if_neg he] at h
      exact hs.hint.step (create_chain_fat_hint _ _ _ _ _ _ _ h)

theorem exFat12_freeInv : FreeInv exFat12 := Or.inl (by decide)

/-- C21. If `free_clust <= n_fatent - 2` or `free_clust = 0xFFFFFFFF` holds
before a call of `create_chain` or of `remove_chain` on a volume of at least
two FAT entries (a 32-bit count), it holds for the volume the call leaves,
whatever the call returns, and `n_fatent` is unchanged. -/
theorem C21_free_count_invariant (fs : FATFS) (obj : FFOBJID) (clst pclst : Nat)
    (h2 : 2 ≤ fs.n_fatent) (hn : fs.n_fatent < W32) (hf : FreeInv fs) :
    (∀ x f o, create_chain fs obj clst = some (x, f, o) →
      FreeInv f ∧ f.n_fatent = fs.n_fatent) ∧
    (∀ x f o, remove_chain fs obj clst pclst = some (x, f, o) →
      FreeInv f ∧ f.n_fatent = fs.n_fatent) :=
  ⟨fun x f o h => ⟨(create_chain_hint fs obj clst x f o h).2 h2 hn hf,
      (create_chain_hint fs obj clst x f o h).1.n_fatent'⟩,
   fun x f o h => ⟨(remove_chain_hint fs obj clst pclst x f o h).2 h2 hn hf,
      (remove_chain_hint fs obj clst pclst x f o h).1.n_fatent'⟩⟩

/-- C21 (witness): the allocation of a first cluster on `exFat12`, whose free
count is 398 of 398 clusters before the call. -/
theorem C21_free_count_invariant_witness :
    2 ≤ exFat12.n_fatent ∧ exFat12.n_fatent < W32 ∧ FreeInv exFat12 ∧
    (∃ x f o, create_chain exFat12 {} 0 = some (x, f, o) ∧ FreeInv f ∧
      f.n_fatent = exFat12.n_fatent) := by
  have hs : (create_chain exFat12 {} 0).isSome = true := by decide
  have e := (Option.some_get hs).symm
  exact ⟨by decide, by decide, exFat12_freeInv, _, _, _, e,
    (C21_free_count_invariant exFat12 {} 0 0 (by decide) (by decide) exFat12_freeInv).1 _ _ _ e⟩

theorem f_read_invalid (fs : FATFS) (fp : FIL) (buff : Nat → Nat) (n : Nat)
    (h : validate fs (some fp.obj) ≠ FR_OK) :
    f_read fs fp buff n = some (validate fs (some fp.obj), fs, fp, buff, 0) := by
  unfold f_read
  rw [if_pos h]

theorem f_write_invalid (fs : FATFS) (fp : FIL) (buff : Nat → Nat) (n : Nat)
    (h : validate fs (some fp.obj) ≠ FR_OK) :
    f_write fs fp buff n = some (validate fs (some fp.obj), fs, fp, 0) := by
  unfold f_write
  rw [if_pos h]

theorem f_truncate_invalid (fs : FATFS) (fp : FIL) (h : validate fs (some fp.obj) ≠ FR_OK) :
    f_truncate fs fp = some (validate fs (some fp.obj), fs, fp) := by
  unfold f_truncate
  rw [if_pos h]

theorem f_sync_invalid (fs : FATFS) (fp : FIL) (tm : Nat) (h : validate fs (some fp.obj) ≠ FR_OK) :
    f_sync fs fp tm = some (validate fs (some fp.obj), fs, fp) := by
  unfold f_sync
  rw [if_pos h]

theorem f_close_invalid (fs : FATFS) (fp : FIL) (tm : Nat) (h : validate fs (some fp.obj) ≠ FR_OK) :
    f_close fs fp tm = some (validate fs (some fp.obj), fs, fp) := by
  unfold f_close
  rw [f_sync_invalid fs fp tm h]
  dsimp only
  rw [if_neg h]

/-- When the handle is not valid or holds an error code, `f_lseek` returns at
once with that status. -/
theorem f_lseek_early (fs : FATFS) (fp : FIL) (ofs : Nat) (r : FRESULT) (hr : r ≠ FR_OK)
    (h : (if validate fs (some fp.obj) = FR_OK then result_of fp.err
          else validate fs (some fp.obj)) = r) :
    f_lseek fs fp ofs = some (r, fs, fp) := by
  unfold f_lseek
  dsimp only
  rw [h, if_neg (fun c => hr c.1)]
  dsimp only
  rw [if_pos hr]

theorem validate_unmounted (fs : FATFS) (obj : Option FFOBJID) (h : fs.fs_type = 0) :
    validate fs obj = FR_INVALID_OBJECT := by
  unfold validate
  cases obj with
  | none => rfl
  | some o =>
    dsimp only
    rw [if_neg (fun c => c.2.1 h)]

/-- C26. `validate(obj)` returns `FR_OK` if and only if `obj` and `obj->fs`
are not null, the volume is mounted (`fs_type != 0`) and `obj->id` equals the
mount id of the volume, and `FR_INVALID_OBJECT` otherwise; and after the
volume has been unmounted (`f_mount` with `umount = true`, which returns
`FR_OK` and leaves `fs_type = 0`) each of `f_read`, `f_write`, `f_lseek`,
`f_truncate`, `f_sync` and `f_close` on a handle returns `FR_INVALID_OBJECT`
and leaves the volume and the handle as they are. -/
theorem C26_stale_handles_are_detected (fs : FATFS) (obj : Option FFOBJID) (fp : FIL)
    (opt fsid : Nat) (buff : Nat → Nat) (n ofs tm : Nat) :
    (validate fs obj = FR_OK ↔
      ∃ o, obj = some o ∧ o.fs ≠ 0 ∧ fs.fs_type ≠ 0 ∧ o.id = fs.id) ∧
    (validate fs obj ≠ FR_OK → validate fs obj = FR_INVALID_OBJECT) ∧
    ∃ fs', f_mount fs opt true fsid = some (FR_OK, fs') ∧ fs'.fs_type = 0 ∧
      f_read fs' fp buff n = some (FR_INVALID_OBJECT, fs', fp, buff, 0) ∧
      f_write fs' fp buff n = some (FR_INVALID_OBJECT, fs', fp, 0) ∧
      f_lseek fs' fp ofs = some (FR_INVALID_OBJECT, fs', fp) ∧
      f_truncate fs' fp = some (FR_INVALID_OBJECT, fs', fp) ∧
      f_sync fs' fp tm = some (FR_INVALID_OBJECT, fs', fp) ∧
      f_close fs' fp tm = some (FR_INVALID_OBJECT, fs', fp) := by
  refine ⟨?_, ?_, ?_⟩
  · unfold validate
    cases obj with
    | none => simp
    | some o =>
      dsimp only
      constructor
      · intro h
        by_cases hc : o.fs ≠ 0 ∧ fs.fs_type ≠ 0 ∧ o.id = fs.id
        · exact ⟨o, rfl, hc⟩
        · rw [if_neg hc] at h
          exact absurd h (by decide)
      · rintro ⟨o', ho, hc⟩
        injection ho with ho
        subst ho
        rw [if_pos hc]
  · unfold validate
    cases obj with
    | none => intro _; rfl
    | some o =>
      dsimp only
      intro h
      by_cases hc : o.fs ≠ 0 ∧ fs.fs_type ≠ 0 ∧ o.id = fs.id
      · rw [if_pos hc] at h
        exact absurd rfl h
      · rw [if_neg hc]
  · have hm : f_mount fs opt true fsid = some (FR_OK, { clear_share fs with fs_type := 0 }) := by
      unfold f_mount
      simp
    refine ⟨_, hm, rfl, ?_⟩
    have hv : ∀ o, validate { clear_share fs with fs_type := 0 } o = FR_INVALID_OBJECT :=
      fun o => validate_unmounted _ o rfl
    have hne : validate { clear_share fs with fs_type := 0 } (some fp.obj) ≠ FR_OK := by
      rw [hv]; decide
    refine ⟨?_, ?_, ?_, ?_, ?_, ?_⟩
    · rw [f_read_invalid _ _ _ _ hne, hv]
    · rw [f_write_invalid _ _ _ _ hne, hv]
    · exact f_lseek_early _ _ _ _ (by decide) (by rw [hv]; rfl)
    · rw [f_truncate_invalid _ _ hne, hv]
    · rw [f_sync_invalid _ _ _ hne, hv]
    · rw [f_close_invalid _ _ _ hne, hv]

/-- C24 (counterexample). The handle `exDirtyFile` is valid on the volume
`exLockedNoWrite` and owns entry 1 of the share table, a write lock. The
device cannot write sector 2, where the dirty sector cache of the file
belongs: `f_sync` fails with `FR_DISK_ERR`, `f_close` returns that status
without a call of `dec_share`, and the share table still holds the write lock
that `dec_share` would have cleared. -/
theorem C24_counterexample :
    validate exLockedNoWrite (some exDirtyFile.obj) = FR_OK ∧
    (f_close exLockedNoWrite exDirtyFile 0).map (fun r => r.1) = some FR_DISK_ERR ∧
    (f_close exLockedNoWrite exDirtyFile 0).map (fun r => r.2.1.Files.map (fun e => e.ctr))
      = some [0x100] ∧
    (dec_share exLockedNoWrite exDirtyFile.obj.lockid).2.Files.map (fun e => e.ctr) = [0] :=
  ⟨by decide, by decide, by decide, by decide⟩

/-- C24 (amended). When `f_close` returns `FR_OK`, the share table it leaves is
the one `dec_share` makes from the table before the call, for the lock index of
the handle, `dec_share` returned `FR_OK` and the handle is invalidated
(`obj.fs = 0`); when the `f_sync` inside fails, `f_close` returns the status of
`f_sync` and the share table is as it was before the call. -/
theorem C24_close_releases_on_success (fs : FATFS) (fp : FIL) (tm : Nat)
    (r : FRESULT) (fs' : FATFS) (fp' : FIL) (h : f_close fs fp tm = some (r, fs', fp')) :
    (r = FR_OK → fs'.Files = (dec_share fs fp.obj.lockid).2.Files ∧
      (dec_share fs fp.obj.lockid).1 = FR_OK ∧ fp'.obj.fs = 0) ∧
    (∀ r0 f0 p0, f_sync fs fp tm = some (r0, f0, p0) → r0 ≠ FR_OK →
      r = r0 ∧ fs'.Files = fs.Files) := by
  unfold f_close at h
  have hs := f_sync_frame fs fp tm
  generalize f_sync fs fp tm = s at h hs
  rcases s with _ | ⟨r1, fs1, fp1⟩
  · exact absurd h (fun h => Option.noConfusion h)
  obtain ⟨g, ho, -⟩ := hs r1 fs1 fp1 rfl
  dsimp only at h
  by_cases h1 : r1 = FR_OK
  · rw [if_pos h1] at h
    refine ⟨fun hr => ?_, fun r0 f0 p0 e hne => ?_⟩
    · by_cases hv : validate fs1 (some fp1.obj) = FR_OK
      · rw [if_pos hv] at h
        obtain ⟨d1, d2⟩ := dec_share_files fs fs1 fp.obj.lockid g.files'
        rw [ho] at h
        by_cases hd : (dec_share fs1 fp.obj.lockid).1 = FR_OK
        · rw [if_pos hd] at h
          injection h with h
          injection h with h1 h2
          injection h2 with h2 h3
          subst h2 h3
          exact ⟨d2, d1 ▸ hd, rfl⟩
        · rw [if_neg hd] at h
          injection h with h
          injection h with h1 h2
          exact absurd (h1.trans hr) hd
      · rw [if_neg hv] at h
        injection h with h
        injection h with h1 h2
        exact absurd (h1.trans hr) hv
    · injection e with e
      injection e with e1 e2
      exact absurd (e1.symm.trans h1) hne
  · rw [if_neg h1] at h
    injection h with h
    injection h with h2 h3
    injection h3 with h3 h4
    subst h2 h3
    refine ⟨fun hr => absurd hr h1, fun r0 f0 p0 e hne => ?_⟩
    injection e with e
    injection e with e1 e2
    exact ⟨e1, g.files'⟩

/-- C24 (witness): the close of `exFile` on the volume `exLocked`, which
returns `FR_OK`, and whose share table is the one that `dec_share` makes. -/
theorem C24_close_releases_on_success_witness :
    ∃ fs' fp', f_close exLocked exFile 0 = some (FR_OK, fs', fp') ∧
      fs'.Files = (dec_share exLocked exFile.obj.lockid).2.Files ∧
      (dec_share exLocked exFile.obj.lockid).1 = FR_OK ∧ fp'.obj.fs = 0 := by
  have hm : (f_close exLocked exFile 0).map (fun r => r.1) = some FR_OK := by decide
  rcases hc : f_close exLocked exFile 0 with _ | ⟨r, fs', fp'⟩
  · rw [hc] at hm
    exact absurd hm (fun h => Option.noConfusion h)
  · rw [hc] at hm
    injection hm with hm
    dsimp only at hm
    subst hm
    exact ⟨_, _, rfl, (C24_close_releases_on_success exLocked exFile 0 _ _ _ hc).1 rfl⟩

theorem result_of_code (e : FRESULT) : result_of (code e) = e := by
  cases e <;> rfl

/-- C25 (counterexample). The handle `exErrDirtyFile` is valid on the volume
`exLocked` and holds the code of `FR_DISK_ERR` in `err`, but `f_sync` does not
look at `err`: it writes the sector cache back, updates the directory entry
and returns `FR_OK`, with the flags `FA_MODIFIED` and `FA_DIRTY` of the handle
cleared and the window of the volume on the directory sector. -/
theorem C25_counterexample :
    validate exLocked (some exErrDirtyFile.obj) = FR_OK ∧
    result_of exErrDirtyFile.err = FR_DISK_ERR ∧
    (f_sync exLocked exErrDirtyFile 0).map (fun r => r.1) = some FR_OK ∧
    exErrDirtyFile.flag = 0xC3 ∧
    (f_sync exLocked exErrDirtyFile 0).map (fun r => r.2.2.flag) = some 0x03 ∧
    exLocked.winsect = 0xFFFFFFFF ∧
    (f_sync exLocked exErrDirtyFile 0).map (fun r => r.2.1.winsect) = some 0 :=
  ⟨by decide, by decide, by decide, by decide, by decide, by decide, by decide⟩

/-- C25 (amended). For every valid handle whose `err` field holds the code of
a result `e` other than `FR_OK`, each of `f_read`, `f_write`, `f_lseek` and
`f_truncate` returns `e` with the volume (and so the device), the handle and
the buffer as they were, and with a count of 0 bytes. -/
theorem C25_sticky_handle_error (fs : FATFS) (fp : FIL) (e : FRESULT) (buff : Nat → Nat)
    (n ofs : Nat) (hv : validate fs (some fp.obj) = FR_OK) (he : e ≠ FR_OK)
    (hc : fp.err = code e) :
    f_read fs fp buff n = some (e, fs, fp, buff, 0) ∧
    f_write fs fp buff n = some (e, fs, fp, 0) ∧
    f_lseek fs fp ofs = some (e, fs, fp) ∧
    f_truncate fs fp = some (e, fs, fp) := by
  have hr : result_of fp.err = e := by rw [hc, result_of_code]
  have hne : result_of fp.err ≠ FR_OK := by rw [hr]; exact he
  have hnv : ¬ validate fs (some fp.obj) ≠ FR_OK := fun h => h hv
  refine ⟨?_, ?_, ?_, ?_⟩
  · unfold f_read
    rw [if_neg hnv, if_pos hne, hr]
  · unfold f_write
    rw [if_neg hnv, if_pos hne, hr]
  · exact f_lseek_early fs fp ofs e he (by rw [if_pos hv, hr])
  · unfold f_truncate
    rw [if_neg hnv, if_pos hne, hr]

/-- C25 (witness): the handle `exErrFile` on the volume `exFat12`, with the
code 1 of `FR_DISK_ERR`. -/
theorem C25_sticky_handle_error_witness :
    validate exFat12 (some exErrFile.obj) = FR_OK ∧ FR_DISK_ERR ≠ FR_OK ∧
    exErrFile.err = code FR_DISK_ERR ∧
    f_read exFat12 exErrFile (fun _ => 0) 4 = some (FR_DISK_ERR, exFat12, exErrFile, fun _ => 0, 0) ∧
    f_write exFat12 exErrFile (fun _ => 0) 4 = some (FR_DISK_ERR, exFat12, exErrFile, 0) ∧
    f_lseek exFat12 exErrFile 7 = some (FR_DISK_ERR, exFat12, exErrFile) ∧
    f_truncate exFat12 exErrFile = some (FR_DISK_ERR, exFat12, exErrFile) :=
  ⟨by decide, by decide, rfl,
    C25_sticky_handle_error exFat12 exErrFile FR_DISK_ERR (fun _ => 0) 4 7 (by decide)
      (by decide) rfl⟩

/-- C27. On the device of `exSmallPart` the boot sector of the only partition
carries the signature but `check_fs` does not take it for a FAT boot sector
(the volume has fewer than 128 sectors), so `fmt` is 2; `find_volume` analyses
its BPB all the same, finds a FAT12 volume of 97 clusters (`n_fatent` 99) and
ends with `return {FR_OK, fmt}` without the store to `fs_type`: `f_mount`
with `opt = 1` and `umount = false` returns `FR_OK` and leaves the volume
unmounted, `fs_type = 0`. -/
theorem C27_mount_ok_leaves_volume_unmounted :
    (check_fs exSmallPart 1).1 = 2 ∧
    (f_mount exSmallPart 1 false 7).map (fun r => r.1) = some FR_OK ∧
    (f_mount exSmallPart 1 false 7).map (fun r => r.2.fs_type) = some 0 ∧
    (f_mount exSmallPart 1 false 7).map (fun r => r.2.n_fatent) = some 99 ∧
    (f_mount exSmallPart 1 false 7).map (fun r => validate r.2 (some {}))
      = some FR_INVALID_OBJECT :=
  ⟨by decide, by decide, by decide, by decide, by decide⟩

theorem fat_subtype_spec (n : Nat) (h0 : n ≠ 0) :
    (fat_subtype n = 0 → bpb_subtype n = none) ∧
    (fat_subtype n ≠ 0 → bpb_subtype n = some (fat_subtype n)) := by
  unfold fat_subtype bpb_subtype MAX_FAT12 MAX_FAT16 MAX_FAT32 FS_FAT12 FS_FAT16 FS_FAT32
  dsimp only
  split_ifs <;> simp <;> omega

theorem mount_fat_bpb_some (fs fs1 : FATFS) (fasize tsect nrsv : Nat)
    (h : mount_fat_bpb fs = (some (fasize, tsect, nrsv), fs1)) :
    fasize = bpb_fat_size fs.win * ldb fs.win BPB_NumFATs % W32 ∧
    tsect = bpb_total_sectors fs.win ∧ nrsv = ld_word fs.win BPB_RsvdSecCnt ∧
    fs1.csize = ldb fs.win BPB_SecPerClus ∧ fs1.n_rootdir = ld_word fs.win BPB_RootEntCnt ∧
    fs1.win = fs.win ∧ fs1.fs_type = fs.fs_type := by
  unfold mount_fat_bpb at h
  unfold bpb_fat_size bpb_total_sectors
  dsimp only at h
  split_ifs at h ⊢
  all_goals
    simp only [Prod.mk.injEq, Option.some.injEq] at h
    obtain ⟨⟨rfl, rfl, rfl⟩, rfl⟩ := h <;> exact ⟨rfl, rfl, rfl, rfl, rfl, rfl, rfl⟩

theorem mount_fat_bpb_none (fs : FATFS) : (mount_fat_bpb fs).2.fs_type = fs.fs_type := by
  unfold mount_fat_bpb
  dsimp only
  split_ifs <;> rfl

theorem mount_fat_layout_some (fs fs1 : FATFS) (bsect fasize tsect nrsv fmt : Nat)
    (h : mount_fat_layout fs bsect fasize tsect nrsv = (some fmt, fs1)) :
    (nrsv + fasize + fs.n_rootdir / 16) % W32 ≤ tsect ∧
    (tsect - (nrsv + fasize + fs.n_rootdir / 16) % W32) / fs.csize ≠ 0 ∧
    fmt = fat_subtype ((tsect - (nrsv + fasize + fs.n_rootdir / 16) % W32) / fs.csize) ∧
    fmt ≠ 0 ∧
    fs1.n_fatent = ((tsect - (nrsv + fasize + fs.n_rootdir / 16) % W32) / fs.csize + 2) % W32 ∧
    fs1.win = fs.win ∧ fs1.fs_type = fs.fs_type := by
  unfold mount_fat_layout at h
  have e16 : SS / SZ_DIR = 16 := rfl
  rw [e16] at h
  dsimp only at h
  by_cases c1 : tsect < (nrsv + fasize + fs.n_rootdir / 16) % W32
  · rw [if_pos c1] at h
    exact absurd (congrArg Prod.fst h) (fun h => Option.noConfusion h)
  rw [if_neg c1] at h
  by_cases c2 : (tsect - (nrsv + fasize + fs.n_rootdir / 16) % W32) / fs.csize = 0
  · rw [if_pos c2] at h
    exact absurd (congrArg Prod.fst h) (fun h => Option.noConfusion h)
  rw [if_neg c2] at h
  by_cases c3 : fat_subtype ((tsect - (nrsv + fasize + fs.n_rootdir / 16) % W32) / fs.csize) = 0
  · rw [if_pos c3] at h
    exact absurd (congrArg Prod.fst h) (fun h => Option.noConfusion h)
  rw [if_neg c3] at h
  split_ifs at h
  all_goals
    simp only [Prod.mk.injEq, Option.some.injEq] at h
    first
      | exact absurd h.1 (fun h => Option.noConfusion h)
      | (obtain ⟨h1, h2⟩ := h
         subst h1 h2
         exact ⟨Nat.le_of_not_lt c1, c2, rfl, c3, rfl, rfl, rfl⟩)

theorem mount_fat_layout_fs_type (fs : FATFS) (bsect fasize tsect nrsv : Nat) :
    (mount_fat_layout fs bsect fasize tsect nrsv).2.fs_type = fs.fs_type := by
  unfold mount_fat_layout
  dsimp only
  split_ifs <;> rfl

theorem mount_fat_layout_none (fs : FATFS) (bsect fasize tsect nrsv : Nat)
    (h : tsect < (nrsv + fasize + fs.n_rootdir / 16) % W32 ∨
      (tsect - (nrsv + fasize + fs.n_rootdir / 16) % W32) / fs.csize = 0 ∨
      fat_subtype ((tsect - (nrsv + fasize + fs.n_rootdir / 16) % W32) / fs.csize) = 0) :
    (mount_fat_layout fs bsect fasize tsect nrsv).1 = none := by
  unfold mount_fat_layout
  have e16 : SS / SZ_DIR = 16 := rfl
  rw [e16]
  dsimp only
  by_cases c1 : tsect < (nrsv + fasize + fs.n_rootdir / 16) % W32
  · rw [if_pos c1]
  rw [if_neg c1]
  by_cases c2 : (tsect - (nrsv + fasize + fs.n_rootdir / 16) % W32) / fs.csize = 0
  · rw [if_pos c2]
  rw [if_neg c2]
  by_cases c3 : fat_subtype ((tsect - (nrsv + fasize + fs.n_rootdir / 16) % W32) / fs.csize) = 0
  · rw [if_pos c3]
  rcases h with h | h | h
  · exact absurd h c1
  · exact absurd h c2
  · exact absurd h c3

theorem mount_fat_fsinfo_geom (fs : FATFS) (bsect fmt : Nat) :
    (mount_fat_fsinfo fs bsect fmt).n_fatent = fs.n_fatent ∧
    (mount_fat_fsinfo fs bsect fmt).fs_type = fs.fs_type := by
  unfold mount_fat_fsinfo
  dsimp only
  have m := move_window_sameVol
    { fs with last_clust := 0xFFFFFFFF, free_clust := 0xFFFFFFFF, fsi_flag := 0x80 }
    ((bsect + 1) % W32)
  generalize move_window
    { fs with last_clust := 0xFFFFFFFF, free_clust := 0xFFFFFFFF, fsi_flag := 0x80 }
    ((bsect + 1) % W32) = r at m
  have m1 := m.n_fatent
  have m2 := m.fs_type
  split_ifs <;> first | exact ⟨rfl, rfl⟩ | exact ⟨m1, m2⟩

theorem bpb_subtype_some (n t : Nat) (h : bpb_subtype n = some t) :
    1 ≤ n ∧ n ≤ 0x0FFFFFF5 ∧ (t = FS_FAT12 ↔ 1 ≤ n ∧ n ≤ 4085) ∧
    (t = FS_FAT16 ↔ 4086 ≤ n ∧ n ≤ 65525) ∧ (t = FS_FAT32 ↔ 65526 ≤ n ∧ n ≤ 0x0FFFFFF5) := by
  unfold bpb_subtype at h
  unfold FS_FAT12 FS_FAT16 FS_FAT32 at *
  split_ifs at h <;> simp only [Option.some.injEq] at h <;> subst h <;> omega

/-- The analysis of the BPB in the window chooses the sub-type of the
specification for the cluster count of the specification, when the sum of the
system sectors does not pass the 32-bit limit. -/
theorem mount_fat_spec (fs : FATFS) (bsect : Nat) (hno : bpb_system_sectors fs.win < W32) :
    (∀ fmt fs', mount_fat fs bsect = (some fmt, fs') →
      bpb_subtype (bpb_nclst fs.win) = some fmt ∧ fs'.n_fatent = bpb_nclst fs.win + 2 ∧
      fs'.fs_type = fs.fs_type) ∧
    (bpb_subtype (bpb_nclst fs.win) = none → (mount_fat fs bsect).1 = none) := by
  unfold mount_fat
  generalize hb : mount_fat_bpb fs = b
  rcases b with ⟨_ | ⟨fasize, tsect, nrsv⟩, fs1⟩
  · dsimp only
    exact ⟨fun fmt fs' h => absurd (congrArg Prod.fst h) (fun h => Option.noConfusion h),
      fun _ => rfl⟩
  · obtain ⟨e1, e2, e3, e4, e5, e6, e7⟩ := mount_fat_bpb_some fs fs1 fasize tsect nrsv hb
    dsimp only
    have hs : (nrsv + fasize + fs1.n_rootdir / 16) % W32 = bpb_system_sectors fs.win := by
      rw [e1, e3, e5]
      unfold bpb_system_sectors at hno ⊢
      rw [Nat.mul_comm (ldb fs.win BPB_NumFATs)] at hno ⊢
      generalize bpb_fat_size fs.win * ldb fs.win BPB_NumFATs = p at hno ⊢
      rw [Nat.mod_eq_of_lt (show p < W32 by omega), Nat.mod_eq_of_lt hno]
    have hn : (tsect - (nrsv + fasize + fs1.n_rootdir / 16) % W32) / fs1.csize
        = bpb_nclst fs.win := by
      rw [hs, e2, e4]
      rfl
    generalize hl : mount_fat_layout fs1 bsect fasize tsect nrsv = l
    rcases l with ⟨_ | fmt, fs2⟩
    · dsimp only
      exact ⟨fun fmt fs' h => absurd (congrArg Prod.fst h) (fun h => Option.noConfusion h),
        fun _ => rfl⟩
    · obtain ⟨-, l2, l3, l4, l5, -, l7⟩ := mount_fat_layout_some fs1 fs2 bsect fasize tsect nrsv fmt hl
      rw [hn] at l2 l3 l5
      have hsub := (fat_subtype_spec (bpb_nclst fs.win) l2).2 (l3 ▸ l4)
      rw [← l3] at hsub
      obtain ⟨-, b2, -⟩ := bpb_subtype_some _ _ hsub
      dsimp only
      refine ⟨fun fmt' fs' h => ?_, fun hnone => ?_⟩
      · simp only [Prod.mk.injEq, Option.some.injEq] at h
        obtain ⟨h1, h2⟩ := h
        subst h1 h2
        obtain ⟨g1, g2⟩ := mount_fat_fsinfo_geom fs2 bsect fmt
        refine ⟨hsub, ?_, ?_⟩
        · rw [g1, l5]
          exact Nat.mod_eq_of_lt (by unfold W32; omega)
        · rw [g2, l7, e7]
      · rw [hnone] at hsub
        exact absurd hsub (fun h => Option.noConfusion h)

theorem clear_share_lock_geom (fs : FATFS) :
    (clear_share (clear_lock fs)).n_fatent = fs.n_fatent ∧
    (clear_share (clear_lock fs)).fs_type = fs.fs_type := ⟨rfl, rfl⟩

/-- C28 (counterexample). The boot sector of the partition of `exWrapPart`
has two FATs of `0x80000000` sectors, one reserved sector and `0x10000`
sectors in total: the cluster count of the specification is 0 (the system
sectors exceed the total), for which the claim has `FR_NO_FILESYSTEM`. In the
code `fasize *= fs->n_fats` wraps to 0 in 32 bits, the count is 65535 and
`mount_volume` returns `FR_OK` with a FAT32 volume of 65537 FAT entries. -/
theorem C28_counterexample :
    (find_volume_boot exWrapPart).1 = 0 ∧
    bpb_nclst (find_volume_boot exWrapPart).2.2.win = 0 ∧
    bpb_subtype (bpb_nclst (find_volume_boot exWrapPart).2.2.win) = none ∧
    (mount_volume exWrapPart 7).map (fun r => r.1) = some FR_OK ∧
    (mount_volume exWrapPart 7).map (fun r => r.2.fs_type) = some FS_FAT32 ∧
    (mount_volume exWrapPart 7).map (fun r => r.2.n_fatent) = some 65537 :=
  ⟨by decide, by decide, by decide, by decide, by decide, by decide⟩

/-- C28 (amended). Let `nclst` be the cluster count of the specification for
the BPB in the window, and let `reserved + n_fats * fat_size +
root_entries / 16` be below `2^32`. When the analysis of the BPB that
`find_volume` and `mount_volume` make succeeds, the sub-type it selects is
FAT12 iff `1 <= nclst <= 4085`, FAT16 iff `4086 <= nclst <= 65525`, FAT32 iff
`65526 <= nclst <= 0x0FFFFFF5`, and `n_fatent = nclst + 2`; when `nclst = 0` or
`nclst > 0x0FFFFFF5` the analysis fails. `mount_volume` on an unmounted object
returns `FR_OK` with that sub-type in `fs_type` and that `n_fatent` in the
first case, for the window that `find_volume` leaves, and `FR_NO_FILESYSTEM`
when the analysis fails. -/
theorem C28_subtype_by_cluster_count (fs : FATFS) (bsect : Nat)
    (hno : bpb_system_sectors fs.win < W32) :
    (∀ fmt fs', mount_fat fs bsect = (some fmt, fs') →
      fs'.n_fatent = bpb_nclst fs.win + 2 ∧
      (fmt = FS_FAT12 ↔ 1 ≤ bpb_nclst fs.win ∧ bpb_nclst fs.win ≤ 4085) ∧
      (fmt = FS_FAT16 ↔ 4086 ≤ bpb_nclst fs.win ∧ bpb_nclst fs.win ≤ 65525) ∧
      (fmt = FS_FAT32 ↔ 65526 ≤ bpb_nclst fs.win ∧ bpb_nclst fs.win ≤ 0x0FFFFFF5)) ∧
    ((bpb_nclst fs.win = 0 ∨ bpb_nclst fs.win > 0x0FFFFFF5) → (mount_fat fs bsect).1 = none) ∧
    (∀ g fsid f r fs', g.fs_type = 0 → find_volume { g with fs_type := 0 } fsid = some f →
      f.fs = fs → bsect = fs.winsect → mount_volume g fsid = some (r, fs') →
      (r = FR_OK ∧ bpb_subtype (bpb_nclst fs.win) = some fs'.fs_type ∧
        fs'.n_fatent = bpb_nclst fs.win + 2) ∨
      (r = FR_NO_FILESYSTEM ∧ (mount_fat fs bsect).1 = none)) := by
  obtain ⟨m1, m2⟩ := mount_fat_spec fs bsect hno
  refine ⟨fun fmt fs' h => ?_, fun h => ?_, ?_⟩
  · obtain ⟨a1, a2, -⟩ := m1 fmt fs' h
    obtain ⟨-, -, b3, b4, b5⟩ := bpb_subtype_some _ _ a1
    exact ⟨a2, b3, b4, b5⟩
  · apply m2
    unfold bpb_subtype
    split_ifs <;> first | rfl | omega
  · intro g fsid f r fs' hg hf hfs hbs hm
    unfold mount_volume at hm
    rw [if_neg (fun c => c hg), hf] at hm
    dsimp only at hm
    by_cases c1 : f.fmt = 1
    · rw [if_pos c1] at hm
      exact absurd hm (fun h => Option.noConfusion h)
    rw [if_neg c1, hfs, ← hbs] at hm
    generalize hmf : mount_fat fs bsect = m at hm
    rcases m with ⟨_ | fmt, fs2⟩
    · dsimp only at hm
      simp only [Option.some.injEq, Prod.mk.injEq] at hm
      exact Or.inr ⟨hm.1.symm, rfl⟩
    · dsimp only at hm
      simp only [Option.some.injEq, Prod.mk.injEq] at hm
      obtain ⟨h1, h2⟩ := hm
      subst h1 h2
      obtain ⟨a1, a2, -⟩ := m1 fmt fs2 hmf
      obtain ⟨b1, b2, b3, b4, b5⟩ := bpb_subtype_some _ _ a1
      have hfm : fmt % 256 = fmt := by
        unfold bpb_subtype at a1
        unfold FS_FAT12 FS_FAT16 FS_FAT32 at a1
        split_ifs at a1 <;> simp only [Option.some.injEq] at a1 <;> subst a1 <;> rfl
      refine Or.inl ⟨rfl, ?_, ?_⟩
      · rw [a1]
        exact congrArg some hfm.symm
      · exact a2

/-- C28 (witness): the boot sector of `exSmallPart` in the window, a FAT12
volume of 97 clusters. -/
theorem C28_subtype_by_cluster_count_witness :
    bpb_system_sectors exSmallWin.win < W32 ∧ bpb_nclst exSmallWin.win = 97 ∧
    (∃ fs', mount_fat exSmallWin 1 = (some FS_FAT12, fs') ∧ fs'.n_fatent = 97 + 2) := by
  have hno : bpb_system_sectors exSmallWin.win < W32 := by decide
  have hn : bpb_nclst exSmallWin.win = 97 := by decide
  have h1 : (mount_fat exSmallWin 1).1 = some FS_FAT12 := by decide
  have e : mount_fat exSmallWin 1 = (some FS_FAT12, (mount_fat exSmallWin 1).2) := by
    rw [← h1]
  refine ⟨hno, hn, _, e, ?_⟩
  rw [← hn]
  exact ((C28_subtype_by_cluster_count exSmallWin 1 hno).1 _ _ e).1

/-- The mask `x & ~(bcs - 1)` of a 32-bit value for a power of two `bcs` rounds
`x` down to a multiple of `bcs`. -/
theorem and_not_mask (x k : Nat) (hx : x < W32) (hk : k ≤ 16) :
    x &&& (W32 - 1 - (2 ^ k + W32 - 1) % W32) = x / 2 ^ k * 2 ^ k := by
  have hp : 0 < 2 ^ k := Nat.two_pow_pos k
  have hlt : 2 ^ k ≤ 2 ^ 16 := Nat.pow_le_pow_right (by decide) hk
  have hm : (2 ^ k + W32 - 1) % W32 = 2 ^ k - 1 := by
    unfold W32
    omega
  rw [hm]
  have hc : W32 - 1 - (2 ^ k - 1) = 2 ^ k * (2 ^ (32 - k) - 1) := by
    have : 2 ^ k * 2 ^ (32 - k) = W32 := by
      rw [← Nat.pow_add]
      have : k + (32 - k) = 32 := by omega
      rw [this]
      rfl
    rw [Nat.mul_sub, this, Nat.mul_one]
    omega
  rw [hc]
  apply Nat.eq_of_testBit_eq
  intro i
  rw [Nat.testBit_land, Nat.mul_comm (x / 2 ^ k), Nat.testBit_mul_pow_two, Nat.testBit_mul_pow_two,
    Nat.testBit_two_pow_sub_one, ← Nat.shiftRight_eq_div_pow, Nat.testBit_shiftRight]
  by_cases hi : k ≤ i
  · have e : k + (i - k) = i := by omega
    rw [e]
    by_cases h32 : i < 32
    · simp [hi]
      intro _
      omega
    · have : x.testBit i = false := by
        apply Nat.testBit_lt_two_pow
        calc x < 2 ^ 32 := hx
          _ ≤ 2 ^ i := Nat.pow_le_pow_right (by decide) (by omega)
      simp [this]
  · simp [hi]

theorem clusterAt_succ (fs : FATFS) (c i : Nat) :
    clusterAt fs c (i + 1) = fatEntry fs (clusterAt fs c i) := by
  unfold clusterAt
  exact Function.iterate_succ_apply' _ _ _

theorem f_lseek_step_ro (fs0 fs : FATFS) (fp : FIL) (c : Nat) (hv : VolOk fs0)
    (hd : DeviceOk fs0.drv) (hk : Keeps fs0 fs) (hro : fp.flag &&& FA_WRITE = 0)
    (hr : 2 ≤ fatEntry fs0 c ∧ fatEntry fs0 c < fs0.n_fatent) :
    ∃ fs', Keeps fs0 fs' ∧
      f_lseek_step fs fp c
        = some (SeekPass.next fs' { fp with clust := fatEntry fs0 c } (fatEntry fs0 c)) := by
  obtain ⟨k, e⟩ := get_fat_keeps_device fs0 fs fp.obj c hv hk hd
  have hlt := fatEntry_lt fs0 c
  refine ⟨(get_fat fs fp.obj c).2, k, ?_⟩
  unfold f_lseek_step
  dsimp only
  rw [if_neg (fun h => h hro)]
  dsimp only
  rw [e, if_neg (fun h => h.1 hro), if_neg (by omega), k.1.n_fatent, if_neg (by omega)]

/-- The cluster following loop of `f_lseek` for a handle without write access
on a device whose transfers complete: from cluster number `j` of a chain that
covers the target it walks to the cluster that holds the byte before the
target. -/
theorem f_lseek_follow_ro (fs0 : FATFS) (sclust bcs tgt : Nat) (hv : VolOk fs0)
    (hd : DeviceOk fs0.drv) (hb : 0 < bcs) (ht : tgt < W32)
    (hcov : ∀ i, i * bcs < tgt →
      2 ≤ clusterAt fs0 sclust i ∧ clusterAt fs0 sclust i < fs0.n_fatent) :
    ∀ (fuel : Nat) (fs : FATFS) (fp : FIL) (j rem : Nat), Keeps fs0 fs →
      fp.flag &&& FA_WRITE = 0 → fp.fptr = j * bcs → j * bcs + rem = tgt → 0 < rem →
      rem / bcs < fuel →
      ∃ fs' fp' J r, f_lseek_follow bcs fuel fs fp (clusterAt fs0 sclust j) rem
          = some (Sum.inr (clusterAt fs0 sclust J, r), fs', fp') ∧
        Keeps fs0 fs' ∧ fp'.fptr = J * bcs ∧ J * bcs + r = tgt ∧ 0 < r ∧ r ≤ bcs ∧
        fp'.obj = fp.obj ∧ fp'.flag = fp.flag ∧ fp'.err = fp.err ∧ fp'.sect = fp.sect ∧
        (J = j ∨ fp'.clust = clusterAt fs0 sclust J) ∧ (J = j → fp'.clust = fp.clust) := by
  intro fuel
  induction fuel with
  | zero => intro fs fp j rem _ _ _ _ _ hf; exact absurd hf (Nat.not_lt_zero _)
  | succ n ih =>
    intro fs fp j rem hk hro hp hsum hpos hf
    unfold f_lseek_follow
    by_cases hgt : rem > bcs
    · rw [if_pos hgt]
      have hin : (j + 1) * bcs < tgt := by
        rw [Nat.add_mul, Nat.one_mul]
        omega
      have hr := hcov (j + 1) hin
      rw [clusterAt_succ] at hr
      obtain ⟨fs1, k1, e1⟩ := f_lseek_step_ro fs0 fs { fp with fptr := (fp.fptr + bcs) % W32 }
        (clusterAt fs0 sclust j) hv hd hk hro hr
      rw [e1]
      dsimp only
      rw [← clusterAt_succ]
      have hq : (rem - bcs) / bcs < n := by
        have : rem / bcs = (rem - bcs) / bcs + 1 := by
          rw [← Nat.sub_add_cancel (Nat.le_of_lt hgt)]
          rw [Nat.add_sub_cancel, Nat.add_div_right _ hb]
        omega
      have hp1 : (fp.fptr + bcs) % W32 = (j + 1) * bcs := by
        rw [hp, Nat.add_mul, Nat.one_mul]
        apply Nat.mod_eq_of_lt
        rw [Nat.add_mul, Nat.one_mul] at hin
        omega
      obtain ⟨fs', fp', J, r, a1, a2, a3, a4, a5, a6, a7, a8, a9, a10, a11, a12⟩ :=
        ih fs1 { fp with fptr := (fp.fptr + bcs) % W32, clust := clusterAt fs0 sclust (j + 1) }
          (j + 1) (rem - bcs) k1 hro hp1 (by rw [Nat.add_mul, Nat.one_mul]; omega) (by omega) hq
      refine ⟨fs', fp', J, r, a1, a2, a3, a4, a5, a6, a7, a8, a9, a10, ?_, ?_⟩
      · rcases a11 with h | h
        · right
          rw [a12 h, h]
        · right
          exact h
      · intro hJ
        exfalso
        have : J * bcs + r = tgt := a4
        rw [hJ] at this
        omega
    · rw [if_neg hgt]
      exact ⟨fs, fp, j, rem, rfl, hk, hp, hsum, hpos, Nat.le_of_not_lt hgt, rfl, rfl, rfl, rfl,
        Or.inl rfl, fun _ => rfl⟩

theorem clust2sect_pos (fs : FATFS) (c : Nat) (hv : VolOk fs) (hg : DataOk fs)
    (hc : 2 ≤ c ∧ c < fs.n_fatent) : clust2sect fs c ≠ 0 := by
  obtain ⟨-, hdb, hend⟩ := hg
  have hn : fs.n_fatent ≤ 0x0FFFFFF7 := by
    rcases hv.2.2.2 with ⟨_, hh, _⟩ | ⟨_, hh, _⟩ | ⟨_, hh, _⟩ <;> omega
  unfold clust2sect
  dsimp only
  have e1 : (c + W32 - 2) % W32 = c - 2 := by unfold W32; omega
  have e2 : (fs.n_fatent + W32 - 2) % W32 = fs.n_fatent - 2 := by unfold W32; omega
  rw [e1, e2, if_neg (by omega)]
  have hle : (c - 2) * fs.csize ≤ (fs.n_fatent - 2) * fs.csize :=
    Nat.mul_le_mul_right _ (by omega)
  rw [Nat.mod_eq_of_lt (by omega)]
  omega

theorem f_lseek_walk_ro (fs0 fs : FATFS) (fp : FIL) (sclust bcs tgt j rem : Nat) (hv : VolOk fs0)
    (hg : DataOk fs0) (hd : DeviceOk fs0.drv) (hb : 0 < bcs) (ht : tgt < W32)
    (hcov : ∀ i, i * bcs < tgt →
      2 ≤ clusterAt fs0 sclust i ∧ clusterAt fs0 sclust i < fs0.n_fatent)
    (hk : Keeps fs0 fs) (hro : fp.flag &&& FA_WRITE = 0) (hp : fp.fptr = j * bcs)
    (hsum : j * bcs + rem = tgt) (hpos : 0 < rem) (hcl : fp.clust = clusterAt fs0 sclust j) :
    ∃ fs' fp' nsect, f_lseek_walk fs fp (clusterAt fs0 sclust j) rem bcs
        = some (Sum.inr nsect, fs', fp') ∧
      Keeps fs0 fs' ∧ fp'.fptr = tgt ∧ fp'.obj = fp.obj ∧ fp'.flag = fp.flag ∧
      fp'.err = fp.err ∧ fp'.sect = fp.sect ∧
      fp'.clust = clusterAt fs0 sclust ((tgt - 1) / bcs) := by
  have hj := hcov j (by omega)
  obtain ⟨fs', fp', J, r, a1, a2, a3, a4, a5, a6, a7, a8, a9, a10, a11, a12⟩ :=
    f_lseek_follow_ro fs0 sclust bcs tgt hv hd hb ht hcov (rem / bcs + 1) fs fp j rem hk hro hp
      hsum hpos (Nat.lt_succ_self _)
  have hJ : (tgt - 1) / bcs = J := by
    apply Nat.div_eq_of_lt_le
    · omega
    · rw [Nat.succ_mul]
      omega
  have hcl' : fp'.clust = clusterAt fs0 sclust ((tgt - 1) / bcs) := by
    rw [hJ]
    rcases a11 with h | h
    · rw [a12 h, hcl, h]
    · exact h
  have hf : (fp'.fptr + r) % W32 = tgt := by
    rw [a3, a4]
    exact Nat.mod_eq_of_lt ht
  have hJr := hcov J (by omega)
  have hc2 : clust2sect fs' (clusterAt fs0 sclust J) ≠ 0 :=
    clust2sect_pos fs' _ (a2.1.volOk hv)
      (by unfold DataOk at hg ⊢; rw [a2.1.csize, a2.1.database, a2.1.n_fatent]; exact hg)
      (by rw [a2.1.n_fatent]; exact hJr)
  unfold f_lseek_walk
  rw [if_pos (by omega), a1]
  dsimp only
  rw [hf]
  by_cases hs : r % SS ≠ 0
  · rw [if_pos hs, if_neg hc2]
    exact ⟨_, _, _, rfl, a2, rfl, a7, a8, a9, a10, hcl'⟩
  · rw [if_neg hs]
    exact ⟨_, _, _, rfl, a2, rfl, a7, a8, a9, a10, hcl'⟩

theorem DataOk.bcs {fs : FATFS} (hg : DataOk fs) :
    ∃ k, k ≤ 16 ∧ fs.csize * SS = 2 ^ k ∧ 0 < fs.csize * SS ∧ fs.csize * SS % W32 = fs.csize * SS := by
  obtain ⟨⟨k, hk, hc⟩, -, -⟩ := hg
  have h9 : SS = 2 ^ 9 := rfl
  have hp : fs.csize * SS = 2 ^ (k + 9) := by rw [hc, h9, Nat.pow_add]
  have hle : 2 ^ (k + 9) ≤ 2 ^ 16 := Nat.pow_le_pow_right (by decide) (by omega)
  have hpos : 0 < 2 ^ (k + 9) := Nat.two_pow_pos _
  refine ⟨k + 9, by omega, hp, by omega, ?_⟩
  apply Nat.mod_eq_of_lt
  unfold W32
  omega

theorem f_lseek_move_ro (fs : FATFS) (fp : FIL) (tgt ifptr : Nat) (hv : VolOk fs)
    (hg : DataOk fs) (hw : WinInv fs) (hd : DeviceOk fs.drv) (hro : fp.flag &&& FA_WRITE = 0)
    (hpos : 0 < tgt) (ht : tgt < W32) (hi : ifptr < W32) (hf0 : fp.fptr = 0)
    (hcov : Covers fs fp.obj tgt)
    (hat : 0 < ifptr → fp.clust = clusterAt fs fp.obj.sclust ((ifptr - 1) / (fs.csize * SS))) :
    ∃ fs' fp' nsect, f_lseek_move fs fp tgt ifptr = some (Sum.inr nsect, fs', fp') ∧
      Keeps fs fs' ∧ fp'.fptr = tgt ∧ fp'.obj = fp.obj ∧ fp'.flag = fp.flag ∧
      fp'.err = fp.err ∧ fp'.sect = fp.sect ∧
      fp'.clust = clusterAt fs fp.obj.sclust ((tgt - 1) / (fs.csize * SS)) := by
  obtain ⟨k, hk, hpow, hb, hmod⟩ := hg.bcs
  unfold Covers at hcov
  unfold f_lseek_move f_lseek_origin
  dsimp only
  rw [hmod]
  generalize hbcs : fs.csize * SS = bcs at hcov hat hpow hb ⊢
  by_cases hA : ifptr > 0 ∧ (tgt - 1) / bcs ≥ (ifptr - 1) / bcs
  · rw [if_pos hA]
    dsimp only
    have hmask : (ifptr - 1) &&& (W32 - 1 - (bcs + W32 - 1) % W32)
        = (ifptr - 1) / bcs * bcs := by
      rw [hpow]
      exact and_not_mask _ _ (by omega) hk
    rw [hmask]
    have hq : (ifptr - 1) / bcs * bcs ≤ tgt - 1 :=
      Nat.le_trans (Nat.mul_le_mul_right _ hA.2) (Nat.div_mul_le_self _ _)
    have hrem : (tgt + W32 - (ifptr - 1) / bcs * bcs) % W32 = tgt - (ifptr - 1) / bcs * bcs := by
      unfold W32 at ht ⊢
      omega
    rw [hrem, hat hA.1]
    exact f_lseek_walk_ro fs fs
      { fp with fptr := (ifptr - 1) / bcs * bcs,
                clust := clusterAt fs fp.obj.sclust ((ifptr - 1) / bcs) }
      fp.obj.sclust bcs tgt
      ((ifptr - 1) / bcs) (tgt - (ifptr - 1) / bcs * bcs) hv hg hd hb ht hcov (Keeps.self fs hw)
      hro rfl (by omega) (by omega) rfl
  · rw [if_neg hA]
    have h0 := hcov 0 (by omega)
    have hc0 : clusterAt fs fp.obj.sclust 0 = fp.obj.sclust := rfl
    rw [hc0] at h0
    rw [if_neg (show ¬ fp.obj.sclust = 0 by omega)]
    dsimp only
    have := f_lseek_walk_ro fs fs { fp with clust := fp.obj.sclust } fp.obj.sclust bcs tgt
      0 tgt hv hg hd hb ht hcov (Keeps.self fs hw) hro (by rw [Nat.zero_mul]; exact hf0)
      (by omega) hpos rfl
    rw [hc0] at this
    exact this

theorem f_lseek_end_ro (fs : FATFS) (fp : FIL) (nsect : Nat) (hd : DeviceOk fs.drv)
    (hnd : fp.flag &&& FA_DIRTY = 0) (hle : fp.fptr ≤ fp.obj.objsize) :
    ∃ fp', f_lseek_end fs fp nsect = (FR_OK, fs, fp') ∧ fp'.fptr = fp.fptr ∧
      fp'.obj = fp.obj ∧ fp'.flag = fp.flag ∧ fp'.err = fp.err ∧ fp'.clust = fp.clust := by
  unfold f_lseek_end
  dsimp only
  rw [if_neg (Nat.not_lt.2 hle)]
  by_cases hc : fp.fptr % SS ≠ 0 ∧ nsect ≠ fp.sect
  · rw [if_pos hc]
    have hfl : file_flush fs fp = (true, fs, fp) := by
      unfold file_flush
      rw [if_neg (fun h => h hnd)]
    rw [hfl]
    dsimp only
    rw [if_neg (by decide)]
    unfold disk_read
    rw [if_pos (hd.1 nsect)]
    exact ⟨_, rfl, rfl, rfl, rfl, rfl, rfl⟩
  · rw [if_neg hc]
    exact ⟨_, rfl, rfl, rfl, rfl, rfl, rfl⟩

theorem clusterAt_congr {a b : FATFS} (h : ∀ c, fatEntry b c = fatEntry a c) (c i : Nat) :
    clusterAt b c i = clusterAt a c i := by
  unfold clusterAt
  rw [show fatEntry b = fatEntry a from funext h]

theorem ReadHandle.keeps {fs fs' : FATFS} {fp fp' : FIL} (hv : VolOk fs) (hh : ReadHandle fs fp)
    (hk : Keeps fs fs') (ho : fp'.obj = fp.obj) (hf : fp'.flag = fp.flag) (he : fp'.err = fp.err)
    (hp : fp'.fptr ≤ fp.obj.objsize)
    (hc : 0 < fp'.fptr →
      fp'.clust = clusterAt fs fp.obj.sclust ((fp'.fptr - 1) / (fs.csize * SS))) :
    ReadHandle fs' fp' := by
  obtain ⟨hval, herr, hro, hnd, hsz, hcov, -⟩ := hh
  have hfat := fatEntry_congr hk.1 hk.2.2 hv
  unfold ReadHandle Covers AtCluster
  rw [ho, hf, he, validate_geom hk.1.sameGeom, hk.1.csize, hk.1.n_fatent]
  refine ⟨hval, herr, hro, hnd, hsz, fun i hi => ?_, hp, fun h0 => ?_⟩
  · rw [clusterAt_congr hfat]
    exact hcov i hi
  · rw [clusterAt_congr hfat]
    exact hc h0

/-- C30. On the exFAT volume `exExfat`, whose device completes every
transfer, the file `exContigFile` of 1300 bytes is open for reading and lies
in three contiguous clusters. The seek to offset 1000 has to follow the chain
once; `get_fat` leaves its `FS_EXFAT` case with `break` and returns
`0xFFFFFFFF`, so `f_lseek` aborts with `FR_DISK_ERR` instead of `FR_OK`, the
code is latched in `err` and the file pointer stops at 512, not at
`min(1000, 1300)`. -/
theorem C30_seek_fails_on_exfat :
    DeviceOk exExfat.drv ∧ validate exExfat (some exContigFile.obj) = FR_OK ∧
    exContigFile.flag &&& FA_WRITE = 0 ∧
    (get_fat exExfat exContigFile.obj 2).1 = 0xFFFFFFFF ∧
    (f_lseek exExfat exContigFile 1000).map (fun r => r.1) = some FR_DISK_ERR ∧
    (f_lseek exExfat exContigFile 1000).map (fun r => r.2.2.fptr) = some 512 ∧
    (f_lseek exExfat exContigFile 1000).map (fun r => r.2.2.err) = some 1 :=
  ⟨⟨fun _ => rfl, fun _ => rfl⟩, by decide, by decide, by decide, by decide, by decide,
    by decide⟩

/-- The seek of a handle without write access on FAT12/FAT16/FAT32. For a
valid file object open without write access (`ReadHandle`: no latched error, a
clean sector cache, a chain that covers the size, a file pointer that agrees
with the current cluster) on a FAT12/16/32 volume with a device whose
transfers complete, `f_lseek(fp, ofs)` returns `FR_OK` with
`fptr = min(ofs, size)` for every `ofs`; the object identifier (size and start
cluster) and the flags (`FA_MODIFIED` among them) are unchanged, every FAT
entry is as before, and the file object is again such a handle. -/
theorem f_lseek_read_only_fat (fs : FATFS) (fp : FIL) (ofs : Nat) (hv : VolOk fs)
    (hg : DataOk fs) (hw : WinInv fs) (hd : DeviceOk fs.drv) (hh : ReadHandle fs fp) :
    ∃ fs' fp', f_lseek fs fp ofs = some (FR_OK, fs', fp') ∧
      fp'.fptr = min ofs fp.obj.objsize ∧ fp'.obj = fp.obj ∧ fp'.flag = fp.flag ∧
      Keeps fs fs' ∧ (∀ c, fatEntry fs' c = fatEntry fs c) ∧ ReadHandle fs' fp' := by
  obtain ⟨hval, herr, hro, hnd, hsz, hcov, hle, hat⟩ := id hh
  have hclamp : (if ofs > fp.obj.objsize ∧ fp.flag &&& FA_WRITE = 0 then fp.obj.objsize else ofs)
      = min ofs fp.obj.objsize := by
    by_cases hc : ofs > fp.obj.objsize
    · rw [if_pos ⟨hc, hro⟩, Nat.min_eq_right (Nat.le_of_lt hc)]
    · rw [if_neg (fun h => hc h.1), Nat.min_eq_left (Nat.le_of_not_lt hc)]
  have h0 : result_of 0 = FR_OK := rfl
  unfold f_lseek
  dsimp only
  rw [hval, if_pos rfl, herr, h0, if_neg (fun h => hv.not_exfat h.2)]
  dsimp only
  rw [if_neg (fun h => h rfl), hclamp]
  have htle : min ofs fp.obj.objsize ≤ fp.obj.objsize := Nat.min_le_right _ _
  generalize min ofs fp.obj.objsize = tgt at htle ⊢
  by_cases hp : tgt > 0
  · rw [if_pos hp]
    obtain ⟨fs', fp1, nsect, e, k, a1, a2, a3, a4, a5, a6⟩ :=
      f_lseek_move_ro fs { fp with fptr := 0 } tgt fp.fptr hv hg hw hd hro hp (by omega)
        (by omega) rfl (fun i hi => hcov i (Nat.lt_of_lt_of_le hi htle)) hat
    rw [e]
    dsimp only
    obtain ⟨fp2, e2, b1, b2, b3, b4, b5⟩ := f_lseek_end_ro fs' fp1 nsect (k.1.deviceOk hd)
      (by rw [a3]; exact hnd) (by rw [a1, a2]; exact htle)
    rw [e2]
    refine ⟨fs', fp2, rfl, b1.trans a1, b2.trans a2, b3.trans a3, k,
      fatEntry_congr k.1 k.2.2 hv, ?_⟩
    apply ReadHandle.keeps hv hh k (b2.trans a2) (b3.trans a3) (b4.trans a4)
    · rw [b1, a1]
      exact htle
    · intro _
      rw [b5, a6, b1, a1]
  · rw [if_neg hp]
    obtain ⟨fp2, e2, b1, b2, b3, b4, b5⟩ := f_lseek_end_ro fs { fp with fptr := 0 } 0 hd hnd
      (Nat.zero_le _)
    rw [e2]
    have hb1 : fp2.fptr = 0 := b1
    refine ⟨fs, fp2, rfl, ?_, b2, b3, Keeps.self fs hw, fun _ => rfl, ?_⟩
    · rw [hb1]
      omega
    · apply ReadHandle.keeps hv hh (Keeps.self fs hw) b2 b3 b4
      · rw [hb1]
        exact Nat.zero_le _
      · intro h
        rw [hb1] at h
        exact absurd h (Nat.lt_irrefl 0)

theorem exFat12File_dataOk : DataOk exFat12File :=
  ⟨⟨0, by decide, rfl⟩, by decide, by decide⟩

theorem exReadFile_handle : ReadHandle exFat12File exReadFile := by
  refine ⟨by decide, rfl, by decide, by decide, by decide, ?_, by decide, ?_⟩
  · intro i hi
    have h3 : i < 3 := by
      have e : exFat12File.csize * SS = 512 := rfl
      have s : exReadFile.obj.objsize = 1300 := rfl
      rw [e, s] at hi
      omega
    interval_cases i <;> decide
  · intro h
    exact absurd h (by decide)

/-- The seek to offset 2000 in the file `exReadFile` of 1300 bytes on
`exFat12File` ends at 1300, in cluster 5, the third of the chain. -/
theorem f_lseek_read_only_fat_example :
    ∃ fs' fp', f_lseek exFat12File exReadFile 2000 = some (FR_OK, fs', fp') ∧
      fp'.fptr = 1300 ∧ fp'.obj = exReadFile.obj ∧ fp'.flag = exReadFile.flag ∧
      (∀ c, fatEntry fs' c = fatEntry exFat12File c) ∧ fp'.clust = 5 := by
  obtain ⟨fs', fp', e, a1, a2, a3, a4, a5, a6⟩ :=
    f_lseek_read_only_fat exFat12File exReadFile 2000 exFat12File_volOk exFat12File_dataOk
      exFat12File_winInv exFat12File_deviceOk exReadFile_handle
  refine ⟨fs', fp', e, a1, a2, a3, a5, ?_⟩
  have hc := a6.2.2.2.2.2.2.2
  have hf : fp'.fptr = 1300 := a1
  rw [hf, a2] at hc
  have fe : ∀ c, fatEntry fs' c = fatEntry exFat12File c := a5
  rw [hc (by decide), clusterAt_congr fe, a4.1.csize]
  decide

theorem create_chain_fat_obj (fs : FATFS) (obj : FFOBJID) (clst scl : Nat) (x : Nat) (f : FATFS)
    (o : FFOBJID) (h : create_chain_fat fs obj clst scl = some (x, f, o)) : o = obj := by
  unfold create_chain_fat at h
  generalize create_chain_near fs obj clst scl = nr at h
  rcases nr with ⟨v | ⟨ncl, scl2⟩, fs1⟩
  · dsimp only at h
    injection h with h
    injection h with h1 h2
    injection h2 with h2 h3
    exact h3.symm
  · dsimp only at h
    by_cases h0 : ncl = 0
    · rw [if_pos h0] at h
      generalize hs : create_chain_search obj scl2 (fs1.n_fatent + 1) fs1 scl2 = sr at h
      rcases sr with _ | ⟨v | k, fs2⟩
      · exact absurd h (by simp)
      · dsimp only at h
        injection h with h
        injection h with h1 h2
        injection h2 with h2 h3
        exact h3.symm
      · dsimp only at h
        injection h with h
        injection h with h1 h2
        injection h2 with h2 h3
        exact h3.symm
    · rw [if_neg h0] at h
      dsimp only at h
      injection h with h
      injection h with h1 h2
      injection h2 with h2 h3
      exact h3.symm

/-- On a FAT12/FAT16/FAT32 volume `create_chain` returns the object identifier
as it was. -/
theorem create_chain_obj (fs : FATFS) (obj : FFOBJID) (clst : Nat) (x : Nat) (f : FATFS)
    (o : FFOBJID) (ht : fs.fs_type ≠ FS_EXFAT) (h : create_chain fs obj clst = some (x, f, o)) :
    o = obj := by
  unfold create_chain at h
  have hs := create_chain_start_sameVol fs obj clst
  generalize create_chain_start fs obj clst = sr at h hs
  rcases sr with ⟨v | scl, fs1⟩
  · dsimp only at h hs
    injection h with h
    injection h with h1 h2
    injection h2 with h2 h3
    exact h3.symm
  · dsimp only at h hs
    by_cases h0 : fs1.free_clust = 0
    · rw [if_pos h0] at h
      injection h with h
      injection h with h1 h2
      injection h2 with h2 h3
      exact h3.symm
    rw [if_neg h0] at h
    have he : ¬ fs1.fs_type = FS_EXFAT := by rw [hs.fs_type]; exact ht
    rw [if_neg he] at h
    exact create_chain_fat_obj _ _ _ _ _ _ _ h

theorem f_write_copy_ok (fs0 fs : FATFS) (fp0 fp : FIL) (wbuff : Nat → Nat) (bw btw : Nat)
    (hg : SameGeom fs0 fs) (hp : fp.fptr = fp0.fptr) (ho : fp.obj.objsize = fp0.obj.objsize) :
    PassOk fs0 fp0 btw (f_write_copy fs fp wbuff bw btw) := by
  unfold f_write_copy
  refine ⟨hg, hp, ho, ?_⟩
  dsimp only
  split_ifs <;> omega

theorem f_write_run_le (csize csect btw : Nat) (hcs : csect < csize) (hc : csize < W16)
    (hb : btw < W32) :
    SS * (if (csect + btw / SS) % W32 > csize then (csize + W32 - csect) % W32 else btw / SS)
      % W32 ≤ btw := by
  unfold SS W32 W16 at *
  split_ifs <;> omega

theorem disk_write_n_geom (fs : FATFS) (buff : Nat → Nat) (sect cc : Nat) :
    SameGeom fs (set_drv fs (disk_write_n fs.drv buff sect cc).2) := by
  unfold disk_write_n set_drv SameGeom
  split_ifs <;> rfl

theorem f_write_direct_ok (fs0 fs : FATFS) (fp0 fp : FIL) (wbuff : Nat → Nat)
    (bw btw csect sect : Nat) (hg : SameGeom fs0 fs) (hp : fp.fptr = fp0.fptr)
    (ho : fp.obj.objsize = fp0.obj.objsize) (hcs : csect < fs.csize) (hc : fs.csize < W16)
    (hb : btw < W32) :
    PassOk fs0 fp0 btw (f_write_direct fs fp wbuff bw btw csect sect) := by
  have hle := f_write_run_le fs.csize csect btw hcs hc hb
  unfold f_write_direct
  dsimp only
  generalize (if (csect + btw / SS) % W32 > fs.csize then (fs.csize + W32 - csect) % W32
    else btw / SS) = cc at hle ⊢
  by_cases h1 : (disk_write_n fs.drv (fun i => wbuff (bw + i)) sect cc).1 = false
  · rw [if_pos h1]
    exact fun h => FRESULT.noConfusion h
  · rw [if_neg h1]
    refine ⟨hg.comp' (disk_write_n_geom _ _ _ _), ?_, ?_, hle⟩
    · rw [← hp]
      split_ifs <;> rfl
    · rw [← ho]
      split_ifs <;> rfl

theorem f_write_fill_ok (fs0 fs : FATFS) (fp0 fp : FIL) (wbuff : Nat → Nat)
    (bw btw sect : Nat) (hg : SameGeom fs0 fs) (hp : fp.fptr = fp0.fptr)
    (ho : fp.obj.objsize = fp0.obj.objsize) :
    PassOk fs0 fp0 btw (f_write_fill fs fp wbuff bw btw sect) := by
  unfold f_write_fill
  by_cases h4 : fp.sect ≠ sect ∧ fp.fptr < fp.obj.objsize
  · rw [if_pos h4]
    cases disk_read fs.drv sect with
    | none => exact fun h => FRESULT.noConfusion h
    | some b => exact f_write_copy_ok _ _ _ _ _ _ _ hg hp ho
  · rw [if_neg h4]
    exact f_write_copy_ok _ _ _ _ _ _ _ hg hp ho

theorem f_write_sector_ok (fs0 fs : FATFS) (fp0 fp : FIL) (wbuff : Nat → Nat)
    (bw btw csect : Nat) (p : WritePass) (hg : SameGeom fs0 fs) (hp : fp.fptr = fp0.fptr)
    (ho : fp.obj.objsize = fp0.obj.objsize) (hcs : csect < fs.csize) (hc : fs.csize < W16)
    (hb : btw < W32) (h : f_write_sector fs fp wbuff bw btw csect = p) :
    PassOk fs0 fp0 btw p := by
  unfold f_write_sector at h
  dsimp only at h
  obtain ⟨f1, f2, f3, -, -, -, -⟩ := file_flush_frame fs fp
  generalize file_flush fs fp = w at f1 f2 f3 h
  have hg1 : SameGeom fs0 w.2.1 := hg.comp' f1.sameGeom
  have hp1 : w.2.2.fptr = fp0.fptr := f3.trans hp
  have ho1 : w.2.2.obj.objsize = fp0.obj.objsize := by rw [f2]; exact ho
  by_cases h1 : w.1 = false
  · rw [if_pos h1] at h
    subst h
    exact fun h => FRESULT.noConfusion h
  rw [if_neg h1] at h
  by_cases h2 : clust2sect w.2.1 w.2.2.clust = 0
  · rw [if_pos h2] at h
    subst h
    exact fun h => FRESULT.noConfusion h
  rw [if_neg h2] at h
  by_cases h3 : btw / SS > 0
  · rw [if_pos h3] at h
    subst h
    exact f_write_direct_ok _ _ _ _ _ _ _ _ _ hg1 hp1 ho1 (by rw [f1.csize]; exact hcs)
      (by rw [f1.csize]; exact hc) hb
  · rw [if_neg h3] at h
    subst h
    exact f_write_fill_ok _ _ _ _ _ _ _ _ hg1 hp1 ho1

theorem f_write_cluster_frame (fs : FATFS) (fp : FIL) (c : Nat) (fs1 : FATFS) (o : FFOBJID)
    (ht : fs.fs_type ≠ FS_EXFAT) (h : f_write_cluster fs fp = some (c, fs1, o)) :
    SameGeom fs fs1 ∧ o = fp.obj := by
  unfold f_write_cluster at h
  by_cases a : fp.fptr = 0
  · rw [if_pos a] at h
    by_cases b : fp.obj.sclust = 0
    · rw [if_pos b] at h
      exact ⟨(create_chain_hint _ _ _ _ _ _ h).1, create_chain_obj _ _ _ _ _ _ ht h⟩
    · rw [if_neg b] at h
      injection h with h
      injection h with h1 h2
      injection h2 with h2 h3
      subst h2
      exact ⟨SameGeom.rfl' _, h3.symm⟩
  · rw [if_neg a] at h
    exact ⟨(create_chain_hint _ _ _ _ _ _ h).1, create_chain_obj _ _ _ _ _ _ ht h⟩

theorem f_write_step_ok (fs : FATFS) (fp : FIL) (wbuff : Nat → Nat) (bw btw : Nat)
    (p : WritePass) (ht : fs.fs_type ≠ FS_EXFAT) (h1 : 1 ≤ fs.csize) (hc : fs.csize < W16)
    (hb : btw < W32) (h : f_write_step fs fp wbuff bw btw = some p) : PassOk fs fp btw p := by
  unfold f_write_step at h
  by_cases a : fp.fptr % SS = 0
  · rw [if_pos a] at h
    dsimp only at h
    have hcs : (fp.fptr / SS) &&& ((fs.csize + W32 - 1) % W32) < fs.csize := by
      have e : (fs.csize + W32 - 1) % W32 = fs.csize - 1 := by
        unfold W32 W16 at *
        omega
      rw [e]
      have := @Nat.and_le_right (fp.fptr / SS) (fs.csize - 1)
      omega
    generalize (fp.fptr / SS) &&& ((fs.csize + W32 - 1) % W32) = csect at h hcs
    by_cases b : csect = 0
    · rw [if_pos b] at h
      generalize hcl : f_write_cluster fs fp = cl at h
      rcases cl with _ | ⟨clst, fs1, obj1⟩
      · exact absurd h (fun h => Option.noConfusion h)
      obtain ⟨hg, hobj⟩ := f_write_cluster_frame fs fp clst fs1 obj1 ht hcl
      dsimp only at h
      by_cases c0 : clst = 0
      · rw [if_pos c0] at h
        injection h with h
        subst h
        exact ⟨rfl, by rw [hobj]⟩
      rw [if_neg c0] at h
      by_cases c1 : clst = 1
      · rw [if_pos c1] at h
        injection h with h
        subst h
        exact fun h => FRESULT.noConfusion h
      rw [if_neg c1] at h
      by_cases c2 : clst = 0xFFFFFFFF
      · rw [if_pos c2] at h
        injection h with h
        subst h
        exact fun h => FRESULT.noConfusion h
      rw [if_neg c2] at h
      injection h with h
      apply f_write_sector_ok fs fs1 fp _ wbuff bw btw csect p hg ?_ ?_ ?_ ?_ hb h
      · rfl
      · show (if obj1.sclust = 0 then { obj1 with sclust := clst } else obj1).objsize
          = fp.obj.objsize
        rw [← hobj]
        split_ifs <;> rfl
      · rw [hg.csize']
        exact hcs
      · rw [hg.csize']
        exact hc
    · rw [if_neg b] at h
      injection h with h
      exact f_write_sector_ok fs fs fp fp wbuff bw btw csect p (SameGeom.rfl' _) rfl rfl hcs hc
        hb h
  · rw [if_neg a] at h
    injection h with h
    subst h
    exact f_write_copy_ok fs fs fp fp wbuff bw btw (SameGeom.rfl' _) rfl rfl

theorem f_write_advance_eq (fp : FIL) (wcnt : Nat) (h : fp.fptr + wcnt < W32) :
    (f_write_advance fp wcnt).fptr = fp.fptr + wcnt ∧
    (f_write_advance fp wcnt).obj.objsize = max fp.obj.objsize (fp.fptr + wcnt) := by
  unfold f_write_advance
  dsimp only
  rw [Nat.mod_eq_of_lt h]
  refine ⟨rfl, ?_⟩
  split_ifs <;> omega

theorem f_write_copy_not_full (fs : FATFS) (fp : FIL) (wbuff : Nat → Nat) (bw btw : Nat)
    (a : FATFS) (b : FIL) : f_write_copy fs fp wbuff bw btw ≠ WritePass.full a b := by
  unfold f_write_copy
  exact fun h => WritePass.noConfusion h

theorem f_write_direct_not_full (fs : FATFS) (fp : FIL) (wbuff : Nat → Nat)
    (bw btw csect sect : Nat) (a : FATFS) (b : FIL) :
    f_write_direct fs fp wbuff bw btw csect sect ≠ WritePass.full a b := by
  unfold f_write_direct
  dsimp only
  by_cases h1 : (disk_write_n fs.drv (fun i => wbuff (bw + i)) sect
      (if (csect + btw / SS) % W32 > fs.csize then (fs.csize + W32 - csect) % W32
        else btw / SS)).1 = false
  · rw [if_pos h1]
    exact fun h => WritePass.noConfusion h
  · rw [if_neg h1]
    exact fun h => WritePass.noConfusion h

theorem f_write_fill_not_full (fs : FATFS) (fp : FIL) (wbuff : Nat → Nat)
    (bw btw sect : Nat) (a : FATFS) (b : FIL) :
    f_write_fill fs fp wbuff bw btw sect ≠ WritePass.full a b := by
  unfold f_write_fill
  by_cases h4 : fp.sect ≠ sect ∧ fp.fptr < fp.obj.objsize
  · rw [if_pos h4]
    cases disk_read fs.drv sect with
    | none => exact fun h => WritePass.noConfusion h
    | some c => exact f_write_copy_not_full _ _ _ _ _ _ _
  · rw [if_neg h4]
    exact f_write_copy_not_full _ _ _ _ _ _ _

theorem f_write_sector_not_full (fs : FATFS) (fp : FIL) (wbuff : Nat → Nat)
    (bw btw csect : Nat) (a : FATFS) (b : FIL) :
    f_write_sector fs fp wbuff bw btw csect ≠ WritePass.full a b := by
  unfold f_write_sector
  dsimp only
  generalize file_flush fs fp = w
  by_cases h1 : w.1 = false
  · rw [if_pos h1]
    exact fun h => WritePass.noConfusion h
  rw [if_neg h1]
  by_cases h2 : clust2sect w.2.1 w.2.2.clust = 0
  · rw [if_pos h2]
    exact fun h => WritePass.noConfusion h
  rw [if_neg h2]
  by_cases h3 : btw / SS > 0
  · rw [if_pos h3]
    exact f_write_direct_not_full _ _ _ _ _ _ _ _ _
  · rw [if_neg h3]
    exact f_write_fill_not_full _ _ _ _ _ _ _ _

/-- A pass of the loop of `f_write` that reports a full disk has called
`create_chain` for the cluster that follows the file pointer (a new chain when
the file pointer is 0) and got 0, the result for `no free cluster`. -/
theorem f_write_step_full (fs : FATFS) (fp : FIL) (wbuff : Nat → Nat) (bw btw : Nat)
    (fs1 : FATFS) (fp1 : FIL)
    (h : f_write_step fs fp wbuff bw btw = some (WritePass.full fs1 fp1)) :
    create_chain fs fp.obj (if fp.fptr = 0 then 0 else fp.clust) = some (0, fs1, fp1.obj) := by
  unfold f_write_step at h
  by_cases a : fp.fptr % SS = 0
  · rw [if_pos a] at h
    dsimp only at h
    generalize (fp.fptr / SS) &&& ((fs.csize + W32 - 1) % W32) = csect at h
    by_cases b : csect = 0
    · rw [if_pos b] at h
      generalize hcl : f_write_cluster fs fp = cl at h
      rcases cl with _ | ⟨clst, fs2, obj2⟩
      · exact absurd h (fun h => Option.noConfusion h)
      dsimp only at h
      by_cases c0 : clst = 0
      · rw [if_pos c0] at h
        injection h with h
        injection h with h1 h2
        subst h1 h2 c0
        unfold f_write_cluster at hcl
        by_cases z : fp.fptr = 0
        · rw [if_pos z] at hcl ⊢
          by_cases s : fp.obj.sclust = 0
          · rw [if_pos s] at hcl
            exact hcl
          · rw [if_neg s] at hcl
            injection hcl with hcl
            injection hcl with e1 e2
            exact absurd e1 s
        · rw [if_neg z] at hcl ⊢
          exact hcl
      rw [if_neg c0] at h
      by_cases c1 : clst = 1
      · rw [if_pos c1] at h
        injection h with h
        exact WritePass.noConfusion h
      rw [if_neg c1] at h
      by_cases c2 : clst = 0xFFFFFFFF
      · rw [if_pos c2] at h
        injection h with h
        exact WritePass.noConfusion h
      rw [if_neg c2] at h
      injection h with h
      exact absurd h (f_write_sector_not_full _ _ _ _ _ _ _ _)
    · rw [if_neg b] at h
      injection h with h
      exact absurd h (f_write_sector_not_full _ _ _ _ _ _ _ _)
  · rw [if_neg a] at h
    injection h with h
    exact absurd h (f_write_copy_not_full _ _ _ _ _ _ _)

/-- The loop of `f_write` on a FAT12/FAT16/FAT32 volume: when it ends with
`FR_OK` the file pointer has advanced by the number of bytes written and the
size is the larger of the old size and the new file pointer; it has written
less than asked only after `create_chain` returned 0 at the file pointer it
ends with. -/
theorem f_write_loop_ok (wbuff : Nat → Nat) (fs' : FATFS) (fp' : FIL) (bw' : Nat) :
    ∀ (fuel : Nat) (fs : FATFS) (fp : FIL) (bw btw : Nat), fs.fs_type ≠ FS_EXFAT →
      1 ≤ fs.csize → fs.csize < W16 → fp.fptr + btw < W32 → bw + btw < W32 →
      fp.fptr ≤ fp.obj.objsize →
      f_write_loop wbuff fuel fs fp bw btw = some (FR_OK, fs', fp', bw') →
      bw ≤ bw' ∧ bw' ≤ bw + btw ∧ fp'.fptr = fp.fptr + (bw' - bw) ∧
      fp'.obj.objsize = max fp.obj.objsize (fp.fptr + (bw' - bw)) ∧
      (bw' < bw + btw → ∃ (fs1 : FATFS) (fp1 : FIL), SameGeom fs fs1 ∧ fp1.fptr = fp'.fptr ∧
        create_chain fs1 fp1.obj (if fp1.fptr = 0 then 0 else fp1.clust)
          = some (0, fs', fp'.obj)) := by
  intro fuel
  induction fuel with
  | zero =>
    intro fs fp bw btw _ _ _ _ _ _ h
    unfold f_write_loop at h
    exact absurd h (fun h => Option.noConfusion h)
  | succ n ih =>
    intro fs fp bw btw ht h1 hc hf hb hle h
    unfold f_write_loop at h
    by_cases hpos : btw > 0
    · rw [if_pos hpos] at h
      generalize hst : f_write_step fs fp wbuff bw btw = st at h
      rcases st with _ | p
      · exact absurd h (fun h => Option.noConfusion h)
      have ok := f_write_step_ok fs fp wbuff bw btw p ht h1 hc (by omega) hst
      cases p with
      | abort e fs1 fp1 =>
        dsimp only at h
        injection h with h
        injection h with h1 h2
        exact absurd h1 ok
      | full fs1 fp1 =>
        dsimp only at h
        injection h with h
        injection h with h1 h2
        injection h2 with h2 h3
        injection h3 with h3 h4
        subst h3 h4
        obtain ⟨p1, o1⟩ := ok
        have e1 : (set_modified fp1).fptr = fp.fptr := p1
        have e2 : (set_modified fp1).obj.objsize = fp.obj.objsize := o1
        rw [e1, e2]
        subst h2
        refine ⟨by omega, by omega, by omega, by omega, fun _ => ?_⟩
        exact ⟨fs, fp, SameGeom.rfl' _, rfl, f_write_step_full fs fp wbuff bw btw fs1 fp1 hst⟩
      | next fs1 fp1 wcnt =>
        dsimp only at h
        obtain ⟨g, p1, o1, w1⟩ := ok
        obtain ⟨a1, a2⟩ := f_write_advance_eq fp1 wcnt (by omega)
        have e1 : (bw + wcnt) % W32 = bw + wcnt := Nat.mod_eq_of_lt (by omega)
        have e2 : (btw + W32 - wcnt) % W32 = btw - wcnt := by
          unfold W32 at *
          omega
        rw [e1, e2] at h
        obtain ⟨r1, r2, r3, r4, r5⟩ := ih fs1 (f_write_advance fp1 wcnt) (bw + wcnt) (btw - wcnt)
          (by rw [g.fs_type']; exact ht) (by rw [g.csize']; exact h1) (by rw [g.csize']; exact hc)
          (by omega) (by omega) (by omega) h
        rw [a1, p1] at r3
        rw [a1, a2, p1, o1] at r4
        refine ⟨by clear r5; omega, by clear r5; omega, by clear r5; omega, ?_, fun hlt => ?_⟩
        · rw [r4]
          clear r5
          omega
        · obtain ⟨fsx, fpx, gx, px, cx⟩ := r5 (by omega)
          exact ⟨fsx, fpx, g.comp' gx, px, cx⟩
    · rw [if_neg hpos] at h
      injection h with h
      injection h with h1 h2
      injection h2 with h2 h3
      injection h3 with h3 h4
      subst h3 h4
      have e1 : (set_modified fp).fptr = fp.fptr := rfl
      have e2 : (set_modified fp).obj.objsize = fp.obj.objsize := rfl
      rw [e1, e2]
      exact ⟨by omega, by omega, by omega, by omega, fun hlt => absurd hlt (by omega)⟩

/-- C7 (counterexample). The handle `exFile` is valid on the volume `exFull`,
has write access, an empty file and the file pointer 0; no cluster of the
volume is free. `f_write` of 10 bytes leaves the loop with the `break` of a
full disk and returns `FR_OK` with `*bw = 0`: the size stays 0, not
`max(0, 0 + 10)`. -/
theorem C7_counterexample :
    validate exFull (some exFile.obj) = FR_OK ∧ exFile.flag &&& FA_WRITE ≠ 0 ∧
    exFile.fptr = 0 ∧ exFile.obj.objsize = 0 ∧
    (f_write exFull exFile (fun _ => 0x41) 10).map (fun r => r.1) = some FR_OK ∧
    (f_write exFull exFile (fun _ => 0x41) 10).map (fun r => r.2.2.1.obj.objsize) = some 0 ∧
    (f_write exFull exFile (fun _ => 0x41) 10).map (fun r => r.2.2.2) = some 0 :=
  ⟨by decide, by decide, rfl, rfl, by decide, by decide, by decide⟩

/-- C7 (amended). On a FAT12/FAT16/FAT32 volume with a cluster size of 1 to
65535 sectors, for a handle whose file pointer `off` is not past its 32-bit
size, whenever `f_write(fp, buf, n, &bw)` returns `FR_OK` the count `bw` is at
most `n`, the file pointer is `off + bw` and the size afterwards equals
`max(size_before, off + bw)`. The whole request is written (`bw = n`, so that
the size is `max(size_before, off + n)`) unless the request was clipped at
4 GiB - 1 (`off + n` does not fit in 32 bits) or the volume ran out of free
clusters: `create_chain`, called for the cluster at the file pointer
`off + bw` on the volume as the write left it up to the window, the device
data and the FSINFO values, returned 0. -/
theorem C7_size_after_write (fs fs' : FATFS) (fp fp' : FIL) (wbuff : Nat → Nat) (n bw : Nat)
    (ht : fs.fs_type ≠ FS_EXFAT) (h1 : 1 ≤ fs.csize) (hc : fs.csize < W16) (hn : n < W32)
    (hs : fp.obj.objsize < W32) (hp : fp.fptr ≤ fp.obj.objsize)
    (h : f_write fs fp wbuff n = some (FR_OK, fs', fp', bw)) :
    bw ≤ n ∧ fp'.fptr = fp.fptr + bw ∧
    fp'.obj.objsize = max fp.obj.objsize (fp.fptr + bw) ∧
    (bw = n ∨ W32 ≤ fp.fptr + n ∨
      ∃ (fs1 : FATFS) (fp1 : FIL), SameGeom fs fs1 ∧ fp1.fptr = fp.fptr + bw ∧
        create_chain fs1 fp1.obj (if fp1.fptr = 0 then 0 else fp1.clust)
          = some (0, fs', fp'.obj)) := by
  unfold f_write at h
  by_cases a : validate fs (some fp.obj) ≠ FR_OK
  · rw [if_pos a] at h
    injection h with h
    injection h with h1 h2
    exact absurd h1 a
  rw [if_neg a] at h
  by_cases b : result_of fp.err ≠ FR_OK
  · rw [if_pos b] at h
    injection h with h
    injection h with h1 h2
    exact absurd h1 b
  rw [if_neg b] at h
  by_cases c : fp.flag &&& FA_WRITE = 0
  · rw [if_pos c] at h
    injection h with h
    injection h with h1 h2
    exact absurd h1 (fun h => FRESULT.noConfusion h)
  rw [if_neg c] at h
  dsimp only at h
  generalize hbtw : (if fs.fs_type ≠ FS_EXFAT ∧ (fp.fptr + n) % W32 < fp.fptr
    then 0xFFFFFFFF - fp.fptr else n) = btw at h
  have hb1 : btw ≤ n ∧ fp.fptr + btw < W32 ∧ (fp.fptr + n < W32 → btw = n) := by
    rw [← hbtw]
    unfold W32 at *
    by_cases d : (fp.fptr + n) % 4294967296 < fp.fptr
    · rw [if_pos ⟨ht, d⟩]
      omega
    · rw [if_neg (fun h => d h.2)]
      omega
  obtain ⟨-, l2, l3, l4, l5⟩ := f_write_loop_ok wbuff fs' fp' bw (btw + 1) fs fp 0 btw ht h1 hc
    hb1.2.1 (by omega) hp h
  rw [Nat.sub_zero] at l3 l4
  refine ⟨by omega, l3, l4, ?_⟩
  by_cases e : bw = n
  · exact Or.inl e
  by_cases f : W32 ≤ fp.fptr + n
  · exact Or.inr (Or.inl f)
  · obtain ⟨fs1, fp1, g1, g2, g3⟩ := l5 (by have := hb1.2.2 (by omega); omega)
    exact Or.inr (Or.inr ⟨fs1, fp1, g1, g2.trans l3, g3⟩)

/-- C7 (witness): the write of 10 bytes at offset 0 to the empty file `exFile`
on the volume `exFat12`, which returns `FR_OK` with `*bw = 10` and the size
10. -/
theorem C7_size_after_write_witness :
    exFat12.fs_type ≠ FS_EXFAT ∧ 1 ≤ exFat12.csize ∧ exFat12.csize < W16 ∧
    exFile.fptr ≤ exFile.obj.objsize ∧
    ∃ fs' fp', f_write exFat12 exFile (fun _ => 0x41) 10 = some (FR_OK, fs', fp', 10) ∧
      fp'.fptr = 10 ∧ fp'.obj.objsize = 10 := by
  have hm : (f_write exFat12 exFile (fun _ => 0x41) 10).map (fun r => (r.1, r.2.2.2))
      = some (FR_OK, 10) := by decide
  refine ⟨by decide, by decide, by decide, by decide, ?_⟩
  rcases hc : f_write exFat12 exFile (fun _ => 0x41) 10 with _ | ⟨r, fs', fp', bw⟩
  · rw [hc] at hm
    exact absurd hm (fun h => Option.noConfusion h)
  · rw [hc] at hm
    injection hm with hm
    injection hm with hm1 hm2
    dsimp only at hm1 hm2
    subst hm1 hm2
    obtain ⟨-, a2, a3, -⟩ := C7_size_after_write exFat12 fs' exFile fp' (fun _ => 0x41) 10 10
      (by decide) (by decide) (by decide) (by decide) (by decide) (by decide) hc
    exact ⟨fs', fp', rfl, a2, a3⟩

/-- C35. On an exFAT volume `get_fat` never returns a cluster number or an
end-of-chain value: each path of the `FS_EXFAT` case that computes `val` ends
with `break`, which leaves the `switch` and reaches the final
`return 0xFFFFFFFF`, so the result is the disk-error value `0xFFFFFFFF` or the
internal-error value 1. For the contiguous file `exContigFile` (clusters 2, 3
and 4) the result for cluster 2 is `0xFFFFFFFF`, not 3, and the result for
the last cluster 4 is `0xFFFFFFFF`, not `0x7FFFFFFF`; the window is not
moved. -/
theorem C35_exfat_get_fat_never_returns_link (fs : FATFS) (obj : FFOBJID) (c : Nat)
    (ht : fs.fs_type = FS_EXFAT) :
    ((get_fat fs obj c).1 = 0xFFFFFFFF ∨ (get_fat fs obj c).1 = 1) ∧
    (obj.stat = 2 → (get_fat fs obj c).2 = fs) := by
  unfold get_fat
  have e1 : ¬ fs.fs_type = FS_FAT12 := by rw [ht]; decide
  have e2 : ¬ fs.fs_type = FS_FAT16 := by rw [ht]; decide
  have e3 : ¬ fs.fs_type = FS_FAT32 := by rw [ht]; decide
  by_cases hc : c < 2 ∨ c ≥ fs.n_fatent
  · rw [if_pos hc]
    exact ⟨Or.inr rfl, fun _ => rfl⟩
  rw [if_neg hc, if_neg e1, if_neg e2, if_neg e3, if_pos ht]
  dsimp only
  constructor
  · split_ifs <;> first | exact Or.inl rfl | exact Or.inr rfl
  · intro hs
    rw [if_neg (show ¬ obj.stat ≠ 2 from fun h => h hs)]
    split_ifs <;> rfl

/-- C35 (witness): the contiguous file `exContigFile` on the volume `exExfat`,
at its first and at its last cluster. -/
theorem C35_exfat_get_fat_never_returns_link_witness :
    exExfat.fs_type = FS_EXFAT ∧ exContigFile.obj.stat = 2 ∧
    (get_fat exExfat exContigFile.obj 2).1 = 0xFFFFFFFF ∧
    (get_fat exExfat exContigFile.obj 4).1 = 0xFFFFFFFF ∧
    ((get_fat exExfat exContigFile.obj 2).1 = 0xFFFFFFFF ∨
      (get_fat exExfat exContigFile.obj 2).1 = 1) :=
  ⟨rfl, rfl, by decide, by decide,
    (C35_exfat_get_fat_never_returns_link exExfat exContigFile.obj 2 rfl).1⟩

set_option maxRecDepth 100000 in
/-- C39. On a table of two blank entries, 255 read-mode registrations of the
root directory entry at offset 0 leave the read count `0xFF`, with which
`chk_share` for a read returns `FR_OK`. The 256th registration also returns
the index 1, and `Files[i].ctr + 1` makes the count `0x100`, the value of a
write lock: `chk_share` for a read now returns `FR_LOCKED`, and one
`dec_share` takes the value for a write lock and clears the entry, with 255
readers left. -/
theorem C39_read_count_becomes_write_lock :
    (share_reads {} 255 exShareVol).map (fun f => f.Files.map (fun e => e.ctr))
      = some [0xFF, 0] ∧
    (share_reads {} 255 exShareVol).map (fun f => chk_share f {} 0) = some FR_OK ∧
    (share_reads {} 256 exShareVol).map (fun f => f.Files.map (fun e => e.ctr))
      = some [0x100, 0] ∧
    (share_reads {} 256 exShareVol).map (fun f => chk_share f {} 0) = some FR_LOCKED ∧
    (share_reads {} 256 exShareVol).map (fun f => (dec_share f 1).2.Files)
      = some [{ fs := 0, clu := 0, idx := 0, ctr := 0 }, {}] :=
  ⟨by decide, by decide, by decide, by decide, by decide⟩

/-- C38 (counterexample). On the FAT12 volume `exFat12NoWrite`, `get_fat(2)`
returns 0. `put_fat(341, 0xABC)` returns `FR_OK` and leaves the window dirty
on the second FAT sector, which the device cannot write; the following
`get_fat(2)` has to move the window to the first FAT sector, the write-back
fails and it returns `0xFFFFFFFF`. -/
theorem C38_counterexample :
    (get_fat exFat12NoWrite {} 2).1 = 0 ∧
    (put_fat exFat12NoWrite 341 0xABC).1 = FR_OK ∧
    (get_fat (put_fat exFat12NoWrite 341 0xABC).2 {} 2).1 = 0xFFFFFFFF := by
  decide

/-- C38 (amended). On a FAT12, FAT16 or FAT32 volume whose window is coherent,
a successful `put_fat(c, v)` leaves the FAT entry that the volume holds for
every other cluster `d` as it was; `get_fat(d)` returns that entry before and
after the call whenever it does not return the disk-error value `0xFFFFFFFF`,
which it never does on a device whose transfers complete. This covers the
FAT12 entry that shares a byte with the entry of `c`, also when the shared
byte is the last or the first byte of a sector. -/
theorem C38_put_fat_changes_one_entry (fs fs' : FATFS) (obj : FFOBJID) (c d v : Nat)
    (hv : VolOk fs) (hw : WinInv fs) (hput : put_fat fs c v = (FR_OK, fs')) (hcd : d ≠ c) :
    fatEntry fs' d = fatEntry fs d ∧
    ((get_fat fs obj d).1 ≠ 0xFFFFFFFF → (get_fat fs' obj d).1 ≠ 0xFFFFFFFF →
      (get_fat fs' obj d).1 = (get_fat fs obj d).1) ∧
    (DeviceOk fs.drv → (get_fat fs' obj d).1 = (get_fat fs obj d).1) := by
  obtain ⟨_, _, hs, hw', _, he⟩ := put_fat_entry fs fs' c v hv hw hput
  have hv' := hs.volOk hv
  have hval : fatEntry fs' d = fatEntry fs d := by rw [he d, if_neg hcd]
  refine ⟨hval, fun h1 h2 => ?_, fun hd => ?_⟩
  · rw [(get_fat_inv fs' obj d hv' hw').2 h2, (get_fat_inv fs obj d hv hw).2 h1, hval]
  · rw [get_fat_device fs' obj d hv' hw' (hs.deviceOk hd), get_fat_device fs obj d hv hw hd, hval]

/-- C38 (witness): on `exFat12Chain` the entry of cluster 341 holds `0xFFF`
and shares byte 511, the last byte of the first FAT sector, with the entry of
cluster 340; after `put_fat(340, 0x123)` it still holds `0xFFF`. -/
theorem C38_put_fat_changes_one_entry_witness :
    VolOk exFat12Chain ∧ WinInv exFat12Chain ∧ (put_fat exFat12Chain 340 0x123).1 = FR_OK ∧
    (get_fat exFat12Chain {} 341).1 = 0xFFF ∧
    (get_fat (put_fat exFat12Chain 340 0x123).2 {} 341).1 = (get_fat exFat12Chain {} 341).1 :=
  ⟨exFat12Chain_volOk, exFat12Chain_winInv, by decide, by decide,
    (C38_put_fat_changes_one_entry exFat12Chain (put_fat exFat12Chain 340 0x123).2 {} 340 341
      0x123 exFat12Chain_volOk exFat12Chain_winInv (Prod.ext (by decide) rfl)
      (by decide)).2.2 exFat12Chain_deviceOk⟩

theorem create_chain_mark_device (fs : FATFS) (clst k : Nat) (hv : VolOk fs) (hw : WinInv fs)
    (hd : DeviceOk fs.drv) (hk : 2 ≤ k ∧ k < fs.n_fatent)
    (hc : 2 ≤ clst ∧ clst < fs.n_fatent) : (create_chain_mark fs clst k).1 = k := by
  unfold create_chain_mark create_chain_finish
  have hp := put_fat_device fs k 0xFFFFFFFF hv hw hd hk
  obtain ⟨-, -, hs, hw2, -, -⟩ := put_fat_entry fs (put_fat fs k 0xFFFFFFFF).2 k 0xFFFFFFFF hv hw
    (Prod.ext hp rfl)
  have hp2 := put_fat_device (put_fat fs k 0xFFFFFFFF).2 clst k (hs.volOk hv) hw2
    (hs.deviceOk hd) (by rw [hs.n_fatent]; exact hc)
  dsimp only
  have e : (if (put_fat fs k 0xFFFFFFFF).1 = FR_OK ∧ clst ≠ 0 then
      put_fat (put_fat fs k 0xFFFFFFFF).2 clst k else put_fat fs k 0xFFFFFFFF)
      = put_fat (put_fat fs k 0xFFFFFFFF).2 clst k := if_pos ⟨hp, by omega⟩
  rw [e, if_pos hp2]

/-- C36 (counterexample). On the FAT12 volume `exFat12EdgeNoWrite` the entry
of cluster 340 is an end-of-chain value, `free_clust` is not 0 and
`get_fat(341)` returns 0, but the entry of cluster 341 lies across two FAT
sectors: `put_fat(341, 0xFFFFFFFF)` has to write the first sector back, the
device cannot write it, and `create_chain(obj, 340)` returns `0xFFFFFFFF`
instead of 341. -/
theorem C36_counterexample :
    exFat12EdgeNoWrite.free_clust ≠ 0 ∧
    (get_fat exFat12EdgeNoWrite {} 340).1 = 0xFFF ∧ 341 < exFat12EdgeNoWrite.n_fatent ∧
    (get_fat exFat12EdgeNoWrite {} 341).1 = 0 ∧
    (create_chain exFat12EdgeNoWrite {} 340).map (fun r => r.1) = some 0xFFFFFFFF := by
  decide

/-- C36 (amended). On a FAT12/16/32 volume with a coherent window, a device
whose transfers complete and `free_clust != 0`, for every cluster `clst` whose
FAT entry is an end-of-chain value, if `clst + 1 < n_fatent` and the entry of
`clst + 1` is 0, then `create_chain(obj, clst)` returns `clst + 1`, whatever
the `last_clust` hint is. -/
theorem C36_contiguous_extension (fs : FATFS) (obj : FFOBJID) (clst : Nat)
    (hv : VolOk fs) (hw : WinInv fs) (hd : DeviceOk fs.drv) (hf : fs.free_clust ≠ 0)
    (hc : 2 ≤ clst) (hn : clst + 1 < fs.n_fatent) (he : fs.n_fatent ≤ fatEntry fs clst)
    (h0 : fatEntry fs (clst + 1) = 0) :
    ∃ fs', create_chain fs obj clst = some (clst + 1, fs', obj) := by
  have hn3 := hv.2.2.1
  have hnle : fs.n_fatent ≤ 0x0FFFFFF7 := by
    rcases hv.2.2.2 with ⟨_, hh, _⟩ | ⟨_, hh, _⟩ | ⟨_, hh, _⟩ <;> omega
  obtain ⟨k1, e1⟩ := get_fat_keeps_device fs fs obj clst hv (Keeps.self fs hw) hd
  have hlt := fatEntry_lt fs clst
  unfold create_chain create_chain_start
  rw [if_neg (by omega)]
  dsimp only
  rw [e1, if_neg (by omega), if_neg (by omega), k1.1.n_fatent, if_neg (by omega)]
  dsimp only
  rw [if_neg (show ¬ (get_fat fs obj clst).2.free_clust = 0 by rw [k1.1.free_clust]; exact hf),
    if_neg (k1.1.volOk hv).not_exfat]
  generalize get_fat fs obj clst = g at k1
  unfold create_chain_fat create_chain_near
  rw [if_pos rfl]
  dsimp only
  rw [k1.1.n_fatent]
  have hm : (if (clst + 1) % W32 ≥ fs.n_fatent then 2 else (clst + 1) % W32) = clst + 1 := by
    have : (clst + 1) % W32 = clst + 1 := by unfold W32; omega
    rw [this, if_neg (by omega)]
  rw [hm]
  obtain ⟨k2, e2⟩ := get_fat_keeps_device fs g.2 obj (clst + 1) hv k1 hd
  rw [e2, h0, if_neg (by decide), if_neg (fun h => h rfl)]
  dsimp only
  rw [if_neg (by omega)]
  dsimp only
  generalize get_fat g.2 obj (clst + 1) = g2 at k2
  rw [create_chain_mark_device g2.2 clst (clst + 1) (k2.1.volOk hv) k2.2.1 (k2.1.deviceOk hd)
    (by rw [k2.1.n_fatent]; omega) (by rw [k2.1.n_fatent]; omega)]
  exact ⟨_, rfl⟩

theorem exFat12Edge_volOk : VolOk exFat12Edge := by
  unfold VolOk; decide

theorem exFat12Edge_winInv : WinInv exFat12Edge :=
  ⟨by decide, fun _ h => absurd rfl h⟩

/-- C36 (witness): on `exFat12Edge`, whose `last_clust` hint is 0,
`create_chain(obj, 340)` returns 341. -/
theorem C36_contiguous_extension_witness :
    ∃ fs', create_chain exFat12Edge {} 340 = some (341, fs', {}) :=
  C36_contiguous_extension exFat12Edge {} 340 exFat12Edge_volOk exFat12Edge_winInv
    ⟨fun _ => rfl, fun _ => rfl⟩ (by decide) (by decide) (by decide) (by decide) (by decide)

theorem xdir_sum_step (s x : Nat) (hs : s < 65536) :
    ((if s &&& 1 ≠ 0 then 0x8000 else 0) + (s >>> 1) + x) % W16 = (ror16 s + x) % 65536 := by
  unfold ror16 W16
  have h1 : s &&& 1 = s % 2 := Nat.and_one_is_mod s
  rw [h1, Nat.shiftRight_eq_div_pow]
  split_ifs <;> omega

theorem xdir_sum_loop_lt (dir : Nat → Nat) (szblk : Nat) :
    ∀ (fuel i sum : Nat), sum < 65536 → xdir_sum_loop dir szblk fuel i sum < 65536 := by
  intro fuel
  induction fuel with
  | zero => intro i sum h; exact h
  | succ n ih =>
    intro i sum h
    unfold xdir_sum_loop
    by_cases hi : i < szblk
    · rw [if_pos hi]
      by_cases h2 : i = XDIR_SetSum
      · rw [if_pos h2]
        exact ih _ _ h
      · rw [if_neg h2]
        exact ih _ _ (Nat.mod_lt _ (by decide))
    · rw [if_neg hi]
      exact h

theorem xdir_sum_loop_spec (dir : Nat → Nat) (szblk : Nat) :
    ∀ (fuel i sum : Nat), szblk ≤ i + fuel → i ≠ 3 → sum < 65536 →
      xdir_sum_loop dir szblk fuel i sum =
        ((List.range' i (szblk - i)).filter fun i => decide (i ≠ 2 ∧ i ≠ 3)).foldl
          (fun sum i => (ror16 sum + ldb dir i) % 65536) sum := by
  intro fuel
  induction fuel with
  | zero =>
    intro i sum h _ _
    have : szblk - i = 0 := by omega
    rw [this]
    rfl
  | succ n ih =>
    intro i sum h h3 hs
    unfold xdir_sum_loop
    by_cases hi : i < szblk
    · rw [if_pos hi]
      have e : szblk - i = (szblk - (i + 1)) + 1 := by omega
      by_cases h2 : i = XDIR_SetSum
      · rw [if_pos h2]
        have h2' : i = 2 := h2
        subst h2'
        rw [ih _ _ (by omega) (by decide) hs, e, List.range'_succ, List.filter_cons_of_neg (by decide)]
        by_cases h4 : 3 < szblk
        · have e2 : szblk - (2 + 1) = (szblk - (2 + 1 + 1)) + 1 := by omega
          rw [e2, List.range'_succ, List.filter_cons_of_neg (by decide)]
        · have e3 : szblk - (2 + 1) = 0 := by omega
          have e4 : szblk - (2 + 1 + 1) = 0 := by omega
          rw [e3, e4]
          rfl
      · rw [if_neg h2]
        have h2' : i ≠ 2 := h2
        rw [xdir_sum_step _ _ hs, ih _ _ (by omega) (by omega) (Nat.mod_lt _ (by decide)), e,
          List.range'_succ, List.filter_cons_of_pos (by simpa using ⟨h2', h3⟩), List.foldl_cons]
    · rw [if_neg hi]
      have : szblk - i = 0 := by omega
      rw [this]
      rfl

theorem xdir_sum_eq (dir : Nat → Nat) : xdir_sum dir = set_checksum dir := by
  unfold xdir_sum set_checksum
  rw [xdir_sum_loop_spec dir _ _ 0 0 (by omega) (by decide) (by decide), Nat.sub_zero,
    List.range_eq_range']
  rfl

theorem set_checksum_congr (a b : Nat → Nat) (h : ∀ i, i ≠ 2 → i ≠ 3 → ldb b i = ldb a i) :
    set_checksum b = set_checksum a := by
  unfold set_checksum
  rw [h 1 (by decide) (by decide)]
  apply List.foldl_ext
  intro s i hi
  have := (List.mem_filter.1 hi).2
  simp only [ne_eq, decide_eq_true_eq] at this
  rw [h i this.1 this.2]

/-- C34. For every entry block `xdir_sum` is the 16-bit rotate-right-and-add
over the bytes `0 .. (NumSec + 1) * 32 - 1` that skips the offsets 2 and 3; its
value is a 16-bit value that does not depend on the bytes 2 and 3; and after
`store_xdir` has written `xdir_sum` into the `SetSum` field, `xdir_sum` over
the stored block is the stored value, so that the check of `load_xdir`
passes. -/
theorem C34_set_checksum_skips_its_field (dirb : Nat → Nat) (x y : Nat) :
    xdir_sum dirb = set_checksum dirb ∧ xdir_sum dirb < 65536 ∧
    xdir_sum (stb (stb dirb 2 x) 3 y) = xdir_sum dirb ∧
    xdir_sum (store_xdir_sum dirb) = ld_word (store_xdir_sum dirb) XDIR_SetSum ∧
    ld_word (store_xdir_sum dirb) XDIR_SetSum = xdir_sum dirb ∧
    load_xdir_check (store_xdir_sum dirb) = FR_OK := by
  have hlt : xdir_sum dirb < 65536 := xdir_sum_loop_lt _ _ _ _ _ (by decide)
  have h1 : xdir_sum (stb (stb dirb 2 x) 3 y) = xdir_sum dirb := by
    rw [xdir_sum_eq, xdir_sum_eq]
    apply set_checksum_congr
    intro i i2 i3
    rw [ldb_stb_ne _ _ _ _ i3, ldb_stb_ne _ _ _ _ i2]
  have h2 : xdir_sum (store_xdir_sum dirb) = xdir_sum dirb := by
    rw [xdir_sum_eq, xdir_sum_eq]
    apply set_checksum_congr
    intro i i2 i3
    unfold store_xdir_sum XDIR_SetSum
    rw [ldb_st_word, if_neg i3, if_neg i2]
  have h3 : ld_word (store_xdir_sum dirb) XDIR_SetSum = xdir_sum dirb := by
    unfold store_xdir_sum
    rw [ld_word_st_word]
    exact Nat.mod_eq_of_lt hlt
  refine ⟨xdir_sum_eq dirb, hlt, h1, h2.trans h3.symm, h3, ?_⟩
  unfold load_xdir_check
  rw [if_neg (fun h => h (h2.trans h3.symm))]

set_option maxRecDepth 100000 in
/-- C40. On the empty FAT12 volume `exFat12` (398 free clusters, root
directory in sector 5, a device whose transfers complete) `f_mkdir` of the
new name `D` returns `FR_OK` after `create_chain` has allocated cluster 2
for the table. The statements at the end of the function run `dir_register`
two more times and then, in the `else` branch of the last
`if (res != FR_OK)`, call `remove_chain(&sobj, dcl, 0)`: when the function
returns, `get_fat(2)` is 0 (the cluster is free again, not end-of-chain),
`free_clust` is 398 as before the call and not 397, and the root directory
holds three entries named `D`: the first with the attribute `AM_DIR` and the
start cluster 2, the other two with the attribute 0 and the start cluster
0. -/
theorem C40_mkdir_frees_the_new_cluster :
    (get_fat exFat12 {} 2).1 = 0 ∧ exFat12.free_clust = 398 ∧
    (f_mkdir asciiPage exFat12 [0x44] {} {} 0x5B7F0000 1).map
      (fun r => (r.1, r.2.1, (get_fat r.2.2 {} 2).1, r.2.2.free_clust))
      = some (some 2, FR_OK, 0, 398) ∧
    (f_mkdir asciiPage exFat12 [0x44] {} {} 0x5B7F0000 1).map
      (fun r => [0, 32, 64, 96].map fun o =>
        (ldb (secView r.2.2 5) o, ldb (secView r.2.2 5) (o + DIR_Attr),
          ld_clust r.2.2 (secView r.2.2 5) o))
      = some [(0x44, AM_DIR, 2), (0x44, 0, 0), (0x44, 0, 0), (0, 0, 0)] := by
  refine ⟨by decide, by decide, by decide, by decide⟩

/-- C32. On the exFAT volume `exBitmap 0xFE 0x7F 0` of 16 clusters the
bitmap marks the clusters 3 to 16 in use; the free clusters are 2 and 17, the
first and the last one. `find_bitmap(fs, 17, 2)` counts the bit of cluster 17,
wraps around to the bit of cluster 2 without restarting the run and returns
17: `r + n` is 19, above `n_fatent` = 18, there is no cluster 18, and the
bitmap holds no run of two free clusters. On `exBitmap 0xCF 0xFF 0` the
clusters 6 and 7 are free and all others in use; `find_bitmap(fs, 7, 2)`
starts inside that run, finds cluster 6 free again after the wrap-around, stops
at the start position and returns 0, although the run 6, 7 exists, which
`find_bitmap(fs, 2, 2)` finds. -/
theorem C32_find_bitmap_wraps_a_run :
    (find_bitmap (exBitmap 0xFE 0x7F 0) 17 2).map (fun r => r.1) = some 17 ∧
    17 + 2 > (exBitmap 0xFE 0x7F 0).n_fatent ∧
    (find_bitmap (exBitmap 0xCF 0xFF 0) 7 2).map (fun r => r.1) = some 0 ∧
    (find_bitmap (exBitmap 0xCF 0xFF 0) 2 2).map (fun r => r.1) = some 6 := by
  refine ⟨by decide, by decide, by decide, by decide⟩

theorem SameVol.bitbase {a b : FATFS} (h : SameVol a b) : b.bitbase = a.bitbase := by
  unfold SameVol at h; rw [h]

theorem SameVol.bitmapOk {a b : FATFS} (h : SameVol a b) (hb : BitmapOk a) : BitmapOk b := by
  unfold BitmapOk at *
  rw [h.fs_type, h.n_fats, h.fatbase, h.fsize, h.bitbase, h.n_fatent]
  exact hb

theorem BitmapOk.sector {fs : FATFS} (hb : BitmapOk fs) (v : Nat) (hv : v + 2 < fs.n_fatent) :
    fs.bitbase + v / 8 / SS < W32 - 1 ∧ ¬ inMirror fs (fs.bitbase + v / 8 / SS) := by
  obtain ⟨_, hn, h1, h2, h3, h4, h5⟩ := hb
  unfold inMirror
  unfold SS
  unfold W32 at *
  constructor
  · omega
  · rintro ⟨e, _, h⟩
    rw [e] at h2
    omega

theorem secBit_keeps {a b : FATFS} (h : Keeps a b) (t x k : Nat) (hm : ¬ inMirror a t)
    (ht : t ≠ W32 - 1) : secBit b t x k = secBit a t x k := by
  unfold secBit
  rw [h.2.2 t hm ht]

theorem bitmapBit_keeps {a b : FATFS} (h : Keeps a b) (hb : BitmapOk a) (v : Nat)
    (hv : v + 2 < a.n_fatent) : bitmapBit b v = bitmapBit a v := by
  unfold bitmapBit
  rw [h.1.bitbase]
  have := hb.sector v hv
  exact secBit_keeps h _ _ _ this.2 (by omega)

theorem and_bit_mask (b k : Nat) : b &&& 2 ^ k = 0 ↔ b.testBit k = false := by
  rw [Nat.and_two_pow]
  have := Nat.two_pow_pos k
  cases b.testBit k
  · simp
  · simp

theorem move_window_bitmap (fs : FATFS) (v : Nat) (hb : BitmapOk fs) (hw : WinInv fs)
    (hv : v + 2 < fs.n_fatent) :
    Keeps fs (move_window fs ((fs.bitbase + v / 8 / SS) % W32)).2 ∧
    ((move_window fs ((fs.bitbase + v / 8 / SS) % W32)).1 = FR_OK →
      (move_window fs ((fs.bitbase + v / 8 / SS) % W32)).2.winsect = fs.bitbase + v / 8 / SS) := by
  have hs := (hb.sector v hv).1
  have e : (fs.bitbase + v / 8 / SS) % W32 = fs.bitbase + v / 8 / SS :=
    Nat.mod_eq_of_lt (by omega)
  rw [e]
  obtain ⟨h1, h2, h3, h4⟩ := move_window_inv fs (fs.bitbase + v / 8 / SS) hb.2.2.1 hw (by omega)
  exact ⟨⟨h1, h2, h3⟩, h4⟩

theorem mask_shift (k : Nat) (hk : k < 8) :
    (2 ^ k) <<< 1 % 256 = if k = 7 then 0 else 2 ^ (k + 1) := by
  interval_cases k <;> rfl

theorem mask_start (v : Nat) : (1 <<< (v % 8)) % 256 = 2 ^ (v % 8) := by
  have h : v % 8 < 8 := Nat.mod_lt _ (by decide)
  generalize v % 8 = k at h
  interval_cases k <;> rfl

theorem find_bitmap_loop_sound (clst ncl : Nat) :
    ∀ (fuel : Nat) (fs : FATFS) (val i bm scl ctr r : Nat) (fs' : FATFS),
      BitmapOk fs → WinInv fs → val + 2 < fs.n_fatent → scl + 2 < fs.n_fatent →
      i = val / 8 % SS → bm = 2 ^ (val % 8) → fs.winsect = fs.bitbase + val / 8 / SS →
      ctr + fuel ≤ fs.n_fatent + 1 →
      ((scl + ctr = val ∧ ∀ j, scl ≤ j → j < val → bitmapBit fs j = false) ∨
        fs.n_fatent + val ≤ scl + ctr + 2) →
      find_bitmap_loop clst ncl fuel fs val i bm scl ctr = some (r, fs') →
      Keeps fs fs' ∧
      (2 ≤ r → r + ncl ≤ fs.n_fatent → ∀ j, j < ncl → bitmapBit fs (r - 2 + j) = false) := by
  intro fuel
  induction fuel with
  | zero =>
    intro fs val i bm scl ctr r fs' _ _ _ _ _ _ _ _ _ h
    exact absurd h (fun h => Option.noConfusion h)
  | succ n ih =>
    intro fs val i bm scl ctr r fs' hb hw hv hs hi hbm hws hc hst h
    have hn3 := hb.2.2.2.2.1
    have hn := hb.2.2.2.2.2.1
    have e1 : (val + 1) % W32 = val + 1 := Nat.mod_eq_of_lt (by unfold W32; omega)
    have e2 : (fs.n_fatent + W32 - 2) % W32 = fs.n_fatent - 2 := by unfold W32; omega
    have e3 : (ctr + 1) % W32 = ctr + 1 := Nat.mod_eq_of_lt (by unfold W32; omega)
    have e4 : (scl + 2) % W32 = scl + 2 := Nat.mod_eq_of_lt (by unfold W32; omega)
    have hbit : ldb fs.win i &&& bm = 0 ↔ bitmapBit fs val = false := by
      rw [hbm, and_bit_mask]
      unfold bitmapBit secBit
      rw [← hws, secView_win, hi]
    unfold find_bitmap_loop at h
    dsimp only at h
    rw [e1, e2, e3, e4] at h
    simp only [decide_eq_true_eq] at h
    by_cases hA : ldb fs.win i &&& bm = 0 ∧ ctr + 1 = ncl
    · rw [if_pos hA] at h
      injection h with h
      injection h with h1 h2
      subst h1 h2
      refine ⟨Keeps.self fs hw, fun _ hr j hj => ?_⟩
      rcases hst with ⟨hsv, hfree⟩ | hj2
      · have e : scl + 2 - 2 + j = scl + j := by omega
        rw [e]
        by_cases hjv : scl + j < val
        · exact hfree _ (by omega) hjv
        · have : scl + j = val := by omega
          rw [this]
          exact hbit.1 hA.1
      · omega
    rw [if_neg hA] at h
    obtain ⟨val2, hval2⟩ : ∃ x, x = (if val + 1 ≥ fs.n_fatent - 2 then 0 else val + 1) := ⟨_, rfl⟩
    rw [← hval2] at h
    obtain ⟨scl2, hscl2⟩ : ∃ x, x = (if ldb fs.win i &&& bm = 0 then scl else val2) := ⟨_, rfl⟩
    obtain ⟨ctr2, hctr2⟩ : ∃ x, x = (if ldb fs.win i &&& bm = 0 then ctr + 1 else 0) := ⟨_, rfl⟩
    rw [← hscl2, ← hctr2] at h
    have hv2 : val2 + 2 < fs.n_fatent := by rw [hval2]; split_ifs <;> omega
    have hs2 : scl2 + 2 < fs.n_fatent := by rw [hscl2]; split_ifs <;> omega
    have hc2 : ctr2 + n ≤ fs.n_fatent + 1 := by rw [hctr2]; split_ifs <;> omega
    have hst2 : (scl2 + ctr2 = val2 ∧ ∀ j, scl2 ≤ j → j < val2 → bitmapBit fs j = false) ∨
        fs.n_fatent + val2 ≤ scl2 + ctr2 + 2 := by
      by_cases hbv : ldb fs.win i &&& bm = 0
      · rw [hscl2, hctr2, if_pos hbv, if_pos hbv]
        by_cases hwr : val + 1 ≥ fs.n_fatent - 2
        · right
          rw [hval2, if_pos hwr]
          rcases hst with ⟨hsv, _⟩ | hj2 <;> omega
        · rw [hval2, if_neg hwr]
          rcases hst with ⟨hsv, hfree⟩ | hj2
          · left
            refine ⟨by omega, fun j h1 h2 => ?_⟩
            by_cases hjv : j < val
            · exact hfree j h1 hjv
            · have : j = val := by omega
              rw [this]
              exact hbit.1 hbv
          · right
            omega
      · left
        rw [hscl2, hctr2, if_neg hbv, if_neg hbv]
        exact ⟨rfl, fun j h1 h2 => by omega⟩
    have key : ∀ (fs2 : FATFS) (i2 bm2 : Nat), Keeps fs fs2 → i2 = val2 / 8 % SS →
        bm2 = 2 ^ (val2 % 8) → fs2.winsect = fs.bitbase + val2 / 8 / SS →
        find_bitmap_loop clst ncl n fs2 val2 i2 bm2 scl2 ctr2 = some (r, fs') →
        Keeps fs fs' ∧
        (2 ≤ r → r + ncl ≤ fs.n_fatent → ∀ j, j < ncl → bitmapBit fs (r - 2 + j) = false) := by
      intro fs2 i2 bm2 hk hi2 hbm2 hws2 h2
      have hst3 : (scl2 + ctr2 = val2 ∧ ∀ j, scl2 ≤ j → j < val2 → bitmapBit fs2 j = false) ∨
          fs2.n_fatent + val2 ≤ scl2 + ctr2 + 2 := by
        rw [hk.1.n_fatent]
        rcases hst2 with ⟨hsv, hfree⟩ | hj2
        · left
          refine ⟨hsv, fun j h1 h2 => ?_⟩
          rw [bitmapBit_keeps hk hb j (by omega)]
          exact hfree j h1 h2
        · right; exact hj2
      obtain ⟨k2, hres⟩ := ih fs2 val2 i2 bm2 scl2 ctr2 r fs' (hk.1.bitmapOk hb) hk.2.1
        (by rw [hk.1.n_fatent]; exact hv2) (by rw [hk.1.n_fatent]; exact hs2) hi2 hbm2
        (by rw [hk.1.bitbase]; exact hws2) (by rw [hk.1.n_fatent]; exact hc2) hst3 h2
      refine ⟨Keeps.comp hk k2, fun hr hrn j hj => ?_⟩
      have := hres hr (by rw [hk.1.n_fatent]; exact hrn) j hj
      rw [bitmapBit_keeps hk hb _ (by omega)] at this
      exact this
    by_cases hB : val2 = clst
    · rw [if_pos hB] at h
      injection h with h
      injection h with h1 h2
      subst h1 h2
      exact ⟨Keeps.self fs hw, fun hr => absurd hr (by omega)⟩
    rw [if_neg hB] at h
    have hk8 : val % 8 < 8 := Nat.mod_lt _ (by decide)
    have hms := mask_shift (val % 8) hk8
    rw [← hbm] at hms
    by_cases hwr : val + 1 ≥ fs.n_fatent - 2
    · rw [if_pos hwr, if_pos hwr, if_neg (fun h => h rfl),
        if_neg (show ¬ SS + 1 < SS by omega)] at h
      rw [if_pos hwr] at hval2
      have hm := move_window_bitmap fs val2 hb hw hv2
      by_cases hmv : (move_window fs ((fs.bitbase + val2 / 8 / SS) % W32)).1 ≠ FR_OK
      · rw [if_pos hmv] at h
        injection h with h
        injection h with h1 h2
        subst h1 h2
        exact ⟨hm.1, fun _ hr j hj => by omega⟩
      · rw [if_neg hmv] at h
        exact key _ _ _ hm.1 rfl (mask_start val2) (hm.2 (not_not.1 hmv)) h
    · rw [if_neg hwr, if_neg hwr] at h
      rw [if_neg hwr] at hval2
      by_cases h7 : val % 8 = 7
      · rw [if_pos h7] at hms
        rw [hms, if_neg (fun h => h rfl)] at h
        by_cases hi1 : i + 1 < SS
        · rw [if_pos hi1] at h
          refine key fs (i + 1) 1 (Keeps.self fs hw) ?_ ?_ ?_ h
          · rw [hi] at hi1
            rw [hval2, hi]
            unfold SS at *
            omega
          · have : val2 % 8 = 0 := by omega
            rw [this]
            rfl
          · rw [hws, hval2]
            unfold SS at *
            omega
        · rw [if_neg hi1] at h
          have hm := move_window_bitmap fs val2 hb hw hv2
          by_cases hmv : (move_window fs ((fs.bitbase + val2 / 8 / SS) % W32)).1 ≠ FR_OK
          · rw [if_pos hmv] at h
            injection h with h
            injection h with h1 h2
            subst h1 h2
            exact ⟨hm.1, fun _ hr j hj => by omega⟩
          · rw [if_neg hmv] at h
            exact key _ _ _ hm.1 rfl (mask_start val2) (hm.2 (not_not.1 hmv)) h
      · rw [if_neg h7] at hms
        have hpos : bm <<< 1 % 256 ≠ 0 := by
          rw [hms]
          exact Nat.pos_iff_ne_zero.1 (Nat.two_pow_pos _)
        rw [if_pos hpos] at h
        refine key fs i _ (Keeps.self fs hw) ?_ ?_ ?_ h
        · have : (val + 1) / 8 = val / 8 := by omega
          rw [hval2, hi, this]
        · rw [hms, hval2]
          have : (val + 1) % 8 = val % 8 + 1 := by omega
          rw [this]
        · rw [hws, hval2]
          have : (val + 1) / 8 = val / 8 := by omega
          rw [this]

theorem find_bitmap_sound (fs fs' : FATFS) (clst ncl r : Nat) (hb : BitmapOk fs) (hw : WinInv fs)
    (h : find_bitmap fs clst ncl = some (r, fs')) :
    Keeps fs fs' ∧
    (2 ≤ r → r + ncl ≤ fs.n_fatent → ∀ j, j < ncl → bitmapBit fs (r - 2 + j) = false) := by
  have hn3 := hb.2.2.2.2.1
  have hn := hb.2.2.2.2.2.1
  unfold find_bitmap at h
  dsimp only at h
  have e2 : (fs.n_fatent + W32 - 2) % W32 = fs.n_fatent - 2 := by unfold W32; omega
  rw [e2] at h
  obtain ⟨c, hcd⟩ : ∃ x, x = (if (clst + W32 - 2) % W32 ≥ fs.n_fatent - 2 then 0
      else (clst + W32 - 2) % W32) := ⟨_, rfl⟩
  rw [← hcd] at h
  have hc : c + 2 < fs.n_fatent := by rw [hcd]; split_ifs <;> omega
  have hm := move_window_bitmap fs c hb hw hc
  by_cases hmv : (move_window fs ((fs.bitbase + c / 8 / SS) % W32)).1 ≠ FR_OK
  · rw [if_pos hmv] at h
    injection h with h
    injection h with h1 h2
    subst h1 h2
    exact ⟨hm.1, fun _ hr j hj => by omega⟩
  · rw [if_neg hmv] at h
    have hk := hm.1
    obtain ⟨k2, hres⟩ := find_bitmap_loop_sound c ncl _ _ c _ _ c 0 r fs' (hk.1.bitmapOk hb)
      hk.2.1 (by rw [hk.1.n_fatent]; exact hc) (by rw [hk.1.n_fatent]; exact hc) rfl
      (mask_start c) (by rw [hk.1.bitbase]; exact hm.2 (not_not.1 hmv))
      (by rw [hk.1.n_fatent]; omega) (Or.inl ⟨rfl, fun j h1 h2 => by omega⟩) h
    refine ⟨Keeps.comp hk k2, fun hr hrn j hj => ?_⟩
    have := hres hr (by rw [hk.1.n_fatent]; exact hrn) j hj
    rw [bitmapBit_keeps hk hb _ (by omega)] at this
    exact this

theorem atBit_inj (fs : FATFS) (j j' : Nat) (h : j ≠ j') :
    ¬ atBit fs j (fs.bitbase + j' / 8 / SS) (j' / 8 % SS) (j' % 8) := by
  unfold atBit SS
  omega

/-- The store of `change_bitmap` that inverts one bit of the window. -/
theorem flip_bit (fs : FATFS) (v : Nat) (hw : WinInv fs)
    (hws : fs.winsect = fs.bitbase + v / 8 / SS) :
    Flipped fs
      { fs with win := stb fs.win (v / 8 % SS) (ldb fs.win (v / 8 % SS) ^^^ 2 ^ (v % 8)), wflag := 1 }
      v 1 := by
  have hk8 : v % 8 < 8 := Nat.mod_lt _ (by decide)
  have hx : ldb fs.win (v / 8 % SS) ^^^ 2 ^ (v % 8) < 256 :=
    @Nat.xor_lt_two_pow _ _ 8 (ldb_lt _ _) (Nat.pow_lt_pow_right (by decide) hk8)
  have hsame : secBit
      { fs with win := stb fs.win (v / 8 % SS) (ldb fs.win (v / 8 % SS) ^^^ 2 ^ (v % 8)), wflag := 1 }
      (fs.bitbase + v / 8 / SS) (v / 8 % SS) (v % 8)
      = !secBit fs (fs.bitbase + v / 8 / SS) (v / 8 % SS) (v % 8) := by
    unfold secBit secView
    dsimp only
    rw [if_pos hws.symm, if_pos hws.symm, ldb_stb_same, Nat.mod_eq_of_lt hx, Nat.testBit_xor,
      Nat.testBit_two_pow_self]
    cases (ldb fs.win (v / 8 % SS)).testBit (v % 8) <;> rfl
  refine ⟨by unfold SameVol; rfl, ⟨hw.1, fun h => absurd h (fun h => Nat.noConfusion h)⟩, ?_, ?_⟩
  · intro j h1 h2
    have : j = v := by omega
    subst this
    exact hsame
  · intro t x k _ _ hno
    have hne := hno v (Nat.le_refl _) (by omega)
    unfold secBit secView
    dsimp only
    by_cases ht : t = fs.winsect
    · rw [if_pos ht, if_pos ht]
      by_cases hxi : x = v / 8 % SS
      · subst hxi
        rw [ldb_stb_same, Nat.mod_eq_of_lt hx, Nat.testBit_xor]
        have hk : v % 8 ≠ k := by
          intro hk
          exact hne ⟨by rw [ht, hws], rfl, hk.symm⟩
        rw [Nat.testBit_two_pow_of_ne hk]
        simp
      · rw [ldb_stb_ne _ _ _ _ hxi]
    · rw [if_neg ht, if_neg ht]

theorem Flipped.extend {a b c : FATFS} {v n : Nat} (hb : BitmapOk a) (hv : v + 1 + n + 2 ≤ a.n_fatent)
    (h1 : Flipped a b v 1) (h2 : Flipped b c (v + 1) n) : Flipped a c v (n + 1) := by
  obtain ⟨s1, _, f1, k1⟩ := h1
  obtain ⟨s2, w2, f2, k2⟩ := h2
  refine ⟨SameVol.trans s1 s2, w2, ?_, ?_⟩
  · intro j hj1 hj2
    by_cases hjv : j = v
    · subst hjv
      have hs := hb.sector j (by omega)
      have e : bitmapBit c j = bitmapBit b j := by
        unfold bitmapBit
        rw [s2.bitbase, s1.bitbase]
        refine k2 _ _ _ (fun h => hs.2 ((s1.inMirror _).1 h))
          (by omega) ?_
        intro j' h1 h2
        rw [← s1.bitbase]
        have := atBit_inj b j' j (by omega)
        rw [s1.bitbase] at this ⊢
        exact this
      rw [e]
      exact f1 j (Nat.le_refl _) (by omega)
    · rw [f2 j (by omega) (by omega)]
      have hs := hb.sector j (by omega)
      have e : bitmapBit b j = bitmapBit a j := by
        unfold bitmapBit
        rw [s1.bitbase]
        refine k1 _ _ _ hs.2 (by omega) ?_
        intro j' h1 h2
        have : j' = v := by omega
        subst this
        exact atBit_inj a j' j (fun h => hjv h.symm)
      rw [e]
  · intro t x k hm ht hno
    rw [k2 t x k (fun h => hm ((s1.inMirror t).1 h)) ht ?_, k1 t x k hm ht ?_]
    · intro j h1 h2
      exact hno j h1 (by omega)
    · intro j h1 h2 hat
      refine hno j (by omega) (by omega) ?_
      unfold atBit at *
      rw [s1.bitbase] at hat
      exact hat

theorem Flipped.moved {a b c : FATFS} {v n : Nat} (hb : BitmapOk a) (hv : v + n + 2 ≤ a.n_fatent)
    (h1 : Flipped a b v n) (h2 : Keeps b c) : Flipped a c v n := by
  obtain ⟨s1, _, f1, k1⟩ := h1
  obtain ⟨s2, w2, v2⟩ := h2
  refine ⟨SameVol.trans s1 s2, w2, ?_, ?_⟩
  · intro j hj1 hj2
    rw [bitmapBit_keeps ⟨s2, w2, v2⟩ (s1.bitmapOk hb) j (by rw [s1.n_fatent]; omega)]
    exact f1 j hj1 hj2
  · intro t x k hm ht hno
    rw [secBit_keeps ⟨s2, w2, v2⟩ t x k (fun h => hm ((s1.inMirror t).1 h)) ht]
    exact k1 t x k hm ht hno

theorem change_bitmap_loop_spec (bv : Nat) :
    ∀ (fuel : Nat) (fs : FATFS) (v ncl i bm sect : Nat),
      BitmapOk fs → WinInv fs → DeviceOk fs.drv → 1 ≤ ncl → ncl ≤ fuel →
      v + ncl + 2 ≤ fs.n_fatent → i = v / 8 % SS → bm = 2 ^ (v % 8) →
      fs.winsect = fs.bitbase + v / 8 / SS → sect = fs.winsect + 1 →
      (∀ j, v ≤ j → j < v + ncl → bv ≠ (if bitmapBit fs j = true then 1 else 0)) →
      ∃ fs', change_bitmap_loop bv fuel fs sect i bm ncl = some (FR_OK, fs') ∧
        Flipped fs fs' v ncl := by
  intro fuel
  induction fuel with
  | zero =>
    intro fs v ncl i bm sect _ _ _ h1 h2
    omega
  | succ n ih =>
    intro fs v ncl i bm sect hb hw hd h1 hf hv hi hbm hws hsect hpre
    have hn := hb.2.2.2.2.2.1
    have hk8 : v % 8 < 8 := Nat.mod_lt _ (by decide)
    have hms := mask_shift (v % 8) hk8
    rw [← hbm] at hms
    have e1 : (ncl + W32 - 1) % W32 = ncl - 1 := by unfold W32; omega
    have hbit : (ldb fs.win i &&& bm ≠ 0) ↔ bitmapBit fs v = true := by
      rw [ne_eq, hbm, and_bit_mask]
      unfold bitmapBit secBit
      rw [← hws, secView_win, hi]
      simp
    have hne : ¬ bv = (if ldb fs.win i &&& bm ≠ 0 then 1 else 0) := by
      have := hpre v (Nat.le_refl _) (by omega)
      by_cases hbt : bitmapBit fs v = true
      · rw [if_pos hbt] at this
        rw [if_pos (hbit.2 hbt)]
        exact this
      · rw [if_neg hbt] at this
        rw [if_neg (fun h => hbt (hbit.1 h))]
        exact this
    have hflip := flip_bit fs v hw hws
    rw [← hi, ← hbm] at hflip
    obtain ⟨fs1, hfs1⟩ : ∃ x, x = { fs with win := stb fs.win i (ldb fs.win i ^^^ bm), wflag := 1 } :=
      ⟨_, rfl⟩
    rw [← hfs1] at hflip
    unfold change_bitmap_loop
    rw [if_neg hne]
    dsimp only
    rw [← hfs1, e1]
    by_cases hlast : ncl - 1 = 0
    · rw [if_pos hlast]
      have : ncl = 1 := by omega
      subst this
      exact ⟨fs1, rfl, hflip⟩
    rw [if_neg hlast]
    have hd1 : DeviceOk fs1.drv := hflip.1.deviceOk hd
    have hb1 : BitmapOk fs1 := hflip.1.bitmapOk hb
    have hpre1 : ∀ j, v + 1 ≤ j → j < v + 1 + (ncl - 1) →
        bv ≠ (if bitmapBit fs1 j = true then 1 else 0) := by
      intro j hj1 hj2
      have e : bitmapBit fs1 j = bitmapBit fs j := by
        unfold bitmapBit
        rw [hflip.1.bitbase]
        have hs := hb.sector j (by omega)
        refine hflip.2.2.2 _ _ _ hs.2 (by omega) ?_
        intro j' h1 h2
        have : j' = v := by omega
        subst this
        exact atBit_inj fs j' j (by omega)
      rw [e]
      exact hpre j (by omega) (by omega)
    have key : ∀ (fs2 : FATFS) (i2 bm2 sect2 : Nat), Keeps fs1 fs2 → i2 = (v + 1) / 8 % SS →
        bm2 = 2 ^ ((v + 1) % 8) → fs2.winsect = fs.bitbase + (v + 1) / 8 / SS →
        sect2 = fs2.winsect + 1 →
        ∃ fs', change_bitmap_loop bv n fs2 sect2 i2 bm2 (ncl - 1) = some (FR_OK, fs') ∧
          Flipped fs fs' v ncl := by
      intro fs2 i2 bm2 sect2 hk hi2 hbm2 hws2 hs2
      have hb2 : BitmapOk fs2 := hk.1.bitmapOk hb1
      obtain ⟨fs', hr, hfl⟩ := ih fs2 (v + 1) (ncl - 1) i2 bm2 sect2 hb2 hk.2.1
        (hk.1.deviceOk hd1) (by omega) (by omega)
        (by rw [hk.1.n_fatent, hflip.1.n_fatent]; omega) hi2 hbm2
        (by rw [hk.1.bitbase, hflip.1.bitbase]; exact hws2) hs2
        (by
          intro j hj1 hj2
          rw [bitmapBit_keeps hk hb1 j (by rw [hflip.1.n_fatent]; omega)]
          exact hpre1 j hj1 hj2)
      refine ⟨fs', hr, ?_⟩
      have h2 : Flipped fs fs2 v 1 := Flipped.moved hb (by omega) hflip hk
      have := Flipped.extend hb (by omega) h2 hfl
      have e : ncl - 1 + 1 = ncl := by omega
      rw [e] at this
      exact this
    have hw1 : fs1.winsect = fs.winsect := by rw [hfs1]
    by_cases h7 : v % 8 = 7
    · rw [if_pos h7] at hms
      rw [hms, if_neg (fun h => h rfl)]
      by_cases hi1 : i + 1 < SS
      · rw [if_pos hi1]
        refine key fs1 (i + 1) 1 sect (Keeps.self fs1 hflip.2.1) ?_ ?_ ?_ ?_
        · rw [hi] at hi1
          rw [hi]
          unfold SS at *
          omega
        · have : (v + 1) % 8 = 0 := by omega
          rw [this]
          rfl
        · rw [hw1, hws]
          rw [hi] at hi1
          unfold SS at *
          omega
        · rw [hw1]; exact hsect
      · rw [if_neg hi1]
        have hsec : sect = fs.bitbase + (v + 1) / 8 / SS := by
          rw [hsect, hws]
          rw [hi] at hi1
          unfold SS at *
          omega
        have hm := move_window_bitmap fs1 (v + 1) hb1 hflip.2.1 (by rw [hflip.1.n_fatent]; omega)
        rw [hflip.1.bitbase] at hm
        have hlt := (hb.sector (v + 1) (by omega)).1
        have e : (fs.bitbase + (v + 1) / 8 / SS) % W32 = fs.bitbase + (v + 1) / 8 / SS :=
          Nat.mod_eq_of_lt (by omega)
        rw [e, ← hsec] at hm
        have hok := move_window_device_ok fs1 sect hd1
        rw [if_neg (fun h => h hok)]
        refine key _ 0 1 _ hm.1 ?_ ?_ ?_ ?_
        · rw [hi] at hi1
          unfold SS at *
          omega
        · have : (v + 1) % 8 = 0 := by omega
          rw [this]
          rfl
        · rw [hm.2 hok]
          exact hsec
        · rw [hm.2 hok]
          exact Nat.mod_eq_of_lt (by rw [hsec]; omega)
    · rw [if_neg h7] at hms
      have hpos : bm <<< 1 % 256 ≠ 0 := by
        rw [hms]
        exact Nat.pos_iff_ne_zero.1 (Nat.two_pow_pos _)
      rw [if_pos hpos]
      refine key fs1 i _ sect (Keeps.self fs1 hflip.2.1) ?_ ?_ ?_ ?_
      · have : (v + 1) / 8 = v / 8 := by omega
        rw [hi, this]
      · rw [hms]
        have : (v + 1) % 8 = v % 8 + 1 := by omega
        rw [this]
      · have : (v + 1) / 8 = v / 8 := by omega
        rw [hw1, hws, this]
      · rw [hw1]; exact hsect

theorem Flipped.after {a b c : FATFS} {v n : Nat} (hb : BitmapOk a) (hv : v + n + 2 ≤ a.n_fatent)
    (h1 : Keeps a b) (h2 : Flipped b c v n) : Flipped a c v n := by
  obtain ⟨s1, w1, v1⟩ := h1
  obtain ⟨s2, w2, f2, k2⟩ := h2
  refine ⟨SameVol.trans s1 s2, w2, ?_, ?_⟩
  · intro j hj1 hj2
    rw [f2 j hj1 hj2, bitmapBit_keeps ⟨s1, w1, v1⟩ hb j (by omega)]
  · intro t x k hm ht hno
    rw [k2 t x k (fun h => hm ((s1.inMirror t).1 h)) ht ?_,
      secBit_keeps ⟨s1, w1, v1⟩ t x k hm ht]
    intro j h1 h2 hat
    refine hno j h1 h2 ?_
    unfold atBit at *
    rw [s1.bitbase] at hat
    exact hat

theorem change_bitmap_spec (fs : FATFS) (r k bv : Nat) (hb : BitmapOk fs) (hw : WinInv fs)
    (hd : DeviceOk fs.drv) (hr : 2 ≤ r) (hk : 1 ≤ k) (hrk : r + k ≤ fs.n_fatent)
    (hpre : ∀ j, r - 2 ≤ j → j < r - 2 + k → bv ≠ (if bitmapBit fs j = true then 1 else 0)) :
    ∃ fs', change_bitmap fs r k bv = some (FR_OK, fs') ∧ Flipped fs fs' (r - 2) k := by
  have hn := hb.2.2.2.2.2.1
  have e1 : (r + W32 - 2) % W32 = r - 2 := by unfold W32; omega
  have hv : r - 2 + 2 < fs.n_fatent := by omega
  have hm := move_window_bitmap fs (r - 2) hb hw hv
  have hok := move_window_device_ok fs ((fs.bitbase + (r - 2) / 8 / SS) % W32) hd
  have hlt := (hb.sector (r - 2) hv).1
  have e2 : (fs.bitbase + (r - 2) / 8 / SS) % W32 = fs.bitbase + (r - 2) / 8 / SS :=
    Nat.mod_eq_of_lt (by omega)
  unfold change_bitmap
  dsimp only
  rw [e1, if_neg (fun h => h hok), if_neg (by omega)]
  have hk1 := hm.1
  obtain ⟨fs', hres, hfl⟩ := change_bitmap_loop_spec bv k _ (r - 2) k _ _
    ((fs.bitbase + (r - 2) / 8 / SS) % W32 + 1) (hk1.1.bitmapOk hb) hk1.2.1 (hk1.1.deviceOk hd)
    hk (Nat.le_refl _) (by rw [hk1.1.n_fatent]; omega) rfl (mask_start (r - 2))
    (by rw [hk1.1.bitbase]; exact hm.2 hok) (by rw [hm.2 hok, e2])
    (by
      intro j hj1 hj2
      rw [bitmapBit_keeps hk1 hb j (by omega)]
      exact hpre j hj1 hj2)
  have e3 : ((fs.bitbase + (r - 2) / 8 / SS) % W32 + 1) % W32
      = (fs.bitbase + (r - 2) / 8 / SS) % W32 + 1 := by
    rw [e2]
    exact Nat.mod_eq_of_lt (by omega)
  rw [e3]
  exact ⟨fs', hres, Flipped.after hb (by omega) hk1 hfl⟩

set_option maxRecDepth 100000 in
/-- C31 (counterexample). On the exFAT volume `exBitmap 0xFE 0x7F 0x01` of 16
clusters `find_bitmap(fs, 17, 2)` returns 17, a run that starts at the last
cluster and wraps around; `change_bitmap(fs, 17, 2, 1)` sets the bit of cluster
17, finds the next bit of the sector set and returns `FR_INT_ERR`, with byte 1
of the bitmap changed from `0x7F` to `0xFF`. On `exBitmapNoWrite`, whose
bitmap is free, `find_bitmap(fs, 4097, 2)` returns 4097, a run across the two
sectors of the bitmap; `change_bitmap(fs, 4097, 2, 1)` cannot write the first
sector back and returns `FR_DISK_ERR`. -/
theorem C31_counterexample :
    (find_bitmap (exBitmap 0xFE 0x7F 0x01) 17 2).bind
      (fun f => (change_bitmap f.2 17 2 1).map fun c => (f.1, c.1, ldb c.2.win 1))
      = some (17, FR_INT_ERR, 0xFF) ∧
    (find_bitmap exBitmapNoWrite 4097 2).bind
      (fun f => (change_bitmap f.2 4097 2 1).map fun c => (f.1, c.1))
      = some (4097, FR_DISK_ERR) := by
  refine ⟨by decide, by decide⟩

/-- C31 (amended). On an exFAT volume with a coherent window and a device
whose transfers complete, for every start `s` and run length `k >= 1`, if
`find_bitmap(fs, s, k)` returns a cluster `r >= 2` with `r + k <= n_fatent`
(the run does not pass the end of the bitmap), then
`change_bitmap(fs, r, k, 1)` returns `FR_OK` and leaves the `k` bits set, the
following `change_bitmap(fs, r, k, 0)` returns `FR_OK`, and every byte of every
sector outside the second FAT copy, those of the allocation bitmap among them,
is what it was before the two calls. -/
theorem C31_bitmap_round_trip (fs fs1 : FATFS) (s k r : Nat) (hb : BitmapOk fs) (hw : WinInv fs)
    (hd : DeviceOk fs.drv) (hk : 1 ≤ k) (hf : find_bitmap fs s k = some (r, fs1))
    (hr : 2 ≤ r) (hrk : r + k ≤ fs.n_fatent) :
    ∃ fs2 fs3, change_bitmap fs1 r k 1 = some (FR_OK, fs2) ∧
      change_bitmap fs2 r k 0 = some (FR_OK, fs3) ∧
      (∀ j, j < k → bitmapBit fs1 (r - 2 + j) = false ∧ bitmapBit fs2 (r - 2 + j) = true) ∧
      ∀ t x, ¬ inMirror fs t → t ≠ W32 - 1 →
        ldb (secView fs3 t) x = ldb (secView fs1 t) x := by
  obtain ⟨hk1, hfree⟩ := find_bitmap_sound fs fs1 s k r hb hw hf
  have hfree1 : ∀ j, r - 2 ≤ j → j < r - 2 + k → bitmapBit fs1 j = false := by
    intro j h1 h2
    rw [bitmapBit_keeps hk1 hb j (by omega)]
    have := hfree hr hrk (j - (r - 2)) (by omega)
    have e : r - 2 + (j - (r - 2)) = j := by omega
    rw [e] at this
    exact this
  have hb1 := hk1.1.bitmapOk hb
  obtain ⟨fs2, h2, hfl2⟩ := change_bitmap_spec fs1 r k 1 hb1 hk1.2.1 (hk1.1.deviceOk hd) hr hk
    (by rw [hk1.1.n_fatent]; exact hrk)
    (by
      intro j h1 h2
      rw [hfree1 j h1 h2]
      decide)
  have hset : ∀ j, r - 2 ≤ j → j < r - 2 + k → bitmapBit fs2 j = true := by
    intro j h1 h2
    rw [hfl2.2.2.1 j h1 h2, hfree1 j h1 h2]
    rfl
  have hb2 := hfl2.1.bitmapOk hb1
  obtain ⟨fs3, h3, hfl3⟩ := change_bitmap_spec fs2 r k 0 hb2 hfl2.2.1
    (hfl2.1.deviceOk (hk1.1.deviceOk hd)) hr hk
    (by rw [hfl2.1.n_fatent, hk1.1.n_fatent]; exact hrk)
    (by
      intro j h1 h2
      rw [hset j h1 h2]
      decide)
  refine ⟨fs2, fs3, h2, h3,
    fun j hj => ⟨hfree1 _ (by omega) (by omega), hset _ (by omega) (by omega)⟩, ?_⟩
  intro t x hm ht
  have hm1 : ¬ inMirror fs1 t := fun h => hm ((hk1.1.inMirror t).1 h)
  have hm2 : ¬ inMirror fs2 t := fun h => hm1 ((hfl2.1.inMirror t).1 h)
  apply Nat.eq_of_testBit_eq
  intro b
  show secBit fs3 t x b = secBit fs1 t x b
  by_cases hin : ∃ j, r - 2 ≤ j ∧ j < r - 2 + k ∧ atBit fs1 j t x b
  · obtain ⟨j, h1, h2, hat⟩ := hin
    obtain ⟨e1, e2, e3⟩ := hat
    subst e1 e2 e3
    have a3 := hfl3.2.2.1 j h1 h2
    have a2 := hfl2.2.2.1 j h1 h2
    unfold bitmapBit at a3 a2
    rw [hfl2.1.bitbase] at a3 a2
    rw [hfl3.1.bitbase, hfl2.1.bitbase] at a3
    rw [a3, a2]
    cases secBit fs1 (fs1.bitbase + j / 8 / SS) (j / 8 % SS) (j % 8) <;> rfl
  · have hno1 : ∀ j, r - 2 ≤ j → j < r - 2 + k → ¬ atBit fs1 j t x b :=
      fun j h1 h2 hat => hin ⟨j, h1, h2, hat⟩
    have hno2 : ∀ j, r - 2 ≤ j → j < r - 2 + k → ¬ atBit fs2 j t x b := by
      intro j h1 h2 hat
      refine hno1 j h1 h2 ?_
      unfold atBit at *
      rw [hfl2.1.bitbase] at hat
      exact hat
    rw [hfl3.2.2.2 t x b hm2 ht hno2, hfl2.2.2.2 t x b hm1 ht hno1]

theorem exBitmap_ok : BitmapOk (exBitmap 0xCF 0xFF 0) := by
  unfold BitmapOk; decide

theorem exBitmap_winInv : WinInv (exBitmap 0xCF 0xFF 0) :=
  ⟨by decide, fun _ h => absurd rfl h⟩

/-- C31 (witness): on `exBitmap 0xCF 0xFF 0`, where the clusters 6 and 7 are
free, `find_bitmap(fs, 2, 2)` returns 6, and setting and clearing the two bits
leaves byte 0 of the bitmap sector at `0xCF`. -/
theorem C31_bitmap_round_trip_witness :
    ∃ fs1 fs2 fs3, find_bitmap (exBitmap 0xCF 0xFF 0) 2 2 = some (6, fs1) ∧
      change_bitmap fs1 6 2 1 = some (FR_OK, fs2) ∧
      change_bitmap fs2 6 2 0 = some (FR_OK, fs3) ∧
      ldb (secView fs3 5) 0 = ldb (secView fs1 5) 0 := by
  have hm : (find_bitmap (exBitmap 0xCF 0xFF 0) 2 2).map (fun r => r.1) = some 6 := by decide
  rcases hc : find_bitmap (exBitmap 0xCF 0xFF 0) 2 2 with _ | ⟨r, fs1⟩
  · rw [hc] at hm
    exact absurd hm (fun h => Option.noConfusion h)
  · rw [hc] at hm
    injection hm with hm
    subst hm
    obtain ⟨fs2, fs3, h2, h3, _, h4⟩ := C31_bitmap_round_trip (exBitmap 0xCF 0xFF 0) fs1 2 2 _
      exBitmap_ok exBitmap_winInv ⟨fun _ => rfl, fun _ => rfl⟩ (by decide) hc
      (by decide) (by decide)
    exact ⟨fs1, fs2, fs3, rfl, h2, h3, h4 5 0 (by unfold inMirror; decide) (by decide)⟩

/-- The inner loop of `create_xdir` from slot `s` of entry `e` fills the rest of
the name field with the units of the name and zeros. -/
theorem create_xdir_fill_spec (lfn : Nat → Nat) (len e : Nat) (hlen : len ≤ 255)
    (hnz : ∀ j, j < len → ldw lfn j ≠ 0) (hz : ldw lfn len = 0) (he : e < 17) :
    ∀ (fuel s nlen wc : Nat) (blk : Nat → Nat), s < 15 → 15 ≤ fuel + s →
      ((15 * e + s ≤ len ∧ nlen = 15 * e + s ∧ wc ≠ 0) ∨
        (len < 15 * e + s ∧ nlen = len ∧ wc = 0)) →
      ∃ nlen' wc' blk',
        create_xdir_fill lfn fuel (64 + 32 * e + 2 + 2 * s) nlen wc blk
          = some (64 + 32 * (e + 1), nlen', wc', blk') ∧
        ((15 * (e + 1) ≤ len ∧ nlen' = 15 * (e + 1) ∧ wc' ≠ 0) ∨
          (len < 15 * (e + 1) ∧ nlen' = len ∧ wc' = 0)) ∧
        ∀ k, ldb blk' k = if 64 + 32 * e + 2 + 2 * s ≤ k ∧ k < 64 + 32 * (e + 1)
          then nameEntryByte lfn len k else ldb blk k := by
  intro fuel
  induction fuel with
  | zero => intro s nlen wc blk h1 h2; omega
  | succ n ih =>
    intro s nlen wc blk hs hf hst
    have ei : (64 + 32 * e + 2 + 2 * s + 2) % W32 = 64 + 32 * e + 2 + 2 * (s + 1) :=
      Nat.mod_eq_of_lt (by unfold W32; omega)
    obtain ⟨w, hw⟩ : ∃ x, x = (if 15 * e + s < len then ldw lfn (15 * e + s) else 0) := ⟨_, rfl⟩
    have hwc1 : (if wc ≠ 0 then ldw lfn nlen else wc) = w := by
      rcases hst with ⟨h1, h2, h3⟩ | ⟨h1, h2, h3⟩
      · rw [if_pos h3, h2, hw]
        by_cases hl : 15 * e + s < len
        · rw [if_pos hl]
        · rw [if_neg hl]
          have : 15 * e + s = len := by omega
          rw [this]
          exact hz
      · rw [if_neg (fun h => h h3), h3, hw, if_neg (by omega)]
    have hw16 : w < 65536 := by
      rw [hw]
      split_ifs
      · exact Nat.mod_lt _ (by decide)
      · decide
    have hst' : ((15 * e + (s + 1) ≤ len ∧
          (if wc ≠ 0 ∧ w ≠ 0 then (nlen + 1) % 256 else nlen) = 15 * e + (s + 1) ∧ w ≠ 0) ∨
        (len < 15 * e + (s + 1) ∧ (if wc ≠ 0 ∧ w ≠ 0 then (nlen + 1) % 256 else nlen) = len ∧
          w = 0)) := by
      rcases hst with ⟨h1, h2, h3⟩ | ⟨h1, h2, h3⟩
      · by_cases hl : 15 * e + s < len
        · left
          have hwn : w ≠ 0 := by rw [hw, if_pos hl]; exact hnz _ hl
          rw [if_pos ⟨h3, hwn⟩, h2]
          exact ⟨by omega, Nat.mod_eq_of_lt (by omega), hwn⟩
        · right
          have hw0 : w = 0 := by rw [hw, if_neg hl]
          rw [if_neg (fun h => h.2 hw0), h2]
          exact ⟨by omega, by omega, hw0⟩
      · right
        have hw0 : w = 0 := by rw [hw, if_neg (by omega)]
        rw [if_neg (fun h => h.2 hw0)]
        exact ⟨by omega, h2, hw0⟩
    have hbyte : ∀ k, ldb (st_word blk (64 + 32 * e + 2 + 2 * s) w) k =
        if 64 + 32 * e + 2 + 2 * s ≤ k ∧ k < 64 + 32 * e + 2 + 2 * (s + 1)
        then nameEntryByte lfn len k else ldb blk k := by
      intro k
      rw [ldb_st_word]
      by_cases h1 : k = 64 + 32 * e + 2 + 2 * s + 1
      · rw [if_pos h1, if_pos (by omega)]
        unfold nameEntryByte
        have a1 : (k - 64) % 32 = 2 + 2 * s + 1 := by omega
        have a2 : (k - 64) / 32 = e := by omega
        rw [a1, a2, if_neg (by omega), if_neg (by omega)]
        dsimp only
        have a3 : (2 + 2 * s + 1 - 2) / 2 = s := by omega
        rw [a3, ← hw, if_neg (by omega), Nat.mod_eq_of_lt hw16]
      · rw [if_neg h1]
        by_cases h2 : k = 64 + 32 * e + 2 + 2 * s
        · rw [if_pos h2, if_pos (by omega)]
          unfold nameEntryByte
          have a1 : (k - 64) % 32 = 2 + 2 * s := by omega
          have a2 : (k - 64) / 32 = e := by omega
          rw [a1, a2, if_neg (by omega), if_neg (by omega)]
          dsimp only
          have a3 : (2 + 2 * s - 2) / 2 = s := by omega
          rw [a3, ← hw, if_pos (by omega)]
        · rw [if_neg h2, if_neg (by omega)]
    unfold create_xdir_fill
    dsimp only
    rw [hwc1, ei]
    by_cases hlast : s + 1 < 15
    · have hmod : (64 + 32 * e + 2 + 2 * (s + 1)) % SZ_DIR ≠ 0 := by unfold SZ_DIR; omega
      rw [if_pos hmod]
      obtain ⟨nlen', wc', blk', hr, hst2, hb2⟩ := ih (s + 1) _ w
        (st_word blk (64 + 32 * e + 2 + 2 * s) w) hlast (by omega) hst'
      refine ⟨nlen', wc', blk', hr, hst2, fun k => ?_⟩
      rw [hb2 k, hbyte k]
      split_ifs <;> first | rfl | omega
    · have hmod : ¬ (64 + 32 * e + 2 + 2 * (s + 1)) % SZ_DIR ≠ 0 := by unfold SZ_DIR; omega
      rw [if_neg hmod]
      have e15 : s + 1 = 15 := by omega
      have e2 : 64 + 32 * e + 2 + 2 * (s + 1) = 64 + 32 * (e + 1) := by omega
      have e3 : 15 * e + (s + 1) = 15 * (e + 1) := by omega
      rw [e3] at hst'
      refine ⟨_, w, _, by rw [e2], hst', fun k => ?_⟩
      rw [hbyte k, e2]

theorem create_xdir_names_spec (lfn : Nat → Nat) (len : Nat) (hlen : len ≤ 255)
    (hnz : ∀ j, j < len → ldw lfn j ≠ 0) (hz : ldw lfn len = 0) :
    ∀ (fuel e nlen wc : Nat) (blk : Nat → Nat), e < (len + 14) / 15 →
      (len + 14) / 15 ≤ fuel + e →
      ((15 * e ≤ len ∧ nlen = 15 * e ∧ wc ≠ 0) ∨ (len < 15 * e ∧ nlen = len ∧ wc = 0)) →
      ∃ blk', create_xdir_names lfn fuel (64 + 32 * e) nlen e wc blk
          = some (len, (len + 14) / 15, blk') ∧
        ∀ k, ldb blk' k = if 64 + 32 * e ≤ k ∧ k < 64 + 32 * ((len + 14) / 15)
          then nameEntryByte lfn len k else ldb blk k := by
  intro fuel
  induction fuel with
  | zero => intro e nlen wc blk h1 h2; omega
  | succ n ih =>
    intro e nlen wc blk he hf hst
    have e1 : (64 + 32 * e + 1 + 1) % W32 = 64 + 32 * e + 2 + 2 * 0 :=
      Nat.mod_eq_of_lt (by unfold W32; omega)
    have e2 : (64 + 32 * e + 1) % W32 = 64 + 32 * e + 1 :=
      Nat.mod_eq_of_lt (by unfold W32; omega)
    have e3 : (e + 1) % 256 = e + 1 := Nat.mod_eq_of_lt (by omega)
    obtain ⟨nlen', wc', blk1, hr, hst1, hb1⟩ := create_xdir_fill_spec lfn len e hlen hnz hz
      (by omega) 16 0 nlen wc (stb (stb blk (64 + 32 * e) ET_FILENAME) (64 + 32 * e + 1) 0)
      (by omega) (by omega) hst
    have hbyte : ∀ k, ldb blk1 k = if 64 + 32 * e ≤ k ∧ k < 64 + 32 * (e + 1)
        then nameEntryByte lfn len k else ldb blk k := by
      intro k
      rw [hb1 k]
      by_cases h1 : 64 + 32 * e + 2 + 2 * 0 ≤ k ∧ k < 64 + 32 * (e + 1)
      · rw [if_pos h1, if_pos (by omega)]
      · rw [if_neg h1]
        by_cases h2 : k = 64 + 32 * e + 1
        · rw [h2, ldb_stb_same, if_pos (by omega)]
          unfold nameEntryByte
          have a1 : (64 + 32 * e + 1 - 64) % 32 = 1 := by omega
          rw [a1, if_neg (by omega), if_pos rfl]
        · rw [ldb_stb_ne _ _ _ _ h2]
          by_cases h3 : k = 64 + 32 * e
          · rw [h3, ldb_stb_same, if_pos (by omega)]
            unfold nameEntryByte
            have a1 : (64 + 32 * e - 64) % 32 = 0 := by omega
            rw [a1, if_pos rfl]
            rfl
          · rw [ldb_stb_ne _ _ _ _ h3, if_neg (by omega)]
    unfold create_xdir_names
    rw [e1, e2, hr, Option.some_bind]
    dsimp only
    rw [e3]
    by_cases hmore : e + 1 < (len + 14) / 15
    · have hcont : ldw lfn nlen' ≠ 0 := by
        rcases hst1 with ⟨h1, h2, _⟩ | ⟨h1, _, _⟩
        · rw [h2]
          exact hnz _ (by omega)
        · omega
      rw [if_pos hcont]
      obtain ⟨blk', hr2, hb2⟩ := ih (e + 1) nlen' wc' blk1 hmore (by omega) hst1
      refine ⟨blk', hr2, fun k => ?_⟩
      rw [hb2 k, hbyte k]
      split_ifs <;> first | rfl | omega
    · have hl : nlen' = len := by
        rcases hst1 with ⟨h1, h2, _⟩ | ⟨_, h2, _⟩
        · omega
        · exact h2
      have hstop : ¬ ldw lfn nlen' ≠ 0 := by
        rw [hl, hz]
        exact fun h => h rfl
      rw [if_neg hstop, hl]
      have hnc : e + 1 = (len + 14) / 15 := by omega
      rw [hnc]
      refine ⟨blk1, rfl, fun k => ?_⟩
      rw [hbyte k, hnc]

theorem xname_sum_loop_some (cp : CodePage) (lfn : Nat → Nat) (len : Nat)
    (hnz : ∀ j, j < len → ldw lfn j ≠ 0) (hz : ldw lfn len = 0) :
    ∀ (fuel k sum : Nat), k ≤ len → len < fuel + k → sum < 65536 →
      ∃ h, xname_sum_loop cp lfn fuel k sum = some h ∧ h < 65536 := by
  intro fuel
  induction fuel with
  | zero => intro k sum h1 h2; omega
  | succ n ih =>
    intro k sum h1 h2 hs
    unfold xname_sum_loop
    by_cases hk : k < len
    · rw [if_pos (hnz k hk)]
      exact ih (k + 1) _ (by omega) (by omega) (Nat.mod_lt _ (by decide))
    · have : k = len := by omega
      rw [this, if_neg (fun h => h hz)]
      exact ⟨sum, rfl, hs⟩

theorem nameEntryByte_lo (lfn : Nat → Nat) (len j : Nat) :
    nameEntryByte lfn len (64 + 32 * (j / 15) + 2 + 2 * (j % 15))
      = (if j < len then ldw lfn j else 0) % 256 := by
  have hp1 : (64 + 32 * (j / 15) + 2 + 2 * (j % 15) - 64) % 32 = 2 + 2 * (j % 15) := by omega
  have hp2 : (64 + 32 * (j / 15) + 2 + 2 * (j % 15) - 64) / 32 = j / 15 := by omega
  have hp3 : (64 + 32 * (j / 15) + 2 + 2 * (j % 15)) % 2 = 0 := by omega
  have hj2 : 15 * (j / 15) + (2 + 2 * (j % 15) - 2) / 2 = j := by omega
  unfold nameEntryByte
  rw [hp1, hp2, hp3, hj2, if_neg (by omega), if_neg (by omega)]
  rfl

theorem nameEntryByte_hi (lfn : Nat → Nat) (len j : Nat) :
    nameEntryByte lfn len (64 + 32 * (j / 15) + 2 + 2 * (j % 15) + 1)
      = (if j < len then ldw lfn j else 0) / 256 := by
  have hp1 : (64 + 32 * (j / 15) + 2 + 2 * (j % 15) + 1 - 64) % 32 = 2 + 2 * (j % 15) + 1 := by
    omega
  have hp2 : (64 + 32 * (j / 15) + 2 + 2 * (j % 15) + 1 - 64) / 32 = j / 15 := by omega
  have hp3 : (64 + 32 * (j / 15) + 2 + 2 * (j % 15) + 1) % 2 = 1 := by omega
  have hj2 : 15 * (j / 15) + (2 + 2 * (j % 15) + 1 - 2) / 2 = j := by omega
  unfold nameEntryByte
  rw [hp1, hp2, hp3, hj2, if_neg (by omega), if_neg (by omega)]
  rfl

/-- C37. For every name of `len` code units with `1 <= len <= 255` (units
other than 0, followed by a NUL) `create_xdir` returns an entry block whose
entry types are `0x85`, `0xC0` and then `ceil(len / 15)` entries of type
`0xC1`, with `NumSec = 1 + ceil(len / 15)` (between 2 and 18),
`NumName = len`, `NameHash = xname_sum(name)`, the code units of the name
stored in order in the 15-unit name fields and zeros after the last one; the
bytes after these entries are not written, and the block has the
`(len + 14) / 15 + 2` entries that `dir_register` allocates for it. -/
theorem C37_entry_set_construction (cp : CodePage) (dirb lfn : Nat → Nat) (len : Nat)
    (h1 : 1 ≤ len) (hlen : len ≤ 255) (hnz : ∀ j, j < len → ldw lfn j ≠ 0)
    (hz : ldw lfn len = 0) :
    ∃ blk h, create_xdir cp dirb lfn = some blk ∧ xname_sum cp lfn = some h ∧
      ldb blk 0 = 0x85 ∧ ldb blk 32 = 0xC0 ∧
      (∀ e, e < (len + 14) / 15 → ldb blk (64 + 32 * e) = 0xC1) ∧
      ldb blk XDIR_NumSec = 1 + (len + 14) / 15 ∧
      2 ≤ ldb blk XDIR_NumSec ∧ ldb blk XDIR_NumSec ≤ 18 ∧
      ldb blk XDIR_NumName = len ∧ ld_word blk XDIR_NameHash = h ∧
      (∀ j, j < 15 * ((len + 14) / 15) →
        ld_word blk (64 + 32 * (j / 15) + 2 + 2 * (j % 15)) = if j < len then ldw lfn j else 0) ∧
      (∀ k, 64 + 32 * ((len + 14) / 15) ≤ k → ldb blk k = ldb dirb k) ∧
      ldb blk XDIR_NumSec + 1 = xdir_n_ent len := by
  obtain ⟨b0, hb0⟩ : ∃ x, x = stb (stb (fun k => if k < 2 * SZ_DIR then 0 else dirb k)
      (0 * SZ_DIR + XDIR_Type) ET_FILEDIR) (1 * SZ_DIR + XDIR_Type) ET_STREAM := ⟨_, rfl⟩
  have hb0k : ∀ k, ldb b0 k = if k = 32 then 0xC0 else if k = 0 then 0x85
      else if k < 64 then 0 else ldb dirb k := by
    intro k
    have hz0 : ldb (fun k => if k < 2 * SZ_DIR then 0 else dirb k) k
        = if k < 64 then 0 else ldb dirb k := by
      unfold ldb SZ_DIR
      dsimp only
      split_ifs <;> rfl
    rw [hb0, ldb_stb, ldb_stb, hz0]
    unfold SZ_DIR XDIR_Type ET_FILEDIR ET_STREAM
    split_ifs <;> first | rfl | omega
  obtain ⟨blk', hr, hb⟩ := create_xdir_names_spec lfn len hlen hnz hz 256 0 0 1 b0 (by omega)
    (by omega) (Or.inl ⟨by omega, rfl, by decide⟩)
  obtain ⟨h, hh, hh16⟩ := xname_sum_loop_some cp lfn len hnz hz 256 0 0 (by omega) (by omega)
    (by decide)
  have hblk : ∀ k, ldb (st_word (stb (stb blk' XDIR_NumName len) XDIR_NumSec
      (1 + (len + 14) / 15)) XDIR_NameHash h) k =
      if k = 37 then h / 256 else if k = 36 then h % 256
      else if k = 1 then 1 + (len + 14) / 15 else if k = 35 then len
      else if 64 ≤ k ∧ k < 64 + 32 * ((len + 14) / 15) then nameEntryByte lfn len k
      else ldb b0 k := by
    intro k
    rw [ldb_st_word, ldb_stb, ldb_stb, hb k]
    unfold XDIR_NameHash XDIR_NumSec XDIR_NumName
    split_ifs <;> first | rfl | omega
  refine ⟨st_word (stb (stb blk' XDIR_NumName len) XDIR_NumSec (1 + (len + 14) / 15))
    XDIR_NameHash h, h, ?_, hh, ?_, ?_, ?_, ?_, ?_, ?_, ?_, ?_, ?_, ?_, ?_⟩
  · unfold create_xdir
    dsimp only
    rw [← hb0]
    have e0 : SZ_DIR * 2 = 64 + 32 * 0 := rfl
    rw [e0, hr, Option.some_bind]
    dsimp only
    unfold xname_sum
    rw [hh]
    rfl
  · rw [hblk, hb0k]
    rfl
  · rw [hblk, hb0k]
    rfl
  · intro e he
    rw [hblk, if_neg (by omega), if_neg (by omega), if_neg (by omega), if_neg (by omega),
      if_pos (by omega)]
    unfold nameEntryByte
    have : (64 + 32 * e - 64) % 32 = 0 := by omega
    rw [this, if_pos rfl]
  · rw [hblk]
    rfl
  · rw [hblk]
    unfold XDIR_NumSec
    rw [if_neg (by decide), if_neg (by decide), if_pos rfl]
    omega
  · rw [hblk]
    unfold XDIR_NumSec
    rw [if_neg (by decide), if_neg (by decide), if_pos rfl]
    omega
  · rw [hblk]
    rfl
  · rw [ld_word_eq, hblk, hblk]
    unfold XDIR_NameHash
    rw [if_neg (by decide), if_pos rfl, if_pos rfl]
    omega
  · intro j hj
    rw [ld_word_eq, hblk, hblk, if_neg (by omega), if_neg (by omega), if_neg (by omega),
      if_neg (by omega), if_pos (by omega), if_neg (by omega), if_neg (by omega),
      if_neg (by omega), if_neg (by omega), if_pos (by omega), nameEntryByte_lo,
      nameEntryByte_hi]
    omega
  · intro k hk
    rw [hblk, if_neg (by omega), if_neg (by omega), if_neg (by omega), if_neg (by omega),
      if_neg (by omega), hb0k, if_neg (by omega), if_neg (by omega), if_neg (by omega)]
  · rw [hblk]
    unfold XDIR_NumSec xdir_n_ent W16
    rw [if_neg (by decide), if_neg (by decide), if_pos rfl]
    omega

/-- C37 (witness): the name of 16 letters `A` gives a block of four entries,
two of them file-name entries. -/
theorem C37_entry_set_construction_witness :
    ∃ blk h, create_xdir asciiPage (fun _ => 0xEE) (nameA 16) = some blk ∧
      xname_sum asciiPage (nameA 16) = some h ∧ ldb blk 0 = 0x85 ∧ ldb blk 32 = 0xC0 ∧
      ldb blk 64 = 0xC1 ∧ ldb blk 96 = 0xC1 ∧ ldb blk XDIR_NumSec = 3 ∧
      ldb blk XDIR_NumName = 16 ∧ ld_word blk (96 + 2) = 0x41 ∧ ld_word blk (96 + 4) = 0 ∧
      ldb blk 128 = 0xEE := by
  obtain ⟨blk, h, a1, a2, a3, a4, a5, a6, _, _, a7, _, a8, a9, _⟩ :=
    C37_entry_set_construction asciiPage (fun _ => 0xEE) (nameA 16) 16 (by decide) (by decide)
      (fun j hj => by show (if j < 16 then 0x41 else 0) % W16 ≠ 0; rw [if_pos hj]; decide) (by decide)
  exact ⟨blk, h, a1, a2, a3, a4, a5 0 (by decide), a5 1 (by decide), a6, a7,
    a8 15 (by decide), a8 16 (by decide), by rw [a9 128 (by decide)]; rfl⟩

set_option maxRecDepth 1000000 in
/-- C9. `create_name` accepts the name of 255 letters `A`. Its top LFN slot
(ordinal 20, which holds the units 247 to 254 and the terminator) as `put_lfn`
makes it is accepted by `cmp_lfn`, whose bound is `i >= _MAX_LFN + 1`, but
rejected by `pick_lfn`, whose bound is `i >= _MAX_LFN`: the terminator of the
name belongs at index 255 of the buffer of `_MAX_LFN + 1` units. The top slot
of the name of 254 units is rejected as well, by the second check of
`pick_lfn`, while the one of the name of 253 units is accepted. -/
theorem C9_pick_lfn_rejects_longest_names :
    (create_name asciiPage exFat12 exDjStatic (List.replicate 255 0x41)).map (fun r => r.1)
      = some FR_OK ∧
    cmp_lfn asciiPage.upper (nameA 255) (put_lfn (nameA 255) (fun _ => 0) 0 20 0) 0 = 1 ∧
    (pick_lfn (fun _ => 0) (put_lfn (nameA 255) (fun _ => 0) 0 20 0) 0).1 = 0 ∧
    (pick_lfn (fun _ => 0) (put_lfn (nameA 254) (fun _ => 0) 0 20 0) 0).1 = 0 ∧
    (pick_lfn (fun _ => 0) (put_lfn (nameA 253) (fun _ => 0) 0 20 0) 0).1 = 1 := by
  refine ⟨by decide, by decide, by decide, by decide, by decide⟩

set_option maxRecDepth 1000000 in
/-- C10. On the empty FAT12 volume `exFat12`, with a directory object set up
by `INIT_BUF` (`lfn` points to the member `LfnBuf`), `create_name` accepts
`my file.txt`: the SFN is `MYFILE  TXT` with `NS_LOSS | NS_LFN | NS_LAST`, the
long name is in the member `LfnBuf`, and the static buffer that `fs->lfnbuf`
points to stays empty (first two conjuncts; the volume and the object after the call
are `exLossyVol` and `exLossyDj`). `dir_register` on them returns `FR_OK`: it
takes the length of the long name from `fs->lfnbuf`, finds 0, allocates one
entry and writes the SFN entry `MYFILE~1TXT` at offset 0 of sector 5 with no
LFN slot (third and fourth conjunct; the volume and the object after the call are
`exRegVol` and `exRegDj`). The `dir_find` run right after it returns
`FR_NO_FILE` with the cursor on the free entry at offset 32: no LFN slot
matches, and `NS_LOSS` forbids the match by SFN (fifth conjunct). When `lfn`
points to the static buffer, `dir_register` stores one LFN slot and the SFN
entry at offset 32 (last conjunct). -/
theorem C10_find_after_register_fails :
    (create_name asciiPage exFat12 exDj
        [0x6D, 0x79, 0x20, 0x66, 0x69, 0x6C, 0x65, 0x2E, 0x74, 0x78, 0x74]).map
      (fun r => (r.1, ldw r.2.1.lfnbuf 0, r.2.2.1.lfn, r.2.2.2))
      = some (FR_OK, 0, LfnPtr.member, []) ∧
    (create_name asciiPage exFat12 exDj
        [0x6D, 0x79, 0x20, 0x66, 0x69, 0x6C, 0x65, 0x2E, 0x74, 0x78, 0x74]).map
      (fun r => ((List.range 12).all (fun k => ldb r.2.2.1.fn k == ldb exLossyDj.fn k),
        (List.range 13).all (fun k => ldw r.2.1.LfnBuf k == ldw nameLossy k)))
      = some (true, true) ∧
    (dir_register asciiPage exLossyVol exLossyDj).map
      (fun r => (r.1, r.2.2.dptr, r.2.2.sect, r.2.2.dir))
      = some (FR_OK, 0, 5, some 0) ∧
    (dir_register asciiPage exLossyVol exLossyDj).map
      (fun r => (r.2.1.winsect, r.2.1.wflag,
        (List.range 64).all (fun k => ldb r.2.1.win k == ldb exRegVol.win k),
        (List.range 12).all (fun k => ldb r.2.2.fn k == ldb fnNumbered k)))
      = some (5, 1, true, true) ∧
    (dir_find asciiPage exRegVol exRegDj).map (fun r => (r.1, r.2.2.dptr))
      = some (FR_NO_FILE, 32) ∧
    (dir_register asciiPage { exFat12 with lfnbuf := nameLossy }
        { exLossyDj with lfn := LfnPtr.static }).map
      (fun r => (r.1, r.2.2.dptr, r.2.2.sect, ldb r.2.1.win 11))
      = some (FR_OK, 32, 5, AM_LFN) := by
  refine ⟨by decide, by decide, by decide, by decide, by decide, by decide⟩

theorem fatEntry_congr_fat {a b : FATFS} (h : SameVol a b) (hg : VolOk a)
    (hF : ∀ k, k / 512 < a.fsize → fatByte b k = fatByte a k) (c : Nat) :
    fatEntry b c = fatEntry a c := by
  unfold fatEntry
  rw [h.n_fatent, h.fs_type]
  by_cases hc : c < 2 ∨ c ≥ a.n_fatent
  · simp [hc]
  · rw [if_neg hc, if_neg hc]
    obtain ⟨_, _, _, ht⟩ := hg
    unfold FS_FAT12 FS_FAT16 FS_FAT32 at *
    rcases ht with ⟨ht, hn, hf⟩ | ⟨ht, hn, hf⟩ | ⟨ht, hn, hf⟩
    · simp only [ht, if_true]
      rw [hF, hF] <;> omega
    · simp only [ht]
      simp only [show ¬ (2 = 1) by decide, if_false, if_true]
      rw [hF, hF] <;> omega
    · simp only [ht]
      simp only [show ¬ (3 = 1) by decide, show ¬ (3 = 2) by decide, if_false]
      rw [hF, hF, hF, hF] <;> omega

theorem file_flush_fatEntry (fs : FATFS) (fp : FIL) (hv : VolOk fs)
    (hs : fp.flag &&& FA_DIRTY ≠ 0 → notFat1 fs fp.sect) (c : Nat) :
    fatEntry (file_flush fs fp).2.1 c = fatEntry fs c := by
  have hsv := (file_flush_frame fs fp).1
  apply fatEntry_congr_fat hsv hv
  intro k hk
  unfold fatByte
  rw [hsv.fatbase]
  congr 1
  unfold file_flush disk_write set_drv secView
  by_cases hd : fp.flag &&& FA_DIRTY ≠ 0
  · rw [if_pos hd]
    have hne : fs.fatbase + k / 512 ≠ fp.sect := by
      have := hs hd
      unfold notFat1 at this
      omega
    dsimp only
    by_cases hwr : fs.drv.wrOk fp.sect = true
    · rw [if_pos hwr]
      dsimp only
      rw [if_pos rfl]
      dsimp only
      by_cases hwin : fs.fatbase + k / 512 = fs.winsect
      · rw [if_pos hwin, if_pos hwin]
      · rw [if_neg hwin, if_neg hwin, Function.update_noteq hne]
    · rw [if_neg hwr]
      dsimp only
      rw [if_neg (fun h => Bool.noConfusion h)]
  · rw [if_neg hd]

theorem remove_chain_tail (fs fs' : FATFS) (obj obj' : FFOBJID) (c p : Nat) (l : List Nat)
    (hv : VolOk fs) (hw : WinInv fs) (hch : chainFrom fs c l) (hl : l ≠ []) (hp : p ∉ l)
    (hp0 : p ≠ 0) (h : remove_chain fs obj c p = some (FR_OK, fs', obj')) :
    SameGeom fs fs' ∧ WinInv fs' ∧
    (∀ d, fatEntry fs' d = if d ∈ l then 0 else if d = p then fatMask fs 0xFFFFFFFF
      else fatEntry fs d) := by
  have hc : ¬ (c < 2 ∨ c ≥ fs.n_fatent) := by
    cases l with
    | nil => exact absurd rfl hl
    | cons x l => unfold chainFrom at hch; omega
  unfold remove_chain at h
  rw [if_neg hc] at h
  have ep : (if p ≠ 0 ∧ (fs.fs_type ≠ FS_EXFAT ∨ obj.stat ≠ 2) then put_fat fs p 0xFFFFFFFF
      else (FR_OK, fs)) = put_fat fs p 0xFFFFFFFF := if_pos ⟨hp0, Or.inl hv.not_exfat⟩
  rw [ep] at h
  dsimp only at h
  by_cases hput : (put_fat fs p 0xFFFFFFFF).1 ≠ FR_OK
  · rw [if_pos hput] at h
    injection h with h
    injection h with h1 _
    exact absurd h1 hput
  rw [if_neg hput] at h
  obtain ⟨-, -, hs1, hw1, -, he1⟩ := put_fat_entry fs (put_fat fs p 0xFFFFFFFF).2 p 0xFFFFFFFF hv hw
    (Prod.ext (not_not.1 hput) rfl)
  have hv1 := hs1.volOk hv
  have hch1 : chainFrom (put_fat fs p 0xFFFFFFFF).2 c l := by
    refine chainFrom_congr fs _ hs1.n_fatent l c (fun d hd => ?_) hch
    rw [he1 d, if_neg (fun e : d = p => hp (e ▸ hd))]
  rcases hlp : remove_chain_loop obj (fs.n_fatent + 1) (put_fat fs p 0xFFFFFFFF).2 c c c
    with _ | ⟨r, fs1⟩
  · rw [hlp] at h
    exact absurd h (fun h => Option.noConfusion h)
  · rw [hlp] at h
    dsimp only at h
    by_cases hr : r ≠ FR_OK
    · rw [if_pos hr] at h
      injection h with h
      injection h with h1 _
      exact absurd h1 hr
    · rw [if_neg hr] at h
      have hr' : r = FR_OK := not_not.1 hr
      subst hr'
      have hfr := remove_chain_loop_ok obj l _ _ c c c fs1 hv1 hw1 hch1 hl hlp
      obtain ⟨g1, g2, g3, -, -, -⟩ := hfr
      have hne : ¬ fs1.fs_type = FS_EXFAT := by
        rw [g1.fs_type', hs1.fs_type]
        exact hv.not_exfat
      rw [if_neg hne] at h
      injection h with h
      injection h with _ h
      injection h with h _
      subst h
      refine ⟨hs1.sameGeom.comp' g1, g2, fun d => ?_⟩
      rw [g3 d, he1 d]

theorem f_truncate_chain_ok (fs fs1 : FATFS) (fp fp1 : FIL) (hv : VolOk fs) (hw : WinInv fs)
    (h : f_truncate_chain fs fp = some (FR_OK, fs1, fp1)) :
    SameGeom fs fs1 ∧ fp1.fptr = fp.fptr ∧ fp1.sect = fp.sect ∧ fp1.flag = fp.flag ∧
    fp1.buf = fp.buf ∧
    (fp.fptr = 0 → fp1.obj.sclust = 0 ∧
      ∀ l, chainFrom fs fp.obj.sclust l → ∀ c ∈ l, fatEntry fs1 c = 0) ∧
    (fp.fptr ≠ 0 → ∀ tail, chainFrom fs fp.clust (fp.clust :: tail) →
      fs.n_fatent ≤ fatEntry fs1 fp.clust ∧ ∀ c ∈ tail, fatEntry fs1 c = 0) := by
  unfold f_truncate_chain at h
  by_cases hp : fp.fptr = 0
  · rw [if_pos hp] at h
    rcases hrc : remove_chain fs fp.obj fp.obj.sclust 0 with _ | ⟨r, fs2, obj2⟩
    · rw [hrc] at h
      exact absurd h (fun h => Option.noConfusion h)
    · rw [hrc] at h
      dsimp only at h
      injection h with h
      injection h with h1 h
      injection h with h2 h3
      subst h1 h2 h3
      refine ⟨?_, rfl, rfl, rfl, rfl, fun _ => ⟨rfl, fun l hl c hc => ?_⟩,
        fun hne => absurd hp hne⟩
      · exact (remove_chain_hint fs fp.obj fp.obj.sclust 0 _ _ _ hrc).1
      · have hl0 : l ≠ [] := fun e => by rw [e] at hc; exact absurd hc (List.not_mem_nil c)
        obtain ⟨⟨-, -, g3, -, -, -⟩, -⟩ := remove_chain_whole fs fs2 fp.obj obj2 fp.obj.sclust l
          hv hw hl hl0 hrc
        rw [g3 c, if_pos hc]
  · rw [if_neg hp] at h
    dsimp only at h
    obtain ⟨hk, hval⟩ := get_fat_inv fs fp.obj fp.clust hv hw
    have hv2 := hk.1.volOk hv
    have hent : ∀ d, fatEntry (get_fat fs fp.obj fp.clust).2 d = fatEntry fs d :=
      fatEntry_congr hk.1 hk.2.2 hv
    obtain ⟨res, hres⟩ : ∃ x, x = (if (get_fat fs fp.obj fp.clust).1 = 1 then FR_INT_ERR
        else if (get_fat fs fp.obj fp.clust).1 = 0xFFFFFFFF then FR_DISK_ERR else FR_OK) :=
      ⟨_, rfl⟩
    rw [← hres] at h
    by_cases hcond : res = FR_OK ∧ (get_fat fs fp.obj fp.clust).1 <
        (get_fat fs fp.obj fp.clust).2.n_fatent
    · rw [if_pos hcond] at h
      have hne : (get_fat fs fp.obj fp.clust).1 ≠ 0xFFFFFFFF := by
        have := hv2.2.2.1
        have hnle : (get_fat fs fp.obj fp.clust).2.n_fatent ≤ 0x0FFFFFF7 := by
          rcases hv2.2.2.2 with ⟨_, hh, _⟩ | ⟨_, hh, _⟩ | ⟨_, hh, _⟩ <;> omega
        omega
      have hg := hval hne
      rcases hrc : remove_chain (get_fat fs fp.obj fp.clust).2 fp.obj
          (get_fat fs fp.obj fp.clust).1 fp.clust with _ | ⟨r, fs2, obj2⟩
      · rw [hrc] at h
        exact absurd h (fun h => Option.noConfusion h)
      · rw [hrc] at h
        dsimp only at h
        injection h with h
        injection h with h1 h
        injection h with h2 h3
        subst h1 h2 h3
        refine ⟨hk.1.sameGeom.comp' (remove_chain_hint _ _ _ _ _ _ _ hrc).1, rfl, rfl, rfl, rfl,
          fun h0 => absurd h0 hp, fun _ tail hch => ?_⟩
        have hch' := hch
        unfold chainFrom at hch'
        obtain ⟨-, hc2, hcn, hrest⟩ := hch'
        rw [← hg] at hrest
        have htl : tail ≠ [] := by
          intro e
          rw [e] at hrest
          unfold chainFrom at hrest
          rw [hk.1.n_fatent] at hcond
          omega
        have hrest2 : chainFrom (get_fat fs fp.obj fp.clust).2 (get_fat fs fp.obj fp.clust).1
            tail := chainFrom_congr fs _ hk.1.n_fatent tail _ (fun d _ => hent d) hrest
        obtain ⟨-, -, g3⟩ := remove_chain_tail _ fs2 fp.obj obj2 _ fp.clust tail hv2 hk.2.1 hrest2
          htl (chainFrom_head_not_mem fs fp.clust tail hch) (by omega) hrc
        refine ⟨?_, fun c hc => by rw [g3 c, if_pos hc]⟩
        rw [g3 fp.clust, if_neg (chainFrom_head_not_mem fs fp.clust tail hch), if_pos rfl,
          ← hk.1.n_fatent]
        exact fatMask_eoc hv2
    · rw [if_neg hcond] at h
      injection h with h
      injection h with h1 h
      injection h with h2 h3
      subst h2 h3
      refine ⟨hk.1.sameGeom, rfl, rfl, rfl, rfl, fun h0 => absurd h0 hp, fun _ tail hch => ?_⟩
      have hge : ¬ (get_fat fs fp.obj fp.clust).1 < (get_fat fs fp.obj fp.clust).2.n_fatent :=
        fun hlt => hcond ⟨h1, hlt⟩
      have hne : (get_fat fs fp.obj fp.clust).1 ≠ 0xFFFFFFFF := by
        intro e
        rw [hres] at h1
        by_cases e1 : (get_fat fs fp.obj fp.clust).1 = 1
        · rw [if_pos e1] at h1
          exact FRESULT.noConfusion h1
        · rw [if_neg e1, if_pos e] at h1
          exact FRESULT.noConfusion h1
      have hg := hval hne
      rw [hk.1.n_fatent] at hge
      unfold chainFrom at hch
      obtain ⟨-, hc2, hcn, hrest⟩ := hch
      rw [hent fp.clust]
      refine ⟨by omega, ?_⟩
      cases tail with
      | nil => intro c hc; exact absurd hc (List.not_mem_nil c)
      | cons x t =>
        unfold chainFrom at hrest
        omega

/-- C8. On a FAT12/16/32 volume with a coherent window, for a handle whose
pointer `p` is below the size and whose sector buffer does not belong to a
sector of the FAT, a successful `f_truncate` leaves `size = p`. If `p` is not 0
and the current cluster with the clusters that follow it form a chain up to an
end-of-chain value, the FAT entry of the current cluster is an end-of-chain
value afterwards and the entry of every cluster that followed it is 0. If `p`
is 0, the start cluster of the handle becomes 0 and the entry of every cluster
of the chain from the start cluster is 0. -/
theorem C8_truncate_frees_the_tail (fs fs' : FATFS) (fp fp' : FIL) (hv : VolOk fs)
    (hw : WinInv fs) (hs : notFat1 fs fp.sect) (hp : fp.fptr < fp.obj.objsize)
    (h : f_truncate fs fp = some (FR_OK, fs', fp')) :
    fp'.obj.objsize = fp.fptr ∧
    (fp.fptr = 0 → fp'.obj.sclust = 0 ∧
      ∀ l, chainFrom fs fp.obj.sclust l → ∀ c ∈ l, fatEntry fs' c = 0) ∧
    (fp.fptr ≠ 0 → ∀ tail, chainFrom fs fp.clust (fp.clust :: tail) →
      fs.n_fatent ≤ fatEntry fs' fp.clust ∧ ∀ c ∈ tail, fatEntry fs' c = 0) := by
  unfold f_truncate at h
  by_cases h1 : validate fs (some fp.obj) ≠ FR_OK
  · rw [if_pos h1] at h
    injection h with h
    injection h with e _
    exact absurd e h1
  rw [if_neg h1] at h
  by_cases h2 : result_of fp.err ≠ FR_OK
  · rw [if_pos h2] at h
    injection h with h
    injection h with e _
    exact absurd e h2
  rw [if_neg h2] at h
  by_cases h3 : fp.flag &&& FA_WRITE = 0
  · rw [if_pos h3] at h
    injection h with h
    injection h with e _
    exact FRESULT.noConfusion e
  rw [if_neg h3, if_pos hp] at h
  rcases htc : f_truncate_chain fs fp with _ | ⟨res, fs1, fp1⟩
  · rw [htc] at h
    exact absurd h (fun h => Option.noConfusion h)
  rw [htc] at h
  dsimp only at h
  obtain ⟨fpm, hfpm⟩ : ∃ x, x = set_modified
      { fp1 with obj := { fp1.obj with objsize := fp1.fptr } } := ⟨_, rfl⟩
  rw [← hfpm] at h
  have key : res = FR_OK ∧ fp'.obj = fpm.obj ∧ ∀ c, fatEntry fs' c = fatEntry fs1 c := by
    by_cases hd : res = FR_OK ∧ fpm.flag &&& FA_DIRTY ≠ 0
    · rw [if_pos hd] at h
      have hg : SameGeom fs fs1 := by
        have e := hd.1
        subst e
        exact (f_truncate_chain_ok fs fs1 fp fp1 hv hw htc).1
      have hsect : fpm.sect = fp.sect := by
        have e := hd.1
        subst e
        rw [hfpm]
        exact (f_truncate_chain_ok fs fs1 fp fp1 hv hw htc).2.2.1
      by_cases hfl : (file_flush fs1 fpm).1 = false
      · rw [if_pos hfl] at h
        dsimp only at h
        rw [if_pos (show FR_DISK_ERR ≠ FR_OK from fun e => FRESULT.noConfusion e)] at h
        injection h with h
        injection h with e _
        exact FRESULT.noConfusion e
      · rw [if_neg hfl] at h
        dsimp only at h
        rw [if_neg (show ¬ FR_OK ≠ FR_OK from fun e => e rfl)] at h
        injection h with h
        injection h with _ h
        injection h with e1 e2
        subst e1 e2
        exact ⟨hd.1, (file_flush_frame fs1 fpm).2.1,
          file_flush_fatEntry fs1 fpm (hg.volOk' hv)
            (fun _ => by rw [hsect]; exact (hg.notFat1' _).2 hs)⟩
    · rw [if_neg hd] at h
      dsimp only at h
      by_cases hr : res ≠ FR_OK
      · rw [if_pos hr] at h
        injection h with h
        injection h with e _
        exact absurd e hr
      · rw [if_neg hr] at h
        injection h with h
        injection h with _ h
        injection h with e1 e2
        subst e1 e2
        exact ⟨not_not.1 hr, rfl, fun _ => rfl⟩
  obtain ⟨hres, hobj, hent⟩ := key
  subst hres
  obtain ⟨-, a2, -, -, -, a6, a7⟩ := f_truncate_chain_ok fs fs1 fp fp1 hv hw htc
  refine ⟨?_, fun h0 => ?_, fun hne tail hch => ?_⟩
  · rw [hobj, hfpm, ← a2]
    rfl
  · obtain ⟨b1, b2⟩ := a6 h0
    refine ⟨?_, fun l hl c hc => by rw [hent c]; exact b2 l hl c hc⟩
    rw [hobj, hfpm]
    exact b1
  · obtain ⟨b1, b2⟩ := a7 hne tail hch
    exact ⟨by rw [hent]; exact b1, fun c hc => by rw [hent c]; exact b2 c hc⟩

/-- C8 (witness): on `exFat12File` the truncation of the file of the chain
2 -> 3 -> 5 at the pointer 512 leaves the size 512, an end-of-chain value in
the entry of cluster 2 and 0 in the entries of the clusters 3 and 5. -/
theorem C8_truncate_frees_the_tail_witness :
    ∃ fs' fp', f_truncate exFat12File exTruncFile = some (FR_OK, fs', fp') ∧
      fp'.obj.objsize = 512 ∧ exFat12File.n_fatent ≤ fatEntry fs' 2 ∧
      fatEntry fs' 3 = 0 ∧ fatEntry fs' 5 = 0 := by
  have hm : (f_truncate exFat12File exTruncFile).map (fun r => r.1) = some FR_OK := by decide
  rcases hc : f_truncate exFat12File exTruncFile with _ | ⟨r, fs', fp'⟩
  · rw [hc] at hm
    exact absurd hm (fun h => Option.noConfusion h)
  · rw [hc] at hm
    injection hm with hm
    subst hm
    obtain ⟨a1, -, a3⟩ := C8_truncate_frees_the_tail exFat12File fs' exTruncFile fp'
      exFat12File_volOk exFat12File_winInv (by unfold notFat1; decide) (by decide) hc
    obtain ⟨b1, b2⟩ := a3 (by decide) [3, 5] (by decide)
    exact ⟨fs', fp', rfl, a1, b1, b2 3 (by decide), b2 5 (by decide)⟩

theorem SameGeom.dirbase' {a b : FATFS} (h : SameGeom a b) : b.dirbase = a.dirbase := by
  unfold SameGeom at h; rw [h]
theorem SameGeom.n_rootdir' {a b : FATFS} (h : SameGeom a b) : b.n_rootdir = a.n_rootdir := by
  unfold SameGeom at h; rw [h]
theorem SameGeom.lfnbuf' {a b : FATFS} (h : SameGeom a b) : b.lfnbuf = a.lfnbuf := by
  unfold SameGeom at h; rw [h]

theorem SameGeom.dataOk' {a b : FATFS} (h : SameGeom a b) (hg : DataOk a) : DataOk b := by
  unfold DataOk at *
  rw [h.csize', h.database', h.n_fatent']
  exact hg

theorem SameGeom.dirOk' {a b : FATFS} (h : SameGeom a b) (hg : DirOk a) : DirOk b := by
  unfold DirOk at *
  rw [h.n_fats', h.fatbase', h.fsize', h.database', h.fs_type', h.dirbase', h.n_rootdir']
  exact hg

theorem SameGeom.afterFats' {a b : FATFS} (h : SameGeom a b) (t : Nat) :
    afterFats b t ↔ afterFats a t := by
  unfold afterFats
  rw [h.n_fats', h.fatbase', h.fsize']

theorem SameGeom.clust2sect' {a b : FATFS} (h : SameGeom a b) (c : Nat) :
    clust2sect b c = clust2sect a c := by
  unfold clust2sect
  rw [h.n_fatent', h.csize', h.database']

theorem SameGeom.dirStart' {a b : FATFS} (h : SameGeom a b) (s : Nat) :
    dirStart b s = dirStart a s := by
  unfold dirStart
  rw [h.fs_type', h.dirbase']

theorem dirSect_congr {a b : FATFS} (h : SameGeom a b) (hf : ∀ c, fatEntry b c = fatEntry a c)
    (s idx : Nat) : dirSect b s idx = dirSect a s idx := by
  unfold dirSect
  rw [h.dirStart', h.dirbase', h.csize', clusterAt_congr hf, h.clust2sect']

/-- A sector after the FATs lies outside the second FAT copy and is not the
tag of an invalid window. -/
theorem afterFats.out {fs : FATFS} {t : Nat} (hv : VolOk fs) (h : afterFats fs t) :
    ¬ inMirror fs t ∧ t ≠ W32 - 1 ∧ notFat1 fs t := by
  obtain ⟨h1, h2⟩ := h
  unfold inMirror notFat1
  rcases hv.1 with hn | hn <;> rw [hn] at h1 <;> rw [hn] <;>
    exact ⟨fun hm => by omega, by omega, fun hf => by omega⟩

/-- The sector of a cluster of the volume: no 32-bit wrap, and the whole
cluster lies in the data area. -/
theorem clust2sect_valid (fs : FATFS) (c : Nat) (hv : VolOk fs) (hg : DataOk fs)
    (hc : 2 ≤ c ∧ c < fs.n_fatent) :
    clust2sect fs c = fs.database + (c - 2) * fs.csize ∧
    fs.database + (c - 2) * fs.csize + fs.csize ≤ fs.database + (fs.n_fatent - 2) * fs.csize := by
  obtain ⟨-, -, hn3, ht⟩ := hv
  obtain ⟨-, hd0, hlim⟩ := hg
  have hnW : fs.n_fatent < W32 := by
    unfold W32
    rcases ht with ⟨_, h, _⟩ | ⟨_, h, _⟩ | ⟨_, h, _⟩ <;> omega
  have hle : (c - 2 + 1) * fs.csize ≤ (fs.n_fatent - 2) * fs.csize :=
    Nat.mul_le_mul_right _ (by omega)
  rw [Nat.add_mul, Nat.one_mul] at hle
  refine ⟨?_, by omega⟩
  unfold clust2sect
  dsimp only
  have e1 : (c + W32 - 2) % W32 = c - 2 := by unfold W32 at *; omega
  have e2 : (fs.n_fatent + W32 - 2) % W32 = fs.n_fatent - 2 := by unfold W32 at *; omega
  rw [e1, e2, if_neg (by omega), Nat.add_comm, Nat.mod_eq_of_lt (by omega)]

/-- A cluster number of 32 bits for which `clust2sect` does not fail is a
cluster of the volume. -/
theorem clust2sect_ne_zero (fs : FATFS) (c : Nat) (hv : VolOk fs) (hc : c < W32)
    (h : clust2sect fs c ≠ 0) : 2 ≤ c ∧ c < fs.n_fatent := by
  obtain ⟨-, -, hn3, ht⟩ := hv
  have hnW : fs.n_fatent < W32 := by
    unfold W32
    rcases ht with ⟨_, h, _⟩ | ⟨_, h, _⟩ | ⟨_, h, _⟩ <;> omega
  unfold clust2sect at h
  dsimp only at h
  by_cases hge : (c + W32 - 2) % W32 ≥ (fs.n_fatent + W32 - 2) % W32
  · rw [if_pos hge] at h
    exact absurd rfl h
  · unfold W32 at *
    omega

/-- The sectors of two different clusters of the volume differ. -/
theorem clust2sect_inj (fs : FATFS) (c d j k : Nat) (hv : VolOk fs) (hg : DataOk fs)
    (hc : 2 ≤ c ∧ c < fs.n_fatent) (hd : 2 ≤ d ∧ d < fs.n_fatent) (hj : j < fs.csize)
    (hk : k < fs.csize) (hne : c ≠ d) : clust2sect fs c + j ≠ clust2sect fs d + k := by
  rw [(clust2sect_valid fs c hv hg hc).1, (clust2sect_valid fs d hv hg hd).1]
  rcases Nat.lt_or_gt_of_ne hne with h | h
  · have : (c - 2 + 1) * fs.csize ≤ (d - 2) * fs.csize := Nat.mul_le_mul_right _ (by omega)
    rw [Nat.add_mul, Nat.one_mul] at this
    omega
  · have : (d - 2 + 1) * fs.csize ≤ (c - 2) * fs.csize := Nat.mul_le_mul_right _ (by omega)
    rw [Nat.add_mul, Nat.one_mul] at this
    omega

theorem DataOk.csize_pos {fs : FATFS} (hg : DataOk fs) : 0 < fs.csize ∧ fs.csize ≤ 128 := by
  obtain ⟨⟨k, hk, e⟩, -, -⟩ := hg
  rw [e]
  refine ⟨Nat.pos_pow_of_pos _ (by decide), ?_⟩
  calc 2 ^ k ≤ 2 ^ 7 := Nat.pow_le_pow_right (by decide) hk
    _ = 128 := rfl

/-- The mask of the sector number in a cluster is the remainder by the
cluster size. -/
theorem DataOk.mask {fs : FATFS} (hg : DataOk fs) (q : Nat) :
    q &&& ((fs.csize + W32 - 1) % W32) = q % fs.csize := by
  have hc := hg.csize_pos
  obtain ⟨⟨k, hk, e⟩, -, -⟩ := hg
  have e1 : (fs.csize + W32 - 1) % W32 = fs.csize - 1 := by unfold W32; omega
  rw [e1, e]
  exact Nat.and_pow_two_sub_one_eq_mod q k

/-- The next sector number: either the next sector of the same cluster or the
first sector of the next one. -/
theorem next_sector (q c : Nat) (hc : 0 < c) :
    ((q + 1) % c = 0 → (q + 1) / c = q / c + 1 ∧ q % c = c - 1) ∧
    ((q + 1) % c ≠ 0 → (q + 1) / c = q / c ∧ (q + 1) % c = q % c + 1) := by
  have h1 := Nat.div_add_mod q c
  have h2 := Nat.div_add_mod (q + 1) c
  have h3 := Nat.mod_lt q hc
  have h4 := Nat.mod_lt (q + 1) hc
  have h5 := Nat.succ_div q c
  constructor
  · intro h0
    rw [if_pos (Nat.dvd_of_mod_eq_zero h0)] at h5
    have h6 : (q + 1) / c = q / c + 1 := h5
    rw [h6, Nat.mul_add, Nat.mul_one, h0] at h2
    exact ⟨h6, by omega⟩
  · intro h0
    rw [if_neg (fun hd => h0 (Nat.mod_eq_zero_of_dvd hd))] at h5
    have h6 : (q + 1) / c = q / c := h5
    rw [h6] at h2
    exact ⟨h6, by omega⟩

theorem div_csz (x c : Nat) : x / (c * SS) = x / SS / c := by
  rw [Nat.mul_comm, Nat.div_div_eq_div_mul]

theorem dirSect_same (fs : FATFS) (s a b : Nat) (h : a / SS = b / SS) :
    dirSect fs s a = dirSect fs s b := by
  unfold dirSect
  rw [div_csz a, div_csz b, h]

theorem dirSect_root (fs : FATFS) (s idx : Nat) (h : dirStart fs s = 0) :
    dirSect fs s idx = fs.dirbase + idx / SS := by
  unfold dirSect
  rw [if_pos h]

theorem dirSect_chain (fs : FATFS) (s idx : Nat) (h : dirStart fs s ≠ 0) :
    dirSect fs s idx =
      clust2sect fs (clusterAt fs (dirStart fs s) (idx / SS / fs.csize)) + idx / SS % fs.csize := by
  unfold dirSect
  rw [if_neg h, div_csz]

theorem sum_sfn_ror (s x : Nat) :
    ((s >>> 1) + (s <<< 7) + x) % 256 = (ror8 s + x) % 256 := by
  unfold ror8
  rw [Nat.shiftRight_eq_div_pow, Nat.shiftLeft_eq]
  omega

theorem sum_sfn_eq (b : Nat → Nat) (o : Nat) : sum_sfn b o = sfn_checksum b o := by
  unfold sum_sfn sfn_checksum
  congr 1
  funext s k
  exact sum_sfn_ror s _

theorem sfn_checksum_lt (b : Nat → Nat) (o : Nat) : sfn_checksum b o < 256 := by
  unfold sfn_checksum
  rw [show List.range 11 = List.range 10 ++ [10] from rfl, List.foldl_append]
  exact Nat.mod_lt _ (by decide)

theorem foldl_bytes_congr (F : Nat → Nat → Nat) (f g : Nat → Nat) :
    ∀ (l : List Nat) (s : Nat), (∀ k ∈ l, f k = g k) →
      l.foldl (fun sum k => F sum (f k)) s = l.foldl (fun sum k => F sum (g k)) s := by
  intro l
  induction l with
  | nil => intro s _; rfl
  | cons x rest ih =>
    intro s h
    rw [List.foldl_cons, List.foldl_cons, h x (List.mem_cons_self _ _)]
    exact ih _ (fun k hk => h k (List.mem_cons_of_mem _ hk))

/-- The checksum depends on the 11 bytes of the name only. -/
theorem sfn_checksum_congr (b c : Nat → Nat) (o p : Nat)
    (h : ∀ k, k < 11 → ldb b (o + k) = ldb c (p + k)) : sfn_checksum b o = sfn_checksum c p := by
  unfold sfn_checksum
  exact foldl_bytes_congr (fun sum x => (ror8 sum + x) % 256) _ _ _ _
    (fun k hk => h k (List.mem_range.1 hk))

theorem put_lfn_loop_frame (lfn : Nat → Nat) (o j : Nat) :
    ∀ (l : List Nat) (i wc : Nat) (dir : Nat → Nat),
      (∀ ofs ∈ l, j ≠ o + ofs ∧ j ≠ o + ofs + 1) →
      ldb (put_lfn_loop lfn o l i wc dir).2.2 j = ldb dir j := by
  intro l
  induction l with
  | nil => intro i wc dir _; rfl
  | cons ofs rest ih =>
    intro i wc dir h
    unfold put_lfn_loop
    dsimp only
    rw [ih _ _ _ (fun x hx => h x (List.mem_cons_of_mem _ hx)), ldb_st_word]
    have := h ofs (List.mem_cons_self _ _)
    rw [if_neg this.2, if_neg this.1]

theorem LfnOfs_mem {ofs : Nat} (h : ofs ∈ LfnOfs) :
    1 ≤ ofs ∧ ofs ≤ 30 ∧ ofs ≠ 10 ∧ ofs ≠ 11 ∧ ofs ≠ 12 ∧ ofs ≠ 13 ∧ ofs ≠ 26 ∧ ofs ≠ 27 ∧
    ofs ≠ 25 := by
  unfold LfnOfs at h
  simp only [List.mem_cons, List.mem_singleton, List.not_mem_nil, or_false] at h
  rcases h with h | h | h | h | h | h | h | h | h | h | h | h | h <;> subst h <;> decide

/-- The checksum field of the entry made by `put_lfn` holds the checksum it
was given. -/
theorem put_lfn_chksum (lfn dir : Nat → Nat) (o ord sum : Nat) :
    ldb (put_lfn lfn dir o ord sum) (o + LDIR_Chksum) = sum % 256 := by
  unfold put_lfn
  dsimp only
  rw [ldb_stb_ne _ _ _ _ (by unfold LDIR_Chksum LDIR_Ord; omega),
    put_lfn_loop_frame lfn o (o + LDIR_Chksum) LfnOfs _ _ _ (by
      intro ofs hofs
      have := LfnOfs_mem hofs
      unfold LDIR_Chksum
      omega),
    ldb_st_word, if_neg (by unfold LDIR_Chksum LDIR_FstClusLO; omega),
    if_neg (by unfold LDIR_Chksum LDIR_FstClusLO; omega),
    ldb_stb_ne _ _ _ _ (by unfold LDIR_Chksum LDIR_Type; omega),
    ldb_stb_ne _ _ _ _ (by unfold LDIR_Chksum LDIR_Attr; omega), ldb_stb_same]

/-- The attribute of the entry made by `put_lfn` is `AM_LFN`. -/
theorem put_lfn_attr (lfn dir : Nat → Nat) (o ord sum : Nat) :
    ldb (put_lfn lfn dir o ord sum) (o + LDIR_Attr) = AM_LFN := by
  unfold put_lfn
  dsimp only
  rw [ldb_stb_ne _ _ _ _ (by unfold LDIR_Attr LDIR_Ord; omega),
    put_lfn_loop_frame lfn o (o + LDIR_Attr) LfnOfs _ _ _ (by
      intro ofs hofs
      have := LfnOfs_mem hofs
      unfold LDIR_Attr
      omega),
    ldb_st_word, if_neg (by unfold LDIR_Attr LDIR_FstClusLO; omega),
    if_neg (by unfold LDIR_Attr LDIR_FstClusLO; omega),
    ldb_stb_ne _ _ _ _ (by unfold LDIR_Attr LDIR_Type; omega), ldb_stb_same]
  rfl

/-- `put_lfn` changes the 32 bytes of its entry only. -/
theorem put_lfn_frame (lfn dir : Nat → Nat) (o ord sum j : Nat) (h : j < o ∨ o + 32 ≤ j) :
    ldb (put_lfn lfn dir o ord sum) j = ldb dir j := by
  unfold put_lfn
  dsimp only
  rw [ldb_stb_ne _ _ _ _ (by unfold LDIR_Ord; omega),
    put_lfn_loop_frame lfn o j LfnOfs _ _ _ (by
      intro ofs hofs
      have := LfnOfs_mem hofs
      omega),
    ldb_st_word, if_neg (by unfold LDIR_FstClusLO; omega),
    if_neg (by unfold LDIR_FstClusLO; omega),
    ldb_stb_ne _ _ _ _ (by unfold LDIR_Type; omega),
    ldb_stb_ne _ _ _ _ (by unfold LDIR_Attr; omega),
    ldb_stb_ne _ _ _ _ (by unfold LDIR_Chksum; omega)]

/-- The name field of the entry made by `put_sfn` holds the short name. -/
theorem put_sfn_name (win fn : Nat → Nat) (o k : Nat) (hk : k < 11) :
    ldb (put_sfn win fn o) (o + k) = ldb fn k := by
  have hl := ldb_lt fn k
  cases o with
  | zero =>
    unfold put_sfn ldb
    dsimp only
    rw [Nat.zero_add, if_pos (by unfold SZ_DIR; omega), if_pos hk]
    exact Nat.mod_eq_of_lt hl
  | succ n =>
    unfold put_sfn ldb
    dsimp only
    rw [if_pos ⟨by omega, by unfold SZ_DIR; omega⟩, if_pos (by omega),
      show n + 1 + k - (n + 1) = k by omega]
    exact Nat.mod_eq_of_lt hl

/-- `put_sfn` changes the 32 bytes of its entry only. -/
theorem put_sfn_frame (win fn : Nat → Nat) (o j : Nat) (h : j < o ∨ o + 32 ≤ j) :
    put_sfn win fn o j = win j := by
  cases o with
  | zero =>
    unfold put_sfn
    dsimp only
    rw [if_neg (by unfold SZ_DIR; omega)]
  | succ n =>
    unfold put_sfn
    dsimp only
    rw [if_neg (by unfold SZ_DIR; omega)]

theorem clusterAt_zero (fs : FATFS) (c : Nat) : clusterAt fs c 0 = c := by
  unfold clusterAt
  exact Function.iterate_zero_apply _ _

theorem clusterAt_head (fs : FATFS) (c i : Nat) :
    clusterAt fs c (i + 1) = clusterAt fs (fatEntry fs c) i := by
  unfold clusterAt
  exact Function.iterate_succ_apply _ _ _

theorem DirAt_congr {a b : FATFS} (h : SameGeom a b) (hf : ∀ c, fatEntry b c = fatEntry a c)
    (dp : DIR_) : DirAt b dp ↔ DirAt a dp := by
  unfold DirAt
  rw [dirSect_congr h hf, h.dirStart', h.n_rootdir', h.csize', h.n_fatent', h.fs_type',
    clusterAt_congr hf]

theorem Keeps.fat {a b : FATFS} (h : Keeps a b) (hv : VolOk a) (c : Nat) :
    fatEntry b c = fatEntry a c :=
  fatEntry_congr h.1 h.2.2 hv c

/-- The loop of `dir_sdi` follows the FAT: it ends on the cluster reached
after `idx / csz` steps with the remainder of the offset. -/
theorem dir_sdi_follow_spec (fs0 : FATFS) (obj : FFOBJID) (csz : Nat) (hv : VolOk fs0)
    (hcsz : 0 < csz) :
    ∀ (fuel : Nat) (fs : FATFS) (clst idx : Nat) (res : FRESULT ⊕ (Nat × Nat)) (fs' : FATFS),
      Keeps fs0 fs → dir_sdi_follow obj csz fuel fs clst idx = some (res, fs') →
      Keeps fs0 fs' ∧ (∀ e, res = Sum.inl e → e ≠ FR_OK) ∧ ∀ c r, res = Sum.inr (c, r) →
        c = clusterAt fs0 clst (idx / csz) ∧ r = idx % csz ∧
        (idx / csz ≠ 0 → 2 ≤ c ∧ c < fs0.n_fatent) := by
  intro fuel
  induction fuel with
  | zero =>
    intro fs clst idx res fs' _ h
    unfold dir_sdi_follow at h
    exact absurd h (fun h => Option.noConfusion h)
  | succ n ih =>
    intro fs clst idx res fs' hk h
    unfold dir_sdi_follow at h
    by_cases hge : idx ≥ csz
    · rw [if_pos hge] at h
      dsimp only at h
      have hvf : VolOk fs := hk.1.volOk hv
      obtain ⟨gk, gv⟩ := get_fat_inv fs obj clst hvf hk.2.1
      have hk2 : Keeps fs0 (get_fat fs obj clst).2 := hk.comp gk
      by_cases e1 : (get_fat fs obj clst).1 = 0xFFFFFFFF
      · rw [if_pos e1] at h
        injection h with h
        injection h with h1 h2
        subst h1 h2
        refine ⟨hk2, fun e he => ?_, fun c r hcr => Sum.noConfusion hcr⟩
        injection he with he
        rw [← he]
        exact fun h => FRESULT.noConfusion h
      rw [if_neg e1] at h
      by_cases e2 : (get_fat fs obj clst).1 < 2 ∨
          (get_fat fs obj clst).1 ≥ (get_fat fs obj clst).2.n_fatent
      · rw [if_pos e2] at h
        injection h with h
        injection h with h1 h2
        subst h1 h2
        refine ⟨hk2, fun e he => ?_, fun c r hcr => Sum.noConfusion hcr⟩
        injection he with he
        rw [← he]
        exact fun h => FRESULT.noConfusion h
      rw [if_neg e2] at h
      obtain ⟨k1, k0, k2⟩ := ih _ _ _ _ _ hk2 h
      refine ⟨k1, k0, fun c r hcr => ?_⟩
      obtain ⟨a1, a2, a3⟩ := k2 c r hcr
      have hval : (get_fat fs obj clst).1 = fatEntry fs0 clst := by
        rw [gv e1, hk.fat hv]
      have hdiv : idx / csz = (idx - csz) / csz + 1 := by
        have e := Nat.add_div_right (idx - csz) hcsz
        rw [Nat.sub_add_cancel hge] at e
        exact e
      have hmod : idx % csz = (idx - csz) % csz := Nat.mod_eq_sub_mod hge
      rw [hdiv, hmod]
      refine ⟨?_, a2, fun _ => ?_⟩
      · rw [a1, hval, clusterAt_head]
      · by_cases z : (idx - csz) / csz = 0
        · rw [z, clusterAt_zero] at a1
          rw [hk2.1.n_fatent] at e2
          rw [a1]
          omega
        · exact a3 z
    · rw [if_neg hge] at h
      injection h with h
      injection h with h1 h2
      subst h1 h2
      refine ⟨hk, fun e he => Sum.noConfusion he, fun c r hcr => ?_⟩
      injection hcr with hcr
      injection hcr with c1 c2
      subst c1 c2
      have hz : idx / csz = 0 := Nat.div_eq_of_lt (by omega)
      rw [hz, Nat.mod_eq_of_lt (by omega), clusterAt_zero]
      exact ⟨rfl, rfl, fun h => absurd rfl h⟩

theorem dir_sdi_end_spec (dp : DIR_) (clst idx : Nat) :
    (dir_sdi_end dp clst idx).2.fn = dp.fn ∧ (dir_sdi_end dp clst idx).2.obj = dp.obj ∧
    (dir_sdi_end dp clst idx).2.dptr = dp.dptr ∧ (dir_sdi_end dp clst idx).2.clust = clst ∧
    ((dir_sdi_end dp clst idx).1 = FR_OK → dp.sect ≠ 0 ∧
      (dir_sdi_end dp clst idx).2.sect = (dp.sect + idx / SS) % W32 ∧
      (dir_sdi_end dp clst idx).2.dir = some (idx % SS)) := by
  unfold dir_sdi_end
  by_cases h : dp.sect = 0
  · rw [if_pos h]
    exact ⟨rfl, rfl, rfl, rfl, fun e => FRESULT.noConfusion e⟩
  · rw [if_neg h]
    exact ⟨rfl, rfl, rfl, rfl, fun _ => ⟨h, rfl, rfl⟩⟩

theorem VolOk.n_fatent_lt {fs : FATFS} (hv : VolOk fs) : 3 ≤ fs.n_fatent ∧ fs.n_fatent < W32 := by
  obtain ⟨-, -, hn3, ht⟩ := hv
  unfold W32
  rcases ht with ⟨_, h, _⟩ | ⟨_, h, _⟩ | ⟨_, h, _⟩ <;> omega

/-- `dir_sdi` sets the directory object on the entry at offset `idx`. -/
theorem dir_sdi_spec (fs0 fs fs' : FATFS) (dp dp' : DIR_) (idx : Nat) (r : FRESULT)
    (hv : VolOk fs0) (hg : DataOk fs0) (hr : DirOk fs0) (hk : Keeps fs0 fs)
    (hs : dp.obj.sclust < W32) (h : dir_sdi fs dp idx = some (r, fs', dp')) :
    Keeps fs0 fs' ∧ dp'.fn = dp.fn ∧ dp'.obj.sclust = dp.obj.sclust ∧
    (r = FR_OK → DirAt fs0 dp' ∧ dp'.dptr = idx) := by
  have hge := hk.1.sameGeom
  have hvf : VolOk fs := hk.1.volOk hv
  unfold dir_sdi at h
  rw [if_neg hvf.not_exfat] at h
  by_cases c1 : idx ≥ MAX_DIR ∨ idx % SZ_DIR ≠ 0
  · rw [if_pos c1] at h
    injection h with h
    injection h with h1 h2
    injection h2 with h2 h3
    subst h1 h2 h3
    exact ⟨hk, rfl, rfl, fun e => FRESULT.noConfusion e⟩
  rw [if_neg c1] at h
  dsimp only at h
  have hst : (if dp.obj.sclust = 0 ∧ fs.fs_type ≥ FS_FAT32 then fs.dirbase else dp.obj.sclust)
      = dirStart fs0 dp.obj.sclust := by
    unfold dirStart
    rw [hge.fs_type', hge.dirbase']
  rw [hst] at h
  have hfn : (if dp.obj.sclust = 0 ∧ fs.fs_type ≥ FS_FAT32
      then ({ dp with dptr := idx, obj := { dp.obj with stat := 0 } } : DIR_)
      else { dp with dptr := idx }).fn = dp.fn := by split_ifs <;> rfl
  have hsc : (if dp.obj.sclust = 0 ∧ fs.fs_type ≥ FS_FAT32
      then ({ dp with dptr := idx, obj := { dp.obj with stat := 0 } } : DIR_)
      else { dp with dptr := idx }).obj.sclust = dp.obj.sclust := by split_ifs <;> rfl
  have hdp : (if dp.obj.sclust = 0 ∧ fs.fs_type ≥ FS_FAT32
      then ({ dp with dptr := idx, obj := { dp.obj with stat := 0 } } : DIR_)
      else { dp with dptr := idx }).dptr = idx := by split_ifs <;> rfl
  generalize (if dp.obj.sclust = 0 ∧ fs.fs_type ≥ FS_FAT32
      then ({ dp with dptr := idx, obj := { dp.obj with stat := 0 } } : DIR_)
      else { dp with dptr := idx }) = dp2 at h hfn hsc hdp
  clear hst
  have hc1 : idx < MAX_DIR ∧ idx % SZ_DIR = 0 := by
    constructor
    · exact Nat.lt_of_not_le (fun hle => c1 (Or.inl hle))
    · exact Classical.byContradiction (fun hne => c1 (Or.inr hne))
  have hdb : fs0.database < W32 := by
    obtain ⟨-, -, hlim⟩ := hg
    generalize (fs0.n_fatent - 2) * fs0.csize = p at hlim
    omega
  by_cases c2 : dirStart fs0 dp.obj.sclust = 0
  · rw [if_pos c2] at h
    by_cases c3 : idx / SZ_DIR ≥ fs.n_rootdir
    · rw [if_pos c3] at h
      injection h with h
      injection h with h1 h2
      injection h2 with h2 h3
      subst h1 h2 h3
      exact ⟨hk, hfn, hsc, fun e => FRESULT.noConfusion e⟩
    rw [if_neg c3] at h
    obtain ⟨e1, e2, e3, e4, e5⟩ := dir_sdi_end_spec { dp2 with sect := fs.dirbase }
      (dirStart fs0 dp.obj.sclust) idx
    generalize dir_sdi_end { dp2 with sect := fs.dirbase } (dirStart fs0 dp.obj.sclust) idx = e
      at h e1 e2 e3 e4 e5
    dsimp only at e1 e2 e3 e4 e5
    injection h with h
    injection h with h1 h2
    injection h2 with h2 h3
    subst h1 h2 h3
    have hobj : e.2.obj.sclust = dp.obj.sclust := by rw [e2, hsc]
    refine ⟨hk, e1.trans hfn, hobj, fun hok => ?_⟩
    obtain ⟨n0, n1, n2⟩ := e5 hok
    have hdp' : e.2.dptr = idx := e3.trans hdp
    refine ⟨?_, hdp'⟩
    rw [hge.dirbase'] at n0 n1
    rw [hge.n_rootdir'] at c3
    have h32 : fs0.fs_type ≠ FS_FAT32 := by
      intro h32
      unfold dirStart at c2
      by_cases z : dp.obj.sclust = 0
      · rw [if_pos ⟨z, by rw [h32]⟩] at c2
        exact n0 c2
      · rw [if_neg (fun hh => z hh.1)] at c2
        exact z c2
    unfold DirAt
    rw [hobj, hdp', if_pos c2, e4, n1, n2]
    refine ⟨hc1.2, hc1.1, rfl, ?_, c2, h32, ?_⟩
    · unfold dirSect
      rw [if_pos c2]
      apply Nat.mod_eq_of_lt
      obtain ⟨-, -, hroot⟩ := hr
      rcases hroot with h32' | ⟨-, hroot⟩
      · exact absurd h32' h32
      · unfold SS SZ_DIR at *
        omega
    · unfold SS SZ_DIR at *
      omega
  · rw [if_neg c2] at h
    have hcs := hg.csize_pos
    have hcsz : fs.csize * SS % W32 = fs0.csize * SS := by
      rw [hge.csize']
      unfold SS W32
      omega
    rw [hcsz] at h
    generalize hfo : dir_sdi_follow dp2.obj (fs0.csize * SS) (idx / SS + 1) fs
      (dirStart fs0 dp.obj.sclust) idx = fo at h
    rcases fo with _ | ⟨res, fs1⟩
    · exact absurd h (fun h => Option.noConfusion h)
    obtain ⟨k1, k0, k2⟩ := dir_sdi_follow_spec fs0 dp2.obj (fs0.csize * SS) hv
      (Nat.mul_pos hcs.1 (by decide)) _ _ _ _ _ _ hk hfo
    rcases res with e | ⟨c, rr⟩
    · dsimp only at h
      injection h with h
      injection h with h1 h2
      injection h2 with h2 h3
      subst h1 h2 h3
      exact ⟨k1, hfn, hsc, fun hok => absurd hok (k0 e rfl)⟩
    · dsimp only at h
      obtain ⟨a1, a2, a3⟩ := k2 c rr rfl
      obtain ⟨e1, e2, e3, e4, e5⟩ := dir_sdi_end_spec { dp2 with sect := clust2sect fs1 c } c rr
      generalize dir_sdi_end { dp2 with sect := clust2sect fs1 c } c rr = e at h e1 e2 e3 e4 e5
      dsimp only at e1 e2 e3 e4 e5
      injection h with h
      injection h with h1 h2
      injection h2 with h2 h3
      subst h1 h2 h3
      have hobj : e.2.obj.sclust = dp.obj.sclust := by rw [e2, hsc]
      refine ⟨k1, e1.trans hfn, hobj, fun hok => ?_⟩
      obtain ⟨n0, n1, n2⟩ := e5 hok
      have hdp' : e.2.dptr = idx := e3.trans hdp
      refine ⟨?_, hdp'⟩
      rw [k1.1.sameGeom.clust2sect'] at n0 n1
      have hcW : c < W32 := by
        by_cases z : idx / (fs0.csize * SS) = 0
        · rw [z, clusterAt_zero] at a1
          rw [a1]
          unfold dirStart
          split_ifs
          · exact hr.2.1
          · exact hs
        · have := (a3 z).2
          have := hv.n_fatent_lt.2
          omega
      have hcv := clust2sect_ne_zero fs0 c hv hcW n0
      obtain ⟨v1, v2⟩ := clust2sect_valid fs0 c hv hg hcv
      have hrr : rr / SS = idx / SS % fs0.csize := by
        rw [a2, Nat.mul_comm]
        exact Nat.mod_mul_right_div_self _ _ _
      have hrs : rr % SS = idx % SS := by
        rw [a2]
        exact Nat.mod_mul_left_mod _ _ _
      have hlt : idx / SS % fs0.csize < fs0.csize := Nat.mod_lt _ hcs.1
      unfold DirAt
      rw [hobj, hdp', if_neg c2, e4, n1, n2, hrs, hrr]
      refine ⟨hc1.2, hc1.1, rfl, ?_, a1, hcv⟩
      unfold dirSect
      rw [if_neg c2, ← a1]
      apply Nat.mod_eq_of_lt
      rw [v1]
      obtain ⟨-, -, hlim⟩ := hg
      generalize (fs0.n_fatent - 2) * fs0.csize = p at hlim v2
      generalize (c - 2) * fs0.csize = q at v2 ⊢
      omega

theorem inl_ne_ok {β : Type} (a e : FRESULT) (ha : a ≠ FR_OK)
    (he : (Sum.inl a : FRESULT ⊕ β) = Sum.inl e) : e ≠ FR_OK := by
  injection he with he
  rw [← he]
  exact ha

/-- The step of `dir_next` into the next cluster of the table, without
stretching: the next cluster is the FAT entry of the current one. -/
theorem dir_next_cluster_spec (fs0 fs fs' : FATFS) (dp dp' : DIR_) (res : FRESULT ⊕ Unit)
    (hv : VolOk fs0) (hk : Keeps fs0 fs)
    (h : dir_next_cluster fs dp false = some (res, fs', dp')) :
    Keeps fs0 fs' ∧ dp'.fn = dp.fn ∧ dp'.obj = dp.obj ∧ dp'.dptr = dp.dptr ∧
    (∀ e, res = Sum.inl e → e ≠ FR_OK) ∧
    (∀ u, res = Sum.inr u → dp'.clust = fatEntry fs0 dp.clust ∧ 2 ≤ dp'.clust ∧
      dp'.clust < fs0.n_fatent ∧ dp'.sect = clust2sect fs0 dp'.clust) := by
  have hvf : VolOk fs := hk.1.volOk hv
  obtain ⟨gk, gv⟩ := get_fat_inv fs dp.obj dp.clust hvf hk.2.1
  have hk2 : Keeps fs0 (get_fat fs dp.obj dp.clust).2 := hk.comp gk
  have hn : (get_fat fs dp.obj dp.clust).2.n_fatent = fs0.n_fatent := hk2.1.n_fatent
  have hcs := hk2.1.sameGeom.clust2sect'
  unfold dir_next_cluster at h
  dsimp only at h
  generalize get_fat fs dp.obj dp.clust = g at h gv hk2 hn hcs
  by_cases c1 : g.1 ≤ 1
  · rw [if_pos c1] at h
    injection h with h
    injection h with h1 h2
    injection h2 with h2 h3
    subst h1 h2 h3
    exact ⟨hk2, rfl, rfl, rfl, fun e he => inl_ne_ok _ e (fun h => FRESULT.noConfusion h) he,
      fun u hu => Sum.noConfusion hu⟩
  rw [if_neg c1] at h
  by_cases c2 : g.1 = 0xFFFFFFFF
  · rw [if_pos c2] at h
    injection h with h
    injection h with h1 h2
    injection h2 with h2 h3
    subst h1 h2 h3
    exact ⟨hk2, rfl, rfl, rfl, fun e he => inl_ne_ok _ e (fun h => FRESULT.noConfusion h) he,
      fun u hu => Sum.noConfusion hu⟩
  rw [if_neg c2] at h
  by_cases c3 : g.1 ≥ g.2.n_fatent
  · rw [if_pos c3, if_pos (fun hh => Bool.noConfusion hh)] at h
    injection h with h
    injection h with h1 h2
    injection h2 with h2 h3
    subst h1 h2 h3
    exact ⟨hk2, rfl, rfl, rfl, fun e he => inl_ne_ok _ e (fun h => FRESULT.noConfusion h) he,
      fun u hu => Sum.noConfusion hu⟩
  rw [if_neg c3] at h
  injection h with h
  injection h with h1 h2
  injection h2 with h2 h3
  subst h1 h2 h3
  refine ⟨hk2, rfl, rfl, rfl, fun e he => Sum.noConfusion he, fun u _ => ?_⟩
  have hval : g.1 = fatEntry fs0 dp.clust := by rw [gv c2, hk.fat hv]
  have h2 : 2 ≤ g.1 := by omega
  have h3 : g.1 < fs0.n_fatent := by omega
  dsimp only
  exact ⟨hval, h2, h3, hcs g.1⟩

/-- `dir_next` without stretching moves the directory object to the next entry
of the table. -/
theorem dir_next_spec (fs0 fs fs' : FATFS) (dp dp' : DIR_) (r : FRESULT)
    (hv : VolOk fs0) (hg : DataOk fs0) (hr : DirOk fs0) (hk : Keeps fs0 fs) (ha : DirAt fs0 dp)
    (h : dir_next fs dp false = some (r, fs', dp')) :
    Keeps fs0 fs' ∧ dp'.fn = dp.fn ∧ dp'.obj = dp.obj ∧
    (r = FR_OK → DirAt fs0 dp' ∧ dp'.dptr = dp.dptr + SZ_DIR) := by
  have hge := hk.1.sameGeom
  have hvf : VolOk fs := hk.1.volOk hv
  obtain ⟨d1, d2, d3, d4, d5⟩ := ha
  have hofs : (dp.dptr + SZ_DIR) % W32 = dp.dptr + SZ_DIR := by
    unfold MAX_DIR at d2
    unfold SZ_DIR W32
    omega
  unfold dir_next at h
  dsimp only at h
  simp only [hofs, if_neg hvf.not_exfat] at h
  by_cases c0 : dp.dptr + SZ_DIR ≥ MAX_DIR
  · simp only [if_pos c0, if_true] at h
    injection h with h
    injection h with h1 h2
    injection h2 with h2 h3
    subst h1 h2 h3
    exact ⟨hk, rfl, rfl, fun e => FRESULT.noConfusion e⟩
  simp only [if_neg c0] at h
  by_cases c1 : dp.sect = 0
  · rw [if_pos c1] at h
    injection h with h
    injection h with h1 h2
    injection h2 with h2 h3
    subst h1 h2 h3
    exact ⟨hk, rfl, rfl, fun e => FRESULT.noConfusion e⟩
  rw [if_neg c1] at h
  have hcs := hg.csize_pos
  have hdb : fs0.database + (fs0.n_fatent - 2) * fs0.csize < W32 := hg.2.2
  -- the end of the function, from a position that is the one of the next entry
  have fin : ∀ (fsx : FATFS) (dpx : DIR_), Keeps fs0 fsx → dpx.fn = dp.fn → dpx.obj = dp.obj →
      dpx.sect = dirSect fs0 dp.obj.sclust (dp.dptr + SZ_DIR) →
      (if dirStart fs0 dp.obj.sclust = 0
       then dpx.clust = 0 ∧ fs0.fs_type ≠ FS_FAT32 ∧
         (dp.dptr + SZ_DIR) / SS ≤ fs0.n_rootdir / (SS / SZ_DIR)
       else dpx.clust = clusterAt fs0 (dirStart fs0 dp.obj.sclust)
           ((dp.dptr + SZ_DIR) / (fs0.csize * SS)) ∧ 2 ≤ dpx.clust ∧ dpx.clust < fs0.n_fatent) →
      some (FR_OK, fsx, ({ dpx with dptr := dp.dptr + SZ_DIR,
                                    dir := some ((dp.dptr + SZ_DIR) % SS) } : DIR_))
        = some (r, fs', dp') →
      Keeps fs0 fs' ∧ dp'.fn = dp.fn ∧ dp'.obj = dp.obj ∧
      (r = FR_OK → DirAt fs0 dp' ∧ dp'.dptr = dp.dptr + SZ_DIR) := by
    intro fsx dpx kx fx ox sx cx hh
    injection hh with hh
    injection hh with h1 h2
    injection h2 with h2 h3
    subst h1 h2 h3
    refine ⟨kx, fx, ox, fun _ => ⟨?_, rfl⟩⟩
    unfold DirAt
    dsimp only
    rw [ox]
    refine ⟨?_, Nat.lt_of_not_le c0, rfl, sx, cx⟩
    unfold SZ_DIR at *
    omega
  by_cases cA : (dp.dptr + SZ_DIR) % SS = 0
  · rw [if_pos cA] at h
    have hq : (dp.dptr + SZ_DIR) / SS = dp.dptr / SS + 1 := by
      unfold SS SZ_DIR at *
      omega
    by_cases cB : dp.clust = 0
    · rw [if_pos cB] at h
      have hst : dirStart fs0 dp.obj.sclust = 0 := by
        apply Classical.byContradiction
        intro hne
        rw [if_neg hne] at d5
        omega
      rw [if_pos hst] at d5
      by_cases cC : (dp.dptr + SZ_DIR) / SZ_DIR ≥ fs.n_rootdir
      · rw [if_pos cC] at h
        dsimp only at h
        injection h with h
        injection h with h1 h2
        injection h2 with h2 h3
        subst h1 h2 h3
        exact ⟨hk, rfl, rfl, fun e => FRESULT.noConfusion e⟩
      · rw [if_neg cC] at h
        dsimp only at h
        rw [hge.n_rootdir'] at cC
        have hroot : fs0.dirbase + fs0.n_rootdir / (SS / SZ_DIR) ≤ fs0.database := by
          rcases hr.2.2 with h32 | ⟨-, hroot⟩
          · exact absurd h32 d5.2.1
          · exact hroot
        have hle : (dp.dptr + SZ_DIR) / SS ≤ fs0.n_rootdir / (SS / SZ_DIR) := by
          unfold SS SZ_DIR at *
          omega
        refine fin fs ({ dp with sect := (dp.sect + 1) % W32 } : DIR_) hk rfl rfl ?_ ?_ h
        · dsimp only
          rw [d4, dirSect_root _ _ _ hst, dirSect_root _ _ _ hst, hq, Nat.add_assoc]
          apply Nat.mod_eq_of_lt
          rw [hq] at hle
          generalize (fs0.n_fatent - 2) * fs0.csize = p at hdb
          omega
        · rw [if_pos hst]
          exact ⟨cB, d5.2.1, hle⟩
    · rw [if_neg cB] at h
      have hst : dirStart fs0 dp.obj.sclust ≠ 0 := by
        intro he
        rw [if_pos he] at d5
        exact cB d5.1
      rw [if_neg hst] at d5
      obtain ⟨v1, v2⟩ := clust2sect_valid fs0 dp.clust hv hg d5.2
      have hns := next_sector (dp.dptr / SS) fs0.csize hcs.1
      rw [(hge.dataOk' hg).mask, hge.csize', hq] at h
      by_cases cD : (dp.dptr / SS + 1) % fs0.csize = 0
      · rw [if_pos cD] at h
        obtain ⟨s1, s2⟩ := hns.1 cD
        generalize hX : dir_next_cluster fs { dp with sect := (dp.sect + 1) % W32 } false = X at h
        rcases X with _ | ⟨res, fs1, dp1⟩
        · exact absurd h (fun h => Option.noConfusion h)
        obtain ⟨k1, k2, k3, k4, k5, k6⟩ := dir_next_cluster_spec fs0 fs fs1 _ dp1 res hv hk hX
        dsimp only at k2 k3 k4 k6
        rcases res with e | u
        · dsimp only at h
          injection h with h
          injection h with h1 h2
          injection h2 with h2 h3
          subst h1 h2 h3
          exact ⟨k1, k2, k3, fun hok => absurd hok (k5 e rfl)⟩
        · dsimp only at h
          obtain ⟨m1, m2, m3, m4⟩ := k6 u rfl
          refine fin fs1 dp1 k1 k2 k3 ?_ ?_ h
          · rw [m4, m1, dirSect_chain _ _ _ hst, hq, s1, cD, clusterAt_succ, Nat.add_zero,
              ← div_csz, ← d5.1]
          · rw [if_neg hst, div_csz, hq, s1, clusterAt_succ, ← div_csz, ← d5.1, ← m1]
            exact ⟨rfl, m2, m3⟩
      · rw [if_neg cD] at h
        obtain ⟨s1, s2⟩ := hns.2 cD
        dsimp only at h
        have hlt : (dp.dptr / SS + 1) % fs0.csize < fs0.csize := Nat.mod_lt _ hcs.1
        refine fin fs ({ dp with sect := (dp.sect + 1) % W32 } : DIR_) hk rfl rfl ?_ ?_ h
        · dsimp only
          rw [d4, dirSect_chain _ _ _ hst, dirSect_chain _ _ _ hst, hq, s1, s2, ← div_csz, ← d5.1,
            Nat.add_assoc]
          apply Nat.mod_eq_of_lt
          rw [v1]
          rw [s2] at hlt
          generalize (fs0.n_fatent - 2) * fs0.csize = p at hdb v2
          generalize (dp.clust - 2) * fs0.csize = p2 at v2 ⊢
          omega
        · rw [if_neg hst, div_csz, hq, s1, ← div_csz]
          exact d5
  · rw [if_neg cA] at h
    dsimp only at h
    have hq : (dp.dptr + SZ_DIR) / SS = dp.dptr / SS := by
      unfold SS SZ_DIR at *
      omega
    refine fin fs dp hk rfl rfl ?_ ?_ h
    · rw [d4]
      exact (dirSect_same fs0 _ _ _ hq).symm
    · rw [div_csz, hq, ← div_csz]
      exact d5

/-- The sector of a directory object that is on an entry of its table lies
after the FATs. -/
theorem DirAt.sect_after {fs : FATFS} {dp : DIR_} (ha : DirAt fs dp) (hv : VolOk fs)
    (hg : DataOk fs) (hr : DirOk fs) : afterFats fs dp.sect := by
  obtain ⟨-, -, -, d4, d5⟩ := ha
  have hcs := hg.csize_pos
  have hn := hv.n_fatent_lt
  have hdb : fs.database + (fs.n_fatent - 2) * fs.csize < W32 := hg.2.2
  have hp : 1 ≤ (fs.n_fatent - 2) * fs.csize := Nat.mul_pos (by omega) hcs.1
  unfold afterFats
  by_cases hst : dirStart fs dp.obj.sclust = 0
  · rw [if_pos hst] at d5
    rw [d4, dirSect_root _ _ _ hst]
    rcases hr.2.2 with h32 | ⟨r1, r2⟩
    · exact absurd h32 d5.2.1
    · generalize (fs.n_fatent - 2) * fs.csize = p at hdb hp
      generalize fs.n_fats * fs.fsize = f at r1 ⊢
      have := d5.2.2
      unfold SS SZ_DIR at *
      omega
  · rw [if_neg hst] at d5
    rw [div_csz] at d5
    obtain ⟨v1, v2⟩ := clust2sect_valid fs dp.clust hv hg d5.2
    have hlt : dp.dptr / SS % fs.csize < fs.csize := Nat.mod_lt _ hcs.1
    rw [d4, dirSect_chain _ _ _ hst, ← d5.1, v1]
    have r1 := hr.1
    generalize (fs.n_fatent - 2) * fs.csize = p at hdb hp v2
    generalize (dp.clust - 2) * fs.csize = p2 at v2 ⊢
    generalize fs.n_fats * fs.fsize = f at r1 ⊢
    omega

theorem SameFat.refl0 (a : FATFS) (hw : WinInv a) : SameFat a a :=
  ⟨SameVol.refl a, hw, fun _ => rfl⟩

theorem SameFat.chain {a b c : FATFS} (h1 : SameFat a b) (h2 : SameFat b c) : SameFat a c :=
  ⟨h1.1.trans h2.1, h2.2.1, fun d => (h2.2.2 d).trans (h1.2.2 d)⟩

theorem Keeps.sameFat {a b : FATFS} (h : Keeps a b) (hv : VolOk a) : SameFat a b :=
  ⟨h.1, h.2.1, h.fat hv⟩

/-- Window traffic keeps the LFN slots of a directory table. -/
theorem SlotsOk.kept {a b : FATFS} {sclust sum s e : Nat} (hs : SlotsOk a sclust sum s e)
    (hk : Keeps a b) (hv : VolOk a) : SlotsOk b sclust sum s e := by
  intro idx h1 h2 h3
  obtain ⟨p1, p2, p3⟩ := hs idx h1 h2 h3
  have hsec : dirSect b sclust idx = dirSect a sclust idx :=
    dirSect_congr hk.1.sameGeom (hk.fat hv) _ _
  obtain ⟨o1, o2, -⟩ := afterFats.out hv p1
  unfold dirEntryByte at *
  rw [hsec, hk.2.2 _ o1 o2]
  exact ⟨(hk.1.sameGeom.afterFats' _).2 p1, p2, p3⟩

theorem win_write_sameVol (fs : FATFS) (w : Nat → Nat) :
    SameVol fs (set_dirty { fs with win := w }) := by
  unfold SameVol set_dirty
  rfl

theorem win_write_secView (fs : FATFS) (w : Nat → Nat) (t : Nat) :
    secView (set_dirty { fs with win := w }) t = if t = fs.winsect then w else secView fs t := by
  unfold secView set_dirty
  dsimp only
  by_cases h : t = fs.winsect
  · rw [if_pos h, if_pos h]
  · rw [if_neg h, if_neg h, if_neg h]

/-- A store into the window of a sector outside the first FAT keeps the
volume up to the window, with the same FAT entries. -/
theorem win_write_sameFat (fs : FATFS) (w : Nat → Nat) (hv : VolOk fs) (hw : WinInv fs)
    (hn : notFat1 fs fs.winsect) : SameFat fs (set_dirty { fs with win := w }) := by
  refine ⟨win_write_sameVol fs w, ⟨hw.1, fun h => absurd h (Nat.succ_ne_zero 0)⟩, ?_⟩
  apply fatEntry_congr_fat (win_write_sameVol fs w) hv
  intro k hk
  unfold fatByte
  have e : (set_dirty { fs with win := w }).fatbase = fs.fatbase := rfl
  rw [e, win_write_secView, if_neg]
  intro he
  apply hn
  rw [← he]
  exact ⟨Nat.le_add_right _ _, Nat.add_lt_add_left hk _⟩

/-- The store of an LFN entry at the position of the directory object adds
one slot to the slots before it. -/
theorem lfn_write_spec (fs : FATFS) (dp : DIR_) (lfn : Nat → Nat) (ord sum s : Nat)
    (hv : VolOk fs) (hg : DataOk fs) (hr : DirOk fs) (hw : WinInv fs)
    (hws : fs.winsect = dp.sect) (ha : DirAt fs dp)
    (hs : SlotsOk fs dp.obj.sclust (sum % 256) s dp.dptr) :
    SameFat fs (set_dirty { fs with win := put_lfn lfn fs.win (dp.dir.getD 0) ord sum }) ∧
    SlotsOk (set_dirty { fs with win := put_lfn lfn fs.win (dp.dir.getD 0) ord sum })
      dp.obj.sclust (sum % 256) s (dp.dptr + SZ_DIR) := by
  have haf := ha.sect_after hv hg hr
  obtain ⟨-, -, hnf⟩ := afterFats.out hv haf
  obtain ⟨d1, d2, d3, d4, -⟩ := ha
  have hdir : dp.dir.getD 0 = dp.dptr % SS := by rw [d3]; rfl
  rw [hdir]
  have pa := put_lfn_attr lfn fs.win (dp.dptr % SS) ord sum
  have pc := put_lfn_chksum lfn fs.win (dp.dptr % SS) ord sum
  have pf := put_lfn_frame lfn fs.win (dp.dptr % SS) ord sum
  generalize put_lfn lfn fs.win (dp.dptr % SS) ord sum = w at pa pc pf ⊢
  have hsf := win_write_sameFat fs w hv hw (by rw [hws]; exact hnf)
  refine ⟨hsf, ?_⟩
  intro idx h1 h2 h3
  have hsec := dirSect_congr hsf.1.sameGeom hsf.2.2 dp.obj.sclust idx
  unfold dirEntryByte
  rw [hsec, win_write_secView, hsf.1.sameGeom.afterFats', hws]
  by_cases hold : idx < dp.dptr
  · obtain ⟨p1, p2, p3⟩ := hs idx h1 hold h3
    unfold dirEntryByte at p2 p3
    refine ⟨p1, ?_, ?_⟩
    · by_cases ht : dirSect fs dp.obj.sclust idx = dp.sect
      · rw [if_pos ht]
        rw [ht, ← hws, secView_win] at p2
        by_cases ho : idx % SS = dp.dptr % SS
        · rw [ho]
          exact pa
        · rw [pf _ (by
            unfold SS SZ_DIR LDIR_Attr at *
            omega)]
          exact p2
      · rw [if_neg ht]
        exact p2
    · by_cases ht : dirSect fs dp.obj.sclust idx = dp.sect
      · rw [if_pos ht]
        rw [ht, ← hws, secView_win] at p3
        by_cases ho : idx % SS = dp.dptr % SS
        · rw [ho]
          exact pc
        · rw [pf _ (by
            unfold SS SZ_DIR LDIR_Chksum at *
            omega)]
          exact p3
      · rw [if_neg ht]
        exact p3
  · have hi : idx = dp.dptr := by
      unfold SZ_DIR at *
      omega
    rw [hi, ← d4, if_pos rfl]
    exact ⟨haf, pa, pc⟩

theorem SameFat.dirAt {a b : FATFS} (h : SameFat a b) {dp : DIR_} (ha : DirAt a dp) :
    DirAt b dp :=
  (DirAt_congr h.1.sameGeom h.2.2 dp).2 ha

/-- The loop of `dir_register` that stores the LFN entries: it stores `n`
entries with the checksum `sum`, one after the other, and stops on the entry
that follows them. -/
theorem dir_register_lfn_spec (sum s : Nat) :
    ∀ (fuel : Nat) (fs : FATFS) (dp : DIR_) (n : Nat) (fs' : FATFS) (dp' : DIR_),
      VolOk fs → DataOk fs → DirOk fs → WinInv fs → DirAt fs dp → 1 ≤ n → n < W16 →
      SlotsOk fs dp.obj.sclust (sum % 256) s dp.dptr →
      dir_register_lfn sum fuel fs dp n = some (FR_OK, fs', dp') →
      SameFat fs fs' ∧ DirAt fs' dp' ∧ dp'.fn = dp.fn ∧ dp'.obj = dp.obj ∧
      dp'.dptr = dp.dptr + SZ_DIR * n ∧ SlotsOk fs' dp.obj.sclust (sum % 256) s dp'.dptr := by
  intro fuel
  induction fuel with
  | zero =>
    intro fs dp n fs' dp' _ _ _ _ _ _ _ _ h
    unfold dir_register_lfn at h
    exact absurd h (fun h => Option.noConfusion h)
  | succ k ih =>
    intro fs dp n fs' dp' hv hg hr hw ha h1 hn hs h
    have haf := ha.sect_after hv hg hr
    obtain ⟨mk, mw⟩ := move_window_keeps fs dp.sect hv hw (by have := haf.2; omega)
    unfold dir_register_lfn at h
    dsimp only at h
    generalize move_window fs dp.sect = m at h mk mw
    by_cases c1 : m.1 ≠ FR_OK
    · rw [if_pos c1] at h
      injection h with h
      injection h with e1 e2
      exact absurd e1 c1
    rw [if_neg c1] at h
    have hm1 : m.1 = FR_OK := Classical.byContradiction c1
    have mf := mk.sameFat hv
    have hv1 : VolOk m.2 := mk.1.volOk hv
    have hg1 : DataOk m.2 := mk.1.sameGeom.dataOk' hg
    have hr1 : DirOk m.2 := mk.1.sameGeom.dirOk' hr
    obtain ⟨ws, wslots⟩ := lfn_write_spec m.2 dp m.2.lfnbuf (n % 256) sum s hv1 hg1 hr1 mk.2.1
      (mw hm1) (mf.dirAt ha) (hs.kept mk hv)
    generalize set_dirty { m.2 with win := put_lfn m.2.lfnbuf m.2.win (dp.dir.getD 0) (n % 256) sum }
      = fw at h ws wslots
    have hvW : VolOk fw := ws.1.volOk hv1
    have hgW : DataOk fw := ws.1.sameGeom.dataOk' hg1
    have hrW : DirOk fw := ws.1.sameGeom.dirOk' hr1
    generalize hX : dir_next fw dp false = X at h
    rcases X with _ | ⟨r, fs3, dp3⟩
    · exact absurd h (fun h => Option.noConfusion h)
    obtain ⟨nk, nf, no, nd⟩ := dir_next_spec fw fw fs3 dp dp3 r hvW hgW hrW
      (Keeps.self fw ws.2.1) (ws.dirAt (mf.dirAt ha)) hX
    have nsf := nk.sameFat hvW
    dsimp only at h
    have hcnt : (n + W16 - 1) % W16 = n - 1 := by
      unfold W16 at *
      omega
    rw [hcnt] at h
    by_cases c2 : r = FR_OK ∧ n - 1 ≠ 0
    · rw [if_pos c2] at h
      obtain ⟨nd1, nd2⟩ := nd c2.1
      have hs3 : SlotsOk fs3 dp3.obj.sclust (sum % 256) s dp3.dptr := by
        rw [no, nd2]
        exact wslots.kept nk hvW
      obtain ⟨i1, i2, i3, i4, i5, i6⟩ := ih fs3 dp3 (n - 1) fs' dp' (nk.1.volOk hvW)
        (nk.1.sameGeom.dataOk' hgW) (nk.1.sameGeom.dirOk' hrW) nk.2.1 (nsf.dirAt nd1)
        (by omega) (by omega) hs3 h
      refine ⟨((mf.chain ws).chain nsf).chain i1, i2, i3.trans nf, i4.trans no, ?_, ?_⟩
      · rw [i5, nd2]
        unfold SZ_DIR
        omega
      · rw [no] at i6
        exact i6
    · rw [if_neg c2] at h
      injection h with h
      injection h with e1 e2
      injection e2 with e2 e3
      subst e1 e2 e3
      obtain ⟨nd1, nd2⟩ := nd rfl
      have hn1 : n = 1 := by
        apply Classical.byContradiction
        intro hne
        exact c2 ⟨rfl, by omega⟩
      refine ⟨(mf.chain ws).chain nsf, nsf.dirAt nd1, nf, no, ?_, ?_⟩
      · rw [nd2, hn1, Nat.mul_one]
      · rw [nd2]
        exact wslots.kept nk hvW

theorem fatEntry_valid {fs : FATFS} {c : Nat} (h : fatEntry fs c ≠ 1) :
    2 ≤ c ∧ c < fs.n_fatent := by
  unfold fatEntry at h
  by_cases hc : c < 2 ∨ c ≥ fs.n_fatent
  · rw [if_pos hc] at h
    exact absurd rfl h
  · omega

/-- The entry one sector further in a directory table lies in another sector,
when no cluster is its own successor. -/
theorem dirSect_next_ne (fs : FATFS) (dp : DIR_) (idx : Nat) (hv : VolOk fs) (hg : DataOk fs)
    (hl : NoSelfLink fs) (ha : DirAt fs dp) (hd : dp.dptr = idx + SS) :
    dirSect fs dp.obj.sclust idx ≠ dirSect fs dp.obj.sclust dp.dptr := by
  obtain ⟨-, -, -, -, d5⟩ := ha
  have hcs := hg.csize_pos
  have hq : dp.dptr / SS = idx / SS + 1 := by
    rw [hd]
    unfold SS
    omega
  by_cases hst : dirStart fs dp.obj.sclust = 0
  · rw [dirSect_root _ _ _ hst, dirSect_root _ _ _ hst, hq]
    omega
  · rw [if_neg hst, div_csz, hq] at d5
    rw [dirSect_chain _ _ _ hst, dirSect_chain _ _ _ hst, hq]
    have hns := next_sector (idx / SS) fs.csize hcs.1
    by_cases cD : (idx / SS + 1) % fs.csize = 0
    · obtain ⟨s1, s2⟩ := hns.1 cD
      rw [s1, clusterAt_succ] at d5
      rw [s1, clusterAt_succ, cD]
      have hc' : 2 ≤ fatEntry fs (clusterAt fs (dirStart fs dp.obj.sclust) (idx / SS / fs.csize)) ∧
          fatEntry fs (clusterAt fs (dirStart fs dp.obj.sclust) (idx / SS / fs.csize))
            < fs.n_fatent := by
        rw [← d5.1]
        exact d5.2
      have hc : 2 ≤ clusterAt fs (dirStart fs dp.obj.sclust) (idx / SS / fs.csize) ∧
          clusterAt fs (dirStart fs dp.obj.sclust) (idx / SS / fs.csize) < fs.n_fatent :=
        fatEntry_valid (by omega)
      exact clust2sect_inj fs _ _ _ _ hv hg hc hc' (Nat.mod_lt _ hcs.1) hcs.1
        (fun e => hl _ hc.1 hc.2 e.symm)
    · obtain ⟨s1, s2⟩ := hns.2 cD
      rw [s1, s2]
      omega

/-- The store of the SFN entry at the position of the directory object keeps
the LFN slots before it, at most 20 of them. -/
theorem sfn_write_spec (fs : FATFS) (dp : DIR_) (fn : Nat → Nat) (sum s : Nat)
    (hv : VolOk fs) (hg : DataOk fs) (hr : DirOk fs) (hw : WinInv fs) (hl : NoSelfLink fs)
    (hws : fs.winsect = dp.sect) (ha : DirAt fs dp) (hn : dp.dptr ≤ s + SZ_DIR * 20)
    (hs : SlotsOk fs dp.obj.sclust sum s dp.dptr) :
    SameFat fs (set_dirty { fs with win := put_sfn fs.win fn (dp.dir.getD 0) }) ∧
    SlotsOk (set_dirty { fs with win := put_sfn fs.win fn (dp.dir.getD 0) })
      dp.obj.sclust sum s dp.dptr := by
  have haf := ha.sect_after hv hg hr
  obtain ⟨-, -, hnf⟩ := afterFats.out hv haf
  have hd3 := ha.2.2.1
  have hd4 := ha.2.2.2.1
  have hdir : dp.dir.getD 0 = dp.dptr % SS := by rw [hd3]; rfl
  rw [hdir]
  have pf := put_sfn_frame fs.win fn (dp.dptr % SS)
  generalize put_sfn fs.win fn (dp.dptr % SS) = w at pf ⊢
  have hsf := win_write_sameFat fs w hv hw (by rw [hws]; exact hnf)
  refine ⟨hsf, ?_⟩
  intro idx h1 h2 h3
  have hsec := dirSect_congr hsf.1.sameGeom hsf.2.2 dp.obj.sclust idx
  unfold dirEntryByte
  rw [hsec, win_write_secView, hsf.1.sameGeom.afterFats', hws]
  obtain ⟨p1, p2, p3⟩ := hs idx h1 h2 h3
  unfold dirEntryByte at p2 p3
  by_cases ht : dirSect fs dp.obj.sclust idx = dp.sect
  · rw [if_pos ht]
    rw [ht, ← hws, secView_win] at p2 p3
    have ho : idx % SS ≠ dp.dptr % SS := by
      intro ho
      have hd : dp.dptr = idx + SS := by
        have hd1 := ha.1
        unfold SS SZ_DIR at *
        omega
      exact dirSect_next_ne fs dp idx hv hg hl ha hd (ht.trans hd4)
    have hd1 := ha.1
    refine ⟨p1, ?_, ?_⟩
    · unfold ldb at p2 ⊢
      rw [pf _ (by
        unfold SS SZ_DIR LDIR_Attr at *
        omega)]
      exact p2
    · unfold ldb at p3 ⊢
      rw [pf _ (by
        unfold SS SZ_DIR LDIR_Chksum at *
        omega)]
      exact p3
  · rw [if_neg ht]
    exact ⟨p1, p2, p3⟩

theorem DirVol.ofGeom {a b : FATFS} (ha : DirVol a) (hg : SameGeom a b) (hw : WinInv b)
    (hf : ∀ c, fatEntry b c = fatEntry a c) : DirVol b := by
  obtain ⟨h1, h2, h3, -, h5⟩ := ha
  refine ⟨hg.volOk' h1, hg.dataOk' h2, hg.dirOk' h3, hw, fun c c2 cn => ?_⟩
  rw [hf]
  rw [hg.n_fatent'] at cn
  exact h5 c c2 cn

theorem DirVol.ofKeeps {a b : FATFS} (ha : DirVol a) (hk : Keeps a b) : DirVol b :=
  ha.ofGeom hk.1.sameGeom hk.2.1 (hk.fat ha.1)

theorem DirVol.ofSameFat {a b : FATFS} (ha : DirVol a) (hk : SameFat a b) : DirVol b :=
  ha.ofGeom hk.1.sameGeom hk.2.1 hk.2.2

theorem sync_window_keeps (fs : FATFS) (hv : VolOk fs) (hw : WinInv fs) :
    Keeps fs (sync_window fs).2 ∧ ((sync_window fs).1 = FR_OK → (sync_window fs).2.wflag = 0) := by
  obtain ⟨s1, s2, s3, s4, s5⟩ := sync_window_inv fs hv.geom hw.1
  generalize sync_window fs = s at s1 s2 s3 s4 s5
  refine ⟨⟨s1, ⟨by rw [s3]; exact hw.1, fun hz hne => ?_⟩, fun t htm ht => ?_⟩,
    fun hok => (s5 hok).1⟩
  · by_cases hok : s.1 = FR_OK
    · obtain ⟨-, a2, a3⟩ := s5 hok
      by_cases hd : fs.wflag = 0
      · rw [s2, s3, a2 hd]
        rw [s3] at hne
        exact hw.2 hd hne
      · rw [s2, s3]
        exact (a3 hd).1.symm
    · rw [s4 hok] at hz hne ⊢
      exact hw.2 hz hne
  · unfold secView
    rw [s3, s2]
    by_cases htw : t = fs.winsect
    · rw [if_pos htw, if_pos htw]
    · rw [if_neg htw, if_neg htw]
      by_cases hok : s.1 = FR_OK
      · obtain ⟨-, a2, a3⟩ := s5 hok
        by_cases hd : fs.wflag = 0
        · rw [a2 hd]
        · exact (a3 hd).2 t htw htm
      · rw [s4 hok]

/-- The loop of `dir_clear`: it changes the data of the sectors it writes
only, and when every write completes each of them holds the window. -/
theorem dir_clear_loop_spec (win : Nat → Nat) (sect : Nat) :
    ∀ (k n : Nat) (drv : Drive),
      (dir_clear_loop win sect k n drv).2.rdOk = drv.rdOk ∧
      (dir_clear_loop win sect k n drv).2.wrOk = drv.wrOk ∧
      (dir_clear_loop win sect k n drv).2.syncOk = drv.syncOk ∧
      (∀ t, (∀ i, n ≤ i → i < n + k → t ≠ (sect + i) % W32) →
        (dir_clear_loop win sect k n drv).2.data t = drv.data t) ∧
      ((dir_clear_loop win sect k n drv).1 = n + k → sect + n + k ≤ W32 →
        ∀ i, n ≤ i → i < n + k → (dir_clear_loop win sect k n drv).2.data (sect + i) = win) := by
  intro k
  induction k with
  | zero =>
    intro n drv
    unfold dir_clear_loop
    exact ⟨rfl, rfl, rfl, fun _ _ => rfl, fun _ _ i h1 h2 => absurd h2 (by omega)⟩
  | succ k ih =>
    intro n drv
    unfold dir_clear_loop
    have hw : (disk_write drv win ((sect + n) % W32)).2.rdOk = drv.rdOk ∧
        (disk_write drv win ((sect + n) % W32)).2.wrOk = drv.wrOk ∧
        (disk_write drv win ((sect + n) % W32)).2.syncOk = drv.syncOk ∧
        (∀ t, t ≠ (sect + n) % W32 →
          (disk_write drv win ((sect + n) % W32)).2.data t = drv.data t) ∧
        ((disk_write drv win ((sect + n) % W32)).1 = true →
          (disk_write drv win ((sect + n) % W32)).2.data ((sect + n) % W32) = win) := by
      unfold disk_write
      by_cases hwr : drv.wrOk ((sect + n) % W32) = true
      · rw [if_pos hwr]
        exact ⟨rfl, rfl, rfl, fun t ht => Function.update_noteq ht _ _,
          fun _ => Function.update_same _ _ _⟩
      · rw [if_neg hwr]
        exact ⟨rfl, rfl, rfl, fun _ _ => rfl, fun h => Bool.noConfusion h⟩
    obtain ⟨w1, w2, w3, w4, w5⟩ := hw
    generalize disk_write drv win ((sect + n) % W32) = d at w1 w2 w3 w4 w5
    by_cases hd : d.1 = true
    · rw [if_pos hd]
      obtain ⟨i1, i2, i3, i4, i5⟩ := ih (n + 1) d.2
      refine ⟨i1.trans w1, i2.trans w2, i3.trans w3, fun t ht => ?_, fun hall hlim i h1 h2 => ?_⟩
      · rw [i4 t (fun i a b => ht i (by omega) (by omega))]
        exact w4 t (ht n (Nat.le_refl _) (by omega))
      · by_cases hi : i = n
        · subst hi
          rw [i4 _ (fun j a b => by
            rw [Nat.mod_eq_of_lt (by omega)]
            omega)]
          have := w5 hd
          rw [Nat.mod_eq_of_lt (by omega)] at this
          exact this
        · exact i5 (by omega) (by omega) i (by omega) (by omega)
    · rw [if_neg hd]
      refine ⟨w1, w2, w3, fun t ht => w4 t (ht n (Nat.le_refl _) (by omega)),
        fun hall => absurd hall (by dsimp only; omega)⟩

theorem Drive.eq_data (a b : Drive) (h1 : a.rdOk = b.rdOk) (h2 : a.wrOk = b.wrOk)
    (h3 : a.syncOk = b.syncOk) : a = { b with data := a.data } := by
  cases a
  cases b
  dsimp only at h1 h2 h3
  subst h1 h2 h3
  rfl

theorem clear_window_win (fs : FATFS) (sect : Nat) : (clear_window fs sect).win = fun _ => 0 :=
  rfl
theorem clear_window_winsect (fs : FATFS) (sect : Nat) : (clear_window fs sect).winsect = sect :=
  rfl
theorem clear_window_csize (fs : FATFS) (sect : Nat) : (clear_window fs sect).csize = fs.csize :=
  rfl
theorem clear_window_drv (fs : FATFS) (sect : Nat) : (clear_window fs sect).drv = fs.drv :=
  rfl
theorem clear_window_wflag (fs : FATFS) (sect : Nat) : (clear_window fs sect).wflag = fs.wflag :=
  rfl
theorem clear_window_fatbase (fs : FATFS) (sect : Nat) :
    (clear_window fs sect).fatbase = fs.fatbase :=
  rfl
theorem set_drv_win (fs : FATFS) (d : Drive) : (set_drv fs d).win = fs.win := rfl
theorem set_drv_winsect (fs : FATFS) (d : Drive) : (set_drv fs d).winsect = fs.winsect := rfl
theorem set_drv_wflag (fs : FATFS) (d : Drive) : (set_drv fs d).wflag = fs.wflag := rfl
theorem set_drv_fatbase (fs : FATFS) (d : Drive) : (set_drv fs d).fatbase = fs.fatbase := rfl
theorem set_drv_data (fs : FATFS) (d : Drive) : (set_drv fs d).drv.data = d.data := rfl

theorem clear_write_sameVol (fs : FATFS) (sect : Nat) (d : Drive) (h1 : d.rdOk = fs.drv.rdOk)
    (h2 : d.wrOk = fs.drv.wrOk) (h3 : d.syncOk = fs.drv.syncOk) :
    SameVol fs (set_drv (clear_window fs sect) d) := by
  unfold SameVol set_drv clear_window
  dsimp only
  rw [← Drive.eq_data d fs.drv h1 h2 h3]

/-- `dir_clear` of a cluster of the volume keeps the volume up to the window
and the data of that cluster, with the same FAT entries. -/
theorem dir_clear_spec (fs : FATFS) (clst : Nat) (hd : DirVol fs)
    (hc : 2 ≤ clst ∧ clst < fs.n_fatent) (hok : (dir_clear fs clst).1 = FR_OK) :
    SameVol fs (dir_clear fs clst).2 ∧ WinInv (dir_clear fs clst).2 ∧
    ∀ c, fatEntry (dir_clear fs clst).2 c = fatEntry fs c := by
  obtain ⟨hv, hg, hr, hw, -⟩ := hd
  obtain ⟨sk, sw⟩ := sync_window_keeps fs hv hw
  have hcs := hg.csize_pos
  obtain ⟨v1, v2⟩ := clust2sect_valid fs clst hv hg hc
  have hdb : fs.database + (fs.n_fatent - 2) * fs.csize < W32 := hg.2.2
  have hfat := hr.1
  unfold dir_clear at hok ⊢
  generalize sync_window fs = s at hok sk sw ⊢
  by_cases c1 : s.1 ≠ FR_OK
  · rw [if_pos c1] at hok
    exact absurd hok (fun h => FRESULT.noConfusion h)
  rw [if_neg c1] at hok ⊢
  have hs1 : s.1 = FR_OK := Classical.byContradiction c1
  have hwf := sw hs1
  dsimp only at hok ⊢
  rw [sk.1.sameGeom.clust2sect' clst] at hok ⊢
  rw [clear_window_win, clear_window_winsect, clear_window_csize, clear_window_drv,
    sk.1.csize] at hok ⊢
  obtain ⟨l1, l2, l3, l4, l5⟩ := dir_clear_loop_spec (fun _ => 0) (clust2sect fs clst) fs.csize 0
    s.2.drv
  generalize dir_clear_loop (fun _ => 0) (clust2sect fs clst) fs.csize 0 s.2.drv = l
    at hok l1 l2 l3 l4 l5 ⊢
  have hall : l.1 = 0 + fs.csize := by
    rw [Nat.zero_add]
    apply Classical.byContradiction
    intro hne
    rw [if_neg hne] at hok
    exact FRESULT.noConfusion hok
  have hlim : clust2sect fs clst + 0 + fs.csize ≤ W32 := by
    rw [v1]
    generalize (fs.n_fatent - 2) * fs.csize = p at hdb v2
    generalize (clst - 2) * fs.csize = p2 at v2 ⊢
    omega
  have hzero := l5 hall hlim
  have hsv : SameVol s.2 (set_drv (clear_window s.2 (clust2sect fs clst)) l.2) :=
    clear_write_sameVol s.2 _ l.2 l1 l2 l3
  have hwi : WinInv (set_drv (clear_window s.2 (clust2sect fs clst)) l.2) := by
    unfold WinInv
    rw [set_drv_winsect, set_drv_win, set_drv_wflag, set_drv_data, clear_window_winsect,
      clear_window_win]
    refine ⟨?_, fun _ _ => ?_⟩
    · rw [v1]
      generalize (fs.n_fatent - 2) * fs.csize = p at hdb v2
      generalize (clst - 2) * fs.csize = p2 at v2 ⊢
      omega
    · have := hzero 0 (Nat.le_refl _) (by omega)
      rw [Nat.add_zero] at this
      exact this.symm
  refine ⟨sk.1.trans hsv, hwi, fun c => ?_⟩
  rw [← sk.fat hv c]
  apply fatEntry_congr_fat hsv (sk.1.volOk hv)
  intro k hk
  rw [sk.1.fsize] at hk
  unfold fatByte
  rw [set_drv_fatbase, clear_window_fatbase, sk.1.fatbase]
  have hn1 : 1 ≤ fs.n_fats := by rcases hv.1 with h | h <;> omega
  have hfs : fs.fsize ≤ fs.n_fats * fs.fsize := Nat.le_mul_of_pos_left _ hn1
  have hgeo := hv.geom
  have hne : fs.fatbase + k / 512 ≠ clust2sect fs clst := by
    rw [v1]
    generalize fs.n_fats * fs.fsize = f at hfat hfs
    generalize (clst - 2) * fs.csize = p2
    omega
  have hview : secView (set_drv (clear_window s.2 (clust2sect fs clst)) l.2)
      (fs.fatbase + k / 512) = l.2.data (fs.fatbase + k / 512) := by
    unfold secView
    rw [set_drv_winsect, clear_window_winsect, if_neg hne, set_drv_data]
  rw [hview, l4 _ (fun i _ hi => by
    rw [Nat.zero_add] at hi
    rw [Nat.mod_eq_of_lt (by omega), v1]
    generalize fs.n_fats * fs.fsize = f at hfat hfs
    generalize (clst - 2) * fs.csize = p2
    omega)]
  unfold secView
  by_cases htw : fs.fatbase + k / 512 = s.2.winsect
  · rw [if_pos htw, htw]
    refine congrArg (fun b => ldb b (k % 512)) (sk.2.1.2 hwf ?_).symm
    rw [← htw]
    generalize fs.n_fats * fs.fsize = f at hgeo hfs
    omega
  · rw [if_neg htw]

theorem clust2sect_lt (fs : FATFS) (c : Nat) : clust2sect fs c < W32 := by
  unfold clust2sect
  dsimp only
  split_ifs
  · unfold W32
    omega
  · exact Nat.mod_lt _ (by unfold W32; omega)

/-- A successful allocation by `create_chain` at the end of a chain keeps the
invariants of the volume. -/
theorem create_chain_dirVol (fs fs' : FATFS) (obj obj' : FFOBJID) (clst n : Nat) (hd : DirVol fs)
    (halloc : clst = 0 ∨ fs.n_fatent ≤ (get_fat fs obj clst).1)
    (h : create_chain fs obj clst = some (n, fs', obj')) (hn : 2 ≤ n) (hne : n ≠ 0xFFFFFFFF) :
    DirVol fs' ∧ SameGeom fs fs' ∧ obj' = obj ∧ n < fs.n_fatent := by
  obtain ⟨hv, hg, hr, hw, hl⟩ := hd
  obtain ⟨a1, a2, a3, -, fs3, e, sv, w3, f3, -⟩ :=
    create_chain_alloc fs fs' obj obj' clst n hv hw halloc h hn hne
  have hrange := fatEntry_zero_range a1
  have hgeo : SameGeom fs fs' := by
    rw [e]
    exact sv.sameGeom.comp' (note_alloc_geom fs3 n)
  refine ⟨⟨hgeo.volOk' hv, hgeo.dataOk' hg, hgeo.dirOk' hr, ?_, ?_⟩, hgeo, a3, hrange.2⟩
  · rw [e]
    exact (note_alloc_sameVol fs3 n).2.2.2.1.2 w3
  · intro c c2 cn
    rw [hgeo.n_fatent'] at cn
    rw [e, fatEntry_note_alloc, f3]
    by_cases h1 : clst ≠ 0 ∧ c = clst
    · rw [if_pos h1]
      intro hnc
      have := a2 h1.1
      rw [← h1.2, ← hnc, a1] at this
      omega
    · rw [if_neg h1]
      by_cases h2 : c = n
      · rw [if_pos h2]
        have := fatMask_eoc hv
        omega
      · rw [if_neg h2]
        exact hl c c2 cn

/-- The step of `dir_next` into the next cluster of the table, stretching the
table when it ends: a step that goes on keeps the invariants of the volume. -/
theorem dir_next_cluster_stretch (fs fs' : FATFS) (dp dp' : DIR_) (u : Unit) (hd : DirVol fs)
    (h : dir_next_cluster fs dp true = some (Sum.inr u, fs', dp')) :
    DirVol fs' ∧ SameGeom fs fs' ∧ dp'.fn = dp.fn ∧ dp'.obj.sclust = dp.obj.sclust ∧
    dp'.dptr = dp.dptr ∧ dp'.sect < W32 := by
  obtain ⟨hv, hg, hr, hw, hl⟩ := id hd
  obtain ⟨gk, gv⟩ := get_fat_inv fs dp.obj dp.clust hv hw
  have hd2 : DirVol (get_fat fs dp.obj dp.clust).2 := hd.ofKeeps gk
  have hval2 := (get_fat_inv (get_fat fs dp.obj dp.clust).2 dp.obj dp.clust hd2.1 hd2.2.2.2.1).2
  rw [gk.fat hv] at hval2
  have hnW := hv.n_fatent_lt
  unfold dir_next_cluster at h
  dsimp only at h
  generalize get_fat fs dp.obj dp.clust = g at h gk gv hd2 hval2
  by_cases c1 : g.1 ≤ 1
  · rw [if_pos c1] at h
    injection h with h
    injection h with h1 h2
    exact Sum.noConfusion h1
  rw [if_neg c1] at h
  by_cases c2 : g.1 = 0xFFFFFFFF
  · rw [if_pos c2] at h
    injection h with h
    injection h with h1 h2
    exact Sum.noConfusion h1
  rw [if_neg c2] at h
  by_cases c3 : g.1 ≥ g.2.n_fatent
  · rw [if_pos c3, if_neg (fun hh => hh rfl)] at h
    have halloc : dp.clust = 0 ∨ g.2.n_fatent ≤ (get_fat g.2 dp.obj dp.clust).1 := by
      right
      by_cases e : (get_fat g.2 dp.obj dp.clust).1 = 0xFFFFFFFF
      · rw [e, gk.1.n_fatent]
        unfold W32 at hnW
        omega
      · rw [hval2 e, ← gv c2]
        exact c3
    generalize hcc : create_chain g.2 dp.obj dp.clust = cc at h
    rcases cc with _ | ⟨clst, fs2, obj2⟩
    · exact absurd h (fun h => Option.noConfusion h)
    dsimp only at h
    by_cases d1 : clst = 0
    · rw [if_pos d1] at h
      injection h with h
      injection h with h1 h2
      exact Sum.noConfusion h1
    rw [if_neg d1] at h
    by_cases d2 : clst = 1
    · rw [if_pos d2] at h
      injection h with h
      injection h with h1 h2
      exact Sum.noConfusion h1
    rw [if_neg d2] at h
    by_cases d3 : clst = 0xFFFFFFFF
    · rw [if_pos d3] at h
      injection h with h
      injection h with h1 h2
      exact Sum.noConfusion h1
    rw [if_neg d3] at h
    obtain ⟨q1, q2, q3, q4⟩ := create_chain_dirVol g.2 fs2 dp.obj obj2 dp.clust clst hd2 halloc hcc
      (by omega) d3
    by_cases d4 : (dir_clear fs2 clst).1 ≠ FR_OK
    · rw [if_pos d4] at h
      injection h with h
      injection h with h1 h2
      exact Sum.noConfusion h1
    rw [if_neg d4] at h
    obtain ⟨r1, r2, r3⟩ := dir_clear_spec fs2 clst q1
      ⟨by omega, by rw [q2.n_fatent']; exact q4⟩ (Classical.byContradiction d4)
    generalize dir_clear fs2 clst = dc at h r1 r2 r3
    injection h with h
    injection h with h1 h2
    injection h2 with h2 h3
    subst h2 h3
    refine ⟨q1.ofGeom r1.sameGeom r2 r3, (gk.1.sameGeom.comp' q2).comp' r1.sameGeom, ?_⟩
    dsimp only
    rw [q3]
    exact ⟨rfl, rfl, rfl, clust2sect_lt _ _⟩
  · rw [if_neg c3] at h
    injection h with h
    injection h with h1 h2
    injection h2 with h2 h3
    subst h2 h3
    refine ⟨hd2, gk.1.sameGeom, ?_⟩
    dsimp only
    exact ⟨rfl, rfl, rfl, clust2sect_lt _ _⟩

theorem dir_next_cluster_inl (fs fs' : FATFS) (dp dp' : DIR_) (b : Bool) (e : FRESULT)
    (h : dir_next_cluster fs dp b = some (Sum.inl e, fs', dp')) : e ≠ FR_OK := by
  unfold dir_next_cluster at h
  dsimp only at h
  generalize get_fat fs dp.obj dp.clust = g at h
  have key : ∀ (a : FRESULT) (x : FATFS) (y : DIR_), a ≠ FR_OK →
      some ((Sum.inl a : FRESULT ⊕ Unit), x, y) = some (Sum.inl e, fs', dp') → e ≠ FR_OK := by
    intro a x y ha hh
    injection hh with hh
    injection hh with h1 h2
    exact inl_ne_ok a e ha h1
  have nores : ∀ (x : FATFS) (y : DIR_),
      some ((Sum.inr () : FRESULT ⊕ Unit), x, y) = some (Sum.inl e, fs', dp') → e ≠ FR_OK := by
    intro x y hh
    injection hh with hh
    injection hh with h1 h2
    exact Sum.noConfusion h1
  by_cases c1 : g.1 ≤ 1
  · rw [if_pos c1] at h
    exact key _ _ _ (fun h => FRESULT.noConfusion h) h
  rw [if_neg c1] at h
  by_cases c2 : g.1 = 0xFFFFFFFF
  · rw [if_pos c2] at h
    exact key _ _ _ (fun h => FRESULT.noConfusion h) h
  rw [if_neg c2] at h
  by_cases c3 : g.1 ≥ g.2.n_fatent
  · rw [if_pos c3] at h
    by_cases c4 : ¬ (b = true)
    · rw [if_pos c4] at h
      exact key _ _ _ (fun h => FRESULT.noConfusion h) h
    rw [if_neg c4] at h
    generalize create_chain g.2 dp.obj dp.clust = cc at h
    rcases cc with _ | ⟨clst, fs2, obj2⟩
    · exact absurd h (fun h => Option.noConfusion h)
    dsimp only at h
    by_cases d1 : clst = 0
    · rw [if_pos d1] at h
      exact key _ _ _ (fun h => FRESULT.noConfusion h) h
    rw [if_neg d1] at h
    by_cases d2 : clst = 1
    · rw [if_pos d2] at h
      exact key _ _ _ (fun h => FRESULT.noConfusion h) h
    rw [if_neg d2] at h
    by_cases d3 : clst = 0xFFFFFFFF
    · rw [if_pos d3] at h
      exact key _ _ _ (fun h => FRESULT.noConfusion h) h
    rw [if_neg d3] at h
    by_cases d4 : (dir_clear fs2 clst).1 ≠ FR_OK
    · rw [if_pos d4] at h
      exact key _ _ _ (fun h => FRESULT.noConfusion h) h
    rw [if_neg d4] at h
    exact nores _ _ h
  · rw [if_neg c3] at h
    exact nores _ _ h

/-- `dir_next` with stretching: a step that succeeds keeps the invariants of
the volume and leaves the directory object on a 32-bit sector below the size
limit of a directory. -/
theorem dir_next_stretch (fs fs' : FATFS) (dp dp' : DIR_) (hd : DirVol fs) (hs : dp.sect < W32)
    (h : dir_next fs dp true = some (FR_OK, fs', dp')) :
    DirVol fs' ∧ SameGeom fs fs' ∧ dp'.fn = dp.fn ∧ dp'.obj.sclust = dp.obj.sclust ∧
    dp'.sect < W32 ∧ dp'.dptr < MAX_DIR := by
  have hv := hd.1
  unfold dir_next at h
  dsimp only at h
  simp only [if_neg hv.not_exfat] at h
  generalize (dp.dptr + SZ_DIR) % W32 = o at h
  by_cases c0 : o ≥ MAX_DIR
  · simp only [if_pos c0, if_true] at h
    injection h with h
    injection h with h1 h2
    exact FRESULT.noConfusion h1
  simp only [if_neg c0] at h
  have hlt : o < MAX_DIR := Nat.lt_of_not_le c0
  by_cases c1 : dp.sect = 0
  · rw [if_pos c1] at h
    injection h with h
    injection h with h1 h2
    exact FRESULT.noConfusion h1
  rw [if_neg c1] at h
  have hmod : (dp.sect + 1) % W32 < W32 := Nat.mod_lt _ (by unfold W32; omega)
  by_cases cA : o % SS = 0
  · rw [if_pos cA] at h
    by_cases cB : dp.clust = 0
    · rw [if_pos cB] at h
      by_cases cC : o / SZ_DIR ≥ fs.n_rootdir
      · rw [if_pos cC] at h
        dsimp only at h
        injection h with h
        injection h with h1 h2
        exact FRESULT.noConfusion h1
      · rw [if_neg cC] at h
        dsimp only at h
        injection h with h
        injection h with h1 h2
        injection h2 with h2 h3
        subst h2 h3
        refine ⟨hd, SameGeom.rfl' _, ?_⟩
        dsimp only
        exact ⟨rfl, rfl, hmod, hlt⟩
    · rw [if_neg cB] at h
      by_cases cD : (o / SS) &&& ((fs.csize + W32 - 1) % W32) = 0
      · rw [if_pos cD] at h
        generalize hX : dir_next_cluster fs { dp with sect := (dp.sect + 1) % W32 } true = X at h
        rcases X with _ | ⟨res, fs1, dp1⟩
        · exact absurd h (fun h => Option.noConfusion h)
        rcases res with e | u
        · dsimp only at h
          injection h with h
          injection h with h1 h2
          exact absurd h1 (dir_next_cluster_inl _ _ _ _ _ _ hX)
        · dsimp only at h
          obtain ⟨k1, k2, k3, k4, k5, k6⟩ := dir_next_cluster_stretch fs fs1 _ dp1 u hd hX
          dsimp only at k3 k4 k5
          injection h with h
          injection h with h1 h2
          injection h2 with h2 h3
          subst h2 h3
          refine ⟨k1, k2, ?_⟩
          dsimp only
          exact ⟨k3, k4, k6, hlt⟩
      · rw [if_neg cD] at h
        dsimp only at h
        injection h with h
        injection h with h1 h2
        injection h2 with h2 h3
        subst h2 h3
        refine ⟨hd, SameGeom.rfl' _, ?_⟩
        dsimp only
        exact ⟨rfl, rfl, hmod, hlt⟩
  · rw [if_neg cA] at h
    dsimp only at h
    injection h with h
    injection h with h1 h2
    injection h2 with h2 h3
    subst h2 h3
    refine ⟨hd, SameGeom.rfl' _, ?_⟩
    dsimp only
    exact ⟨rfl, rfl, hs, hlt⟩

/-- The loop of `dir_alloc` keeps the invariants of the volume. -/
theorem dir_alloc_loop_spec (n_ent : Nat) :
    ∀ (fuel : Nat) (fs : FATFS) (dp : DIR_) (n : Nat) (fs' : FATFS) (dp' : DIR_),
      DirVol fs → dp.sect < W32 → dp.dptr < MAX_DIR →
      dir_alloc_loop n_ent fuel fs dp n = some (FR_OK, fs', dp') →
      DirVol fs' ∧ SameGeom fs fs' ∧ dp'.fn = dp.fn ∧ dp'.obj.sclust = dp.obj.sclust ∧
      dp'.dptr < MAX_DIR ∧ dp'.sect < W32 := by
  intro fuel
  induction fuel with
  | zero =>
    intro fs dp n fs' dp' _ _ _ h
    unfold dir_alloc_loop at h
    exact absurd h (fun h => Option.noConfusion h)
  | succ k ih =>
    intro fs dp n fs' dp' hd hs hp h
    obtain ⟨mk, -⟩ := move_window_keeps fs dp.sect hd.1 hd.2.2.2.1 hs
    have hd1 := hd.ofKeeps mk
    unfold dir_alloc_loop at h
    dsimp only at h
    generalize move_window fs dp.sect = m at h mk hd1
    by_cases c1 : m.1 ≠ FR_OK
    · rw [if_pos c1] at h
      injection h with h
      injection h with e1 e2
      exact absurd e1 c1
    rw [if_neg c1] at h
    generalize (if m.2.fs_type = FS_EXFAT then decide (dirb m.2 dp 0 &&& 0x80 = 0)
      else decide (dirb m.2 dp DIR_Name = DDE ∨ dirb m.2 dp DIR_Name = 0)) = free at h
    by_cases c2 : free = true ∧ (n + 1) % W32 = n_ent
    · rw [if_pos c2] at h
      injection h with h
      injection h with e1 e2
      injection e2 with e2 e3
      subst e2 e3
      exact ⟨hd1, mk.1.sameGeom, rfl, rfl, hp, hs⟩
    rw [if_neg c2] at h
    generalize hX : dir_next m.2 dp true = X at h
    rcases X with _ | ⟨r, fs3, dp3⟩
    · exact absurd h (fun h => Option.noConfusion h)
    dsimp only at h
    by_cases c3 : r = FR_OK
    · rw [if_pos c3] at h
      subst c3
      obtain ⟨s1, s2, s3, s4, s5, s6⟩ := dir_next_stretch m.2 fs3 dp dp3 hd1 hs hX
      obtain ⟨i1, i2, i3, i4, i5, i6⟩ := ih fs3 dp3 _ fs' dp' s1 s5 s6 h
      exact ⟨i1, (mk.1.sameGeom.comp' s2).comp' i2, i3.trans s3, i4.trans s4, i5, i6⟩
    · rw [if_neg c3] at h
      injection h with h
      injection h with e1 e2
      exact absurd e1 c3

/-- `dir_alloc` keeps the invariants of the volume. -/
theorem dir_alloc_spec (fs fs' : FATFS) (dp dp' : DIR_) (n_ent : Nat) (hd : DirVol fs)
    (hs : dp.obj.sclust < W32) (h : dir_alloc fs dp n_ent = some (FR_OK, fs', dp')) :
    DirVol fs' ∧ SameGeom fs fs' ∧ dp'.fn = dp.fn ∧ dp'.obj.sclust = dp.obj.sclust ∧
    dp'.dptr < MAX_DIR ∧ dp'.sect < W32 := by
  unfold dir_alloc at h
  generalize hX : dir_sdi fs dp 0 = X at h
  rcases X with _ | ⟨r, fs1, dp1⟩
  · exact absurd h (fun h => Option.noConfusion h)
  obtain ⟨k1, k2, k3, k4⟩ := dir_sdi_spec fs fs fs1 dp dp1 0 r hd.1 hd.2.1 hd.2.2.1
    (Keeps.self fs hd.2.2.2.1) hs hX
  dsimp only at h
  by_cases c1 : r ≠ FR_OK
  · rw [if_pos c1] at h
    injection h with h
    injection h with e1 e2
    by_cases c2 : r = FR_NO_FILE
    · rw [if_pos c2] at e1
      exact FRESULT.noConfusion e1
    · rw [if_neg c2] at e1
      exact absurd e1 c1
  rw [if_neg c1] at h
  obtain ⟨a1, a2⟩ := k4 (Classical.byContradiction c1)
  have hd1 := hd.ofKeeps k1
  have haf := ((Keeps.sameFat k1 hd.1).dirAt a1).sect_after hd1.1 hd1.2.1 hd1.2.2.1
  generalize hY : dir_alloc_loop n_ent (MAX_DIR_EX / SZ_DIR + 1) fs1 dp1 0 = Y at h
  rcases Y with _ | ⟨r2, fs2, dp2⟩
  · exact absurd h (fun h => Option.noConfusion h)
  dsimp only at h
  injection h with h
  injection h with e1 e2
  injection e2 with e2 e3
  subst e2 e3
  have hr2 : r2 = FR_OK := by
    by_cases c2 : r2 = FR_NO_FILE
    · rw [if_pos c2] at e1
      exact FRESULT.noConfusion e1
    · rw [if_neg c2] at e1
      exact e1
  subst hr2
  obtain ⟨i1, i2, i3, i4, i5, i6⟩ := dir_alloc_loop_spec n_ent _ fs1 dp1 0 fs2 dp2 hd1
    (by have := haf.2; omega) (by rw [a2]; decide) hY
  exact ⟨i1, k1.1.sameGeom.comp' i2, i3.trans k2, i4.trans k3, i5, i6⟩

theorem DirAt.samePos {fs : FATFS} {dp dq : DIR_} (ha : DirAt fs dp) (h1 : dq.dptr = dp.dptr)
    (h2 : dq.dir = dp.dir) (h3 : dq.sect = dp.sect) (h4 : dq.clust = dp.clust)
    (h5 : dq.obj.sclust = dp.obj.sclust) : DirAt fs dq := by
  unfold DirAt at *
  rw [h1, h2, h3, h4, h5]
  exact ha

/-- The loop of `dir_find` reads the directory: the volume is as before up to
window traffic. -/
theorem dir_find_loop_spec (cp : CodePage) (fs0 : FATFS) (hv : VolOk fs0) (hg : DataOk fs0)
    (hr : DirOk fs0) :
    ∀ (fuel : Nat) (fs : FATFS) (dp : DIR_) (ord sum : Nat) (r : FRESULT) (fs' : FATFS)
      (dp' : DIR_), Keeps fs0 fs → DirAt fs0 dp →
      dir_find_loop cp fuel fs dp ord sum = some (r, fs', dp') →
      Keeps fs0 fs' ∧ dp'.fn = dp.fn ∧ dp'.obj.sclust = dp.obj.sclust := by
  intro fuel
  induction fuel with
  | zero =>
    intro fs dp ord sum r fs' dp' _ _ h
    unfold dir_find_loop at h
    exact absurd h (fun h => Option.noConfusion h)
  | succ k ih =>
    intro fs dp ord sum r fs' dp' hk ha h
    have haf := ha.sect_after hv hg hr
    obtain ⟨mk, -⟩ := move_window_keeps fs dp.sect (hk.1.volOk hv) hk.2.1 (by have := haf.2; omega)
    have hk1 := hk.comp mk
    unfold dir_find_loop at h
    dsimp only at h
    generalize move_window fs dp.sect = m at h mk hk1
    by_cases c1 : m.1 ≠ FR_OK
    · rw [if_pos c1] at h
      injection h with h
      injection h with e1 e2
      injection e2 with e2 e3
      subst e2 e3
      exact ⟨hk1, rfl, rfl⟩
    rw [if_neg c1] at h
    by_cases c2 : dirb m.2 dp DIR_Name = 0
    · rw [if_pos c2] at h
      injection h with h
      injection h with e1 e2
      injection e2 with e2 e3
      subst e2 e3
      exact ⟨hk1, rfl, rfl⟩
    rw [if_neg c2] at h
    split at h
    · injection h with h
      injection h with e1 e2
      injection e2 with e2 e3
      subst e2 e3
      exact ⟨hk1, rfl, rfl⟩
    · rename_i o2 s2 dpS heq
      have hP : dpS.dptr = dp.dptr ∧ dpS.dir = dp.dir ∧ dpS.sect = dp.sect ∧
          dpS.clust = dp.clust ∧ dpS.obj.sclust = dp.obj.sclust ∧ dpS.fn = dp.fn := by
        revert heq
        split_ifs <;> intro heq <;>
          first
          | exact False.elim heq
          | exact absurd heq (fun h => Option.noConfusion h)
          | (injection heq with heq
             injection heq with _ heq
             injection heq with _ heq
             subst heq
             dsimp only
             exact ⟨rfl, rfl, rfl, rfl, rfl, rfl⟩)
      clear heq
      obtain ⟨p1, p2, p3, p4, p5, p6⟩ := hP
      generalize hX : dir_next m.2 dpS false = X at h
      rcases X with _ | ⟨r3, fs3, dp3⟩
      · exact absurd h (fun h => Option.noConfusion h)
      obtain ⟨n1, n2, n3, n4⟩ := dir_next_spec fs0 m.2 fs3 dpS dp3 r3 hv hg hr hk1
        (ha.samePos p1 p2 p3 p4 p5) hX
      dsimp only at h
      by_cases c3 : r3 = FR_OK
      · rw [if_pos c3] at h
        obtain ⟨i1, i2, i3⟩ := ih fs3 dp3 _ _ r fs' dp' n1 (n4 c3).1 h
        exact ⟨i1, (i2.trans n2).trans p6, (i3.trans (congrArg (fun o => o.sclust) n3)).trans p5⟩
      · rw [if_neg c3] at h
        injection h with h
        injection h with e1 e2
        injection e2 with e2 e3
        subst e2 e3
        exact ⟨n1, n2.trans p6, (congrArg (fun o => o.sclust) n3).trans p5⟩

/-- `dir_find` reads the directory: the volume is as before up to window
traffic. -/
theorem dir_find_spec (cp : CodePage) (fs0 fs fs' : FATFS) (dp dp' : DIR_) (r : FRESULT)
    (hv : VolOk fs0) (hg : DataOk fs0) (hr : DirOk fs0) (hk : Keeps fs0 fs)
    (hs : dp.obj.sclust < W32) (h : dir_find cp fs dp = some (r, fs', dp')) :
    Keeps fs0 fs' ∧ dp'.fn = dp.fn ∧ dp'.obj.sclust = dp.obj.sclust := by
  unfold dir_find at h
  generalize hX : dir_sdi fs dp 0 = X at h
  rcases X with _ | ⟨r1, fs1, dp1⟩
  · exact absurd h (fun h => Option.noConfusion h)
  obtain ⟨k1, k2, k3, k4⟩ := dir_sdi_spec fs0 fs fs1 dp dp1 0 r1 hv hg hr hk hs hX
  dsimp only at h
  by_cases c1 : r1 ≠ FR_OK
  · rw [if_pos c1] at h
    injection h with h
    injection h with e1 e2
    injection e2 with e2 e3
    subst e2 e3
    exact ⟨k1, k2, k3⟩
  rw [if_neg c1] at h
  by_cases c2 : fs1.fs_type = FS_EXFAT
  · rw [if_pos c2] at h
    exact absurd h (fun h => Option.noConfusion h)
  rw [if_neg c2] at h
  obtain ⟨a1, -⟩ := k4 (Classical.byContradiction c1)
  obtain ⟨i1, i2, i3⟩ := dir_find_loop_spec cp fs0 hv hg hr _ fs1
    { dp1 with blk_ofs := 0xFFFFFFFF } _ _ r fs' dp' k1 (a1.samePos rfl rfl rfl rfl rfl) h
  exact ⟨i1, i2.trans k2, i3.trans k3⟩

/-- The search of `dir_register` for a numbered name that is not in use reads
the directory: the volume is as before up to window traffic. -/
theorem dir_register_number_spec (cp : CodePage) (sn : Nat → Nat) (fs0 : FATFS) (hv : VolOk fs0)
    (hg : DataOk fs0) (hr : DirOk fs0) :
    ∀ (fuel n : Nat) (fs : FATFS) (dp : DIR_) (n' : Nat) (r : FRESULT) (fs' : FATFS)
      (dp' : DIR_), Keeps fs0 fs → dp.obj.sclust < W32 →
      dir_register_number cp sn fuel n fs dp = some (n', r, fs', dp') →
      Keeps fs0 fs' ∧ dp'.obj.sclust = dp.obj.sclust := by
  intro fuel
  induction fuel with
  | zero =>
    intro n fs dp n' r fs' dp' _ _ h
    unfold dir_register_number at h
    exact absurd h (fun h => Option.noConfusion h)
  | succ k ih =>
    intro n fs dp n' r fs' dp' hk hs h
    unfold dir_register_number at h
    generalize gen_numname dp.fn sn fs.lfnbuf n = gn at h
    rcases gn with _ | fn
    · exact absurd h (fun h => Option.noConfusion h)
    dsimp only at h
    generalize hX : dir_find cp fs { dp with fn := fn } = X at h
    rcases X with _ | ⟨r1, fs1, dp1⟩
    · exact absurd h (fun h => Option.noConfusion h)
    obtain ⟨k1, -, k3⟩ := dir_find_spec cp fs0 fs fs1 ({ dp with fn := fn } : DIR_) dp1 r1 hv hg hr
      hk hs hX
    dsimp only at h k3
    by_cases c1 : r1 ≠ FR_OK
    · rw [if_pos c1] at h
      injection h with h
      injection h with e1 e2
      injection e2 with e2 e3
      injection e3 with e3 e4
      subst e3 e4
      exact ⟨k1, k3⟩
    rw [if_neg c1] at h
    by_cases c2 : n + 1 < 100
    · rw [if_pos c2] at h
      obtain ⟨i1, i2⟩ := ih (n + 1) fs1 dp1 n' r fs' dp' k1 (by rw [k3]; exact hs) h
      exact ⟨i1, i2.trans k3⟩
    · rw [if_neg c2] at h
      injection h with h
      injection h with e1 e2
      injection e2 with e2 e3
      injection e3 with e3 e4
      subst e3 e4
      exact ⟨k1, k3⟩

theorem lfn_len_lt (b : Nat → Nat) :
    ∀ (fuel l len : Nat), l + fuel ≤ W16 → lfn_len b fuel l = some len → len < l + fuel := by
  intro fuel
  induction fuel with
  | zero =>
    intro l len _ h
    unfold lfn_len at h
    exact absurd h (fun h => Option.noConfusion h)
  | succ k ih =>
    intro l len hb h
    unfold lfn_len at h
    by_cases c : ldw b l ≠ 0
    · rw [if_pos c] at h
      cases k with
      | zero =>
        unfold lfn_len at h
        exact absurd h (fun h => Option.noConfusion h)
      | succ k2 =>
        have e : (l + 1) % W16 = l + 1 := Nat.mod_eq_of_lt (by omega)
        rw [e] at h
        have := ih (l + 1) len (by omega) h
        omega
    · rw [if_neg c] at h
      injection h with h
      omega

/-- The store of the SFN entry: the window shows the sector of the entry and
the name field of the entry holds the short name. -/
theorem sfn_write_name (fs : FATFS) (dp : DIR_) (hws : fs.winsect = dp.sect) :
    (set_dirty { fs with win := put_sfn fs.win dp.fn (dp.dir.getD 0) }).winsect = dp.sect ∧
    ∀ k, k < 11 →
      dirb (set_dirty { fs with win := put_sfn fs.win dp.fn (dp.dir.getD 0) }) dp k
        = ldb dp.fn k := by
  refine ⟨hws, fun k hk => ?_⟩
  unfold dirb set_dirty
  dsimp only
  exact put_sfn_name _ _ _ _ hk

/-- The last step of `dir_register`: the window moves to the sector of the
SFN entry and the short name is stored there. -/
theorem dir_register_store (fs fs1 : FATFS) (dp dp1 : DIR_) (r : FRESULT)
    (h : (if r = FR_OK then
          (if (move_window fs dp.sect).1 = FR_OK then
            some (FR_OK, set_dirty { (move_window fs dp.sect).2 with
              win := put_sfn (move_window fs dp.sect).2.win dp.fn (dp.dir.getD 0) }, dp)
          else some ((move_window fs dp.sect).1, (move_window fs dp.sect).2, dp))
        else some (r, fs, dp)) = some (FR_OK, fs1, dp1)) :
    r = FR_OK ∧ (move_window fs dp.sect).1 = FR_OK ∧ dp1 = dp ∧
    fs1 = set_dirty { (move_window fs dp.sect).2 with
      win := put_sfn (move_window fs dp.sect).2.win dp.fn (dp.dir.getD 0) } := by
  generalize move_window fs dp.sect = m at h
  by_cases c1 : r = FR_OK
  · rw [if_pos c1] at h
    by_cases c2 : m.1 = FR_OK
    · rw [if_pos c2] at h
      injection h with h
      injection h with _ h
      injection h with e1 e2
      exact ⟨c1, c2, e2.symm, e1.symm⟩
    · rw [if_neg c2] at h
      injection h with h
      injection h with e _
      exact absurd e c2
  · rw [if_neg c1] at h
    injection h with h
    injection h with e _
    exact absurd e c1

/-- The store of the SFN entry after the LFN slots: the slots keep their
attribute and checksum. -/
theorem dir_register_final (fs : FATFS) (dp : DIR_) (sum s : Nat) (hd : DirVol fs)
    (ha : DirAt fs dp) (hn : dp.dptr ≤ s + SZ_DIR * 20)
    (hs : SlotsOk fs dp.obj.sclust sum s dp.dptr)
    (hm : (move_window fs dp.sect).1 = FR_OK) :
    (set_dirty { (move_window fs dp.sect).2 with
      win := put_sfn (move_window fs dp.sect).2.win dp.fn (dp.dir.getD 0) }).winsect = dp.sect ∧
    (∀ k, k < 11 →
      dirb (set_dirty { (move_window fs dp.sect).2 with
        win := put_sfn (move_window fs dp.sect).2.win dp.fn (dp.dir.getD 0) }) dp k
        = ldb dp.fn k) ∧
    SlotsOk (set_dirty { (move_window fs dp.sect).2 with
      win := put_sfn (move_window fs dp.sect).2.win dp.fn (dp.dir.getD 0) })
      dp.obj.sclust sum s dp.dptr := by
  obtain ⟨hv, hg, hr, hw, hl⟩ := hd
  have haf := ha.sect_after hv hg hr
  obtain ⟨hk, hws⟩ := move_window_keeps fs dp.sect hv hw (by have := haf.2; omega)
  have hws := hws hm
  have hd2 : DirVol (move_window fs dp.sect).2 := DirVol.ofKeeps ⟨hv, hg, hr, hw, hl⟩ hk
  have ha2 : DirAt (move_window fs dp.sect).2 dp := (hk.sameFat hv).dirAt ha
  have hs2 := hs.kept hk hv
  generalize (move_window fs dp.sect).2 = fs2 at hws hd2 ha2 hs2
  obtain ⟨hv2, hg2, hr2, hw2, hl2⟩ := hd2
  obtain ⟨-, w2⟩ := sfn_write_spec fs2 dp dp.fn sum s hv2 hg2 hr2 hw2 hl2 hws ha2 hn hs2
  obtain ⟨n1, n2⟩ := sfn_write_name fs2 dp hws
  exact ⟨n1, n2, w2⟩

set_option maxHeartbeats 1000000 in
/-- C33. For every 11-byte short name `sum_sfn` returns the value obtained by
starting from 0 and, for each byte in order, rotating the 8-bit sum right by
one bit (bit 0 moves to bit 7) and adding the byte modulo 256. When
`dir_register` returns `FR_OK` on a mounted FAT12/FAT16/FAT32 volume, the
window shows the sector of the SFN entry, whose name field holds the short
name `dp->fn`, and when the name has a long form every LFN slot of the entry
(the `(len + 12) / 13` entries of the directory table before the SFN entry,
for a name of `len` characters) has the attribute `AM_LFN` and holds in its
checksum field the value of `sum_sfn` for the SFN entry. -/
theorem C33_sfn_checksum (cp : CodePage) (fs fs1 : FATFS) (dp dp1 : DIR_) (len : Nat)
    (hv : VolOk fs) (hg : DataOk fs) (hr : DirOk fs) (hw : WinInv fs) (hl : NoSelfLink fs)
    (hs : dp.obj.sclust < W32) (hlen : lfn_len fs.lfnbuf (MAX_LFN + 1) 0 = some len)
    (h : dir_register cp fs dp = some (FR_OK, fs1, dp1)) :
    (∀ (b : Nat → Nat) (o : Nat), sum_sfn b o = sfn_checksum b o) ∧
    (fs1.winsect = dp1.sect ∧ ∀ k, k < 11 → dirb fs1 dp1 k = ldb dp1.fn k) ∧
    (ldb dp.fn NS &&& NS_LFN ≠ 0 → ∀ j, 1 ≤ j → j ≤ (len + 12) / 13 →
      SZ_DIR * j ≤ dp1.dptr ∧
      dirEntryByte fs1 dp1.obj.sclust (dp1.dptr - SZ_DIR * j) LDIR_Attr = AM_LFN ∧
      dirEntryByte fs1 dp1.obj.sclust (dp1.dptr - SZ_DIR * j) LDIR_Chksum
        = sum_sfn fs1.win (dp1.dir.getD 0)) := by
  refine ⟨sum_sfn_eq, ?_⟩
  have hd : DirVol fs := ⟨hv, hg, hr, hw, hl⟩
  have hlen' : len < 256 := by
    have := lfn_len_lt fs.lfnbuf (MAX_LFN + 1) 0 len (by unfold MAX_LFN W16; omega) hlen
    unfold MAX_LFN at this
    omega
  unfold dir_register at h
  by_cases c0 : ldb dp.fn NS &&& (NS_DOT ||| NS_NONAME) ≠ 0
  · rw [if_pos c0] at h
    injection h with h
    injection h with e1 e2
    exact FRESULT.noConfusion e1
  rw [if_neg c0, hlen] at h
  dsimp only at h
  rw [if_neg hv.not_exfat] at h
  have hsn : ldb (fun k => if k < 12 then ldb dp.fn k else 0) NS = ldb dp.fn NS := by
    unfold ldb NS
    dsimp only
    rw [if_pos (by decide)]
    exact Nat.mod_mod _ _
  rw [hsn] at h
  split at h
  · exact absurd h (fun h => Option.noConfusion h)
  rename_i rA fsA dpA hnum
  have hA : Keeps fs fsA ∧ dpA.obj.sclust = dp.obj.sclust := by
    by_cases cL : ldb dp.fn NS &&& NS_LOSS ≠ 0
    · rw [if_pos cL] at hnum
      split at hnum
      · exact absurd hnum (fun h => Option.noConfusion h)
      · rename_i n r fsN dpN hN
        obtain ⟨k1, k2⟩ := dir_register_number_spec cp
          (fun k => if k < 12 then ldb dp.fn k else 0) fs hv hg hr 100 1 fs
          ({ dp with fn := stb dp.fn NS NS_NOLFN } : DIR_) n r fsN dpN
          (Keeps.self fs hw) hs hN
        split_ifs at hnum <;>
          (injection hnum with hnum
           injection hnum with _ hnum
           injection hnum with e1 e2
           subst e1
           subst e2
           exact ⟨k1, k2⟩)
    · rw [if_neg cL] at hnum
      injection hnum with hnum
      injection hnum with _ hnum
      injection hnum with e1 e2
      subst e1
      subst e2
      exact ⟨Keeps.self fs hw, rfl⟩
  clear hnum
  obtain ⟨kA, sA⟩ := hA
  have hdA : DirVol fsA := hd.ofKeeps kA
  by_cases cA : rA ≠ FR_OK
  · rw [if_pos cA] at h
    injection h with h
    injection h with e _
    exact absurd e cA
  rw [if_neg cA] at h
  have hN : 1 ≤ (if ldb dp.fn NS &&& NS_LFN ≠ 0 then ((len + 12) / 13 + 1) % W16 else 1) ∧
      (if ldb dp.fn NS &&& NS_LFN ≠ 0 then ((len + 12) / 13 + 1) % W16 else 1) ≤ 21 ∧
      (ldb dp.fn NS &&& NS_LFN ≠ 0 →
        (if ldb dp.fn NS &&& NS_LFN ≠ 0 then ((len + 12) / 13 + 1) % W16 else 1)
          = (len + 12) / 13 + 1) := by
    have e : ((len + 12) / 13 + 1) % W16 = (len + 12) / 13 + 1 :=
      Nat.mod_eq_of_lt (by unfold W16; omega)
    rw [e]
    split_ifs with c
    · exact ⟨by omega, by omega, fun _ => rfl⟩
    · exact ⟨by omega, by omega, fun c2 => absurd c2 c⟩
  generalize (if ldb dp.fn NS &&& NS_LFN ≠ 0 then ((len + 12) / 13 + 1) % W16 else 1) = N
    at h hN
  obtain ⟨hN1, hN2, hN3⟩ := hN
  have hK : (N + W16 - 1) % W16 = N - 1 := by
    unfold W16
    omega
  rw [hK] at h
  split at h
  · exact absurd h (fun h => Option.noConfusion h)
  rename_i rB fsB dpB hB
  split at h
  · exact absurd h (fun h => Option.noConfusion h)
  rename_i rD fsD dpD hL
  obtain ⟨eD, hm, e1, e2⟩ := dir_register_store fsD fs1 dpD dp1 rD h
  clear h
  subst eD
  subst e1
  by_cases cK : rB = FR_OK ∧ N - 1 ≠ 0
  · rw [if_pos cK] at hL
    obtain ⟨eB, cK⟩ := cK
    subst eB
    obtain ⟨hdB, -, -, sB, pB, -⟩ := dir_alloc_spec fsA fsB dpA dpB N hdA (by rw [sA]; exact hs) hB
    split at hL
    · exact absurd hL (fun h => Option.noConfusion h)
    rename_i rC fsC dpC hC
    by_cases cC : rC = FR_OK
    · rw [if_pos cC] at hL
      obtain ⟨kC, -, sC, aC⟩ := dir_sdi_spec fsB fsB fsC dpB dpC _ rC hdB.1 hdB.2.1 hdB.2.2.1
        (Keeps.self fsB hdB.2.2.2.1) (by rw [sB, sA]; exact hs) hC
      obtain ⟨aC, pC⟩ := aC cC
      have hdC : DirVol fsC := hdB.ofKeeps kC
      have aC2 : DirAt fsC dpC := (kC.sameFat hdB.1).dirAt aC
      have hidx : dpC.dptr + SZ_DIR * (N - 1) = dpB.dptr := by
        have hlt := aC.2.1
        rw [pC] at hlt
        rw [pC]
        unfold MAX_DIR at hlt pB
        unfold SZ_DIR W32 at *
        omega
      obtain ⟨kD, aD, fD, oD, pD, sD⟩ := dir_register_lfn_spec (sum_sfn dpC.fn 0) dpC.dptr
        (N - 1 + 1) fsC dpC (N - 1) fsD dp1 hdC.1 hdC.2.1 hdC.2.2.1 hdC.2.2.2.1 aC2
        (by omega) (by unfold W16; omega)
        (fun idx h1 h2 _ => absurd h2 (by omega)) hL
      have hdD : DirVol fsD := hdC.ofSameFat kD
      rw [← oD] at sD
      obtain ⟨f1, f2, f3⟩ := dir_register_final fsD dp1 _ dpC.dptr hdD aD
        (by rw [pD]; unfold SZ_DIR; omega) sD hm
      rw [← e2] at f1 f2 f3
      refine ⟨⟨f1, f2⟩, fun c j j1 j2 => ?_⟩
      have hNe := hN3 c
      have hj : SZ_DIR * j ≤ SZ_DIR * (N - 1) := Nat.mul_le_mul_left _ (by omega)
      have hd1 : dp1.dptr % SZ_DIR = 0 := aD.1
      obtain ⟨-, g2, g3⟩ := f3 (dp1.dptr - SZ_DIR * j)
        (by rw [pD]; unfold SZ_DIR at *; omega) (by unfold SZ_DIR at *; omega)
        (by unfold SZ_DIR at *; omega)
      refine ⟨by rw [pD]; omega, g2, ?_⟩
      rw [g3, sum_sfn_eq, sum_sfn_eq, Nat.mod_eq_of_lt (sfn_checksum_lt _ _), ← fD]
      exact (sfn_checksum_congr _ _ _ _ (fun k hk => by
        have := f2 k hk
        unfold dirb at this
        rw [this, Nat.zero_add])).symm
    · rw [if_neg cC] at hL
      injection hL with hL
      injection hL with e _
      exact absurd e cC
  · rw [if_neg cK] at hL
    injection hL with hL
    injection hL with eB hL
    injection hL with eF eD
    subst eB
    subst eF
    subst eD
    have hK0 : N - 1 = 0 := by
      by_contra c
      exact cK ⟨rfl, c⟩
    obtain ⟨hdB, -, -, -, -, qB⟩ := dir_alloc_spec fsA fsB dpA dpB N hdA
      (by rw [sA]; exact hs) hB
    obtain ⟨-, hws⟩ := move_window_keeps fsB dpB.sect hdB.1 hdB.2.2.2.1 qB
    have n12 := sfn_write_name (move_window fsB dpB.sect).2 dpB (hws hm)
    rw [← e2] at n12
    refine ⟨n12, fun c j j1 j2 => ?_⟩
    have hNe := hN3 c
    omega

theorem exLongVol_fatByte (k : Nat) : fatByte exLongVol k = 0 := by
  unfold fatByte secView ldb
  split_ifs <;> rfl

theorem exLongVol_noSelfLink : NoSelfLink exLongVol := by
  intro d h2 hn
  have hn' : d < 400 := hn
  have e : fatEntry exLongVol d = 0 := by
    unfold fatEntry
    rw [if_neg (show ¬ (d < 2 ∨ d ≥ exLongVol.n_fatent) from fun h => by
      rcases h with h | h
      · omega
      · exact absurd hn' (Nat.not_lt.2 h))]
    rw [if_pos (show exLongVol.fs_type = FS_FAT12 from rfl)]
    simp only [exLongVol_fatByte]
    split_ifs <;> rfl
  rw [e]
  omega

/-- C33 (witness): the registration of the name "ab" with the short name "AB"
in the empty root directory of `exLongVol`. The call returns `FR_OK` with the
SFN entry at offset 32, and the LFN slot at offset 0 holds the attribute
`AM_LFN` and the checksum of the SFN entry. -/
theorem C33_sfn_checksum_witness :
    VolOk exLongVol ∧ DataOk exLongVol ∧ DirOk exLongVol ∧ WinInv exLongVol ∧
    NoSelfLink exLongVol ∧ exLongDj.obj.sclust < W32 ∧
    lfn_len exLongVol.lfnbuf (MAX_LFN + 1) 0 = some 2 ∧
    ldb exLongDj.fn NS &&& NS_LFN ≠ 0 ∧
    ∃ fs1 dp1, dir_register asciiPage exLongVol exLongDj = some (FR_OK, fs1, dp1) ∧
      dp1.dptr = 32 ∧ (∀ k, k < 11 → dirb fs1 dp1 k = ldb dp1.fn k) ∧
      dirEntryByte fs1 dp1.obj.sclust 0 LDIR_Attr = AM_LFN ∧
      dirEntryByte fs1 dp1.obj.sclust 0 LDIR_Chksum = sum_sfn fs1.win (dp1.dir.getD 0) := by
  have hm : (dir_register asciiPage exLongVol exLongDj).map (fun r => (r.1, r.2.2.dptr))
      = some (FR_OK, 32) := by decide
  have hv : VolOk exLongVol := by
    unfold VolOk
    decide
  have hg : DataOk exLongVol := ⟨⟨0, by decide, rfl⟩, by decide, by decide⟩
  have hr : DirOk exLongVol := by
    unfold DirOk
    decide
  have hw : WinInv exLongVol := ⟨by decide, fun _ h => absurd rfl h⟩
  have hlen : lfn_len exLongVol.lfnbuf (MAX_LFN + 1) 0 = some 2 := by decide
  have hns : ldb exLongDj.fn NS &&& NS_LFN ≠ 0 := by decide
  refine ⟨hv, hg, hr, hw, exLongVol_noSelfLink, by decide, hlen, hns, ?_⟩
  rcases hc : dir_register asciiPage exLongVol exLongDj with _ | ⟨r, fs1, dp1⟩
  · rw [hc] at hm
    exact absurd hm (fun h => Option.noConfusion h)
  · rw [hc] at hm
    injection hm with hm
    injection hm with hm1 hm2
    dsimp only at hm1 hm2
    subst hm1
    obtain ⟨-, a2, a3⟩ := C33_sfn_checksum asciiPage exLongVol fs1 exLongDj dp1 2
      hv hg hr hw exLongVol_noSelfLink (by decide) hlen hc
    obtain ⟨-, b2, b3⟩ := a3 hns 1 (by decide) (by decide)
    rw [hm2] at b2 b3
    exact ⟨fs1, dp1, rfl, hm2, a2.2, b2, b3⟩

/-- The first loop of `create_name` over a run `s` of characters that are
neither control characters nor separators: it returns `FR_INVALID_NAME`
whatever follows the run, or every character of the run is a legal character
of the BMP, the run fits the buffer, and the loop continues after the run with
the characters of the run stored. -/
theorem create_name_scan_run :
    ∀ (s : List Nat) (di : Nat) (lfn : Nat → Nat),
      (∀ x ∈ s, 0x20 ≤ x ∧ x ≠ 0x2F ∧ x ≠ 0x5C) →
      (((∃ x ∈ s, x > 0xFFFF ∨ lfn_illegal x = true) ∨ di + s.length > MAX_LFN) ∧
        ∃ l, ∀ rest, create_name_scan (s ++ rest) di lfn = (Sum.inl FR_INVALID_NAME, l)) ∨
      ((∀ x ∈ s, x ≤ 0xFFFF ∧ lfn_illegal x = false) ∧ (s = [] ∨ di + s.length ≤ MAX_LFN) ∧
        ∃ l, (∀ rest, create_name_scan (s ++ rest) di lfn
            = create_name_scan rest (di + s.length) l) ∧
          ∀ k, l k = if di ≤ k ∧ k < di + s.length then s.getD (k - di) 0 else lfn k) := by
  intro s
  induction s with
  | nil =>
    intro di lfn _
    refine Or.inr ⟨fun x hx => absurd hx (List.not_mem_nil x), Or.inl rfl, lfn,
      fun rest => rfl, fun k => ?_⟩
    rw [if_neg]
    simp
  | cons x s ih =>
    intro di lfn hs
    have hx := hs x (List.mem_cons_self _ _)
    have hx2 : ¬ (x < 0x20 ∨ x = 0x2F ∨ x = 0x5C) := by omega
    by_cases h1 : x > 0xFFFF
    · refine Or.inl ⟨Or.inl ⟨x, List.mem_cons_self _ _, Or.inl h1⟩, lfn, fun rest => ?_⟩
      rw [List.cons_append, create_name_scan, if_pos h1]
    by_cases h2 : di ≥ MAX_LFN
    · refine Or.inl ⟨Or.inr (by rw [List.length_cons]; omega), lfn, fun rest => ?_⟩
      rw [List.cons_append, create_name_scan, if_neg h1, if_neg hx2, if_pos h2]
    by_cases h3 : x < 0x80 ∧ lfn_illegal x = true
    · refine Or.inl ⟨Or.inl ⟨x, List.mem_cons_self _ _, Or.inr h3.2⟩, lfn, fun rest => ?_⟩
      rw [List.cons_append, create_name_scan, if_neg h1, if_neg hx2, if_neg h2, if_pos h3]
    have hstep : ∀ rest, create_name_scan (x :: s ++ rest) di lfn
        = create_name_scan (s ++ rest) (di + 1) (Function.update lfn di x) := by
      intro rest
      rw [List.cons_append, create_name_scan, if_neg h1, if_neg hx2, if_neg h2, if_neg h3]
    have hleg : lfn_illegal x = false := by
      by_cases h80 : x < 0x80
      · cases hi : lfn_illegal x
        · rfl
        · exact absurd ⟨h80, hi⟩ h3
      · unfold lfn_illegal
        simp only [decide_eq_false_iff_not]
        omega
    rcases ih (di + 1) (Function.update lfn di x)
      (fun y hy => hs y (List.mem_cons_of_mem _ hy)) with ⟨hwhy, l, hl⟩ | ⟨hv, hlen, l, hl, hk⟩
    · refine Or.inl ⟨?_, l, fun rest => by rw [hstep, hl]⟩
      rcases hwhy with ⟨y, hy, hyy⟩ | hlong
      · exact Or.inl ⟨y, List.mem_cons_of_mem _ hy, hyy⟩
      · exact Or.inr (by rw [List.length_cons]; omega)
    · refine Or.inr ⟨?_, Or.inr ?_, l, fun rest => ?_, fun k => ?_⟩
      · intro y hy
        rcases List.mem_cons.1 hy with e | e
        · rw [e]; exact ⟨by omega, hleg⟩
        · exact hv y e
      · rw [List.length_cons]
        unfold MAX_LFN at *
        rcases hlen with e | e
        · rw [e]; simp; omega
        · omega
      · rw [hstep, hl, List.length_cons]
        congr 1
        omega
      · rw [hk k, List.length_cons]
        by_cases hkd : k = di
        · subst hkd
          rw [if_neg (by omega), if_pos (by omega), Function.update_same, Nat.sub_self]
          rfl
        · rw [Function.update_noteq hkd]
          by_cases hin : di + 1 ≤ k ∧ k < di + 1 + s.length
          · rw [if_pos hin, if_pos (by omega)]
            have : k - di = (k - (di + 1)) + 1 := by omega
            rw [this]
            rfl
          · rw [if_neg hin, if_neg (by omega)]

theorem create_name_scan_end (di : Nat) (l : Nat → Nat) :
    ∀ (t : List Nat), (∀ x ∈ t.head?, x < 0x20 ∨ x = 0x2F ∨ x = 0x5C) →
      create_name_scan t di l = (Sum.inr (t.headD 0, di, t.tail), l) := by
  intro t ht
  cases t with
  | nil => rfl
  | cons c t =>
    have hc := ht c (by simp)
    rw [create_name_scan, if_neg (by omega), if_pos hc]
    rfl

theorem dropWhile_seps (s t : List Nat) (hs : ∀ x ∈ s, 0x20 ≤ x ∧ x ≠ 0x2F ∧ x ≠ 0x5C)
    (hne : s ≠ []) :
    ∀ (seps : List Nat), (∀ x ∈ seps, x = 0x2F ∨ x = 0x5C) →
      (seps ++ (s ++ t)).dropWhile (fun c => decide (c = 0x2F ∨ c = 0x5C)) = s ++ t := by
  intro seps
  induction seps with
  | nil =>
    intro _
    cases s with
    | nil => exact absurd rfl hne
    | cons x s =>
      have := hs x (List.mem_cons_self _ _)
      rw [List.nil_append, List.cons_append, List.dropWhile_cons_of_neg]
      simp [this.2.1, this.2.2]
  | cons y seps ih =>
    intro h
    have hy := h y (List.mem_cons_self _ _)
    rw [List.cons_append, List.dropWhile_cons_of_pos (by simpa using hy)]
    exact ih (fun x hx => h x (List.mem_cons_of_mem _ hx))

theorem create_name_snip_spec (lfn : Nat → Nat) :
    ∀ n, create_name_snip lfn n ≤ n ∧
      (∀ k, create_name_snip lfn n ≤ k → k < n → ldw lfn k = 0x20 ∨ ldw lfn k = 0x2E) ∧
      (create_name_snip lfn n = 0 ∨
        (ldw lfn (create_name_snip lfn n - 1) ≠ 0x20 ∧
          ldw lfn (create_name_snip lfn n - 1) ≠ 0x2E)) := by
  intro n
  induction n with
  | zero => exact ⟨Nat.le_refl _, fun k _ hk => absurd hk (Nat.not_lt_zero k), Or.inl rfl⟩
  | succ n ih =>
    unfold create_name_snip
    by_cases h : ldw lfn n ≠ 0x20 ∧ ldw lfn n ≠ 0x2E
    · rw [if_pos h]
      exact ⟨Nat.le_refl _, fun k h1 h2 => by omega, Or.inr h⟩
    · rw [if_neg h]
      obtain ⟨a1, a2, a3⟩ := ih
      refine ⟨by omega, fun k h1 h2 => ?_, a3⟩
      by_cases hk : k = n
      · subst hk
        by_cases e : ldw lfn k = 0x20
        · exact Or.inl e
        · by_cases e2 : ldw lfn k = 0x2E
          · exact Or.inr e2
          · exact absurd ⟨e, e2⟩ h
      · exact a2 k h1 (by omega)

theorem create_name_lead_some (lfn : Nat → Nat) (d : Nat) (hd : ldw lfn d ≠ 0x20) :
    ∀ (fuel si : Nat), si ≤ d → d < si + fuel →
      ∃ r, create_name_lead lfn fuel si = some r ∧ si ≤ r ∧ r ≤ d ∧ ldw lfn r ≠ 0x20 ∧
        ∀ k, si ≤ k → k < r → ldw lfn k = 0x20 := by
  intro fuel
  induction fuel with
  | zero => intro si h1 h2; omega
  | succ n ih =>
    intro si h1 h2
    unfold create_name_lead
    by_cases h : ldw lfn si = 0x20
    · rw [if_pos h]
      have hne : si ≠ d := fun e => hd (e ▸ h)
      obtain ⟨r, a1, a2, a3, a4, a5⟩ := ih (si + 1) (by omega) (by omega)
      refine ⟨r, a1, by omega, a3, a4, fun k k1 k2 => ?_⟩
      by_cases hk : k = si
      · rw [hk]; exact h
      · exact a5 k (by omega) k2
    · rw [if_neg h]
      exact ⟨si, rfl, Nat.le_refl _, h1, h, fun k k1 k2 => by omega⟩

theorem create_name_dot_le (lfn : Nat → Nat) : ∀ n, create_name_dot lfn n ≤ n := by
  intro n
  induction n with
  | zero => exact Nat.le_refl _
  | succ n ih =>
    unfold create_name_dot
    split_ifs
    · omega
    · exact Nat.le_refl _

set_option maxHeartbeats 2000000 in
theorem create_name_sfn_some (cp : CodePage) (lfn : Nat → Nat) (di d : Nat)
    (hz : ldw lfn d = 0) (hdi : di ≤ d) :
    ∀ (fuel : Nat) (st : SfnState), st.si ≤ d → d < st.si + fuel →
      ∃ st', create_name_sfn cp lfn di fuel st = some st' := by
  intro fuel
  induction fuel with
  | zero => intro st h1 h2; omega
  | succ n ih =>
    intro st h1 h2
    unfold create_name_sfn
    dsimp only
    by_cases hw : ldw lfn st.si = 0
    · rw [if_pos hw]
      exact ⟨_, rfl⟩
    rw [if_neg hw]
    have hlt : st.si < d := by
      have : st.si ≠ d := fun e => hw (e ▸ hz)
      omega
    split_ifs
    all_goals first
      | exact ⟨_, by with_reducible rfl⟩
      | exact ih _ (by dsimp only; omega) (by dsimp only; omega)

theorem ldw_update_same (l : Nat → Nat) (d : Nat) : ldw (Function.update l d 0) d = 0 := by
  unfold ldw
  rw [Function.update_same]
  rfl

theorem ldw_update_ne (l : Nat → Nat) (d k v : Nat) (h : k ≠ d) :
    ldw (Function.update l d v) k = ldw l k := by
  unfold ldw
  rw [Function.update_noteq h]

/-- What `create_name` returns once its first loop has ended at the character
`w` with `n` characters stored: `FR_INVALID_NAME` when nothing is left after
the trailing spaces and dots are cut, else `FR_OK` with the SFN that the last
loop makes of the name. -/
theorem create_name_of_scan (cp : CodePage) (fs : FATFS) (dp : DIR_) (path rest : List Nat)
    (lfn0 l : Nat → Nat) (w n : Nat) (h0 : lfn_load fs dp.lfn = some lfn0)
    (hscan : create_name_scan (path.dropWhile fun c => c = 0x2F ∨ c = 0x5C) 0 lfn0
      = (Sum.inr (w, n, rest), l)) (hn : n ≤ 255) :
    (create_name_snip l n = 0 →
      create_name cp fs dp path = some (FR_INVALID_NAME,
        lfn_store fs (Function.update l 0 0) dp.lfn, dp, rest)) ∧
    (create_name_snip l n ≠ 0 →
      ∃ si st, create_name_lead (Function.update l (create_name_snip l n) 0) (MAX_LFN + 1) 0
          = some si ∧ si ≤ create_name_snip l n ∧
        create_name_sfn cp (Function.update l (create_name_snip l n) 0)
          (create_name_dot (Function.update l (create_name_snip l n) 0) (create_name_snip l n))
          (2 * MAX_LFN + 4)
          { i := 0, ni := 8, si := si, b := 0,
            cf := if si > 0 ∨ ldw (Function.update l (create_name_snip l n) 0) si = 0x2E
              then (if w < 0x20 then NS_LAST else 0) ||| NS_LOSS ||| NS_LFN
              else (if w < 0x20 then NS_LAST else 0),
            fn := fun k => if k < 11 then 0x20 else dp.fn k } = some st ∧
        create_name cp fs dp path = some (FR_OK,
          lfn_store fs (Function.update l (create_name_snip l n) 0) dp.lfn,
          { dp with fn := create_name_end st }, rest)) := by
  obtain ⟨d, hd⟩ : ∃ x, x = create_name_snip l n := ⟨_, rfl⟩
  rw [← hd]
  have hdn : d ≤ n := by rw [hd]; exact (create_name_snip_spec l n).1
  constructor
  · intro hz
    unfold create_name
    rw [h0]
    dsimp only
    rw [hscan]
    dsimp only
    rw [← hd, if_pos hz, hz]
  · intro hnz
    obtain ⟨si, hsi, -, hsid, -, -⟩ := create_name_lead_some (Function.update l d 0) d
      (by rw [ldw_update_same]; decide) (MAX_LFN + 1) 0 (Nat.zero_le _)
      (by unfold MAX_LFN; omega)
    obtain ⟨st, hst⟩ := create_name_sfn_some cp (Function.update l d 0)
      (create_name_dot (Function.update l d 0) d) d (ldw_update_same l d)
      (create_name_dot_le _ d) (2 * MAX_LFN + 4)
      { i := 0, ni := 8, si := si, b := 0,
        cf := if si > 0 ∨ ldw (Function.update l d 0) si = 0x2E
          then (if w < 0x20 then NS_LAST else 0) ||| NS_LOSS ||| NS_LFN
          else (if w < 0x20 then NS_LAST else 0),
        fn := fun k => if k < 11 then 0x20 else dp.fn k } hsid
      (by dsimp only; unfold MAX_LFN; omega)
    refine ⟨si, st, hsi, hsid, hst, ?_⟩
    unfold create_name
    rw [h0]
    dsimp only
    rw [hscan]
    dsimp only
    rw [← hd, if_neg hnz, hsi]
    dsimp only
    rw [hst]

theorem lfn_load_store (fs : FATFS) (buf : Nat → Nat) (p : LfnPtr) (hp : p ≠ LfnPtr.null) :
    lfn_load (lfn_store fs buf p) p = some buf := by
  cases p with
  | null => exact absurd rfl hp
  | member => rfl
  | static => rfl

/-- The first loop of `create_name` on the path made of the separators
`seps`, the run `s` and the rest `t`: the call returns `FR_INVALID_NAME` for a
run with a character outside the BMP or an illegal one or with more than 255
characters, else the loop ends after the run with its characters stored. -/
theorem create_name_run (cp : CodePage) (fs : FATFS) (dp : DIR_) (seps s t : List Nat)
    (lfn0 : Nat → Nat) (h0 : lfn_load fs dp.lfn = some lfn0)
    (hseps : ∀ x ∈ seps, x = 0x2F ∨ x = 0x5C)
    (hs : ∀ x ∈ s, 0x20 ≤ x ∧ x ≠ 0x2F ∧ x ≠ 0x5C) (hne : s ≠ [])
    (ht : ∀ x ∈ t.head?, x < 0x20 ∨ x = 0x2F ∨ x = 0x5C) :
    (((∃ x ∈ s, x > 0xFFFF ∨ lfn_illegal x = true) ∨ s.length > 255) ∧
      (create_name cp fs dp (seps ++ (s ++ t))).map (fun r => r.1) = some FR_INVALID_NAME) ∨
    ((∀ x ∈ s, x ≤ 0xFFFF ∧ lfn_illegal x = false) ∧ s.length ≤ 255 ∧
      ∃ l, (∀ k, k < s.length → ldw l k = s.getD k 0) ∧
        create_name_scan ((seps ++ (s ++ t)).dropWhile fun c => c = 0x2F ∨ c = 0x5C) 0 lfn0
          = (Sum.inr (t.headD 0, s.length, t.tail), l)) := by
  have hdw := dropWhile_seps s t hs hne seps hseps
  rcases create_name_scan_run s 0 lfn0 hs with ⟨hwhy, l, hbad⟩ | ⟨hv, hfit, l, hok, hk⟩
  · left
    refine ⟨?_, ?_⟩
    · rcases hwhy with h | h
      · exact Or.inl h
      · unfold MAX_LFN at h
        exact Or.inr (by omega)
    · unfold create_name
      rw [h0]
      dsimp only
      rw [hdw, hbad t]
      rfl
  · right
    have hlen : s.length ≤ 255 := by
      rcases hfit with e | e
      · exact absurd e hne
      · unfold MAX_LFN at e
        omega
    refine ⟨hv, hlen, l, fun k hk1 => ?_, ?_⟩
    · unfold ldw
      rw [hk k, if_pos ⟨Nat.zero_le _, by omega⟩, Nat.sub_zero]
      have hm : s.getD k 0 ∈ s := by
        rw [List.getD_eq_getElem _ _ hk1]
        exact List.getElem_mem _
      exact Nat.mod_eq_of_lt (by have := (hv _ hm).1; unfold W16; omega)
    · rw [hdw, hok t, Nat.zero_add]
      exact create_name_scan_end _ l t ht

/-- C13 (counterexample). The segment `a`, `0x01`, `*` contains the character
`*` before the end of the string, and `create_name` returns `FR_OK`: the
control character ends the segment and the path, and the long name is `a`. -/
theorem C13_counterexample :
    (create_name asciiPage exFat12 exDj [0x61, 0x01, 0x2A]).map
        (fun r => (r.1, (List.range 2).map r.2.1.LfnBuf, r.2.2.2))
      = some (FR_OK, [0x61, 0], [0x2A]) := by
  decide

/-- C13 (amended). A path segment is the run `s` of characters that are neither control
characters nor separators, after the leading separators `seps` and before the
rest `t` of the path, which is empty or starts with a control character or a
separator. If the segment contains one of the characters
`" * : < > ? |` or `0x7F`, `create_name` returns `FR_INVALID_NAME`. If every
character of the segment is a character of the BMP other than those, the
segment has 1 to 255 characters and one of them is neither a space nor a dot,
`create_name` returns `FR_OK`. -/
theorem C13_name_characters (cp : CodePage) (fs : FATFS) (dp : DIR_) (seps s t : List Nat)
    (hl : dp.lfn ≠ LfnPtr.null) (hseps : ∀ x ∈ seps, x = 0x2F ∨ x = 0x5C)
    (hs : ∀ x ∈ s, 0x20 ≤ x ∧ x ≠ 0x2F ∧ x ≠ 0x5C)
    (ht : ∀ x ∈ t.head?, x < 0x20 ∨ x = 0x2F ∨ x = 0x5C) :
    ((∃ x ∈ s, lfn_illegal x = true) →
      (create_name cp fs dp (seps ++ (s ++ t))).map (fun r => r.1) = some FR_INVALID_NAME) ∧
    ((∀ x ∈ s, x ≤ 0xFFFF ∧ lfn_illegal x = false) → 1 ≤ s.length → s.length ≤ 255 →
      (∃ x ∈ s, x ≠ 0x20 ∧ x ≠ 0x2E) →
      (create_name cp fs dp (seps ++ (s ++ t))).map (fun r => r.1) = some FR_OK) := by
  obtain ⟨lfn0, h0⟩ : ∃ b, lfn_load fs dp.lfn = some b := by
    cases hp : dp.lfn with
    | null => exact absurd hp hl
    | member => exact ⟨_, rfl⟩
    | static => exact ⟨_, rfl⟩
  constructor
  · rintro ⟨x, hx, hill⟩
    have hne : s ≠ [] := fun e => by rw [e] at hx; exact absurd hx (List.not_mem_nil x)
    have hdw := dropWhile_seps s t hs hne seps hseps
    rcases create_name_scan_run s 0 lfn0 hs with ⟨-, l, hbad⟩ | ⟨hv, -, -⟩
    · unfold create_name
      rw [h0]
      dsimp only
      rw [hdw, hbad t]
      rfl
    · have := (hv x hx).2
      rw [hill] at this
      exact absurd this (fun h => Bool.noConfusion h)
  · intro hv h1 h255 ⟨x, hx, hxn⟩
    have hne : s ≠ [] := fun e => by rw [e] at hx; exact absurd hx (List.not_mem_nil x)
    have hdw := dropWhile_seps s t hs hne seps hseps
    rcases create_name_scan_run s 0 lfn0 hs with ⟨hwhy, -⟩ | ⟨-, -, l, hok, hk⟩
    · rcases hwhy with ⟨y, hy, hyy⟩ | hlong
      · have := hv y hy
        rcases hyy with e | e
        · omega
        · rw [this.2] at e
          exact absurd e (fun h => Bool.noConfusion h)
      · unfold MAX_LFN at hlong
        omega
    · have hscan : create_name_scan
          ((seps ++ (s ++ t)).dropWhile fun c => c = 0x2F ∨ c = 0x5C) 0 lfn0
          = (Sum.inr (t.headD 0, 0 + s.length, t.tail), l) := by
        rw [hdw, hok t]
        exact create_name_scan_end _ l t ht
      obtain ⟨j, hj, hjx⟩ := List.getElem_of_mem hx
      have hlj : ldw l j = x := by
        unfold ldw
        rw [hk j, if_pos ⟨Nat.zero_le _, by omega⟩, Nat.sub_zero, List.getD_eq_getElem _ _ hj, hjx]
        exact Nat.mod_eq_of_lt (by have := (hv x hx).1; unfold W16; omega)
      have hsn : create_name_snip l (0 + s.length) ≠ 0 := by
        intro e
        have := (create_name_snip_spec l (0 + s.length)).2.1 j (by omega) (by omega)
        rw [hlj] at this
        omega
      obtain ⟨si, st, -, -, -, hres⟩ := (create_name_of_scan cp fs dp _ _ lfn0 l _ _ h0 hscan
        (by omega)).2 hsn
      rw [hres]
      rfl

/-- C13 (witness): the path `/a*b` is rejected and the path `/a b.` is
accepted. -/
theorem C13_name_characters_witness :
    (create_name asciiPage exFat12 exDj ([0x2F] ++ ([0x61, 0x2A, 0x62] ++ []))).map
        (fun r => r.1) = some FR_INVALID_NAME ∧
    (create_name asciiPage exFat12 exDj ([0x2F] ++ ([0x61, 0x20, 0x62, 0x2E] ++ []))).map
        (fun r => r.1) = some FR_OK :=
  ⟨(C13_name_characters asciiPage exFat12 exDj [0x2F] [0x61, 0x2A, 0x62] []
      (by decide) (by decide) (by decide) (by decide)).1 ⟨0x2A, by decide, by decide⟩,
    (C13_name_characters asciiPage exFat12 exDj [0x2F] [0x61, 0x20, 0x62, 0x2E] []
      (by decide) (by decide) (by decide) (by decide)).2 (by decide) (by decide) (by decide)
      ⟨0x61, by decide, by decide⟩⟩

theorem create_name_snip_congr (a b : Nat → Nat) :
    ∀ n, (∀ k, k < n → ldw b k = ldw a k) → create_name_snip b n = create_name_snip a n := by
  intro n
  induction n with
  | zero => intro _; rfl
  | succ n ih =>
    intro h
    unfold create_name_snip
    rw [h n (Nat.lt_succ_self n), ih (fun k hk => h k (by omega))]

theorem create_name_snip_extra (b : Nat → Nat) (n : Nat) :
    ∀ m, (∀ k, n ≤ k → k < n + m → ldw b k = 0x20 ∨ ldw b k = 0x2E) →
      create_name_snip b (n + m) = create_name_snip b n := by
  intro m
  induction m with
  | zero => intro _; rfl
  | succ m ih =>
    intro h
    have e : n + (m + 1) = (n + m) + 1 := by omega
    rw [e, create_name_snip]
    have := h (n + m) (by omega) (by omega)
    rw [if_neg (by omega)]
    exact ih (fun k h1 h2 => h k h1 (by omega))

theorem create_name_lead_congr (a b : Nat → Nat) (d : Nat) (hz : ldw a d ≠ 0x20)
    (hab : ∀ k, k ≤ d → ldw b k = ldw a k) :
    ∀ (fuel si : Nat), si ≤ d → create_name_lead b fuel si = create_name_lead a fuel si := by
  intro fuel
  induction fuel with
  | zero => intro si _; rfl
  | succ n ih =>
    intro si hsi
    unfold create_name_lead
    rw [hab si hsi]
    by_cases h : ldw a si = 0x20
    · rw [if_pos h, if_pos h]
      have hne : si ≠ d := fun e => hz (e ▸ h)
      exact ih (si + 1) (by omega)
    · rw [if_neg h, if_neg h]

theorem create_name_dot_congr (a b : Nat → Nat) :
    ∀ n, (∀ k, k < n → ldw b k = ldw a k) → create_name_dot b n = create_name_dot a n := by
  intro n
  induction n with
  | zero => intro _; rfl
  | succ n ih =>
    intro h
    unfold create_name_dot
    rw [h n (Nat.lt_succ_self n), ih (fun k hk => h k (by omega))]

set_option maxHeartbeats 2000000 in
theorem create_name_sfn_congr (cp : CodePage) (a b : Nat → Nat) (di d : Nat)
    (hz : ldw a d = 0) (hdi : di ≤ d) (hab : ∀ k, k ≤ d → ldw b k = ldw a k) :
    ∀ (fuel : Nat) (st : SfnState), st.si ≤ d →
      create_name_sfn cp b di fuel st = create_name_sfn cp a di fuel st := by
  intro fuel
  induction fuel with
  | zero => intro st _; rfl
  | succ n ih =>
    intro st h1
    unfold create_name_sfn
    dsimp only
    rw [hab st.si h1]
    by_cases hw : ldw a st.si = 0
    · rw [if_pos hw, if_pos hw]
    rw [if_neg hw, if_neg hw]
    have hlt : st.si < d := by
      have : st.si ≠ d := fun e => hw (e ▸ hz)
      omega
    split_ifs
    all_goals first
      | with_reducible rfl
      | exact ih _ (by dsimp only; omega)

theorem space_dot_legal (x : Nat) (h : x = 0x20 ∨ x = 0x2E) :
    (0x20 ≤ x ∧ x ≠ 0x2F ∧ x ≠ 0x5C) ∧ ¬ x > 0xFFFF ∧ lfn_illegal x = false := by
  rcases h with e | e <;> rw [e] <;> decide

/-- C14 (counterexample). The segment `a`, `0x01`, `b` is accepted with the
long name `a`, which is not the segment without its trailing spaces and
dots. -/
theorem C14_counterexample :
    (create_name asciiPage exFat12 exDj [0x61, 0x01, 0x62]).map
        (fun r => (r.1, (List.range 3).map r.2.1.LfnBuf))
      = some (FR_OK, [0x61, 0, 0]) := by
  decide

/-- C14 (amended). A path segment is the run `s` of characters that are
neither control characters nor separators, after the separators `seps` and
before the rest `t` of the path. Whenever `create_name` returns `FR_OK`, the
name buffer holds the first `d` characters of the segment followed by a NUL,
where `1 <= d <= 255`, the characters of the segment from `d` on are spaces
and dots and the character before `d` is neither. A segment made only of
spaces and dots, or of more than 255 characters, gives `FR_INVALID_NAME`. For
spaces and dots `e` added after the segment within the limit of 255
characters the status is the same, and on `FR_OK` so are the directory object
(with the SFN and the flags), the rest of the path and the name in the buffer
up to its NUL. -/
theorem C14_long_name_trimming (cp : CodePage) (fs : FATFS) (dp : DIR_) (seps s e t : List Nat)
    (hl : dp.lfn ≠ LfnPtr.null) (hseps : ∀ x ∈ seps, x = 0x2F ∨ x = 0x5C)
    (hs : ∀ x ∈ s, 0x20 ≤ x ∧ x ≠ 0x2F ∧ x ≠ 0x5C) (hne : s ≠ [])
    (he : ∀ x ∈ e, x = 0x20 ∨ x = 0x2E)
    (ht : ∀ x ∈ t.head?, x < 0x20 ∨ x = 0x2F ∨ x = 0x5C) :
    (∀ fs' dp' rest, create_name cp fs dp (seps ++ (s ++ t)) = some (FR_OK, fs', dp', rest) →
      ∃ d buf, lfn_load fs' dp.lfn = some buf ∧ 1 ≤ d ∧ d ≤ 255 ∧ d ≤ s.length ∧
        (∀ k, k < d → ldw buf k = s.getD k 0) ∧ ldw buf d = 0 ∧
        (∀ k, d ≤ k → k < s.length → s.getD k 0 = 0x20 ∨ s.getD k 0 = 0x2E) ∧
        s.getD (d - 1) 0 ≠ 0x20 ∧ s.getD (d - 1) 0 ≠ 0x2E) ∧
    ((∀ x ∈ s, x = 0x20 ∨ x = 0x2E) →
      (create_name cp fs dp (seps ++ (s ++ t))).map (fun r => r.1) = some FR_INVALID_NAME) ∧
    (255 < s.length →
      (create_name cp fs dp (seps ++ (s ++ t))).map (fun r => r.1) = some FR_INVALID_NAME) ∧
    (s.length + e.length ≤ 255 →
      (create_name cp fs dp (seps ++ ((s ++ e) ++ t))).map (fun r => r.1)
        = (create_name cp fs dp (seps ++ (s ++ t))).map (fun r => r.1) ∧
      ∀ fs1 dp1 rest, create_name cp fs dp (seps ++ (s ++ t)) = some (FR_OK, fs1, dp1, rest) →
        ∃ fs2 b1 b2 d, create_name cp fs dp (seps ++ ((s ++ e) ++ t))
            = some (FR_OK, fs2, dp1, rest) ∧
          lfn_load fs1 dp.lfn = some b1 ∧ lfn_load fs2 dp.lfn = some b2 ∧ ldw b1 d = 0 ∧
          ∀ k, k ≤ d → ldw b2 k = ldw b1 k) := by
  obtain ⟨lfn0, h0⟩ : ∃ b, lfn_load fs dp.lfn = some b := by
    cases hp : dp.lfn with
    | null => exact absurd hp hl
    | member => exact ⟨_, rfl⟩
    | static => exact ⟨_, rfl⟩
  have hrun := create_name_run cp fs dp seps s t lfn0 h0 hseps hs hne ht
  refine ⟨?_, ?_, ?_, ?_⟩
  · intro fs' dp' rest h
    rcases hrun with ⟨-, hbad⟩ | ⟨hv, hlen, l, hl1, hscan⟩
    · rw [h] at hbad
      injection hbad with hbad
      exact FRESULT.noConfusion hbad
    · obtain ⟨a1, a2⟩ := create_name_of_scan cp fs dp _ _ lfn0 l _ _ h0 hscan hlen
      obtain ⟨s1, s2, s3⟩ := create_name_snip_spec l s.length
      by_cases hd : create_name_snip l s.length = 0
      · rw [a1 hd] at h
        injection h with h
        injection h with h _
        exact FRESULT.noConfusion h
      · obtain ⟨si, st, -, -, -, hres⟩ := a2 hd
        rw [hres] at h
        injection h with h
        injection h with _ h
        injection h with h _
        subst h
        refine ⟨create_name_snip l s.length, _, lfn_load_store fs _ dp.lfn hl, by omega,
          by omega, s1, fun k hk => ?_, ldw_update_same l _, fun k k1 k2 => ?_, ?_⟩
        · rw [ldw_update_ne _ _ _ _ (by omega), hl1 k (by omega)]
        · rw [← hl1 k k2]
          exact s2 k k1 k2
        · rw [← hl1 _ (by omega)]
          rcases s3 with e0 | e0
          · exact absurd e0 hd
          · exact e0
  · intro hall
    rcases hrun with ⟨-, hbad⟩ | ⟨hv, hlen, l, hl1, hscan⟩
    · exact hbad
    · obtain ⟨a1, -⟩ := create_name_of_scan cp fs dp _ _ lfn0 l _ _ h0 hscan hlen
      obtain ⟨s1, -, s3⟩ := create_name_snip_spec l s.length
      have hd : create_name_snip l s.length = 0 := by
        rcases s3 with e0 | e0
        · exact e0
        · by_contra hd
          have hlt : create_name_snip l s.length - 1 < s.length := by omega
          rw [hl1 _ hlt] at e0
          have hm : s.getD (create_name_snip l s.length - 1) 0 ∈ s := by
            rw [List.getD_eq_getElem _ _ hlt]
            exact List.getElem_mem _
          have := hall _ hm
          omega
      rw [a1 hd]
      rfl
  · intro hlong
    rcases hrun with ⟨-, hbad⟩ | ⟨-, hlen, -⟩
    · exact hbad
    · omega
  · intro hfit
    have hse : ∀ x ∈ s ++ e, 0x20 ≤ x ∧ x ≠ 0x2F ∧ x ≠ 0x5C := by
      intro x hx
      rcases List.mem_append.1 hx with h | h
      · exact hs x h
      · exact (space_dot_legal x (he x h)).1
    have hne2 : s ++ e ≠ [] := fun h => hne (List.append_eq_nil.1 h).1
    have hrun2 := create_name_run cp fs dp seps (s ++ e) t lfn0 h0 hseps hse hne2 ht
    rcases hrun with ⟨hwhy, hbad⟩ | ⟨hv, hlen, l, hl1, hscan⟩
    · rcases hrun2 with ⟨-, hbad2⟩ | ⟨hv2, hlen2, -⟩
      · refine ⟨by rw [hbad, hbad2], fun fs1 dp1 rest h => ?_⟩
        rw [h] at hbad
        injection hbad with hbad
        exact FRESULT.noConfusion hbad
      · rcases hwhy with ⟨x, hx, hxx⟩ | hlong
        · have := hv2 x (List.mem_append_left _ hx)
          rcases hxx with h | h
          · omega
          · rw [this.2] at h
            exact absurd h (fun h => Bool.noConfusion h)
        · omega
    · rcases hrun2 with ⟨hwhy2, -⟩ | ⟨hv2, hlen2, l2, hl2, hscan2⟩
      · rcases hwhy2 with ⟨x, hx, hxx⟩ | hlong
        · rcases List.mem_append.1 hx with h | h
          · have := hv x h
            rcases hxx with h' | h'
            · omega
            · rw [this.2] at h'
              exact absurd h' (fun h => Bool.noConfusion h)
          · have := space_dot_legal x (he x h)
            rcases hxx with h' | h'
            · exact absurd h' this.2.1
            · rw [this.2.2] at h'
              exact absurd h' (fun h => Bool.noConfusion h)
        · rw [List.length_append] at hlong
          omega
      · obtain ⟨a1, a2⟩ := create_name_of_scan cp fs dp _ _ lfn0 l _ _ h0 hscan hlen
        obtain ⟨b1, b2⟩ := create_name_of_scan cp fs dp _ _ lfn0 l2 _ _ h0 hscan2 hlen2
        have hagree : ∀ k, k < s.length → ldw l2 k = ldw l k := by
          intro k hk
          rw [hl1 k hk, hl2 k (by rw [List.length_append]; omega),
            List.getD_eq_getElem _ _ hk,
            List.getD_eq_getElem _ _ (by rw [List.length_append]; omega),
            List.getElem_append_left]
        have hextra : ∀ k, s.length ≤ k → k < s.length + e.length →
            ldw l2 k = 0x20 ∨ ldw l2 k = 0x2E := by
          intro k k1 k2
          rw [hl2 k (by rw [List.length_append]; omega),
            List.getD_eq_getElem _ _ (by rw [List.length_append]; omega),
            List.getElem_append_right (by omega)]
          exact he _ (List.getElem_mem _)
        have hsnip : create_name_snip l2 (s ++ e).length = create_name_snip l s.length := by
          rw [List.length_append, create_name_snip_extra l2 s.length e.length hextra]
          exact create_name_snip_congr l l2 s.length hagree
        rw [hsnip] at b1 b2
        obtain ⟨s1, -, -⟩ := create_name_snip_spec l s.length
        by_cases hd : create_name_snip l s.length = 0
        · refine ⟨by rw [a1 hd, b1 hd]; rfl, fun fs1 dp1 rest h => ?_⟩
          rw [a1 hd] at h
          injection h with h
          injection h with h _
          exact FRESULT.noConfusion h
        · obtain ⟨si, st, hsi, hsid, hst, hres⟩ := a2 hd
          obtain ⟨si2, st2, hsi2, -, hst2, hres2⟩ := b2 hd
          have hab : ∀ k, k ≤ create_name_snip l s.length →
              ldw (Function.update l2 (create_name_snip l s.length) 0) k
                = ldw (Function.update l (create_name_snip l s.length) 0) k := by
            intro k hk
            by_cases hkd : k = create_name_snip l s.length
            · rw [hkd, ldw_update_same, ldw_update_same]
            · rw [ldw_update_ne _ _ _ _ hkd, ldw_update_ne _ _ _ _ hkd]
              exact hagree k (by omega)
          have hza := ldw_update_same l (create_name_snip l s.length)
          rw [create_name_lead_congr _ _ _ (by rw [hza]; decide) hab _ 0 (Nat.zero_le _),
            hsi] at hsi2
          injection hsi2 with hsi2
          subst hsi2
          rw [hab si hsid, create_name_dot_congr _ _ _ (fun k hk => hab k (by omega)),
            create_name_sfn_congr cp _ _ _ _ hza (create_name_dot_le _ _) hab _ _ hsid,
            hst] at hst2
          injection hst2 with hst2
          subst hst2
          refine ⟨by rw [hres, hres2]; rfl, fun fs1 dp1 rest h => ?_⟩
          rw [hres] at h
          injection h with h
          injection h with _ h
          injection h with h1 h
          injection h with h2 h3
          subst h1 h2 h3
          exact ⟨_, _, _, create_name_snip l s.length, hres2,
            lfn_load_store fs _ dp.lfn hl, lfn_load_store fs _ dp.lfn hl, hza, hab⟩

/-- C14 (witness): the segment `a.b` with the two characters ` .` added. -/
theorem C14_long_name_trimming_witness :
    (create_name asciiPage exFat12 exDj ([0x2F] ++ (([0x61, 0x2E, 0x62] ++ [0x20, 0x2E]) ++ []))).map
        (fun r => r.1)
      = (create_name asciiPage exFat12 exDj ([0x2F] ++ ([0x61, 0x2E, 0x62] ++ []))).map
        (fun r => r.1) :=
  ((C14_long_name_trimming asciiPage exFat12 exDj [0x2F] [0x61, 0x2E, 0x62] [0x20, 0x2E] []
    (by decide) (by decide) (by decide) (by decide) (by decide) (by decide)).2.2.2
    (by decide)).1

theorem create_name_dot_spec (lfn : Nat → Nat) :
    ∀ n, create_name_dot lfn n ≤ n ∧
      (0 < create_name_dot lfn n → ldw lfn (create_name_dot lfn n - 1) = 0x2E) ∧
      ∀ k, create_name_dot lfn n ≤ k → k < n → ldw lfn k ≠ 0x2E := by
  intro n
  induction n with
  | zero => exact ⟨Nat.le_refl _, fun h => absurd h (Nat.lt_irrefl 0), fun k _ hk => absurd hk (Nat.not_lt_zero k)⟩
  | succ n ih =>
    unfold create_name_dot
    by_cases h : ldw lfn n ≠ 0x2E
    · rw [if_pos h]
      obtain ⟨a1, a2, a3⟩ := ih
      refine ⟨by omega, a2, fun k h1 h2 => ?_⟩
      by_cases hk : k = n
      · rw [hk]; exact h
      · exact a3 k h1 (by omega)
    · rw [if_neg h]
      refine ⟨Nat.le_refl _, fun _ => ?_, fun k h1 h2 => by omega⟩
      rw [Nat.add_sub_cancel]
      exact Classical.not_not.1 h

theorem create_name_lead_spec (lfn : Nat → Nat) :
    ∀ (fuel si r : Nat), create_name_lead lfn fuel si = some r →
      si ≤ r ∧ ldw lfn r ≠ 0x20 ∧ ∀ k, si ≤ k → k < r → ldw lfn k = 0x20 := by
  intro fuel
  induction fuel with
  | zero =>
    intro si r h
    unfold create_name_lead at h
    exact absurd h (fun h => Option.noConfusion h)
  | succ n ih =>
    intro si r h
    unfold create_name_lead at h
    by_cases c : ldw lfn si = 0x20
    · rw [if_pos c] at h
      obtain ⟨a1, a2, a3⟩ := ih (si + 1) r h
      refine ⟨by omega, a2, fun k k1 k2 => ?_⟩
      by_cases hk : k = si
      · rw [hk]; exact c
      · exact a3 k (by omega) k2
    · rw [if_neg c] at h
      injection h with h
      subst h
      exact ⟨Nat.le_refl _, c, fun k k1 k2 => by omega⟩

/-- The first loop of `create_name`: it fails with `FR_INVALID_NAME` only, and
when it ends at a character it has stored at most 255 characters, none of
them a control character. -/
theorem create_name_scan_spec :
    ∀ (p : List Nat) (di : Nat) (lfn : Nat → Nat) (res : FRESULT ⊕ (Nat × Nat × List Nat))
      (l : Nat → Nat), create_name_scan p di lfn = (res, l) →
      (∀ r, res = Sum.inl r → r = FR_INVALID_NAME) ∧
      ∀ w n rest, res = Sum.inr (w, n, rest) →
        di ≤ n ∧ (di ≤ MAX_LFN → n ≤ MAX_LFN) ∧ (∀ k, k < di → l k = lfn k) ∧
        ∀ k, di ≤ k → k < n → 0x20 ≤ ldw l k := by
  intro p
  induction p with
  | nil =>
    intro di lfn res l h
    unfold create_name_scan at h
    injection h with h1 h2
    subst h1 h2
    refine ⟨fun r hr => Sum.noConfusion hr, fun w n rest hr => ?_⟩
    injection hr with hr
    injection hr with _ hr
    injection hr with hr _
    subst hr
    exact ⟨Nat.le_refl _, fun h => h, fun _ _ => rfl, fun k h1 h2 => by omega⟩
  | cons w p ih =>
    intro di lfn res l h
    unfold create_name_scan at h
    split_ifs at h with c1 c2 c3 c4
    · injection h with h1 h2
      subst h1 h2
      exact ⟨fun r hr => by injection hr with hr; exact hr.symm, fun w n rest hr => Sum.noConfusion hr⟩
    · injection h with h1 h2
      subst h1 h2
      refine ⟨fun r hr => Sum.noConfusion hr, fun w n rest hr => ?_⟩
      injection hr with hr
      injection hr with _ hr
      injection hr with hr _
      subst hr
      exact ⟨Nat.le_refl _, fun h => h, fun _ _ => rfl, fun k h1 h2 => by omega⟩
    · injection h with h1 h2
      subst h1 h2
      exact ⟨fun r hr => by injection hr with hr; exact hr.symm, fun w n rest hr => Sum.noConfusion hr⟩
    · injection h with h1 h2
      subst h1 h2
      exact ⟨fun r hr => by injection hr with hr; exact hr.symm, fun w n rest hr => Sum.noConfusion hr⟩
    · obtain ⟨a1, a2⟩ := ih (di + 1) (Function.update lfn di w) res l h
      refine ⟨a1, fun w2 n rest hr => ?_⟩
      obtain ⟨b1, b2, b3, b4⟩ := a2 w2 n rest hr
      have hdi : di < MAX_LFN := by omega
      refine ⟨by omega, fun _ => b2 (by omega), fun k hk => ?_, fun k k1 k2 => ?_⟩
      · rw [b3 k (by omega), Function.update_noteq (by omega)]
      · by_cases hk : k = di
        · subst hk
          unfold ldw
          rw [b3 k (by omega), Function.update_same]
          have hw : w < W16 := by unfold W16; omega
          rw [Nat.mod_eq_of_lt hw]
          omega
        · exact b4 k (by omega) k2

theorem loss_set (c : Nat) (h : c < 32) :
    (c ||| NS_LOSS ||| NS_LFN) < 32 ∧ (c ||| NS_LOSS ||| NS_LFN) &&& NS_LOSS ≠ 0 := by
  revert c
  unfold NS_LOSS NS_LFN
  decide

theorem loss_kept (c : Nat) (h : c < 32) :
    (c ||| NS_LFN) % 256 &&& NS_LOSS = c &&& NS_LOSS ∧
    (c ||| NS_EXT) % 256 &&& NS_LOSS = c &&& NS_LOSS ∧
    (c ||| NS_BODY) % 256 &&& NS_LOSS = c &&& NS_LOSS ∧
    (c ||| NS_EXT ||| NS_BODY) % 256 &&& NS_LOSS = c &&& NS_LOSS ∧
    c % 256 &&& NS_LOSS = c &&& NS_LOSS ∧
    (c ||| NS_LFN ||| NS_EXT) % 256 &&& NS_LOSS = c &&& NS_LOSS ∧
    (c ||| NS_LFN ||| NS_BODY) % 256 &&& NS_LOSS = c &&& NS_LOSS ∧
    (c ||| NS_LFN ||| NS_EXT ||| NS_BODY) % 256 &&& NS_LOSS = c &&& NS_LOSS := by
  revert c
  unfold NS_LOSS NS_LFN NS_EXT NS_BODY
  decide

theorem stb_at (fn : Nat → Nat) (i c : Nat) (hc : c < 0x80) : stb fn i c i = c := by
  unfold stb
  rw [Function.update_same]
  exact Nat.mod_eq_of_lt (by omega)

theorem stb_off (fn : Nat → Nat) (i c k : Nat) (hk : k ≠ i) : stb fn i c k = fn k := by
  unfold stb
  exact Function.update_noteq hk _ _

theorem sfn_illegal_false (w : Nat) (h : sfn_illegal w = false) :
    w ≠ 0x2B ∧ w ≠ 0x2C ∧ w ≠ 0x3B ∧ w ≠ 0x3D ∧ w ≠ 0x5B ∧ w ≠ 0x5D := by
  unfold sfn_illegal at h
  simp only [decide_eq_false_iff_not, not_or] at h
  exact h

theorem sfn_illegal_of_ne (w : Nat)
    (h : w ≠ 0x2B ∧ w ≠ 0x2C ∧ w ≠ 0x3B ∧ w ≠ 0x3D ∧ w ≠ 0x5B ∧ w ≠ 0x5D) :
    sfn_illegal w = false := by
  unfold sfn_illegal
  simp only [decide_eq_false_iff_not, not_or]
  exact h

theorem ascii_upper_byte (w : Nat) (h : sfn_good w) : SfnByte (ascii_upper w) := by
  obtain ⟨h1, h2, h3, h4, h5⟩ := h
  have h6 := sfn_illegal_false w h3
  unfold SfnByte ascii_upper
  split_ifs with c
  · refine ⟨by omega, by omega, sfn_illegal_of_ne _ ?_, by omega⟩
    omega
  · exact ⟨h5, c, h3, h1⟩

theorem underscore_byte : SfnByte 0x5F := by
  unfold SfnByte
  decide

theorem SfnShape.body_store {fn : Nat → Nat} {i : Nat} (h : SfnShape fn i 0) (hi : i < 8)
    {c : Nat} (hc : SfnByte c) : SfnShape (stb fn i c) (i + 1) 0 := by
  obtain ⟨s1, s2, s3, s4, s5, s6, s7⟩ := h
  obtain ⟨c1, c2, c3, c4⟩ := hc
  refine ⟨by omega, s2, fun k hk => ?_, fun k hk => ?_, fun k k1 k2 => ?_,
    fun k hk => absurd hk (Nat.not_lt_zero k), fun k k1 k2 => ?_⟩
  · by_cases e : k = i
    · rw [e, stb_at _ _ _ c1]
      exact ⟨c1, c2, c3⟩
    · rw [stb_off _ _ _ _ e]
      exact s3 k hk
  · by_cases e : k = i
    · rw [e, stb_at _ _ _ c1]
      exact c4
    · rw [stb_off _ _ _ _ e]
      exact s4 k (by omega)
  · rw [stb_off _ _ _ _ (by omega)]
    exact s5 k (by omega) k2
  · rw [stb_off _ _ _ _ (by omega)]
    exact s7 k k1 k2

theorem SfnShape.ext_store {fn : Nat → Nat} {lb le : Nat} (h : SfnShape fn lb le) (hi : le < 3)
    {c : Nat} (hc : SfnByte c) : SfnShape (stb fn (8 + le) c) lb (le + 1) := by
  obtain ⟨s1, s2, s3, s4, s5, s6, s7⟩ := h
  obtain ⟨c1, c2, c3, c4⟩ := hc
  refine ⟨s1, by omega, fun k hk => ?_, fun k hk => ?_, fun k k1 k2 => ?_,
    fun k hk => ?_, fun k k1 k2 => ?_⟩
  · by_cases e : k = 8 + le
    · rw [e, stb_at _ _ _ c1]
      exact ⟨c1, c2, c3⟩
    · rw [stb_off _ _ _ _ e]
      exact s3 k hk
  · rw [stb_off _ _ _ _ (by omega)]
    exact s4 k hk
  · rw [stb_off _ _ _ _ (by omega)]
    exact s5 k k1 k2
  · by_cases e : k = le
    · rw [e, stb_at _ _ _ c1]
      exact c4
    · rw [stb_off _ _ _ _ (by omega)]
      exact s6 k (by omega)
  · rw [stb_off _ _ _ _ (by omega)]
    exact s7 k (by omega) k2

theorem SfnFields.store {fn : Nat → Nat} {ni i : Nat} (h : SfnFields fn ni i) (hi : i < ni)
    {c : Nat} (hc : SfnByte c) : SfnFields (stb fn i c) ni (i + 1) := by
  rcases h with ⟨e, s⟩ | ⟨e, e2, lb, s⟩
  · exact Or.inl ⟨e, s.body_store (by omega) hc⟩
  · refine Or.inr ⟨e, by omega, lb, ?_⟩
    have := s.ext_store (by omega) hc
    rw [show 8 + (i - 8) = i from by omega, show i - 8 + 1 = i + 1 - 8 from by omega] at this
    exact this

theorem SfnFields.enter {fn : Nat → Nat} {i : Nat} (h : SfnFields fn 8 i) :
    SfnFields fn 11 8 := by
  rcases h with ⟨-, s⟩ | ⟨e, -⟩
  · exact Or.inr ⟨rfl, Nat.le_refl _, i, s⟩
  · exact absurd e (by decide)

set_option maxHeartbeats 1000000 in
/-- The SFN loop of `create_name` on an ASCII name keeps its invariant up to
the end of the name. -/
theorem create_name_sfn_inv (cp : CodePage) (lfn : Nat → Nat) (len dd : Nat)
    (hch : ∀ k, k < len → 0 < ldw lfn k ∧ ldw lfn k < 0x80) (hz : ldw lfn len = 0)
    (hdd : dd ≤ len) :
    ∀ (fuel : Nat) (st st' : SfnState), SfnInv lfn len dd st →
      create_name_sfn cp lfn dd fuel st = some st' → SfnDone lfn len dd st' := by
  intro fuel
  induction fuel with
  | zero =>
    intro st st' _ h
    unfold create_name_sfn at h
    exact absurd h (fun h => Option.noConfusion h)
  | succ n ih =>
    intro st st' hinv h
    obtain ⟨v1, v2, v3, v4, v5⟩ := hinv
    unfold create_name_sfn at h
    dsimp only at h
    by_cases c1 : ldw lfn st.si = 0
    · rw [if_pos c1] at h
      injection h with h
      subst h
      have hsi : st.si = len := by
        by_contra e
        have := (hch st.si (by omega)).1
        omega
      refine ⟨v2, v3, v4, fun hl => ?_⟩
      have := v5 hl
      rw [hsi] at this
      exact this
    rw [if_neg c1] at h
    have hlt : st.si < len := by
      by_contra e
      have e2 : st.si = len := by omega
      rw [e2] at c1
      exact c1 hz
    obtain ⟨w0, w1⟩ := hch st.si hlt
    obtain ⟨l1, l2⟩ := loss_set st.cf v2
    by_cases c2 : ldw lfn st.si = 0x20 ∨ (ldw lfn st.si = 0x2E ∧ st.si + 1 ≠ dd)
    · rw [if_pos c2] at h
      exact ih { st with si := st.si + 1, cf := st.cf ||| NS_LOSS ||| NS_LFN } st'
        ⟨hlt, l1, v3, v4, fun hl => absurd hl l2⟩ h
    rw [if_neg c2] at h
    by_cases c3 : st.i ≥ st.ni ∨ st.si + 1 = dd
    · rw [if_pos c3] at h
      by_cases c4 : st.ni = 11
      · rw [if_pos c4] at h
        injection h with h
        subst h
        exact ⟨l1, v3, v4, fun hl => absurd hl l2⟩
      rw [if_neg c4] at h
      have h8 : st.ni = 8 := by
        rcases v3 with e | e
        · exact e
        · exact absurd e c4
      by_cases c5 : st.si + 1 > dd
      · rw [if_pos c5] at h
        injection h with h
        subst h
        have c6 : st.si + 1 ≠ dd := by omega
        rw [if_pos c6]
        exact ⟨l1, v3, v4, fun hl => absurd hl l2⟩
      rw [if_neg c5] at h
      rw [h8] at v4
      refine ih { st with si := dd, i := 8, ni := 11, b := (st.b <<< 2) % 256, cf := (if st.si + 1 ≠ dd then st.cf ||| NS_LOSS ||| NS_LFN else st.cf) } st'
        ⟨hdd, ?_, Or.inr rfl, v4.enter, ?_⟩ h
      · show (if st.si + 1 ≠ dd then st.cf ||| NS_LOSS ||| NS_LFN else st.cf) < 32
        split_ifs
        · exact l1
        · exact v2
      · show (if st.si + 1 ≠ dd then st.cf ||| NS_LOSS ||| NS_LFN else st.cf) &&& NS_LOSS = 0 →
          SfnExact lfn dd st.fn 11 8 dd
        intro hl
        by_cases c6 : st.si + 1 ≠ dd
        · rw [if_pos c6] at hl
          exact absurd hl l2
        · rw [if_neg c6] at hl
          have e6 : st.si + 1 = dd := Classical.not_not.1 c6
          obtain ⟨b1, b2, b3, b4, b5, b6⟩ := (v5 hl).1 h8
          refine ⟨fun e => absurd e (by decide), fun _ => ⟨by omega, by omega, Nat.le_refl _,
            rfl, by omega, fun k hk => b5 k (by omega), fun k k1 k2 => b6 k (by omega) (by omega),
            fun k k1 k2 => absurd k2 (by omega), fun k k1 k2 => b6 k (by omega) k2⟩⟩
    rw [if_neg c3] at h
    have hx : decide (ldw lfn st.si ≥ 0x80) = false := decide_eq_false (by omega)
    rw [hx] at h
    simp only [Bool.false_eq_true, if_false] at h
    rw [if_neg (show ¬ ldw lfn st.si ≥ 256 from by omega)] at h
    have hilt : st.i < st.ni := by
      by_contra e
      exact c3 (Or.inl (by omega))
    have hne : st.si + 1 ≠ dd := fun e => c3 (Or.inr e)
    by_cases c7 : ldw lfn st.si = 0 ∨ sfn_illegal (ldw lfn st.si) = true
    · rw [if_pos c7] at h
      exact ih { st with i := st.i + 1, si := st.si + 1, cf := st.cf ||| NS_LOSS ||| NS_LFN, fn := stb st.fn st.i 95 } st'
        ⟨hlt, l1, v3, v4.store hilt underscore_byte, fun hl => absurd hl l2⟩ h
    rw [if_neg c7] at h
    have hgood : sfn_good (ldw lfn st.si) :=
      ⟨fun e => c2 (Or.inl e), fun e => c2 (Or.inr ⟨e, hne⟩),
        by
          cases hq : sfn_illegal (ldw lfn st.si)
          · rfl
          · exact absurd (Or.inr hq) c7,
        w0, w1⟩
    have hub := ascii_upper_byte _ hgood
    have hup : (if decide (97 ≤ ldw lfn st.si ∧ ldw lfn st.si ≤ 122) = true
        then ldw lfn st.si - 32 else ldw lfn st.si) = ascii_upper (ldw lfn st.si) := by
      unfold ascii_upper
      simp only [decide_eq_true_eq]
    rw [hup] at h
    generalize (if decide (97 ≤ ldw lfn st.si ∧ ldw lfn st.si ≤ 122) = true then
        (if 65 ≤ ldw lfn st.si ∧ ldw lfn st.si ≤ 90 then st.b ||| 2 else st.b) ||| 1
      else if 65 ≤ ldw lfn st.si ∧ ldw lfn st.si ≤ 90 then st.b ||| 2 else st.b) = b2 at h
    refine ih { st with i := st.i + 1, si := st.si + 1, b := b2, fn := stb st.fn st.i (ascii_upper (ldw lfn st.si)) } st'
      ⟨hlt, v2, v3, v4.store hilt hub, fun hl => ?_⟩ h
    obtain ⟨eb, ee⟩ := v5 hl
    show SfnExact lfn dd (stb st.fn st.i (ascii_upper (ldw lfn st.si))) st.ni (st.i + 1)
      (st.si + 1)
    refine ⟨fun e8 => ?_, fun e11 => ?_⟩
    · obtain ⟨b0, b1, b3, b4, b5, b6⟩ := eb e8
      refine ⟨b0, by omega, by omega, by omega, fun k hk => ?_, fun k k1 k2 => ?_⟩
      · by_cases e : k = st.si
        · rw [e]
          refine ⟨hgood, ?_⟩
          rw [b1]
          exact stb_at _ _ _ hub.1
        · rw [stb_off _ _ _ _ (by omega)]
          exact b5 k (by omega)
      · rw [stb_off _ _ _ _ (by omega)]
        exact b6 k (by omega) k2
    · obtain ⟨x1, x2, x3, x4, x5, x6, x7, x8, x9⟩ := ee e11
      refine ⟨x1, x2, by omega, by omega, by omega, fun k hk => ?_, fun k k1 k2 => ?_,
        fun k k1 k2 => ?_, fun k k1 k2 => ?_⟩
      · rw [stb_off _ _ _ _ (by omega)]
        exact x6 k hk
      · rw [stb_off _ _ _ _ (by omega)]
        exact x7 k k1 k2
      · by_cases e : k = st.si
        · rw [e]
          refine ⟨hgood, ?_⟩
          rw [show 8 + (st.si - dd) = st.i from by omega]
          exact stb_at _ _ _ hub.1
        · rw [stb_off _ _ _ _ (by omega)]
          exact x8 k k1 (by omega)
      · rw [stb_off _ _ _ _ (by omega)]
        exact x9 k (by omega) k2

theorem create_name_end_bytes (st : SfnState) (h0 : st.fn 0 < 0x80) (k : Nat) (hk : k < 11) :
    ldb (create_name_end st) k = ldb st.fn k := by
  unfold create_name_end
  dsimp only
  have e0 : ¬ ldb st.fn 0 = DDE := by
    unfold ldb DDE
    rw [Nat.mod_eq_of_lt (by omega)]
    omega
  rw [if_neg e0]
  unfold ldb stb NS
  rw [Function.update_noteq (by omega)]

theorem create_name_end_loss (st : SfnState) (h : st.cf < 32) :
    ldb (create_name_end st) NS &&& NS_LOSS = st.cf &&& NS_LOSS := by
  obtain ⟨k1, k2, k3, k4, k5, k6, k7, k8⟩ := loss_kept st.cf h
  unfold create_name_end
  dsimp only
  unfold ldb stb
  rw [Function.update_same, Nat.mod_mod]
  split_ifs <;>
    first | exact k1 | exact k2 | exact k3 | exact k4 | exact k5 | exact k6 | exact k7 | exact k8

theorem SfnShape.ldb_eq {fn : Nat → Nat} {lb le : Nat} (h : SfnShape fn lb le) (k : Nat)
    (hk : k < 11) : ldb fn k = fn k := by
  unfold ldb
  exact Nat.mod_eq_of_lt (by have := (h.2.2.1 k hk).1; omega)

theorem SfnFields.shape {fn : Nat → Nat} {ni i : Nat} (h : SfnFields fn ni i) :
    ∃ lb le, SfnShape fn lb le := by
  rcases h with ⟨-, s⟩ | ⟨-, -, lb, s⟩
  · exact ⟨_, _, s⟩
  · exact ⟨_, _, s⟩

/-- An SFN whose fields have the shape of the loop is space-padded and holds
neither a lower-case letter nor one of `+,;=[]`. -/
theorem SfnShape.padded {fn g : Nat → Nat} {lb le : Nat} (h : SfnShape fn lb le)
    (hg : ∀ k, k < 11 → ldb g k = fn k) :
    SfnPadded g ∧ ∀ k, k < 11 →
      ¬ (0x61 ≤ ldb g k ∧ ldb g k ≤ 0x7A) ∧ sfn_illegal (ldb g k) = false := by
  obtain ⟨s1, s2, s3, s4, s5, s6, s7⟩ := h
  refine ⟨⟨fun k k1 k2 => ?_, fun k k1 k2 => ?_⟩, fun k hk => ?_⟩
  · rw [hg k (by omega)] at k2
    rw [hg (k + 1) (by omega)]
    have : ¬ k < lb := fun e => s4 k e k2
    exact s5 (k + 1) (by omega) k1
  · rw [hg (8 + k) (by omega)] at k2
    rw [hg (8 + k + 1) (by omega)]
    have : ¬ k < le := fun e => s6 k e k2
    exact s7 (k + 1) (by omega) k1
  · rw [hg k hk]
    exact (s3 k hk).2

theorem rdropWhile_pad (L : List Nat) (hL : ∀ x ∈ L, x ≠ 0x20) :
    ∀ m, (L ++ List.replicate m 0x20).rdropWhile (fun c => c = 0x20) = L := by
  intro m
  induction m with
  | zero =>
    rw [List.replicate_zero, List.append_nil, List.rdropWhile_eq_self_iff]
    intro hl
    have hx := hL _ (List.getLast_mem hl)
    simpa using hx
  | succ n ih =>
    rw [List.replicate_succ', ← List.append_assoc, List.rdropWhile_concat_pos _ _ _ (by simp)]
    exact ih

/-- A field of the SFN that holds the characters of `L` followed by spaces is
`L` once the padding is removed. -/
theorem sfn_field_eq (fn : Nat → Nat) (o n : Nat) (L : List Nat) (hl : L.length ≤ n)
    (hc : ∀ k, k < L.length → ldb fn (o + k) = L.getD k 0)
    (hp : ∀ k, L.length ≤ k → k < n → ldb fn (o + k) = 0x20) (hL : ∀ x ∈ L, x ≠ 0x20) :
    sfn_field fn o n = L := by
  unfold sfn_field
  have e : (List.range n).map (fun k => ldb fn (o + k)) = L ++ List.replicate (n - L.length) 0x20 := by
    apply List.ext_getElem
    · rw [List.length_map, List.length_range, List.length_append, List.length_replicate]
      omega
    · intro i h1 h2
      rw [List.getElem_map, List.getElem_range]
      by_cases c : i < L.length
      · rw [List.getElem_append_left c, hc i c, List.getD_eq_getElem _ _ c]
      · rw [List.getElem_append_right (by omega), List.getElem_replicate]
        rw [List.length_map, List.length_range] at h1
        exact hp i (by omega) h1
  rw [e]
  exact rdropWhile_pad L hL _

theorem getD_of_mem (l : List Nat) (x : Nat) (h : x ∈ l) : ∃ k, k < l.length ∧ l.getD k 0 = x := by
  obtain ⟨k, hk, e⟩ := List.getElem_of_mem h
  exact ⟨k, hk, by rw [List.getD_eq_getElem _ _ hk]; exact e⟩

theorem getD_take_lt (l : List Nat) (n k : Nat) (h : k < n) :
    (l.take n).getD k 0 = l.getD k 0 := by
  simp [List.getD_eq_getElem?_getD, List.getElem?_take, h]

theorem getD_drop_add (l : List Nat) (n k : Nat) :
    (l.drop n).getD k 0 = l.getD (n + k) 0 := by
  simp [List.getD_eq_getElem?_getD, List.getElem?_drop]

theorem getD_map_lt (l : List Nat) (f : Nat → Nat) (k : Nat) (h : k < l.length) :
    (l.map f).getD k 0 = f (l.getD k 0) := by
  rw [List.getD_eq_getElem _ _ (by rw [List.length_map]; exact h), List.getElem_map,
    List.getD_eq_getElem _ _ h]

theorem split_at_dot (name : List Nat) (d : Nat) (h1 : 1 ≤ d) (h2 : d ≤ name.length)
    (h : name.getD (d - 1) 0 = 0x2E) : name = name.take (d - 1) ++ 0x2E :: name.drop d := by
  have hlt : d - 1 < name.length := by omega
  have e := List.drop_eq_getElem_cons hlt
  rw [List.getD_eq_getElem _ _ hlt] at h
  rw [h, show d - 1 + 1 = d from by omega] at e
  rw [← e, List.take_append_drop]

/-- At the end of the SFN loop with nothing lost, the name is a body of 1 to
8 characters, followed by a dot and an extension of 1 to 3 characters or by
nothing, and the two fields of the SFN hold them upper-cased and padded. -/
theorem sfn_exact_split (lfn fn : Nat → Nat) (name : List Nat) (dd ni i : Nat)
    (hget : ∀ k, k < name.length → ldw lfn k = name.getD k 0) (hne : 1 ≤ name.length)
    (hdd : dd ≤ name.length) (hdot : 0 < dd → ldw lfn (dd - 1) = 0x2E)
    (hlast : ldw lfn (name.length - 1) ≠ 0x2E) (hni : ni = 8 ∨ ni = 11)
    (hex : SfnExact lfn dd fn ni i name.length) :
    ∃ body ext, name = (if ext = [] then body else body ++ 0x2E :: ext) ∧
      1 ≤ body.length ∧ body.length ≤ 8 ∧ ext.length ≤ 3 ∧
      (∀ x ∈ body, sfn_good x) ∧ (∀ x ∈ ext, sfn_good x) ∧
      (∀ k, k < body.length → fn k = (body.map ascii_upper).getD k 0) ∧
      (∀ k, body.length ≤ k → k < 8 → fn k = 0x20) ∧
      (∀ k, k < ext.length → fn (8 + k) = (ext.map ascii_upper).getD k 0) ∧
      (∀ k, ext.length ≤ k → k < 3 → fn (8 + k) = 0x20) := by
  obtain ⟨eb, ee⟩ := hex
  rcases hni with e8 | e11
  · obtain ⟨b0, b1, b2, b3, b4, b5⟩ := eb e8
    refine ⟨name, [], by rw [if_pos rfl], hne, b2, Nat.zero_le _, fun x hx => ?_,
      fun x hx => absurd hx (List.not_mem_nil x), fun k hk => ?_, fun k k1 k2 => b5 k k1 (by omega),
      fun k hk => absurd hk (Nat.not_lt_zero k), fun k k1 k2 => b5 (8 + k) (by omega) (by omega)⟩
    · obtain ⟨k, hk, e⟩ := getD_of_mem name x hx
      rw [← e, ← hget k hk]
      exact (b4 k hk).1
    · rw [(b4 k hk).2, hget k hk, getD_map_lt _ _ _ hk]
  · obtain ⟨x1, x2, x3, x4, x5, x6, x7, x8, x9⟩ := ee e11
    have hd1 := hdot (by omega)
    have hlt : dd < name.length := by
      by_contra c
      have : dd = name.length := by omega
      rw [this] at hd1
      exact hlast hd1
    have hsp := split_at_dot name dd (by omega) hdd (by rw [← hget _ (by omega)]; exact hd1)
    have hlb : (name.take (dd - 1)).length = dd - 1 := by
      rw [List.length_take]
      omega
    have hle : (name.drop dd).length = name.length - dd := List.length_drop _ _
    have hen : name.drop dd ≠ [] := by
      intro c
      rw [c] at hle
      simp only [List.length_nil] at hle
      omega
    refine ⟨name.take (dd - 1), name.drop dd, by rw [if_neg hen]; exact hsp, by omega,
      by omega, by omega, fun x hx => ?_, fun x hx => ?_, fun k hk => ?_,
      fun k k1 k2 => x7 k (by omega) k2, fun k hk => ?_, fun k k1 k2 => x9 (8 + k) (by omega) (by omega)⟩
    · obtain ⟨k, hk, e⟩ := getD_of_mem _ x hx
      rw [hlb] at hk
      rw [getD_take_lt _ _ _ hk] at e
      rw [← e, ← hget k (by omega)]
      exact (x6 k (by omega)).1
    · obtain ⟨k, hk, e⟩ := getD_of_mem _ x hx
      rw [hle] at hk
      rw [getD_drop_add] at e
      rw [← e, ← hget (dd + k) (by omega)]
      exact (x8 (dd + k) (by omega) (by omega)).1
    · rw [hlb] at hk
      rw [getD_map_lt _ _ _ (by rw [hlb]; exact hk), getD_take_lt _ _ _ hk, ← hget k (by omega)]
      exact (x6 k (by omega)).2
    · rw [hle] at hk
      rw [getD_map_lt _ _ _ (by rw [hle]; exact hk), getD_drop_add, ← hget (dd + k) (by omega)]
      have := (x8 (dd + k) (by omega) (by omega)).2
      rw [show dd + k - dd = k from by omega] at this
      exact this

theorem sfn_good_upper_ne (l : List Nat) (h : ∀ x ∈ l, sfn_good x) :
    ∀ x ∈ l.map ascii_upper, x ≠ 0x20 := by
  intro x hx
  obtain ⟨y, hy, e⟩ := List.mem_map.1 hx
  rw [← e]
  exact (ascii_upper_byte y (h y hy)).2.2.2

/-- The name rebuilt from an SFN whose fields hold the body and the extension
of the name, upper-cased and padded, is the name upper-cased. -/
theorem sfn_rebuild_split (g : Nat → Nat) (name body ext : List Nat)
    (hn : name = (if ext = [] then body else body ++ 0x2E :: ext))
    (hb : body.length ≤ 8) (he : ext.length ≤ 3)
    (gb : ∀ x ∈ body, sfn_good x) (ge : ∀ x ∈ ext, sfn_good x)
    (c1 : ∀ k, k < body.length → ldb g k = (body.map ascii_upper).getD k 0)
    (c2 : ∀ k, body.length ≤ k → k < 8 → ldb g k = 0x20)
    (c3 : ∀ k, k < ext.length → ldb g (8 + k) = (ext.map ascii_upper).getD k 0)
    (c4 : ∀ k, ext.length ≤ k → k < 3 → ldb g (8 + k) = 0x20) :
    sfn_rebuild g = name.map ascii_upper := by
  have f1 : sfn_field g 0 8 = body.map ascii_upper :=
    sfn_field_eq g 0 8 _ (by rw [List.length_map]; exact hb)
      (fun k hk => by rw [List.length_map] at hk; rw [Nat.zero_add]; exact c1 k hk)
      (fun k k1 k2 => by rw [List.length_map] at k1; rw [Nat.zero_add]; exact c2 k k1 k2)
      (sfn_good_upper_ne body gb)
  have f2 : sfn_field g 8 3 = ext.map ascii_upper :=
    sfn_field_eq g 8 3 _ (by rw [List.length_map]; exact he)
      (fun k hk => by rw [List.length_map] at hk; exact c3 k hk)
      (fun k k1 k2 => by rw [List.length_map] at k1; exact c4 k k1 k2)
      (sfn_good_upper_ne ext ge)
  unfold sfn_rebuild
  rw [f1, f2, hn]
  by_cases c : ext = []
  · rw [if_pos c, c]
    rfl
  · rw [if_neg c, if_neg (fun e => c (List.map_eq_nil_iff.1 e)), List.map_append, List.map_cons]
    rfl

/-- A name made of a body of 1 to 8 characters and an extension of at most 3
characters, none of them a space, a dot or one of `+,;=[]`, loses nothing. -/
theorem sfn_split_not_lossy (name body ext : List Nat)
    (hn : name = (if ext = [] then body else body ++ 0x2E :: ext))
    (h1 : 1 ≤ body.length) (hb : body.length ≤ 8) (he : ext.length ≤ 3)
    (gb : ∀ x ∈ body, sfn_good x) (ge : ∀ x ∈ ext, sfn_good x) : ¬ SfnLossy name := by
  have hall : ∀ x ∈ name, x = 0x2E ∨ sfn_good x := by
    intro x hx
    rw [hn] at hx
    split_ifs at hx with c
    · exact Or.inr (gb x hx)
    · rcases List.mem_append.1 hx with m | m
      · exact Or.inr (gb x m)
      · rcases List.mem_cons.1 m with m | m
        · exact Or.inl m
        · exact Or.inr (ge x m)
  have hnb : (0x2E : Nat) ∉ body := fun m => (gb _ m).2.1 rfl
  have hne : (0x2E : Nat) ∉ ext := fun m => (ge _ m).2.1 rfl
  have hpb : ∀ a ∈ body, (fun c : Nat => decide (c ≠ 0x2E)) a = true :=
    fun a m => decide_eq_true (gb a m).2.1
  have hpe : ∀ a ∈ ext.reverse, (fun c : Nat => decide (c ≠ 0x2E)) a = true :=
    fun a m => decide_eq_true (ge a (List.mem_reverse.1 m)).2.1
  obtain ⟨y, t, hy⟩ : ∃ y t, body = y :: t := by
    cases body with
    | nil => exact absurd h1 (by decide)
    | cons y t => exact ⟨y, t, rfl⟩
  have hhead : name.head? = some y := by
    rw [hn, hy]
    split_ifs <;> rfl
  have hgy : sfn_good y := gb y (by rw [hy]; exact List.mem_cons_self y t)
  rintro (l | l | l | l | l | l | l)
  · rw [hhead] at l
    injection l with l
    exact hgy.1 l
  · rw [hhead] at l
    injection l with l
    exact hgy.2.1 l
  · rcases hall _ l with e | e
    · exact absurd e (by decide)
    · exact e.1 rfl
  · rw [hn] at l
    split_ifs at l with c
    · rw [List.count_eq_zero_of_not_mem hnb] at l
      omega
    · rw [List.count_append, List.count_cons_self, List.count_eq_zero_of_not_mem hnb,
        List.count_eq_zero_of_not_mem hne] at l
      omega
  · obtain ⟨x, hx, hi⟩ := l
    rcases hall x hx with e | e
    · rw [e] at hi
      exact absurd hi (by decide)
    · rw [e.2.2.1] at hi
      exact absurd hi (by decide)
  · rw [hn] at l
    split_ifs at l with c
    · rw [List.takeWhile_eq_self_iff.2 hpb] at l
      omega
    · rw [List.takeWhile_append_of_pos hpb, List.takeWhile_cons_of_neg (by decide),
        List.append_nil] at l
      omega
  · obtain ⟨m, l⟩ := l
    rw [hn] at l m
    split_ifs at l m with c
    · exact hnb m
    · rw [List.reverse_append, List.reverse_cons, List.append_assoc,
        List.takeWhile_append_of_pos hpe, List.singleton_append,
        List.takeWhile_cons_of_neg (by decide), List.append_nil, List.length_reverse] at l
      omega

/-- The parts of a call of `create_name` that returns `FR_OK`: the name buffer
after the first loop, the length `d` of the name after the trailing spaces and
dots are cut, and the state the SFN loop ends with. -/
theorem create_name_ok_parts (cp : CodePage) (fs fs' : FATFS) (dp dp' : DIR_)
    (path rest : List Nat) (h : create_name cp fs dp path = some (FR_OK, fs', dp', rest)) :
    ∃ (l : Nat → Nat) (n d si w : Nat) (st : SfnState),
      dp.lfn ≠ LfnPtr.null ∧ d = create_name_snip l n ∧ d ≠ 0 ∧ d ≤ 255 ∧
      (∀ k, k < d → 0x20 ≤ ldw l k) ∧
      fs' = lfn_store fs (Function.update l d 0) dp.lfn ∧
      dp' = { dp with fn := create_name_end st } ∧
      create_name_lead (Function.update l d 0) (MAX_LFN + 1) 0 = some si ∧ si ≤ d ∧
      create_name_sfn cp (Function.update l d 0) (create_name_dot (Function.update l d 0) d)
        (2 * MAX_LFN + 4)
        { i := 0, ni := 8, si := si, b := 0,
          cf := if si > 0 ∨ ldw (Function.update l d 0) si = 0x2E
            then (if w < 0x20 then NS_LAST else 0) ||| NS_LOSS ||| NS_LFN
            else (if w < 0x20 then NS_LAST else 0),
          fn := fun k => if k < 11 then 0x20 else dp.fn k } = some st := by
  have hl : dp.lfn ≠ LfnPtr.null := by
    intro e
    unfold create_name at h
    rw [e] at h
    exact absurd h (fun h => Option.noConfusion h)
  obtain ⟨lfn0, h0⟩ : ∃ b, lfn_load fs dp.lfn = some b := by
    cases hp : dp.lfn with
    | null => exact absurd hp hl
    | member => exact ⟨_, rfl⟩
    | static => exact ⟨_, rfl⟩
  rcases hscan : create_name_scan (path.dropWhile fun c => c = 0x2F ∨ c = 0x5C) 0 lfn0
    with ⟨res, l⟩
  obtain ⟨s1, s2⟩ := create_name_scan_spec _ 0 lfn0 res l hscan
  rcases res with r | ⟨w, n, rest2⟩
  · have hr := s1 r rfl
    unfold create_name at h
    rw [h0] at h
    dsimp only at h
    rw [hscan] at h
    dsimp only at h
    injection h with h
    injection h with h _
    rw [hr] at h
    exact FRESULT.noConfusion h
  · obtain ⟨-, b2, -, b4⟩ := s2 w n rest2 rfl
    have hn : n ≤ 255 := b2 (Nat.zero_le _)
    obtain ⟨p1, p2⟩ := create_name_of_scan cp fs dp path rest2 lfn0 l w n h0 hscan hn
    have hsn := (create_name_snip_spec l n).1
    by_cases c : create_name_snip l n = 0
    · rw [p1 c] at h
      injection h with h
      injection h with h _
      exact FRESULT.noConfusion h
    · obtain ⟨si, st, q1, q2, q3, q4⟩ := p2 c
      rw [q4] at h
      injection h with h
      injection h with _ h
      injection h with h1 h
      injection h with h2 _
      exact ⟨l, n, _, si, w, st, hl, rfl, c, by omega, fun k hk => b4 k (Nat.zero_le _) (by omega),
        h1.symm, h2.symm, q1, q2, q3⟩

theorem getD_map_range (f : Nat → Nat) (n k : Nat) (h : k < n) :
    ((List.range n).map f).getD k 0 = f k := by
  rw [List.getD_eq_getElem _ _ (by rw [List.length_map, List.length_range]; exact h),
    List.getElem_map, List.getElem_range]

theorem sfn_start_cf (w : Nat) (c : Prop) [Decidable c] :
    (if c then (if w < 0x20 then NS_LAST else 0) ||| NS_LOSS ||| NS_LFN
      else (if w < 0x20 then NS_LAST else 0)) < 32 ∧
    ((if c then (if w < 0x20 then NS_LAST else 0) ||| NS_LOSS ||| NS_LFN
      else (if w < 0x20 then NS_LAST else 0)) &&& NS_LOSS = 0 → ¬ c) := by
  unfold NS_LAST NS_LOSS NS_LFN
  split_ifs with h1 h2 <;> first
    | exact ⟨by decide, fun e => absurd e (by decide)⟩
    | exact ⟨by decide, fun _ => h1⟩

set_option maxHeartbeats 1000000 in
/-- C15. For every ASCII long name accepted by `create_name` (the call returns
`FR_OK` and the name buffer holds the name `name` up to its NUL), the 11-byte
SFN is space-padded and contains no lower-case letter and none of `+,;=[]`; if
the flag `NS_LOSS` is clear, the name rebuilt from the SFN (the 8-byte body
without padding, followed by a dot and the 3-byte extension without padding
when the extension is not blank) equals the long name upper-cased; and
whenever the name starts with a space or a dot, a character is dropped (a
space, or a dot other than the last one) or replaced by an underscore (one of
`+,;=[]`), or a field overflows, `NS_LOSS` is set. -/
theorem C15_sfn_synthesis (cp : CodePage) (fs fs' : FATFS) (dp dp' : DIR_)
    (path rest : List Nat) (buf : Nat → Nat) (name : List Nat)
    (h : create_name cp fs dp path = some (FR_OK, fs', dp', rest))
    (hb : lfn_load fs' dp.lfn = some buf) (hname : HoldsName buf name)
    (hascii : ∀ x ∈ name, x < 0x80) :
    (SfnPadded dp'.fn ∧ ∀ k, k < 11 →
      ¬ (0x61 ≤ ldb dp'.fn k ∧ ldb dp'.fn k ≤ 0x7A) ∧ sfn_illegal (ldb dp'.fn k) = false) ∧
    (ldb dp'.fn NS &&& NS_LOSS = 0 → sfn_rebuild dp'.fn = name.map ascii_upper) ∧
    (SfnLossy name → ldb dp'.fn NS &&& NS_LOSS ≠ 0) := by
  obtain ⟨l, n, d, si, w, st, p1, p2, p3, p4, p5, p6, p7, p8, p9, p10⟩ :=
    create_name_ok_parts cp fs fs' dp dp' path rest h
  rw [p6, lfn_load_store fs _ dp.lfn p1] at hb
  injection hb with hb
  rw [hb] at p8 p10
  have hbd : ldw buf d = 0 := by rw [← hb]; exact ldw_update_same l d
  have hbk : ∀ k, k < d → 0x20 ≤ ldw buf k := fun k hk => by
    rw [← hb, ldw_update_ne l d k 0 (by omega)]
    exact p5 k hk
  obtain ⟨n1, n2, n3⟩ := hname
  have hlen : name.length = d := by
    rcases Nat.lt_trichotomy name.length d with c | c | c
    · have := hbk _ c
      omega
    · exact c
    · have e := n1 d c
      rw [hbd, List.getD_eq_getElem _ _ c] at e
      exact absurd e.symm (n3 _ (List.getElem_mem c))
  have hch : ∀ k, k < name.length → 0 < ldw buf k ∧ ldw buf k < 0x80 := fun k hk => by
    rw [n1 k hk, List.getD_eq_getElem _ _ hk]
    exact ⟨Nat.pos_of_ne_zero (n3 _ (List.getElem_mem hk)), hascii _ (List.getElem_mem hk)⟩
  obtain ⟨d1, d2, -⟩ := create_name_dot_spec buf d
  have hlast : ldw buf (name.length - 1) ≠ 0x2E := by
    rw [hlen, ← hb, ldw_update_ne l d (d - 1) 0 (by omega)]
    rcases (create_name_snip_spec l n).2.2 with e | e
    · exact absurd (p2.trans e) p3
    · rw [← p2] at e
      exact e.2
  subst hlen
  generalize hdd : create_name_dot buf name.length = dd at p10 d1 d2
  obtain ⟨q1, q2⟩ := sfn_start_cf w (si > 0 ∨ ldw buf si = 0x2E)
  generalize (if si > 0 ∨ ldw buf si = 0x2E then (if w < 0x20 then NS_LAST else 0) ||| NS_LOSS ||| NS_LFN
    else (if w < 0x20 then NS_LAST else 0)) = cf0 at p10 q1 q2
  have hinv : SfnInv buf name.length dd
      { i := 0, ni := 8, si := si, b := 0, cf := cf0, fn := fun k => if k < 11 then 0x20 else dp.fn k } := by
    refine ⟨p9, q1, Or.inl rfl, Or.inl ⟨rfl, Nat.zero_le _, Nat.zero_le _, fun k hk => ?_,
      fun k hk => absurd hk (Nat.not_lt_zero k), fun k k1 k2 => ?_,
      fun k hk => absurd hk (Nat.not_lt_zero k), fun k k1 k2 => ?_⟩, fun hl => ?_⟩
    · dsimp only
      rw [if_pos hk]
      decide
    · dsimp only
      rw [if_pos (by omega)]
    · dsimp only
      rw [if_pos (by omega)]
    · have hq := q2 hl
      have hs0 : si = 0 := by
        by_contra c
        exact hq (Or.inl (by omega))
      have hnd : ldw buf 0 ≠ 0x2E := fun e => hq (Or.inr (by rw [hs0]; exact e))
      show SfnExact buf dd (fun k => if k < 11 then 0x20 else dp.fn k) 8 0 si
      refine ⟨fun _ => ⟨fun e => ?_, hs0.symm, by omega, by omega,
        fun k hk => absurd hk (by omega), fun k k1 k2 => ?_⟩, fun e => absurd e (by decide)⟩
      · have := d2 (by omega)
        rw [e] at this
        exact hnd this
      · dsimp only
        rw [if_pos k2]
  obtain ⟨r1, r2, r3, r4⟩ := create_name_sfn_inv cp buf name.length dd hch hbd d1 _ _ st hinv p10
  obtain ⟨lb, le, hsh⟩ := r3.shape
  have hg : ∀ k, k < 11 → ldb dp'.fn k = st.fn k := fun k hk => by
    rw [p7]
    dsimp only
    rw [create_name_end_bytes st (hsh.2.2.1 0 (by omega)).1 k hk, hsh.ldb_eq k hk]
  have hloss : ldb dp'.fn NS &&& NS_LOSS = st.cf &&& NS_LOSS := by
    rw [p7]
    exact create_name_end_loss st r1
  have hsplit := fun hl => sfn_exact_split buf st.fn name dd st.ni st.i n1 (by omega) d1 d2
    hlast r2 (r4 hl)
  refine ⟨hsh.padded hg, fun hl => ?_, fun hy hl => ?_⟩
  · rw [hloss] at hl
    obtain ⟨body, ext, s1, s2, s3, s4, s5, s6, s7, s8, s9, s10⟩ := hsplit hl
    exact sfn_rebuild_split dp'.fn name body ext s1 s3 s4 s5 s6
      (fun k hk => by rw [hg k (by omega)]; exact s7 k hk)
      (fun k k1 k2 => by rw [hg k (by omega)]; exact s8 k k1 k2)
      (fun k hk => by rw [hg (8 + k) (by omega)]; exact s9 k hk)
      (fun k k1 k2 => by rw [hg (8 + k) (by omega)]; exact s10 k k1 k2)
  · rw [hloss] at hl
    obtain ⟨body, ext, s1, s2, s3, s4, s5, s6, -⟩ := hsplit hl
    exact sfn_split_not_lossy name body ext s1 s2 s3 s4 s5 s6 hy

/-- C15 (witness): the path `/ab.txt`. The name `ab.txt` is accepted, the flag
`NS_LOSS` is clear and the name rebuilt from the SFN is `AB.TXT`. -/
theorem C15_sfn_synthesis_witness :
    ∃ fs' dp' rest buf,
      create_name asciiPage exFat12 exDj [0x2F, 0x61, 0x62, 0x2E, 0x74, 0x78, 0x74]
        = some (FR_OK, fs', dp', rest) ∧
      lfn_load fs' exDj.lfn = some buf ∧
      HoldsName buf [0x61, 0x62, 0x2E, 0x74, 0x78, 0x74] ∧
      (∀ x ∈ [0x61, 0x62, 0x2E, 0x74, 0x78, 0x74], x < 0x80) ∧
      ldb dp'.fn NS &&& NS_LOSS = 0 ∧
      sfn_rebuild dp'.fn = [0x41, 0x42, 0x2E, 0x54, 0x58, 0x54] := by
  have hm : (create_name asciiPage exFat12 exDj [0x2F, 0x61, 0x62, 0x2E, 0x74, 0x78, 0x74]).map
      (fun r => (r.1, (lfn_load r.2.1 exDj.lfn).map (fun b => (List.range 7).map (fun k => ldw b k)),
        ldb r.2.2.1.fn NS &&& NS_LOSS))
      = some (FR_OK, some [0x61, 0x62, 0x2E, 0x74, 0x78, 0x74, 0], 0) := by decide
  rcases hc : create_name asciiPage exFat12 exDj [0x2F, 0x61, 0x62, 0x2E, 0x74, 0x78, 0x74]
    with _ | ⟨r, fs', dp', rest⟩
  · rw [hc] at hm
    exact absurd hm (fun h => Option.noConfusion h)
  · rw [hc] at hm
    injection hm with hm
    injection hm with hm1 hm
    injection hm with hm2 hm3
    dsimp only at hm1 hm2 hm3
    subst hm1
    rcases hb : lfn_load fs' exDj.lfn with _ | buf
    · rw [hb] at hm2
      exact absurd hm2 (fun h => Option.noConfusion h)
    · rw [hb] at hm2
      injection hm2 with hm2
      have e : ∀ k, k < 7 → ldw buf k = [0x61, 0x62, 0x2E, 0x74, 0x78, 0x74, 0].getD k 0 :=
        fun k hk => by rw [← hm2, getD_map_range _ _ _ hk]
      have hn : HoldsName buf [0x61, 0x62, 0x2E, 0x74, 0x78, 0x74] :=
        ⟨fun k hk => by
            have hk6 : k < 6 := hk
            rw [e k (by omega)]
            interval_cases k <;> rfl,
          e 6 (by decide), by decide⟩
      have ha : ∀ x ∈ [0x61, 0x62, 0x2E, 0x74, 0x78, 0x74], x < 0x80 := by decide
      exact ⟨fs', dp', rest, buf, rfl, hb, hn, ha, hm3,
        (C15_sfn_synthesis asciiPage exFat12 fs' exDj dp' _ rest buf _ hc hb hn ha).2.1 hm3⟩

end FatFs
